import Mathlib

/-!
# Implicit Crowds: locality-query index and agent stepping

A shallow embedding of `src/library/src/lq2D.cpp` (the bin-lattice locality
query database), of the `tokenType` wrapper of
`include/proximitydatabase/Proximity2D.h`, and of `ImplicitAgent::doStep`
from `src/library/src/ImplicitAgent.cpp`.

Modelling conventions.

* `double` is an ordered field `K` carrying a floor function (the definitions
  are generic and run over `ℚ`; statements about `sqrt` are made over `ℝ`).
  Rounding is not modelled.
* The C cast `(int) d` is truncation toward zero, `truncToInt`.
* Pointers to proxies are natural numbers (addresses in a proxy heap); the
  null pointer is `none`.  A pointer to a bin slot (`lqClientProxy2D**`) is a
  `BinRef`: either `&lq->bins[i]` or `&lq->other`.
* `while` loops over linked lists take a fuel argument and return `none` when
  the fuel runs out.
-/

set_option linter.unusedTactic false
set_option linter.unreachableTactic false
set_option linter.unusedVariables false
set_option linter.unusedSectionVars false

namespace ImplicitCrowds

/-! ## Data model -/

/-- The C cast `(int) q` of a `double`: truncation toward zero. -/
def truncToInt {K : Type} [LinearOrderedField K] [FloorRing K] (q : K) : Int :=
  if 0 ≤ q then ⌊q⌋ else -⌊-q⌋

/-- A value of type `lqClientProxy2D**`: the address of a bin slot. -/
inductive BinRef where
  | bins (i : Int) : BinRef
  | other : BinRef
  deriving DecidableEq, Repr

/-- The struct `lqClientProxy2D` of `lq2d.h`. -/
structure lqClientProxy2D (K : Type) where
  prev : Option Nat
  next : Option Nat
  bin : Option BinRef
  object : Nat
  x : K
  y : K

/-- The struct `lqInternalDB2D` of `lq2d.h`; `bins` is the bin array. -/
structure lqInternalDB2D (K : Type) where
  originx : K
  originy : K
  sizex : K
  sizey : K
  divx : Int
  divy : Int
  bins : Int → Option Nat
  other : Option Nat

/-- The memory the index lives in: the database record, the heap of proxies
(one proxy per `tokenType`), and the number of proxies allocated so far. -/
structure LQMem (K : Type) where
  lq : lqInternalDB2D K
  proxy : Nat → lqClientProxy2D K
  nproxy : Nat

variable {K : Type}

/-- Read through a bin pointer: `*bin`. -/
def LQMem.deref (m : LQMem K) : BinRef → Option Nat
  | BinRef.bins i => m.lq.bins i
  | BinRef.other => m.lq.other

/-- Write through a bin pointer: `*bin = v`. -/
def LQMem.assign (m : LQMem K) (bin : BinRef) (v : Option Nat) : LQMem K :=
  match bin with
  | BinRef.bins i => { m with lq := { m.lq with bins := Function.update m.lq.bins i v } }
  | BinRef.other => { m with lq := { m.lq with other := v } }

/-- The assignment `object->prev = v`. -/
def LQMem.setPrev (m : LQMem K) (object : Nat) (v : Option Nat) : LQMem K :=
  { m with proxy := Function.update m.proxy object { m.proxy object with prev := v } }

/-- The assignment `object->next = v`. -/
def LQMem.setNext (m : LQMem K) (object : Nat) (v : Option Nat) : LQMem K :=
  { m with proxy := Function.update m.proxy object { m.proxy object with next := v } }

/-- The assignment `object->bin = v`. -/
def LQMem.setBin (m : LQMem K) (object : Nat) (v : Option BinRef) : LQMem K :=
  { m with proxy := Function.update m.proxy object { m.proxy object with bin := v } }

/-- The assignments `object->x = x; object->y = y`. -/
def LQMem.setXY (m : LQMem K) (object : Nat) (x y : K) : LQMem K :=
  { m with proxy := Function.update m.proxy object { m.proxy object with x := x, y := y } }

/-! ## `lq2D.cpp` -/

/-- Source function `lqInitDatabase2D`: fill in the slots and null every bin. -/
def lqInitDatabase2D (originx originy sizex sizey : K) (divx divy : Int) : lqInternalDB2D K :=
  { originx := originx, originy := originy, sizex := sizex, sizey := sizey,
    divx := divx, divy := divy, bins := fun _ => none, other := none }

/-- Source function `lqCreateDatabase2D`: allocate a database and initialise it. -/
def lqCreateDatabase2D (originx originy sizex sizey : K) (divx divy : Int) : lqInternalDB2D K :=
  lqInitDatabase2D originx originy sizex sizey divx divy

/-- Source function `lqBinForLocation2D`: the bin slot for a location. -/
def lqBinForLocation2D [LinearOrderedField K] [FloorRing K]
    (lq : lqInternalDB2D K) (x y : K) : BinRef :=
  if x < lq.originx then BinRef.other
  else if y < lq.originy then BinRef.other
  else if x ≥ lq.originx + lq.sizex then BinRef.other
  else if y ≥ lq.originy + lq.sizey then BinRef.other
  else
    let ix := truncToInt (((x - lq.originx) / lq.sizex) * (lq.divx : K))
    let iy := truncToInt (((y - lq.originy) / lq.sizey) * (lq.divy : K))
    let i := ix * lq.divy + iy
    BinRef.bins i

/-- Source function `lqInitClientProxy2D`: null the list pointers and record the client. -/
def lqInitClientProxy2D (proxy : lqClientProxy2D K) (clientObject : Nat) : lqClientProxy2D K :=
  { proxy with prev := none, next := none, bin := none, object := clientObject }

/-- Source function `lqAddToBin`: link `object` at the head of the list of `bin`. -/
def lqAddToBin (m : LQMem K) (object : Nat) (bin : BinRef) : LQMem K :=
  let m1 :=
    match m.deref bin with
    | none =>
      ((m.setPrev object none).setNext object none).assign bin (some object)
    | some head =>
      (((m.setPrev object none).setNext object (some head)).setPrev head (some object)).assign
        bin (some object)
  m1.setBin object (some bin)

/-- Source function `lqRemoveFromBin`: unlink `object` from the list of its current bin. -/
def lqRemoveFromBin (m : LQMem K) (object : Nat) : LQMem K :=
  let m3 :=
    match (m.proxy object).bin with
    | none => m
    | some bin =>
      let m1 := if m.deref bin = some object then m.assign bin (m.proxy object).next else m
      let m2 :=
        match (m1.proxy object).prev with
        | some pr => m1.setNext pr (m1.proxy object).next
        | none => m1
      match (m2.proxy object).next with
      | some nx => m2.setPrev nx (m2.proxy object).prev
      | none => m2
  ((m3.setPrev object none).setNext object none).setBin object none

/-- Source function `lqUpdateForNewLocation`: store the location and re-bin when the bin changed. -/
def lqUpdateForNewLocation [LinearOrderedField K] [FloorRing K]
    (m : LQMem K) (object : Nat) (x y : K) : LQMem K :=
  let newBin := lqBinForLocation2D m.lq x y
  let m1 := m.setXY object x y
  if some newBin ≠ (m1.proxy object).bin then
    lqAddToBin (lqRemoveFromBin m1 object) object newBin
  else m1

/-- Source function `lqTraverseBinClientObjectList`: walk a bin list from `co`, calling `func`
on every proxy closer than the radius. -/
def lqTraverseBinClientObjectList [LinearOrderedField K] {σ : Type} (m : LQMem K)
    (x y radiusSquared : K) (func : Nat → K → σ → σ) : Nat → Option Nat → σ → Option σ
  | 0, _, _ => none
  | _ + 1, none, state => some state
  | fuel + 1, some co, state =>
    let dx := (m.proxy co).x - x
    let dy := (m.proxy co).y - y
    let distanceSquared := (dx * dx) + (dy * dy)
    let state1 :=
      if distanceSquared < radiusSquared then func (m.proxy co).object distanceSquared state
      else state
    lqTraverseBinClientObjectList m x y radiusSquared func fuel (m.proxy co).next state1

/-- The integers `lo, lo + 1, ..., hi` of a loop `for (i = lo; i <= hi; i++)`. -/
def loopRange (lo hi : Int) : List Int :=
  (List.range (hi + 1 - lo).toNat).map (fun (k : Nat) => lo + (k : Int))

/-- The bin numbers `iindex + jindex` that the two nested loops of
`lqMapOverAllObjectsInLocalityClipped` reach, in the order they reach them;
`iindex` and `jindex` are advanced incrementally as in the source. -/
def clippedBinNumbers (slab minBinX minBinY maxBinX maxBinY : Int) : List Int :=
  let istart := minBinX * slab
  let jstart := minBinY
  ((loopRange minBinX maxBinX).foldl
    (fun (acc : Int × List Int) _ =>
      let iindex := acc.1
      let inner := (loopRange minBinY maxBinY).foldl
        (fun (a : Int × List Int) _ =>
          let jindex := a.1
          (jindex + 1, a.2 ++ [iindex + jindex]))
        (jstart, acc.2)
      (iindex + slab, inner.2))
    (istart, [])).2

/-- One call of `lqTraverseBinClientObjectList` on the list of a bin slot. -/
def traverseBin [LinearOrderedField K] {σ : Type} (fuel : Nat) (m : LQMem K)
    (x y radiusSquared : K) (func : Nat → K → σ → σ) (state : σ) (bin : BinRef) : Option σ :=
  lqTraverseBinClientObjectList m x y radiusSquared func fuel (m.deref bin) state

/-- Source function `lqMapOverAllObjectsInLocalityClipped`: traverse the bins of the clipped range. -/
def lqMapOverAllObjectsInLocalityClipped [LinearOrderedField K] {σ : Type} (fuel : Nat)
    (m : LQMem K) (x y radius : K) (func : Nat → K → σ → σ) (state : σ)
    (minBinX minBinY maxBinX maxBinY : Int) : Option σ :=
  let slab := m.lq.divy
  let radiusSquared := radius * radius
  (clippedBinNumbers slab minBinX minBinY maxBinX maxBinY).foldlM
    (fun st i => traverseBin fuel m x y radiusSquared func st (BinRef.bins i)) state

/-- Source function `lqMapOverAllOutsideObjects`: traverse the list of the `other` bin. -/
def lqMapOverAllOutsideObjects [LinearOrderedField K] {σ : Type} (fuel : Nat)
    (m : LQMem K) (x y radius : K) (func : Nat → K → σ → σ) (state : σ) : Option σ :=
  let co := m.lq.other
  let radiusSquared := radius * radius
  lqTraverseBinClientObjectList m x y radiusSquared func fuel co state

/-- The test `completelyOutside` of `lqMapOverAllObjectsInLocality`. -/
def completelyOutside [LinearOrderedField K] (lq : lqInternalDB2D K) (x y radius : K) : Bool :=
  decide ((x + radius) < lq.originx) ||
  decide ((y + radius) < lq.originy) ||
  decide ((x - radius) ≥ lq.originx + lq.sizex) ||
  decide ((y - radius) ≥ lq.originy + lq.sizey)

/-- The bin coordinates computed by `lqMapOverAllObjectsInLocality` before
clipping, as `(minBinX, minBinY, maxBinX, maxBinY)`. -/
def localityBinCoords [LinearOrderedField K] [FloorRing K]
    (lq : lqInternalDB2D K) (x y radius : K) : Int × Int × Int × Int :=
  (truncToInt ((((x - radius) - lq.originx) / lq.sizex) * (lq.divx : K)),
   truncToInt ((((y - radius) - lq.originy) / lq.sizey) * (lq.divy : K)),
   truncToInt ((((x + radius) - lq.originx) / lq.sizex) * (lq.divx : K)),
   truncToInt ((((y + radius) - lq.originy) / lq.sizey) * (lq.divy : K)))

/-- The clipping block of `lqMapOverAllObjectsInLocality`: returns `partlyOut`
and the clipped `(minBinX, minBinY, maxBinX, maxBinY)`. -/
def clipBinCoords (divx divy : Int) (c : Int × Int × Int × Int) :
    Bool × Int × Int × Int × Int :=
  let partlyOut := false
  let (partlyOut, minBinX) := if c.1 < 0 then (true, (0 : Int)) else (partlyOut, c.1)
  let (partlyOut, minBinY) := if c.2.1 < 0 then (true, (0 : Int)) else (partlyOut, c.2.1)
  let (partlyOut, maxBinX) := if c.2.2.1 ≥ divx then (true, divx - 1) else (partlyOut, c.2.2.1)
  let (partlyOut, maxBinY) := if c.2.2.2 ≥ divy then (true, divy - 1) else (partlyOut, c.2.2.2)
  (partlyOut, minBinX, minBinY, maxBinX, maxBinY)

/-- Source function `lqMapOverAllObjectsInLocality`: the radius query. -/
def lqMapOverAllObjectsInLocality [LinearOrderedField K] [FloorRing K] {σ : Type} (fuel : Nat)
    (m : LQMem K) (x y radius : K) (func : Nat → K → σ → σ) (state : σ) : Option σ :=
  if completelyOutside m.lq x y radius then
    lqMapOverAllOutsideObjects fuel m x y radius func state
  else
    let c := clipBinCoords m.lq.divx m.lq.divy (localityBinCoords m.lq x y radius)
    let partlyOut := c.1
    let afterOutside :=
      if partlyOut then lqMapOverAllOutsideObjects fuel m x y radius func state
      else some state
    afterOutside.bind (fun st =>
      lqMapOverAllObjectsInLocalityClipped fuel m x y radius func st
        c.2.1 c.2.2.1 c.2.2.2.1 c.2.2.2.2)

/-- The bin slots whose lists `lqMapOverAllObjectsInLocality` traverses for a
query, in order (the same control flow with the traversals left out). -/
def localityBinsVisited [LinearOrderedField K] [FloorRing K]
    (lq : lqInternalDB2D K) (x y radius : K) : List BinRef :=
  if completelyOutside lq x y radius then [BinRef.other]
  else
    let c := clipBinCoords lq.divx lq.divy (localityBinCoords lq x y radius)
    (if c.1 then [BinRef.other] else []) ++
      (clippedBinNumbers lq.divy c.2.1 c.2.2.1 c.2.2.2.1 c.2.2.2.2).map BinRef.bins

/-- The loop of `lqRemoveAllObjectsInBin`: `while (bin != NULL) lqRemoveFromBin(bin)`,
where `bin` is the by-value parameter, which the loop body never assigns. -/
def lqRemoveAllObjectsInBin : Nat → LQMem K → Option Nat → Option (LQMem K)
  | 0, _, _ => none
  | _ + 1, m, none => some m
  | fuel + 1, m, some bin => lqRemoveAllObjectsInBin fuel (lqRemoveFromBin m bin) (some bin)

/-- Source function `lqRemoveAllObjects`: call `lqRemoveAllObjectsInBin` on every bin, then on `other`. -/
def lqRemoveAllObjects (fuel : Nat) (m : LQMem K) : Option (LQMem K) :=
  let bincount := m.lq.divx * m.lq.divy
  ((loopRange 0 (bincount - 1)).foldlM
    (fun (st : LQMem K) i => lqRemoveAllObjectsInBin fuel st (st.lq.bins i)) m).bind
    (fun st => lqRemoveAllObjectsInBin fuel st st.lq.other)

/-! ## `Proximity2D.h`: the token wrapper -/

/-- Source function `LQProximityDatabase2D::allocateToken`: `new tokenType(item, *this)`, whose
constructor calls `lqInitClientProxy2D(&proxy, parentObject)` on the proxy
embedded in the new token.  The new token is the proxy at address `nproxy`. -/
def allocateToken (m : LQMem K) (item : Nat) : LQMem K :=
  { m with
    proxy := Function.update m.proxy m.nproxy (lqInitClientProxy2D (m.proxy m.nproxy) item)
    nproxy := m.nproxy + 1 }

/-- Source function `tokenType::updateForNewPosition`. -/
def updateForNewPosition [LinearOrderedField K] [FloorRing K]
    (m : LQMem K) (token : Nat) (x y : K) : LQMem K :=
  lqUpdateForNewLocation m token x y

/-- The callback of `tokenType::findNeighbors`: `results.push_back(clientObject)`. -/
def pushBackObject (clientObject : Nat) (_distanceSquared : K) (results : List Nat) : List Nat :=
  results ++ [clientObject]

/-- Source function `tokenType::findNeighbors`: the radius query collecting client objects. -/
def findNeighbors [LinearOrderedField K] [FloorRing K] (fuel : Nat) (m : LQMem K)
    (cx cy radius : K) (results : List Nat) : Option (List Nat) :=
  lqMapOverAllObjectsInLocality fuel m cx cy radius pushBackObject results

/-- The calls a client makes on the index: create a token, report a new
position of a token, unlink a token (`lqRemoveFromBin`, called by `~tokenType`). -/
inductive IndexOp (K : Type) where
  | allocateToken (item : Nat) : IndexOp K
  | updateForNewPosition (token : Nat) (x y : K) : IndexOp K
  | removeFromBin (token : Nat) : IndexOp K

/-- Run one call.  A call on a token that was never allocated is not a call a
client can make; it leaves the memory unchanged. -/
def IndexOp.apply [LinearOrderedField K] [FloorRing K] (m : LQMem K) : IndexOp K → LQMem K
  | IndexOp.allocateToken item => ImplicitCrowds.allocateToken m item
  | IndexOp.updateForNewPosition token x y =>
    if token < m.nproxy then ImplicitCrowds.updateForNewPosition m token x y else m
  | IndexOp.removeFromBin token =>
    if token < m.nproxy then lqRemoveFromBin m token else m

/-- The memory right after `lqCreateDatabase2D`: no token allocated yet, the
proxy heap holding arbitrary content `heap`. -/
def LQMem.fresh (lq : lqInternalDB2D K) (heap : Nat → lqClientProxy2D K) : LQMem K :=
  { lq := lq, proxy := heap, nproxy := 0 }

/-- Run a sequence of calls, first to last. -/
def runOps [LinearOrderedField K] [FloorRing K] (m : LQMem K) (ops : List (IndexOp K)) :
    LQMem K :=
  ops.foldl IndexOp.apply m

/-- Bookkeeping for one call: the number of tokens allocated so far and, per
token, whether its last effective call was an update (`true`) or not. -/
def linkedStep (g : Nat × (Nat → Bool)) : IndexOp K → Nat × (Nat → Bool)
  | IndexOp.allocateToken _ => (g.1 + 1, g.2)
  | IndexOp.updateForNewPosition token _ _ =>
    if token < g.1 then (g.1, Function.update g.2 token true) else g
  | IndexOp.removeFromBin token =>
    if token < g.1 then (g.1, Function.update g.2 token false) else g

/-- Whether token `p` has been updated and not removed since, after `ops`. -/
def updatedNotRemoved (ops : List (IndexOp K)) (p : Nat) : Bool :=
  (ops.foldl linkedStep (0, fun _ => false)).2 p

/-- The client objects handed to `allocateToken` in `ops`, in order. -/
def allocatedItems : List (IndexOp K) → List Nat
  | [] => []
  | IndexOp.allocateToken item :: ops => item :: allocatedItems ops
  | _ :: ops => allocatedItems ops

/-! ## Bin lists -/

/-- The proxies met by the walk `co = co->next` from `co` until the null
pointer, in order. -/
def binProxies (m : LQMem K) : Nat → Option Nat → Option (List Nat)
  | 0, _ => none
  | _ + 1, none => some []
  | fuel + 1, some co => (binProxies m fuel (m.proxy co).next).map (fun l => co :: l)

/-- The list of bin slot `b` is `l`: the walk from `*b` ends at the null
pointer, for every fuel above the number of allocated proxies, and meets
exactly the proxies `l` in this order. -/
def IsBinList (m : LQMem K) (b : BinRef) (l : List Nat) : Prop :=
  ∀ fuel, m.nproxy < fuel → binProxies m fuel (m.deref b) = some l

/-- A well-linked stretch of a bin list: starting at `cur`, with `prev` the
proxy before it, the `next` pointers spell `l`, every `prev` pointer points
one step back and every proxy records bin `b`. -/
def Chain (m : LQMem K) (b : BinRef) : Option Nat → Option Nat → List Nat → Prop
  | _, cur, [] => cur = none
  | prev, cur, p :: l =>
    cur = some p ∧ (m.proxy p).prev = prev ∧ (m.proxy p).bin = some b ∧
      Chain m b (some p) (m.proxy p).next l

/-- The linked lists in memory `m` spell the family of lists `L`: every bin
list is well linked and has no repetition, only allocated proxies are on
lists, and an allocated proxy that is on no list has null pointers. -/
structure Linked (L : BinRef → List Nat) (m : LQMem K) : Prop where
  chain : ∀ b, Chain m b none (m.deref b) (L b)
  nodup : ∀ b, (L b).Nodup
  alloc : ∀ b p, p ∈ L b → p < m.nproxy
  free : ∀ p, p < m.nproxy → (∀ b, p ∉ L b) →
    (m.proxy p).prev = none ∧ (m.proxy p).next = none ∧ (m.proxy p).bin = none

/-- The linked lists in memory `m` represent the family of lists `L`, and
every proxy is on the list of the bin its stored location belongs to. -/
structure Repr [LinearOrderedField K] [FloorRing K] (L : BinRef → List Nat) (m : LQMem K)
    extends Linked L m : Prop where
  coords : ∀ b p, p ∈ L b → lqBinForLocation2D m.lq (m.proxy p).x (m.proxy p).y = b

/-- The squared distance test of `lqTraverseBinClientObjectList` for proxy `p`. -/
def withinRadius [LinearOrderedField K] (m : LQMem K) (x y radius : K) (p : Nat) : Bool :=
  decide (((m.proxy p).x - x) * ((m.proxy p).x - x) + ((m.proxy p).y - y) * ((m.proxy p).y - y)
    < radius * radius)

/-! ## `ImplicitAgent.cpp` -/

/-- The type `Vector2D` (an Eigen 2-vector of doubles). -/
structure Vector2D (K : Type) where
  x : K
  y : K

/-- Eigen operation `a - b`. -/
def Vector2D.sub [Field K] (a b : Vector2D K) : Vector2D K := ⟨a.x - b.x, a.y - b.y⟩

/-- Eigen operation `squaredNorm()`. -/
def Vector2D.squaredNorm [Field K] (a : Vector2D K) : K := a.x * a.x + a.y * a.y

/-- Eigen operation `a / s`. -/
def Vector2D.divScalar [Field K] (a : Vector2D K) (s : K) : Vector2D K := ⟨a.x / s, a.y / s⟩

/-- Eigen operation `a * s`. -/
def Vector2D.mulScalar [Field K] (a : Vector2D K) (s : K) : Vector2D K := ⟨a.x * s, a.y * s⟩

/-- The data members of class `ImplicitAgent`. -/
structure ImplicitAgent (K : Type) where
  vPref : Vector2D K
  enabled : Bool
  position : Vector2D K
  goal : Vector2D K
  orientation : Vector2D K
  velocity : Vector2D K
  radius : K
  id : Int
  activeid : Int
  gid : Int
  maxSpeed : K
  prefSpeed : K
  goalRadiusSq : K
  proximityToken : Option Nat
  path : List (Vector2D K)
  orientations : List (Vector2D K)

/-- Source function `ImplicitAgent::destroy`: delete the token (its destructor calls
`lqRemoveFromBin`) and null the pointer. -/
def ImplicitAgent.destroy (m : LQMem K) (a : ImplicitAgent K) : LQMem K × ImplicitAgent K :=
  match a.proximityToken with
  | some token => (lqRemoveFromBin m token, { a with proximityToken := none })
  | none => (m, a)

/-- Source function `ImplicitAgent::doStep`; `sqrt` is the square root of `<cmath>`. -/
def ImplicitAgent.doStep [LinearOrderedField K] (sqrt : K → K) (m : LQMem K)
    (a : ImplicitAgent K) (dt : K) : LQMem K × ImplicitAgent K :=
  let a1 := { a with vPref := a.goal.sub a.position }
  let distSqToGoal := a1.vPref.squaredNorm
  if distSqToGoal < a1.goalRadiusSq then
    let r := ImplicitAgent.destroy m a1
    (r.1, { r.2 with enabled := false })
  else if a1.prefSpeed * dt * a1.prefSpeed * dt > distSqToGoal then
    (m, { a1 with vPref := a1.vPref.divScalar dt })
  else
    (m, { a1 with vPref := a1.vPref.mulScalar (a1.prefSpeed / sqrt distSqToGoal) })

/-! ## Reachable memories, bookkeeping and scenarios -/

/-- The memory and its bookkeeping agree: `g` counts the allocated proxies
and marks exactly the proxies that are on a list of `L`. -/
def Tracks [LinearOrderedField K] [FloorRing K] (L : BinRef → List Nat) (m : LQMem K)
    (g : Nat × (Nat → Bool)) : Prop :=
  Repr L m ∧ g.1 = m.nproxy ∧ ∀ p, g.2 p = true ↔ ∃ b, p ∈ L b

/-- The memory after the calls `ops` on a freshly created database. -/
def indexAfter [LinearOrderedField K] [FloorRing K] (ox oy sx sy : K) (dx dy : Int)
    (heap : Nat → lqClientProxy2D K) (ops : List (IndexOp K)) : LQMem K :=
  runOps (LQMem.fresh (lqCreateDatabase2D ox oy sx sy dx dy) heap) ops

/-- The six geometry slots of the database record. -/
def lqInternalDB2D.geometry (lq : lqInternalDB2D K) : K × K × K × K × Int × Int :=
  (lq.originx, lq.originy, lq.sizex, lq.sizey, lq.divx, lq.divy)

/-- A proxy heap whose cells hold null proxies. -/
def nullHeap : Nat → lqClientProxy2D ℚ := fun _ => ⟨none, none, none, 0, 0, 0⟩

/-- One agent (client object 7) reported at `(-1/2, 1/2)`, left of the region `[0, 8)²`. -/
def overflowOps : List (IndexOp ℚ) :=
  [IndexOp.allocateToken 7, IndexOp.updateForNewPosition 0 (-1 / 2) (1 / 2)]

/-- Two agents (client objects 7 and 9) reported inside the region `[0, 8)²`. -/
def twoAgentOps : List (IndexOp ℚ) :=
  [IndexOp.allocateToken 7, IndexOp.allocateToken 9,
   IndexOp.updateForNewPosition 0 (1 / 2) (1 / 2), IndexOp.updateForNewPosition 1 (3 / 2) (1 / 2)]

/-- One agent (client object 0) reported at `(1000000, 0)`. -/
def farAgentOps : List (IndexOp ℚ) :=
  [IndexOp.allocateToken 0, IndexOp.updateForNewPosition 0 1000000 0]

/-- The agent of the first scenario of the specification: at `(-4, 0)`, goal
`(4, 0)`, preferred speed 1, radius `3/10`, goal radius 1, initial velocity 0;
it holds token 0. -/
def straightLineAgent [LinearOrderedField K] : ImplicitAgent K :=
  { vPref := ⟨0, 0⟩, enabled := true, position := ⟨-4, 0⟩, goal := ⟨4, 0⟩,
    orientation := ⟨1, 0⟩, velocity := ⟨0, 0⟩, radius := 3 / 10, id := 0, activeid := 0,
    gid := 0, maxSpeed := 2, prefSpeed := 1, goalRadiusSq := 1, proximityToken := some 0,
    path := [⟨-4, 0⟩], orientations := [⟨1, 0⟩] }

/-- The index covering `[-5, 5]²` in 10 × 10 bins, holding the token of
`straightLineAgent`. -/
def straightLineIndex [LinearOrderedField K] [FloorRing K] : LQMem K :=
  indexAfter (-5) (-5) 10 10 10 10 (fun _ => ⟨none, none, none, 0, 0, 0⟩)
    [IndexOp.allocateToken 0, IndexOp.updateForNewPosition 0 (-4) 0]

/-! ## `ImplicitAgent.cpp`: initialisation and advection -/

/-- Eigen operation `a + b`. -/
def Vector2D.add [Field K] (a b : Vector2D K) : Vector2D K := ⟨a.x + b.x, a.y + b.y⟩

/-- Eigen operation `normalized()`: the vector divided by its norm, and the
vector itself when its squared norm is not positive. -/
def Vector2D.normalized [LinearOrderedField K] (sqrt : K → K) (a : Vector2D K) : Vector2D K :=
  let z := a.squaredNorm
  if z > 0 then a.divScalar (sqrt z) else a

/-- The struct `AgentInitialParameters`. -/
structure AgentInitialParameters (K : Type) where
  position : Vector2D K
  goal : Vector2D K
  velocity : Vector2D K
  radius : K
  prefSpeed : K
  maxSpeed : K
  goalRadius : K
  gid : Int
  id : Int

/-- The constructor `ImplicitAgent::ImplicitAgent()` run on the raw storage
`raw`: the agent is disabled, owns no token, and its two logs are empty. -/
def ImplicitAgent.construct (raw : ImplicitAgent K) : ImplicitAgent K :=
  { raw with enabled := false, proximityToken := none, path := [], orientations := [] }

/-- Source function `ImplicitAgent::init`; `self` is the address of the agent (the
client object handed to `allocateToken`), the new token is the proxy at
address `nproxy`. -/
def ImplicitAgent.init [LinearOrderedField K] [FloorRing K] (sqrt : K → K) (m : LQMem K)
    (self : Nat) (a : ImplicitAgent K) (initialConditions : AgentInitialParameters K) :
    LQMem K × ImplicitAgent K :=
  let a1 : ImplicitAgent K :=
    { a with
      position := initialConditions.position
      radius := initialConditions.radius
      prefSpeed := initialConditions.prefSpeed
      id := initialConditions.id
      activeid := initialConditions.id
      gid := initialConditions.gid
      goalRadiusSq := initialConditions.goalRadius * initialConditions.goalRadius
      velocity := initialConditions.velocity
      goal := initialConditions.goal
      orientation := (initialConditions.goal.sub initialConditions.position).normalized sqrt
      enabled := true }
  let token := m.nproxy
  let m1 := allocateToken m self
  let m2 := updateForNewPosition m1 token a1.position.x a1.position.y
  (m2, { a1 with
    proximityToken := some token
    path := a1.path ++ [a1.position]
    orientations := a1.orientations ++ [a1.orientation] })

/-- Source function `ImplicitAgent::update`; the result is `none` when the agent owns
no token (the source then dereferences a null pointer). -/
def ImplicitAgent.update [LinearOrderedField K] [FloorRing K] (sqrt : K → K) (m : LQMem K)
    (a : ImplicitAgent K) (dt : K) : Option (LQMem K × ImplicitAgent K) :=
  let position := a.position.add (a.velocity.mulScalar dt)
  let orientation :=
    if a.velocity.x ≠ 0 ∨ a.velocity.y ≠ 0 then
      a.orientation.add (((a.velocity.normalized sqrt).sub a.orientation).mulScalar (2 / 5))
    else a.orientation
  match a.proximityToken with
  | none => none
  | some token =>
    some (updateForNewPosition m token position.x position.y,
      { a with
        position := position
        orientation := orientation
        path := a.path ++ [position]
        orientations := a.orientations ++ [orientation] })

/-- Source function `ImplicitAgent::findNeighbors`; `none` when the agent owns no token. -/
def ImplicitAgent.findNeighbors [LinearOrderedField K] [FloorRing K] (fuel : Nat) (m : LQMem K)
    (a : ImplicitAgent K) (neighborDist : K) (nn : List Nat) : Option (List Nat) :=
  match a.proximityToken with
  | none => none
  | some _ => ImplicitCrowds.findNeighbors fuel m a.position.x a.position.y neighborDist nn

/-- The setter `setVelocity`, then `update`, for each velocity of `vs` in turn. -/
def ImplicitAgent.advect [LinearOrderedField K] [FloorRing K] (sqrt : K → K) (dt : K) :
    List (Vector2D K) → LQMem K → ImplicitAgent K → Option (LQMem K × ImplicitAgent K)
  | [], m, a => some (m, a)
  | v :: vs, m, a =>
    (ImplicitAgent.update sqrt m { a with velocity := v } dt).bind
      (fun r => ImplicitAgent.advect sqrt dt vs r.1 r.2)

/-! ## `ImplicitEngine.cpp`: the energy -/

/-- The functions of `<cmath>` the engine calls. -/
structure MathFns (K : Type) where
  sqrt : K → K
  exp : K → K
  pow : K → K → K

/-- Source function `ImplicitEngine::min_distance_energy`, with the members `_dt` and
`_eta` it reads as arguments.  The result is the returned flag, the value left
in `energy`, and the gradient buffer (`none` for a null `grad`). -/
def ImplicitEngine.min_distance_energy [LinearOrderedField K] (fn : MathFns K) (dt eta : K)
    (Pa_x Pa_y Pb_x Pb_y Va_x Va_y Vb_x Vb_y radius : K) (grad : Option (K × K)) :
    Bool × K × Option (K × K) :=
  let Xx := Pb_x - Pa_x
  let Xy := Pb_y - Pa_y
  let Vx := Va_x - Vb_x
  let Vy := Va_y - Vb_y
  let speed := Vx * Vx + Vy * Vy
  let rate := Xx * Vx + Xy * Vy
  let tti0 := rate / (speed + 1 / 10000)
  let tti := max (min tti0 dt) 0
  let dx := Vx * tti - Xx
  let dy := Vy * tti - Xy
  let d := dx * dx + dy * dy
  if d ≤ radius * radius then (true, 0, grad)
  else
    let d1 := fn.sqrt d
    let distance := d1 - radius
    let energy := min (eta / distance) 9000000000
    match grad with
    | none => (false, energy, none)
    | some g =>
      if rate > 0 then
        -- the block `if (tti > 0 && tti < _dt)` declares two new locals and so
        -- leaves these two at 0
        let tti_prime_x : K := 0
        let tti_prime_y : K := 0
        let scale := -eta / (d1 * distance * distance)
        let distance_prime_x := dx * (tti + Vx * tti_prime_x) + dy * (Vy * tti_prime_x)
        let distance_prime_y := dy * (tti + Vy * tti_prime_y) + dx * (Vx * tti_prime_y)
        (false, energy, some (g.1 + scale * distance_prime_x, g.2 + scale * distance_prime_y))
      else (false, energy, some g)

/-- Source function `ImplicitEngine::inverse_ttc_energy`, with the members `_dt`, `_k`,
`_p`, `_t0`, `_eps` it reads as arguments.  The result is the returned energy
and the gradient buffer (`none` for a null `grad`). -/
def ImplicitEngine.inverse_ttc_energy [LinearOrderedField K] (fn : MathFns K)
    (dt k p t0 eps : K) (Pa_x Pa_y Pb_x Pb_y Va_x Va_y Vb_x Vb_y radius : K)
    (grad : Option (K × K)) : K × Option (K × K) :=
  let V_x := Va_x - Vb_x
  let V_y := Va_y - Vb_y
  let X_x := Pb_x - Pa_x
  let X_y := Pb_y - Pa_y
  let x := fn.sqrt (X_x * X_x + X_y * X_y)
  let Xhat_x := if x > 0 then X_x / x else X_x
  let Xhat_y := if x > 0 then X_y / x else X_y
  let vp := Xhat_x * V_x + Xhat_y * V_y
  if vp < 0 then (0, grad)
  else
    let VT_x := V_x - vp * Xhat_x
    let VT_y := V_y - vp * Xhat_y
    let vt := fn.sqrt (VT_x * VT_x + VT_y * VT_y)
    let rSq := radius * radius
    let xMinR := x * x - rSq
    let xMinR_sqrt := fn.sqrt xMinR
    let nominator := fn.sqrt (1 - eps * eps)
    let vtstar := nominator * radius * vp / xMinR_sqrt
    if vt < vtstar then
      let discr := fn.sqrt (rSq * vp * vp - xMinR * vt * vt)
      let inv_ttc := (x * vp + discr) / xMinR
      if inv_ttc > 0 then
        let mult := k * fn.pow inv_ttc (p - 1) * fn.exp (-(1 / inv_ttc) / t0)
        let f := mult * inv_ttc
        match grad with
        | none => (f, none)
        | some g =>
          let VP_x := vp * Xhat_x
          let VP_y := vp * Xhat_y
          let A_x := -X_x + V_x * dt - vp * dt * Xhat_x
          let A_y := -X_y + V_y * dt - vp * dt * Xhat_y
          let B_x := (((dt * vp + x) * VT_x) * xMinR / x - X_x * dt * vt * vt + rSq * vp * A_x / x)
            / discr + dt * VP_x
          let B_y := (((dt * vp + x) * VT_y) * xMinR / x - X_y * dt * vt * vt + rSq * vp * A_y / x)
            / discr + dt * VP_y
          (f, some
            (g.1 + -mult / xMinR * ((A_x + B_x) * (p + 1 / (t0 * inv_ttc))
              - 2 * dt * (1 / t0 + p * inv_ttc) * X_x),
             g.2 + -mult / xMinR * ((A_y + B_y) * (p + 1 / (t0 * inv_ttc))
              - 2 * dt * (1 / t0 + p * inv_ttc) * X_y)))
      else (0, grad)
    else
      let inv_ttc := (x + eps * radius) * vp / xMinR - nominator / eps * (vt - vtstar) / xMinR_sqrt
      if inv_ttc > 0 then
        let mult := k * fn.exp (-(1 / inv_ttc) / t0)
        let f := mult * fn.pow inv_ttc p
        match grad with
        | none => (f, none)
        | some g =>
          let A_x := -X_x / x + V_x * dt / x - vp * dt * Xhat_x / x
          let A_y := -X_y / x + V_y * dt / x - vp * dt * Xhat_y / x
          let B_x := ((eps * radius + x) * A_x) / xMinR
            + (nominator * ((VT_x * dt * vp / x + VT_x) / vt
              + radius * nominator / xMinR_sqrt * (A_x - dt * vp * X_x / xMinR)))
              / (eps * xMinR_sqrt)
            - dt * X_x / xMinR * (vp * (eps * radius + x) / xMinR - vp / x + inv_ttc)
          let B_y := ((eps * radius + x) * A_y) / xMinR
            + (nominator * ((VT_y * dt * vp / x + VT_y) / vt
              + radius * nominator / xMinR_sqrt * (A_y - dt * vp * X_y / xMinR)))
              / (eps * xMinR_sqrt)
            - dt * X_y / xMinR * (vp * (eps * radius + x) / xMinR - vp / x + inv_ttc)
          let mult1 := mult * (-fn.pow inv_ttc (p - 1) * (p + 1 / (t0 * inv_ttc)))
          (f, some (g.1 + mult1 * B_x, g.2 + mult1 * B_y))
      else (0, grad)

/-- The data members of class `ImplicitEngine`.  The agents live in a heap
indexed by their address, `_agents[i]` is the agent at address `i`; vectors
of doubles are functions of the index, their length is `noVars` (`radius`:
`activeAgents`); `nn i` lists the addresses of the neighbours of `i`. -/
structure ImplicitEngine (K : Type) where
  dt : K
  globalTime : K
  iteration : Int
  maxSteps : Int
  reachedGoals : Bool
  spatialDatabase : LQMem K
  agents : Nat → ImplicitAgent K
  noAgents : Nat
  k : K
  p : K
  t0 : K
  eps : K
  ksi : K
  eta : K
  neighborDist : K
  newtonIter : Int
  eps_x : K
  window : Int
  pos : Nat → K
  posNew : Nat → K
  vel : Nat → K
  vGoal : Nat → K
  radius : Nat → K
  vNew : Nat → K
  noVars : Nat
  activeAgents : Nat
  nn : Nat → List Nat

/-- The quadratic part of the objective: the first statement computing `f` in
both overloads of `value`. -/
def ImplicitEngine.quadratic [LinearOrderedField K] (e : ImplicitEngine K) (vNew : Nat → K) : K :=
  1 / 2 * e.dt * (Finset.sum (Finset.range e.noVars)
      (fun i => (vNew i - e.vel i) * (vNew i - e.vel i)))
    + 1 / 2 * e.ksi * (Finset.sum (Finset.range e.noVars)
      (fun i => (vNew i - e.vGoal i) * (vNew i - e.vGoal i)))

/-- The body of the loops of `value(vNew)` for agent `i` and the entry `other`
of `_nn[i]`; the state is `(f, exit)`. -/
def ImplicitEngine.valuePair [LinearOrderedField K] (fn : MathFns K) (e : ImplicitEngine K)
    (vNew posNew : Nat → K) (i : Nat) (st : K × Bool) (other : Nat) : K × Bool :=
  if st.2 then st
  else
    let id_y := i + e.activeAgents
    let other_id := (e.agents other).activeid
    if other_id > (i : Int) then
      let other_id_y := other_id + (e.activeAgents : Int)
      let radius := e.radius i + e.radius other_id.toNat
      let r := ImplicitEngine.min_distance_energy fn e.dt e.eta (e.pos i) (e.pos id_y)
        (e.pos other_id.toNat) (e.pos other_id_y.toNat)
        (vNew i) (vNew id_y) (vNew other_id.toNat) (vNew other_id_y.toNat) radius none
      if r.1 then (st.1, true)
      else
        let ttc_energy := (ImplicitEngine.inverse_ttc_energy fn e.dt e.k e.p e.t0 e.eps
          (posNew i) (posNew id_y) (posNew other_id.toNat) (posNew other_id_y.toNat)
          (vNew i) (vNew id_y) (vNew other_id.toNat) (vNew other_id_y.toNat) radius none).1
        (st.1 + ttc_energy + r.2.1, false)
    else st

/-- Source function `ImplicitEngine::value(vNew)`, the loops run in index order.  The
member `_posNew` it overwrites is scratch storage and is kept local. -/
def ImplicitEngine.value [LinearOrderedField K] (fn : MathFns K) (e : ImplicitEngine K)
    (vNew : Nat → K) : K :=
  let posNew := fun i => e.pos i + vNew i * e.dt
  let f := e.quadratic vNew
  let st := (List.range e.activeAgents).foldl
    (fun (st : K × Bool) i =>
      if !st.2 then (e.nn i).foldl (ImplicitEngine.valuePair fn e vNew posNew i) st else st)
    (f, false)
  if st.2 then 9000000000 else st.1

/-- The body of the loops of `value(vNew, grad)` for agent `i` and the entry
`other` of `_nn[i]`; the state is `(f, exit, grad)`. -/
def ImplicitEngine.valueGradPair [LinearOrderedField K] (fn : MathFns K) (e : ImplicitEngine K)
    (vNew posNew : Nat → K) (i : Nat) (st : K × Bool × (Nat → K)) (other : Nat) :
    K × Bool × (Nat → K) :=
  if st.2.1 then st
  else
    let id_y := i + e.activeAgents
    let other_id := (e.agents other).activeid
    if other_id ≠ (i : Int) then
      let other_id_y := other_id + (e.activeAgents : Int)
      let radius := e.radius i + e.radius other_id.toNat
      let r := ImplicitEngine.min_distance_energy fn e.dt e.eta (e.pos i) (e.pos id_y)
        (e.pos other_id.toNat) (e.pos other_id_y.toNat)
        (vNew i) (vNew id_y) (vNew other_id.toNat) (vNew other_id_y.toNat) radius (some (0, 0))
      if r.1 then (st.1, true, st.2.2)
      else
        let t := ImplicitEngine.inverse_ttc_energy fn e.dt e.k e.p e.t0 e.eps
          (posNew i) (posNew id_y) (posNew other_id.toNat) (posNew other_id_y.toNat)
          (vNew i) (vNew id_y) (vNew other_id.toNat) (vNew other_id_y.toNat) radius r.2.2
        let f := if other_id > (i : Int) then st.1 + t.1 + r.2.1 else st.1
        let g := t.2.getD (0, 0)
        let grad1 := Function.update st.2.2 i (st.2.2 i + g.1)
        let grad2 := Function.update grad1 id_y (grad1 id_y + g.2)
        (f, false, grad2)
    else st

/-- Source function `ImplicitEngine::value(vNew, grad)`, the loops run in index order;
the result is the returned energy and the gradient written to `grad`. -/
def ImplicitEngine.valueGrad [LinearOrderedField K] (fn : MathFns K) (e : ImplicitEngine K)
    (vNew : Nat → K) : K × (Nat → K) :=
  let posNew := fun i => e.pos i + vNew i * e.dt
  let vNewMinVel := fun i => vNew i - e.vel i
  let vNewMinVGoal := fun i => vNew i - e.vGoal i
  let f := 1 / 2 * e.dt * (Finset.sum (Finset.range e.noVars)
      (fun i => vNewMinVel i * vNewMinVel i))
    + 1 / 2 * e.ksi * (Finset.sum (Finset.range e.noVars)
      (fun i => vNewMinVGoal i * vNewMinVGoal i))
  let grad := fun i => e.ksi * vNewMinVGoal i + (1 / e.dt) * vNewMinVel i
  let st := (List.range e.activeAgents).foldl
    (fun (st : K × Bool × (Nat → K)) i =>
      if !st.2.1 then (e.nn i).foldl (ImplicitEngine.valueGradPair fn e vNew posNew i) st
      else st)
    (f, false, grad)
  (if st.2.1 then 9000000000 else st.1, st.2.2)

/-! ## `ImplicitEngine.cpp`: the simulation loop -/

/-- The constructor of `LQProximityDatabase2D`: the database of the given
centre, dimensions and divisions, on a proxy heap with no token allocated. -/
def LQProximityDatabase2D.create [LinearOrderedField K] [FloorRing K]
    (center dimensions divisions : Vector2D K) (heap : Nat → lqClientProxy2D K) : LQMem K :=
  let halfsize := dimensions.mulScalar (1 / 2)
  let origin := center.sub halfsize
  LQMem.fresh
    (lqCreateDatabase2D origin.x origin.y dimensions.x dimensions.y
      (truncToInt ((⌊1 / 2 + divisions.x⌋ : Int) : K))
      (truncToInt ((⌊1 / 2 + divisions.y⌋ : Int) : K)))
    heap

/-- The constructor `ImplicitEngine::ImplicitEngine()` followed by
`ImplicitEngine::init`, run on the raw storage `raw`. -/
def ImplicitEngine.init [LinearOrderedField K] [FloorRing K] (raw : ImplicitEngine K)
    (xRange yRange : K) (xCells yCells : Int) : ImplicitEngine K :=
  { raw with
    noAgents := 0
    iteration := 0
    globalTime := 0
    spatialDatabase := LQProximityDatabase2D.create ⟨0, 0⟩ ⟨xRange, yRange⟩
      ⟨(xCells : K), (yCells : K)⟩ raw.spatialDatabase.proxy
    k := 3 / 2
    p := 2
    t0 := 3
    ksi := 2
    eps := 1 / 5
    eta := 1 / 100
    neighborDist := 10
    newtonIter := 100
    window := 5
    eps_x := 1 / 100000 }

/-- Source function `ImplicitEngine::addAgent`: the new agent is built in the heap cell
of address `noAgents`. -/
def ImplicitEngine.addAgent [LinearOrderedField K] [FloorRing K] (fn : MathFns K)
    (e : ImplicitEngine K) (agentConditions : AgentInitialParameters K) : ImplicitEngine K :=
  let newAgent := ImplicitAgent.construct (e.agents e.noAgents)
  let r := ImplicitAgent.init fn.sqrt e.spatialDatabase e.noAgents newAgent
    { agentConditions with id := (e.noAgents : Int) }
  { e with
    spatialDatabase := r.1
    agents := Function.update e.agents e.noAgents r.2
    noAgents := e.noAgents + 1 }

/-- The body of the first loop of `updateSimulation` for agent `i`. -/
def ImplicitEngine.doStepAgent [LinearOrderedField K] (fn : MathFns K) (e : ImplicitEngine K)
    (i : Nat) : ImplicitEngine K :=
  let r := ImplicitAgent.doStep fn.sqrt e.spatialDatabase (e.agents i) e.dt
  let e1 := { e with spatialDatabase := r.1, agents := Function.update e.agents i r.2 }
  if r.2.enabled then { e1 with reachedGoals := false, activeAgents := e1.activeAgents + 1 }
  else e1

/-- The first loop of `updateSimulation`, after the two assignments before it. -/
def ImplicitEngine.doStepAll [LinearOrderedField K] (fn : MathFns K) (e : ImplicitEngine K) :
    ImplicitEngine K :=
  (List.range e.noAgents).foldl (ImplicitEngine.doStepAgent fn)
    { e with reachedGoals := true, activeAgents := 0 }

/-- The body of the loop of `initializeProblem` for agent `i`; the state is the
engine and `counter`. -/
def ImplicitEngine.packAgent [LinearOrderedField K] [FloorRing K] (fuel : Nat)
    (st : ImplicitEngine K × Nat) (i : Nat) : Option (ImplicitEngine K × Nat) :=
  let e := st.1
  let counter := st.2
  if (e.agents i).enabled then
    let id_y := counter + e.activeAgents
    let a := e.agents i
    let pos := Function.update (Function.update e.pos counter a.position.x) id_y a.position.y
    let vel := Function.update (Function.update e.vel counter a.velocity.x) id_y a.velocity.y
    let vGoal := Function.update (Function.update e.vGoal counter a.vPref.x) id_y a.vPref.y
    let radius := Function.update e.radius counter a.radius
    let a1 := { a with activeid := (counter : Int) }
    (ImplicitAgent.findNeighbors fuel e.spatialDatabase a1 e.neighborDist []).map
      (fun nnc =>
        ({ e with
            pos := pos, vel := vel, vGoal := vGoal, radius := radius
            agents := Function.update e.agents i a1
            nn := Function.update e.nn counter nnc },
          counter + 1))
  else some st

/-- Source function `ImplicitEngine::initializeProblem`.  The resized vectors keep
whatever they held at the indices the loop does not write. -/
def ImplicitEngine.initializeProblem [LinearOrderedField K] [FloorRing K] (fuel : Nat)
    (e : ImplicitEngine K) : Option (ImplicitEngine K) :=
  let e0 := { e with noVars := e.activeAgents + e.activeAgents, vNew := fun _ => 0 }
  ((List.range e0.noAgents).foldlM (ImplicitEngine.packAgent fuel) (e0, 0)).map Prod.fst

/-- Source function `ImplicitEngine::finalizeProblem`. -/
def ImplicitEngine.finalizeProblem (e : ImplicitEngine K) : ImplicitEngine K :=
  (List.range e.noAgents).foldl
    (fun (e : ImplicitEngine K) i =>
      if (e.agents i).enabled then
        let a := e.agents i
        let v : Vector2D K :=
          ⟨e.vNew a.activeid.toNat, e.vNew (a.activeid + (e.activeAgents : Int)).toNat⟩
        { e with agents := Function.update e.agents i { a with velocity := v } }
      else e)
    e

/-- The last loop of `updateSimulation`: `update` on every enabled agent. -/
def ImplicitEngine.updateAll [LinearOrderedField K] [FloorRing K] (fn : MathFns K)
    (e : ImplicitEngine K) : Option (ImplicitEngine K) :=
  (List.range e.noAgents).foldlM
    (fun (e : ImplicitEngine K) i =>
      if (e.agents i).enabled then
        (ImplicitAgent.update fn.sqrt e.spatialDatabase (e.agents i) e.dt).map
          (fun r => { e with spatialDatabase := r.1, agents := Function.update e.agents i r.2 })
      else some e)
    e

/-- Source function `ImplicitEngine::updateSimulation`.  The argument `solver` stands
for `minimize`: from the packed engine it gives the vector left in `_vNew`. -/
def ImplicitEngine.updateSimulation [LinearOrderedField K] [FloorRing K] (fn : MathFns K)
    (solver : ImplicitEngine K → Nat → K) (fuel : Nat) (e : ImplicitEngine K) :
    Option (ImplicitEngine K) :=
  let e1 := e.doStepAll fn
  if e1.reachedGoals then some e1
  else
    (e1.initializeProblem fuel).bind (fun e2 =>
      let e3 := { e2 with vNew := solver e2 }
      let e4 := e3.finalizeProblem
      (e4.updateAll fn).map (fun e5 =>
        { e5 with globalTime := e5.globalTime + e5.dt, iteration := e5.iteration + 1 }))

/-- Source function `ImplicitEngine::endSimulation`. -/
def ImplicitEngine.endSimulation (e : ImplicitEngine K) : Bool :=
  e.reachedGoals || decide (e.iteration ≥ e.maxSteps)

/-- The calls `updateSimulation` made `n` times in a row. -/
def ImplicitEngine.steps [LinearOrderedField K] [FloorRing K] (fn : MathFns K)
    (solver : ImplicitEngine K → Nat → K) (fuel : Nat) : Nat → ImplicitEngine K →
    Option (ImplicitEngine K)
  | 0, e => some e
  | n + 1, e =>
    (ImplicitEngine.updateSimulation fn solver fuel e).bind
      (ImplicitEngine.steps fn solver fuel n)

/-! ## Scenarios for the agent and the engine -/

/-- The database `setupScenario` creates for the region `[-5, 5]²` (10 × 10
bins), on a heap of null proxies; no token is allocated. -/
def emptyIndex [LinearOrderedField K] [FloorRing K] : LQMem K :=
  LQProximityDatabase2D.create ⟨0, 0⟩ ⟨10, 10⟩ ⟨10, 10⟩ (fun _ => ⟨none, none, none, 0, 0, 0⟩)

/-- The initial conditions of the agent of the first scenario of the
specification, as `setupScenario` fills them in: start `(-4, 0)`, goal
`(4, 0)`, at rest, preferred speed 1, radius `3/10`, goal radius 1. -/
def straightLineParameters [LinearOrderedField K] : AgentInitialParameters K :=
  { position := ⟨-4, 0⟩, goal := ⟨4, 0⟩, velocity := ⟨0, 0⟩, radius := 3 / 10, prefSpeed := 1,
    maxSpeed := 2, goalRadius := 1, gid := 0, id := 0 }

/-- Storage for an agent before its constructor runs, zeroed. -/
def rawAgent [LinearOrderedField K] : ImplicitAgent K :=
  { vPref := ⟨0, 0⟩, enabled := false, position := ⟨0, 0⟩, goal := ⟨0, 0⟩,
    orientation := ⟨0, 0⟩, velocity := ⟨0, 0⟩, radius := 0, id := 0, activeid := 0,
    gid := 0, maxSpeed := 0, prefSpeed := 0, goalRadiusSq := 0, proximityToken := none,
    path := [], orientations := [] }

/-- Storage for an engine before its constructor runs, zeroed, with a heap of
zeroed agents. -/
def rawEngine [LinearOrderedField K] [FloorRing K] : ImplicitEngine K :=
  { dt := 0, globalTime := 0, iteration := 0, maxSteps := 0, reachedGoals := false,
    spatialDatabase := emptyIndex, agents := fun _ => rawAgent, noAgents := 0,
    k := 0, p := 0, t0 := 0, eps := 0, ksi := 0, eta := 0, neighborDist := 0, newtonIter := 0,
    eps_x := 0, window := 0, pos := fun _ => 0, posNew := fun _ => 0, vel := fun _ => 0,
    vGoal := fun _ => 0, radius := fun _ => 0, vNew := fun _ => 0, noVars := 0,
    activeAgents := 0, nn := fun _ => [] }

/-- The packed state of the first step of scenario 1 with `dt = 1/5` and the
default parameters of `init`: one active agent at `(-4, 0)`, at rest, with
preferred velocity `(1, 0)` and radius `3/10`; `nn0` is its neighbour list. -/
def straightLineProblem [LinearOrderedField K] [FloorRing K] (nn0 : List Nat) :
    ImplicitEngine K :=
  { ImplicitEngine.init rawEngine 10 10 10 10 with
    dt := 1 / 5
    noAgents := 1
    agents := fun _ => { (straightLineAgent : ImplicitAgent K) with vPref := ⟨1, 0⟩ }
    activeAgents := 1
    noVars := 2
    pos := fun i => if i = 0 then -4 else 0
    vel := fun _ => 0
    vGoal := fun i => if i = 0 then 1 else 0
    radius := fun _ => 3 / 10
    nn := fun i => if i = 0 then nn0 else [] }

/-! ## The terms of the objective, in the words of the specification -/

/-- The tunnelling test for the pair of active ids `(i, j)`: the flag of
`min_distance_energy` at the current positions with the candidate velocities. -/
def ImplicitEngine.tunnels [LinearOrderedField K] (fn : MathFns K) (e : ImplicitEngine K)
    (vNew : Nat → K) (i j : Nat) : Bool :=
  (ImplicitEngine.min_distance_energy fn e.dt e.eta
    (e.pos i) (e.pos (i + e.activeAgents)) (e.pos j) (e.pos (j + e.activeAgents))
    (vNew i) (vNew (i + e.activeAgents)) (vNew j) (vNew (j + e.activeAgents))
    (e.radius i + e.radius j) none).1

/-- The term `E_dist(i, j)`: the energy of `min_distance_energy` at the current
positions with the candidate velocities. -/
def ImplicitEngine.distanceEnergy [LinearOrderedField K] (fn : MathFns K) (e : ImplicitEngine K)
    (vNew : Nat → K) (i j : Nat) : K :=
  (ImplicitEngine.min_distance_energy fn e.dt e.eta
    (e.pos i) (e.pos (i + e.activeAgents)) (e.pos j) (e.pos (j + e.activeAgents))
    (vNew i) (vNew (i + e.activeAgents)) (vNew j) (vNew (j + e.activeAgents))
    (e.radius i + e.radius j) none).2.1

/-- The term `E_ttc(i, j)`: `inverse_ttc_energy` at the predicted positions
`pos + v dt` with the candidate velocities. -/
def ImplicitEngine.ttcEnergy [LinearOrderedField K] (fn : MathFns K) (e : ImplicitEngine K)
    (vNew : Nat → K) (i j : Nat) : K :=
  (ImplicitEngine.inverse_ttc_energy fn e.dt e.k e.p e.t0 e.eps
    (e.pos i + vNew i * e.dt)
    (e.pos (i + e.activeAgents) + vNew (i + e.activeAgents) * e.dt)
    (e.pos j + vNew j * e.dt)
    (e.pos (j + e.activeAgents) + vNew (j + e.activeAgents) * e.dt)
    (vNew i) (vNew (i + e.activeAgents)) (vNew j) (vNew (j + e.activeAgents))
    (e.radius i + e.radius j) none).1

/-- The neighbour pairs of a packed state: `(i, j)` for each `i` below
`activeAgents` and each entry of `nn[i]` whose active id `j` is above `i`, in
the order of the lists. -/
def ImplicitEngine.neighbourPairs (e : ImplicitEngine K) : List (Nat × Nat) :=
  (List.range e.activeAgents).flatMap (fun i =>
    ((e.nn i).filter (fun other => decide ((e.agents other).activeid > (i : Int)))).map
      (fun other => (i, (e.agents other).activeid.toNat)))

/-- The two agents of the second scenario of the specification after `init`
and the first `doStep` with `dt = 1/5`: agent 0 at `(3, 0)` heading to
`(-3, 0)`, agent 1 at `(-3, 0)` heading to `(3, 0)`, both with radius `1/2`
and preferred speed 1, agent `i` holding token `i`. -/
def headOnAgent [LinearOrderedField K] (i : Nat) : ImplicitAgent K :=
  if i = 0 then
    { vPref := ⟨-1, 0⟩, enabled := true, position := ⟨3, 0⟩, goal := ⟨-3, 0⟩,
      orientation := ⟨-1, 0⟩, velocity := ⟨0, 0⟩, radius := 1 / 2, id := 0, activeid := 0,
      gid := 0, maxSpeed := 2, prefSpeed := 1, goalRadiusSq := 1, proximityToken := some 0,
      path := [⟨3, 0⟩], orientations := [⟨-1, 0⟩] }
  else
    { vPref := ⟨1, 0⟩, enabled := true, position := ⟨-3, 0⟩, goal := ⟨3, 0⟩,
      orientation := ⟨1, 0⟩, velocity := ⟨0, 0⟩, radius := 1 / 2, id := 1, activeid := 1,
      gid := 0, maxSpeed := 2, prefSpeed := 1, goalRadiusSq := 1, proximityToken := some 1,
      path := [⟨-3, 0⟩], orientations := [⟨1, 0⟩] }

/-- The packed state of the first step of scenario 2 with `dt = 1/5` and the
default parameters of `init`; each agent is within `neighborDist` of both. -/
def headOnProblem [LinearOrderedField K] [FloorRing K] : ImplicitEngine K :=
  { ImplicitEngine.init rawEngine 10 10 10 10 with
    dt := 1 / 5
    noAgents := 2
    agents := headOnAgent
    activeAgents := 2
    noVars := 4
    pos := fun i => if i = 0 then 3 else if i = 1 then -3 else 0
    vel := fun _ => 0
    vGoal := fun i => if i = 0 then -1 else if i = 1 then 1 else 0
    radius := fun _ => 1 / 2
    nn := fun i => if i < 2 then [0, 1] else [] }

/-! ## Reachable engine states -/

/-- What the lookups of `readParameters` find in the parser: for each key the
parsed value, or `none` when `getDoubleValue` / `getIntValue` returns false
and leaves its argument unchanged. -/
structure ParsedParameters (K : Type) where
  k : Option K
  p : Option K
  t0 : Option K
  ksi : Option K
  eps : Option K
  repulsive : Option K
  neighborDist : Option K
  newtonIter : Option Int
  lbfgsWindow : Option Int
  eps_x : Option K

/-- Source function `ImplicitEngine::readParameters`, on the results of the ten lookups. -/
def ImplicitEngine.readParameters (e : ImplicitEngine K) (found : ParsedParameters K) :
    ImplicitEngine K :=
  { e with
    k := found.k.getD e.k
    p := found.p.getD e.p
    t0 := found.t0.getD e.t0
    ksi := found.ksi.getD e.ksi
    eps := found.eps.getD e.eps
    eta := found.repulsive.getD e.eta
    neighborDist := found.neighborDist.getD e.neighborDist
    newtonIter := found.newtonIter.getD e.newtonIter
    window := found.lbfgsWindow.getD e.window
    eps_x := found.eps_x.getD e.eps_x }

/-- The calls a client makes on an engine after `init`. -/
inductive EngineOp (K : Type) where
  | setTimeStep (dt : K) : EngineOp K
  | setMaxSteps (steps : Int) : EngineOp K
  | readParameters (found : ParsedParameters K) : EngineOp K
  | addAgent (agentConditions : AgentInitialParameters K) : EngineOp K
  | updateSimulation : EngineOp K

/-- Run one call; `solver` stands for `minimize`. -/
def EngineOp.apply [LinearOrderedField K] [FloorRing K] (fn : MathFns K)
    (solver : ImplicitEngine K → Nat → K) (fuel : Nat) (e : ImplicitEngine K) :
    EngineOp K → Option (ImplicitEngine K)
  | EngineOp.setTimeStep dt => some { e with dt := dt }
  | EngineOp.setMaxSteps steps => some { e with maxSteps := steps }
  | EngineOp.readParameters found => some (e.readParameters found)
  | EngineOp.addAgent agentConditions => some (e.addAgent fn agentConditions)
  | EngineOp.updateSimulation => e.updateSimulation fn solver fuel

/-- The engine after the constructor, `init`, and the calls `ops`, first to
last.  (`main` calls `setTimeStep` and `setMaxSteps` before `init`, which
does not touch what they set.) -/
def engineAfter [LinearOrderedField K] [FloorRing K] (fn : MathFns K)
    (solver : ImplicitEngine K → Nat → K) (fuel : Nat) (raw : ImplicitEngine K)
    (xRange yRange : K) (xCells yCells : Int) (ops : List (EngineOp K)) :
    Option (ImplicitEngine K) :=
  ops.foldlM (EngineOp.apply fn solver fuel) (ImplicitEngine.init raw xRange yRange xCells yCells)

/-- The number of `addAgent` calls in a sequence of calls. -/
def addAgentCalls : List (EngineOp K) → Nat
  | [] => 0
  | EngineOp.addAgent _ :: ops => addAgentCalls ops + 1
  | _ :: ops => addAgentCalls ops

/-- The rank of agent `i` among the enabled agents: the number of enabled
agents at addresses below `i`. -/
def ImplicitEngine.rank (e : ImplicitEngine K) (i : Nat) : Nat :=
  (List.range i).countP (fun j => (e.agents j).enabled)

/-- The engine and its index agree: the index is well formed with bin lists
`L`, it holds one token per agent added, an enabled agent owns a token whose
client object is the agent, a disabled agent owns none, and every proxy on a
bin list is the token of the agent that is its client object. -/
structure EngineOK [LinearOrderedField K] [FloorRing K] (L : BinRef → List Nat)
    (e : ImplicitEngine K) : Prop where
  repr : Repr L e.spatialDatabase
  count : e.spatialDatabase.nproxy = e.noAgents
  token : ∀ i, i < e.noAgents → (e.agents i).enabled = true →
    ∃ t, (e.agents i).proximityToken = some t ∧ t < e.spatialDatabase.nproxy ∧
      (e.spatialDatabase.proxy t).object = i
  released : ∀ i, i < e.noAgents → (e.agents i).enabled = false →
    (e.agents i).proximityToken = none
  owner : ∀ b p, p ∈ L b → (e.spatialDatabase.proxy p).object < e.noAgents ∧
    (e.agents (e.spatialDatabase.proxy p).object).proximityToken = some p

/-- The initial conditions of an agent that starts within its goal radius:
start `(0, 0)`, goal `(1/2, 0)`, goal radius 1. -/
def nearGoalParameters [LinearOrderedField K] : AgentInitialParameters K :=
  { position := ⟨0, 0⟩, goal := ⟨1 / 2, 0⟩, velocity := ⟨0, 0⟩, radius := 3 / 10, prefSpeed := 1,
    maxSpeed := 2, goalRadius := 1, gid := 0, id := 0 }

/-- The packed state `headOnProblem` with the parameter `k` overridden to 0. -/
def headOnProblemNoTtc [LinearOrderedField K] [FloorRing K] : ImplicitEngine K :=
  { (headOnProblem : ImplicitEngine K) with k := 0 }

/-- The no-neighbour closed form `(dt vel + ksi v_goal) / (dt + ksi)` of a
packed state. -/
def ImplicitEngine.closedForm [LinearOrderedField K] (e : ImplicitEngine K) (i : Nat) : K :=
  (e.dt * e.vel i + e.ksi * e.vGoal i) / (e.dt + e.ksi)

/-- The packed state `headOnProblem` with the parameters `k` and `eta`
overridden to 0. -/
def headOnProblemNoPairTerms [LinearOrderedField K] [FloorRing K] : ImplicitEngine K :=
  { (headOnProblem : ImplicitEngine K) with k := 0, eta := 0 }

/-- The listed pairs of a packed state: `(i, j)` for each `i` below
`activeAgents` and each entry of `nn[i]` whose active id `j` differs from `i`,
in the order of the lists.  These are the pairs `value(vNew, grad)` passes to
`min_distance_energy`. -/
def ImplicitEngine.listedPairs (e : ImplicitEngine K) : List (Nat × Nat) :=
  (List.range e.activeAgents).flatMap (fun i =>
    ((e.nn i).filter (fun other => decide ((e.agents other).activeid ≠ (i : Int)))).map
      (fun other => (i, (e.agents other).activeid.toNat)))

/-! ## `double` values with infinities and NaN -/

/-- A `double` as the line search and the optimiser see it: a finite number,
an infinity or NaN.  Arithmetic on finite numbers is exact, a zero is `+0`, and
the special values follow IEEE 754: a non-zero number divided by zero is an
infinity, `0 / 0`, `0 * inf` and `inf - inf` are NaN, and every comparison
with NaN is false. -/
inductive XDouble (K : Type) where
  | fin (a : K)
  | posInf
  | negInf
  | nan

/-- Unary minus of `double`. -/
def XDouble.neg [LinearOrderedField K] : XDouble K → XDouble K
  | .fin a => .fin (-a)
  | .posInf => .negInf
  | .negInf => .posInf
  | .nan => .nan

/-- Addition of `double`. -/
def XDouble.add [LinearOrderedField K] : XDouble K → XDouble K → XDouble K
  | .fin a, .fin b => .fin (a + b)
  | .fin _, .posInf => .posInf
  | .fin _, .negInf => .negInf
  | .posInf, .fin _ => .posInf
  | .negInf, .fin _ => .negInf
  | .posInf, .posInf => .posInf
  | .negInf, .negInf => .negInf
  | .posInf, .negInf => .nan
  | .negInf, .posInf => .nan
  | .nan, _ => .nan
  | _, .nan => .nan

/-- Subtraction of `double`. -/
def XDouble.sub [LinearOrderedField K] (x y : XDouble K) : XDouble K := x.add y.neg

/-- The infinity with the sign of `a`, NaN for `a = 0`: the product of an
infinity and a finite number. -/
def XDouble.signedInf [LinearOrderedField K] (a : K) : XDouble K :=
  if 0 < a then .posInf else if a < 0 then .negInf else .nan

/-- Multiplication of `double`. -/
def XDouble.mul [LinearOrderedField K] : XDouble K → XDouble K → XDouble K
  | .fin a, .fin b => .fin (a * b)
  | .fin a, .posInf => XDouble.signedInf a
  | .fin a, .negInf => XDouble.signedInf (-a)
  | .posInf, .fin b => XDouble.signedInf b
  | .negInf, .fin b => XDouble.signedInf (-b)
  | .posInf, .posInf => .posInf
  | .negInf, .negInf => .posInf
  | .posInf, .negInf => .negInf
  | .negInf, .posInf => .negInf
  | .nan, _ => .nan
  | _, .nan => .nan

/-- Division of `double`; the zero divisor is `+0`. -/
def XDouble.div [LinearOrderedField K] : XDouble K → XDouble K → XDouble K
  | .fin a, .fin b => if b = 0 then XDouble.signedInf a else .fin (a / b)
  | .fin _, .posInf => .fin 0
  | .fin _, .negInf => .fin 0
  | .posInf, .fin b => if 0 ≤ b then .posInf else .negInf
  | .negInf, .fin b => if 0 ≤ b then .negInf else .posInf
  | .posInf, .posInf => .nan
  | .negInf, .negInf => .nan
  | .posInf, .negInf => .nan
  | .negInf, .posInf => .nan
  | .nan, _ => .nan
  | _, .nan => .nan

/-- The function `sqrt` of `<cmath>` on `double`. -/
def XDouble.sqrt [LinearOrderedField K] (sqrt : K → K) : XDouble K → XDouble K
  | .fin a => if a < 0 then .nan else .fin (sqrt a)
  | .posInf => .posInf
  | .negInf => .nan
  | .nan => .nan

/-- The function `fabs` of `<cmath>` on `double`. -/
def XDouble.abs [LinearOrderedField K] : XDouble K → XDouble K
  | .fin a => .fin |a|
  | .posInf => .posInf
  | .negInf => .posInf
  | .nan => .nan

/-- The comparison `<` of `double`. -/
def XDouble.lt [LinearOrderedField K] : XDouble K → XDouble K → Bool
  | .fin a, .fin b => decide (a < b)
  | .fin _, .posInf => true
  | .negInf, .fin _ => true
  | .negInf, .posInf => true
  | _, _ => false

/-- The comparison `<=` of `double`. -/
def XDouble.le [LinearOrderedField K] : XDouble K → XDouble K → Bool
  | .fin a, .fin b => decide (a ≤ b)
  | .fin _, .posInf => true
  | .negInf, .fin _ => true
  | .negInf, .posInf => true
  | .posInf, .posInf => true
  | .negInf, .negInf => true
  | _, _ => false

/-- The comparison `==` of `double`. -/
def XDouble.eq [LinearOrderedField K] : XDouble K → XDouble K → Bool
  | .fin a, .fin b => decide (a = b)
  | .posInf, .posInf => true
  | .negInf, .negInf => true
  | _, _ => false

/-- The function `std::max` of `<algorithm>`: `(a < b) ? b : a`. -/
def XDouble.max [LinearOrderedField K] (a b : XDouble K) : XDouble K :=
  if a.lt b then b else a

/-- The function `std::min` of `<algorithm>`: `(b < a) ? b : a`. -/
def XDouble.min [LinearOrderedField K] (a b : XDouble K) : XDouble K :=
  if b.lt a then b else a

instance [LinearOrderedField K] : Neg (XDouble K) := ⟨XDouble.neg⟩

instance [LinearOrderedField K] : Add (XDouble K) := ⟨XDouble.add⟩

instance [LinearOrderedField K] : Sub (XDouble K) := ⟨XDouble.sub⟩

instance [LinearOrderedField K] : Mul (XDouble K) := ⟨XDouble.mul⟩

instance [LinearOrderedField K] : Div (XDouble K) := ⟨XDouble.div⟩

/-- The method `dot` of Eigen on vectors of length `n`. -/
def XDouble.dot [LinearOrderedField K] (n : Nat) (u v : Nat → XDouble K) : XDouble K :=
  (List.range n).foldl (fun acc i => acc + u i * v i) (.fin 0)

/-- The method `maxCoeff` of Eigen on an array of length `n`, the entries
compared in index order; it has no value on an empty array. -/
def XDouble.maxCoeff [LinearOrderedField K] (n : Nat) (u : Nat → XDouble K) : XDouble K :=
  match n with
  | 0 => .nan
  | n + 1 => (List.range n).foldl (fun acc i => XDouble.max acc (u (i + 1))) (u 0)

/-- The method `lpNorm<Eigen::Infinity>` of Eigen on a vector of length `n`. -/
def XDouble.lpNormInf [LinearOrderedField K] (n : Nat) (u : Nat → XDouble K) : XDouble K :=
  XDouble.maxCoeff n (fun i => (u i).abs)

/-! ## `ImplicitEngine.cpp`: the line search -/

/-- The branch `//Backtrack` of the loop of `ImplicitEngine::linesearch`: the value it
leaves in `alpha_next`, from the quadratic fit on the first backtrack
(`alpha_prev == 0`) and from the cubic fit, capped at `0.5 * alpha`, on the
later ones. -/
def ImplicitEngine.linesearchBacktrack [LinearOrderedField K] (sqrt : K → K)
    (phi0 phi_prime alpha alpha_prev phi phi_prev : XDouble K) : XDouble K :=
  if alpha_prev.eq (.fin 0) then
    -(phi_prime * alpha * alpha) / (.fin 2 * (phi - phi0 - phi_prime * alpha))
  else
    let rhs1 := phi - phi0 - alpha * phi_prime
    let rhs2 := phi_prev - phi0 - alpha_prev * phi_prime
    let alphaSq := alpha * alpha
    let alpha2Sq := alpha_prev * alpha_prev
    let denominator := alpha - alpha_prev
    let a := (rhs1 / alphaSq - rhs2 / alpha2Sq) / denominator
    let b := (-alpha_prev * rhs1 / alphaSq + alpha * rhs2 / alpha2Sq) / denominator
    let alpha_next :=
      if a.eq (.fin 0) then -phi_prime / (.fin 2 * b)
      else
        let disc := b * b - .fin 3 * a * phi_prime
        if disc.lt (.fin 0) then .fin (1 / 2) * alpha
        else if b.le (.fin 0) then (-b + disc.sqrt sqrt) / (.fin 3 * a)
        else -phi_prime / (b + disc.sqrt sqrt)
    if (XDouble.fin (1 / 2) * alpha).lt alpha_next then .fin (1 / 2) * alpha
    else alpha_next

/-- The `while (true)` loop of `ImplicitEngine::linesearch`, run for at most `fuel`
iterations; the state is `alpha`, `alpha_prev`, `phi_prev`.  `value` is the
overload `value(vNew)` on `double` vectors. -/
def ImplicitEngine.linesearchLoop [LinearOrderedField K] (sqrt : K → K)
    (value : (Nat → XDouble K) → XDouble K) (x0 searchDir : Nat → XDouble K)
    (phi0 phi_prime alpha_min : XDouble K) :
    Nat → XDouble K → XDouble K → XDouble K → Option (XDouble K)
  | 0, _, _, _ => none
  | fuel + 1, alpha, alpha_prev, phi_prev =>
    let c : XDouble K := .fin (1 / 10000)
    if alpha.lt alpha_min then some alpha
    else
      let x := fun i => x0 i + alpha * searchDir i
      let phi := value x
      if phi.lt (phi0 + c * alpha * phi_prime) then some alpha
      else
        let alpha_next := ImplicitEngine.linesearchBacktrack sqrt phi0 phi_prime alpha alpha_prev
          phi phi_prev
        ImplicitEngine.linesearchLoop sqrt value x0 searchDir phi0 phi_prime alpha_min fuel
          (XDouble.max alpha_next (.fin (1 / 10) * alpha)) alpha phi

/-- Source function `ImplicitEngine::linesearch`, with the member `_noVars` and the
overload `value(vNew)` it calls as arguments; `none` when the loop has not
returned within `fuel` iterations. -/
def ImplicitEngine.linesearch [LinearOrderedField K] (sqrt : K → K)
    (value : (Nat → XDouble K) → XDouble K) (noVars : Nat) (fuel : Nat)
    (x0 searchDir : Nat → XDouble K) (phi0 : XDouble K) (grad : Nat → XDouble K)
    (alpha_init : XDouble K) : Option (XDouble K) :=
  let phi_prime := XDouble.dot noVars searchDir grad
  let tmp := fun i => XDouble.max (x0 i).abs (.fin 1)
  let temp := XDouble.maxCoeff noVars (fun i => (searchDir i).abs / tmp i)
  let alpha_min := XDouble.fin (1 / 1000) / temp
  ImplicitEngine.linesearchLoop sqrt value x0 searchDir phi0 phi_prime alpha_min fuel
    alpha_init (.fin 0) phi0

/-- An objective on one variable for the scenarios of the line search: `-1e-4`
at the point 1 and `-1` at every other finite point. -/
def equalityObjective [LinearOrderedField K] (v : Nat → XDouble K) : XDouble K :=
  match v 0 with
  | .fin t => if t = 1 then .fin (-1 / 10000) else .fin (-1)
  | _ => .nan

/-! ## `ImplicitEngine.cpp`: the optimiser -/

/-- The variables of `ImplicitEngine::minimize` that live across the iterations of its
loop: the iterate `x0`, the history matrices `s` and `y` (`s j` is the column
`s.col(j)`), the vectors `alpha` and `rho`, the gradient, `f`, `gamma_k`,
`alpha_init`, and the integers `end` (here `endCol`), `maxiter` and `k`. -/
structure MinimizeState (K : Type) where
  x0 : Nat → XDouble K
  s : Nat → Nat → XDouble K
  y : Nat → Nat → XDouble K
  alpha : Nat → XDouble K
  rho : Nat → XDouble K
  grad : Nat → XDouble K
  f : XDouble K
  gamma_k : XDouble K
  alpha_init : XDouble K
  endCol : Int
  maxiter : Int
  k : Int

/-- The first loop of the two-loop recursion in `ImplicitEngine::minimize`, run `iter`
times from `j`; the state is `(j, rho, alpha, q)`. -/
def ImplicitEngine.minimizeBackward [LinearOrderedField K] (noVars : Nat) (window : Int)
    (s y : Nat → Nat → XDouble K) (iter : Nat)
    (st : Int × (Nat → XDouble K) × (Nat → XDouble K) × (Nat → XDouble K)) :
    Int × (Nat → XDouble K) × (Nat → XDouble K) × (Nat → XDouble K) :=
  (List.range iter).foldl
    (fun (st : Int × (Nat → XDouble K) × (Nat → XDouble K) × (Nat → XDouble K)) _ =>
      let j := if st.1 - 1 = -1 then window - 1 else st.1 - 1
      let rho := Function.update st.2.1 j.toNat
        (XDouble.fin 1 / XDouble.dot noVars (s j.toNat) (y j.toNat))
      let alpha := Function.update st.2.2.1 j.toNat
        (rho j.toNat * XDouble.dot noVars (s j.toNat) st.2.2.2)
      let q := fun i => st.2.2.2 i - alpha j.toNat * y j.toNat i
      (j, rho, alpha, q))
    st

/-- The second loop of the two-loop recursion in `ImplicitEngine::minimize`, run `iter`
times from `j`; the state is `(j, q)`. -/
def ImplicitEngine.minimizeForward [LinearOrderedField K] (noVars : Nat) (window : Int)
    (s y : Nat → Nat → XDouble K) (rho alpha : Nat → XDouble K) (iter : Nat)
    (st : Int × (Nat → XDouble K)) : Int × (Nat → XDouble K) :=
  (List.range iter).foldl
    (fun (st : Int × (Nat → XDouble K)) _ =>
      let beta := rho st.1.toNat * XDouble.dot noVars st.2 (y st.1.toNat)
      let q := fun i => st.2 i + (alpha st.1.toNat - beta) * s st.1.toNat i
      (if st.1 + 1 = window then 0 else st.1 + 1, q))
    st

/-- The two-loop recursion at the head of an iteration of `ImplicitEngine::minimize`:
the direction `q` and the vectors `rho` and `alpha` it leaves. -/
def ImplicitEngine.minimizeDirection [LinearOrderedField K] (noVars : Nat) (window : Int)
    (st : MinimizeState K) : (Nat → XDouble K) × (Nat → XDouble K) × (Nat → XDouble K) :=
  let iter := (min window st.k).toNat
  let b := ImplicitEngine.minimizeBackward noVars window st.s st.y iter
    (st.endCol, st.rho, st.alpha, st.grad)
  let q := fun i => st.gamma_k * b.2.2.2 i
  let r := ImplicitEngine.minimizeForward noVars window st.s st.y b.2.1 b.2.2.1 iter (b.1, q)
  (r.2, b.2.1, b.2.2.1)

/-- The body of the loop of `ImplicitEngine::minimize`, up to the increment of `k`:
`none` when the line search has not returned within `lsFuel` iterations,
otherwise the state it leaves and whether it left the loop by `break`.
`value` and `valueGrad` are the two overloads of `value` on `double` vectors. -/
def ImplicitEngine.minimizeStep [LinearOrderedField K] (sqrt : K → K)
    (value : (Nat → XDouble K) → XDouble K)
    (valueGrad : (Nat → XDouble K) → XDouble K × (Nat → XDouble K))
    (noVars : Nat) (window : Int) (eps_x : XDouble K) (lsFuel : Nat) (st : MinimizeState K) :
    Option (MinimizeState K × Bool) :=
  let x_old := st.x0
  let grad_old := st.grad
  let d := ImplicitEngine.minimizeDirection noVars window st
  let dir := XDouble.dot noVars d.1 st.grad
  let restart := dir.lt (.fin (1 / 10000))
  let q := if restart then st.grad else d.1
  let maxiter := if restart then st.maxiter - st.k else st.maxiter
  let k := if restart then 0 else st.k
  let alpha_init :=
    if restart then XDouble.min (.fin 1) (.fin 1 / XDouble.lpNormInf noVars st.grad)
    else st.alpha_init
  match ImplicitEngine.linesearch sqrt value noVars lsFuel st.x0 (fun i => -q i) st.f st.grad
      alpha_init with
  | none => none
  | some rate =>
    let x0 := fun i => st.x0 i - rate * q i
    let s_temp := fun i => x0 i - x_old i
    if (XDouble.lpNormInf noVars s_temp).lt eps_x then
      some ({ st with x0 := x0, alpha := d.2.2, rho := d.2.1, alpha_init := alpha_init,
                      maxiter := maxiter, k := k }, true)
    else
      let r := valueGrad x0
      let y_temp := fun i => r.2 i - grad_old i
      some ({ x0 := x0
              s := Function.update st.s st.endCol.toNat s_temp
              y := Function.update st.y st.endCol.toNat y_temp
              alpha := d.2.2
              rho := d.2.1
              grad := r.2
              f := r.1
              gamma_k := XDouble.dot noVars s_temp y_temp / XDouble.dot noVars y_temp y_temp
              alpha_init := .fin 1
              endCol := if st.endCol + 1 = window then 0 else st.endCol + 1
              maxiter := maxiter
              k := k }, false)

/-- The loop `for (int k = 0; k < maxiter; k++)` of `ImplicitEngine::minimize`, with fuel
for at most `fuel` executions of its body.  The result is `none` when the fuel
runs out; otherwise the final state, or `none` in its place when a line search
has not returned, together with the number of calls of `linesearch` made, which
is counted from `n`. -/
def ImplicitEngine.minimizeLoop [LinearOrderedField K] (sqrt : K → K)
    (value : (Nat → XDouble K) → XDouble K)
    (valueGrad : (Nat → XDouble K) → XDouble K × (Nat → XDouble K))
    (noVars : Nat) (window : Int) (eps_x : XDouble K) (lsFuel : Nat) :
    Nat → MinimizeState K → Nat → Option (Option (MinimizeState K) × Nat)
  | 0, st, n => if st.k < st.maxiter then none else some (some st, n)
  | fuel + 1, st, n =>
    if st.k < st.maxiter then
      match ImplicitEngine.minimizeStep sqrt value valueGrad noVars window eps_x lsFuel st with
      | none => some (none, n + 1)
      | some (st1, true) => some (some st1, n + 1)
      | some (st1, false) =>
        ImplicitEngine.minimizeLoop sqrt value valueGrad noVars window eps_x lsFuel fuel
          { st1 with k := st1.k + 1 } (n + 1)
    else some (some st, n)

/-- The state of `ImplicitEngine::minimize` when it enters its loop. -/
def ImplicitEngine.minimizeInit [LinearOrderedField K]
    (valueGrad : (Nat → XDouble K) → XDouble K × (Nat → XDouble K))
    (noVars : Nat) (newtonIter : Int) (x0 : Nat → XDouble K) : MinimizeState K :=
  let r := valueGrad x0
  { x0 := x0
    s := fun _ _ => .fin 0
    y := fun _ _ => .fin 0
    alpha := fun _ => .fin 0
    rho := fun _ => .fin 0
    grad := r.2
    f := r.1
    gamma_k := .fin 1
    alpha_init := XDouble.min (.fin 1) (.fin 1 / XDouble.lpNormInf noVars r.2)
    endCol := 0
    maxiter := newtonIter
    k := 0 }

/-- Source function `ImplicitEngine::minimize`, with the members `_noVars`, `_window`,
`_newtonIter`, `_eps_x` and the two overloads of `value` as arguments: the
final `x0` (or `none` when a line search has not returned) and the number of
calls of `linesearch`; `none` when the loop has not ended within `fuel`
iterations. -/
def ImplicitEngine.minimize [LinearOrderedField K] (sqrt : K → K)
    (value : (Nat → XDouble K) → XDouble K)
    (valueGrad : (Nat → XDouble K) → XDouble K × (Nat → XDouble K))
    (noVars : Nat) (window newtonIter : Int) (eps_x : XDouble K) (fuel lsFuel : Nat)
    (x0 : Nat → XDouble K) : Option (Option (Nat → XDouble K) × Nat) :=
  (ImplicitEngine.minimizeLoop sqrt value valueGrad noVars window eps_x lsFuel fuel
    (ImplicitEngine.minimizeInit valueGrad noVars newtonIter x0) 0).map
    (fun r => (r.1.map (fun st => st.x0), r.2))

/-- The column of the history matrices that was written `i` iterations ago,
`1 ≤ i ≤ window`, when `e` is the column to be written next: the columns are
written in a ring, `e - i` taken modulo `window`. -/
def ringColumn (window e i : Int) : Int :=
  if i ≤ e then e - i else e - i + window

/-- The history of a state at the head of the loop of `minimize`, in the words
of the specification: `H` lists, newest first, the pairs `(s, y)` produced
since the last restart (or since the start); `k` is their number, and the
pair produced `i + 1` iterations ago is held in column `endCol - (i + 1)`
modulo `window`, as long as `i < window`. -/
def MinimizeState.HistoryIs (window : Int) (st : MinimizeState K)
    (H : List ((Nat → XDouble K) × (Nat → XDouble K))) : Prop :=
  st.k = (H.length : Int) ∧ 0 ≤ st.endCol ∧ st.endCol < window ∧
  ∀ (i : Nat) (p : (Nat → XDouble K) × (Nat → XDouble K)), H.get? i = some p →
    (i : Int) < window →
    st.s (ringColumn window st.endCol (i + 1)).toNat = p.1 ∧
    st.y (ringColumn window st.endCol (i + 1)).toNat = p.2

/-- The initial conditions of an agent just inside the left border of the
region `[-50, 50)²`: start `(-45, 0)`, goal `(45, 0)`, at rest, preferred
speed 1, radius `1/2`, goal radius 1. -/
def borderInsideParameters [LinearOrderedField K] : AgentInitialParameters K :=
  { position := ⟨-45, 0⟩, goal := ⟨45, 0⟩, velocity := ⟨0, 0⟩, radius := 1 / 2, prefSpeed := 1,
    maxSpeed := 2, goalRadius := 1, gid := 0, id := 0 }

/-- The initial conditions of an agent just outside the left border of the
region `[-50, 50)²`: start `(-101/2, 0)`, goal `(99/2, 0)`, at rest, preferred
speed 1, radius `1/2`, goal radius 1. -/
def borderOutsideParameters [LinearOrderedField K] : AgentInitialParameters K :=
  { position := ⟨-101 / 2, 0⟩, goal := ⟨99 / 2, 0⟩, velocity := ⟨0, 0⟩, radius := 1 / 2,
    prefSpeed := 1, maxSpeed := 2, goalRadius := 1, gid := 0, id := 1 }

/-- The calls of the border scenario: the agent inside is added first, then the
agent outside, and the time step is set to `1/5`. -/
def borderOps [LinearOrderedField K] : List (EngineOp K) :=
  [EngineOp.addAgent borderInsideParameters, EngineOp.addAgent borderOutsideParameters,
    EngineOp.setTimeStep (1 / 5)]

/-- The calls on the index that the two `addAgent` calls of the border scenario
make. -/
def borderIndexOps [LinearOrderedField K] : List (IndexOp K) :=
  [IndexOp.allocateToken 0, IndexOp.updateForNewPosition 0 (-45) 0,
    IndexOp.allocateToken 1, IndexOp.updateForNewPosition 1 (-101 / 2) 0]

/-- The candidate velocities of the border scenario: the agent outside (active
id 1) moves right at speed 25, the agent inside (active id 0) stands. -/
def chargeVelocity [LinearOrderedField K] : Nat → K :=
  fun i => if i = 1 then 25 else 0

/-- The index of the border scenario: the database `init` creates for the
region of size `100 × 100` around the origin with 2 cells per axis, after the
calls `borderIndexOps`. -/
def borderIndex [LinearOrderedField K] [FloorRing K] : LQMem K :=
  indexAfter (0 - 100 * (1 / 2)) (0 - 100 * (1 / 2)) 100 100
    (truncToInt (((⌊1 / 2 + ((2 : Int) : K)⌋ : Int) : K)))
    (truncToInt (((⌊1 / 2 + ((2 : Int) : K)⌋ : Int) : K)))
    (fun _ => ⟨none, none, none, 0, 0, 0⟩) borderIndexOps

/-- The engine of the border scenario before the first step: `init` for the
region of size `100 × 100` with 2 cells per axis, the two `addAgent` calls and
`setTimeStep(1/5)`. -/
def borderEngine [LinearOrderedField K] [FloorRing K] (fn : MathFns K) : ImplicitEngine K :=
  { ((ImplicitEngine.init rawEngine 100 100 2 2).addAgent fn borderInsideParameters).addAgent fn
      borderOutsideParameters with dt := 1 / 5 }

/-- The loop `do { _engine->updateSimulation(); } while (!_engine->endSimulation());`
of `main`, with fuel for at most `n` calls of `updateSimulation`: the engine
when the loop ends, `none` when it has not ended within `n` calls. -/
def ImplicitEngine.mainLoop [LinearOrderedField K] [FloorRing K] (fn : MathFns K)
    (solver : ImplicitEngine K → Nat → K) (fuel : Nat) :
    Nat → ImplicitEngine K → Option (ImplicitEngine K)
  | 0, _ => none
  | n + 1, e =>
    (e.updateSimulation fn solver fuel).bind (fun e' =>
      if e'.endSimulation then some e' else ImplicitEngine.mainLoop fn solver fuel n e')

/-- Whether a call is `updateSimulation`. -/
def EngineOp.isUpdate : EngineOp K → Bool
  | EngineOp.updateSimulation => true
  | _ => false

/-- The calls of `main` before its loop, with one agent of scenario 1 and the
number of frames `frames`: `addAgent`, `setTimeStep(1/5)`, `setMaxSteps`. -/
def singleAgentSetup [LinearOrderedField K] (frames : Int) : List (EngineOp K) :=
  [EngineOp.addAgent straightLineParameters, EngineOp.setTimeStep (1 / 5),
    EngineOp.setMaxSteps frames]

/-- The squared distance of agent `j` to its goal, the local `distSqToGoal` of
`ImplicitAgent::doStep`. -/
def ImplicitEngine.distSqToGoal [LinearOrderedField K] (e : ImplicitEngine K) (j : Nat) : K :=
  ((e.agents j).goal.sub (e.agents j).position).squaredNorm

/-- The agent of scenario 1 with the goal radius 0. -/
def zeroRadiusParameters [LinearOrderedField K] : AgentInitialParameters K :=
  { position := ⟨-4, 0⟩, goal := ⟨4, 0⟩, velocity := ⟨0, 0⟩, radius := 3 / 10, prefSpeed := 1,
    maxSpeed := 2, goalRadius := 0, gid := 0, id := 0 }

/-! ## The parameter file reader -/

/-- The struct `Parameter`; a `string` is a list of characters. -/
structure Parameter where
  key : List Char
  value : List Char
  deriving DecidableEq

/-- The data member `args` of class `Parser`. -/
structure Parser where
  args : List Parameter
  deriving DecidableEq

/-- The loop of `Parser::findKey` from index `i` on: the index of the first
entry whose key is `key`, and `-1` when the loop ends. -/
def Parser.findKeyLoop (key : List Char) : List Parameter → Nat → Int
  | [], _ => -1
  | a :: rest, i => if a.key = key then (i : Int) else Parser.findKeyLoop key rest (i + 1)

/-- Source function `Parser::findKey`. -/
def Parser.findKey (p : Parser) (key : List Char) : Int :=
  Parser.findKeyLoop key p.args 0

/-- Source function `Parser::getStringValue`: the returned flag and the output
argument `value` after the call. -/
def Parser.getStringValue (p : Parser) (key : List Char) (value : List Char) :
    Bool × List Char :=
  let idx := p.findKey key
  if idx < 0 then (false, value)
  else (true, (p.args.getD idx.toNat ⟨[], []⟩).value)

/-- Source function `Parser::getIntValue`; `atoi` is the C library function. -/
def Parser.getIntValue (atoi : List Char → Int) (p : Parser) (key : List Char) (value : Int) :
    Bool × Int :=
  let idx := p.findKey key
  if idx < 0 then (false, value)
  else (true, atoi (p.args.getD idx.toNat ⟨[], []⟩).value)

/-- Source function `Parser::getDoubleValue`; `atof` is the C library function. -/
def Parser.getDoubleValue (atof : List Char → K) (p : Parser) (key : List Char) (value : K) :
    Bool × K :=
  let idx := p.findKey key
  if idx < 0 then (false, value)
  else (true, atof (p.args.getD idx.toNat ⟨[], []⟩).value)

/-- Membership in the string `delims` of `Parser::trimspaces`: blank, tab,
carriage return, line feed. -/
def Parser.isDelim (c : Char) : Bool :=
  c = ' ' || c = Char.ofNat 9 || c = Char.ofNat 13 || c = Char.ofNat 10

/-- The call `find_first_not_of(delims)`; `none` is `string::npos`. -/
def Parser.find_first_not_of : List Char → Option Nat
  | [] => none
  | c :: cs => if Parser.isDelim c then (Parser.find_first_not_of cs).map (fun i => i + 1)
    else some 0

/-- The call `find_last_not_of(delims)`; `none` is `string::npos`. -/
def Parser.find_last_not_of : List Char → Option Nat
  | [] => none
  | c :: cs =>
    match Parser.find_last_not_of cs with
    | some i => some (i + 1)
    | none => if Parser.isDelim c then none else some 0

/-- Source function `Parser::trimspaces`: the string after the call.  In the last
line `npos + 1` is 0. -/
def Parser.trimspaces (value : List Char) : List Char :=
  match Parser.find_first_not_of value with
  | none => []
  | some pos =>
    let value1 := (value.drop pos).take (value.length - pos)
    value1.take (match Parser.find_last_not_of value1 with
      | some i => i + 1
      | none => 0)

/-- The call `line.find(c)`; `none` is `string::npos`. -/
def Parser.find (c : Char) : List Char → Option Nat
  | [] => none
  | d :: ds => if d = c then some 0 else (Parser.find c ds).map (fun i => i + 1)

/-- The lines the loop `while (getline(input, line) && input.good())` of
`Parser::registerParameters` hands to its body, for a file with the content
`input`; `line` holds the characters of the current line read so far, last
first.  A line is handed over when its line feed is read; when the file ends
inside a line, `getline` sets `eofbit`, `good()` is false and the loop ends
without the line. -/
def Parser.readLines : List Char → List Char → List (List Char)
  | [], _ => []
  | c :: cs, line =>
    if c = Char.ofNat 10 then line.reverse :: Parser.readLines cs []
    else Parser.readLines cs (c :: line)

/-- The body of the loop of `Parser::registerParameters` for one line. -/
def Parser.registerLine (p : Parser) (line : List Char) : Parser :=
  let line1 := Parser.trimspaces line
  if line1 ≠ [] then
    match Parser.find '=' line1 with
    | some pos => ⟨p.args ++ [⟨line1.take pos, line1.drop (pos + 1)⟩]⟩
    | none => p
  else p

/-- Source function `Parser::registerParameters`; `file` is the content of the file
named, `none` when it cannot be opened.  The result is the returned flag and
the parser after the call. -/
def Parser.registerParameters (p : Parser) (file : Option (List Char)) : Bool × Parser :=
  match file with
  | none => (false, p)
  | some input => (true, (Parser.readLines input []).foldl Parser.registerLine p)

/-- Source function `ImplicitEngine::readParameters`, on a parser: each lookup gets
the member as its output argument. -/
def ImplicitEngine.readParametersFrom (atoi : List Char → Int) (atof : List Char → K)
    (e : ImplicitEngine K) (parser : Parser) : ImplicitEngine K :=
  { e with
    k := (parser.getDoubleValue atof "k".toList e.k).2
    p := (parser.getDoubleValue atof "p".toList e.p).2
    t0 := (parser.getDoubleValue atof "t0".toList e.t0).2
    ksi := (parser.getDoubleValue atof "ksi".toList e.ksi).2
    eps := (parser.getDoubleValue atof "eps".toList e.eps).2
    eta := (parser.getDoubleValue atof "repulsive".toList e.eta).2
    neighborDist := (parser.getDoubleValue atof "neighborDist".toList e.neighborDist).2
    newtonIter := (parser.getIntValue atoi "newtonIter".toList e.newtonIter).2
    window := (parser.getIntValue atoi "lbfgsWindow".toList e.window).2
    eps_x := (parser.getDoubleValue atof "eps_x".toList e.eps_x).2 }

/-- What the ten lookups of `readParameters` find in a parser. -/
def Parser.parsed (atoi : List Char → Int) (atof : List Char → K) (p : Parser) :
    ParsedParameters K :=
  let double := fun (key : List Char) =>
    if p.findKey key < 0 then none else some (atof (p.args.getD (p.findKey key).toNat ⟨[], []⟩).value)
  let int := fun (key : List Char) =>
    if p.findKey key < 0 then none else some (atoi (p.args.getD (p.findKey key).toNat ⟨[], []⟩).value)
  { k := double "k".toList, p := double "p".toList, t0 := double "t0".toList,
    ksi := double "ksi".toList, eps := double "eps".toList,
    repulsive := double "repulsive".toList, neighborDist := double "neighborDist".toList,
    newtonIter := int "newtonIter".toList, lbfgsWindow := int "lbfgsWindow".toList,
    eps_x := double "eps_x".toList }

/-- The two-loop recursion in the words of the specification, on a list of
pairs `(s, y)`, newest first, and an input vector `q`.  First loop, newest to
oldest: `rho = 1 / <s, y>`, `alpha = rho <s, q>`, `q <- q - alpha y`; then `q`
is scaled by `gamma`; second loop, oldest to newest: `beta = rho <q, y>`,
`q <- q + (alpha - beta) s`. -/
def twoLoopRecursion [LinearOrderedField K] (noVars : Nat) (gamma : XDouble K) :
    List ((Nat → XDouble K) × (Nat → XDouble K)) → (Nat → XDouble K) → (Nat → XDouble K)
  | [], q => fun i => gamma * q i
  | p :: rest, q =>
    let rho := XDouble.fin 1 / XDouble.dot noVars p.1 p.2
    let alpha := rho * XDouble.dot noVars p.1 q
    let r := twoLoopRecursion noVars gamma rest (fun i => q i - alpha * p.2 i)
    let beta := rho * XDouble.dot noVars r p.2
    fun i => r i + (alpha - beta) * p.1 i

/-- The L-BFGS approximation of the inverse Hessian built from the pairs
`(s, y)` of a list, newest first: `gamma I` for no pair, and each pair updates
the matrix `H` built from the older pairs to
`(I - rho s yᵀ) H (I - rho y sᵀ) + rho s sᵀ` with `rho = 1 / <s, y>`. -/
def lbfgsInverseHessian [Field K] (n : Nat) (gamma : K) :
    List ((Fin n → K) × (Fin n → K)) → Matrix (Fin n) (Fin n) K
  | [] => gamma • (1 : Matrix (Fin n) (Fin n) K)
  | p :: rest =>
    (1 - (1 / Matrix.dotProduct p.1 p.2) • Matrix.vecMulVec p.1 p.2) *
      lbfgsInverseHessian n gamma rest *
      (1 - (1 / Matrix.dotProduct p.1 p.2) • Matrix.vecMulVec p.2 p.1) +
    (1 / Matrix.dotProduct p.1 p.2) • Matrix.vecMulVec p.1 p.1

/-- A state of `minimize` for one variable and a window of 5 at the head of its
second iteration: the one pair stored is `s = 2`, `y = 1` (every column of the
history matrices holds it), and the gradient and `gamma_k` are as given. -/
def onePairState [LinearOrderedField K] (grad gamma : XDouble K) : MinimizeState K :=
  { x0 := fun _ => .fin 0, s := fun _ _ => .fin 2, y := fun _ _ => .fin 1,
    alpha := fun _ => .fin 0, rho := fun _ => .fin 0, grad := fun _ => grad, f := .fin 0,
    gamma_k := gamma, alpha_init := .fin 1, endCol := 1, maxiter := 100, k := 1 }

/-- An agent one step from its goal: start `(0, 0)`, goal `(1, 0)`, at rest,
preferred speed 1, goal radius `1/2`. -/
def oneStepParameters [LinearOrderedField K] : AgentInitialParameters K :=
  { position := ⟨0, 0⟩, goal := ⟨1, 0⟩, velocity := ⟨0, 0⟩, radius := 3 / 10, prefSpeed := 1,
    maxSpeed := 2, goalRadius := 1 / 2, gid := 0, id := 0 }

/-! ## Reading the memory after an assignment -/

section setters

variable (m : LQMem K) (p q : Nat) (b b' : BinRef) (v : Option Nat)

@[simp] theorem setPrev_proxy : (m.setPrev p v).proxy q =
    if q = p then { m.proxy p with prev := v } else m.proxy q := by
  simp [LQMem.setPrev, Function.update_apply]

@[simp] theorem setNext_proxy : (m.setNext p v).proxy q =
    if q = p then { m.proxy p with next := v } else m.proxy q := by
  simp [LQMem.setNext, Function.update_apply]

@[simp] theorem setBin_proxy (w : Option BinRef) : (m.setBin p w).proxy q =
    if q = p then { m.proxy p with bin := w } else m.proxy q := by
  simp [LQMem.setBin, Function.update_apply]

@[simp] theorem setXY_proxy (x y : K) : (m.setXY p x y).proxy q =
    if q = p then { m.proxy p with x := x, y := y } else m.proxy q := by
  simp [LQMem.setXY, Function.update_apply]

@[simp] theorem assign_proxy : (m.assign b v).proxy = m.proxy := by
  cases b <;> rfl

@[simp] theorem setPrev_lq : (m.setPrev p v).lq = m.lq := rfl

@[simp] theorem setNext_lq : (m.setNext p v).lq = m.lq := rfl

@[simp] theorem setBin_lq (w : Option BinRef) : (m.setBin p w).lq = m.lq := rfl

@[simp] theorem setXY_lq (x y : K) : (m.setXY p x y).lq = m.lq := rfl

@[simp] theorem setPrev_nproxy : (m.setPrev p v).nproxy = m.nproxy := rfl

@[simp] theorem setNext_nproxy : (m.setNext p v).nproxy = m.nproxy := rfl

@[simp] theorem setBin_nproxy (w : Option BinRef) : (m.setBin p w).nproxy = m.nproxy := rfl

@[simp] theorem setXY_nproxy (x y : K) : (m.setXY p x y).nproxy = m.nproxy := rfl

@[simp] theorem assign_nproxy : (m.assign b v).nproxy = m.nproxy := by
  cases b <;> rfl

@[simp] theorem setPrev_deref : (m.setPrev p v).deref b = m.deref b := by
  cases b <;> rfl

@[simp] theorem setNext_deref : (m.setNext p v).deref b = m.deref b := by
  cases b <;> rfl

@[simp] theorem setBin_deref (w : Option BinRef) : (m.setBin p w).deref b = m.deref b := by
  cases b <;> rfl

@[simp] theorem setXY_deref (x y : K) : (m.setXY p x y).deref b = m.deref b := by
  cases b <;> rfl

@[simp] theorem assign_deref : (m.assign b v).deref b' = if b' = b then v else m.deref b' := by
  cases b <;> cases b' <;> simp [LQMem.assign, LQMem.deref, Function.update_apply]

/-- The geometry of the database: everything `lqBinForLocation2D` reads. -/
theorem binForLocation_congr [LinearOrderedField K] [FloorRing K] (lq lq' : lqInternalDB2D K)
    (h1 : lq'.originx = lq.originx) (h2 : lq'.originy = lq.originy)
    (h3 : lq'.sizex = lq.sizex) (h4 : lq'.sizey = lq.sizey)
    (h5 : lq'.divx = lq.divx) (h6 : lq'.divy = lq.divy) (x y : K) :
    lqBinForLocation2D lq' x y = lqBinForLocation2D lq x y := by
  simp [lqBinForLocation2D, h1, h2, h3, h4, h5, h6]

@[simp] theorem assign_binForLocation [LinearOrderedField K] [FloorRing K] (x y : K) :
    lqBinForLocation2D (m.assign b v).lq x y = lqBinForLocation2D m.lq x y := by
  cases b <;> exact binForLocation_congr _ _ rfl rfl rfl rfl rfl rfl x y

end setters

/-! ## What `lqRemoveFromBin` and `lqAddToBin` do to the memory -/

section remove

variable (m : LQMem K) (p q : Nat)

theorem remove_nproxy : (lqRemoveFromBin m p).nproxy = m.nproxy := by
  unfold lqRemoveFromBin
  cases (m.proxy p).bin with
  | none => simp
  | some b =>
    simp only [setBin_nproxy, setNext_nproxy, setPrev_nproxy]
    split <;> split <;> split_ifs <;> simp

theorem remove_binForLocation [LinearOrderedField K] [FloorRing K] (x y : K) :
    lqBinForLocation2D (lqRemoveFromBin m p).lq x y = lqBinForLocation2D m.lq x y := by
  unfold lqRemoveFromBin
  cases (m.proxy p).bin with
  | none => simp
  | some b =>
    simp only [setBin_lq, setNext_lq, setPrev_lq]
    split <;> split <;> split_ifs <;> simp

theorem remove_x : ((lqRemoveFromBin m p).proxy q).x = (m.proxy q).x := by
  unfold lqRemoveFromBin
  cases (m.proxy p).bin with
  | none => simp; split_ifs <;> simp_all
  | some b =>
    simp only []
    split <;> split <;> split_ifs <;> simp <;> split_ifs <;> simp_all

theorem remove_y : ((lqRemoveFromBin m p).proxy q).y = (m.proxy q).y := by
  unfold lqRemoveFromBin
  cases (m.proxy p).bin with
  | none => simp; split_ifs <;> simp_all
  | some b =>
    simp only []
    split <;> split <;> split_ifs <;> simp <;> split_ifs <;> simp_all

theorem remove_object : ((lqRemoveFromBin m p).proxy q).object = (m.proxy q).object := by
  unfold lqRemoveFromBin
  cases (m.proxy p).bin with
  | none => simp; split_ifs <;> simp_all
  | some b =>
    simp only []
    split <;> split <;> split_ifs <;> simp <;> split_ifs <;> simp_all

theorem remove_bin : ((lqRemoveFromBin m p).proxy q).bin =
    if q = p then none else (m.proxy q).bin := by
  unfold lqRemoveFromBin
  cases (m.proxy p).bin with
  | none => simp; split_ifs <;> simp_all
  | some b =>
    simp only []
    split <;> split <;> split_ifs <;> simp <;> split_ifs <;> simp_all

theorem remove_self : ((lqRemoveFromBin m p).proxy p).prev = none ∧
    ((lqRemoveFromBin m p).proxy p).next = none ∧ ((lqRemoveFromBin m p).proxy p).bin = none := by
  unfold lqRemoveFromBin
  simp

theorem remove_unlinked (h : (m.proxy p).bin = none) :
    ((lqRemoveFromBin m p).proxy q).prev = (if q = p then none else (m.proxy q).prev) ∧
    ((lqRemoveFromBin m p).proxy q).next = (if q = p then none else (m.proxy q).next) ∧
    ∀ b, (lqRemoveFromBin m p).deref b = m.deref b := by
  unfold lqRemoveFromBin
  simp only [h]
  refine ⟨?_, ?_, ?_⟩
  · simp; split_ifs <;> simp_all
  · simp; split_ifs <;> simp_all
  · intro b; simp

theorem remove_deref (b : BinRef) (h : (m.proxy p).bin = some b) (b' : BinRef) :
    (lqRemoveFromBin m p).deref b' =
      if b' = b ∧ m.deref b = some p then (m.proxy p).next else m.deref b' := by
  unfold lqRemoveFromBin
  simp only [h]
  split <;> split <;> split_ifs <;> simp_all

theorem remove_prev (b : BinRef) (h : (m.proxy p).bin = some b)
    (hpp : (m.proxy p).prev ≠ some p) (hpn : (m.proxy p).next ≠ some p) :
    ((lqRemoveFromBin m p).proxy q).prev =
      if q = p then none
      else if (m.proxy p).next = some q then (m.proxy p).prev else (m.proxy q).prev := by
  unfold lqRemoveFromBin
  simp only [h]
  have e1 : ∀ (c : Prop) [Decidable c] (v : Option Nat),
      (if c then m.assign b v else m).proxy = m.proxy := by
    intro c _ v; split_ifs <;> simp
  by_cases hq : q = p
  · subst hq; simp
  rcases hprev : (m.proxy p).prev with _ | pr <;> rcases hnext : (m.proxy p).next with _ | nx
  · simp [e1, hprev, hnext, hq]
  · simp [e1, hprev, hnext, hq]
    split_ifs <;> first | rfl | (subst_vars; rfl) | simp_all
  · have h1 : p ≠ pr := fun e => hpp (by rw [hprev, e])
    simp [e1, hprev, hnext, hq, h1]
    split_ifs <;> first | rfl | (subst_vars; rfl) | simp_all
  · have h1 : p ≠ pr := fun e => hpp (by rw [hprev, e])
    have h2 : p ≠ nx := fun e => hpn (by rw [hnext, e])
    simp [e1, hprev, hnext, hq, h1, h2]
    split_ifs <;> first | rfl | (subst_vars; rfl) | simp_all

theorem remove_next (b : BinRef) (h : (m.proxy p).bin = some b)
    (hpp : (m.proxy p).prev ≠ some p) (hpn : (m.proxy p).next ≠ some p) :
    ((lqRemoveFromBin m p).proxy q).next =
      if q = p then none
      else if (m.proxy p).prev = some q then (m.proxy p).next else (m.proxy q).next := by
  unfold lqRemoveFromBin
  simp only [h]
  have e1 : ∀ (c : Prop) [Decidable c] (v : Option Nat),
      (if c then m.assign b v else m).proxy = m.proxy := by
    intro c _ v; split_ifs <;> simp
  by_cases hq : q = p
  · subst hq; simp
  rcases hprev : (m.proxy p).prev with _ | pr <;> rcases hnext : (m.proxy p).next with _ | nx
  · simp [e1, hprev, hnext, hq]
  · simp [e1, hprev, hnext, hq]
    split_ifs <;> first | rfl | (subst_vars; rfl) | simp_all
  · have h1 : p ≠ pr := fun e => hpp (by rw [hprev, e])
    simp [e1, hprev, hnext, hq, h1]
    split_ifs <;> first | rfl | (subst_vars; rfl) | simp_all
  · have h1 : p ≠ pr := fun e => hpp (by rw [hprev, e])
    have h2 : p ≠ nx := fun e => hpn (by rw [hnext, e])
    simp [e1, hprev, hnext, hq, h1, h2]
    split_ifs <;> first | rfl | (subst_vars; rfl) | simp_all

end remove

section add

variable (m : LQMem K) (p q : Nat) (b : BinRef)

theorem add_nproxy : (lqAddToBin m p b).nproxy = m.nproxy := by
  unfold lqAddToBin
  cases m.deref b <;> simp

theorem add_binForLocation [LinearOrderedField K] [FloorRing K] (x y : K) :
    lqBinForLocation2D (lqAddToBin m p b).lq x y = lqBinForLocation2D m.lq x y := by
  unfold lqAddToBin
  cases m.deref b <;> simp

theorem add_x : ((lqAddToBin m p b).proxy q).x = (m.proxy q).x := by
  unfold lqAddToBin
  cases m.deref b <;> simp <;> split_ifs <;> first | rfl | (subst_vars; rfl) | simp_all

theorem add_y : ((lqAddToBin m p b).proxy q).y = (m.proxy q).y := by
  unfold lqAddToBin
  cases m.deref b <;> simp <;> split_ifs <;> first | rfl | (subst_vars; rfl) | simp_all

theorem add_object : ((lqAddToBin m p b).proxy q).object = (m.proxy q).object := by
  unfold lqAddToBin
  cases m.deref b <;> simp <;> split_ifs <;> first | rfl | (subst_vars; rfl) | simp_all

theorem add_bin : ((lqAddToBin m p b).proxy q).bin =
    if q = p then some b else (m.proxy q).bin := by
  unfold lqAddToBin
  cases m.deref b <;> simp <;> split_ifs <;> first | rfl | (subst_vars; rfl) | simp_all

theorem add_deref (b' : BinRef) :
    (lqAddToBin m p b).deref b' = if b' = b then some p else m.deref b' := by
  unfold lqAddToBin
  cases m.deref b <;> simp

theorem add_next : ((lqAddToBin m p b).proxy q).next =
    if q = p then m.deref b else (m.proxy q).next := by
  unfold lqAddToBin
  cases h : m.deref b <;> simp <;> split_ifs <;> first | rfl | (subst_vars; rfl) | simp_all

theorem add_prev (hne : m.deref b ≠ some p) : ((lqAddToBin m p b).proxy q).prev =
    if q = p then none else if m.deref b = some q then some p else (m.proxy q).prev := by
  unfold lqAddToBin
  cases h : m.deref b with
  | none => simp; split_ifs <;> first | rfl | (subst_vars; rfl) | simp_all
  | some hd =>
    have h1 : p ≠ hd := fun e => hne (by rw [h, e])
    simp [h1]
    split_ifs <;> first | rfl | (subst_vars; rfl) | simp_all

end add


/-! ## Well-linked lists -/

section chain

variable {m m' : LQMem K} {b : BinRef}

theorem Chain.cur_eq : ∀ {l : List Nat} {prev cur : Option Nat},
    Chain m b prev cur l → cur = l.head?
  | [], _, _, h => h
  | _ :: _, _, _, h => h.1

theorem Chain.frame : ∀ {l : List Nat} {prev cur : Option Nat},
    (∀ q ∈ l, (m'.proxy q).prev = (m.proxy q).prev ∧ (m'.proxy q).next = (m.proxy q).next ∧
      (m'.proxy q).bin = (m.proxy q).bin) →
    Chain m b prev cur l → Chain m' b prev cur l
  | [], _, _, _, h => h
  | p :: l, _, _, hf, h => by
    obtain ⟨h1, h2, h3, h4⟩ := h
    obtain ⟨f1, f2, f3⟩ := hf p (List.mem_cons_self _ _)
    refine ⟨h1, by rw [f1, h2], by rw [f3, h3], ?_⟩
    rw [f2]
    exact Chain.frame (fun q hq => hf q (List.mem_cons_of_mem _ hq)) h4

theorem Chain.mem_bin : ∀ {l : List Nat} {prev cur : Option Nat},
    Chain m b prev cur l → ∀ q ∈ l, (m.proxy q).bin = some b
  | [], _, _, _, q, hq => by simp at hq
  | p :: l, _, _, h, q, hq => by
    rcases List.mem_cons.1 hq with rfl | hq
    · exact h.2.2.1
    · exact Chain.mem_bin h.2.2.2 q hq

theorem Chain.next_eq {p : Nat} {l2 : List Nat} : ∀ {l1 : List Nat} {prev cur : Option Nat},
    Chain m b prev cur (l1 ++ p :: l2) → (m.proxy p).next = l2.head?
  | [], _, _, h => Chain.cur_eq h.2.2.2
  | _ :: _, _, _, h => Chain.next_eq h.2.2.2

theorem Chain.binProxies_eq : ∀ {l : List Nat} {prev cur : Option Nat} {fuel : Nat},
    Chain m b prev cur l → l.length < fuel → binProxies m fuel cur = some l
  | [], _, _, fuel, h, hf => by
    cases fuel with
    | zero => simp at hf
    | succ n => rw [show _ = none from h]; rfl
  | p :: l, _, _, fuel, h, hf => by
    cases fuel with
    | zero => simp at hf
    | succ n =>
      rw [h.1]
      simp only [binProxies]
      rw [Chain.binProxies_eq h.2.2.2 (by simpa using hf)]
      rfl

theorem Chain.traverse_eq [LinearOrderedField K] {σ : Type} (x y r2 : K) (func : Nat → K → σ → σ) :
    ∀ {l : List Nat} {prev cur : Option Nat} {fuel : Nat} (state : σ),
    Chain m b prev cur l → l.length < fuel →
    lqTraverseBinClientObjectList m x y r2 func fuel cur state =
      some (l.foldl (fun st p =>
        if ((m.proxy p).x - x) * ((m.proxy p).x - x) + ((m.proxy p).y - y) * ((m.proxy p).y - y) < r2
        then func (m.proxy p).object
          (((m.proxy p).x - x) * ((m.proxy p).x - x) + ((m.proxy p).y - y) * ((m.proxy p).y - y)) st
        else st) state)
  | [], _, _, fuel, state, h, hf => by
    cases fuel with
    | zero => simp at hf
    | succ n => rw [show _ = none from h]; rfl
  | p :: l, _, _, fuel, state, h, hf => by
    cases fuel with
    | zero => simp at hf
    | succ n =>
      rw [h.1]
      simp only [lqTraverseBinClientObjectList, List.foldl_cons]
      exact Chain.traverse_eq x y r2 func _ h.2.2.2 (by simpa using hf)

theorem Chain.erase {p : Nat} {l2 : List Nat}
    (hbin : ∀ q, q ≠ p → (m'.proxy q).bin = (m.proxy q).bin)
    (hprev : ∀ q, q ≠ p → (m'.proxy q).prev =
      if (m.proxy p).next = some q then (m.proxy p).prev else (m.proxy q).prev)
    (hnext : ∀ q, q ≠ p → (m'.proxy q).next =
      if (m.proxy p).prev = some q then (m.proxy p).next else (m.proxy q).next) :
    ∀ (l1 : List Nat) (prev cur : Option Nat), Chain m b prev cur (l1 ++ p :: l2) →
      (l1 ++ p :: l2).Nodup → (∀ q ∈ l1 ++ p :: l2, prev ≠ some q) →
      Chain m' b prev (if l1 = [] then (m.proxy p).next else cur) (l1 ++ l2) := by
  intro l1
  induction l1 with
  | nil =>
    intro prev cur h hnd hpv
    simp only [List.nil_append] at h hnd hpv ⊢
    simp only [if_true]
    obtain ⟨-, hp2, -, h4⟩ := h
    cases l2 with
    | nil => exact h4
    | cons q l3 =>
      obtain ⟨g1, g2, g3, g4⟩ := h4
      have hqp : q ≠ p := by
        intro e; subst e; simp at hnd
      have hq3 : q ∉ l3 := by
        have := (List.nodup_cons.1 hnd).2; exact (List.nodup_cons.1 this).1
      have hp3 : p ∉ l3 := by
        have := (List.nodup_cons.1 hnd).1; exact fun hh => this (List.mem_cons_of_mem _ hh)
      have hpq : (m.proxy p).prev ≠ some q := by
        rw [hp2]; exact hpv q (by simp)
      refine ⟨g1, ?_, ?_, ?_⟩
      · rw [hprev q hqp, if_pos g1, hp2]
      · rw [hbin q hqp, g3]
      · rw [hnext q hqp, if_neg hpq]
        refine Chain.frame ?_ g4
        intro r hr
        have hrp : r ≠ p := fun e => hp3 (e ▸ hr)
        have hrq : r ≠ q := fun e => hq3 (e ▸ hr)
        refine ⟨?_, ?_, hbin r hrp⟩
        · rw [hprev r hrp, if_neg]
          rw [g1]; exact fun e => hrq (Option.some.inj e).symm
        · rw [hnext r hrp, if_neg]
          rw [hp2]; exact hpv r (by simp [hr])
  | cons a l1 ih =>
    intro prev cur h hnd hpv
    obtain ⟨h1, h2, h3, h4⟩ := h
    have hnd' : (l1 ++ p :: l2).Nodup := (List.nodup_cons.1 hnd).2
    have ha : a ∉ l1 ++ p :: l2 := (List.nodup_cons.1 hnd).1
    have hap : a ≠ p := fun e => ha (by simp [e])
    have hnx : (m.proxy p).next ≠ some a := by
      rw [Chain.next_eq h4]
      intro e
      exact ha (by
        have : a ∈ l2 := List.mem_of_mem_head? e
        simp [this])
    have ih' := ih (some a) (m.proxy a).next h4 hnd'
      (fun q hq e => ha (by rw [Option.some.inj e]; exact hq))
    simp only [List.cons_append, List.cons_ne_nil, if_false]
    refine ⟨h1, ?_, ?_, ?_⟩
    · rw [hprev a hap, if_neg hnx, h2]
    · rw [hbin a hap, h3]
    · rw [hnext a hap]
      cases l1 with
      | nil =>
        have : (m.proxy p).prev = some a := h4.2.1
        rw [if_pos this]
        simpa using ih'
      | cons c l1' =>
        have hne : (m.proxy p).prev ≠ some a := by
          intro e
          -- `p.prev` is a member of `c :: l1'`
          have key : ∀ (l : List Nat) (pv cu : Option Nat), l ≠ [] →
              Chain m b pv cu (l ++ p :: l2) → ∃ r ∈ l, (m.proxy p).prev = some r := by
            intro l
            induction l with
            | nil => intro _ _ hl; exact absurd rfl hl
            | cons d l ihl =>
              intro pv cu _ hc
              cases l with
              | nil => exact ⟨d, by simp, hc.2.2.2.2.1⟩
              | cons d' l' =>
                obtain ⟨r, hr, hr'⟩ := ihl (some d) _ (by simp) hc.2.2.2
                exact ⟨r, List.mem_cons_of_mem _ hr, hr'⟩
          obtain ⟨r, hr, hr'⟩ := key (c :: l1') (some a) _ (by simp) h4
          rw [hr'] at e
          have : r = a := Option.some.inj e
          subst this
          exact ha (by simp at hr ⊢; tauto)
        rw [if_neg hne]
        simpa using ih'

end chain


theorem Chain.prev_mem {m : LQMem K} {b : BinRef} {p : Nat} {l2 : List Nat} :
    ∀ (l : List Nat) (pv cu : Option Nat), Chain m b pv cu (l ++ p :: l2) →
      (l = [] ∧ (m.proxy p).prev = pv) ∨ ∃ r ∈ l, (m.proxy p).prev = some r := by
  intro l
  induction l with
  | nil => intro pv cu hc; exact Or.inl ⟨rfl, hc.2.1⟩
  | cons d l ihl =>
    intro pv cu hc
    right
    rcases ihl (some d) _ hc.2.2.2 with ⟨_, h⟩ | ⟨r, hr, hr'⟩
    · exact ⟨d, by simp, h⟩
    · exact ⟨r, List.mem_cons_of_mem _ hr, hr'⟩

/-! ## The operations preserve the representation -/

section linked

variable {L : BinRef → List Nat} {m : LQMem K}

theorem Linked.bin_of_mem (h : Linked L m) {b : BinRef} {p : Nat} (hp : p ∈ L b) :
    (m.proxy p).bin = some b :=
  Chain.mem_bin (h.chain b) p hp

theorem Linked.unique (h : Linked L m) {b b' : BinRef} {p : Nat} (hp : p ∈ L b) (hp' : p ∈ L b') :
    b = b' := by
  have h1 := h.bin_of_mem hp
  have h2 := h.bin_of_mem hp'
  rw [h1] at h2
  exact Option.some.inj h2

theorem Linked.mem_of_bin (h : Linked L m) {b : BinRef} {p : Nat} (hn : p < m.nproxy)
    (hb : (m.proxy p).bin = some b) : p ∈ L b := by
  by_contra hcon
  by_cases hex : ∃ b', p ∈ L b'
  · obtain ⟨b', hb'⟩ := hex
    have := h.bin_of_mem hb'
    rw [hb] at this
    exact hcon ((Option.some.inj this) ▸ hb')
  · have := (h.free p hn (fun b' hb' => hex ⟨b', hb'⟩)).2.2
    rw [hb] at this
    exact Option.noConfusion this

theorem Linked.deref_eq (h : Linked L m) (b : BinRef) : m.deref b = (L b).head? :=
  Chain.cur_eq (h.chain b)

theorem Linked.isBinList (h : Linked L m) (b : BinRef) : IsBinList m b (L b) := by
  intro fuel hf
  refine Chain.binProxies_eq (h.chain b) (lt_of_le_of_lt ?_ hf)
  have hsub : L b ⊆ List.range m.nproxy := fun p hp => List.mem_range.2 (h.alloc b p hp)
  have := (List.subperm_of_subset (h.nodup b) hsub).length_le
  simpa using this

theorem Linked.length_lt (h : Linked L m) (b : BinRef) : (L b).length < m.nproxy + 1 := by
  have hsub : L b ⊆ List.range m.nproxy := fun p hp => List.mem_range.2 (h.alloc b p hp)
  have := (List.subperm_of_subset (h.nodup b) hsub).length_le
  have h2 : (L b).length ≤ m.nproxy := by simpa using this
  omega

end linked

section repr

variable [LinearOrderedField K] [FloorRing K] {L : BinRef → List Nat} {m : LQMem K}

theorem Repr.fresh (ox oy sx sy : K) (dx dy : Int) (heap : Nat → lqClientProxy2D K) :
    Repr (fun _ => []) (LQMem.fresh (lqCreateDatabase2D ox oy sx sy dx dy) heap) where
  chain := by
    intro b
    cases b <;> rfl
  nodup := fun _ => List.nodup_nil
  alloc := by intro b p hp; simp at hp
  free := by intro p hp; simp [LQMem.fresh] at hp
  coords := by intro b p hp; simp at hp

theorem Repr.allocate (h : Repr L m) (item : Nat) : Repr L (allocateToken m item) where
  chain := by
    intro b
    have hd : (allocateToken m item).deref b = m.deref b := by cases b <;> rfl
    rw [hd]
    refine Chain.frame ?_ (h.chain b)
    intro q hq
    have hne : q ≠ m.nproxy := Nat.ne_of_lt (h.alloc b q hq)
    simp [allocateToken, Function.update_apply, hne]
  nodup := h.nodup
  alloc := by
    intro b p hp
    exact Nat.lt_succ_of_lt (h.alloc b p hp)
  free := by
    intro p hp hfree
    by_cases hpn : p = m.nproxy
    · subst hpn
      simp [allocateToken, lqInitClientProxy2D]
    · have hlt : p < m.nproxy := by
        have : p < m.nproxy + 1 := hp
        omega
      simpa [allocateToken, Function.update_apply, hpn] using h.free p hlt hfree
  coords := by
    intro b p hp
    have hne : p ≠ m.nproxy := Nat.ne_of_lt (h.alloc b p hp)
    have := h.coords b p hp
    simpa [allocateToken, Function.update_apply, hne] using this

theorem Repr.store_location (h : Repr L m) (p : Nat) (x y : K)
    (hxy : ∀ b, p ∈ L b → lqBinForLocation2D m.lq x y = b) : Repr L (m.setXY p x y) where
  chain := by
    intro b
    rw [setXY_deref]
    refine Chain.frame ?_ (h.chain b)
    intro q _
    simp only [setXY_proxy]
    split_ifs with e
    · subst e; exact ⟨rfl, rfl, rfl⟩
    · exact ⟨rfl, rfl, rfl⟩
  nodup := h.nodup
  alloc := h.alloc
  free := by
    intro q hq hfree
    have := h.free q hq hfree
    simp only [setXY_proxy]
    split_ifs with e
    · subst e; exact this
    · exact this
  coords := by
    intro b q hq
    simp only [setXY_proxy, setXY_lq]
    split_ifs with e
    · subst e; exact hxy b hq
    · exact h.coords b q hq

end repr


section reprOps

variable {L : BinRef → List Nat} {m : LQMem K}

theorem Linked.remove_free (h : Linked L m) {p : Nat} (hb : (m.proxy p).bin = none) :
    Linked L (lqRemoveFromBin m p) := by
  have hnot : ∀ b, p ∉ L b := by
    intro b hp
    have := h.bin_of_mem hp
    rw [hb] at this
    exact Option.noConfusion this
  have hfld : ∀ q, q ≠ p → ((lqRemoveFromBin m p).proxy q).prev = (m.proxy q).prev ∧
      ((lqRemoveFromBin m p).proxy q).next = (m.proxy q).next ∧
      ((lqRemoveFromBin m p).proxy q).bin = (m.proxy q).bin := by
    intro q hq
    obtain ⟨h1, h2, -⟩ := ImplicitCrowds.remove_unlinked m p q hb
    refine ⟨by rw [h1, if_neg hq], by rw [h2, if_neg hq], by rw [remove_bin, if_neg hq]⟩
  refine ⟨?_, h.nodup, ?_, ?_⟩
  · intro b
    rw [(ImplicitCrowds.remove_unlinked m p p hb).2.2 b]
    refine Chain.frame ?_ (h.chain b)
    intro q hq
    exact hfld q (fun e => hnot b (e ▸ hq))
  · intro b q hq
    rw [remove_nproxy]
    exact h.alloc b q hq
  · intro q hq hfree
    by_cases e : q = p
    · subst e; exact remove_self m q
    · obtain ⟨h1, h2, h3⟩ := hfld q e
      rw [h1, h2, h3]
      rw [remove_nproxy] at hq
      exact h.free q hq hfree

theorem Linked.remove_member (h : Linked L m) {p : Nat} {b0 : BinRef} (hb : (m.proxy p).bin = some b0)
    (hn : p < m.nproxy) : Linked (fun b => (L b).erase p) (lqRemoveFromBin m p) := by
  have hp0 : p ∈ L b0 := h.mem_of_bin hn hb
  obtain ⟨l1, l2, hsplit⟩ := List.append_of_mem hp0
  have hnd : (l1 ++ p :: l2).Nodup := hsplit ▸ h.nodup b0
  have hc0 : Chain m b0 none (m.deref b0) (l1 ++ p :: l2) := hsplit ▸ h.chain b0
  have hp1 : p ∉ l1 := by
    intro hh
    have := (List.nodup_append.1 hnd).2.2
    exact this hh (List.mem_cons_self _ _)
  have hp2 : p ∉ l2 := by
    have := (List.nodup_append.1 hnd).2.1
    exact (List.nodup_cons.1 this).1
  have hnext : (m.proxy p).next = l2.head? := Chain.next_eq hc0
  have hnext_mem : ∀ q, (m.proxy p).next = some q → q ∈ L b0 := by
    intro q hq
    rw [hnext] at hq
    rw [hsplit]
    have : q ∈ l2 := List.mem_of_mem_head? hq
    simp [this]
  have hprev_mem : ∀ q, (m.proxy p).prev = some q → q ∈ l1 := by
    intro q hq
    rcases Chain.prev_mem l1 none _ hc0 with ⟨_, h'⟩ | ⟨r, hr, hr'⟩
    · rw [h'] at hq; exact Option.noConfusion hq
    · rw [hr'] at hq; exact (Option.some.inj hq) ▸ hr
  have hpp : (m.proxy p).prev ≠ some p := fun e => hp1 (hprev_mem p e)
  have hpn : (m.proxy p).next ≠ some p := by
    intro e
    rw [hnext] at e
    exact hp2 (List.mem_of_mem_head? e)
  have herase : (L b0).erase p = l1 ++ l2 := by
    rw [hsplit, List.erase_append_right _ hp1, List.erase_cons_head]
  have hother : ∀ b, b ≠ b0 → (L b).erase p = L b := by
    intro b hne
    exact List.erase_of_not_mem (fun hh => hne (h.unique hh hp0))
  have hB := fun q (hq : q ≠ p) => (remove_bin m p q).trans (if_neg hq)
  have hP := fun q (hq : q ≠ p) => (remove_prev m p q b0 hb hpp hpn).trans (if_neg hq)
  have hN := fun q (hq : q ≠ p) => (remove_next m p q b0 hb hpp hpn).trans (if_neg hq)
  have hfar : ∀ q, q ≠ p → q ∉ L b0 →
      ((lqRemoveFromBin m p).proxy q).prev = (m.proxy q).prev ∧
      ((lqRemoveFromBin m p).proxy q).next = (m.proxy q).next ∧
      ((lqRemoveFromBin m p).proxy q).bin = (m.proxy q).bin := by
    intro q hq hq0
    refine ⟨?_, ?_, hB q hq⟩
    · rw [hP q hq, if_neg (fun e => hq0 (hnext_mem q e))]
    · rw [hN q hq, if_neg]
      intro e
      exact hq0 (by rw [hsplit]; simp [hprev_mem q e])
  refine ⟨?_, fun b => (h.nodup b).erase p, ?_, ?_⟩
  · intro b
    by_cases hbb : b = b0
    · subst hbb
      show Chain _ b _ _ ((L b).erase p)
      rw [herase, remove_deref m p b hb b]
      have key := @Chain.erase K m (lqRemoveFromBin m p) b p l2 hB hP hN l1 none (m.deref b) hc0 hnd
        (fun q _ e => Option.noConfusion e)
      have hd : m.deref b = (l1 ++ p :: l2).head? := Chain.cur_eq hc0
      cases l1 with
      | nil =>
        simp only [List.nil_append, List.head?_cons] at hd
        simpa [hd] using key
      | cons a l1' =>
        have hap : a ≠ p := by
          intro e; exact hp1 (by simp [e])
        simp only [List.cons_append, List.head?_cons] at hd
        have hd' : ¬ (m.deref b = some p) := by
          rw [hd]; exact fun e => hap (Option.some.inj e)
        simpa [hd'] using key
    · show Chain _ b _ _ ((L b).erase p)
      rw [hother b hbb, remove_deref m p b0 hb b, if_neg (fun e => hbb e.1)]
      refine Chain.frame ?_ (h.chain b)
      intro q hq
      have hq0 : q ∉ L b0 := fun hh => hbb (h.unique hq hh)
      exact hfar q (fun e => hq0 (e ▸ hp0)) hq0
  · intro b q hq
    rw [remove_nproxy]
    exact h.alloc b q (List.mem_of_mem_erase hq)
  · intro q hq hfree
    by_cases e : q = p
    · subst e; exact remove_self m q
    · have hfree' : ∀ b, q ∉ L b := fun b hh => hfree b ((List.mem_erase_of_ne e).2 hh)
      obtain ⟨h1, h2, h3⟩ := hfar q e (hfree' b0)
      rw [h1, h2, h3]
      rw [remove_nproxy] at hq
      exact h.free q hq hfree'

theorem Linked.erase_proxy (h : Linked L m) {p : Nat} (hn : p < m.nproxy) :
    Linked (fun b => (L b).erase p) (lqRemoveFromBin m p) := by
  cases hb : (m.proxy p).bin with
  | none =>
    have hnot : ∀ b, p ∉ L b := by
      intro b hp
      have := h.bin_of_mem hp
      rw [hb] at this
      exact Option.noConfusion this
    have : (fun b => (L b).erase p) = L := by
      funext b; exact List.erase_of_not_mem (hnot b)
    rw [this]
    exact h.remove_free hb
  | some b0 => exact h.remove_member hb hn

theorem Linked.store_xy (h : Linked L m) (p : Nat) (x y : K) : Linked L (m.setXY p x y) where
  chain := by
    intro b
    rw [setXY_deref]
    refine Chain.frame ?_ (h.chain b)
    intro q _
    simp only [setXY_proxy]
    split_ifs with e
    · subst e; exact ⟨rfl, rfl, rfl⟩
    · exact ⟨rfl, rfl, rfl⟩
  nodup := h.nodup
  alloc := h.alloc
  free := by
    intro q hq hfree
    have := h.free q hq hfree
    simp only [setXY_proxy]
    split_ifs with e
    · subst e; exact this
    · exact this

end reprOps

section reprAdd

variable {L : BinRef → List Nat} {m : LQMem K}

theorem Linked.add (h : Linked L m) {p : Nat} {b0 : BinRef} (hn : p < m.nproxy)
    (hfree : ∀ b, p ∉ L b) :
    Linked (Function.update L b0 (p :: L b0)) (lqAddToBin m p b0) := by
  have hhead : m.deref b0 ≠ some p := by
    rw [h.deref_eq b0]
    exact fun e => hfree b0 (List.mem_of_mem_head? e)
  have hB := fun q (hq : q ≠ p) => (add_bin m p q b0).trans (if_neg hq)
  have hN := fun q (hq : q ≠ p) => (add_next m p q b0).trans (if_neg hq)
  have hP := fun q (hq : q ≠ p) => (add_prev m p q b0 hhead).trans (if_neg hq)
  have hfar : ∀ q, q ≠ p → m.deref b0 ≠ some q →
      ((lqAddToBin m p b0).proxy q).prev = (m.proxy q).prev ∧
      ((lqAddToBin m p b0).proxy q).next = (m.proxy q).next ∧
      ((lqAddToBin m p b0).proxy q).bin = (m.proxy q).bin := by
    intro q hq hd
    exact ⟨by rw [hP q hq, if_neg hd], hN q hq, hB q hq⟩
  have hmem : ∀ b q, q ∈ Function.update L b0 (p :: L b0) b → q = p ∨ q ∈ L b := by
    intro b q hq
    by_cases e : b = b0
    · subst e
      simpa using hq
    · right; simpa [Function.update_apply, e] using hq
  refine ⟨?_, ?_, ?_, ?_⟩
  · intro b
    by_cases e : b = b0
    · subst e
      rw [Function.update_same, add_deref, if_pos rfl]
      refine ⟨rfl, ?_, ?_, ?_⟩
      · rw [add_prev m p p b hhead, if_pos rfl]
      · rw [add_bin, if_pos rfl]
      · rw [add_next, if_pos rfl]
        have hc := h.chain b
        have hnd := h.nodup b
        cases hl : L b with
        | nil => rw [hl] at hc; exact hc
        | cons a t =>
          rw [hl] at hc hnd
          obtain ⟨c1, c2, c3, c4⟩ := hc
          have hap : a ≠ p := by
            intro e; exact hfree b (by rw [hl, e]; exact List.mem_cons_self _ _)
          refine ⟨c1, ?_, ?_, ?_⟩
          · rw [hP a hap, if_pos c1]
          · rw [hB a hap, c3]
          · rw [hN a hap]
            refine Chain.frame ?_ c4
            intro q hq
            have hqa : q ≠ a := fun e => (List.nodup_cons.1 hnd).1 (e ▸ hq)
            have hqp : q ≠ p := by
              intro e; exact hfree b (by rw [hl, ← e]; exact List.mem_cons_of_mem _ hq)
            refine hfar q hqp ?_
            rw [c1]
            exact fun e => hqa (Option.some.inj e).symm
    · rw [Function.update_noteq e, add_deref, if_neg e]
      refine Chain.frame ?_ (h.chain b)
      intro q hq
      have hqp : q ≠ p := fun e' => hfree b (e' ▸ hq)
      refine hfar q hqp ?_
      rw [h.deref_eq b0]
      intro e'
      exact e (h.unique hq (List.mem_of_mem_head? e'))
  · intro b
    by_cases e : b = b0
    · subst e
      rw [Function.update_same]
      exact List.nodup_cons.2 ⟨hfree b, h.nodup b⟩
    · rw [Function.update_noteq e]
      exact h.nodup b
  · intro b q hq
    rw [add_nproxy]
    rcases hmem b q hq with rfl | hq
    · exact hn
    · exact h.alloc b q hq
  · intro q hq hfr
    rw [add_nproxy] at hq
    have hqp : q ≠ p := by
      intro e
      exact hfr b0 (by rw [Function.update_same, e]; exact List.mem_cons_self _ _)
    have hfr' : ∀ b, q ∉ L b := by
      intro b hh
      by_cases e : b = b0
      · subst e
        exact hfr b (by rw [Function.update_same]; exact List.mem_cons_of_mem _ hh)
      · exact hfr b (by rw [Function.update_noteq e]; exact hh)
    obtain ⟨h1, h2, h3⟩ := hfar q hqp (by
      rw [h.deref_eq b0]
      exact fun e => hfr' b0 (List.mem_of_mem_head? e))
    rw [h1, h2, h3]
    exact h.free q hq hfr'

theorem Linked.mem_update_cons {b0 : BinRef} {p : Nat} (b : BinRef) (q : Nat) :
    q ∈ Function.update (fun b => (L b).erase p) b0 (p :: (L b0).erase p) b ↔
      (q = p ∧ b = b0) ∨ (q ∈ (L b).erase p) := by
  by_cases e : b = b0
  · subst e
    simp
  · simp [Function.update_apply, e]

end reprAdd

section reprUpdate

variable [LinearOrderedField K] [FloorRing K] {L : BinRef → List Nat} {m : LQMem K}

theorem Repr.after_remove (h : Repr L m) {p : Nat} (hn : p < m.nproxy) :
    Repr (fun b => (L b).erase p) (lqRemoveFromBin m p) where
  toLinked := h.toLinked.erase_proxy hn
  coords := by
    intro b q hq
    rw [remove_x, remove_y, remove_binForLocation]
    exact h.coords b q (List.mem_of_mem_erase hq)

/-- The family of lists after `lqUpdateForNewLocation`: unchanged when the
proxy is already on the list of the new bin, else the proxy is erased and
put at the head of the list of the new bin. -/
theorem Repr.update (h : Repr L m) {p : Nat} (hn : p < m.nproxy) (x y : K) :
    Repr (if p ∈ L (lqBinForLocation2D m.lq x y) then L
      else Function.update (fun b => (L b).erase p) (lqBinForLocation2D m.lq x y)
        (p :: (L (lqBinForLocation2D m.lq x y)).erase p))
      (lqUpdateForNewLocation m p x y) := by
  unfold lqUpdateForNewLocation
  simp only [setXY_lq]
  have hbin1 : ((m.setXY p x y).proxy p).bin = (m.proxy p).bin := by simp
  by_cases hmem : p ∈ L (lqBinForLocation2D m.lq x y)
  · have hb := h.bin_of_mem hmem
    rw [if_pos hmem, if_neg (by rw [hbin1, hb]; simp)]
    refine h.store_location p x y ?_
    intro b hp
    exact h.unique hmem hp
  · have hb : some (lqBinForLocation2D m.lq x y) ≠ (m.proxy p).bin :=
      fun e => hmem (h.mem_of_bin hn e.symm)
    rw [if_neg hmem, if_pos (by rw [hbin1]; exact hb)]
    have h1 : Linked L (m.setXY p x y) := h.toLinked.store_xy p x y
    have h2 : Linked (fun b => (L b).erase p) (lqRemoveFromBin (m.setXY p x y) p) :=
      h1.erase_proxy (by simpa using hn)
    have hfree : ∀ b, p ∉ (fun b => (L b).erase p) b := by
      intro b
      exact fun hh => (List.Nodup.mem_erase_iff (h.nodup b)).1 hh |>.1 rfl
    have h3 := @Linked.add K _ _ h2 p (lqBinForLocation2D m.lq x y)
      (by rw [remove_nproxy]; simpa using hn) hfree
    refine ⟨h3, ?_⟩
    intro b q hq
    rw [add_x, add_y, add_binForLocation, remove_x, remove_y, remove_binForLocation]
    simp only [setXY_lq, setXY_proxy]
    rcases (Linked.mem_update_cons b q).1 hq with ⟨rfl, rfl⟩ | hq'
    · simp
    · have hqp : q ≠ p := fun e => hfree b (e ▸ hq')
      rw [if_neg hqp]
      exact h.coords b q (List.mem_of_mem_erase hq')

end reprUpdate


/-! ## Every reachable memory is well formed -/

section reach

variable [LinearOrderedField K] [FloorRing K]

theorem update_nproxy (m : LQMem K) (p : Nat) (x y : K) :
    (lqUpdateForNewLocation m p x y).nproxy = m.nproxy := by
  unfold lqUpdateForNewLocation
  simp only []
  split_ifs
  · rw [add_nproxy, remove_nproxy]; rfl
  · rfl

theorem Tracks.apply {L : BinRef → List Nat} {m : LQMem K} {g : Nat × (Nat → Bool)}
    (h : Tracks L m g) (op : IndexOp K) :
    ∃ L', Tracks L' (IndexOp.apply m op) (linkedStep g op) := by
  obtain ⟨hR, hn, hg⟩ := h
  cases op with
  | allocateToken item =>
    exact ⟨L, hR.allocate item, by simp [linkedStep, IndexOp.apply, allocateToken, hn], hg⟩
  | updateForNewPosition t x y =>
    by_cases ht : t < m.nproxy
    · have ht' : t < g.1 := hn ▸ ht
      refine ⟨(if t ∈ L (lqBinForLocation2D m.lq x y) then L
        else Function.update (fun b => (L b).erase t) (lqBinForLocation2D m.lq x y)
          (t :: (L (lqBinForLocation2D m.lq x y)).erase t)), ?_, ?_, ?_⟩
      · simp only [IndexOp.apply, if_pos ht, updateForNewPosition]
        exact hR.update ht x y
      · simp [linkedStep, IndexOp.apply, if_pos ht, if_pos ht', updateForNewPosition,
          update_nproxy, hn]
      · intro p
        simp only [linkedStep, if_pos ht', Function.update_apply]
        by_cases hmem : t ∈ L (lqBinForLocation2D m.lq x y)
        · rw [if_pos hmem]
          by_cases e : p = t
          · subst e; simp only [if_true, true_iff]; exact ⟨_, hmem⟩
          · rw [if_neg e]; exact hg p
        · rw [if_neg hmem]
          by_cases e : p = t
          · subst e
            simp only [if_true, true_iff]
            exact ⟨lqBinForLocation2D m.lq x y, by simp⟩
          · rw [if_neg e, hg p]
            constructor
            · rintro ⟨b, hb⟩
              exact ⟨b, (Linked.mem_update_cons b p).2 (Or.inr ((List.mem_erase_of_ne e).2 hb))⟩
            · rintro ⟨b, hb⟩
              rcases (Linked.mem_update_cons b p).1 hb with ⟨h1, _⟩ | h2
              · exact absurd h1 e
              · exact ⟨b, List.mem_of_mem_erase h2⟩
    · have ht' : ¬ t < g.1 := hn ▸ ht
      refine ⟨L, ?_⟩
      simp only [IndexOp.apply, if_neg ht, linkedStep, if_neg ht']
      exact ⟨hR, hn, hg⟩
  | removeFromBin t =>
    by_cases ht : t < m.nproxy
    · have ht' : t < g.1 := hn ▸ ht
      refine ⟨(fun b => (L b).erase t), ?_, ?_, ?_⟩
      · simp only [IndexOp.apply, if_pos ht]
        exact hR.after_remove ht
      · simp [linkedStep, IndexOp.apply, if_pos ht, if_pos ht', remove_nproxy, hn]
      · intro p
        simp only [linkedStep, if_pos ht', Function.update_apply]
        by_cases e : p = t
        · subst e
          simp only [if_true, Bool.false_eq_true, false_iff, not_exists]
          intro b hb
          exact ((List.Nodup.mem_erase_iff (hR.nodup b)).1 hb).1 rfl
        · rw [if_neg e, hg p]
          constructor
          · rintro ⟨b, hb⟩
            exact ⟨b, (List.mem_erase_of_ne e).2 hb⟩
          · rintro ⟨b, hb⟩
            exact ⟨b, List.mem_of_mem_erase hb⟩
    · have ht' : ¬ t < g.1 := hn ▸ ht
      refine ⟨L, ?_⟩
      simp only [IndexOp.apply, if_neg ht, linkedStep, if_neg ht']
      exact ⟨hR, hn, hg⟩

theorem Tracks.run : ∀ (ops : List (IndexOp K)) {L : BinRef → List Nat} {m : LQMem K}
    {g : Nat × (Nat → Bool)}, Tracks L m g →
    ∃ L', Tracks L' (runOps m ops) (ops.foldl linkedStep g)
  | [], L, _, _, h => ⟨L, h⟩
  | op :: ops, _, _, _, h => by
    obtain ⟨L1, h1⟩ := h.apply op
    exact Tracks.run ops h1

/-- Every memory reached from a freshly created database by client calls is
represented by a family of lists, whose members are the tokens updated and
not removed since. -/
theorem reachable_tracks (ox oy sx sy : K) (dx dy : Int) (heap : Nat → lqClientProxy2D K)
    (ops : List (IndexOp K)) :
    ∃ L, Repr L (runOps (LQMem.fresh (lqCreateDatabase2D ox oy sx sy dx dy) heap) ops) ∧
      ∀ p, updatedNotRemoved ops p = true ↔ ∃ b, p ∈ L b := by
  have h0 : Tracks (fun _ => []) (LQMem.fresh (lqCreateDatabase2D ox oy sx sy dx dy) heap)
      (0, fun _ => false) := ⟨Repr.fresh ox oy sx sy dx dy heap, rfl, by simp⟩
  obtain ⟨L, hR, -, hg⟩ := Tracks.run ops h0
  exact ⟨L, hR, hg⟩

end reach


/-! ## Bin addressing -/

theorem truncToInt_of_nonneg [LinearOrderedField K] [FloorRing K] {q : K} (h : 0 ≤ q) :
    truncToInt q = ⌊q⌋ := by
  simp [truncToInt, h]

/-- C2: for a database with non-negative division counts and every point
`(x, y)`, `lqBinForLocation2D` returns the overflow bin exactly when the point
is outside the super-region, and otherwise the regular bin number
`ix * divy + iy` with `ix`, `iy` the floors of the scaled offsets. -/
theorem lqBinForLocation2D_spec [LinearOrderedField K] [FloorRing K] (lq : lqInternalDB2D K)
    (x y : K) (hdx : 0 ≤ lq.divx) (hdy : 0 ≤ lq.divy) :
    (lqBinForLocation2D lq x y = BinRef.other ↔
      (x < lq.originx ∨ y < lq.originy ∨ x ≥ lq.originx + lq.sizex ∨
        y ≥ lq.originy + lq.sizey)) ∧
    (¬ (x < lq.originx ∨ y < lq.originy ∨ x ≥ lq.originx + lq.sizex ∨
        y ≥ lq.originy + lq.sizey) →
      lqBinForLocation2D lq x y =
        BinRef.bins (⌊(x - lq.originx) / lq.sizex * (lq.divx : K)⌋ * lq.divy +
          ⌊(y - lq.originy) / lq.sizey * (lq.divy : K)⌋)) := by
  have key : ¬ (x < lq.originx ∨ y < lq.originy ∨ x ≥ lq.originx + lq.sizex ∨
        y ≥ lq.originy + lq.sizey) →
      lqBinForLocation2D lq x y =
        BinRef.bins (⌊(x - lq.originx) / lq.sizex * (lq.divx : K)⌋ * lq.divy +
          ⌊(y - lq.originy) / lq.sizey * (lq.divy : K)⌋) := by
    intro hin
    simp only [not_or, not_lt, ge_iff_le, not_le] at hin
    obtain ⟨h1, h2, h3, h4⟩ := hin
    have hsx : 0 < lq.sizex := by linarith
    have hsy : 0 < lq.sizey := by linarith
    have hx : 0 ≤ (x - lq.originx) / lq.sizex * (lq.divx : K) :=
      mul_nonneg (div_nonneg (by linarith) hsx.le) (by exact_mod_cast hdx)
    have hy : 0 ≤ (y - lq.originy) / lq.sizey * (lq.divy : K) :=
      mul_nonneg (div_nonneg (by linarith) hsy.le) (by exact_mod_cast hdy)
    unfold lqBinForLocation2D
    rw [if_neg (not_lt.2 h1), if_neg (not_lt.2 h2), if_neg (not_le.2 h3), if_neg (not_le.2 h4)]
    simp only [truncToInt_of_nonneg hx, truncToInt_of_nonneg hy]
  refine ⟨⟨?_, ?_⟩, key⟩
  · intro h
    by_contra hin
    rw [key hin] at h
    exact BinRef.noConfusion h
  · intro h
    unfold lqBinForLocation2D
    rcases h with h | h | h | h
    · rw [if_pos h]
    · split_ifs <;> first | rfl | exact absurd h ‹_›
    · split_ifs <;> first | rfl | exact absurd h ‹_›
    · split_ifs <;> first | rfl | exact absurd h ‹_›

/-- C2, instance: the point `(3/2, 5/2)` in the region `[0, 8)²` cut in 8 × 8 bins. -/
theorem lqBinForLocation2D_spec_witness :
    (0 ≤ (lqCreateDatabase2D (0 : ℚ) 0 8 8 8 8).divx ∧
      0 ≤ (lqCreateDatabase2D (0 : ℚ) 0 8 8 8 8).divy) ∧
    lqBinForLocation2D (lqCreateDatabase2D (0 : ℚ) 0 8 8 8 8) (3 / 2) (5 / 2) = BinRef.bins 10 := by
  have hd : 0 ≤ (lqCreateDatabase2D (0 : ℚ) 0 8 8 8 8).divx ∧
      0 ≤ (lqCreateDatabase2D (0 : ℚ) 0 8 8 8 8).divy := by
    constructor <;> simp [lqCreateDatabase2D, lqInitDatabase2D]
  refine ⟨hd, ?_⟩
  have h := (lqBinForLocation2D_spec (lqCreateDatabase2D (0 : ℚ) 0 8 8 8 8) (3 / 2) (5 / 2)
    hd.1 hd.2).2 (by simp [lqCreateDatabase2D, lqInitDatabase2D]; norm_num)
  rw [h]
  simp only [lqCreateDatabase2D, lqInitDatabase2D]
  have e1 : ⌊((3 : ℚ) / 2 - 0) / 8 * ((8 : ℤ) : ℚ)⌋ = 1 := by
    rw [Int.floor_eq_iff]; norm_num
  have e2 : ⌊((5 : ℚ) / 2 - 0) / 8 * ((8 : ℤ) : ℚ)⌋ = 2 := by
    rw [Int.floor_eq_iff]; norm_num
  rw [e1, e2]
  rfl


/-! ## The list invariant and the update and removal contracts -/

section contracts

variable [LinearOrderedField K] [FloorRing K]

theorem indexAfter_repr (ox oy sx sy : K) (dx dy : Int) (heap : Nat → lqClientProxy2D K)
    (ops : List (IndexOp K)) :
    ∃ L, Repr L (indexAfter ox oy sx sy dx dy heap ops) ∧
      ∀ p, updatedNotRemoved ops p = true ↔ ∃ b, p ∈ L b :=
  reachable_tracks ox oy sx sy dx dy heap ops

theorem update_xy (m : LQMem K) (p q : Nat) (x y : K) :
    ((lqUpdateForNewLocation m p x y).proxy q).x = (if q = p then x else (m.proxy q).x) ∧
    ((lqUpdateForNewLocation m p x y).proxy q).y = (if q = p then y else (m.proxy q).y) := by
  unfold lqUpdateForNewLocation
  simp only []
  split_ifs <;> simp [add_x, add_y, remove_x, remove_y] <;> simp_all

/-- C3: after any finite sequence of token allocations, position updates and
removals on a fresh database, a token that has been updated and not removed
since is on the list of the bin recorded in its `bin` field, exactly once,
and on no other bin list; any other token is on no bin list. -/
theorem proxy_on_exactly_one_list (ox oy sx sy : K) (dx dy : Int)
    (heap : Nat → lqClientProxy2D K) (ops : List (IndexOp K)) (p : Nat) :
    (updatedNotRemoved ops p = true →
      ∃ b l, ((indexAfter ox oy sx sy dx dy heap ops).proxy p).bin = some b ∧
        IsBinList (indexAfter ox oy sx sy dx dy heap ops) b l ∧ l.count p = 1 ∧
        ∀ b', b' ≠ b →
          ∃ l', IsBinList (indexAfter ox oy sx sy dx dy heap ops) b' l' ∧ p ∉ l') ∧
    (updatedNotRemoved ops p = false →
      ∀ b, ∃ l, IsBinList (indexAfter ox oy sx sy dx dy heap ops) b l ∧ p ∉ l) := by
  obtain ⟨L, hR, hg⟩ := indexAfter_repr ox oy sx sy dx dy heap ops
  constructor
  · intro hp
    obtain ⟨b, hb⟩ := (hg p).1 hp
    refine ⟨b, L b, hR.bin_of_mem hb, hR.isBinList b, ?_, ?_⟩
    · exact List.count_eq_one_of_mem (hR.nodup b) hb
    · intro b' hne
      exact ⟨L b', hR.isBinList b', fun hh => hne (hR.unique hh hb)⟩
  · intro hp b
    refine ⟨L b, hR.isBinList b, ?_⟩
    intro hh
    have := (hg p).2 ⟨b, hh⟩
    rw [hp] at this
    exact Bool.noConfusion this

/-- C4: for an allocated token `p` of a reachable memory and every `(x, y)`,
after `lqUpdateForNewLocation` the stored coordinates of `p` are `(x, y)`, `p`
is on the list of `lqBinForLocation2D lq x y` and on no other list, and every
other proxy keeps its coordinates and its list memberships. -/
theorem update_places_proxy (ox oy sx sy : K) (dx dy : Int)
    (heap : Nat → lqClientProxy2D K) (ops : List (IndexOp K)) (p : Nat) (x y : K)
    (hp : p < (indexAfter ox oy sx sy dx dy heap ops).nproxy) :
    ((lqUpdateForNewLocation (indexAfter ox oy sx sy dx dy heap ops) p x y).proxy p).x = x ∧
    ((lqUpdateForNewLocation (indexAfter ox oy sx sy dx dy heap ops) p x y).proxy p).y = y ∧
    (∃ l, IsBinList (lqUpdateForNewLocation (indexAfter ox oy sx sy dx dy heap ops) p x y)
        (lqBinForLocation2D (indexAfter ox oy sx sy dx dy heap ops).lq x y) l ∧ p ∈ l) ∧
    (∀ b, b ≠ lqBinForLocation2D (indexAfter ox oy sx sy dx dy heap ops).lq x y →
      ∃ l, IsBinList (lqUpdateForNewLocation (indexAfter ox oy sx sy dx dy heap ops) p x y) b l ∧
        p ∉ l) ∧
    (∀ q, q ≠ p →
      ((lqUpdateForNewLocation (indexAfter ox oy sx sy dx dy heap ops) p x y).proxy q).x =
        ((indexAfter ox oy sx sy dx dy heap ops).proxy q).x ∧
      ((lqUpdateForNewLocation (indexAfter ox oy sx sy dx dy heap ops) p x y).proxy q).y =
        ((indexAfter ox oy sx sy dx dy heap ops).proxy q).y ∧
      ∀ b, ∃ l l', IsBinList (indexAfter ox oy sx sy dx dy heap ops) b l ∧
        IsBinList (lqUpdateForNewLocation (indexAfter ox oy sx sy dx dy heap ops) p x y) b l' ∧
        (q ∈ l' ↔ q ∈ l)) := by
  obtain ⟨L, hR, -⟩ := indexAfter_repr ox oy sx sy dx dy heap ops
  generalize indexAfter ox oy sx sy dx dy heap ops = m at hR hp ⊢
  have hU := hR.update hp x y
  have hx := update_xy m p
  refine ⟨by rw [(hx p x y).1, if_pos rfl], by rw [(hx p x y).2, if_pos rfl], ?_, ?_, ?_⟩
  · refine ⟨_, hU.isBinList _, ?_⟩
    split_ifs with hmem
    · exact hmem
    · simp
  · intro b hne
    refine ⟨_, hU.isBinList b, ?_⟩
    split_ifs with hmem
    · exact fun hh => hne (hR.unique hh hmem)
    · intro hh
      rcases (Linked.mem_update_cons b p).1 hh with ⟨-, h2⟩ | h2
      · exact hne h2
      · exact ((List.Nodup.mem_erase_iff (hR.nodup b)).1 h2).1 rfl
  · intro q hq
    refine ⟨by rw [(hx q x y).1, if_neg hq], by rw [(hx q x y).2, if_neg hq], ?_⟩
    intro b
    refine ⟨L b, _, hR.isBinList b, hU.isBinList b, ?_⟩
    split_ifs with hmem
    · rfl
    · rw [Linked.mem_update_cons]
      constructor
      · rintro (⟨h1, -⟩ | h2)
        · exact absurd h1 hq
        · exact List.mem_of_mem_erase h2
      · intro h
        exact Or.inr ((List.mem_erase_of_ne hq).2 h)

end contracts


section removal

theorem setPrev_eq_self (m : LQMem K) (p : Nat) (h : (m.proxy p).prev = none) :
    m.setPrev p none = m := by
  cases m with
  | mk lq proxy n =>
    simp only [LQMem.setPrev] at h ⊢
    congr
    rw [Function.update_eq_self_iff]
    rw [← h]

theorem setNext_eq_self (m : LQMem K) (p : Nat) (h : (m.proxy p).next = none) :
    m.setNext p none = m := by
  cases m with
  | mk lq proxy n =>
    simp only [LQMem.setNext] at h ⊢
    congr
    rw [Function.update_eq_self_iff]
    rw [← h]

theorem setBin_eq_self (m : LQMem K) (p : Nat) (h : (m.proxy p).bin = none) :
    m.setBin p none = m := by
  cases m with
  | mk lq proxy n =>
    simp only [LQMem.setBin] at h ⊢
    congr
    rw [Function.update_eq_self_iff]
    rw [← h]

theorem remove_remove (m : LQMem K) (p : Nat) :
    lqRemoveFromBin (lqRemoveFromBin m p) p = lqRemoveFromBin m p := by
  obtain ⟨h1, h2, h3⟩ := remove_self m p
  generalize lqRemoveFromBin m p = m1 at h1 h2 h3
  unfold lqRemoveFromBin
  simp only [h3]
  rw [setPrev_eq_self m1 p h1, setNext_eq_self m1 p h2, setBin_eq_self m1 p h3]

variable [LinearOrderedField K] [FloorRing K]

theorem indexAfter_nproxy (ox oy sx sy : K) (dx dy : Int) (heap : Nat → lqClientProxy2D K)
    (ops : List (IndexOp K)) :
    (indexAfter ox oy sx sy dx dy heap ops).nproxy = (allocatedItems ops).length := by
  have key : ∀ (ops : List (IndexOp K)) (m : LQMem K),
      (runOps m ops).nproxy = m.nproxy + (allocatedItems ops).length := by
    intro ops
    induction ops with
    | nil => intro m; rfl
    | cons op ops ih =>
      intro m
      show (runOps (IndexOp.apply m op) ops).nproxy = _
      rw [ih]
      cases op with
      | allocateToken item =>
        simp [IndexOp.apply, allocateToken, allocatedItems]; omega
      | updateForNewPosition t x y =>
        simp only [IndexOp.apply, allocatedItems]
        split_ifs <;> simp [updateForNewPosition, update_nproxy]
      | removeFromBin t =>
        simp only [IndexOp.apply, allocatedItems]
        split_ifs <;> simp [remove_nproxy]
  rw [indexAfter, key]
  simp [LQMem.fresh]

/-- C5: `lqRemoveFromBin` is idempotent on every memory, it leaves the proxy
with null `prev`, `next` and `bin`, and in every reachable memory it turns the
list of each bin into the same list without the proxy, the other proxies
keeping their order (so the proxy is on no list afterwards). -/
theorem lqRemoveFromBin_idempotent (m : LQMem K) (p : Nat) :
    lqRemoveFromBin (lqRemoveFromBin m p) p = lqRemoveFromBin m p ∧
    ((lqRemoveFromBin m p).proxy p).prev = none ∧
    ((lqRemoveFromBin m p).proxy p).next = none ∧
    ((lqRemoveFromBin m p).proxy p).bin = none ∧
    ∀ (ox oy sx sy : K) (dx dy : Int) (heap : Nat → lqClientProxy2D K) (ops : List (IndexOp K)),
      m = indexAfter ox oy sx sy dx dy heap ops → p < m.nproxy →
      ∀ b, ∃ l, IsBinList m b l ∧
        IsBinList (lqRemoveFromBin m p) b (l.filter (fun q => q ≠ p)) ∧
        p ∉ l.filter (fun q => q ≠ p) := by
  refine ⟨remove_remove m p, (remove_self m p).1, (remove_self m p).2.1,
    (remove_self m p).2.2, ?_⟩
  intro ox oy sx sy dx dy heap ops hm hp b
  obtain ⟨L, hR, -⟩ := indexAfter_repr ox oy sx sy dx dy heap ops
  rw [← hm] at hR
  refine ⟨L b, hR.isBinList b, ?_, by simp⟩
  have e : (L b).filter (fun q => decide (q ≠ p)) = (L b).erase p := by
    rw [List.Nodup.erase_eq_filter (hR.nodup b)]
    refine List.filter_congr ?_
    intro q _
    by_cases hq : q = p <;> simp [hq]
  rw [e]
  exact (hR.after_remove hp).isBinList b

end removal


/-! ## The radius query -/

section query

variable [LinearOrderedField K] [FloorRing K]

theorem locality_eq_foldlM {σ : Type} (fuel : Nat) (m : LQMem K) (x y radius : K)
    (func : Nat → K → σ → σ) (state : σ) :
    lqMapOverAllObjectsInLocality fuel m x y radius func state =
      (localityBinsVisited m.lq x y radius).foldlM
        (fun st b => traverseBin fuel m x y (radius * radius) func st b) state := by
  unfold lqMapOverAllObjectsInLocality localityBinsVisited
  by_cases hout : completelyOutside m.lq x y radius = true
  · simp only [hout, if_true]
    simp [lqMapOverAllOutsideObjects, traverseBin, LQMem.deref]
  · simp only [hout]
    simp only [Bool.false_eq_true, if_false]
    rw [List.foldlM_append]
    unfold lqMapOverAllObjectsInLocalityClipped
    by_cases hp : (clipBinCoords m.lq.divx m.lq.divy (localityBinCoords m.lq x y radius)).1 = true
    · simp only [hp, if_true]
      simp [lqMapOverAllOutsideObjects, traverseBin, LQMem.deref, List.foldlM_map]
    · simp only [hp]
      simp [List.foldlM_map]

theorem foldl_pushBack (m : LQMem K) (x y r2 : K) : ∀ (l : List Nat) (st : List Nat),
    l.foldl (fun st p =>
        if ((m.proxy p).x - x) * ((m.proxy p).x - x) + ((m.proxy p).y - y) * ((m.proxy p).y - y) < r2
        then pushBackObject (m.proxy p).object
          (((m.proxy p).x - x) * ((m.proxy p).x - x) + ((m.proxy p).y - y) * ((m.proxy p).y - y)) st
        else st) st =
      st ++ (l.filter (fun p => decide (((m.proxy p).x - x) * ((m.proxy p).x - x) +
        ((m.proxy p).y - y) * ((m.proxy p).y - y) < r2))).map (fun p => (m.proxy p).object)
  | [], st => by simp
  | p :: l, st => by
    rw [List.foldl_cons, foldl_pushBack m x y r2 l]
    by_cases h : ((m.proxy p).x - x) * ((m.proxy p).x - x) +
        ((m.proxy p).y - y) * ((m.proxy p).y - y) < r2
    · simp [h, pushBackObject]
    · simp [h]

theorem Linked.traverseBin_pushBack {L : BinRef → List Nat} {m : LQMem K} (h : Linked L m)
    {fuel : Nat} (hf : m.nproxy < fuel) (x y radius : K) (st : List Nat) (b : BinRef) :
    traverseBin fuel m x y (radius * radius) pushBackObject st b =
      some (st ++ ((L b).filter (withinRadius m x y radius)).map
        (fun p => (m.proxy p).object)) := by
  unfold traverseBin
  rw [Chain.traverse_eq x y (radius * radius) pushBackObject st (h.chain b)
    (lt_of_lt_of_le (h.length_lt b) hf), foldl_pushBack]
  rfl

/-- The proxies a query reports: the members of the lists of the visited
bins that pass the distance test, in visiting order. -/
theorem Linked.findNeighbors_eq {L : BinRef → List Nat} {m : LQMem K} (h : Linked L m)
    {fuel : Nat} (hf : m.nproxy < fuel) (x y radius : K) (results : List Nat) :
    findNeighbors fuel m x y radius results =
      some (results ++ (((localityBinsVisited m.lq x y radius).flatMap L).filter
        (withinRadius m x y radius)).map (fun p => (m.proxy p).object)) := by
  unfold findNeighbors
  rw [locality_eq_foldlM]
  generalize localityBinsVisited m.lq x y radius = bs
  induction bs generalizing results with
  | nil => simp
  | cons b bs ih =>
    rw [List.foldlM_cons, h.traverseBin_pushBack hf]
    simp only [Option.bind_eq_bind, Option.some_bind]
    rw [ih]
    simp

end query


/-! ## The bins a query visits -/

section visited

theorem inner_loop_eq (iindex : Int) : ∀ (l : List Int) (j0 : Int) (acc : List Int),
    l.foldl (fun (a : Int × List Int) _ => (a.1 + 1, a.2 ++ [iindex + a.1])) (j0, acc) =
      (j0 + l.length, acc ++ (List.range l.length).map (fun (k : Nat) => iindex + (j0 + (k : Int))))
  | [], j0, acc => by simp
  | _ :: l, j0, acc => by
    rw [List.foldl_cons, inner_loop_eq iindex l]
    simp only [List.length_cons, List.range_succ_eq_map, List.map_cons, List.map_map]
    refine Prod.ext ?_ ?_
    · simp only [Nat.cast_add, Nat.cast_one]; ring
    · simp only [List.append_assoc, List.singleton_append, Nat.cast_zero, add_zero]
      congr 2
      refine List.map_congr_left ?_
      intro k _
      simp only [Function.comp, Nat.cast_succ]
      ring

theorem outer_loop_eq (slab minBinY : Int) (ys : List Int) : ∀ (l : List Int) (i0 : Int)
    (acc : List Int),
    l.foldl (fun (acc : Int × List Int) _ =>
        (acc.1 + slab,
          (ys.foldl (fun (a : Int × List Int) _ => (a.1 + 1, a.2 ++ [acc.1 + a.1]))
            (minBinY, acc.2)).2)) (i0, acc) =
      (i0 + l.length * slab, acc ++ (List.range l.length).flatMap (fun (a : Nat) =>
        (List.range ys.length).map (fun (k : Nat) => (i0 + (a : Int) * slab) + (minBinY + (k : Int)))))
  | [], i0, acc => by simp
  | _ :: l, i0, acc => by
    rw [List.foldl_cons, inner_loop_eq, outer_loop_eq slab minBinY ys l]
    simp only [List.length_cons, List.range_succ_eq_map, List.flatMap_cons, List.flatMap_map]
    refine Prod.ext ?_ ?_
    · simp only [Nat.cast_add, Nat.cast_one]; ring
    · simp only [List.append_assoc, Nat.cast_zero, zero_mul, add_zero]
      congr 2
      refine List.flatMap_congr ?_
      intro a _
      refine List.map_congr_left ?_
      intro k _
      simp only [Nat.cast_succ]
      ring

theorem clippedBinNumbers_eq (slab minBinX minBinY maxBinX maxBinY : Int) :
    clippedBinNumbers slab minBinX minBinY maxBinX maxBinY =
      (List.range (maxBinX + 1 - minBinX).toNat).flatMap (fun (a : Nat) =>
        (List.range (maxBinY + 1 - minBinY).toNat).map (fun (k : Nat) =>
          (minBinX * slab + (a : Int) * slab) + (minBinY + (k : Int)))) := by
  unfold clippedBinNumbers
  simp only []
  rw [outer_loop_eq]
  have hl : ∀ lo hi : Int, (loopRange lo hi).length = (hi + 1 - lo).toNat := by
    intro lo hi; simp [loopRange]
  simp only [hl]
  simp

theorem mem_clippedBinNumbers {slab minBinX minBinY maxBinX maxBinY i : Int} :
    i ∈ clippedBinNumbers slab minBinX minBinY maxBinX maxBinY ↔
      ∃ bx cy : Int, minBinX ≤ bx ∧ bx ≤ maxBinX ∧ minBinY ≤ cy ∧ cy ≤ maxBinY ∧
        i = bx * slab + cy := by
  rw [clippedBinNumbers_eq]
  simp only [List.mem_flatMap, List.mem_map, List.mem_range]
  constructor
  · rintro ⟨a, ha, k, hk, rfl⟩
    refine ⟨minBinX + a, minBinY + k, by omega, by omega, by omega, by omega, by ring⟩
  · rintro ⟨bx, by', h1, h2, h3, h4, rfl⟩
    refine ⟨(bx - minBinX).toNat, by omega, (by' - minBinY).toNat, by omega, ?_⟩
    have e1 : (((bx - minBinX).toNat : Nat) : Int) = bx - minBinX := Int.toNat_of_nonneg (by omega)
    have e2 : (((by' - minBinY).toNat : Nat) : Int) = by' - minBinY :=
      Int.toNat_of_nonneg (by omega)
    rw [e1, e2]
    ring

end visited


section visitedNodup

theorem bin_number_inj {slab i j i' j' : Int} (h0 : 0 ≤ j) (h1 : j < slab) (h0' : 0 ≤ j')
    (h1' : j' < slab) (h : i * slab + j = i' * slab + j') : i = i' ∧ j = j' := by
  have e1 : (i * slab + j) % slab = j := by
    rw [Int.add_comm, Int.add_mul_emod_self]; exact Int.emod_eq_of_lt h0 h1
  have e2 : (i' * slab + j') % slab = j' := by
    rw [Int.add_comm, Int.add_mul_emod_self]; exact Int.emod_eq_of_lt h0' h1'
  have hj : j = j' := by rw [← e1, ← e2, h]
  subst hj
  have hs : slab ≠ 0 := by omega
  exact ⟨Int.eq_of_mul_eq_mul_right hs (by omega), rfl⟩

theorem clippedBinNumbers_nodup (slab minBinX minBinY maxBinX maxBinY : Int)
    (hmin : 0 ≤ minBinY) (hmax : maxBinY ≤ slab - 1) :
    (clippedBinNumbers slab minBinX minBinY maxBinX maxBinY).Nodup := by
  rw [clippedBinNumbers_eq, List.nodup_flatMap]
  have hk : ∀ k : Nat, k < (maxBinY + 1 - minBinY).toNat →
      0 ≤ minBinY + (k : Int) ∧ minBinY + (k : Int) < slab := by
    intro k hk; omega
  constructor
  · intro a _
    refine List.Nodup.map_on ?_ (List.nodup_range _)
    intro k hk1 k' hk2 e
    have := (bin_number_inj (hk k (List.mem_range.1 hk1)).1 (hk k (List.mem_range.1 hk1)).2
      (hk k' (List.mem_range.1 hk2)).1 (hk k' (List.mem_range.1 hk2)).2
      (by rw [← add_mul] at e; exact e)).2
    omega
  · refine List.Pairwise.imp_of_mem ?_ (List.nodup_range _)
    intro a a' _ _ hne
    simp only [Function.onFun]
    intro i hi hi'
    obtain ⟨k, hk1, rfl⟩ := List.mem_map.1 hi
    obtain ⟨k', hk2, e⟩ := List.mem_map.1 hi'
    have := (bin_number_inj (hk k' (List.mem_range.1 hk2)).1 (hk k' (List.mem_range.1 hk2)).2
      (hk k (List.mem_range.1 hk1)).1 (hk k (List.mem_range.1 hk1)).2
      (by rw [← add_mul, ← add_mul] at e; exact e)).1
    exact hne (by omega)

theorem clipBinCoords_bounds (divx divy : Int) (c : Int × Int × Int × Int) :
    0 ≤ (clipBinCoords divx divy c).2.1 ∧ 0 ≤ (clipBinCoords divx divy c).2.2.1 ∧
    (clipBinCoords divx divy c).2.2.2.1 ≤ divx - 1 ∧
    (clipBinCoords divx divy c).2.2.2.2 ≤ divy - 1 := by
  unfold clipBinCoords
  simp only []
  refine ⟨?_, ?_, ?_, ?_⟩ <;> split_ifs <;> simp <;> omega

theorem localityBinsVisited_nodup [LinearOrderedField K] [FloorRing K] (lq : lqInternalDB2D K)
    (x y radius : K) : (localityBinsVisited lq x y radius).Nodup := by
  unfold localityBinsVisited
  split_ifs with h1
  · simp
  · simp only []
    obtain ⟨-, b2, -, b4⟩ := clipBinCoords_bounds lq.divx lq.divy (localityBinCoords lq x y radius)
    have hnd := (clippedBinNumbers_nodup lq.divy
      (clipBinCoords lq.divx lq.divy (localityBinCoords lq x y radius)).2.1 _
      (clipBinCoords lq.divx lq.divy (localityBinCoords lq x y radius)).2.2.2.1 _ b2 b4)
    have hmap := hnd.map (f := BinRef.bins) (fun a b e => by injection e)
    split_ifs with h2
    · rw [List.singleton_append, List.nodup_cons]
      refine ⟨?_, hmap⟩
      simp
    · simpa using hmap

end visitedNodup

section objects

variable [LinearOrderedField K] [FloorRing K]

theorem update_object (m : LQMem K) (p q : Nat) (x y : K) :
    ((lqUpdateForNewLocation m p x y).proxy q).object = (m.proxy q).object := by
  unfold lqUpdateForNewLocation
  simp only []
  split_ifs <;> simp [add_object, remove_object] <;> split_ifs <;> simp_all

theorem runOps_object : ∀ (ops : List (IndexOp K)) (m : LQMem K) (items : List Nat),
    m.nproxy = items.length → (∀ p, p < m.nproxy → items[p]? = some (m.proxy p).object) →
    ∀ p, p < (runOps m ops).nproxy →
      (items ++ allocatedItems ops)[p]? = some ((runOps m ops).proxy p).object
  | [], m, items, _, h => by simpa [runOps, allocatedItems] using h
  | op :: ops, m, items, hn, h => by
    show ∀ p, p < (runOps (IndexOp.apply m op) ops).nproxy →
      (items ++ allocatedItems (op :: ops))[p]? = some ((runOps (IndexOp.apply m op) ops).proxy p).object
    cases op with
    | allocateToken item =>
      have := runOps_object ops (allocateToken m item) (items ++ [item])
        (by simp [allocateToken, hn]) (by
          intro p hp
          simp only [allocateToken] at hp ⊢
          by_cases e : p = m.nproxy
          · subst e
            simp [hn, lqInitClientProxy2D]
          · have hlt : p < m.nproxy := by omega
            rw [List.getElem?_append_left (by omega)]
            simpa [Function.update_apply, e] using h p hlt)
      simpa [IndexOp.apply, allocatedItems] using this
    | updateForNewPosition t x y =>
      simp only [IndexOp.apply, allocatedItems]
      split_ifs with ht
      · exact runOps_object ops _ items (by simp [updateForNewPosition, update_nproxy, hn]) (by
          intro p hp
          simp only [updateForNewPosition, update_nproxy] at hp
          simp only [updateForNewPosition, update_object]
          exact h p hp)
      · exact runOps_object ops m items hn h
    | removeFromBin t =>
      simp only [IndexOp.apply, allocatedItems]
      split_ifs with ht
      · exact runOps_object ops _ items (by simp [remove_nproxy, hn]) (by
          intro p hp
          simp only [remove_nproxy] at hp
          simp only [remove_object]
          exact h p hp)
      · exact runOps_object ops m items hn h

theorem indexAfter_object (ox oy sx sy : K) (dx dy : Int) (heap : Nat → lqClientProxy2D K)
    (ops : List (IndexOp K)) (p : Nat) (hp : p < (indexAfter ox oy sx sy dx dy heap ops).nproxy) :
    (allocatedItems ops)[p]? = some ((indexAfter ox oy sx sy dx dy heap ops).proxy p).object := by
  have := runOps_object ops (LQMem.fresh (lqCreateDatabase2D ox oy sx sy dx dy) heap) [] rfl
    (by intro p hp; simp [LQMem.fresh] at hp) p hp
  simpa using this

theorem indexAfter_object_inj (ox oy sx sy : K) (dx dy : Int) (heap : Nat → lqClientProxy2D K)
    (ops : List (IndexOp K)) (hd : (allocatedItems ops).Nodup) (p q : Nat)
    (hp : p < (indexAfter ox oy sx sy dx dy heap ops).nproxy)
    (hq : q < (indexAfter ox oy sx sy dx dy heap ops).nproxy)
    (e : ((indexAfter ox oy sx sy dx dy heap ops).proxy p).object =
      ((indexAfter ox oy sx sy dx dy heap ops).proxy q).object) : p = q := by
  have h1 := indexAfter_object ox oy sx sy dx dy heap ops p hp
  have h2 := indexAfter_object ox oy sx sy dx dy heap ops q hq
  rw [indexAfter_nproxy] at hp hq
  rw [e, ← h2] at h1
  rw [List.getElem?_eq_getElem hp, List.getElem?_eq_getElem hq] at h1
  exact (List.Nodup.getElem_inj_iff hd).1 (Option.some.inj h1)

end objects


section found

variable [LinearOrderedField K] [FloorRing K]

/-- The query on a reachable memory: it reports, without repetition, the
tokens that are linked, pass the distance test, and whose bin (the bin of
their stored location) is among the bins the query visits. -/
theorem findNeighbors_found (ox oy sx sy : K) (dx dy : Int) (heap : Nat → lqClientProxy2D K)
    (ops : List (IndexOp K)) (x y radius : K) :
    ∃ ps : List Nat, ps.Nodup ∧
      (∀ p, p ∈ ps → p < (indexAfter ox oy sx sy dx dy heap ops).nproxy) ∧
      (∀ p, p ∈ ps ↔ (updatedNotRemoved ops p = true ∧
        withinRadius (indexAfter ox oy sx sy dx dy heap ops) x y radius p = true ∧
        lqBinForLocation2D (indexAfter ox oy sx sy dx dy heap ops).lq
          ((indexAfter ox oy sx sy dx dy heap ops).proxy p).x
          ((indexAfter ox oy sx sy dx dy heap ops).proxy p).y ∈
          localityBinsVisited (indexAfter ox oy sx sy dx dy heap ops).lq x y radius)) ∧
      ∀ fuel, (indexAfter ox oy sx sy dx dy heap ops).nproxy < fuel → ∀ results,
        findNeighbors fuel (indexAfter ox oy sx sy dx dy heap ops) x y radius results =
          some (results ++
            ps.map (fun p => ((indexAfter ox oy sx sy dx dy heap ops).proxy p).object)) := by
  obtain ⟨L, hR, hg⟩ := indexAfter_repr ox oy sx sy dx dy heap ops
  generalize indexAfter ox oy sx sy dx dy heap ops = m at hR ⊢
  refine ⟨((localityBinsVisited m.lq x y radius).flatMap L).filter (withinRadius m x y radius),
    ?_, ?_, ?_, ?_⟩
  · refine List.Nodup.filter _ ?_
    rw [List.nodup_flatMap]
    refine ⟨fun b _ => hR.nodup b, ?_⟩
    refine List.Pairwise.imp_of_mem ?_ (localityBinsVisited_nodup m.lq x y radius)
    intro b b' _ _ hne
    simp only [Function.onFun]
    intro p hp hp'
    exact hne (hR.unique hp hp')
  · intro p hp
    obtain ⟨hp1, -⟩ := List.mem_filter.1 hp
    obtain ⟨b, -, hb⟩ := List.mem_flatMap.1 hp1
    exact hR.alloc b p hb
  · intro p
    rw [List.mem_filter, List.mem_flatMap]
    constructor
    · rintro ⟨⟨b, hb, hpb⟩, hw⟩
      refine ⟨(hg p).2 ⟨b, hpb⟩, hw, ?_⟩
      rw [hR.coords b p hpb]
      exact hb
    · rintro ⟨h1, hw, hv⟩
      obtain ⟨b, hb⟩ := (hg p).1 h1
      rw [hR.coords b p hb] at hv
      exact ⟨⟨b, hv, hb⟩, hw⟩
  · intro fuel hf results
    exact hR.toLinked.findNeighbors_eq hf x y radius results

end found


/-! ## The geometry of the database never changes -/

section geometry

@[simp] theorem assign_geometry (m : LQMem K) (b : BinRef) (v : Option Nat) :
    (m.assign b v).lq.geometry = m.lq.geometry := by
  cases b <;> rfl

theorem remove_geometry (m : LQMem K) (p : Nat) :
    (lqRemoveFromBin m p).lq.geometry = m.lq.geometry := by
  unfold lqRemoveFromBin
  cases (m.proxy p).bin with
  | none => simp
  | some b =>
    simp only [setBin_lq, setNext_lq, setPrev_lq]
    split <;> split <;> split_ifs <;> simp

theorem add_geometry (m : LQMem K) (p : Nat) (b : BinRef) :
    (lqAddToBin m p b).lq.geometry = m.lq.geometry := by
  unfold lqAddToBin
  cases m.deref b <;> simp

variable [LinearOrderedField K] [FloorRing K]

theorem update_geometry (m : LQMem K) (p : Nat) (x y : K) :
    (lqUpdateForNewLocation m p x y).lq.geometry = m.lq.geometry := by
  unfold lqUpdateForNewLocation
  simp only []
  split_ifs
  · rw [add_geometry, remove_geometry]; rfl
  · rfl

theorem runOps_geometry : ∀ (ops : List (IndexOp K)) (m : LQMem K),
    (runOps m ops).lq.geometry = m.lq.geometry
  | [], _ => rfl
  | op :: ops, m => by
    show (runOps (IndexOp.apply m op) ops).lq.geometry = _
    rw [runOps_geometry ops]
    cases op with
    | allocateToken item => rfl
    | updateForNewPosition t x y =>
      simp only [IndexOp.apply]
      split_ifs
      · exact update_geometry m t x y
      · rfl
    | removeFromBin t =>
      simp only [IndexOp.apply]
      split_ifs
      · exact remove_geometry m t
      · rfl

theorem indexAfter_geometry (ox oy sx sy : K) (dx dy : Int) (heap : Nat → lqClientProxy2D K)
    (ops : List (IndexOp K)) :
    (indexAfter ox oy sx sy dx dy heap ops).lq.geometry = (ox, oy, sx, sy, dx, dy) := by
  rw [indexAfter, runOps_geometry]
  rfl

theorem binForLocation_of_geometry (lq lq' : lqInternalDB2D K)
    (h : lq'.geometry = lq.geometry) (x y : K) :
    lqBinForLocation2D lq' x y = lqBinForLocation2D lq x y := by
  simp only [lqInternalDB2D.geometry, Prod.mk.injEq] at h
  obtain ⟨h1, h2, h3, h4, h5, h6⟩ := h
  exact binForLocation_congr lq lq' h1 h2 h3 h4 h5 h6 x y

theorem completelyOutside_of_geometry (lq lq' : lqInternalDB2D K)
    (h : lq'.geometry = lq.geometry) (x y r : K) :
    completelyOutside lq' x y r = completelyOutside lq x y r := by
  simp only [lqInternalDB2D.geometry, Prod.mk.injEq] at h
  obtain ⟨h1, h2, h3, h4, h5, h6⟩ := h
  simp [completelyOutside, h1, h2, h3, h4]

theorem localityBinsVisited_of_geometry (lq lq' : lqInternalDB2D K)
    (h : lq'.geometry = lq.geometry) (x y r : K) :
    localityBinsVisited lq' x y r = localityBinsVisited lq x y r := by
  have hc := completelyOutside_of_geometry lq lq' h x y r
  simp only [lqInternalDB2D.geometry, Prod.mk.injEq] at h
  obtain ⟨h1, h2, h3, h4, h5, h6⟩ := h
  simp [localityBinsVisited, localityBinCoords, hc, h1, h2, h3, h4, h5, h6]

end geometry

/-! ## No agent is reported twice -/

section nodup

variable [LinearOrderedField K] [FloorRing K]

/-- C6: in every reachable memory whose tokens were allocated for pairwise
distinct client objects, every query visits no bin twice, terminates, and
appends to `results` a list of client objects without repetition. -/
theorem findNeighbors_no_duplicates (ox oy sx sy : K) (dx dy : Int)
    (heap : Nat → lqClientProxy2D K) (ops : List (IndexOp K))
    (hd : (allocatedItems ops).Nodup) (x y radius : K) :
    (localityBinsVisited (indexAfter ox oy sx sy dx dy heap ops).lq x y radius).Nodup ∧
    ∃ found : List Nat, found.Nodup ∧
      ∀ fuel, (indexAfter ox oy sx sy dx dy heap ops).nproxy < fuel → ∀ results,
        findNeighbors fuel (indexAfter ox oy sx sy dx dy heap ops) x y radius results =
          some (results ++ found) := by
  obtain ⟨ps, hnd, halloc, -, hres⟩ := findNeighbors_found ox oy sx sy dx dy heap ops x y radius
  refine ⟨localityBinsVisited_nodup _ x y radius, _, ?_, hres⟩
  refine List.Nodup.map_on ?_ hnd
  intro p hp q hq e
  exact indexAfter_object_inj ox oy sx sy dx dy heap ops hd p q (halloc p hp) (halloc q hq) e

end nodup


/-! ## Concrete scenarios -/

section scenarios

theorem truncToInt_eq [LinearOrderedField K] [FloorRing K] {q : K} {n : Int}
    (h : (0 ≤ q ∧ (n : K) ≤ q ∧ q < n + 1) ∨ (q < 0 ∧ (n : K) - 1 < q ∧ q ≤ n)) :
    truncToInt q = n := by
  unfold truncToInt
  rcases h with ⟨h0, h1, h2⟩ | ⟨h0, h1, h2⟩
  · rw [if_pos h0, Int.floor_eq_iff]
    exact ⟨h1, h2⟩
  · rw [if_neg (not_le.2 h0), neg_eq_iff_eq_neg, Int.floor_eq_iff]
    push_cast
    constructor <;> linarith

theorem binForLocation_eq_other_iff [LinearOrderedField K] [FloorRing K]
    (lq : lqInternalDB2D K) (x y : K) :
    lqBinForLocation2D lq x y = BinRef.other ↔
      (x < lq.originx ∨ y < lq.originy ∨ x ≥ lq.originx + lq.sizex ∨
        y ≥ lq.originy + lq.sizey) := by
  unfold lqBinForLocation2D
  constructor
  · intro h
    by_contra hin
    simp only [not_or] at hin
    obtain ⟨h1, h2, h3, h4⟩ := hin
    rw [if_neg h1, if_neg h2, if_neg h3, if_neg h4] at h
    exact BinRef.noConfusion h
  · intro h
    rcases h with h | h | h | h
    · rw [if_pos h]
    · split_ifs <;> first | rfl | exact absurd h ‹_›
    · split_ifs <;> first | rfl | exact absurd h ‹_›
    · split_ifs <;> first | rfl | exact absurd h ‹_›

theorem visited_overflow_query :
    localityBinsVisited (lqCreateDatabase2D (0 : ℚ) 0 8 8 8 8) (1 / 4) (1 / 2) 1 =
      [BinRef.bins 0, BinRef.bins 1, BinRef.bins 8, BinRef.bins 9] := by
  have hc : completelyOutside (lqCreateDatabase2D (0 : ℚ) 0 8 8 8 8) (1 / 4) (1 / 2) 1 = false := by
    simp [completelyOutside, lqCreateDatabase2D, lqInitDatabase2D]; norm_num
  have hb : localityBinCoords (lqCreateDatabase2D (0 : ℚ) 0 8 8 8 8) (1 / 4) (1 / 2) 1 =
      (0, 0, 1, 1) := by
    simp only [localityBinCoords, lqCreateDatabase2D, lqInitDatabase2D]
    rw [truncToInt_eq (q := (1 / 4 - 1 - 0) / 8 * ((8 : ℤ) : ℚ)) (n := 0) (by norm_num),
      truncToInt_eq (q := (1 / 2 - 1 - 0) / 8 * ((8 : ℤ) : ℚ)) (n := 0) (by norm_num),
      truncToInt_eq (q := (1 / 4 + 1 - 0) / 8 * ((8 : ℤ) : ℚ)) (n := 1) (by norm_num),
      truncToInt_eq (q := (1 / 2 + 1 - 0) / 8 * ((8 : ℤ) : ℚ)) (n := 1) (by norm_num)]
  unfold localityBinsVisited
  rw [hc, hb]
  decide

theorem visited_corner_query :
    localityBinsVisited (lqCreateDatabase2D (0 : ℚ) 0 8 8 8 8) (-1) (-1) (5 / 4) =
      [BinRef.other, BinRef.bins 0] := by
  have hc : completelyOutside (lqCreateDatabase2D (0 : ℚ) 0 8 8 8 8) (-1) (-1) (5 / 4) = false := by
    simp [completelyOutside, lqCreateDatabase2D, lqInitDatabase2D]; norm_num
  have hb : localityBinCoords (lqCreateDatabase2D (0 : ℚ) 0 8 8 8 8) (-1) (-1) (5 / 4) =
      (-2, -2, 0, 0) := by
    simp only [localityBinCoords, lqCreateDatabase2D, lqInitDatabase2D]
    rw [truncToInt_eq (q := (-1 - 5 / 4 - 0) / 8 * ((8 : ℤ) : ℚ)) (n := -2) (by norm_num),
      truncToInt_eq (q := (-1 + 5 / 4 - 0) / 8 * ((8 : ℤ) : ℚ)) (n := 0) (by norm_num)]
  unfold localityBinsVisited
  rw [hc, hb]
  decide

end scenarios


/-! ## The overflow bin and queries across the region border -/

section overflow

theorem overflowOps_mem :
    indexAfter (0 : ℚ) 0 8 8 8 8 nullHeap overflowOps =
      lqUpdateForNewLocation (allocateToken (LQMem.fresh (lqCreateDatabase2D 0 0 8 8 8 8) nullHeap) 7)
        0 (-1 / 2) (1 / 2) := rfl

/-- C1, failing input: the region is `[0, 8)²` cut in 8 × 8 bins and one
agent (client object 7) has been reported at `(-1/2, 1/2)`, which puts it in
the overflow bin.  Its squared distance to `(1/4, 1/2)` is `9/16 < 1`, but
the query with centre `(1/4, 1/2)` and radius 1 terminates with no agent
reported: the disc crosses the minimum edge by less than one bin, the cast
`(int)` rounds the negative bin coordinate up to 0, and the overflow bin is
not visited. -/
theorem overflow_neighbor_missed :
    updatedNotRemoved overflowOps 0 = true ∧
    ((indexAfter (0 : ℚ) 0 8 8 8 8 nullHeap overflowOps).proxy 0).object = 7 ∧
    ((indexAfter (0 : ℚ) 0 8 8 8 8 nullHeap overflowOps).proxy 0).x = -1 / 2 ∧
    ((indexAfter (0 : ℚ) 0 8 8 8 8 nullHeap overflowOps).proxy 0).y = 1 / 2 ∧
    withinRadius (indexAfter (0 : ℚ) 0 8 8 8 8 nullHeap overflowOps) (1 / 4) (1 / 2) 1 0 = true ∧
    localityBinsVisited (indexAfter (0 : ℚ) 0 8 8 8 8 nullHeap overflowOps).lq (1 / 4) (1 / 2) 1 =
      [BinRef.bins 0, BinRef.bins 1, BinRef.bins 8, BinRef.bins 9] ∧
    ∀ fuel, (indexAfter (0 : ℚ) 0 8 8 8 8 nullHeap overflowOps).nproxy < fuel →
      findNeighbors fuel (indexAfter (0 : ℚ) 0 8 8 8 8 nullHeap overflowOps) (1 / 4) (1 / 2) 1 [] =
        some [] := by
  have hx : ((indexAfter (0 : ℚ) 0 8 8 8 8 nullHeap overflowOps).proxy 0).x = -1 / 2 := by
    rw [overflowOps_mem, (update_xy _ 0 0 _ _).1, if_pos rfl]
  have hy : ((indexAfter (0 : ℚ) 0 8 8 8 8 nullHeap overflowOps).proxy 0).y = 1 / 2 := by
    rw [overflowOps_mem, (update_xy _ 0 0 _ _).2, if_pos rfl]
  have hgeo := indexAfter_geometry (0 : ℚ) 0 8 8 8 8 nullHeap overflowOps
  have hvis : localityBinsVisited (indexAfter (0 : ℚ) 0 8 8 8 8 nullHeap overflowOps).lq
      (1 / 4) (1 / 2) 1 = [BinRef.bins 0, BinRef.bins 1, BinRef.bins 8, BinRef.bins 9] := by
    rw [localityBinsVisited_of_geometry (lqCreateDatabase2D (0 : ℚ) 0 8 8 8 8) _ hgeo]
    exact visited_overflow_query
  have hlive : updatedNotRemoved overflowOps 0 = true := by
    simp [updatedNotRemoved, overflowOps, linkedStep]
  refine ⟨hlive, ?_, hx, hy, ?_, hvis, ?_⟩
  · rw [overflowOps_mem, update_object]
    simp [allocateToken, lqInitClientProxy2D, LQMem.fresh]
  · unfold withinRadius
    rw [hx, hy]
    norm_num
  · intro fuel hf
    obtain ⟨ps, -, halloc, hiff, hres⟩ :=
      findNeighbors_found (0 : ℚ) 0 8 8 8 8 nullHeap overflowOps (1 / 4) (1 / 2) 1
    have hps : ps = [] := by
      rw [List.eq_nil_iff_forall_not_mem]
      intro p hp
      have h1 := halloc p hp
      rw [indexAfter_nproxy] at h1
      have hp0 : p = 0 := by
        simp [overflowOps, allocatedItems] at h1
        exact h1
      subst hp0
      have h2 := ((hiff 0).1 hp).2.2
      rw [hx, hy, hvis, binForLocation_of_geometry (lqCreateDatabase2D (0 : ℚ) 0 8 8 8 8) _ hgeo,
        (binForLocation_eq_other_iff _ _ _).2
          (Or.inl (by simp [lqCreateDatabase2D, lqInitDatabase2D]; norm_num))] at h2
      simp at h2
    rw [hres fuel hf, hps]
    rfl

end overflow


section outside

variable [LinearOrderedField K] [FloorRing K]

theorem visited_of_completelyOutside (lq : lqInternalDB2D K) (x y radius : K)
    (h : completelyOutside lq x y radius = true) :
    localityBinsVisited lq x y radius = [BinRef.other] := by
  unfold localityBinsVisited
  rw [if_pos h]

theorem not_within_of_inside (m : LQMem K) (p : Nat) (x y radius : K) (hr : 0 ≤ radius)
    (hout : lqBinForLocation2D m.lq (m.proxy p).x (m.proxy p).y = BinRef.other)
    (h1 : m.lq.originx ≤ x - radius) (h2 : x + radius ≤ m.lq.originx + m.lq.sizex)
    (h3 : m.lq.originy ≤ y - radius) (h4 : y + radius ≤ m.lq.originy + m.lq.sizey) :
    withinRadius m x y radius p = false := by
  unfold withinRadius
  rw [decide_eq_false_iff_not, not_lt]
  rcases (binForLocation_eq_other_iff _ _ _).1 hout with h | h | h | h
  · nlinarith [mul_self_nonneg ((m.proxy p).y - y)]
  · nlinarith [mul_self_nonneg ((m.proxy p).x - x)]
  · nlinarith [mul_self_nonneg ((m.proxy p).y - y)]
  · nlinarith [mul_self_nonneg ((m.proxy p).x - x)]

/-- C7 (amended): in every reachable memory, a query whose bounding square is
cut off from the super-region along one axis (the test `completelyOutside` of
the source) visits the overflow bin only and reports exactly the proxies of
the overflow list that pass the distance test.  Consequently, when the
client objects are pairwise distinct, a linked token whose stored location is
outside the super-region is reported by every such query centred on it with
positive radius, and is not reported by any query whose bounding square lies
inside the super-region. -/
theorem outside_query_scans_overflow_only (ox oy sx sy : K) (dx dy : Int)
    (heap : Nat → lqClientProxy2D K) (ops : List (IndexOp K))
    (hd : (allocatedItems ops).Nodup) :
    (∀ x y radius, completelyOutside (indexAfter ox oy sx sy dx dy heap ops).lq x y radius = true →
      localityBinsVisited (indexAfter ox oy sx sy dx dy heap ops).lq x y radius = [BinRef.other] ∧
      ∃ l, IsBinList (indexAfter ox oy sx sy dx dy heap ops) BinRef.other l ∧
        ∀ fuel, (indexAfter ox oy sx sy dx dy heap ops).nproxy < fuel → ∀ results,
          findNeighbors fuel (indexAfter ox oy sx sy dx dy heap ops) x y radius results =
            some (results ++
              (l.filter (withinRadius (indexAfter ox oy sx sy dx dy heap ops) x y radius)).map
                (fun p => ((indexAfter ox oy sx sy dx dy heap ops).proxy p).object))) ∧
    (∀ p, updatedNotRemoved ops p = true →
      lqBinForLocation2D (indexAfter ox oy sx sy dx dy heap ops).lq
        ((indexAfter ox oy sx sy dx dy heap ops).proxy p).x
        ((indexAfter ox oy sx sy dx dy heap ops).proxy p).y = BinRef.other →
      (∀ radius, 0 < radius →
        completelyOutside (indexAfter ox oy sx sy dx dy heap ops).lq
          ((indexAfter ox oy sx sy dx dy heap ops).proxy p).x
          ((indexAfter ox oy sx sy dx dy heap ops).proxy p).y radius = true →
        ∀ fuel, (indexAfter ox oy sx sy dx dy heap ops).nproxy < fuel →
          ∃ res, findNeighbors fuel (indexAfter ox oy sx sy dx dy heap ops)
              ((indexAfter ox oy sx sy dx dy heap ops).proxy p).x
              ((indexAfter ox oy sx sy dx dy heap ops).proxy p).y radius [] = some res ∧
            ((indexAfter ox oy sx sy dx dy heap ops).proxy p).object ∈ res) ∧
      (∀ x y radius, 0 ≤ radius →
        (indexAfter ox oy sx sy dx dy heap ops).lq.originx ≤ x - radius →
        x + radius ≤ (indexAfter ox oy sx sy dx dy heap ops).lq.originx +
          (indexAfter ox oy sx sy dx dy heap ops).lq.sizex →
        (indexAfter ox oy sx sy dx dy heap ops).lq.originy ≤ y - radius →
        y + radius ≤ (indexAfter ox oy sx sy dx dy heap ops).lq.originy +
          (indexAfter ox oy sx sy dx dy heap ops).lq.sizey →
        ∀ fuel, (indexAfter ox oy sx sy dx dy heap ops).nproxy < fuel →
          ∃ res, findNeighbors fuel (indexAfter ox oy sx sy dx dy heap ops) x y radius [] =
              some res ∧
            ((indexAfter ox oy sx sy dx dy heap ops).proxy p).object ∉ res)) := by
  have hinj := indexAfter_object_inj ox oy sx sy dx dy heap ops hd
  have hfound := findNeighbors_found ox oy sx sy dx dy heap ops
  obtain ⟨L, hR, hg⟩ := indexAfter_repr ox oy sx sy dx dy heap ops
  generalize indexAfter ox oy sx sy dx dy heap ops = m at hR hinj hfound ⊢
  constructor
  · intro x y radius hout
    have hv := visited_of_completelyOutside m.lq x y radius hout
    refine ⟨hv, L BinRef.other, hR.isBinList _, ?_⟩
    intro fuel hf results
    rw [hR.toLinked.findNeighbors_eq hf, hv]
    simp
  · intro p hlive hpout
    obtain ⟨b, hb⟩ := (hg p).1 hlive
    have hpn : p < m.nproxy := hR.alloc b p hb
    constructor
    · intro radius hr hout fuel hf
      obtain ⟨ps, -, -, hiff, hres⟩ := hfound (m.proxy p).x (m.proxy p).y radius
      refine ⟨_, hres fuel hf [], ?_⟩
      rw [List.nil_append]
      refine List.mem_map.2 ⟨p, (hiff p).2 ⟨hlive, ?_, ?_⟩, rfl⟩
      · unfold withinRadius
        simp only [sub_self, mul_zero, add_zero, decide_eq_true_eq]
        exact mul_pos hr hr
      · rw [hpout, visited_of_completelyOutside _ _ _ _ hout]
        exact List.mem_singleton_self _
    · intro x y radius hr h1 h2 h3 h4 fuel hf
      obtain ⟨ps, -, halloc, hiff, hres⟩ := hfound x y radius
      refine ⟨_, hres fuel hf [], ?_⟩
      rw [List.nil_append]
      intro hmem
      obtain ⟨q, hq, hqo⟩ := List.mem_map.1 hmem
      have hqp : q = p := hinj q p (halloc q hq) hpn hqo
      subst hqp
      have hw := ((hiff q).1 hq).2.1
      rw [not_within_of_inside m q x y radius hr hpout h1 h2 h3 h4] at hw
      exact Bool.noConfusion hw

end outside

/-- C7, as stated, fails: the open disc of centre `(-1, -1)` and radius `5/4`
lies entirely outside the region `[0, 8)²` (every point of the region is at
squared distance at least `2 > 25/16`), yet the query does not take the
overflow-only path: it visits the regular bin 0 as well. -/
theorem corner_disc_visits_regular_bin :
    (∀ px py : ℚ, 0 ≤ px → px < 0 + 8 → 0 ≤ py → py < 0 + 8 →
      ¬ ((px - (-1)) * (px - (-1)) + (py - (-1)) * (py - (-1)) < 5 / 4 * (5 / 4))) ∧
    completelyOutside (lqCreateDatabase2D (0 : ℚ) 0 8 8 8 8) (-1) (-1) (5 / 4) = false ∧
    localityBinsVisited (lqCreateDatabase2D (0 : ℚ) 0 8 8 8 8) (-1) (-1) (5 / 4) =
      [BinRef.other, BinRef.bins 0] := by
  refine ⟨?_, ?_, visited_corner_query⟩
  · intro px py h1 _ h2 _
    nlinarith
  · simp [completelyOutside, lqCreateDatabase2D, lqInitDatabase2D]; norm_num


section witnesses

theorem farAgentOps_mem :
    indexAfter (-5 : ℚ) (-5) 10 10 10 10 nullHeap farAgentOps =
      lqUpdateForNewLocation
        (allocateToken (LQMem.fresh (lqCreateDatabase2D (-5) (-5) 10 10 10 10) nullHeap) 0)
        0 1000000 0 := rfl

/-- C7, the scenario of the specification: one agent (client object 0) at
`(1000000, 0)` in an index covering `[-5, 5]²`; the query centred on it with
radius `1/10` reports it, the query at `(0, 0)` with radius `1/10` does not. -/
theorem outside_query_scans_overflow_only_witness :
    (allocatedItems farAgentOps).Nodup ∧
    (∀ fuel, (indexAfter (-5 : ℚ) (-5) 10 10 10 10 nullHeap farAgentOps).nproxy < fuel →
      ∃ res, findNeighbors fuel (indexAfter (-5 : ℚ) (-5) 10 10 10 10 nullHeap farAgentOps)
        1000000 0 (1 / 10) [] = some res ∧ 0 ∈ res) ∧
    (∀ fuel, (indexAfter (-5 : ℚ) (-5) 10 10 10 10 nullHeap farAgentOps).nproxy < fuel →
      ∃ res, findNeighbors fuel (indexAfter (-5 : ℚ) (-5) 10 10 10 10 nullHeap farAgentOps)
        0 0 (1 / 10) [] = some res ∧ 0 ∉ res) := by
  have hd : (allocatedItems farAgentOps).Nodup := by simp [farAgentOps, allocatedItems]
  have hx : ((indexAfter (-5 : ℚ) (-5) 10 10 10 10 nullHeap farAgentOps).proxy 0).x = 1000000 := by
    rw [farAgentOps_mem, (update_xy _ 0 0 _ _).1, if_pos rfl]
  have hy : ((indexAfter (-5 : ℚ) (-5) 10 10 10 10 nullHeap farAgentOps).proxy 0).y = 0 := by
    rw [farAgentOps_mem, (update_xy _ 0 0 _ _).2, if_pos rfl]
  have ho : ((indexAfter (-5 : ℚ) (-5) 10 10 10 10 nullHeap farAgentOps).proxy 0).object = 0 := by
    rw [farAgentOps_mem, update_object]
    simp [allocateToken, lqInitClientProxy2D, LQMem.fresh]
  have hgeo := indexAfter_geometry (-5 : ℚ) (-5) 10 10 10 10 nullHeap farAgentOps
  have hlive : updatedNotRemoved farAgentOps 0 = true := by
    simp [updatedNotRemoved, farAgentOps, linkedStep]
  have hout : lqBinForLocation2D (indexAfter (-5 : ℚ) (-5) 10 10 10 10 nullHeap farAgentOps).lq
      ((indexAfter (-5 : ℚ) (-5) 10 10 10 10 nullHeap farAgentOps).proxy 0).x
      ((indexAfter (-5 : ℚ) (-5) 10 10 10 10 nullHeap farAgentOps).proxy 0).y = BinRef.other := by
    rw [hx, hy, binForLocation_of_geometry (lqCreateDatabase2D (-5 : ℚ) (-5) 10 10 10 10) _ hgeo,
      binForLocation_eq_other_iff]
    simp [lqCreateDatabase2D, lqInitDatabase2D]; norm_num
  have h := (outside_query_scans_overflow_only (-5 : ℚ) (-5) 10 10 10 10 nullHeap farAgentOps
    hd).2 0 hlive hout
  simp only [lqInternalDB2D.geometry, Prod.mk.injEq] at hgeo
  obtain ⟨g1, g2, g3, g4, -, -⟩ := hgeo
  refine ⟨hd, ?_, ?_⟩
  · intro fuel hf
    have := h.1 (1 / 10) (by norm_num) (by
      rw [hx, hy]
      simp [completelyOutside, g1, g2, g3, g4]; norm_num) fuel hf
    rwa [hx, hy, ho] at this
  · intro fuel hf
    have := h.2 0 0 (1 / 10) (by norm_num) (by rw [g1]; norm_num) (by rw [g1, g3]; norm_num)
      (by rw [g2]; norm_num) (by rw [g2, g4]; norm_num) fuel hf
    rwa [ho] at this

/-- C6, instance: two agents in the region `[0, 8)²`, query of radius 1 at `(1, 1/2)`. -/
theorem findNeighbors_no_duplicates_witness :
    (allocatedItems twoAgentOps).Nodup ∧
    ∃ found : List Nat, found.Nodup ∧
      ∀ fuel, (indexAfter (0 : ℚ) 0 8 8 8 8 nullHeap twoAgentOps).nproxy < fuel → ∀ results,
        findNeighbors fuel (indexAfter (0 : ℚ) 0 8 8 8 8 nullHeap twoAgentOps) 1 (1 / 2) 1 results =
          some (results ++ found) :=
  ⟨by simp [twoAgentOps, allocatedItems],
    (findNeighbors_no_duplicates (0 : ℚ) 0 8 8 8 8 nullHeap twoAgentOps
      (by simp [twoAgentOps, allocatedItems]) 1 (1 / 2) 1).2⟩

/-- C4, instance: of two agents in the region `[0, 8)²`, the first moves to
`(13/2, 3/2)`; it is then stored there, on the list of bin `6 * 8 + 1`. -/
theorem update_places_proxy_witness :
    0 < (indexAfter (0 : ℚ) 0 8 8 8 8 nullHeap twoAgentOps).nproxy ∧
    ((lqUpdateForNewLocation (indexAfter (0 : ℚ) 0 8 8 8 8 nullHeap twoAgentOps) 0
      (13 / 2) (3 / 2)).proxy 0).x = 13 / 2 ∧
    ((lqUpdateForNewLocation (indexAfter (0 : ℚ) 0 8 8 8 8 nullHeap twoAgentOps) 0
      (13 / 2) (3 / 2)).proxy 0).y = 3 / 2 ∧
    ∃ l, IsBinList (lqUpdateForNewLocation (indexAfter (0 : ℚ) 0 8 8 8 8 nullHeap twoAgentOps) 0
      (13 / 2) (3 / 2)) (BinRef.bins 49) l ∧ 0 ∈ l := by
  have hp : 0 < (indexAfter (0 : ℚ) 0 8 8 8 8 nullHeap twoAgentOps).nproxy := by
    rw [indexAfter_nproxy]; simp [twoAgentOps, allocatedItems]
  have h := update_places_proxy (0 : ℚ) 0 8 8 8 8 nullHeap twoAgentOps 0 (13 / 2) (3 / 2) hp
  have hgeo := indexAfter_geometry (0 : ℚ) 0 8 8 8 8 nullHeap twoAgentOps
  have hbin : lqBinForLocation2D (indexAfter (0 : ℚ) 0 8 8 8 8 nullHeap twoAgentOps).lq
      (13 / 2) (3 / 2) = BinRef.bins 49 := by
    rw [binForLocation_of_geometry (lqCreateDatabase2D (0 : ℚ) 0 8 8 8 8) _ hgeo]
    unfold lqBinForLocation2D
    simp only [lqCreateDatabase2D, lqInitDatabase2D]
    rw [truncToInt_eq (q := (13 / 2 - 0) / 8 * ((8 : ℤ) : ℚ)) (n := 6) (by norm_num),
      truncToInt_eq (q := (3 / 2 - 0) / 8 * ((8 : ℤ) : ℚ)) (n := 1) (by norm_num)]
    norm_num
  refine ⟨hp, h.1, h.2.1, ?_⟩
  rw [← hbin]
  exact h.2.2.1

end witnesses


/-! ## `lqRemoveAllObjects` -/

section removeAll

theorem removeAllInBin_some (p : Nat) : ∀ (fuel : Nat) (m : LQMem K),
    lqRemoveAllObjectsInBin fuel m (some p) = none
  | 0, _ => rfl
  | fuel + 1, m => by
    rw [lqRemoveAllObjectsInBin]
    exact removeAllInBin_some p fuel _

theorem removeAll_loop (fuel : Nat) (m : LQMem K) : ∀ l : List Int,
    l.foldlM (fun (st : LQMem K) i => lqRemoveAllObjectsInBin fuel st (st.lq.bins i)) m = none ∨
    l.foldlM (fun (st : LQMem K) i => lqRemoveAllObjectsInBin fuel st (st.lq.bins i)) m = some m
  | [] => Or.inr rfl
  | i :: l => by
    rw [List.foldlM_cons]
    cases hb : m.lq.bins i with
    | some p =>
      left
      rw [removeAllInBin_some]
      rfl
    | none =>
      cases fuel with
      | zero => left; rfl
      | succ n =>
        have : lqRemoveAllObjectsInBin (n + 1) m none = some m := rfl
        rw [this]
        exact removeAll_loop (n + 1) m l

theorem removeAll_of_other (fuel : Nat) (m : LQMem K) (p : Nat) (h : m.lq.other = some p) :
    lqRemoveAllObjects fuel m = none := by
  unfold lqRemoveAllObjects
  simp only []
  rcases removeAll_loop fuel m (loopRange 0 (m.lq.divx * m.lq.divy - 1)) with h1 | h1
  · rw [h1]; rfl
  · rw [h1]
    simp only [Option.some_bind, Option.bind_eq_bind, h]
    exact removeAllInBin_some p fuel m

/-- C8, failing input: the memory holding one agent, linked on the overflow
list (the region is `[0, 8)²`, the agent is at `(-1/2, 1/2)`).  The loop of
`lqRemoveAllObjectsInBin` tests its by-value parameter, which the body never
changes, so on a non-empty list it never exits: `lqRemoveAllObjects` returns
for no amount of fuel. -/
theorem lqRemoveAllObjects_never_returns :
    (indexAfter (0 : ℚ) 0 8 8 8 8 nullHeap overflowOps).lq.other = some 0 ∧
    ∀ fuel, lqRemoveAllObjects fuel (indexAfter (0 : ℚ) 0 8 8 8 8 nullHeap overflowOps) = none := by
  have ho : (indexAfter (0 : ℚ) 0 8 8 8 8 nullHeap overflowOps).lq.other = some 0 := by
    show (indexAfter (0 : ℚ) 0 8 8 8 8 nullHeap overflowOps).deref BinRef.other = some 0
    rw [overflowOps_mem]
    unfold lqUpdateForNewLocation
    have hb : lqBinForLocation2D
        (allocateToken (LQMem.fresh (lqCreateDatabase2D (0 : ℚ) 0 8 8 8 8) nullHeap) 7).lq
        (-1 / 2) (1 / 2) = BinRef.other := by
      rw [binForLocation_eq_other_iff]
      left
      simp [allocateToken, LQMem.fresh, lqCreateDatabase2D, lqInitDatabase2D]
      norm_num
    simp only [hb]
    rw [if_pos (by simp [allocateToken, LQMem.fresh, lqInitClientProxy2D]), add_deref, if_pos rfl]
  exact ⟨ho, fun fuel => removeAll_of_other fuel _ 0 ho⟩

end removeAll


/-! ## `ImplicitAgent::doStep` -/

section agent

theorem doStep_of_reached [LinearOrderedField K] (sqrt : K → K) (m : LQMem K)
    (a : ImplicitAgent K) (dt : K)
    (h : (a.goal.sub a.position).squaredNorm < a.goalRadiusSq) :
    (ImplicitAgent.doStep sqrt m a dt).2.enabled = false := by
  simp only [ImplicitAgent.doStep, if_pos h]

theorem doStep_of_overshoot [LinearOrderedField K] (sqrt : K → K) (m : LQMem K)
    (a : ImplicitAgent K) (dt : K)
    (h : ¬ (a.goal.sub a.position).squaredNorm < a.goalRadiusSq)
    (h2 : a.prefSpeed * dt * a.prefSpeed * dt > (a.goal.sub a.position).squaredNorm) :
    ImplicitAgent.doStep sqrt m a dt =
      (m, { a with vPref := (a.goal.sub a.position).divScalar dt }) := by
  simp only [ImplicitAgent.doStep, if_neg h, if_pos h2]

theorem doStep_of_cruise [LinearOrderedField K] (sqrt : K → K) (m : LQMem K)
    (a : ImplicitAgent K) (dt : K)
    (h : ¬ (a.goal.sub a.position).squaredNorm < a.goalRadiusSq)
    (h2 : ¬ a.prefSpeed * dt * a.prefSpeed * dt > (a.goal.sub a.position).squaredNorm) :
    ImplicitAgent.doStep sqrt m a dt =
      (m, { a with vPref := ((a.goal.sub a.position).mulScalar
        (a.prefSpeed / sqrt ((a.goal.sub a.position).squaredNorm))) }) := by
  simp only [ImplicitAgent.doStep, if_neg h, if_neg h2]

/-- C9: `doStep` disables the agent when the squared distance to the goal is
below `goalRadiusSq`; otherwise it sets the preferred velocity to `d / dt`
when `(prefSpeed * dt)² > |d|²` and to `prefSpeed * d / |d|` when not, where
`d = goal - position` and `|d|` is the square root of `|d|²`. -/
theorem doStep_preferred_velocity (m : LQMem ℝ) (a : ImplicitAgent ℝ) (dt : ℝ) :
    ((a.goal.sub a.position).squaredNorm < a.goalRadiusSq →
      (ImplicitAgent.doStep Real.sqrt m a dt).2.enabled = false) ∧
    (¬ (a.goal.sub a.position).squaredNorm < a.goalRadiusSq →
      ((a.prefSpeed * dt) ^ 2 > (a.goal.sub a.position).squaredNorm →
        (ImplicitAgent.doStep Real.sqrt m a dt).2.vPref = (a.goal.sub a.position).divScalar dt) ∧
      (¬ (a.prefSpeed * dt) ^ 2 > (a.goal.sub a.position).squaredNorm →
        (ImplicitAgent.doStep Real.sqrt m a dt).2.vPref =
          ⟨a.prefSpeed * ((a.goal.sub a.position).x /
              Real.sqrt ((a.goal.sub a.position).squaredNorm)),
            a.prefSpeed * ((a.goal.sub a.position).y /
              Real.sqrt ((a.goal.sub a.position).squaredNorm))⟩)) := by
  have hsq : a.prefSpeed * dt * a.prefSpeed * dt = (a.prefSpeed * dt) ^ 2 := by ring
  refine ⟨?_, ?_⟩
  · exact doStep_of_reached Real.sqrt m a dt
  · intro h
    constructor
    · intro h2
      rw [doStep_of_overshoot Real.sqrt m a dt h (hsq ▸ h2)]
    · intro h2
      rw [doStep_of_cruise Real.sqrt m a dt h (hsq ▸ h2)]
      simp only [Vector2D.mulScalar]
      congr 1 <;> ring

/-- C10: when `prefSpeed > 0`, `dt > 0` and `doStep` leaves the agent enabled,
the length of the preferred velocity is at most `prefSpeed`, and equals
`prefSpeed` whenever `|goal - position| ≥ prefSpeed * dt`. -/
theorem doStep_preferred_speed (m : LQMem ℝ) (a : ImplicitAgent ℝ) (dt : ℝ)
    (hps : 0 < a.prefSpeed) (hdt : 0 < dt)
    (hen : (ImplicitAgent.doStep Real.sqrt m a dt).2.enabled = true) :
    Real.sqrt ((ImplicitAgent.doStep Real.sqrt m a dt).2.vPref.squaredNorm) ≤ a.prefSpeed ∧
    (Real.sqrt ((a.goal.sub a.position).squaredNorm) ≥ a.prefSpeed * dt →
      Real.sqrt ((ImplicitAgent.doStep Real.sqrt m a dt).2.vPref.squaredNorm) = a.prefSpeed) := by
  have hsq : a.prefSpeed * dt * a.prefSpeed * dt = (a.prefSpeed * dt) ^ 2 := by ring
  have hgoal : ¬ (a.goal.sub a.position).squaredNorm < a.goalRadiusSq := by
    intro h
    rw [doStep_of_reached Real.sqrt m a dt h] at hen
    exact Bool.noConfusion hen
  have hd0 : 0 ≤ (a.goal.sub a.position).squaredNorm := by
    unfold Vector2D.squaredNorm
    nlinarith [mul_self_nonneg (a.goal.sub a.position).x, mul_self_nonneg (a.goal.sub a.position).y]
  by_cases h2 : (a.prefSpeed * dt) ^ 2 > (a.goal.sub a.position).squaredNorm
  · have hv : (ImplicitAgent.doStep Real.sqrt m a dt).2.vPref.squaredNorm =
        (a.goal.sub a.position).squaredNorm / dt ^ 2 := by
      rw [doStep_of_overshoot Real.sqrt m a dt hgoal (hsq ▸ h2)]
      simp only [Vector2D.divScalar, Vector2D.squaredNorm]
      ring
    rw [hv]
    have hle : (a.goal.sub a.position).squaredNorm / dt ^ 2 ≤ a.prefSpeed ^ 2 := by
      rw [div_le_iff₀ (by positivity)]
      nlinarith
    refine ⟨Real.sqrt_le_iff.2 ⟨hps.le, hle⟩, ?_⟩
    intro hge
    have := (Real.le_sqrt (by positivity) hd0).1 hge
    exact absurd h2 (not_lt.2 this)
  · have hpos : 0 < (a.goal.sub a.position).squaredNorm := by
      have : 0 < (a.prefSpeed * dt) ^ 2 := by positivity
      linarith [not_lt.1 h2]
    have hs : 0 < Real.sqrt ((a.goal.sub a.position).squaredNorm) := Real.sqrt_pos.2 hpos
    have hss : Real.sqrt ((a.goal.sub a.position).squaredNorm) ^ 2 =
        (a.goal.sub a.position).squaredNorm := Real.sq_sqrt hd0
    have hv : (ImplicitAgent.doStep Real.sqrt m a dt).2.vPref.squaredNorm = a.prefSpeed ^ 2 := by
      rw [doStep_of_cruise Real.sqrt m a dt hgoal (hsq ▸ h2)]
      simp only [Vector2D.mulScalar]
      have e : ∀ u v s p : ℝ, (Vector2D.mk (u * (p / s)) (v * (p / s))).squaredNorm =
          (u * u + v * v) * p ^ 2 / s ^ 2 := by
        intro u v s p
        unfold Vector2D.squaredNorm
        ring
      rw [e, hss]
      unfold Vector2D.squaredNorm at hpos ⊢
      field_simp
    rw [hv, Real.sqrt_sq hps.le]
    exact ⟨le_refl _, fun _ => rfl⟩

/-- C10, instance: the agent of scenario 1 with `dt = 1/5`. -/
theorem doStep_preferred_speed_witness :
    (0 < (straightLineAgent : ImplicitAgent ℝ).prefSpeed ∧ (0 : ℝ) < 1 / 5 ∧
      (ImplicitAgent.doStep Real.sqrt straightLineIndex straightLineAgent (1 / 5)).2.enabled =
        true) ∧
    Real.sqrt ((ImplicitAgent.doStep Real.sqrt straightLineIndex (straightLineAgent : ImplicitAgent ℝ)
      (1 / 5)).2.vPref.squaredNorm) ≤ 1 := by
  have h1 : 0 < (straightLineAgent : ImplicitAgent ℝ).prefSpeed := by
    simp [straightLineAgent]
  have h3 : (ImplicitAgent.doStep Real.sqrt straightLineIndex (straightLineAgent : ImplicitAgent ℝ)
      (1 / 5)).2.enabled = true := by
    have hg : ¬ (((straightLineAgent : ImplicitAgent ℝ).goal.sub
        (straightLineAgent : ImplicitAgent ℝ).position).squaredNorm <
        (straightLineAgent : ImplicitAgent ℝ).goalRadiusSq) := by
      simp [straightLineAgent, Vector2D.sub, Vector2D.squaredNorm]
      norm_num
    by_cases h2 : (straightLineAgent : ImplicitAgent ℝ).prefSpeed * (1 / 5) *
        (straightLineAgent : ImplicitAgent ℝ).prefSpeed * (1 / 5) >
        ((straightLineAgent : ImplicitAgent ℝ).goal.sub
          (straightLineAgent : ImplicitAgent ℝ).position).squaredNorm
    · rw [doStep_of_overshoot Real.sqrt _ _ _ hg h2]; rfl
    · rw [doStep_of_cruise Real.sqrt _ _ _ hg h2]; rfl
  exact ⟨⟨h1, by norm_num, h3⟩,
    (doStep_preferred_speed straightLineIndex straightLineAgent (1 / 5) h1 (by norm_num) h3).1⟩

end agent


/-! ## The pairwise energies -/

section energies

variable [LinearOrderedField K]

/-- C18: swapping the two agents of a pair leaves `inverse_ttc_energy`
unchanged, and leaves the tunnelling flag and the energy of
`min_distance_energy` unchanged. -/
theorem pair_energies_symmetric (fn : MathFns K) (dt eta k p t0 eps : K)
    (Pa_x Pa_y Pb_x Pb_y Va_x Va_y Vb_x Vb_y R : K) :
    (ImplicitEngine.inverse_ttc_energy fn dt k p t0 eps
        Pa_x Pa_y Pb_x Pb_y Va_x Va_y Vb_x Vb_y R none).1 =
      (ImplicitEngine.inverse_ttc_energy fn dt k p t0 eps
        Pb_x Pb_y Pa_x Pa_y Vb_x Vb_y Va_x Va_y R none).1 ∧
    (ImplicitEngine.min_distance_energy fn dt eta
        Pa_x Pa_y Pb_x Pb_y Va_x Va_y Vb_x Vb_y R none).1 =
      (ImplicitEngine.min_distance_energy fn dt eta
        Pb_x Pb_y Pa_x Pa_y Vb_x Vb_y Va_x Va_y R none).1 ∧
    (ImplicitEngine.min_distance_energy fn dt eta
        Pa_x Pa_y Pb_x Pb_y Va_x Va_y Vb_x Vb_y R none).2.1 =
      (ImplicitEngine.min_distance_energy fn dt eta
        Pb_x Pb_y Pa_x Pa_y Vb_x Vb_y Va_x Va_y R none).2.1 := by
  have hX : Pa_x - Pb_x = -(Pb_x - Pa_x) := by ring
  have hY : Pa_y - Pb_y = -(Pb_y - Pa_y) := by ring
  have hVx : Vb_x - Va_x = -(Va_x - Vb_x) := by ring
  have hVy : Vb_y - Va_y = -(Va_y - Vb_y) := by ring
  refine ⟨?_, ?_⟩
  · simp only [ImplicitEngine.inverse_ttc_energy, hX, hY, hVx, hVy]
    generalize Pb_x - Pa_x = X_x
    generalize Pb_y - Pa_y = X_y
    generalize Va_x - Vb_x = V_x
    generalize Va_y - Vb_y = V_y
    simp only [neg_mul_neg]
    generalize fn.sqrt (X_x * X_x + X_y * X_y) = x
    by_cases hx0 : x > 0
    · simp only [hx0, if_true]
      have hvp : -X_x / x * -V_x + -X_y / x * -V_y = X_x / x * V_x + X_y / x * V_y := by ring
      simp only [hvp]
      generalize X_x / x * V_x + X_y / x * V_y = vp
      have hvt : (-V_x - vp * (-X_x / x)) * (-V_x - vp * (-X_x / x)) +
          (-V_y - vp * (-X_y / x)) * (-V_y - vp * (-X_y / x)) =
          (V_x - vp * (X_x / x)) * (V_x - vp * (X_x / x)) +
          (V_y - vp * (X_y / x)) * (V_y - vp * (X_y / x)) := by ring
      simp only [hvt]
    · simp only [hx0, if_false, neg_mul_neg]
      generalize X_x * V_x + X_y * V_y = vp
      have hvt : (-V_x - vp * -X_x) * (-V_x - vp * -X_x) +
          (-V_y - vp * -X_y) * (-V_y - vp * -X_y) =
          (V_x - vp * X_x) * (V_x - vp * X_x) + (V_y - vp * X_y) * (V_y - vp * X_y) := by ring
      simp only [hvt]
  · have key : ImplicitEngine.min_distance_energy fn dt eta
        Pa_x Pa_y Pb_x Pb_y Va_x Va_y Vb_x Vb_y R none =
      ImplicitEngine.min_distance_energy fn dt eta
        Pb_x Pb_y Pa_x Pa_y Vb_x Vb_y Va_x Va_y R none := by
      simp only [ImplicitEngine.min_distance_energy, hX, hY, hVx, hVy]
      generalize Pb_x - Pa_x = X_x
      generalize Pb_y - Pa_y = X_y
      generalize Va_x - Vb_x = V_x
      generalize Va_y - Vb_y = V_y
      simp only [neg_mul_neg]
      generalize max (min ((X_x * V_x + X_y * V_y) / (V_x * V_x + V_y * V_y + 1 / 10000)) dt) 0 = tti
      have hd : (-V_x * tti - -X_x) * (-V_x * tti - -X_x) + (-V_y * tti - -X_y) * (-V_y * tti - -X_y)
          = (V_x * tti - X_x) * (V_x * tti - X_x) + (V_y * tti - X_y) * (V_y * tti - X_y) := by
        ring
      simp only [hd]
    rw [key]
    exact ⟨rfl, rfl⟩


/-- The tunnelling test of `min_distance_energy` reads only the squared
distance at the clamped time of closest approach. -/
theorem min_distance_energy_flag (fn : MathFns K) (dt eta : K)
    (Pa_x Pa_y Pb_x Pb_y Va_x Va_y Vb_x Vb_y R : K) (grad : Option (K × K)) :
    (ImplicitEngine.min_distance_energy fn dt eta
        Pa_x Pa_y Pb_x Pb_y Va_x Va_y Vb_x Vb_y R grad).1 =
      decide (((Va_x - Vb_x) * max (min (((Pb_x - Pa_x) * (Va_x - Vb_x) +
            (Pb_y - Pa_y) * (Va_y - Vb_y)) /
            ((Va_x - Vb_x) * (Va_x - Vb_x) + (Va_y - Vb_y) * (Va_y - Vb_y) + 1 / 10000)) dt) 0 -
          (Pb_x - Pa_x)) *
        ((Va_x - Vb_x) * max (min (((Pb_x - Pa_x) * (Va_x - Vb_x) +
            (Pb_y - Pa_y) * (Va_y - Vb_y)) /
            ((Va_x - Vb_x) * (Va_x - Vb_x) + (Va_y - Vb_y) * (Va_y - Vb_y) + 1 / 10000)) dt) 0 -
          (Pb_x - Pa_x)) +
        ((Va_y - Vb_y) * max (min (((Pb_x - Pa_x) * (Va_x - Vb_x) +
            (Pb_y - Pa_y) * (Va_y - Vb_y)) /
            ((Va_x - Vb_x) * (Va_x - Vb_x) + (Va_y - Vb_y) * (Va_y - Vb_y) + 1 / 10000)) dt) 0 -
          (Pb_y - Pa_y)) *
        ((Va_y - Vb_y) * max (min (((Pb_x - Pa_x) * (Va_x - Vb_x) +
            (Pb_y - Pa_y) * (Va_y - Vb_y)) /
            ((Va_x - Vb_x) * (Va_x - Vb_x) + (Va_y - Vb_y) * (Va_y - Vb_y) + 1 / 10000)) dt) 0 -
          (Pb_y - Pa_y)) ≤ R * R) := by
  cases grad <;> simp only [ImplicitEngine.min_distance_energy] <;> split_ifs with h <;>
    first | exact (decide_eq_true h).symm | exact (decide_eq_false h).symm

/-- The energy left by `min_distance_energy` when it reports no tunnelling. -/
theorem min_distance_energy_energy (fn : MathFns K) (dt eta : K)
    (Pa_x Pa_y Pb_x Pb_y Va_x Va_y Vb_x Vb_y R : K) (grad : Option (K × K))
    (h : (ImplicitEngine.min_distance_energy fn dt eta
        Pa_x Pa_y Pb_x Pb_y Va_x Va_y Vb_x Vb_y R grad).1 = false) :
    (ImplicitEngine.min_distance_energy fn dt eta
        Pa_x Pa_y Pb_x Pb_y Va_x Va_y Vb_x Vb_y R grad).2.1 =
      min (eta / (fn.sqrt
        (((Va_x - Vb_x) * max (min (((Pb_x - Pa_x) * (Va_x - Vb_x) +
            (Pb_y - Pa_y) * (Va_y - Vb_y)) /
            ((Va_x - Vb_x) * (Va_x - Vb_x) + (Va_y - Vb_y) * (Va_y - Vb_y) + 1 / 10000)) dt) 0 -
          (Pb_x - Pa_x)) *
        ((Va_x - Vb_x) * max (min (((Pb_x - Pa_x) * (Va_x - Vb_x) +
            (Pb_y - Pa_y) * (Va_y - Vb_y)) /
            ((Va_x - Vb_x) * (Va_x - Vb_x) + (Va_y - Vb_y) * (Va_y - Vb_y) + 1 / 10000)) dt) 0 -
          (Pb_x - Pa_x)) +
        ((Va_y - Vb_y) * max (min (((Pb_x - Pa_x) * (Va_x - Vb_x) +
            (Pb_y - Pa_y) * (Va_y - Vb_y)) /
            ((Va_x - Vb_x) * (Va_x - Vb_x) + (Va_y - Vb_y) * (Va_y - Vb_y) + 1 / 10000)) dt) 0 -
          (Pb_y - Pa_y)) *
        ((Va_y - Vb_y) * max (min (((Pb_x - Pa_x) * (Va_x - Vb_x) +
            (Pb_y - Pa_y) * (Va_y - Vb_y)) /
            ((Va_x - Vb_x) * (Va_x - Vb_x) + (Va_y - Vb_y) * (Va_y - Vb_y) + 1 / 10000)) dt) 0 -
          (Pb_y - Pa_y))) - R)) 9000000000 := by
  revert h
  cases grad <;> simp only [ImplicitEngine.min_distance_energy] <;> split_ifs with h <;>
    first | (intro _; rfl) | (intro h1; exact h1.elim)

/-- C19: with `X = Pb - Pa`, `V = Va - Vb`,
`tti = max (min (<X,V> / (|V|^2 + 1e-4)) dt) 0` and `d2 = |V tti - X|^2`,
`min_distance_energy` returns true exactly when `d2 ≤ R^2`; otherwise it
returns false and leaves `min (eta / (sqrt d2 - R)) 9e9` in `energy`, which for
`eta > 0` is positive and at most `9e9`. -/
theorem min_distance_energy_spec (ex : ℝ → ℝ) (pw : ℝ → ℝ → ℝ) (dt eta : ℝ)
    (Pa_x Pa_y Pb_x Pb_y Va_x Va_y Vb_x Vb_y R : ℝ) (grad : Option (ℝ × ℝ)) (tti d2 : ℝ)
    (htti : tti = max (min (((Pb_x - Pa_x) * (Va_x - Vb_x) + (Pb_y - Pa_y) * (Va_y - Vb_y)) /
      ((Va_x - Vb_x) * (Va_x - Vb_x) + (Va_y - Vb_y) * (Va_y - Vb_y) + 1 / 10000)) dt) 0)
    (hd2 : d2 = ((Va_x - Vb_x) * tti - (Pb_x - Pa_x)) * ((Va_x - Vb_x) * tti - (Pb_x - Pa_x)) +
      ((Va_y - Vb_y) * tti - (Pb_y - Pa_y)) * ((Va_y - Vb_y) * tti - (Pb_y - Pa_y))) :
    ((ImplicitEngine.min_distance_energy ⟨Real.sqrt, ex, pw⟩ dt eta
        Pa_x Pa_y Pb_x Pb_y Va_x Va_y Vb_x Vb_y R grad).1 = true ↔ d2 ≤ R * R) ∧
    (¬ d2 ≤ R * R →
      (ImplicitEngine.min_distance_energy ⟨Real.sqrt, ex, pw⟩ dt eta
        Pa_x Pa_y Pb_x Pb_y Va_x Va_y Vb_x Vb_y R grad).1 = false ∧
      (ImplicitEngine.min_distance_energy ⟨Real.sqrt, ex, pw⟩ dt eta
        Pa_x Pa_y Pb_x Pb_y Va_x Va_y Vb_x Vb_y R grad).2.1 =
          min (eta / (Real.sqrt d2 - R)) 9000000000 ∧
      (0 < eta →
        0 < (ImplicitEngine.min_distance_energy ⟨Real.sqrt, ex, pw⟩ dt eta
          Pa_x Pa_y Pb_x Pb_y Va_x Va_y Vb_x Vb_y R grad).2.1 ∧
        (ImplicitEngine.min_distance_energy ⟨Real.sqrt, ex, pw⟩ dt eta
          Pa_x Pa_y Pb_x Pb_y Va_x Va_y Vb_x Vb_y R grad).2.1 ≤ 9000000000)) := by
  have hflag := min_distance_energy_flag ⟨Real.sqrt, ex, pw⟩ dt eta
    Pa_x Pa_y Pb_x Pb_y Va_x Va_y Vb_x Vb_y R grad
  rw [← htti, ← hd2] at hflag
  have hiff : (ImplicitEngine.min_distance_energy ⟨Real.sqrt, ex, pw⟩ dt eta
        Pa_x Pa_y Pb_x Pb_y Va_x Va_y Vb_x Vb_y R grad).1 = true ↔ d2 ≤ R * R := by
    rw [hflag]; simp
  refine ⟨hiff, fun hn => ?_⟩
  have hfalse : (ImplicitEngine.min_distance_energy ⟨Real.sqrt, ex, pw⟩ dt eta
        Pa_x Pa_y Pb_x Pb_y Va_x Va_y Vb_x Vb_y R grad).1 = false := by
    rw [hflag]; simp [hn]
  have hen := min_distance_energy_energy ⟨Real.sqrt, ex, pw⟩ dt eta
    Pa_x Pa_y Pb_x Pb_y Va_x Va_y Vb_x Vb_y R grad hfalse
  rw [← htti, ← hd2] at hen
  refine ⟨hfalse, hen, fun heta => ?_⟩
  rw [hen]
  have hlt : R * R < d2 := not_le.1 hn
  have hd0 : 0 ≤ d2 := le_trans (mul_self_nonneg R) hlt.le
  have hsq : R < Real.sqrt d2 := by
    by_contra hc
    have hc2 : Real.sqrt d2 ≤ R := not_lt.1 hc
    have h0 : 0 ≤ Real.sqrt d2 := Real.sqrt_nonneg d2
    have := Real.mul_self_sqrt hd0
    nlinarith
  have hpos : 0 < eta / (Real.sqrt d2 - R) := div_pos heta (by linarith)
  exact ⟨lt_min hpos (by norm_num), min_le_right _ _⟩

/-- C19, instance: discs 5 apart with combined radius 1 and no relative
velocity. -/
theorem min_distance_energy_spec_witness :
    ((0 : ℝ) = max (min (((3 - 0) * (0 - 0) + (4 - 0) * (0 - 0)) /
      ((0 - 0) * (0 - 0) + (0 - 0) * (0 - 0) + 1 / 10000)) (1 / 5)) 0 ∧
     (25 : ℝ) = ((0 - 0) * 0 - (3 - 0)) * ((0 - 0) * 0 - (3 - 0)) +
      ((0 - 0) * 0 - (4 - 0)) * ((0 - 0) * 0 - (4 - 0))) ∧
    ((ImplicitEngine.min_distance_energy ⟨Real.sqrt, Real.exp, fun a b => a ^ b⟩ (1 / 5) (1 / 100)
        0 0 3 4 0 0 0 0 1 none).1 = true ↔ (25 : ℝ) ≤ 1 * 1) := by
  have h1 : (0 : ℝ) = max (min (((3 - 0) * (0 - 0) + (4 - 0) * (0 - 0)) /
      ((0 - 0) * (0 - 0) + (0 - 0) * (0 - 0) + 1 / 10000)) (1 / 5)) 0 := by
    norm_num
  have h2 : (25 : ℝ) = ((0 - 0) * 0 - (3 - 0)) * ((0 - 0) * 0 - (3 - 0)) +
      ((0 - 0) * 0 - (4 - 0)) * ((0 - 0) * 0 - (4 - 0)) := by
    norm_num
  exact ⟨⟨h1, h2⟩, (min_distance_energy_spec Real.exp (fun a b => a ^ b) (1 / 5) (1 / 100)
    0 0 3 4 0 0 0 0 1 none 0 25 h1 h2).1⟩


/-- The squared distance of the two centres is not increasing up to the
clamped time of closest approach: for `0 ≤ t ≤ tti`, the squared distance at
`tti` is at most the one at `t`. -/
theorem sqdist_at_tti_le (dt Xx Xy Vx Vy t : K) (h0 : 0 ≤ t)
    (ht : t ≤ max (min ((Xx * Vx + Xy * Vy) / (Vx * Vx + Vy * Vy + 1 / 10000)) dt) 0) :
    (Vx * max (min ((Xx * Vx + Xy * Vy) / (Vx * Vx + Vy * Vy + 1 / 10000)) dt) 0 - Xx) *
        (Vx * max (min ((Xx * Vx + Xy * Vy) / (Vx * Vx + Vy * Vy + 1 / 10000)) dt) 0 - Xx) +
      (Vy * max (min ((Xx * Vx + Xy * Vy) / (Vx * Vx + Vy * Vy + 1 / 10000)) dt) 0 - Xy) *
        (Vy * max (min ((Xx * Vx + Xy * Vy) / (Vx * Vx + Vy * Vy + 1 / 10000)) dt) 0 - Xy) ≤
    (Xx - Vx * t) * (Xx - Vx * t) + (Xy - Vy * t) * (Xy - Vy * t) := by
  have hsp : 0 ≤ Vx * Vx + Vy * Vy := add_nonneg (mul_self_nonneg _) (mul_self_nonneg _)
  have hden : 0 < Vx * Vx + Vy * Vy + 1 / 10000 := by
    have : (0 : K) < 1 / 10000 := by norm_num
    linarith
  generalize htti : max (min ((Xx * Vx + Xy * Vy) / (Vx * Vx + Vy * Vy + 1 / 10000)) dt) 0 = tti
    at ht ⊢
  have htti0 : 0 ≤ tti := htti ▸ le_max_right _ _
  rcases eq_or_lt_of_le htti0 with h | h
  · rw [← h] at ht ⊢
    have ht0 : t = 0 := le_antisymm ht h0
    rw [ht0]
    apply le_of_eq
    ring
  · have hmax : tti ≤ min ((Xx * Vx + Xy * Vy) / (Vx * Vx + Vy * Vy + 1 / 10000)) dt := by
      rcases le_total (min ((Xx * Vx + Xy * Vy) / (Vx * Vx + Vy * Vy + 1 / 10000)) dt) 0 with h1 | h1
      · rw [max_eq_right h1] at htti
        exact absurd htti.symm (ne_of_gt h)
      · rw [max_eq_left h1] at htti
        exact htti.symm.le
    have h2 : tti ≤ (Xx * Vx + Xy * Vy) / (Vx * Vx + Vy * Vy + 1 / 10000) :=
      le_trans hmax (min_le_left _ _)
    have h3 := (le_div_iff₀ hden).1 h2
    have h4 : 0 ≤ tti * (1 / 10000) := mul_nonneg htti0 (by norm_num)
    have hrate : tti * (Vx * Vx + Vy * Vy) ≤ Xx * Vx + Xy * Vy := by linarith
    have h5 : 0 ≤ (tti - t) * (Vx * Vx + Vy * Vy) := mul_nonneg (sub_nonneg.2 ht) hsp
    have h6 : 0 ≤ 2 * (Xx * Vx + Xy * Vy) - (Vx * Vx + Vy * Vy) * (tti + t) := by linarith
    have h7 := mul_nonneg (sub_nonneg.2 ht) h6
    linarith

/-- When the relative velocity does not bring the centres closer
(`<X,V> ≤ 0`), the squared distance at any `t ≥ 0` is at least the one at
`t = 0`, which is the one `min_distance_energy` tests. -/
theorem sqdist_at_zero_le (dt Xx Xy Vx Vy t : K) (h0 : 0 ≤ t) (hr : Xx * Vx + Xy * Vy ≤ 0) :
    (Vx * max (min ((Xx * Vx + Xy * Vy) / (Vx * Vx + Vy * Vy + 1 / 10000)) dt) 0 - Xx) *
        (Vx * max (min ((Xx * Vx + Xy * Vy) / (Vx * Vx + Vy * Vy + 1 / 10000)) dt) 0 - Xx) +
      (Vy * max (min ((Xx * Vx + Xy * Vy) / (Vx * Vx + Vy * Vy + 1 / 10000)) dt) 0 - Xy) *
        (Vy * max (min ((Xx * Vx + Xy * Vy) / (Vx * Vx + Vy * Vy + 1 / 10000)) dt) 0 - Xy) ≤
    (Xx - Vx * t) * (Xx - Vx * t) + (Xy - Vy * t) * (Xy - Vy * t) := by
  have hsp : 0 ≤ Vx * Vx + Vy * Vy := add_nonneg (mul_self_nonneg _) (mul_self_nonneg _)
  have hden : 0 < Vx * Vx + Vy * Vy + 1 / 10000 := by
    have : (0 : K) < 1 / 10000 := by norm_num
    linarith
  have hdiv : (Xx * Vx + Xy * Vy) / (Vx * Vx + Vy * Vy + 1 / 10000) ≤ 0 :=
    div_nonpos_of_nonpos_of_nonneg hr hden.le
  have htti : max (min ((Xx * Vx + Xy * Vy) / (Vx * Vx + Vy * Vy + 1 / 10000)) dt) 0 = 0 :=
    max_eq_right (le_trans (min_le_left _ _) hdiv)
  rw [htti]
  have h1 : 0 ≤ t * (Vx * Vx + Vy * Vy) := mul_nonneg h0 hsp
  have h2 := mul_nonneg h0 h1
  have h3 := mul_nonneg h0 (neg_nonneg.2 hr)
  nlinarith

/-- When `<X,V> ≥ dt (|V|^2 + 1e-4)` and `dt ≥ 0`, the clamped time of
closest approach is `dt`. -/
theorem tti_eq_dt (dt Xx Xy Vx Vy : K) (hdt : 0 ≤ dt)
    (hr : dt * (Vx * Vx + Vy * Vy + 1 / 10000) ≤ Xx * Vx + Xy * Vy) :
    max (min ((Xx * Vx + Xy * Vy) / (Vx * Vx + Vy * Vy + 1 / 10000)) dt) 0 = dt := by
  have hsp : 0 ≤ Vx * Vx + Vy * Vy := add_nonneg (mul_self_nonneg _) (mul_self_nonneg _)
  have hden : 0 < Vx * Vx + Vy * Vy + 1 / 10000 := by
    have : (0 : K) < 1 / 10000 := by norm_num
    linarith
  rw [min_eq_right ((le_div_iff₀ hden).2 hr), max_eq_left hdt]

/-- C20, as amended: for all positions, velocities, `R` and `dt ≥ 0`,
`min_distance_energy` reports tunnelling whenever the discs overlap
(`|X - V t|^2 ≤ R^2`) at some time `t` between 0 and the clamped time of
closest approach `tti`, in every regime of `<X,V>`.  When `tti` is one of the
two clamps (`<X,V> ≤ 0`, or `<X,V> ≥ dt (|V|^2 + 1e-4)`), this covers every
`t` in `[0, dt]`, and a call reporting no tunnelling implies `x^2 - R^2 > 0`
for the separation `x` of the predicted positions `P + V dt`. -/
theorem tunnelling_reported_up_to_tti (fn : MathFns K) (dt eta : K)
    (Pa_x Pa_y Pb_x Pb_y Va_x Va_y Vb_x Vb_y R : K) (grad : Option (K × K)) (hdt : 0 ≤ dt) :
    (∀ t : K, 0 ≤ t →
      t ≤ max (min (((Pb_x - Pa_x) * (Va_x - Vb_x) + (Pb_y - Pa_y) * (Va_y - Vb_y)) /
        ((Va_x - Vb_x) * (Va_x - Vb_x) + (Va_y - Vb_y) * (Va_y - Vb_y) + 1 / 10000)) dt) 0 →
      ((Pb_x - Pa_x) - (Va_x - Vb_x) * t) * ((Pb_x - Pa_x) - (Va_x - Vb_x) * t) +
        ((Pb_y - Pa_y) - (Va_y - Vb_y) * t) * ((Pb_y - Pa_y) - (Va_y - Vb_y) * t) ≤ R * R →
      (ImplicitEngine.min_distance_energy fn dt eta
        Pa_x Pa_y Pb_x Pb_y Va_x Va_y Vb_x Vb_y R grad).1 = true) ∧
    (((Pb_x - Pa_x) * (Va_x - Vb_x) + (Pb_y - Pa_y) * (Va_y - Vb_y) ≤ 0 ∨
      dt * ((Va_x - Vb_x) * (Va_x - Vb_x) + (Va_y - Vb_y) * (Va_y - Vb_y) + 1 / 10000) ≤
        (Pb_x - Pa_x) * (Va_x - Vb_x) + (Pb_y - Pa_y) * (Va_y - Vb_y)) →
      ∀ t : K, 0 ≤ t → t ≤ dt →
      ((Pb_x - Pa_x) - (Va_x - Vb_x) * t) * ((Pb_x - Pa_x) - (Va_x - Vb_x) * t) +
        ((Pb_y - Pa_y) - (Va_y - Vb_y) * t) * ((Pb_y - Pa_y) - (Va_y - Vb_y) * t) ≤ R * R →
      (ImplicitEngine.min_distance_energy fn dt eta
        Pa_x Pa_y Pb_x Pb_y Va_x Va_y Vb_x Vb_y R grad).1 = true) ∧
    (((Pb_x - Pa_x) * (Va_x - Vb_x) + (Pb_y - Pa_y) * (Va_y - Vb_y) ≤ 0 ∨
      dt * ((Va_x - Vb_x) * (Va_x - Vb_x) + (Va_y - Vb_y) * (Va_y - Vb_y) + 1 / 10000) ≤
        (Pb_x - Pa_x) * (Va_x - Vb_x) + (Pb_y - Pa_y) * (Va_y - Vb_y)) →
      (ImplicitEngine.min_distance_energy fn dt eta
        Pa_x Pa_y Pb_x Pb_y Va_x Va_y Vb_x Vb_y R grad).1 = false →
      0 < ((Pb_x + Vb_x * dt) - (Pa_x + Va_x * dt)) * ((Pb_x + Vb_x * dt) - (Pa_x + Va_x * dt)) +
        ((Pb_y + Vb_y * dt) - (Pa_y + Va_y * dt)) * ((Pb_y + Vb_y * dt) - (Pa_y + Va_y * dt)) -
        R * R) := by
  have hflag := min_distance_energy_flag fn dt eta Pa_x Pa_y Pb_x Pb_y Va_x Va_y Vb_x Vb_y R grad
  have h1 : ∀ t : K, 0 ≤ t →
      t ≤ max (min (((Pb_x - Pa_x) * (Va_x - Vb_x) + (Pb_y - Pa_y) * (Va_y - Vb_y)) /
        ((Va_x - Vb_x) * (Va_x - Vb_x) + (Va_y - Vb_y) * (Va_y - Vb_y) + 1 / 10000)) dt) 0 →
      ((Pb_x - Pa_x) - (Va_x - Vb_x) * t) * ((Pb_x - Pa_x) - (Va_x - Vb_x) * t) +
        ((Pb_y - Pa_y) - (Va_y - Vb_y) * t) * ((Pb_y - Pa_y) - (Va_y - Vb_y) * t) ≤ R * R →
      (ImplicitEngine.min_distance_energy fn dt eta
        Pa_x Pa_y Pb_x Pb_y Va_x Va_y Vb_x Vb_y R grad).1 = true := by
    intro t h0 ht hov
    rw [hflag]
    exact decide_eq_true (le_trans (sqdist_at_tti_le dt _ _ _ _ t h0 ht) hov)
  have h2 : ((Pb_x - Pa_x) * (Va_x - Vb_x) + (Pb_y - Pa_y) * (Va_y - Vb_y) ≤ 0 ∨
      dt * ((Va_x - Vb_x) * (Va_x - Vb_x) + (Va_y - Vb_y) * (Va_y - Vb_y) + 1 / 10000) ≤
        (Pb_x - Pa_x) * (Va_x - Vb_x) + (Pb_y - Pa_y) * (Va_y - Vb_y)) →
      ∀ t : K, 0 ≤ t → t ≤ dt →
      ((Pb_x - Pa_x) - (Va_x - Vb_x) * t) * ((Pb_x - Pa_x) - (Va_x - Vb_x) * t) +
        ((Pb_y - Pa_y) - (Va_y - Vb_y) * t) * ((Pb_y - Pa_y) - (Va_y - Vb_y) * t) ≤ R * R →
      (ImplicitEngine.min_distance_energy fn dt eta
        Pa_x Pa_y Pb_x Pb_y Va_x Va_y Vb_x Vb_y R grad).1 = true := by
    intro hclamp t h0 ht hov
    rcases hclamp with hc | hc
    · rw [hflag]
      exact decide_eq_true (le_trans (sqdist_at_zero_le dt _ _ _ _ t h0 hc) hov)
    · exact h1 t h0 (by rw [tti_eq_dt dt _ _ _ _ hdt hc]; exact ht) hov
  refine ⟨h1, h2, fun hclamp hf => ?_⟩
  by_contra hc
  have hov : ((Pb_x - Pa_x) - (Va_x - Vb_x) * dt) * ((Pb_x - Pa_x) - (Va_x - Vb_x) * dt) +
      ((Pb_y - Pa_y) - (Va_y - Vb_y) * dt) * ((Pb_y - Pa_y) - (Va_y - Vb_y) * dt) ≤ R * R := by
    have := not_lt.1 hc
    linarith
  have := h2 hclamp dt hdt le_rfl hov
  rw [hf] at this
  exact Bool.noConfusion this

/-- C20, instance of the amended statement: two discs of combined radius 9/10,
one unit apart, approaching at unit speed.  With `dt = 1/5` the time `tti` is
the clamp `dt` and the overlap at `t = dt` is reported; with `dt = 2` the time
`tti = 10000/10001` lies inside `(0, dt)` and the overlap at `t = 1/2 ≤ tti`
is reported. -/
theorem tunnelling_reported_up_to_tti_witness :
    ((0 : ℝ) ≤ 1 / 5 ∧
      (((1 : ℝ) - 0) * (1 - 0) + (0 - 0) * (0 - 0) ≤ 0 ∨
        (1 / 5 : ℝ) * ((1 - 0) * (1 - 0) + (0 - 0) * (0 - 0) + 1 / 10000) ≤
          (1 - 0) * (1 - 0) + (0 - 0) * (0 - 0))) ∧
    (ImplicitEngine.min_distance_energy ⟨Real.sqrt, Real.exp, fun a b => a ^ b⟩ (1 / 5) (1 / 100)
        0 0 1 0 1 0 0 0 (9 / 10) none).1 = true ∧
    ((0 : ℝ) ≤ 2 ∧
      ¬ (((1 : ℝ) - 0) * (1 - 0) + (0 - 0) * (0 - 0) ≤ 0 ∨
        (2 : ℝ) * ((1 - 0) * (1 - 0) + (0 - 0) * (0 - 0) + 1 / 10000) ≤
          (1 - 0) * (1 - 0) + (0 - 0) * (0 - 0))) ∧
    (ImplicitEngine.min_distance_energy ⟨Real.sqrt, Real.exp, fun a b => a ^ b⟩ 2 (1 / 100)
        0 0 1 0 1 0 0 0 (9 / 10) none).1 = true := by
  have h1 : (0 : ℝ) ≤ 1 / 5 := by norm_num
  have h2 : ((1 : ℝ) - 0) * (1 - 0) + (0 - 0) * (0 - 0) ≤ 0 ∨
        (1 / 5 : ℝ) * ((1 - 0) * (1 - 0) + (0 - 0) * (0 - 0) + 1 / 10000) ≤
          (1 - 0) * (1 - 0) + (0 - 0) * (0 - 0) := Or.inr (by norm_num)
  have h3 : (0 : ℝ) ≤ 2 := by norm_num
  have h4 : ¬ (((1 : ℝ) - 0) * (1 - 0) + (0 - 0) * (0 - 0) ≤ 0 ∨
        (2 : ℝ) * ((1 - 0) * (1 - 0) + (0 - 0) * (0 - 0) + 1 / 10000) ≤
          (1 - 0) * (1 - 0) + (0 - 0) * (0 - 0)) := by norm_num
  have h5 : (1 / 2 : ℝ) ≤ max (min ((((1 : ℝ) - 0) * (1 - 0) + (0 - 0) * (0 - 0)) /
      ((1 - 0) * (1 - 0) + (0 - 0) * (0 - 0) + 1 / 10000)) 2) 0 :=
    le_max_of_le_left (le_min (by norm_num) (by norm_num))
  exact ⟨⟨h1, h2⟩, (tunnelling_reported_up_to_tti ⟨Real.sqrt, Real.exp, fun a b => a ^ b⟩
    (1 / 5) (1 / 100) 0 0 1 0 1 0 0 0 (9 / 10) none h1).2.1 h2 (1 / 5) (by norm_num) le_rfl
    (by norm_num), ⟨h3, h4⟩,
    (tunnelling_reported_up_to_tti ⟨Real.sqrt, Real.exp, fun a b => a ^ b⟩
    2 (1 / 100) 0 0 1 0 1 0 0 0 (9 / 10) none h3).1 (1 / 2) (by norm_num) h5 (by norm_num)⟩

/-- C20, counterexample: discs of combined radius 3/10 whose centres are
0.300001 apart and approach at speed 1e-5, with `dt = 1/5`.  The regularised
time of closest approach is below `dt`, the call reports no tunnelling, yet
at `t = dt` the centres are 0.299999 apart: the discs overlap, and
`x^2 - R^2 < 0` for the predicted positions. -/
theorem slow_approach_not_reported :
    (0 : ℝ) < 3 / 10 ∧ (0 : ℝ) < 1 / 5 ∧
    (ImplicitEngine.min_distance_energy ⟨Real.sqrt, Real.exp, fun a b => a ^ b⟩ (1 / 5) (1 / 100)
        0 0 (300001 / 1000000) 0 (1 / 100000) 0 0 0 (3 / 10) none).1 = false ∧
    (((300001 / 1000000 : ℝ) - 0) - (1 / 100000 - 0) * (1 / 5)) *
        (((300001 / 1000000 : ℝ) - 0) - (1 / 100000 - 0) * (1 / 5)) +
      ((0 - 0) - (0 - 0) * (1 / 5)) * ((0 - 0) - (0 - 0) * (1 / 5)) ≤ (3 / 10 : ℝ) * (3 / 10) ∧
    (((300001 / 1000000 : ℝ) + 0 * (1 / 5)) - (0 + 1 / 100000 * (1 / 5))) *
        (((300001 / 1000000 : ℝ) + 0 * (1 / 5)) - (0 + 1 / 100000 * (1 / 5))) +
      ((0 + 0 * (1 / 5)) - (0 + 0 * (1 / 5))) * ((0 + 0 * (1 / 5)) - (0 + 0 * (1 / 5))) -
      (3 / 10 : ℝ) * (3 / 10) < 0 := by
  refine ⟨by norm_num, by norm_num, ?_, by norm_num, by norm_num⟩
  rw [min_distance_energy_flag]
  apply decide_eq_false
  norm_num

end energies


/-! ## `ImplicitAgent::init` and `ImplicitAgent::update` -/

section advection

/-- The result of `update` for an agent that owns a token. -/
theorem update_of_token [LinearOrderedField K] [FloorRing K] (sqrt : K → K) (m : LQMem K)
    (a : ImplicitAgent K) (dt : K) (t : Nat) (ht : a.proximityToken = some t) :
    ImplicitAgent.update sqrt m a dt =
      some (updateForNewPosition m t (a.position.x + a.velocity.x * dt)
          (a.position.y + a.velocity.y * dt),
        { a with
          position := a.position.add (a.velocity.mulScalar dt)
          orientation :=
            if a.velocity.x ≠ 0 ∨ a.velocity.y ≠ 0 then
              a.orientation.add
                (((a.velocity.normalized sqrt).sub a.orientation).mulScalar (2 / 5))
            else a.orientation
          path := a.path ++ [a.position.add (a.velocity.mulScalar dt)]
          orientations := a.orientations ++
            [if a.velocity.x ≠ 0 ∨ a.velocity.y ≠ 0 then
              a.orientation.add
                (((a.velocity.normalized sqrt).sub a.orientation).mulScalar (2 / 5))
            else a.orientation] }) := by
  unfold ImplicitAgent.update
  simp only [ht]
  rfl

/-- Over the reals, `normalized()` divides a non-zero vector by its length. -/
theorem normalized_of_ne_zero (v : Vector2D ℝ) (hv : v.x ≠ 0 ∨ v.y ≠ 0) :
    v.normalized Real.sqrt =
      ⟨v.x / Real.sqrt (v.x * v.x + v.y * v.y), v.y / Real.sqrt (v.x * v.x + v.y * v.y)⟩ := by
  have hpos : v.squaredNorm > 0 := by
    unfold Vector2D.squaredNorm
    rcases hv with h | h
    · have := mul_self_pos.2 h
      nlinarith [mul_self_nonneg v.y]
    · have := mul_self_pos.2 h
      nlinarith [mul_self_nonneg v.x]
  unfold Vector2D.normalized
  simp only [hpos, if_true]
  rfl

/-- C12: for an agent owning token `t`, with velocity `v` and any `dt`,
`update` returns; it sets position to `position + v dt`, sets orientation to
`orientation + 0.4 (v/|v| - orientation)` when `v ≠ 0` and leaves it unchanged
when `v = 0`, reports the new position to the index for the token, and
appends exactly the new position to `path` and the new orientation to
`orientations`. -/
theorem update_spec (m : LQMem ℝ) (a : ImplicitAgent ℝ) (dt : ℝ) (t : Nat)
    (ht : a.proximityToken = some t) :
    ∃ r, ImplicitAgent.update Real.sqrt m a dt = some r ∧
      r.2.position = ⟨a.position.x + a.velocity.x * dt, a.position.y + a.velocity.y * dt⟩ ∧
      ((a.velocity.x ≠ 0 ∨ a.velocity.y ≠ 0) →
        r.2.orientation =
          ⟨a.orientation.x + (a.velocity.x /
              Real.sqrt (a.velocity.x * a.velocity.x + a.velocity.y * a.velocity.y) -
              a.orientation.x) * (2 / 5),
           a.orientation.y + (a.velocity.y /
              Real.sqrt (a.velocity.x * a.velocity.x + a.velocity.y * a.velocity.y) -
              a.orientation.y) * (2 / 5)⟩) ∧
      ((a.velocity.x = 0 ∧ a.velocity.y = 0) → r.2.orientation = a.orientation) ∧
      r.1 = updateForNewPosition m t r.2.position.x r.2.position.y ∧
      (r.1.proxy t).x = r.2.position.x ∧ (r.1.proxy t).y = r.2.position.y ∧
      r.2.path = a.path ++ [r.2.position] ∧
      r.2.orientations = a.orientations ++ [r.2.orientation] ∧
      r.2.velocity = a.velocity ∧ r.2.enabled = a.enabled ∧
      r.2.proximityToken = a.proximityToken := by
  refine ⟨_, update_of_token Real.sqrt m a dt t ht, rfl, ?_, ?_, rfl, ?_, ?_, rfl, rfl, rfl, rfl,
    rfl⟩
  · intro hv
    simp only [hv, if_true]
    rw [normalized_of_ne_zero a.velocity hv]
    rfl
  · intro hv
    have : ¬ (a.velocity.x ≠ 0 ∨ a.velocity.y ≠ 0) := by
      rintro (h | h)
      · exact h hv.1
      · exact h hv.2
    simp only [this, if_false]
  · have := (update_xy m t t (a.position.x + a.velocity.x * dt)
      (a.position.y + a.velocity.y * dt)).1
    simpa [updateForNewPosition, Vector2D.add, Vector2D.mulScalar] using this
  · have := (update_xy m t t (a.position.x + a.velocity.x * dt)
      (a.position.y + a.velocity.y * dt)).2
    simpa [updateForNewPosition, Vector2D.add, Vector2D.mulScalar] using this

/-- C12, instance: the agent of scenario 1 moving with velocity `(1, 0)` for
`dt = 1/5`. -/
theorem update_spec_witness :
    ({ (straightLineAgent : ImplicitAgent ℝ) with velocity := ⟨1, 0⟩ }).proximityToken = some 0 ∧
    ∃ r, ImplicitAgent.update Real.sqrt straightLineIndex
        { (straightLineAgent : ImplicitAgent ℝ) with velocity := ⟨1, 0⟩ } (1 / 5) = some r ∧
      r.2.position = ⟨-4 + 1 * (1 / 5), 0 + 0 * (1 / 5)⟩ := by
  refine ⟨rfl, ?_⟩
  obtain ⟨r, h1, h2, _⟩ := update_spec straightLineIndex
    { (straightLineAgent : ImplicitAgent ℝ) with velocity := ⟨1, 0⟩ } (1 / 5) 0 rfl
  exact ⟨r, h1, h2⟩


/-- The squared length of `normalized()` of a non-zero vector is 1. -/
theorem normalized_squaredNorm (v : Vector2D ℝ) (hv : v.x ≠ 0 ∨ v.y ≠ 0) :
    (v.normalized Real.sqrt).squaredNorm = 1 := by
  have hpos : 0 < v.x * v.x + v.y * v.y := by
    rcases hv with h | h
    · have := mul_self_pos.2 h
      nlinarith [mul_self_nonneg v.y]
    · have := mul_self_pos.2 h
      nlinarith [mul_self_nonneg v.x]
  rw [normalized_of_ne_zero v hv]
  unfold Vector2D.squaredNorm
  have hs : Real.sqrt (v.x * v.x + v.y * v.y) * Real.sqrt (v.x * v.x + v.y * v.y) =
      v.x * v.x + v.y * v.y := Real.mul_self_sqrt hpos.le
  rw [div_mul_div_comm, div_mul_div_comm, ← add_div, hs, div_self hpos.ne']

/-- One `update` keeps the squared length of the orientation at most 1. -/
theorem update_orientation_le (m : LQMem ℝ) (a : ImplicitAgent ℝ) (dt : ℝ)
    (r : LQMem ℝ × ImplicitAgent ℝ) (h : ImplicitAgent.update Real.sqrt m a dt = some r)
    (ho : a.orientation.squaredNorm ≤ 1) :
    r.2.orientation.squaredNorm ≤ 1 ∧ r.2.proximityToken = a.proximityToken := by
  cases ht : a.proximityToken with
  | none => simp [ImplicitAgent.update, ht] at h
  | some t =>
    rw [update_of_token Real.sqrt m a dt t ht] at h
    have hr := Option.some.inj h
    subst hr
    refine ⟨?_, ht.symm ▸ rfl⟩
    simp only []
    split_ifs with hv
    · have hn := normalized_squaredNorm a.velocity hv
      generalize a.velocity.normalized Real.sqrt = n at hn
      unfold Vector2D.squaredNorm at hn ho
      simp only [Vector2D.add, Vector2D.sub, Vector2D.mulScalar, Vector2D.squaredNorm]
      nlinarith [sq_nonneg (a.orientation.x - n.x), sq_nonneg (a.orientation.y - n.y)]
    · exact ho

/-- Any sequence of `update` calls on an agent owning a token returns and
keeps the squared length of the orientation at most 1. -/
theorem advect_orientation_le (dt : ℝ) : ∀ (vs : List (Vector2D ℝ)) (m : LQMem ℝ)
    (a : ImplicitAgent ℝ) (t : Nat), a.proximityToken = some t →
    a.orientation.squaredNorm ≤ 1 →
    ∃ r, ImplicitAgent.advect Real.sqrt dt vs m a = some r ∧ r.2.orientation.squaredNorm ≤ 1
  | [], m, a, _, _, ho => ⟨(m, a), rfl, ho⟩
  | v :: vs, m, a, t, ht, ho => by
    obtain ⟨r, hr⟩ : ∃ r, ImplicitAgent.update Real.sqrt m { a with velocity := v } dt = some r :=
      ⟨_, update_of_token Real.sqrt m { a with velocity := v } dt t ht⟩
    have hstep := update_orientation_le m { a with velocity := v } dt r hr ho
    rw [ImplicitAgent.advect, hr, Option.some_bind]
    exact advect_orientation_le dt vs r.1 r.2 t (hstep.2.trans ht) hstep.1

/-- C13, as amended: for an agent initialised with `goal ≠ position`, the
orientation has unit length after `init`; after every sequence of velocities
applied by `update` the call returns and the orientation has length at most
1. -/
theorem orientation_at_most_unit (m : LQMem ℝ) (self : Nat) (a : ImplicitAgent ℝ)
    (c : AgentInitialParameters ℝ) (dt : ℝ) (vs : List (Vector2D ℝ))
    (hg : c.goal.x ≠ c.position.x ∨ c.goal.y ≠ c.position.y) :
    (ImplicitAgent.init Real.sqrt m self a c).2.orientation.squaredNorm = 1 ∧
    ∃ r, ImplicitAgent.advect Real.sqrt dt vs (ImplicitAgent.init Real.sqrt m self a c).1
        (ImplicitAgent.init Real.sqrt m self a c).2 = some r ∧
      r.2.orientation.squaredNorm ≤ 1 := by
  have h1 : (ImplicitAgent.init Real.sqrt m self a c).2.orientation.squaredNorm = 1 := by
    have : (ImplicitAgent.init Real.sqrt m self a c).2.orientation =
        (c.goal.sub c.position).normalized Real.sqrt := rfl
    rw [this]
    apply normalized_squaredNorm
    rcases hg with h | h
    · exact Or.inl (sub_ne_zero.2 h)
    · exact Or.inr (sub_ne_zero.2 h)
  refine ⟨h1, ?_⟩
  exact advect_orientation_le dt vs _ _ m.nproxy rfl h1.le

/-- C13, instance of the amended statement: the agent of scenario 1 turning
left. -/
theorem orientation_at_most_unit_witness :
    (((straightLineParameters : AgentInitialParameters ℝ).goal.x ≠
        (straightLineParameters : AgentInitialParameters ℝ).position.x) ∨
      ((straightLineParameters : AgentInitialParameters ℝ).goal.y ≠
        (straightLineParameters : AgentInitialParameters ℝ).position.y)) ∧
    (ImplicitAgent.init Real.sqrt emptyIndex 0 (ImplicitAgent.construct straightLineAgent)
      (straightLineParameters : AgentInitialParameters ℝ)).2.orientation.squaredNorm = 1 := by
  have h : ((straightLineParameters : AgentInitialParameters ℝ).goal.x ≠
        (straightLineParameters : AgentInitialParameters ℝ).position.x) ∨
      ((straightLineParameters : AgentInitialParameters ℝ).goal.y ≠
        (straightLineParameters : AgentInitialParameters ℝ).position.y) := by
    left
    simp only [straightLineParameters]
    norm_num
  exact ⟨h, (orientation_at_most_unit emptyIndex 0 (ImplicitAgent.construct straightLineAgent)
    straightLineParameters (1 / 5) [⟨0, 1⟩] h).1⟩

/-- C13, counterexample: the agent of scenario 1 (start `(-4, 0)`, goal
`(4, 0)`) has orientation `(1, 0)` after `init`; one `update` with velocity
`(0, 1)` leaves the orientation `(3/5, 2/5)`, of squared length `13/25`. -/
theorem orientation_shrinks_when_turning :
    ((straightLineParameters : AgentInitialParameters ℝ).goal.x ≠
        (straightLineParameters : AgentInitialParameters ℝ).position.x) ∧
    ∃ r, ImplicitAgent.advect Real.sqrt (1 / 5) [⟨0, 1⟩]
        (ImplicitAgent.init Real.sqrt emptyIndex 0 (ImplicitAgent.construct straightLineAgent)
          straightLineParameters).1
        (ImplicitAgent.init Real.sqrt emptyIndex 0 (ImplicitAgent.construct straightLineAgent)
          straightLineParameters).2 = some r ∧
      r.2.orientation = ⟨3 / 5, 2 / 5⟩ ∧ r.2.orientation.squaredNorm = 13 / 25 ∧
      r.2.orientation.squaredNorm ≠ 1 := by
  have hg : ((straightLineParameters : AgentInitialParameters ℝ).goal.x ≠
        (straightLineParameters : AgentInitialParameters ℝ).position.x) := by
    simp only [straightLineParameters]
    norm_num
  refine ⟨hg, ?_⟩
  have ho : (ImplicitAgent.init Real.sqrt emptyIndex 0 (ImplicitAgent.construct straightLineAgent)
      (straightLineParameters : AgentInitialParameters ℝ)).2.orientation = ⟨1, 0⟩ := by
    have : (ImplicitAgent.init Real.sqrt emptyIndex 0 (ImplicitAgent.construct straightLineAgent)
        (straightLineParameters : AgentInitialParameters ℝ)).2.orientation =
        ((straightLineParameters : AgentInitialParameters ℝ).goal.sub
          straightLineParameters.position).normalized Real.sqrt := rfl
    rw [this, normalized_of_ne_zero _ (Or.inl (by
      simp only [straightLineParameters, Vector2D.sub]; norm_num))]
    simp only [straightLineParameters, Vector2D.sub]
    have h8 : Real.sqrt ((4 - -4) * (4 - -4) + (0 - 0) * (0 - 0)) = 8 := by
      have : ((4 : ℝ) - -4) * (4 - -4) + (0 - 0) * (0 - 0) = 8 * 8 := by norm_num
      rw [this, Real.sqrt_mul_self (by norm_num)]
    rw [h8]
    norm_num
  have htok : (ImplicitAgent.init Real.sqrt emptyIndex 0
      (ImplicitAgent.construct straightLineAgent)
      (straightLineParameters : AgentInitialParameters ℝ)).2.proximityToken =
      some (emptyIndex : LQMem ℝ).nproxy := rfl
  generalize (ImplicitAgent.init Real.sqrt emptyIndex 0 (ImplicitAgent.construct straightLineAgent)
      (straightLineParameters : AgentInitialParameters ℝ)).1 = m0
  generalize (ImplicitAgent.init Real.sqrt emptyIndex 0 (ImplicitAgent.construct straightLineAgent)
      (straightLineParameters : AgentInitialParameters ℝ)).2 = a0 at ho htok
  have hu := update_of_token Real.sqrt m0 { a0 with velocity := ⟨0, 1⟩ } (1 / 5) _ htok
  have hv : (({ a0 with velocity := ⟨0, 1⟩ } : ImplicitAgent ℝ).velocity.x ≠ 0 ∨
      ({ a0 with velocity := ⟨0, 1⟩ } : ImplicitAgent ℝ).velocity.y ≠ 0) := Or.inr one_ne_zero
  have hor : ∀ r, ImplicitAgent.update Real.sqrt m0 { a0 with velocity := ⟨0, 1⟩ } (1 / 5) =
      some r → r.2.orientation = ⟨3 / 5, 2 / 5⟩ := by
    intro r hr
    rw [hu] at hr
    have := Option.some.inj hr
    subst this
    simp only [hv, if_true]
    rw [normalized_of_ne_zero _ hv, ho]
    simp only [Vector2D.add, Vector2D.sub, Vector2D.mulScalar]
    have h1 : Real.sqrt ((0 : ℝ) * 0 + 1 * 1) = 1 := by
      rw [show ((0 : ℝ) * 0 + 1 * 1) = 1 by norm_num, Real.sqrt_one]
    rw [h1]
    norm_num
  refine ⟨_, by rw [ImplicitAgent.advect, hu, Option.some_bind]; rfl, ?_⟩
  have h3 := hor _ hu
  refine ⟨h3, ?_, ?_⟩
  · rw [h3]; simp only [Vector2D.squaredNorm]; norm_num
  · rw [h3]; simp only [Vector2D.squaredNorm]; norm_num

end advection


/-! ## The objective of the optimisation -/

section objective

variable [LinearOrderedField K]

/-- An entry of `_nn[i]` whose active id is `i` leaves the state of
`value(vNew, grad)` unchanged. -/
theorem valueGradPair_of_self (fn : MathFns K) (e : ImplicitEngine K) (vNew posNew : Nat → K)
    (i : Nat) (st : K × Bool × (Nat → K)) (other : Nat)
    (h : (e.agents other).activeid = (i : Int)) :
    ImplicitEngine.valueGradPair fn e vNew posNew i st other = st := by
  unfold ImplicitEngine.valueGradPair
  simp [h]

/-- An entry of `_nn[i]` whose active id is not above `i` leaves the state of
`value(vNew)` unchanged. -/
theorem valuePair_of_not_above (fn : MathFns K) (e : ImplicitEngine K) (vNew posNew : Nat → K)
    (i : Nat) (st : K × Bool) (other : Nat)
    (h : ¬ (e.agents other).activeid > (i : Int)) :
    ImplicitEngine.valuePair fn e vNew posNew i st other = st := by
  unfold ImplicitEngine.valuePair
  simp [h]

/-- With neighbour lists that are empty or hold only the agent itself,
`value(vNew, grad)` returns the quadratic part and the gradient it is
initialised with. -/
theorem valueGrad_of_no_pairs (fn : MathFns K) (e : ImplicitEngine K) (vNew : Nat → K)
    (h : ∀ i, i < e.activeAgents → ∀ other ∈ e.nn i, (e.agents other).activeid = (i : Int)) :
    ImplicitEngine.valueGrad fn e vNew =
      (e.quadratic vNew,
        fun i => e.ksi * (vNew i - e.vGoal i) + (1 / e.dt) * (vNew i - e.vel i)) := by
  unfold ImplicitEngine.valueGrad
  have inner : ∀ (i : Nat) (l : List Nat) (st : K × Bool × (Nat → K)),
      (∀ other ∈ l, (e.agents other).activeid = (i : Int)) →
      l.foldl (ImplicitEngine.valueGradPair fn e vNew (fun i => e.pos i + vNew i * e.dt) i) st
        = st := by
    intro i l
    induction l with
    | nil => intro st _; rfl
    | cons a l ih =>
      intro st hl
      rw [List.foldl_cons, valueGradPair_of_self fn e vNew _ i st a (hl a (List.mem_cons_self _ _))]
      exact ih st (fun o ho => hl o (List.mem_cons_of_mem _ ho))
  have outer : ∀ (l : List Nat) (st : K × Bool × (Nat → K)), (∀ i ∈ l, i < e.activeAgents) →
      l.foldl (fun (st : K × Bool × (Nat → K)) i =>
        if !st.2.1 then (e.nn i).foldl
          (ImplicitEngine.valueGradPair fn e vNew (fun i => e.pos i + vNew i * e.dt) i) st
        else st) st = st := by
    intro l
    induction l with
    | nil => intro st _; rfl
    | cons a l ih =>
      intro st hl
      rw [List.foldl_cons, inner a (e.nn a) st (h a (hl a (List.mem_cons_self _ _)))]
      simp only [ite_self]
      exact ih st (fun o ho => hl o (List.mem_cons_of_mem _ ho))
  simp only []
  rw [outer _ _ (fun i hi => List.mem_range.1 hi)]
  rfl

/-- With neighbour lists that are empty or hold only agents whose active id is
not above the owner of the list, `value(vNew)` returns the quadratic part. -/
theorem value_of_no_pairs (fn : MathFns K) (e : ImplicitEngine K) (vNew : Nat → K)
    (h : ∀ i, i < e.activeAgents → ∀ other ∈ e.nn i, ¬ (e.agents other).activeid > (i : Int)) :
    ImplicitEngine.value fn e vNew = e.quadratic vNew := by
  unfold ImplicitEngine.value
  have inner : ∀ (i : Nat) (l : List Nat) (st : K × Bool),
      (∀ other ∈ l, ¬ (e.agents other).activeid > (i : Int)) →
      l.foldl (ImplicitEngine.valuePair fn e vNew (fun i => e.pos i + vNew i * e.dt) i) st
        = st := by
    intro i l
    induction l with
    | nil => intro st _; rfl
    | cons a l ih =>
      intro st hl
      rw [List.foldl_cons, valuePair_of_not_above fn e vNew _ i st a
        (hl a (List.mem_cons_self _ _))]
      exact ih st (fun o ho => hl o (List.mem_cons_of_mem _ ho))
  have outer : ∀ (l : List Nat) (st : K × Bool), (∀ i ∈ l, i < e.activeAgents) →
      l.foldl (fun (st : K × Bool) i =>
        if !st.2 then (e.nn i).foldl
          (ImplicitEngine.valuePair fn e vNew (fun i => e.pos i + vNew i * e.dt) i) st
        else st) st = st := by
    intro l
    induction l with
    | nil => intro st _; rfl
    | cons a l ih =>
      intro st hl
      rw [List.foldl_cons, inner a (e.nn a) st (h a (hl a (List.mem_cons_self _ _)))]
      simp only [ite_self]
      exact ih st (fun o ho => hl o (List.mem_cons_of_mem _ ho))
  simp only []
  rw [outer _ _ (fun i hi => List.mem_range.1 hi)]
  rfl

/-- The packed state `straightLineProblem` has no pair to evaluate, with an
empty neighbour list as with the list holding the agent itself. -/
theorem straightLineProblem_no_pairs [FloorRing K] (nn0 : List Nat)
    (h0 : nn0 = [] ∨ nn0 = [0]) :
    ∀ i, i < (straightLineProblem nn0 : ImplicitEngine K).activeAgents →
      ∀ other ∈ (straightLineProblem nn0 : ImplicitEngine K).nn i,
        ((straightLineProblem nn0 : ImplicitEngine K).agents other).activeid = (i : Int) := by
  intro i hi other ho
  have hi0 : i = 0 := by
    have : i < 1 := hi
    omega
  subst hi0
  rcases h0 with h | h <;> subst h
  · simp [straightLineProblem] at ho
  · rfl

/-- The energy of `straightLineProblem` as a function of the candidate
velocity. -/
theorem straightLineProblem_energy (fn : MathFns ℝ) (nn0 : List Nat)
    (h0 : nn0 = [] ∨ nn0 = [0]) (v : Nat → ℝ) :
    (ImplicitEngine.valueGrad fn (straightLineProblem nn0) v).1 =
        1 / 10 * (v 0 * v 0 + v 1 * v 1) + ((v 0 - 1) * (v 0 - 1) + v 1 * v 1) ∧
    ImplicitEngine.value fn (straightLineProblem nn0) v =
        1 / 10 * (v 0 * v 0 + v 1 * v 1) + ((v 0 - 1) * (v 0 - 1) + v 1 * v 1) := by
  have hq : (straightLineProblem nn0 : ImplicitEngine ℝ).quadratic v =
      1 / 10 * (v 0 * v 0 + v 1 * v 1) + ((v 0 - 1) * (v 0 - 1) + v 1 * v 1) := by
    simp only [ImplicitEngine.quadratic, straightLineProblem, ImplicitEngine.init,
      Finset.sum_range_succ, Finset.sum_range_zero]
    norm_num
  constructor
  · rw [valueGrad_of_no_pairs fn _ v (straightLineProblem_no_pairs nn0 h0)]
    exact hq
  · rw [value_of_no_pairs fn _ v (fun i hi o ho => by
      rw [straightLineProblem_no_pairs nn0 h0 i hi o ho]; exact lt_irrefl _)]
    exact hq

/-- The gradient `value(vNew, grad)` writes for `straightLineProblem`. -/
theorem straightLineProblem_grad (fn : MathFns ℝ) (nn0 : List Nat)
    (h0 : nn0 = [] ∨ nn0 = [0]) (v : Nat → ℝ) :
    (ImplicitEngine.valueGrad fn (straightLineProblem nn0) v).2 0 = 2 * (v 0 - 1) + 5 * v 0 ∧
    (ImplicitEngine.valueGrad fn (straightLineProblem nn0) v).2 1 = 2 * v 1 + 5 * v 1 := by
  rw [valueGrad_of_no_pairs fn _ v (straightLineProblem_no_pairs nn0 h0)]
  simp only [straightLineProblem, ImplicitEngine.init]
  norm_num

/-- C16: in the packed state of the first step of scenario 1 (`dt = 1/5`,
`ksi = 2`, agent at rest, preferred velocity `(1, 0)`), with an empty
neighbour list, `value(v, grad)` at `v = (1, 0)` writes `grad[0] = 5`, while
the derivative of the energy returned by the same call with respect to
`v[0]`, which is `dt (v - vel) + ksi (v - v_goal)`, is `1/5`. -/
theorem gradient_is_not_derivative :
    (straightLineProblem [] : ImplicitEngine ℝ).nn 0 = [] ∧
    (straightLineProblem [] : ImplicitEngine ℝ).activeAgents = 1 ∧
    (0 : ℝ) < (straightLineProblem [] : ImplicitEngine ℝ).dt ∧
    (ImplicitEngine.valueGrad ⟨Real.sqrt, Real.exp, fun a b => a ^ b⟩ (straightLineProblem [])
      (fun i => if i = 0 then 1 else 0)).2 0 = 5 ∧
    (ImplicitEngine.valueGrad ⟨Real.sqrt, Real.exp, fun a b => a ^ b⟩ (straightLineProblem [0])
      (fun i => if i = 0 then 1 else 0)).2 0 = 5 ∧
    (straightLineProblem [] : ImplicitEngine ℝ).dt *
        (1 - (straightLineProblem [] : ImplicitEngine ℝ).vel 0) +
      (straightLineProblem [] : ImplicitEngine ℝ).ksi *
        (1 - (straightLineProblem [] : ImplicitEngine ℝ).vGoal 0) = 1 / 5 ∧
    deriv (fun s : ℝ => (ImplicitEngine.valueGrad ⟨Real.sqrt, Real.exp, fun a b => a ^ b⟩
      (straightLineProblem []) (fun i => if i = 0 then s else 0)).1) 1 = 1 / 5 := by
  refine ⟨rfl, rfl, ?_, ?_, ?_, ?_, ?_⟩
  · simp only [straightLineProblem]; norm_num
  · rw [(straightLineProblem_grad _ [] (Or.inl rfl) _).1]; norm_num
  · rw [(straightLineProblem_grad _ [0] (Or.inr rfl) _).1]; norm_num
  · simp only [straightLineProblem, ImplicitEngine.init]; norm_num
  · have hf : (fun s : ℝ => (ImplicitEngine.valueGrad ⟨Real.sqrt, Real.exp, fun a b => a ^ b⟩
        (straightLineProblem []) (fun i => if i = 0 then s else 0)).1) =
        fun s : ℝ => 1 / 10 * s ^ 2 + (s - 1) ^ 2 := by
      funext s
      rw [(straightLineProblem_energy _ [] (Or.inl rfl) _).1]
      norm_num
      ring
    rw [hf]
    have hd : HasDerivAt (fun s : ℝ => 1 / 10 * s ^ 2 + (s - 1) ^ 2)
        (1 / 10 * (2 * 1 ^ (2 - 1) * 1) + 2 * (1 - 1) ^ (2 - 1) * 1) 1 :=
      (((hasDerivAt_id (1 : ℝ)).pow 2).const_mul (1 / 10)).add
        (((hasDerivAt_id (1 : ℝ)).sub_const 1).pow 2)
    rw [hd.deriv]
    norm_num

/-- C17: in the packed state of the first step of scenario 1 with an empty
neighbour list, the closed form `(dt vel + ksi v_goal) / (dt + ksi)` is
`(10/11, 0)` and minimises `value`, but the gradient `value(v, grad)` writes
there is `(48/11, 0)`; that gradient vanishes at `(2/7, 0)`, where the energy
is `127/245`, above the minimum `1/11`. -/
theorem closed_form_is_not_stationary :
    (straightLineProblem [] : ImplicitEngine ℝ).nn 0 = [] ∧
    (0 : ℝ) < (straightLineProblem [] : ImplicitEngine ℝ).dt ∧
    (0 : ℝ) < (straightLineProblem [] : ImplicitEngine ℝ).ksi ∧
    ((straightLineProblem [] : ImplicitEngine ℝ).dt *
        (straightLineProblem [] : ImplicitEngine ℝ).vel 0 +
      (straightLineProblem [] : ImplicitEngine ℝ).ksi *
        (straightLineProblem [] : ImplicitEngine ℝ).vGoal 0) /
      ((straightLineProblem [] : ImplicitEngine ℝ).dt +
        (straightLineProblem [] : ImplicitEngine ℝ).ksi) = 10 / 11 ∧
    ((straightLineProblem [] : ImplicitEngine ℝ).dt *
        (straightLineProblem [] : ImplicitEngine ℝ).vel 1 +
      (straightLineProblem [] : ImplicitEngine ℝ).ksi *
        (straightLineProblem [] : ImplicitEngine ℝ).vGoal 1) /
      ((straightLineProblem [] : ImplicitEngine ℝ).dt +
        (straightLineProblem [] : ImplicitEngine ℝ).ksi) = 0 ∧
    (∀ v : Nat → ℝ,
      ImplicitEngine.value ⟨Real.sqrt, Real.exp, fun a b => a ^ b⟩ (straightLineProblem [])
        (fun i => if i = 0 then 10 / 11 else 0) ≤
      ImplicitEngine.value ⟨Real.sqrt, Real.exp, fun a b => a ^ b⟩ (straightLineProblem []) v) ∧
    (ImplicitEngine.valueGrad ⟨Real.sqrt, Real.exp, fun a b => a ^ b⟩ (straightLineProblem [])
      (fun i => if i = 0 then 10 / 11 else 0)).2 0 = 48 / 11 ∧
    (ImplicitEngine.valueGrad ⟨Real.sqrt, Real.exp, fun a b => a ^ b⟩ (straightLineProblem [])
      (fun i => if i = 0 then 2 / 7 else 0)).2 0 = 0 ∧
    (ImplicitEngine.valueGrad ⟨Real.sqrt, Real.exp, fun a b => a ^ b⟩ (straightLineProblem [])
      (fun i => if i = 0 then 2 / 7 else 0)).2 1 = 0 ∧
    ImplicitEngine.value ⟨Real.sqrt, Real.exp, fun a b => a ^ b⟩ (straightLineProblem [])
      (fun i => if i = 0 then 2 / 7 else 0) = 127 / 245 ∧
    ImplicitEngine.value ⟨Real.sqrt, Real.exp, fun a b => a ^ b⟩ (straightLineProblem [])
      (fun i => if i = 0 then 10 / 11 else 0) = 1 / 11 := by
  refine ⟨rfl, ?_, ?_, ?_, ?_, ?_, ?_, ?_, ?_, ?_, ?_⟩
  · simp only [straightLineProblem]; norm_num
  · simp only [straightLineProblem, ImplicitEngine.init]; norm_num
  · simp only [straightLineProblem, ImplicitEngine.init]; norm_num
  · simp only [straightLineProblem, ImplicitEngine.init]; norm_num
  · intro v
    rw [(straightLineProblem_energy _ [] (Or.inl rfl) _).2,
      (straightLineProblem_energy _ [] (Or.inl rfl) _).2]
    norm_num
    nlinarith [sq_nonneg (v 0 - 10 / 11), sq_nonneg (v 1)]
  · rw [(straightLineProblem_grad _ [] (Or.inl rfl) _).1]; norm_num
  · rw [(straightLineProblem_grad _ [] (Or.inl rfl) _).1]; norm_num
  · rw [(straightLineProblem_grad _ [] (Or.inl rfl) _).2]; norm_num
  · rw [(straightLineProblem_energy _ [] (Or.inl rfl) _).2]; norm_num
  · rw [(straightLineProblem_energy _ [] (Or.inl rfl) _).2]; norm_num

end objective


/-! ## The objective as a sum over neighbour pairs -/

section pairs

variable [LinearOrderedField K]

/-- One entry of `_nn[i]` with active id above `i` that does not tunnel adds
its two energies. -/
theorem valuePair_of_above (fn : MathFns K) (e : ImplicitEngine K) (vNew : Nat → K)
    (i : Nat) (f : K) (other : Nat) (h : (e.agents other).activeid > (i : Int))
    (hno : e.tunnels fn vNew i (e.agents other).activeid.toNat = false) :
    ImplicitEngine.valuePair fn e vNew (fun i => e.pos i + vNew i * e.dt) i (f, false) other =
      (f + (e.ttcEnergy fn vNew i (e.agents other).activeid.toNat +
        e.distanceEnergy fn vNew i (e.agents other).activeid.toNat), false) := by
  have hy : ((e.agents other).activeid + (e.activeAgents : Int)).toNat =
      (e.agents other).activeid.toNat + e.activeAgents := by omega
  unfold ImplicitEngine.tunnels at hno
  unfold ImplicitEngine.valuePair ImplicitEngine.ttcEnergy ImplicitEngine.distanceEnergy
  simp only [Bool.false_eq_true, if_false, h, if_true, hy, hno]
  rw [add_assoc]

/-- The inner loop of `value(vNew)` over a list of entries none of which
tunnels. -/
theorem value_inner_loop (fn : MathFns K) (e : ImplicitEngine K) (vNew : Nat → K) (i : Nat) :
    ∀ (l : List Nat) (f : K),
    (∀ other ∈ l, (e.agents other).activeid > (i : Int) →
      e.tunnels fn vNew i (e.agents other).activeid.toNat = false) →
    l.foldl (ImplicitEngine.valuePair fn e vNew (fun i => e.pos i + vNew i * e.dt) i) (f, false) =
      (f + (((l.filter (fun other => decide ((e.agents other).activeid > (i : Int)))).map
        (fun other => (i, (e.agents other).activeid.toNat))).map
          (fun p => e.ttcEnergy fn vNew p.1 p.2 + e.distanceEnergy fn vNew p.1 p.2)).sum, false)
  | [], f, _ => by simp
  | other :: l, f, h => by
    rw [List.foldl_cons]
    by_cases ha : (e.agents other).activeid > (i : Int)
    · rw [valuePair_of_above fn e vNew i f other ha (h other (List.mem_cons_self _ _) ha),
        value_inner_loop fn e vNew i l _ (fun o ho => h o (List.mem_cons_of_mem _ ho))]
      simp [List.filter_cons, ha, add_assoc]
    · rw [valuePair_of_not_above fn e vNew _ i (f, false) other ha,
        value_inner_loop fn e vNew i l _ (fun o ho => h o (List.mem_cons_of_mem _ ho))]
      simp [List.filter_cons, ha]

/-- The outer loop of `value(vNew)` over a list of agents none of whose
neighbour pairs tunnels. -/
theorem value_outer_loop (fn : MathFns K) (e : ImplicitEngine K) (vNew : Nat → K) :
    ∀ (is : List Nat) (f : K),
    (∀ i ∈ is, ∀ other ∈ e.nn i, (e.agents other).activeid > (i : Int) →
      e.tunnels fn vNew i (e.agents other).activeid.toNat = false) →
    is.foldl (fun (st : K × Bool) i =>
        if !st.2 then (e.nn i).foldl
          (ImplicitEngine.valuePair fn e vNew (fun i => e.pos i + vNew i * e.dt) i) st
        else st) (f, false) =
      (f + ((is.flatMap (fun i =>
        ((e.nn i).filter (fun other => decide ((e.agents other).activeid > (i : Int)))).map
          (fun other => (i, (e.agents other).activeid.toNat)))).map
          (fun p => e.ttcEnergy fn vNew p.1 p.2 + e.distanceEnergy fn vNew p.1 p.2)).sum, false)
  | [], f, _ => by simp
  | i :: is, f, h => by
    rw [List.foldl_cons]
    simp only [Bool.not_false, if_true]
    rw [value_inner_loop fn e vNew i (e.nn i) f (h i (List.mem_cons_self _ _)),
      value_outer_loop fn e vNew is _ (fun j hj => h j (List.mem_cons_of_mem _ hj))]
    simp [List.flatMap_cons, add_assoc]

/-- Membership in the list of neighbour pairs. -/
theorem mem_neighbourPairs (e : ImplicitEngine K) (i j : Nat) :
    (i, j) ∈ e.neighbourPairs ↔
      i < e.activeAgents ∧ i < j ∧ ∃ other ∈ e.nn i, (e.agents other).activeid = (j : Int) := by
  unfold ImplicitEngine.neighbourPairs
  simp only [List.mem_flatMap, List.mem_range, List.mem_map, List.mem_filter, decide_eq_true_eq,
    Prod.mk.injEq]
  constructor
  · rintro ⟨i', hi', other, ⟨ho, hgt⟩, rfl, rfl⟩
    refine ⟨hi', by omega, other, ho, by omega⟩
  · rintro ⟨hi, hij, other, ho, hj⟩
    exact ⟨i, hi, other, ⟨ho, by omega⟩, rfl, by omega⟩

/-- When the active ids within each neighbour list are pairwise distinct, no
pair occurs twice in the list of neighbour pairs. -/
theorem neighbourPairs_nodup (e : ImplicitEngine K)
    (hnd : ∀ i, i < e.activeAgents →
      ((e.nn i).map (fun other => (e.agents other).activeid)).Nodup) :
    e.neighbourPairs.Nodup := by
  unfold ImplicitEngine.neighbourPairs
  rw [List.nodup_flatMap]
  constructor
  · intro i hi
    have h1 := hnd i (List.mem_range.1 hi)
    have h2 : ((e.nn i).filter (fun other => decide ((e.agents other).activeid > (i : Int)))).Nodup :=
      (List.Nodup.of_map _ h1).filter _
    refine List.Nodup.map_on ?_ h2
    intro a ha b hb hab
    have ha' := List.mem_filter.1 ha
    have hb' := List.mem_filter.1 hb
    have hgt1 := of_decide_eq_true ha'.2
    have hgt2 := of_decide_eq_true hb'.2
    have heq : (e.agents a).activeid = (e.agents b).activeid := by
      have := (Prod.mk.injEq _ _ _ _ ▸ hab : _ ∧ _).2
      omega
    exact List.inj_on_of_nodup_map h1 ha'.1 hb'.1 heq
  · apply List.Pairwise.imp _ (List.nodup_range _)
    intro a b hab
    intro p hp1 hp2
    simp only [List.mem_map] at hp1 hp2
    obtain ⟨_, _, rfl⟩ := hp1
    obtain ⟨_, _, h⟩ := hp2
    exact hab (Prod.mk.injEq _ _ _ _ ▸ h : _ ∧ _).1.symm

/-- C15: if no neighbour pair tunnels for the candidate `v`, `value(v)` is
`0.5 dt |v - vel|^2 + 0.5 ksi |v - v_goal|^2` plus the sum over the neighbour
pairs `(i, j)` (`i < j`, `j` the active id of an entry of `nn[i]`) of
`E_ttc(i, j)` at the predicted positions and `E_dist(i, j)` at the current
positions; when the active ids within each list are pairwise distinct, as in a
packed state, every pair is counted exactly once. -/
theorem value_is_sum_over_pairs (fn : MathFns K) (e : ImplicitEngine K) (v : Nat → K)
    (hno : ∀ p ∈ e.neighbourPairs, e.tunnels fn v p.1 p.2 = false)
    (hnd : ∀ i, i < e.activeAgents →
      ((e.nn i).map (fun other => (e.agents other).activeid)).Nodup) :
    ImplicitEngine.value fn e v =
      1 / 2 * e.dt * (Finset.sum (Finset.range e.noVars)
          (fun i => (v i - e.vel i) * (v i - e.vel i))) +
        1 / 2 * e.ksi * (Finset.sum (Finset.range e.noVars)
          (fun i => (v i - e.vGoal i) * (v i - e.vGoal i))) +
        Finset.sum e.neighbourPairs.toFinset
          (fun p => e.ttcEnergy fn v p.1 p.2 + e.distanceEnergy fn v p.1 p.2) ∧
    e.neighbourPairs.Nodup ∧
    ∀ i j, (i, j) ∈ e.neighbourPairs.toFinset ↔
      i < e.activeAgents ∧ i < j ∧ ∃ other ∈ e.nn i, (e.agents other).activeid = (j : Int) := by
  have hnodup := neighbourPairs_nodup e hnd
  refine ⟨?_, hnodup, fun i j => by rw [List.mem_toFinset]; exact mem_neighbourPairs e i j⟩
  rw [List.sum_toFinset _ hnodup]
  unfold ImplicitEngine.value
  simp only []
  rw [value_outer_loop fn e v (List.range e.activeAgents) (e.quadratic v)]
  · rfl
  · intro i hi other ho hgt
    have hmem : (i, (e.agents other).activeid.toNat) ∈ e.neighbourPairs := by
      rw [mem_neighbourPairs]
      exact ⟨List.mem_range.1 hi, by omega, other, ho, by omega⟩
    exact hno _ hmem

/-- C15, instance: the packed state of the first step of scenario 2 with the
candidate velocity 0; its only neighbour pair is `(0, 1)`. -/
theorem value_is_sum_over_pairs_witness :
    ((∀ p ∈ (headOnProblem : ImplicitEngine ℝ).neighbourPairs,
        (headOnProblem : ImplicitEngine ℝ).tunnels ⟨Real.sqrt, Real.exp, fun a b => a ^ b⟩
          (fun _ => 0) p.1 p.2 = false) ∧
      (∀ i, i < (headOnProblem : ImplicitEngine ℝ).activeAgents →
        (((headOnProblem : ImplicitEngine ℝ).nn i).map
          (fun other => ((headOnProblem : ImplicitEngine ℝ).agents other).activeid)).Nodup)) ∧
    (headOnProblem : ImplicitEngine ℝ).neighbourPairs = [(0, 1)] ∧
    (headOnProblem : ImplicitEngine ℝ).neighbourPairs.Nodup := by
  have hp : (headOnProblem : ImplicitEngine ℝ).neighbourPairs = [(0, 1)] := by
    simp [ImplicitEngine.neighbourPairs, headOnProblem, headOnAgent, List.range_succ,
      List.filter_cons]
  have h1 : ∀ p ∈ (headOnProblem : ImplicitEngine ℝ).neighbourPairs,
      (headOnProblem : ImplicitEngine ℝ).tunnels ⟨Real.sqrt, Real.exp, fun a b => a ^ b⟩
        (fun _ => 0) p.1 p.2 = false := by
    intro p hp'
    rw [hp, List.mem_singleton] at hp'
    subst hp'
    unfold ImplicitEngine.tunnels
    rw [min_distance_energy_flag]
    apply decide_eq_false
    simp only [headOnProblem, ImplicitEngine.init]
    norm_num
  have h2 : ∀ i, i < (headOnProblem : ImplicitEngine ℝ).activeAgents →
      (((headOnProblem : ImplicitEngine ℝ).nn i).map
        (fun other => ((headOnProblem : ImplicitEngine ℝ).agents other).activeid)).Nodup := by
    intro i hi
    have hi2 : i < 2 := hi
    simp [headOnProblem, headOnAgent, hi2]
  exact ⟨⟨h1, h2⟩, hp, (value_is_sum_over_pairs _ headOnProblem (fun _ => 0) h1 h2).2.1⟩

end pairs


/-! ## The engine and its index -/

section engineAgent

variable [LinearOrderedField K]

/-- The result of `doStep` when the goal is reached. -/
theorem doStep_reached_eq (sqrt : K → K) (m : LQMem K) (a : ImplicitAgent K) (dt : K)
    (h : (a.goal.sub a.position).squaredNorm < a.goalRadiusSq) :
    ImplicitAgent.doStep sqrt m a dt =
      ((match a.proximityToken with
        | some t => lqRemoveFromBin m t
        | none => m),
       { a with vPref := a.goal.sub a.position, proximityToken := none, enabled := false }) := by
  simp only [ImplicitAgent.doStep, if_pos h, ImplicitAgent.destroy]
  cases ht : a.proximityToken with
  | none => simp only []
  | some t => rfl

/-- The memory after `doStep` when the goal is not reached. -/
theorem doStep_fst_of_not_reached (sqrt : K → K) (m : LQMem K) (a : ImplicitAgent K) (dt : K)
    (h : ¬ (a.goal.sub a.position).squaredNorm < a.goalRadiusSq) :
    (ImplicitAgent.doStep sqrt m a dt).1 = m := by
  by_cases h2 : a.prefSpeed * dt * a.prefSpeed * dt > (a.goal.sub a.position).squaredNorm
  · rw [doStep_of_overshoot sqrt m a dt h h2]
  · rw [doStep_of_cruise sqrt m a dt h h2]

/-- The fields of the agent `doStep` never writes. -/
theorem doStep_frame (sqrt : K → K) (m : LQMem K) (a : ImplicitAgent K) (dt : K) :
    (ImplicitAgent.doStep sqrt m a dt).2.position = a.position ∧
    (ImplicitAgent.doStep sqrt m a dt).2.velocity = a.velocity ∧
    (ImplicitAgent.doStep sqrt m a dt).2.path = a.path ∧
    (ImplicitAgent.doStep sqrt m a dt).2.orientations = a.orientations ∧
    (ImplicitAgent.doStep sqrt m a dt).2.orientation = a.orientation ∧
    (ImplicitAgent.doStep sqrt m a dt).2.goal = a.goal ∧
    (ImplicitAgent.doStep sqrt m a dt).2.goalRadiusSq = a.goalRadiusSq ∧
    (ImplicitAgent.doStep sqrt m a dt).2.radius = a.radius ∧
    (ImplicitAgent.doStep sqrt m a dt).2.prefSpeed = a.prefSpeed ∧
    (ImplicitAgent.doStep sqrt m a dt).2.id = a.id ∧
    (ImplicitAgent.doStep sqrt m a dt).2.activeid = a.activeid := by
  by_cases h : (a.goal.sub a.position).squaredNorm < a.goalRadiusSq
  · rw [doStep_reached_eq sqrt m a dt h]
    exact ⟨rfl, rfl, rfl, rfl, rfl, rfl, rfl, rfl, rfl, rfl, rfl⟩
  · by_cases h2 : a.prefSpeed * dt * a.prefSpeed * dt > (a.goal.sub a.position).squaredNorm
    · rw [doStep_of_overshoot sqrt m a dt h h2]
      exact ⟨rfl, rfl, rfl, rfl, rfl, rfl, rfl, rfl, rfl, rfl, rfl⟩
    · rw [doStep_of_cruise sqrt m a dt h h2]
      exact ⟨rfl, rfl, rfl, rfl, rfl, rfl, rfl, rfl, rfl, rfl, rfl⟩

/-- The flag `enabled` and the token after `doStep`. -/
theorem doStep_enabled_token (sqrt : K → K) (m : LQMem K) (a : ImplicitAgent K) (dt : K) :
    ((a.goal.sub a.position).squaredNorm < a.goalRadiusSq →
      (ImplicitAgent.doStep sqrt m a dt).2.enabled = false ∧
      (ImplicitAgent.doStep sqrt m a dt).2.proximityToken = none) ∧
    (¬ (a.goal.sub a.position).squaredNorm < a.goalRadiusSq →
      (ImplicitAgent.doStep sqrt m a dt).2.enabled = a.enabled ∧
      (ImplicitAgent.doStep sqrt m a dt).2.proximityToken = a.proximityToken) := by
  constructor
  · intro h
    rw [doStep_reached_eq sqrt m a dt h]
    exact ⟨rfl, rfl⟩
  · intro h
    by_cases h2 : a.prefSpeed * dt * a.prefSpeed * dt > (a.goal.sub a.position).squaredNorm
    · rw [doStep_of_overshoot sqrt m a dt h h2]
      exact ⟨rfl, rfl⟩
    · rw [doStep_of_cruise sqrt m a dt h h2]
      exact ⟨rfl, rfl⟩

/-- The agent `doStep` leaves does not depend on the memory. -/
theorem doStep_snd_indep (sqrt : K → K) (m m' : LQMem K) (a : ImplicitAgent K) (dt : K) :
    (ImplicitAgent.doStep sqrt m a dt).2 = (ImplicitAgent.doStep sqrt m' a dt).2 := by
  by_cases h : (a.goal.sub a.position).squaredNorm < a.goalRadiusSq
  · rw [doStep_reached_eq sqrt m a dt h, doStep_reached_eq sqrt m' a dt h]
  · by_cases h2 : a.prefSpeed * dt * a.prefSpeed * dt > (a.goal.sub a.position).squaredNorm
    · rw [doStep_of_overshoot sqrt m a dt h h2, doStep_of_overshoot sqrt m' a dt h h2]
    · rw [doStep_of_cruise sqrt m a dt h h2, doStep_of_cruise sqrt m' a dt h h2]

/-- A disabled agent stays disabled in `doStep`. -/
theorem doStep_disabled (sqrt : K → K) (m : LQMem K) (a : ImplicitAgent K) (dt : K)
    (h : a.enabled = false) : (ImplicitAgent.doStep sqrt m a dt).2.enabled = false := by
  by_cases hr : (a.goal.sub a.position).squaredNorm < a.goalRadiusSq
  · exact ((doStep_enabled_token sqrt m a dt).1 hr).1
  · rw [((doStep_enabled_token sqrt m a dt).2 hr).1, h]

end engineAgent


section engineInv

variable [LinearOrderedField K] [FloorRing K]

/-- The invariant reads the engine only through the index, the number of
agents, and the flag `enabled` and the token of each agent. -/
theorem EngineOK.congr {L : BinRef → List Nat} {e e' : ImplicitEngine K} (h : EngineOK L e)
    (hm : e'.spatialDatabase = e.spatialDatabase) (hn : e'.noAgents = e.noAgents)
    (ha : ∀ i, i < e.noAgents → (e'.agents i).enabled = (e.agents i).enabled ∧
      (e'.agents i).proximityToken = (e.agents i).proximityToken) : EngineOK L e' where
  repr := hm ▸ h.repr
  count := by rw [hm, hn]; exact h.count
  token := by
    intro i hi hen
    rw [hn] at hi
    rw [(ha i hi).1] at hen
    rw [(ha i hi).2, hm]
    exact h.token i hi hen
  released := by
    intro i hi hen
    rw [hn] at hi
    rw [(ha i hi).1] at hen
    rw [(ha i hi).2]
    exact h.released i hi hen
  owner := by
    intro b p hp
    rw [hm, hn]
    have := h.owner b p hp
    exact ⟨this.1, by rw [(ha _ this.1).2]; exact this.2⟩

/-- The engine `init` leaves satisfies the invariant, with empty bin lists. -/
theorem EngineOK.init (raw : ImplicitEngine K) (xRange yRange : K) (xCells yCells : Int) :
    EngineOK (fun _ => []) (ImplicitEngine.init raw xRange yRange xCells yCells) where
  repr := Repr.fresh _ _ _ _ _ _ _
  count := rfl
  token := fun i hi => absurd hi (Nat.not_lt_zero i)
  released := fun i hi => absurd hi (Nat.not_lt_zero i)
  owner := fun b p hp => absurd hp (List.not_mem_nil p)

/-- Membership in the bin lists after `lqUpdateForNewLocation`. -/
theorem mem_lists_after_update {L : BinRef → List Nat} {b0 : BinRef} {p : Nat} (b : BinRef)
    (q : Nat)
    (h : q ∈ (if p ∈ L b0 then L
      else Function.update (fun b => (L b).erase p) b0 (p :: (L b0).erase p)) b) :
    q = p ∨ q ∈ L b := by
  split_ifs at h with hp
  · exact Or.inr h
  · rcases (Linked.mem_update_cons b q).1 h with ⟨rfl, _⟩ | hq
    · exact Or.inl rfl
    · exact Or.inr (List.mem_of_mem_erase hq)

/-- Calling `addAgent` keeps the invariant. -/
theorem EngineOK.addAgent {L : BinRef → List Nat} {e : ImplicitEngine K} (h : EngineOK L e)
    (fn : MathFns K) (c : AgentInitialParameters K) :
    ∃ L', EngineOK L' (e.addAgent fn c) := by
  have hal := h.repr.allocate e.noAgents
  have hnp : (allocateToken e.spatialDatabase e.noAgents).nproxy = e.spatialDatabase.nproxy + 1 :=
    rfl
  have hup := hal.update (p := e.spatialDatabase.nproxy) (by rw [hnp]; exact Nat.lt_succ_self _)
    c.position.x c.position.y
  refine ⟨_, ⟨hup, ?_, ?_, ?_, ?_⟩⟩
  · show (lqUpdateForNewLocation _ _ _ _).nproxy = e.noAgents + 1
    rw [update_nproxy, hnp, h.count]
  · intro i hi hen
    have hi' : i < e.noAgents + 1 := hi
    show ∃ t, ((Function.update e.agents e.noAgents _) i).proximityToken = some t ∧
      t < (lqUpdateForNewLocation _ _ _ _).nproxy ∧
      ((lqUpdateForNewLocation _ _ _ _).proxy t).object = i
    rw [update_nproxy, hnp]
    by_cases hin : i = e.noAgents
    · subst hin
      refine ⟨e.spatialDatabase.nproxy, ?_, Nat.lt_succ_self _, ?_⟩
      · rw [Function.update_same]; rfl
      · rw [update_object]
        simp [allocateToken, lqInitClientProxy2D]
    · have hlt : i < e.noAgents := by omega
      have hen' : (e.agents i).enabled = true := by
        have : (e.addAgent fn c).agents i = e.agents i := Function.update_noteq hin _ _
        rw [← this]; exact hen
      obtain ⟨t, ht, htn, hto⟩ := h.token i hlt hen'
      refine ⟨t, ?_, Nat.lt_succ_of_lt htn, ?_⟩
      · rw [Function.update_noteq hin]; exact ht
      · rw [update_object]
        have : t ≠ e.spatialDatabase.nproxy := Nat.ne_of_lt htn
        simp [allocateToken, Function.update_noteq this, hto]
  · intro i hi hen
    have hi' : i < e.noAgents + 1 := hi
    by_cases hin : i = e.noAgents
    · subst hin
      have : ((e.addAgent fn c).agents e.noAgents).enabled = true := by
        show ((Function.update e.agents e.noAgents _) e.noAgents).enabled = true
        rw [Function.update_same]; rfl
      rw [this] at hen
      exact Bool.noConfusion hen
    · have hlt : i < e.noAgents := by omega
      have heq : (e.addAgent fn c).agents i = e.agents i := Function.update_noteq hin _ _
      rw [heq] at hen ⊢
      exact h.released i hlt hen
  · intro b p hp
    show ((lqUpdateForNewLocation _ _ _ _).proxy p).object < e.noAgents + 1 ∧
      ((Function.update e.agents e.noAgents _)
        ((lqUpdateForNewLocation _ _ _ _).proxy p).object).proximityToken = some p
    rw [update_object]
    rcases mem_lists_after_update b p hp with rfl | hp'
    · have ho : ((allocateToken e.spatialDatabase e.noAgents).proxy
          e.spatialDatabase.nproxy).object = e.noAgents := by
        simp [allocateToken, lqInitClientProxy2D]
      rw [ho, Function.update_same]
      exact ⟨Nat.lt_succ_self _, rfl⟩
    · have hlt : p < e.spatialDatabase.nproxy := h.repr.alloc b p hp'
      have hne : p ≠ e.spatialDatabase.nproxy := Nat.ne_of_lt hlt
      have ho : ((allocateToken e.spatialDatabase e.noAgents).proxy p).object =
          (e.spatialDatabase.proxy p).object := by
        simp [allocateToken, Function.update_noteq hne]
      rw [ho]
      have := h.owner b p hp'
      rw [Function.update_noteq (Nat.ne_of_lt this.1)]
      exact ⟨Nat.lt_succ_of_lt this.1, this.2⟩

/-- The fields of the engine after the body of the first loop of
`updateSimulation`. -/
theorem doStepAgent_fields (fn : MathFns K) (e : ImplicitEngine K) (i : Nat) :
    (e.doStepAgent fn i).spatialDatabase =
      (ImplicitAgent.doStep fn.sqrt e.spatialDatabase (e.agents i) e.dt).1 ∧
    (e.doStepAgent fn i).agents = Function.update e.agents i
      (ImplicitAgent.doStep fn.sqrt e.spatialDatabase (e.agents i) e.dt).2 ∧
    (e.doStepAgent fn i).activeAgents = e.activeAgents +
      (if (ImplicitAgent.doStep fn.sqrt e.spatialDatabase (e.agents i) e.dt).2.enabled then 1
        else 0) ∧
    (e.doStepAgent fn i).reachedGoals = (e.reachedGoals &&
      !(ImplicitAgent.doStep fn.sqrt e.spatialDatabase (e.agents i) e.dt).2.enabled) ∧
    { e.doStepAgent fn i with
      spatialDatabase := e.spatialDatabase, agents := e.agents,
      activeAgents := e.activeAgents, reachedGoals := e.reachedGoals } = e := by
  unfold ImplicitEngine.doStepAgent
  simp only []
  split_ifs with h
  · exact ⟨rfl, rfl, rfl, by simp [h], rfl⟩
  · exact ⟨rfl, rfl, rfl, by simp [h], rfl⟩

/-- The body of the first loop of `updateSimulation` keeps the invariant. -/
theorem EngineOK.doStepAgent {L : BinRef → List Nat} {e : ImplicitEngine K} (h : EngineOK L e)
    (fn : MathFns K) (i : Nat) (hi : i < e.noAgents) :
    ∃ L', EngineOK L' (e.doStepAgent fn i) := by
  obtain ⟨hdb, hag, _, _, hframe⟩ := doStepAgent_fields fn e i
  have hno : (e.doStepAgent fn i).noAgents = e.noAgents := by
      have hc := congrArg ImplicitEngine.noAgents hframe
      exact hc
  have hother : ∀ j, j ≠ i → (e.doStepAgent fn i).agents j = e.agents j := by
    intro j hj
    rw [hag, Function.update_noteq hj]
  have hself : (e.doStepAgent fn i).agents i =
      (ImplicitAgent.doStep fn.sqrt e.spatialDatabase (e.agents i) e.dt).2 := by
    rw [hag, Function.update_same]
  by_cases hr : ((e.agents i).goal.sub (e.agents i).position).squaredNorm <
      (e.agents i).goalRadiusSq
  · -- the agent disables
    have hen := ((doStep_enabled_token fn.sqrt e.spatialDatabase (e.agents i) e.dt).1 hr)
    have hm := congrArg Prod.fst (doStep_reached_eq fn.sqrt e.spatialDatabase (e.agents i) e.dt hr)
    simp only [] at hm
    cases ht : (e.agents i).proximityToken with
    | none =>
      rw [ht] at hm
      simp only [] at hm
      refine ⟨L, ⟨?_, ?_, ?_, ?_, ?_⟩⟩
      · rw [hdb, hm]; exact h.repr
      · rw [hdb, hm, hno]; exact h.count
      · intro j hj hje
        rw [hno] at hj
        by_cases hji : j = i
        · subst hji
          rw [hself, hen.1] at hje
          exact Bool.noConfusion hje
        · rw [hother j hji] at hje ⊢
          rw [hdb, hm]
          exact h.token j hj hje
      · intro j hj hje
        rw [hno] at hj
        by_cases hji : j = i
        · subst hji
          rw [hself]; exact hen.2
        · rw [hother j hji] at hje ⊢
          exact h.released j hj hje
      · intro b p hp
        rw [hdb, hm, hno]
        have := h.owner b p hp
        have hne : (e.spatialDatabase.proxy p).object ≠ i := by
          intro heq
          rw [heq, ht] at this
          exact Option.noConfusion this.2
        rw [hother _ hne]
        exact this
    | some t =>
      rw [ht] at hm
      simp only [] at hm
      have htn : t < e.spatialDatabase.nproxy := by
        cases hie : (e.agents i).enabled with
        | true =>
          obtain ⟨t', ht', htn', _⟩ := h.token i hi hie
          rw [ht] at ht'
          rw [Option.some.inj ht']; exact htn'
        | false =>
          have := h.released i hi hie
          rw [ht] at this
          exact Option.noConfusion this
      refine ⟨fun b => (L b).erase t, ⟨?_, ?_, ?_, ?_, ?_⟩⟩
      · rw [hdb, hm]; exact h.repr.after_remove htn
      · rw [hdb, hm, hno, remove_nproxy]; exact h.count
      · intro j hj hje
        rw [hno] at hj
        by_cases hji : j = i
        · subst hji
          rw [hself, hen.1] at hje
          exact Bool.noConfusion hje
        · rw [hother j hji] at hje ⊢
          rw [hdb, hm]
          obtain ⟨t', h1, h2, h3⟩ := h.token j hj hje
          exact ⟨t', h1, by rw [remove_nproxy]; exact h2, by rw [remove_object]; exact h3⟩
      · intro j hj hje
        rw [hno] at hj
        by_cases hji : j = i
        · subst hji
          rw [hself]; exact hen.2
        · rw [hother j hji] at hje ⊢
          exact h.released j hj hje
      · intro b p hp
        rw [hdb, hm, hno, remove_object]
        have hp' := (List.Nodup.mem_erase_iff (h.repr.nodup b)).1 hp
        have := h.owner b p hp'.2
        have hne : (e.spatialDatabase.proxy p).object ≠ i := by
          intro heq
          rw [heq, ht] at this
          exact hp'.1 (Option.some.inj this.2).symm
        rw [hother _ hne]
        exact this
  · -- the agent goes on
    have hen := ((doStep_enabled_token fn.sqrt e.spatialDatabase (e.agents i) e.dt).2 hr)
    have hm := doStep_fst_of_not_reached fn.sqrt e.spatialDatabase (e.agents i) e.dt hr
    refine ⟨L, h.congr (by rw [hdb, hm]) hno ?_⟩
    intro j _
    by_cases hji : j = i
    · subst hji
      rw [hself]; exact hen
    · rw [hother j hji]
      exact ⟨rfl, rfl⟩

/-- The first loop of `updateSimulation`, run over the agents below `n`. -/
theorem doStep_loop (fn : MathFns K) {L : BinRef → List Nat} {e : ImplicitEngine K}
    (h : EngineOK L e) : ∀ n, n ≤ e.noAgents →
    (∃ L', EngineOK L' ((List.range n).foldl (ImplicitEngine.doStepAgent fn) e)) ∧
    (∀ j, ((List.range n).foldl (ImplicitEngine.doStepAgent fn) e).agents j =
      if j < n then (ImplicitAgent.doStep fn.sqrt e.spatialDatabase (e.agents j) e.dt).2
      else e.agents j) ∧
    ((List.range n).foldl (ImplicitEngine.doStepAgent fn) e).activeAgents = e.activeAgents +
      (List.range n).countP (fun j =>
        (ImplicitAgent.doStep fn.sqrt e.spatialDatabase (e.agents j) e.dt).2.enabled) ∧
    ((List.range n).foldl (ImplicitEngine.doStepAgent fn) e).reachedGoals = (e.reachedGoals &&
      (List.range n).all (fun j =>
        !(ImplicitAgent.doStep fn.sqrt e.spatialDatabase (e.agents j) e.dt).2.enabled)) ∧
    { (List.range n).foldl (ImplicitEngine.doStepAgent fn) e with
      spatialDatabase := e.spatialDatabase, agents := e.agents,
      activeAgents := e.activeAgents, reachedGoals := e.reachedGoals } = e
  | 0, _ => ⟨⟨L, h⟩, fun j => by simp, by simp, by simp, rfl⟩
  | n + 1, hn => by
    obtain ⟨⟨L1, h1⟩, hag, hact, hrg, hframe⟩ := doStep_loop fn h n (Nat.le_of_succ_le hn)
    rw [List.range_succ, List.foldl_append, List.foldl_cons, List.foldl_nil]
    generalize (List.range n).foldl (ImplicitEngine.doStepAgent fn) e = e1 at h1 hag hact hrg hframe
    have hno : e1.noAgents = e.noAgents := by
      have hc := congrArg ImplicitEngine.noAgents hframe
      exact hc
    have hdt : e1.dt = e.dt := by
      have hc := congrArg ImplicitEngine.dt hframe
      exact hc
    obtain ⟨hdb, hag2, hact2, hrg2, hframe2⟩ := doStepAgent_fields fn e1 n
    have hstep : (ImplicitAgent.doStep fn.sqrt e1.spatialDatabase (e1.agents n) e1.dt).2 =
        (ImplicitAgent.doStep fn.sqrt e.spatialDatabase (e.agents n) e.dt).2 := by
      rw [hag n, if_neg (Nat.lt_irrefl n), hdt]
      exact doStep_snd_indep _ _ _ _ _
    refine ⟨h1.doStepAgent fn n (by rw [hno]; exact hn), ?_, ?_, ?_, ?_⟩
    · intro j
      rw [hag2, hstep]
      by_cases hjn : j = n
      · subst hjn
        rw [Function.update_same, if_pos (Nat.lt_succ_self _)]
      · rw [Function.update_noteq hjn, hag j]
        by_cases hlt : j < n
        · rw [if_pos hlt, if_pos (Nat.lt_succ_of_lt hlt)]
        · rw [if_neg hlt, if_neg (by omega)]
    · rw [hact2, hstep, hact, List.countP_append, List.countP_singleton, add_assoc]
    · rw [hrg2, hstep, hrg, List.all_append, Bool.and_assoc]
      simp
    · have := congrArg (fun x : ImplicitEngine K => { x with
        spatialDatabase := e.spatialDatabase, agents := e.agents,
        activeAgents := e.activeAgents, reachedGoals := e.reachedGoals }) hframe2
      simp only [] at this
      rw [hframe] at this
      exact this

/-- The first loop of `updateSimulation`: the invariant is kept, every agent is
the one its own `doStep` leaves, `activeAgents` counts the agents enabled
afterwards, `reachedGoals` tells whether there is none, and nothing else
changes. -/
theorem doStepAll_spec (fn : MathFns K) {L : BinRef → List Nat} {e : ImplicitEngine K}
    (h : EngineOK L e) :
    (∃ L', EngineOK L' (e.doStepAll fn)) ∧
    (∀ j, (e.doStepAll fn).agents j =
      if j < e.noAgents then
        (ImplicitAgent.doStep fn.sqrt e.spatialDatabase (e.agents j) e.dt).2
      else e.agents j) ∧
    (e.doStepAll fn).activeAgents = (List.range e.noAgents).countP (fun j =>
        (ImplicitAgent.doStep fn.sqrt e.spatialDatabase (e.agents j) e.dt).2.enabled) ∧
    (e.doStepAll fn).reachedGoals = (List.range e.noAgents).all (fun j =>
        !(ImplicitAgent.doStep fn.sqrt e.spatialDatabase (e.agents j) e.dt).2.enabled) ∧
    { e.doStepAll fn with
      spatialDatabase := e.spatialDatabase, agents := e.agents,
      activeAgents := e.activeAgents, reachedGoals := e.reachedGoals } = e := by
  have h0 : EngineOK L { e with reachedGoals := true, activeAgents := 0 } :=
    h.congr rfl rfl (fun _ _ => ⟨rfl, rfl⟩)
  obtain ⟨h1, h2, h3, h4, h5⟩ := doStep_loop fn h0 e.noAgents (le_refl _)
  refine ⟨h1, h2, ?_, ?_, ?_⟩
  · have : (e.doStepAll fn).activeAgents = _ := h3
    rw [this]
    simp
  · have : (e.doStepAll fn).reachedGoals = _ := h4
    rw [this]
    simp
  · have := congrArg (fun x : ImplicitEngine K => { x with
      activeAgents := e.activeAgents, reachedGoals := e.reachedGoals }) h5
    exact this

/-- The rank grows by one at each enabled agent. -/
theorem rank_succ (e : ImplicitEngine K) (n : Nat) :
    e.rank (n + 1) = e.rank n + (if (e.agents n).enabled then 1 else 0) := by
  unfold ImplicitEngine.rank
  rw [List.range_succ, List.countP_append, List.countP_singleton]

/-- The rank is monotone. -/
theorem rank_mono (e : ImplicitEngine K) {a b : Nat} (h : a ≤ b) : e.rank a ≤ e.rank b := by
  induction b with
  | zero =>
    have : a = 0 := Nat.le_zero.1 h
    rw [this]
  | succ n ih =>
    rcases Nat.lt_or_ge a (n + 1) with hlt | hge
    · exact le_trans (ih (Nat.lt_succ_iff.1 hlt)) (by rw [rank_succ]; exact Nat.le_add_right _ _)
    · have : a = n + 1 := le_antisymm h hge
      rw [this]

/-- The rank is strictly increasing along the enabled agents. -/
theorem rank_lt (e : ImplicitEngine K) {a b : Nat} (h : a < b) (hen : (e.agents a).enabled = true) :
    e.rank a < e.rank b := by
  have h1 : e.rank (a + 1) = e.rank a + 1 := by rw [rank_succ, hen]; rfl
  have h2 := rank_mono e (show a + 1 ≤ b from h)
  omega

/-- The rank is at most the address. -/
theorem rank_le (e : ImplicitEngine K) (n : Nat) : e.rank n ≤ n := by
  unfold ImplicitEngine.rank
  exact le_trans (List.countP_le_length _) (by rw [List.length_range])

/-- The rank reads the engine only through the flags `enabled`. -/
theorem rank_congr (e e' : ImplicitEngine K) (n : Nat)
    (h : ∀ j, j < n → (e'.agents j).enabled = (e.agents j).enabled) : e'.rank n = e.rank n := by
  unfold ImplicitEngine.rank
  apply List.countP_congr
  intro j hj
  rw [h j (List.mem_range.1 hj)]

/-- The body of the loop of `initializeProblem` for a disabled agent. -/
theorem packAgent_of_disabled (fuel : Nat) (e : ImplicitEngine K) (c i : Nat)
    (h : (e.agents i).enabled = false) :
    ImplicitEngine.packAgent fuel (e, c) i = some (e, c) := by
  unfold ImplicitEngine.packAgent
  simp [h]

/-- The body of the loop of `initializeProblem` for an enabled agent whose
neighbour query returns `nnc`. -/
theorem packAgent_of_enabled (fuel : Nat) (e : ImplicitEngine K) (c i : Nat) (nnc : List Nat)
    (h : (e.agents i).enabled = true)
    (hq : ImplicitAgent.findNeighbors fuel e.spatialDatabase (e.agents i) e.neighborDist [] =
      some nnc) :
    ImplicitEngine.packAgent fuel (e, c) i =
      some ({ e with
          pos := Function.update (Function.update e.pos c (e.agents i).position.x)
            (c + e.activeAgents) (e.agents i).position.y
          vel := Function.update (Function.update e.vel c (e.agents i).velocity.x)
            (c + e.activeAgents) (e.agents i).velocity.y
          vGoal := Function.update (Function.update e.vGoal c (e.agents i).vPref.x)
            (c + e.activeAgents) (e.agents i).vPref.y
          radius := Function.update e.radius c (e.agents i).radius
          agents := Function.update e.agents i { e.agents i with activeid := (c : Int) }
          nn := Function.update e.nn c nnc }, c + 1) := by
  have hq' : ∀ a' : ImplicitAgent K, a'.proximityToken = (e.agents i).proximityToken →
      a'.position = (e.agents i).position →
      ImplicitAgent.findNeighbors fuel e.spatialDatabase a' e.neighborDist [] = some nnc := by
    intro a' h1 h2
    rw [← hq]
    unfold ImplicitAgent.findNeighbors
    rw [h1, h2]
  have key : ∀ {α β : Type} (o : Option α) (f : α → β) (n : α) (x : β), o = some n → f n = x →
      Option.map f o = some x := by
    intro α β o f n x h1 h2
    rw [h1, ← h2]
    rfl
  unfold ImplicitEngine.packAgent
  simp only [h, if_true]
  exact key _ _ nnc _ (hq' _ rfl rfl) rfl

/-- The neighbour query of an agent that owns a token returns, given fuel
above the number of proxies. -/
theorem agent_findNeighbors_some {L : BinRef → List Nat} {m : LQMem K} (h : Linked L m)
    {fuel : Nat} (hf : m.nproxy < fuel) (a : ImplicitAgent K) (t : Nat)
    (ht : a.proximityToken = some t) (r : K) (res : List Nat) :
    ImplicitAgent.findNeighbors fuel m a r res =
      some (res ++ (((localityBinsVisited m.lq a.position.x a.position.y r).flatMap L).filter
        (withinRadius m a.position.x a.position.y r)).map (fun p => (m.proxy p).object)) := by
  unfold ImplicitAgent.findNeighbors
  rw [ht]
  exact h.findNeighbors_eq hf _ _ _ _

/-- The loop of `initializeProblem`, run over the agents below `n`: it returns,
the counter is the rank of `n`, every enabled agent below `n` has its rank as
active id and its neighbour list stored under its rank, and the index, the
other agents and the other fields are unchanged. -/
theorem pack_loop (fuel : Nat) {L : BinRef → List Nat} {e : ImplicitEngine K}
    (h : EngineOK L e) (hf : e.spatialDatabase.nproxy < fuel) : ∀ n, n ≤ e.noAgents →
    ∃ e', (List.range n).foldlM (ImplicitEngine.packAgent fuel) (e, 0) = some (e', e.rank n) ∧
      (∀ j, e'.agents j =
        if j < n ∧ (e.agents j).enabled = true then
          { e.agents j with activeid := (e.rank j : Int) }
        else e.agents j) ∧
      (∀ j, j < n → (e.agents j).enabled = true →
        ImplicitAgent.findNeighbors fuel e.spatialDatabase (e.agents j) e.neighborDist [] =
          some (e'.nn (e.rank j))) ∧
      { e' with agents := e.agents, pos := e.pos, vel := e.vel, vGoal := e.vGoal,
                radius := e.radius, nn := e.nn } = e
  | 0, _ => ⟨e, rfl, fun j => by simp, fun j hj => absurd hj (Nat.not_lt_zero j), rfl⟩
  | n + 1, hn => by
    obtain ⟨e1, hfold, hag, hnn, hframe⟩ := pack_loop fuel h hf n (Nat.le_of_succ_le hn)
    have hdb : e1.spatialDatabase = e.spatialDatabase := by
      have hc := congrArg ImplicitEngine.spatialDatabase hframe
      exact hc
    have hnd : e1.neighborDist = e.neighborDist := by
      have hc := congrArg ImplicitEngine.neighborDist hframe
      exact hc
    have han : e1.agents n = e.agents n := by
      rw [hag n, if_neg (fun hh => Nat.lt_irrefl n hh.1)]
    rw [List.range_succ, List.foldlM_append, hfold]
    simp only [Option.bind_eq_bind, Option.some_bind, List.foldlM_cons, List.foldlM_nil]
    cases hen : (e.agents n).enabled with
    | false =>
      rw [packAgent_of_disabled fuel e1 _ n (by rw [han]; exact hen)]
      refine ⟨e1, ?_, ?_, ?_, hframe⟩
      · rw [rank_succ, hen]; rfl
      · intro j
        rw [hag j]
        by_cases hjn : j = n
        · subst hjn
          rw [if_neg (fun hh => Nat.lt_irrefl j hh.1), if_neg (fun hh => by rw [hen] at hh; exact Bool.noConfusion hh.2)]
        · by_cases hc : j < n ∧ (e.agents j).enabled = true
          · rw [if_pos hc, if_pos ⟨Nat.lt_succ_of_lt hc.1, hc.2⟩]
          · rw [if_neg hc, if_neg (fun hh => hc ⟨by omega, hh.2⟩)]
      · intro j hj hje
        have hjn : j ≠ n := fun hh => by rw [hh, hen] at hje; exact Bool.noConfusion hje
        exact hnn j (by omega) hje
    | true =>
      obtain ⟨t, ht, _, _⟩ := h.token n (Nat.lt_of_succ_le hn) hen
      obtain ⟨nnc, hq⟩ : ∃ nnc, ImplicitAgent.findNeighbors fuel e.spatialDatabase (e.agents n)
          e.neighborDist [] = some nnc :=
        ⟨_, agent_findNeighbors_some h.repr.toLinked hf (e.agents n) t ht e.neighborDist []⟩
      have hq1 : ImplicitAgent.findNeighbors fuel e1.spatialDatabase (e1.agents n)
          e1.neighborDist [] = some nnc := by
        rw [hdb, han, hnd]; exact hq
      obtain ⟨e2, hp, hag2, hnn2, hfr2⟩ : ∃ e2 : ImplicitEngine K,
          ImplicitEngine.packAgent fuel (e1, e.rank n) n = some (e2, e.rank n + 1) ∧
          e2.agents = Function.update e1.agents n
            { e1.agents n with activeid := (e.rank n : Int) } ∧
          e2.nn = Function.update e1.nn (e.rank n) nnc ∧
          { e2 with agents := e1.agents, pos := e1.pos, vel := e1.vel, vGoal := e1.vGoal,
                    radius := e1.radius, nn := e1.nn } = e1 :=
        ⟨_, packAgent_of_enabled fuel e1 _ n _ (by rw [han]; exact hen) hq1, rfl, rfl, rfl⟩
      rw [hp]
      refine ⟨e2, ?_, ?_, ?_, ?_⟩
      · rw [rank_succ, hen]; rfl
      · intro j
        rw [hag2]
        by_cases hjn : j = n
        · subst hjn
          rw [Function.update_same, if_pos ⟨Nat.lt_succ_self _, hen⟩, han]
        · rw [Function.update_noteq hjn, hag j]
          by_cases hc : j < n ∧ (e.agents j).enabled = true
          · rw [if_pos hc, if_pos ⟨Nat.lt_succ_of_lt hc.1, hc.2⟩]
          · rw [if_neg hc, if_neg (fun hh => hc ⟨by omega, hh.2⟩)]
      · intro j hj hje
        rw [hnn2]
        by_cases hjn : j = n
        · subst hjn
          rw [Function.update_same]
          exact hq
        · have hlt : j < n := by omega
          rw [Function.update_noteq (Nat.ne_of_lt (rank_lt e hlt hje))]
          exact hnn j hlt hje
      · have hc := congrArg (fun x : ImplicitEngine K => { x with
          agents := e.agents, pos := e.pos, vel := e.vel, vGoal := e.vGoal,
          radius := e.radius, nn := e.nn }) hfr2
        simp only [] at hc
        rw [hframe] at hc
        exact hc

/-- Source function `initializeProblem` on an engine satisfying the invariant, with
fuel above the number of proxies: it returns; every enabled agent has its rank
as active id and its neighbour list stored under its rank; the index, the
disabled agents and the fields it does not write are unchanged. -/
theorem initializeProblem_spec (fuel : Nat) {L : BinRef → List Nat} {e : ImplicitEngine K}
    (h : EngineOK L e) (hf : e.spatialDatabase.nproxy < fuel) :
    ∃ e2, e.initializeProblem fuel = some e2 ∧ EngineOK L e2 ∧
      (∀ j, e2.agents j =
        if j < e.noAgents ∧ (e.agents j).enabled = true then
          { e.agents j with activeid := (e.rank j : Int) }
        else e.agents j) ∧
      (∀ j, j < e.noAgents → (e.agents j).enabled = true →
        ImplicitAgent.findNeighbors fuel e.spatialDatabase (e.agents j) e.neighborDist [] =
          some (e2.nn (e.rank j))) ∧
      e2.noVars = e.activeAgents + e.activeAgents ∧ e2.vNew = (fun _ => 0) ∧
      { e2 with agents := e.agents, pos := e.pos, vel := e.vel, vGoal := e.vGoal,
                radius := e.radius, nn := e.nn, noVars := e.noVars, vNew := e.vNew } = e := by
  have h0 : EngineOK L { e with noVars := e.activeAgents + e.activeAgents, vNew := fun _ => 0 } :=
    h.congr rfl rfl (fun _ _ => ⟨rfl, rfl⟩)
  obtain ⟨e2, hfold, hag, hnn, hframe⟩ := pack_loop fuel h0 hf e.noAgents (le_refl _)
  have hdb : e2.spatialDatabase = e.spatialDatabase := by
    have hc := congrArg ImplicitEngine.spatialDatabase hframe
    exact hc
  have hno : e2.noAgents = e.noAgents := by
    have hc := congrArg ImplicitEngine.noAgents hframe
    exact hc
  refine ⟨e2, ?_, ?_, hag, hnn, ?_, ?_, ?_⟩
  · unfold ImplicitEngine.initializeProblem
    simp only []
    rw [hfold]
    rfl
  · refine h.congr hdb hno ?_
    intro i _
    have := hag i
    simp only [] at this
    rw [this]
    split_ifs <;> exact ⟨rfl, rfl⟩
  · have hc := congrArg ImplicitEngine.noVars hframe
    exact hc
  · have hc := congrArg ImplicitEngine.vNew hframe
    exact hc
  · have hc := congrArg (fun x : ImplicitEngine K => { x with
      noVars := e.noVars, vNew := e.vNew }) hframe
    exact hc

/-- The loop of `finalizeProblem`, run over the agents below `n`. -/
theorem finalize_loop (e : ImplicitEngine K) : ∀ n,
    (∀ j, ((List.range n).foldl
      (fun (e : ImplicitEngine K) i =>
        if (e.agents i).enabled then
          let a := e.agents i
          let v : Vector2D K :=
            ⟨e.vNew a.activeid.toNat, e.vNew (a.activeid + (e.activeAgents : Int)).toNat⟩
          { e with agents := Function.update e.agents i { a with velocity := v } }
        else e) e).agents j =
      if j < n ∧ (e.agents j).enabled = true then
        { e.agents j with velocity :=
          ⟨e.vNew (e.agents j).activeid.toNat,
           e.vNew ((e.agents j).activeid + (e.activeAgents : Int)).toNat⟩ }
      else e.agents j) ∧
    { (List.range n).foldl
      (fun (e : ImplicitEngine K) i =>
        if (e.agents i).enabled then
          let a := e.agents i
          let v : Vector2D K :=
            ⟨e.vNew a.activeid.toNat, e.vNew (a.activeid + (e.activeAgents : Int)).toNat⟩
          { e with agents := Function.update e.agents i { a with velocity := v } }
        else e) e with agents := e.agents } = e
  | 0 => ⟨fun j => by simp, rfl⟩
  | n + 1 => by
    obtain ⟨hag, hframe⟩ := finalize_loop e n
    rw [List.range_succ, List.foldl_append, List.foldl_cons, List.foldl_nil]
    generalize (List.range n).foldl _ e = e1 at hag hframe
    have hv : e1.vNew = e.vNew := by
      have hc := congrArg ImplicitEngine.vNew hframe
      exact hc
    have hA : e1.activeAgents = e.activeAgents := by
      have hc := congrArg ImplicitEngine.activeAgents hframe
      exact hc
    have han : e1.agents n = e.agents n := by
      rw [hag n, if_neg (fun hh => Nat.lt_irrefl n hh.1)]
    refine ⟨fun j => ?_, ?_⟩
    · simp only []
      rw [han, hv, hA]
      by_cases hen : (e.agents n).enabled = true
      · rw [if_pos hen]
        by_cases hjn : j = n
        · subst hjn
          simp only [Function.update_same]
          rw [if_pos ⟨Nat.lt_succ_self _, hen⟩]
        · simp only [Function.update_noteq hjn]
          rw [hag j]
          by_cases hc : j < n ∧ (e.agents j).enabled = true
          · rw [if_pos hc, if_pos ⟨Nat.lt_succ_of_lt hc.1, hc.2⟩]
          · rw [if_neg hc, if_neg (fun hh => hc ⟨by omega, hh.2⟩)]
      · rw [if_neg hen, hag j]
        by_cases hjn : j = n
        · subst hjn
          rw [if_neg (fun hh => Nat.lt_irrefl j hh.1), if_neg (fun hh => hen hh.2)]
        · by_cases hc : j < n ∧ (e.agents j).enabled = true
          · rw [if_pos hc, if_pos ⟨Nat.lt_succ_of_lt hc.1, hc.2⟩]
          · rw [if_neg hc, if_neg (fun hh => hc ⟨by omega, hh.2⟩)]
    · simp only []
      by_cases hen : (e1.agents n).enabled = true
      · rw [if_pos hen]
        exact hframe
      · rw [if_neg hen]
        exact hframe

/-- Source function `finalizeProblem`: every enabled agent gets the velocity stored in
`_vNew` under its active id; nothing else changes. -/
theorem finalizeProblem_spec (e : ImplicitEngine K) :
    (∀ j, e.finalizeProblem.agents j =
      if j < e.noAgents ∧ (e.agents j).enabled = true then
        { e.agents j with velocity :=
          ⟨e.vNew (e.agents j).activeid.toNat,
           e.vNew ((e.agents j).activeid + (e.activeAgents : Int)).toNat⟩ }
      else e.agents j) ∧
    { e.finalizeProblem with agents := e.agents } = e :=
  finalize_loop e e.noAgents

/-- Source function `update` on an enabled agent of an engine satisfying the invariant
returns and keeps the invariant. -/
theorem EngineOK.updateAgent {L : BinRef → List Nat} {e : ImplicitEngine K} (h : EngineOK L e)
    (fn : MathFns K) (i : Nat) (hi : i < e.noAgents) (hen : (e.agents i).enabled = true) :
    ∃ r L', ImplicitAgent.update fn.sqrt e.spatialDatabase (e.agents i) e.dt = some r ∧
      EngineOK L' { e with spatialDatabase := r.1, agents := Function.update e.agents i r.2 } ∧
      r.2.enabled = true ∧
      { r.2 with position := (e.agents i).position, orientation := (e.agents i).orientation,
                 path := (e.agents i).path, orientations := (e.agents i).orientations } =
        e.agents i := by
  obtain ⟨t, ht, htn, hto⟩ := h.token i hi hen
  obtain ⟨L', hup, hmem⟩ : ∃ L', Repr L' (lqUpdateForNewLocation e.spatialDatabase t
        ((e.agents i).position.x + (e.agents i).velocity.x * e.dt)
        ((e.agents i).position.y + (e.agents i).velocity.y * e.dt)) ∧
      ∀ b p, p ∈ L' b → p = t ∨ p ∈ L b :=
    ⟨_, h.repr.update htn _ _, fun b p hp => mem_lists_after_update b p hp⟩
  obtain ⟨r, hu, hr1, hrtok, hren, hrfr⟩ : ∃ r : LQMem K × ImplicitAgent K,
      ImplicitAgent.update fn.sqrt e.spatialDatabase (e.agents i) e.dt = some r ∧
      r.1 = lqUpdateForNewLocation e.spatialDatabase t
        ((e.agents i).position.x + (e.agents i).velocity.x * e.dt)
        ((e.agents i).position.y + (e.agents i).velocity.y * e.dt) ∧
      r.2.proximityToken = some t ∧ r.2.enabled = true ∧
      { r.2 with position := (e.agents i).position, orientation := (e.agents i).orientation,
                 path := (e.agents i).path, orientations := (e.agents i).orientations } =
        e.agents i :=
    ⟨_, update_of_token fn.sqrt e.spatialDatabase (e.agents i) e.dt t ht, rfl, ht, hen, rfl⟩
  refine ⟨r, L', hu, ⟨?_, ?_, ?_, ?_, ?_⟩, hren, hrfr⟩
  · show Repr L' r.1
    rw [hr1]; exact hup
  · show r.1.nproxy = e.noAgents
    rw [hr1, update_nproxy]; exact h.count
  · intro j hj hje
    show ∃ t', ((Function.update e.agents i r.2) j).proximityToken = some t' ∧
      t' < r.1.nproxy ∧ (r.1.proxy t').object = j
    rw [hr1, update_nproxy]
    by_cases hji : j = i
    · subst hji
      refine ⟨t, ?_, htn, ?_⟩
      · rw [Function.update_same]; exact hrtok
      · rw [update_object]; exact hto
    · have heq : (Function.update e.agents i r.2) j = e.agents j := Function.update_noteq hji _ _
      have hje' : (e.agents j).enabled = true := by rw [← heq]; exact hje
      obtain ⟨t', h1, h2, h3⟩ := h.token j hj hje'
      refine ⟨t', ?_, h2, ?_⟩
      · rw [heq]; exact h1
      · rw [update_object]; exact h3
  · intro j hj hje
    have hje0 : ((Function.update e.agents i r.2) j).enabled = false := hje
    show ((Function.update e.agents i r.2) j).proximityToken = none
    by_cases hji : j = i
    · subst hji
      rw [Function.update_same, hren] at hje0
      exact Bool.noConfusion hje0
    · have heq : (Function.update e.agents i r.2) j = e.agents j := Function.update_noteq hji _ _
      rw [heq] at hje0 ⊢
      exact h.released j hj hje0
  · intro b p hp
    show (r.1.proxy p).object < e.noAgents ∧
      ((Function.update e.agents i r.2) (r.1.proxy p).object).proximityToken = some p
    rw [hr1, update_object]
    have key : (e.spatialDatabase.proxy p).object < e.noAgents ∧
        (e.agents (e.spatialDatabase.proxy p).object).proximityToken = some p := by
      rcases hmem b p hp with rfl | hp'
      · rw [hto]; exact ⟨hi, ht⟩
      · exact h.owner b p hp'
    refine ⟨key.1, ?_⟩
    by_cases ho : (e.spatialDatabase.proxy p).object = i
    · rw [ho, Function.update_same]
      have := key.2
      rw [ho, ht] at this
      rw [hrtok]; exact this
    · rw [Function.update_noteq ho]
      exact key.2

/-- The last loop of `updateSimulation`, run over the agents below `n`: it
returns and keeps the invariant; an enabled agent below `n` is the one its own
`update` leaves, the other agents and the fields other than the index are
unchanged. -/
theorem update_loop (fn : MathFns K) {L : BinRef → List Nat} {e : ImplicitEngine K}
    (h : EngineOK L e) : ∀ n, n ≤ e.noAgents →
    ∃ e' L', (List.range n).foldlM
        (fun (e : ImplicitEngine K) i =>
          if (e.agents i).enabled then
            (ImplicitAgent.update fn.sqrt e.spatialDatabase (e.agents i) e.dt).map
              (fun r => { e with spatialDatabase := r.1, agents := Function.update e.agents i r.2 })
          else some e) e = some e' ∧
      EngineOK L' e' ∧
      (∀ j, j < n → (e.agents j).enabled = true →
        ∃ m m', ImplicitAgent.update fn.sqrt m (e.agents j) e.dt = some (m', e'.agents j)) ∧
      (∀ j, ¬ (j < n ∧ (e.agents j).enabled = true) → e'.agents j = e.agents j) ∧
      (∀ j, { e'.agents j with
          position := (e.agents j).position, orientation := (e.agents j).orientation,
          path := (e.agents j).path, orientations := (e.agents j).orientations } = e.agents j) ∧
      { e' with spatialDatabase := e.spatialDatabase, agents := e.agents } = e
  | 0, _ => ⟨e, L, rfl, h, fun j hj => absurd hj (Nat.not_lt_zero j), fun j _ => rfl,
      fun j => rfl, rfl⟩
  | n + 1, hn => by
    obtain ⟨e1, L1, hfold, h1, hen1, hdis1, hfr1, hframe⟩ :=
      update_loop fn h n (Nat.le_of_succ_le hn)
    have hno : e1.noAgents = e.noAgents := by
      have hc := congrArg ImplicitEngine.noAgents hframe
      exact hc
    have hdt : e1.dt = e.dt := by
      have hc := congrArg ImplicitEngine.dt hframe
      exact hc
    have han : e1.agents n = e.agents n := hdis1 n (fun hh => Nat.lt_irrefl n hh.1)
    rw [List.range_succ, List.foldlM_append, hfold]
    simp only [Option.bind_eq_bind, Option.some_bind, List.foldlM_cons, List.foldlM_nil]
    by_cases hen : (e.agents n).enabled = true
    · have hen' : (e1.agents n).enabled = true := by rw [han]; exact hen
      obtain ⟨r, L2, hu, h2, _, hrfr⟩ := h1.updateAgent fn n (by rw [hno]; exact hn) hen'
      rw [if_pos hen', hu]
      refine ⟨_, L2, rfl, h2, ?_, ?_, ?_, hframe⟩
      · intro j hj hje
        show ∃ m m', _ = some (m', (Function.update e1.agents n r.2) j)
        by_cases hjn : j = n
        · subst hjn
          rw [Function.update_same]
          rw [han, hdt] at hu
          exact ⟨_, r.1, hu⟩
        · rw [Function.update_noteq hjn]
          exact hen1 j (by omega) hje
      · intro j hj
        show (Function.update e1.agents n r.2) j = e.agents j
        have hjn : j ≠ n := fun hh => hj ⟨by omega, by rw [hh]; exact hen⟩
        rw [Function.update_noteq hjn]
        exact hdis1 j (fun hh => hj ⟨by omega, hh.2⟩)
      · intro j
        show ({ (Function.update e1.agents n r.2) j with
          position := (e.agents j).position, orientation := (e.agents j).orientation,
          path := (e.agents j).path, orientations := (e.agents j).orientations } :
            ImplicitAgent K) = e.agents j
        by_cases hjn : j = n
        · subst hjn
          rw [Function.update_same]
          rw [han] at hrfr
          exact hrfr
        · rw [Function.update_noteq hjn]
          exact hfr1 j
    · have hen' : ¬ (e1.agents n).enabled = true := by rw [han]; exact hen
      rw [if_neg hen']
      refine ⟨e1, L1, rfl, h1, ?_, ?_, hfr1, hframe⟩
      · intro j hj hje
        have hjn : j ≠ n := fun hh => hen (by rw [← hh]; exact hje)
        exact hen1 j (by omega) hje
      · intro j hj
        by_cases hjn : j = n
        · rw [hjn]; exact han
        · exact hdis1 j (fun hh => hj ⟨by omega, hh.2⟩)

/-- The last loop of `updateSimulation` on an engine satisfying the
invariant. -/
theorem updateAll_spec (fn : MathFns K) {L : BinRef → List Nat} {e : ImplicitEngine K}
    (h : EngineOK L e) :
    ∃ e' L', e.updateAll fn = some e' ∧ EngineOK L' e' ∧
      (∀ j, j < e.noAgents → (e.agents j).enabled = true →
        ∃ m m', ImplicitAgent.update fn.sqrt m (e.agents j) e.dt = some (m', e'.agents j)) ∧
      (∀ j, ¬ (j < e.noAgents ∧ (e.agents j).enabled = true) → e'.agents j = e.agents j) ∧
      (∀ j, { e'.agents j with
          position := (e.agents j).position, orientation := (e.agents j).orientation,
          path := (e.agents j).path, orientations := (e.agents j).orientations } = e.agents j) ∧
      { e' with spatialDatabase := e.spatialDatabase, agents := e.agents } = e :=
  update_loop fn h e.noAgents (le_refl _)

/-- The steps of `updateSimulation` after the first loop, when some agent is
still enabled. -/
theorem updateSimulation_of_active (fn : MathFns K) (solver : ImplicitEngine K → Nat → K)
    (fuel : Nat) (e : ImplicitEngine K) (h : (e.doStepAll fn).reachedGoals = false)
    (e2 e5 : ImplicitEngine K) (h2 : (e.doStepAll fn).initializeProblem fuel = some e2)
    (h5 : ({ e2 with vNew := solver e2 } : ImplicitEngine K).finalizeProblem.updateAll fn =
      some e5) :
    e.updateSimulation fn solver fuel =
      some { e5 with globalTime := e5.globalTime + e5.dt, iteration := e5.iteration + 1 } := by
  unfold ImplicitEngine.updateSimulation
  simp only [h, Bool.false_eq_true, if_false, h2, Option.some_bind, h5, Option.map_some']

/-- The result of `updateSimulation` when no agent is enabled after the first
loop. -/
theorem updateSimulation_of_converged (fn : MathFns K) (solver : ImplicitEngine K → Nat → K)
    (fuel : Nat) (e : ImplicitEngine K) (h : (e.doStepAll fn).reachedGoals = true) :
    e.updateSimulation fn solver fuel = some (e.doStepAll fn) := by
  unfold ImplicitEngine.updateSimulation
  simp only [h, if_true]

/-- Source function `updateSimulation` on an engine satisfying the invariant, with fuel
above the number of agents: it returns, keeps the invariant and the number of
agents, and leaves every disabled agent disabled, without a token, with its
position, velocity, path and orientations unchanged. -/
theorem updateSimulation_spec (fn : MathFns K) (solver : ImplicitEngine K → Nat → K)
    (fuel : Nat) {L : BinRef → List Nat} {e : ImplicitEngine K} (h : EngineOK L e)
    (hf : e.noAgents < fuel) :
    ∃ e' L', e.updateSimulation fn solver fuel = some e' ∧ EngineOK L' e' ∧
      e'.noAgents = e.noAgents ∧
      (∀ j, j < e.noAgents → (e.agents j).enabled = false →
        (e'.agents j).enabled = false ∧ (e'.agents j).proximityToken = none ∧
        (e'.agents j).path = (e.agents j).path ∧
        (e'.agents j).orientations = (e.agents j).orientations ∧
        (e'.agents j).position = (e.agents j).position ∧
        (e'.agents j).velocity = (e.agents j).velocity) ∧
      (∀ j, j < e.noAgents → 0 ≤ (e.agents j).activeid → 0 ≤ (e'.agents j).activeid) := by
  obtain ⟨⟨L1, h1⟩, hag1, _, _, hfr1⟩ := doStepAll_spec fn h
  have hno1 : (e.doStepAll fn).noAgents = e.noAgents := by
    have hc := congrArg ImplicitEngine.noAgents hfr1
    exact hc
  -- a disabled agent after the first loop
  have hdis1 : ∀ j, j < e.noAgents → (e.agents j).enabled = false →
      ((e.doStepAll fn).agents j).enabled = false ∧
      ((e.doStepAll fn).agents j).proximityToken = none ∧
      ((e.doStepAll fn).agents j).path = (e.agents j).path ∧
      ((e.doStepAll fn).agents j).orientations = (e.agents j).orientations ∧
      ((e.doStepAll fn).agents j).position = (e.agents j).position ∧
      ((e.doStepAll fn).agents j).velocity = (e.agents j).velocity := by
    intro j hj hje
    rw [hag1 j, if_pos hj]
    have hfr := doStep_frame fn.sqrt e.spatialDatabase (e.agents j) e.dt
    refine ⟨doStep_disabled _ _ _ _ hje, ?_, hfr.2.2.1, hfr.2.2.2.1, hfr.1, hfr.2.1⟩
    have htok := h.released j hj hje
    by_cases hr : ((e.agents j).goal.sub (e.agents j).position).squaredNorm <
        (e.agents j).goalRadiusSq
    · exact ((doStep_enabled_token fn.sqrt e.spatialDatabase (e.agents j) e.dt).1 hr).2
    · rw [((doStep_enabled_token fn.sqrt e.spatialDatabase (e.agents j) e.dt).2 hr).2]
      exact htok
  have hid1 : ∀ j, j < e.noAgents →
      ((e.doStepAll fn).agents j).activeid = (e.agents j).activeid := by
    intro j hj
    rw [hag1 j, if_pos hj]
    exact (doStep_frame fn.sqrt e.spatialDatabase (e.agents j) e.dt).2.2.2.2.2.2.2.2.2.2
  cases hr : (e.doStepAll fn).reachedGoals with
  | true =>
    exact ⟨_, L1, updateSimulation_of_converged fn solver fuel e hr, h1, hno1, hdis1,
      fun j hj h0 => by rw [hid1 j hj]; exact h0⟩
  | false =>
    have hf1 : (e.doStepAll fn).spatialDatabase.nproxy < fuel := by
      rw [h1.count, hno1]; exact hf
    obtain ⟨e2, hinit, h2, hag2, _, _, _, hfr2⟩ := initializeProblem_spec fuel h1 hf1
    have hno2 : e2.noAgents = e.noAgents := by
      have hc := congrArg ImplicitEngine.noAgents hfr2
      rw [← hno1]; exact hc
    have h3 : EngineOK L1 ({ e2 with vNew := solver e2 } : ImplicitEngine K) :=
      h2.congr rfl rfl (fun _ _ => ⟨rfl, rfl⟩)
    obtain ⟨hag4, hfr4⟩ := finalizeProblem_spec ({ e2 with vNew := solver e2 } : ImplicitEngine K)
    have hno4 : ({ e2 with vNew := solver e2 } : ImplicitEngine K).finalizeProblem.noAgents =
        e.noAgents := by
      have hc := congrArg ImplicitEngine.noAgents hfr4
      rw [← hno2]; exact hc
    have h4 : EngineOK L1 ({ e2 with vNew := solver e2 } : ImplicitEngine K).finalizeProblem := by
      refine h3.congr ?_ ?_ ?_
      · have hc := congrArg ImplicitEngine.spatialDatabase hfr4
        exact hc
      · have hc := congrArg ImplicitEngine.noAgents hfr4
        exact hc
      · intro i _
        rw [hag4 i]
        split_ifs <;> exact ⟨rfl, rfl⟩
    obtain ⟨e5, L5, hupd, h5, _, hdis5, hfa5, hfr5⟩ := updateAll_spec fn h4
    have hno5 : e5.noAgents = e.noAgents := by
      have hc := congrArg ImplicitEngine.noAgents hfr5
      rw [← hno4]; exact hc
    refine ⟨_, L5, updateSimulation_of_active fn solver fuel e hr e2 e5 hinit hupd,
      h5.congr rfl rfl (fun _ _ => ⟨rfl, rfl⟩), hno5, ?_, ?_⟩
    rotate_left
    · intro j hj h0
      have h5id : (e5.agents j).activeid =
          (({ e2 with vNew := solver e2 } : ImplicitEngine K).finalizeProblem.agents j).activeid := by
        have hc := congrArg ImplicitAgent.activeid (hfa5 j)
        exact hc
      have h4id : (({ e2 with vNew := solver e2 } : ImplicitEngine K).finalizeProblem.agents
          j).activeid = (e2.agents j).activeid := by
        rw [hag4 j]
        split_ifs <;> rfl
      show 0 ≤ (e5.agents j).activeid
      rw [h5id, h4id, hag2 j]
      split_ifs
      · exact Int.natCast_nonneg _
      · rw [hid1 j hj]; exact h0
    intro j hj hje
    have hd1 := hdis1 j hj hje
    have e2j : e2.agents j = (e.doStepAll fn).agents j := by
      rw [hag2 j, if_neg (fun hh => by rw [hd1.1] at hh; exact Bool.noConfusion hh.2)]
    have e4j : ({ e2 with vNew := solver e2 } : ImplicitEngine K).finalizeProblem.agents j =
        e2.agents j := by
      rw [hag4 j, if_neg (fun hh => by
        have h' : (e2.agents j).enabled = true := hh.2
        rw [e2j, hd1.1] at h'
        exact Bool.noConfusion h')]
    have e5j : e5.agents j =
        ({ e2 with vNew := solver e2 } : ImplicitEngine K).finalizeProblem.agents j := by
      apply hdis5 j
      intro hh
      have h' := hh.2
      rw [e4j, e2j, hd1.1] at h'
      exact Bool.noConfusion h'
    show (e5.agents j).enabled = false ∧ (e5.agents j).proximityToken = none ∧
      (e5.agents j).path = (e.agents j).path ∧
      (e5.agents j).orientations = (e.agents j).orientations ∧
      (e5.agents j).position = (e.agents j).position ∧
      (e5.agents j).velocity = (e.agents j).velocity
    rw [e5j, e4j, e2j]
    exact hd1

/-- One call on the engine, given fuel above the number of agents: it returns,
keeps the invariant, adds an agent only for `addAgent`, leaves every disabled
agent disabled, without a token, with its position, velocity, path and
orientations unchanged, and keeps the active ids non-negative. -/
theorem EngineOK.after_call (fn : MathFns K) (solver : ImplicitEngine K → Nat → K) (fuel : Nat)
    {L : BinRef → List Nat} {e : ImplicitEngine K} (h : EngineOK L e) (op : EngineOp K)
    (hf : e.noAgents < fuel) (hid : ∀ j, j < e.noAgents → 0 ≤ (e.agents j).activeid) :
    ∃ e' L', EngineOp.apply fn solver fuel e op = some e' ∧ EngineOK L' e' ∧
      e'.noAgents = e.noAgents + addAgentCalls [op] ∧
      (∀ j, j < e.noAgents → (e.agents j).enabled = false →
        (e'.agents j).enabled = false ∧ (e'.agents j).proximityToken = none ∧
        (e'.agents j).path = (e.agents j).path ∧
        (e'.agents j).orientations = (e.agents j).orientations ∧
        (e'.agents j).position = (e.agents j).position ∧
        (e'.agents j).velocity = (e.agents j).velocity) ∧
      (∀ j, j < e'.noAgents → 0 ≤ (e'.agents j).activeid) := by
  have hsame : ∀ j, j < e.noAgents → (e.agents j).enabled = false →
      (e.agents j).enabled = false ∧ (e.agents j).proximityToken = none ∧
      (e.agents j).path = (e.agents j).path ∧
      (e.agents j).orientations = (e.agents j).orientations ∧
      (e.agents j).position = (e.agents j).position ∧
      (e.agents j).velocity = (e.agents j).velocity :=
    fun j hj hje => ⟨hje, h.released j hj hje, rfl, rfl, rfl, rfl⟩
  cases op with
  | setTimeStep dt =>
    exact ⟨_, L, rfl, h.congr rfl rfl (fun _ _ => ⟨rfl, rfl⟩), rfl, hsame, hid⟩
  | setMaxSteps steps =>
    exact ⟨_, L, rfl, h.congr rfl rfl (fun _ _ => ⟨rfl, rfl⟩), rfl, hsame, hid⟩
  | readParameters found =>
    exact ⟨_, L, rfl, h.congr rfl rfl (fun _ _ => ⟨rfl, rfl⟩), rfl, hsame, hid⟩
  | addAgent c =>
    obtain ⟨L', h'⟩ := h.addAgent fn c
    have hold : ∀ j, j < e.noAgents → (e.addAgent fn c).agents j = e.agents j := by
      intro j hj
      exact Function.update_noteq (Nat.ne_of_lt hj) _ _
    refine ⟨_, L', rfl, h', rfl, ?_, ?_⟩
    · intro j hj hje
      show ((e.addAgent fn c).agents j).enabled = false ∧ _
      rw [hold j hj]
      exact hsame j hj hje
    · intro j hj
      have hj' : j < e.noAgents + 1 := hj
      show 0 ≤ ((e.addAgent fn c).agents j).activeid
      by_cases hjn : j = e.noAgents
      · subst hjn
        have : ((e.addAgent fn c).agents e.noAgents).activeid = (e.noAgents : Int) := by
          show ((Function.update e.agents e.noAgents _) e.noAgents).activeid = _
          rw [Function.update_same]
          rfl
        rw [this]
        exact Int.natCast_nonneg _
      · rw [hold j (by omega)]
        exact hid j (by omega)
  | updateSimulation =>
    obtain ⟨e', L', hs, hok, hno, hfrozen, hnonneg⟩ := updateSimulation_spec fn solver fuel h hf
    refine ⟨e', L', hs, hok, by rw [hno]; rfl, hfrozen, ?_⟩
    intro j hj
    rw [hno] at hj
    exact hnonneg j hj (hid j hj)

/-- A sequence of calls on the engine, given fuel above the final number of
agents: it returns, keeps the invariant, adds one agent per `addAgent`,
leaves every agent that is disabled at the start disabled, without a token,
with its position, velocity, path and orientations unchanged, and keeps the
active ids non-negative. -/
theorem EngineOK.after_calls (fn : MathFns K) (solver : ImplicitEngine K → Nat → K) (fuel : Nat) :
    ∀ (ops : List (EngineOp K)) {L : BinRef → List Nat} {e : ImplicitEngine K},
    EngineOK L e → e.noAgents + addAgentCalls ops < fuel →
    (∀ j, j < e.noAgents → 0 ≤ (e.agents j).activeid) →
    ∃ e' L', ops.foldlM (EngineOp.apply fn solver fuel) e = some e' ∧ EngineOK L' e' ∧
      e'.noAgents = e.noAgents + addAgentCalls ops ∧
      (∀ j, j < e.noAgents → (e.agents j).enabled = false →
        (e'.agents j).enabled = false ∧ (e'.agents j).proximityToken = none ∧
        (e'.agents j).path = (e.agents j).path ∧
        (e'.agents j).orientations = (e.agents j).orientations ∧
        (e'.agents j).position = (e.agents j).position ∧
        (e'.agents j).velocity = (e.agents j).velocity) ∧
      (∀ j, j < e'.noAgents → 0 ≤ (e'.agents j).activeid)
  | [], L, e, h, _, hid =>
    ⟨e, L, rfl, h, rfl, fun j hj hje => ⟨hje, h.released j hj hje, rfl, rfl, rfl, rfl⟩, hid⟩
  | op :: ops, L, e, h, hf, hid => by
    have hcalls : addAgentCalls (op :: ops) = addAgentCalls [op] + addAgentCalls ops := by
      cases op <;> simp [addAgentCalls]
      omega
    rw [hcalls] at hf
    obtain ⟨e1, L1, h1, hok1, hno1, hfr1, hid1⟩ := h.after_call fn solver fuel op (by omega) hid
    obtain ⟨e2, L2, h2, hok2, hno2, hfr2, hid2⟩ :=
      EngineOK.after_calls fn solver fuel ops hok1 (by rw [hno1]; omega) hid1
    refine ⟨e2, L2, ?_, hok2, by rw [hno2, hno1, hcalls]; omega, ?_, hid2⟩
    · rw [List.foldlM_cons, h1]
      exact h2
    · intro j hj hje
      have a1 := hfr1 j hj hje
      have a2 := hfr2 j (by rw [hno1]; omega) a1.1
      exact ⟨a2.1, a2.2.1, a2.2.2.1.trans a1.2.2.1, a2.2.2.2.1.trans a1.2.2.2.1,
        a2.2.2.2.2.1.trans a1.2.2.2.2.1, a2.2.2.2.2.2.trans a1.2.2.2.2.2⟩

end engineInv


/-! ## Disabled agents -/

section disabled

variable [LinearOrderedField K] [FloorRing K]

/-- The `addAgent` calls of a concatenation. -/
theorem addAgentCalls_append : ∀ (ops ops' : List (EngineOp K)),
    addAgentCalls (ops ++ ops') = addAgentCalls ops + addAgentCalls ops'
  | [], ops' => by simp [addAgentCalls]
  | op :: ops, ops' => by
    have := addAgentCalls_append ops ops'
    cases op <;> simp [addAgentCalls, this]
    omega

/-- Every engine reached from `init`, given fuel above the number of agents
added, satisfies the invariant and has non-negative active ids. -/
theorem engineAfter_ok (fn : MathFns K) (solver : ImplicitEngine K → Nat → K) (fuel : Nat)
    (raw : ImplicitEngine K) (xRange yRange : K) (xCells yCells : Int)
    (ops : List (EngineOp K)) (hf : addAgentCalls ops < fuel) :
    ∃ e L, engineAfter fn solver fuel raw xRange yRange xCells yCells ops = some e ∧
      EngineOK L e ∧ e.noAgents = addAgentCalls ops ∧
      ∀ j, j < e.noAgents → 0 ≤ (e.agents j).activeid := by
  have h0 := EngineOK.init raw xRange yRange xCells yCells
  have hn0 : (ImplicitEngine.init raw xRange yRange xCells yCells).noAgents = 0 := rfl
  obtain ⟨e, L, h1, h2, h3, _, h5⟩ := EngineOK.after_calls fn solver fuel ops h0
    (by rw [hn0, Nat.zero_add]; exact hf) (fun j hj => absurd hj (by rw [hn0]; exact Nat.not_lt_zero j))
  exact ⟨e, L, h1, h2, by rw [h3, hn0, Nat.zero_add], h5⟩

/-- C11: in every engine reached from `init` (fuel above the number of agents
added): when `doStep` finds `|goal - position|^2 < goalRadiusSq` for an agent,
the agent's token is unlinked from the index (it is on no bin list
afterwards) and released, `enabled` becomes false, and position, velocity,
path and orientations are unchanged; a disabled agent owns no token; and
after any further calls on the engine it is still disabled, owns no token,
and its path, orientations, position and velocity are what they were. -/
theorem disabled_agent_is_frozen (fn : MathFns K) (solver : ImplicitEngine K → Nat → K)
    (fuel : Nat) (raw : ImplicitEngine K) (xRange yRange : K) (xCells yCells : Int)
    (ops ops' : List (EngineOp K)) (hf : addAgentCalls (ops ++ ops') < fuel) :
    ∃ e e', engineAfter fn solver fuel raw xRange yRange xCells yCells ops = some e ∧
      engineAfter fn solver fuel raw xRange yRange xCells yCells (ops ++ ops') = some e' ∧
      (∀ i, i < e.noAgents →
        ((e.agents i).goal.sub (e.agents i).position).squaredNorm < (e.agents i).goalRadiusSq →
        (ImplicitAgent.doStep fn.sqrt e.spatialDatabase (e.agents i) e.dt).2.enabled = false ∧
        (ImplicitAgent.doStep fn.sqrt e.spatialDatabase (e.agents i) e.dt).2.proximityToken =
          none ∧
        (ImplicitAgent.doStep fn.sqrt e.spatialDatabase (e.agents i) e.dt).2.position =
          (e.agents i).position ∧
        (ImplicitAgent.doStep fn.sqrt e.spatialDatabase (e.agents i) e.dt).2.velocity =
          (e.agents i).velocity ∧
        (ImplicitAgent.doStep fn.sqrt e.spatialDatabase (e.agents i) e.dt).2.path =
          (e.agents i).path ∧
        (ImplicitAgent.doStep fn.sqrt e.spatialDatabase (e.agents i) e.dt).2.orientations =
          (e.agents i).orientations ∧
        ∀ t, (e.agents i).proximityToken = some t →
          (ImplicitAgent.doStep fn.sqrt e.spatialDatabase (e.agents i) e.dt).1 =
            lqRemoveFromBin e.spatialDatabase t ∧
          ∃ L', Repr L' (ImplicitAgent.doStep fn.sqrt e.spatialDatabase (e.agents i) e.dt).1 ∧
            ∀ b, t ∉ L' b) ∧
      (∀ i, i < e.noAgents → (e.agents i).enabled = false →
        (e.agents i).proximityToken = none ∧
        (e'.agents i).enabled = false ∧ (e'.agents i).proximityToken = none ∧
        (e'.agents i).path = (e.agents i).path ∧
        (e'.agents i).orientations = (e.agents i).orientations ∧
        (e'.agents i).position = (e.agents i).position ∧
        (e'.agents i).velocity = (e.agents i).velocity) := by
  rw [addAgentCalls_append] at hf
  obtain ⟨e, L, he, hok, hno, hid⟩ := engineAfter_ok fn solver fuel raw xRange yRange xCells yCells
    ops (by omega)
  obtain ⟨e', L', he', _, _, hfr, _⟩ := EngineOK.after_calls fn solver fuel ops' hok (by rw [hno]; exact hf)
    hid
  refine ⟨e, e', he, ?_, ?_, ?_⟩
  · unfold engineAfter at he ⊢
    rw [List.foldlM_append, he]
    exact he'
  · intro i hi hr
    have hfr := doStep_frame fn.sqrt e.spatialDatabase (e.agents i) e.dt
    have hen := (doStep_enabled_token fn.sqrt e.spatialDatabase (e.agents i) e.dt).1 hr
    refine ⟨hen.1, hen.2, hfr.1, hfr.2.1, hfr.2.2.1, hfr.2.2.2.1, ?_⟩
    intro t ht
    have hm : (ImplicitAgent.doStep fn.sqrt e.spatialDatabase (e.agents i) e.dt).1 =
        lqRemoveFromBin e.spatialDatabase t := by
      rw [doStep_reached_eq fn.sqrt e.spatialDatabase (e.agents i) e.dt hr, ht]
    have htn : t < e.spatialDatabase.nproxy := by
      cases hie : (e.agents i).enabled with
      | true =>
        obtain ⟨t', ht', htn', _⟩ := hok.token i hi hie
        rw [ht] at ht'
        rw [Option.some.inj ht']; exact htn'
      | false =>
        have := hok.released i hi hie
        rw [ht] at this
        exact Option.noConfusion this
    refine ⟨hm, fun b => (L b).erase t, ?_, ?_⟩
    · rw [hm]; exact hok.repr.after_remove htn
    · intro b hb
      exact ((List.Nodup.mem_erase_iff (hok.repr.nodup b)).1 hb).1 rfl
  · intro i hi hie
    exact ⟨hok.released i hi hie, hfr i hi hie⟩

/-- C11, instance: an agent starting within its goal radius is added to an
engine for the region `[-5, 5]²` with `dt = 1/5`; the first `updateSimulation`
disables it, and after a second one it is still disabled, with the same
path. -/
theorem disabled_agent_is_frozen_witness :
    addAgentCalls ([EngineOp.addAgent nearGoalParameters, EngineOp.setTimeStep (1 / 5),
      EngineOp.updateSimulation] ++ [EngineOp.updateSimulation] : List (EngineOp ℝ)) < 2 ∧
    ∃ e e', engineAfter ⟨Real.sqrt, Real.exp, fun a b => a ^ b⟩ (fun _ _ => 0) 2 rawEngine
        10 10 10 10 [EngineOp.addAgent nearGoalParameters, EngineOp.setTimeStep (1 / 5),
          EngineOp.updateSimulation] = some e ∧
      engineAfter ⟨Real.sqrt, Real.exp, fun a b => a ^ b⟩ (fun _ _ => 0) 2 rawEngine
        10 10 10 10 ([EngineOp.addAgent nearGoalParameters, EngineOp.setTimeStep (1 / 5),
          EngineOp.updateSimulation] ++ [EngineOp.updateSimulation]) = some e' ∧
      e.noAgents = 1 ∧ (e.agents 0).enabled = false ∧ (e.agents 0).proximityToken = none ∧
      (e'.agents 0).enabled = false ∧ (e'.agents 0).path = (e.agents 0).path := by
  have h : addAgentCalls ([EngineOp.addAgent nearGoalParameters, EngineOp.setTimeStep (1 / 5),
      EngineOp.updateSimulation] ++ [EngineOp.updateSimulation] : List (EngineOp ℝ)) < 2 := by
    simp [addAgentCalls]
  obtain ⟨e, e', h1, h2, _, h4⟩ := disabled_agent_is_frozen
    ⟨Real.sqrt, Real.exp, fun a b => a ^ b⟩ (fun _ _ => 0) 2 rawEngine 10 10 10 10
    [EngineOp.addAgent nearGoalParameters, EngineOp.setTimeStep (1 / 5),
      EngineOp.updateSimulation] [EngineOp.updateSimulation] h
  -- the engine before the first step
  obtain ⟨e0, L0, he0, hok0, hno0, _⟩ := engineAfter_ok ⟨Real.sqrt, Real.exp, fun a b => a ^ b⟩
    (fun _ _ => 0) 2 (rawEngine : ImplicitEngine ℝ) 10 10 10 10
    [EngineOp.addAgent nearGoalParameters, EngineOp.setTimeStep (1 / 5)]
    (by simp [addAgentCalls])
  have hno0' : e0.noAgents = 1 := by rw [hno0]; simp [addAgentCalls]
  have he0' : e0 = { (ImplicitEngine.init (rawEngine : ImplicitEngine ℝ) 10 10 10 10).addAgent
      ⟨Real.sqrt, Real.exp, fun a b => a ^ b⟩ nearGoalParameters with dt := 1 / 5 } := by
    have : engineAfter ⟨Real.sqrt, Real.exp, fun a b => a ^ b⟩ (fun _ _ => 0) 2
        (rawEngine : ImplicitEngine ℝ) 10 10 10 10
        [EngineOp.addAgent nearGoalParameters, EngineOp.setTimeStep (1 / 5)] =
        some { (ImplicitEngine.init (rawEngine : ImplicitEngine ℝ) 10 10 10 10).addAgent
          ⟨Real.sqrt, Real.exp, fun a b => a ^ b⟩ nearGoalParameters with dt := 1 / 5 } := rfl
    rw [this] at he0
    exact (Option.some.inj he0).symm
  have a0 : (e0.agents 0).goal = ⟨1 / 2, 0⟩ ∧ (e0.agents 0).position = ⟨0, 0⟩ ∧
      (e0.agents 0).goalRadiusSq = 1 * 1 := by
    rw [he0']
    exact ⟨rfl, rfl, rfl⟩
  have r0 : ((e0.agents 0).goal.sub (e0.agents 0).position).squaredNorm <
      (e0.agents 0).goalRadiusSq := by
    rw [a0.1, a0.2.1, a0.2.2]
    simp only [Vector2D.sub, Vector2D.squaredNorm]
    norm_num
  obtain ⟨_, hag1, _, hrg1, hfr1⟩ := doStepAll_spec ⟨Real.sqrt, Real.exp, fun a b => a ^ b⟩ hok0
  have hconv : (e0.doStepAll ⟨Real.sqrt, Real.exp, fun a b => a ^ b⟩).reachedGoals = true := by
    rw [hrg1, hno0']
    simp [List.range_succ, doStep_of_reached _ _ _ _ r0]
  have hstep := updateSimulation_of_converged ⟨Real.sqrt, Real.exp, fun a b => a ^ b⟩
    (fun _ _ => 0) 2 e0 hconv
  have he : e = e0.doStepAll ⟨Real.sqrt, Real.exp, fun a b => a ^ b⟩ := by
    have h1' := h1
    unfold engineAfter at h1' he0
    rw [show ([EngineOp.addAgent nearGoalParameters, EngineOp.setTimeStep (1 / 5),
        EngineOp.updateSimulation] : List (EngineOp ℝ)) =
        [EngineOp.addAgent nearGoalParameters, EngineOp.setTimeStep (1 / 5)] ++
          [EngineOp.updateSimulation] from rfl, List.foldlM_append, he0] at h1'
    have h1'' : e0.updateSimulation ⟨Real.sqrt, Real.exp, fun a b => a ^ b⟩ (fun _ _ => 0) 2 =
        some e := by
      simpa [EngineOp.apply] using h1'
    rw [hstep] at h1''
    exact (Option.some.inj h1'').symm
  have hno : e.noAgents = 1 := by
    rw [he, ← hno0']
    have hc := congrArg ImplicitEngine.noAgents hfr1
    exact hc
  have hen : (e.agents 0).enabled = false := by
    rw [he, hag1 0, if_pos (by rw [hno0']; norm_num)]
    exact doStep_of_reached _ _ _ _ r0
  have h40 := h4 0 (by rw [hno]; norm_num) hen
  exact ⟨h, e, e', h1, h2, hno, hen, h40.1, h40.2.1, h40.2.2.2.1⟩

end disabled


/-! ## Active ids after `initializeProblem` -/

section activeIds

variable [LinearOrderedField K] [FloorRing K]

/-- Every number below the rank of `n` is the rank of an enabled agent below
`n`. -/
theorem rank_surj (e : ImplicitEngine K) : ∀ n a, a < e.rank n →
    ∃ i, i < n ∧ (e.agents i).enabled = true ∧ e.rank i = a
  | 0, a, h => absurd h (Nat.not_lt_zero a)
  | n + 1, a, h => by
    rw [rank_succ] at h
    by_cases ha : a < e.rank n
    · obtain ⟨i, hi, hen, hr⟩ := rank_surj e n a ha
      exact ⟨i, Nat.lt_succ_of_lt hi, hen, hr⟩
    · by_cases hen : (e.agents n).enabled = true
      · rw [if_pos hen] at h
        exact ⟨n, Nat.lt_succ_self n, hen, by omega⟩
      · rw [if_neg hen] at h
        omega

/-- The first loop of `updateSimulation` followed by `initializeProblem`, on an
engine satisfying the invariant with non-negative active ids. -/
theorem pack_after_doStep (fn : MathFns K) (fuel : Nat) {L : BinRef → List Nat}
    {e : ImplicitEngine K} (h : EngineOK L e) (hf : e.noAgents < fuel) :
    ∃ e2, (e.doStepAll fn).initializeProblem fuel = some e2 ∧
      e2.noAgents = e.noAgents ∧
      e2.activeAgents = e2.rank e2.noAgents ∧
      (∀ i, (e2.agents i).enabled = ((e.doStepAll fn).agents i).enabled) ∧
      (∀ i, i < e2.noAgents → (e2.agents i).enabled = true →
        (e2.agents i).activeid = (e2.rank i : Int)) ∧
      (∀ i, i < e2.noAgents → (e2.agents i).enabled = false →
        e2.agents i = (e.doStepAll fn).agents i ∧
        (e2.agents i).activeid = (e.agents i).activeid) := by
  obtain ⟨⟨L1, h1⟩, hag1, hact1, _, hfr1⟩ := doStepAll_spec fn h
  have hno1 : (e.doStepAll fn).noAgents = e.noAgents := by
    have hc := congrArg ImplicitEngine.noAgents hfr1
    exact hc
  have hf1 : (e.doStepAll fn).spatialDatabase.nproxy < fuel := by
    rw [h1.count, hno1]; exact hf
  obtain ⟨e2, hinit, _, hag2, _, _, _, hfr2⟩ := initializeProblem_spec fuel h1 hf1
  have hno2 : e2.noAgents = (e.doStepAll fn).noAgents := by
    have hc := congrArg ImplicitEngine.noAgents hfr2
    exact hc
  have hA2 : e2.activeAgents = (e.doStepAll fn).activeAgents := by
    have hc := congrArg ImplicitEngine.activeAgents hfr2
    exact hc
  have hen2 : ∀ i, (e2.agents i).enabled = ((e.doStepAll fn).agents i).enabled := by
    intro i
    rw [hag2 i]
    split_ifs <;> rfl
  have hrank : ∀ n, e2.rank n = (e.doStepAll fn).rank n :=
    fun n => rank_congr _ _ n (fun j _ => hen2 j)
  refine ⟨e2, hinit, by rw [hno2, hno1], ?_, hen2, ?_, ?_⟩
  · rw [hA2, hact1, hrank, hno2, hno1]
    unfold ImplicitEngine.rank
    apply List.countP_congr
    intro j hj
    rw [hag1 j, if_pos (List.mem_range.1 hj)]
  · intro i hi hie
    rw [hen2 i] at hie
    rw [hno2] at hi
    rw [hag2 i, if_pos ⟨hi, hie⟩, hrank]
  · intro i hi hie
    rw [hen2 i] at hie
    rw [hno2, hno1] at hi
    have h2i : e2.agents i = (e.doStepAll fn).agents i := by
      rw [hag2 i, if_neg (fun hh => by rw [hie] at hh; exact Bool.noConfusion hh.2)]
    refine ⟨h2i, ?_⟩
    rw [h2i, hag1 i, if_pos hi]
    exact (doStep_frame fn.sqrt e.spatialDatabase (e.agents i) e.dt).2.2.2.2.2.2.2.2.2.2

/-- C14, as amended: after the first loop of `updateSimulation` and
`initializeProblem` on any engine reached from `init` (fuel above the number
of agents added), the call returns; `activeAgents` is the number `N` of enabled
agents; the enabled agents have the active ids `0 .. N-1`, each its rank among
the enabled agents in order of address, so each number below `N` is the active
id of exactly one enabled agent; a disabled agent keeps the active id it had
before the call, which is not negative. -/
theorem pack_assigns_ranks (fn : MathFns K) (solver : ImplicitEngine K → Nat → K)
    (fuel : Nat) (raw : ImplicitEngine K) (xRange yRange : K) (xCells yCells : Int)
    (ops : List (EngineOp K)) (hf : addAgentCalls ops < fuel) :
    ∃ e e2, engineAfter fn solver fuel raw xRange yRange xCells yCells ops = some e ∧
      (e.doStepAll fn).initializeProblem fuel = some e2 ∧
      e2.noAgents = e.noAgents ∧
      e2.activeAgents = e2.rank e2.noAgents ∧
      (∀ i, i < e2.noAgents → (e2.agents i).enabled = true →
        (e2.agents i).activeid = (e2.rank i : Int) ∧ e2.rank i < e2.activeAgents) ∧
      (∀ a, a < e2.activeAgents →
        ∃ i, i < e2.noAgents ∧ (e2.agents i).enabled = true ∧
          (e2.agents i).activeid = (a : Int) ∧
          ∀ i', i' < e2.noAgents → (e2.agents i').enabled = true →
            (e2.agents i').activeid = (a : Int) → i' = i) ∧
      (∀ i, i < e2.noAgents → (e2.agents i).enabled = false →
        (e2.agents i).activeid = (e.agents i).activeid ∧ 0 ≤ (e2.agents i).activeid) := by
  obtain ⟨e, L, he, hok, hno, hid⟩ := engineAfter_ok fn solver fuel raw xRange yRange xCells yCells
    ops hf
  obtain ⟨e2, hinit, hno2, hA, _, hen, hdis⟩ := pack_after_doStep fn fuel hok (by rw [hno]; exact hf)
  refine ⟨e, e2, he, hinit, hno2, hA, ?_, ?_, ?_⟩
  · intro i hi hie
    exact ⟨hen i hi hie, by rw [hA]; exact rank_lt e2 hi hie⟩
  · intro a ha
    rw [hA] at ha
    obtain ⟨i, hi, hie, hr⟩ := rank_surj e2 _ a ha
    refine ⟨i, hi, hie, by rw [hen i hi hie, hr], ?_⟩
    intro i' hi' hie' hid'
    rw [hen i' hi' hie'] at hid'
    have hr' : e2.rank i' = e2.rank i := by rw [hr]; exact_mod_cast hid'
    rcases Nat.lt_trichotomy i' i with hlt | heq | hgt
    · have := rank_lt e2 hlt hie'
      omega
    · exact heq
    · have := rank_lt e2 hgt hie
      omega
  · intro i hi hie
    have := (hdis i hi hie).2
    rw [this]
    exact ⟨rfl, hid i (by rw [← hno2]; exact hi)⟩

/-- C14, instance of the amended statement: the agent of scenario 1 added to an
engine for the region `[-5, 5]²` with `dt = 1/5`. -/
theorem pack_assigns_ranks_witness :
    addAgentCalls ([EngineOp.addAgent straightLineParameters, EngineOp.setTimeStep (1 / 5)] :
      List (EngineOp ℝ)) < 2 ∧
    ∃ e e2, engineAfter ⟨Real.sqrt, Real.exp, fun a b => a ^ b⟩ (fun _ _ => 0) 2 rawEngine
        10 10 10 10 [EngineOp.addAgent straightLineParameters, EngineOp.setTimeStep (1 / 5)] =
        some e ∧
      (e.doStepAll ⟨Real.sqrt, Real.exp, fun a b => a ^ b⟩).initializeProblem 2 = some e2 ∧
      e2.activeAgents = e2.rank e2.noAgents := by
  have h : addAgentCalls ([EngineOp.addAgent straightLineParameters,
      EngineOp.setTimeStep (1 / 5)] : List (EngineOp ℝ)) < 2 := by
    simp [addAgentCalls]
  obtain ⟨e, e2, h1, h2, _, h4, _⟩ := pack_assigns_ranks
    ⟨Real.sqrt, Real.exp, fun a b => a ^ b⟩ (fun _ _ => 0) 2 rawEngine 10 10 10 10
    [EngineOp.addAgent straightLineParameters, EngineOp.setTimeStep (1 / 5)] h
  exact ⟨h, e, e2, h1, h2, h4⟩

/-- C14, counterexample: two agents are added, the first within its goal
radius (`nearGoalParameters`), the second the agent of scenario 1; `dt = 1/5`.
After the first loop of `updateSimulation` and `initializeProblem`, one agent
is active; agent 0 is disabled and its active id is still 0, the id `init` gave
it, not -1; agent 1 is enabled with active id 0.  So the agents whose active
id lies in `[0, activeAgents)` are both agents, not the enabled ones. -/
theorem disabled_agent_keeps_active_id :
    ∃ e e2, engineAfter ⟨Real.sqrt, Real.exp, fun a b => a ^ b⟩ (fun _ _ => 0) 3 rawEngine
        10 10 10 10 [EngineOp.addAgent nearGoalParameters,
          EngineOp.addAgent straightLineParameters, EngineOp.setTimeStep (1 / 5)] = some e ∧
      (e.doStepAll ⟨Real.sqrt, Real.exp, fun a b => a ^ b⟩).initializeProblem 3 = some e2 ∧
      e2.noAgents = 2 ∧ e2.activeAgents = 1 ∧
      (e2.agents 0).enabled = false ∧ (e2.agents 0).activeid = 0 ∧
      (e2.agents 0).activeid ≠ -1 ∧
      (e2.agents 1).enabled = true ∧ (e2.agents 1).activeid = 0 := by
  have hf : addAgentCalls ([EngineOp.addAgent nearGoalParameters,
      EngineOp.addAgent straightLineParameters, EngineOp.setTimeStep (1 / 5)] :
      List (EngineOp ℝ)) < 3 := by
    simp [addAgentCalls]
  obtain ⟨e, L, he, hok, hno, _⟩ := engineAfter_ok ⟨Real.sqrt, Real.exp, fun a b => a ^ b⟩
    (fun _ _ => 0) 3 rawEngine 10 10 10 10 _ hf
  have hno' : e.noAgents = 2 := by rw [hno]; simp [addAgentCalls]
  -- the two agents before the step
  have he' : e = { ((ImplicitEngine.init (rawEngine : ImplicitEngine ℝ) 10 10 10 10).addAgent
      ⟨Real.sqrt, Real.exp, fun a b => a ^ b⟩ nearGoalParameters).addAgent
      ⟨Real.sqrt, Real.exp, fun a b => a ^ b⟩ straightLineParameters with dt := 1 / 5 } := by
    have : engineAfter ⟨Real.sqrt, Real.exp, fun a b => a ^ b⟩ (fun _ _ => 0) 3
        (rawEngine : ImplicitEngine ℝ) 10 10 10 10 [EngineOp.addAgent nearGoalParameters,
          EngineOp.addAgent straightLineParameters, EngineOp.setTimeStep (1 / 5)] =
        some { ((ImplicitEngine.init (rawEngine : ImplicitEngine ℝ) 10 10 10 10).addAgent
          ⟨Real.sqrt, Real.exp, fun a b => a ^ b⟩ nearGoalParameters).addAgent
          ⟨Real.sqrt, Real.exp, fun a b => a ^ b⟩ straightLineParameters with dt := 1 / 5 } := rfl
    rw [this] at he
    exact (Option.some.inj he).symm
  have a0 : (e.agents 0).goal = ⟨1 / 2, 0⟩ ∧ (e.agents 0).position = ⟨0, 0⟩ ∧
      (e.agents 0).goalRadiusSq = 1 * 1 ∧ (e.agents 0).activeid = 0 := by
    rw [he']
    exact ⟨rfl, rfl, rfl, rfl⟩
  have a1 : (e.agents 1).goal = ⟨4, 0⟩ ∧ (e.agents 1).position = ⟨-4, 0⟩ ∧
      (e.agents 1).goalRadiusSq = 1 * 1 ∧ (e.agents 1).enabled = true := by
    rw [he']
    exact ⟨rfl, rfl, rfl, rfl⟩
  have r0 : ((e.agents 0).goal.sub (e.agents 0).position).squaredNorm <
      (e.agents 0).goalRadiusSq := by
    rw [a0.1, a0.2.1, a0.2.2.1]
    simp only [Vector2D.sub, Vector2D.squaredNorm]
    norm_num
  have r1 : ¬ ((e.agents 1).goal.sub (e.agents 1).position).squaredNorm <
      (e.agents 1).goalRadiusSq := by
    rw [a1.1, a1.2.1, a1.2.2.1]
    simp only [Vector2D.sub, Vector2D.squaredNorm]
    norm_num
  obtain ⟨_, hag1, _, _, _⟩ := doStepAll_spec ⟨Real.sqrt, Real.exp, fun a b => a ^ b⟩ hok
  obtain ⟨e2, hinit, hno2, hA, hen, hact, hdis⟩ := pack_after_doStep
    ⟨Real.sqrt, Real.exp, fun a b => a ^ b⟩ 3 hok (by rw [hno']; norm_num)
  have hno2' : e2.noAgents = 2 := by rw [hno2, hno']
  have en0 : (e2.agents 0).enabled = false := by
    rw [hen 0, hag1 0, if_pos (by rw [hno']; norm_num)]
    exact doStep_of_reached _ _ _ _ r0
  have en1 : (e2.agents 1).enabled = true := by
    rw [hen 1, hag1 1, if_pos (by rw [hno']; norm_num)]
    rw [((doStep_enabled_token _ _ _ _).2 r1).1]
    exact a1.2.2.2
  have rk1 : e2.rank 1 = 0 := by
    rw [show (1 : Nat) = 0 + 1 from rfl, rank_succ, en0]
    rfl
  have rk2 : e2.rank 2 = 1 := by
    rw [show (2 : Nat) = 1 + 1 from rfl, rank_succ, en1, rk1]
    rfl
  have id0 : (e2.agents 0).activeid = 0 := by
    rw [(hdis 0 (by rw [hno2']; norm_num) en0).2]
    exact a0.2.2.2
  refine ⟨e, e2, he, hinit, hno2', by rw [hA, hno2', rk2], en0, id0, by rw [id0]; norm_num, en1, ?_⟩
  rw [hact 1 (by rw [hno2']; norm_num) en1, rk1]
  rfl

end activeIds


/-! ## Neighbour lists of a packed state -/

section packedLists

variable [LinearOrderedField K] [FloorRing K]

/-- Enabled agents with the same rank are the same agent. -/
theorem rank_inj (e : ImplicitEngine K) {i j : Nat} (hi : (e.agents i).enabled = true)
    (hj : (e.agents j).enabled = true) (h : e.rank i = e.rank j) : i = j := by
  rcases Nat.lt_trichotomy i j with hlt | heq | hgt
  · have := rank_lt e hlt hi
    omega
  · exact heq
  · have := rank_lt e hgt hj
    omega

/-- In the packed state of any engine reached from `init` (fuel above the
number of agents added), every neighbour list holds enabled agents only, and
the active ids within a list are pairwise distinct. -/
theorem packed_nn_distinct (fn : MathFns K) (solver : ImplicitEngine K → Nat → K)
    (fuel : Nat) (raw : ImplicitEngine K) (xRange yRange : K) (xCells yCells : Int)
    (ops : List (EngineOp K)) (hf : addAgentCalls ops < fuel) :
    ∃ e e2, engineAfter fn solver fuel raw xRange yRange xCells yCells ops = some e ∧
      (e.doStepAll fn).initializeProblem fuel = some e2 ∧
      ∀ c, c < e2.activeAgents →
        ((e2.nn c).map (fun other => (e2.agents other).activeid)).Nodup ∧
        ∀ other ∈ e2.nn c, other < e2.noAgents ∧ (e2.agents other).enabled = true := by
  obtain ⟨e, L, he, hok, hno, _⟩ := engineAfter_ok fn solver fuel raw xRange yRange xCells yCells
    ops hf
  obtain ⟨⟨L1, h1⟩, hag1, hact1, _, hfr1⟩ := doStepAll_spec fn hok
  have hno1 : (e.doStepAll fn).noAgents = e.noAgents := by
    have hc := congrArg ImplicitEngine.noAgents hfr1
    exact hc
  have hf1 : (e.doStepAll fn).spatialDatabase.nproxy < fuel := by
    rw [h1.count, hno1, hno]; exact hf
  obtain ⟨e2, hinit, _, hag2, hnn2, _, _, hfr2⟩ := initializeProblem_spec fuel h1 hf1
  have hno2 : e2.noAgents = (e.doStepAll fn).noAgents := by
    have hc := congrArg ImplicitEngine.noAgents hfr2
    exact hc
  have hA2 : e2.activeAgents = (e.doStepAll fn).activeAgents := by
    have hc := congrArg ImplicitEngine.activeAgents hfr2
    exact hc
  have hrank1 : (e.doStepAll fn).activeAgents = (e.doStepAll fn).rank (e.doStepAll fn).noAgents := by
    rw [hact1, hno1]
    unfold ImplicitEngine.rank
    apply List.countP_congr
    intro j hj
    rw [hag1 j, if_pos (List.mem_range.1 hj)]
  refine ⟨e, e2, he, hinit, ?_⟩
  generalize e.doStepAll fn = e1 at h1 hf1 hinit hag2 hnn2 hno2 hA2 hrank1
  intro c hc
  rw [hA2, hrank1] at hc
  obtain ⟨i, hi, hie, hri⟩ := rank_surj e1 _ c hc
  obtain ⟨t, ht, _, _⟩ := h1.token i hi hie
  have hq := agent_findNeighbors_some h1.repr.toLinked hf1 (e1.agents i) t ht e1.neighborDist []
  have hlist := hnn2 i hi hie
  rw [hq, hri] at hlist
  have hlist' := (Option.some.inj hlist).symm
  rw [List.nil_append] at hlist'
  -- a proxy on a bin list is the token of an enabled agent
  have hown : ∀ p, p ∈ ((localityBinsVisited e1.spatialDatabase.lq (e1.agents i).position.x
      (e1.agents i).position.y e1.neighborDist).flatMap L1).filter
      (withinRadius e1.spatialDatabase (e1.agents i).position.x (e1.agents i).position.y
        e1.neighborDist) →
      (e1.spatialDatabase.proxy p).object < e1.noAgents ∧
      (e1.agents (e1.spatialDatabase.proxy p).object).proximityToken = some p ∧
      (e1.agents (e1.spatialDatabase.proxy p).object).enabled = true := by
    intro p hp
    obtain ⟨b, _, hb⟩ := List.mem_flatMap.1 (List.mem_filter.1 hp).1
    have ho := h1.owner b p hb
    refine ⟨ho.1, ho.2, ?_⟩
    cases hen : (e1.agents (e1.spatialDatabase.proxy p).object).enabled with
    | true => rfl
    | false =>
      have := h1.released _ ho.1 hen
      rw [ho.2] at this
      exact Option.noConfusion this
  have hact : ∀ o, o < e1.noAgents → (e1.agents o).enabled = true →
      (e2.agents o).activeid = (e1.rank o : Int) ∧ (e2.agents o).enabled = true := by
    intro o ho hoe
    rw [hag2 o, if_pos ⟨ho, hoe⟩]
    exact ⟨rfl, hoe⟩
  rw [hlist']
  constructor
  · rw [List.map_map]
    refine List.Nodup.map_on ?_ ?_
    · intro p hp q hq hpq
      obtain ⟨hp1, hp2, hp3⟩ := hown p hp
      obtain ⟨hq1, hq2, hq3⟩ := hown q hq
      simp only [Function.comp] at hpq
      rw [(hact _ hp1 hp3).1, (hact _ hq1 hq3).1] at hpq
      have hr : e1.rank (e1.spatialDatabase.proxy p).object =
          e1.rank (e1.spatialDatabase.proxy q).object := by exact_mod_cast hpq
      have ho := rank_inj e1 hp3 hq3 hr
      rw [ho, hq2] at hp2
      exact (Option.some.inj hp2).symm
    · refine List.Nodup.filter _ ?_
      rw [List.nodup_flatMap]
      refine ⟨fun b _ => h1.repr.nodup b, ?_⟩
      refine List.Pairwise.imp_of_mem ?_ (localityBinsVisited_nodup e1.spatialDatabase.lq _ _ _)
      intro b b' _ _ hne
      simp only [Function.onFun]
      intro p hp hp'
      exact hne (h1.repr.toLinked.unique hp hp')
  · intro other ho
    obtain ⟨p, hp, rfl⟩ := List.mem_map.1 ho
    obtain ⟨hp1, _, hp3⟩ := hown p hp
    exact ⟨by rw [hno2]; exact hp1, (hact _ hp1 hp3).2⟩

end packedLists


/-! ## The gradient of the distance term and the inverse time to collision -/

section energyGradients
variable [LinearOrderedField K]

/-- C21: for a non-tunnelling input (`d2 > R^2`) and a gradient buffer `g`,
with `X = Pb - Pa`, `V = Va - Vb`, `tti` the clamped time of closest approach,
`(dx, dy) = V tti - X`, `d = sqrt d2` and `distance = d - R`:
`min_distance_energy` leaves the buffer unchanged when `<X,V> ≤ 0` and adds
exactly `-eta / (d distance^2) * tti * (dx, dy)` when `<X,V> > 0`, whatever
`tti` is: the derivative of `tti` contributes nothing. -/
theorem min_distance_energy_gradient (fn : MathFns K) (dt eta : K)
    (Pa_x Pa_y Pb_x Pb_y Va_x Va_y Vb_x Vb_y R : K) (g : K × K) (tti d2 : K)
    (htti : tti = max (min (((Pb_x - Pa_x) * (Va_x - Vb_x) + (Pb_y - Pa_y) * (Va_y - Vb_y)) /
      ((Va_x - Vb_x) * (Va_x - Vb_x) + (Va_y - Vb_y) * (Va_y - Vb_y) + 1 / 10000)) dt) 0)
    (hd2 : d2 = ((Va_x - Vb_x) * tti - (Pb_x - Pa_x)) * ((Va_x - Vb_x) * tti - (Pb_x - Pa_x)) +
      ((Va_y - Vb_y) * tti - (Pb_y - Pa_y)) * ((Va_y - Vb_y) * tti - (Pb_y - Pa_y)))
    (hno : ¬ d2 ≤ R * R) :
    ((Pb_x - Pa_x) * (Va_x - Vb_x) + (Pb_y - Pa_y) * (Va_y - Vb_y) ≤ 0 →
      (ImplicitEngine.min_distance_energy fn dt eta
        Pa_x Pa_y Pb_x Pb_y Va_x Va_y Vb_x Vb_y R (some g)).2.2 = some g) ∧
    ((Pb_x - Pa_x) * (Va_x - Vb_x) + (Pb_y - Pa_y) * (Va_y - Vb_y) > 0 →
      (ImplicitEngine.min_distance_energy fn dt eta
        Pa_x Pa_y Pb_x Pb_y Va_x Va_y Vb_x Vb_y R (some g)).2.2 =
        some (g.1 + -eta / (fn.sqrt d2 * (fn.sqrt d2 - R) * (fn.sqrt d2 - R)) * tti *
                ((Va_x - Vb_x) * tti - (Pb_x - Pa_x)),
              g.2 + -eta / (fn.sqrt d2 * (fn.sqrt d2 - R) * (fn.sqrt d2 - R)) * tti *
                ((Va_y - Vb_y) * tti - (Pb_y - Pa_y)))) := by
  subst htti
  subst hd2
  constructor
  · intro hr
    have hr' : ¬ (Pb_x - Pa_x) * (Va_x - Vb_x) + (Pb_y - Pa_y) * (Va_y - Vb_y) > 0 :=
      not_lt.2 hr
    simp only [ImplicitEngine.min_distance_energy]
    rw [if_neg hno, if_neg hr']
  · intro hr
    simp only [ImplicitEngine.min_distance_energy]
    rw [if_neg hno, if_pos hr]
    simp only [mul_zero, add_zero, Option.some.injEq, Prod.mk.injEq]
    constructor <;> ring

/-- C21, instance: two discs 5 apart with combined radius 1, closing at
relative velocity `(3, 4)` with `dt = 1/5`: `tti = dt` and the squared distance
at `tti` is 16. -/
theorem min_distance_energy_gradient_witness :
    ((1 / 5 : ℝ) = max (min (((3 - 0) * (3 - 0) + (4 - 0) * (4 - 0)) /
      ((3 - 0) * (3 - 0) + (4 - 0) * (4 - 0) + 1 / 10000)) (1 / 5)) 0 ∧
     (16 : ℝ) = ((3 - 0) * (1 / 5) - (3 - 0)) * ((3 - 0) * (1 / 5) - (3 - 0)) +
      ((4 - 0) * (1 / 5) - (4 - 0)) * ((4 - 0) * (1 / 5) - (4 - 0)) ∧
     ¬ (16 : ℝ) ≤ 1 * 1 ∧ (3 - 0) * (3 - 0) + (4 - 0) * (4 - 0) > (0 : ℝ)) ∧
    (ImplicitEngine.min_distance_energy ⟨Real.sqrt, Real.exp, fun a b => a ^ b⟩ (1 / 5) (1 / 100)
        0 0 3 4 3 4 0 0 1 (some (0, 0))).2.2 =
      some (0 + -(1 / 100) / (Real.sqrt 16 * (Real.sqrt 16 - 1) * (Real.sqrt 16 - 1)) * (1 / 5) *
                ((3 - 0) * (1 / 5) - (3 - 0)),
            0 + -(1 / 100) / (Real.sqrt 16 * (Real.sqrt 16 - 1) * (Real.sqrt 16 - 1)) * (1 / 5) *
                ((4 - 0) * (1 / 5) - (4 - 0))) := by
  have h1 : (1 / 5 : ℝ) = max (min (((3 - 0) * (3 - 0) + (4 - 0) * (4 - 0)) /
      ((3 - 0) * (3 - 0) + (4 - 0) * (4 - 0) + 1 / 10000)) (1 / 5)) 0 := by
    norm_num
  have h2 : (16 : ℝ) = ((3 - 0) * (1 / 5) - (3 - 0)) * ((3 - 0) * (1 / 5) - (3 - 0)) +
      ((4 - 0) * (1 / 5) - (4 - 0)) * ((4 - 0) * (1 / 5) - (4 - 0)) := by
    norm_num
  have h3 : ¬ (16 : ℝ) ≤ 1 * 1 := by norm_num
  have h4 : (3 - 0) * (3 - 0) + (4 - 0) * (4 - 0) > (0 : ℝ) := by norm_num
  exact ⟨⟨h1, h2, h3, h4⟩, (min_distance_energy_gradient ⟨Real.sqrt, Real.exp, fun a b => a ^ b⟩
    (1 / 5) (1 / 100) 0 0 3 4 3 4 0 0 1 (0, 0) (1 / 5) 16 h1 h2 h3).2 h4⟩

end energyGradients

section ttc

/-- When the parallel relative speed is negative `inverse_ttc_energy` returns at
once: energy 0 and the buffer as it was. -/
theorem inverse_ttc_energy_of_diverging [LinearOrderedField K] (fn : MathFns K)
    (dt k p t0 eps Pa_x Pa_y Pb_x Pb_y Va_x Va_y Vb_x Vb_y R : K) (grad : Option (K × K))
    (h : (if fn.sqrt ((Pb_x - Pa_x) * (Pb_x - Pa_x) + (Pb_y - Pa_y) * (Pb_y - Pa_y)) > 0
          then (Pb_x - Pa_x) /
            fn.sqrt ((Pb_x - Pa_x) * (Pb_x - Pa_x) + (Pb_y - Pa_y) * (Pb_y - Pa_y))
          else Pb_x - Pa_x) * (Va_x - Vb_x) +
        (if fn.sqrt ((Pb_x - Pa_x) * (Pb_x - Pa_x) + (Pb_y - Pa_y) * (Pb_y - Pa_y)) > 0
          then (Pb_y - Pa_y) /
            fn.sqrt ((Pb_x - Pa_x) * (Pb_x - Pa_x) + (Pb_y - Pa_y) * (Pb_y - Pa_y))
          else Pb_y - Pa_y) * (Va_y - Vb_y) < 0) :
    ImplicitEngine.inverse_ttc_energy fn dt k p t0 eps
      Pa_x Pa_y Pb_x Pb_y Va_x Va_y Vb_x Vb_y R grad = (0, grad) := by
  simp only [ImplicitEngine.inverse_ttc_energy]
  rw [if_pos h]

/-- The distance of two centres further apart than `R` is positive. -/
theorem sqrt_pos_of_apart (Xx Xy R : ℝ) (h : R * R < Xx * Xx + Xy * Xy) :
    0 < Real.sqrt (Xx * Xx + Xy * Xy) :=
  Real.sqrt_pos.2 (lt_of_le_of_lt (mul_self_nonneg R) h)

/-- The square of the distance minus `R^2` is positive for centres further
apart than `R`. -/
theorem xMinR_pos (Xx Xy R : ℝ) (h : R * R < Xx * Xx + Xy * Xy) :
    0 < Real.sqrt (Xx * Xx + Xy * Xy) * Real.sqrt (Xx * Xx + Xy * Xy) - R * R := by
  rw [Real.mul_self_sqrt (le_trans (mul_self_nonneg R) h.le)]
  linarith

/-- C22: for centres further apart than `R` (`x^2 > R^2`), a positive
`eps` and parallel relative speed `vp ≤ 0`, `inverse_ttc_energy` returns 0 and
leaves the gradient buffer unchanged.  For `vp < 0` it returns at once; for
`vp = 0` the cap `vt*` is 0, the extrapolation branch is taken and its
`inv_ttc = -(sqrt (1 - eps^2) / eps) vt / sqrt (x^2 - R^2)` is not positive. -/
theorem inverse_ttc_energy_not_approaching (ex : ℝ → ℝ) (pw : ℝ → ℝ → ℝ)
    (dt k p t0 eps Pa_x Pa_y Pb_x Pb_y Va_x Va_y Vb_x Vb_y R : ℝ) (grad : Option (ℝ × ℝ))
    (hR : R * R < (Pb_x - Pa_x) * (Pb_x - Pa_x) + (Pb_y - Pa_y) * (Pb_y - Pa_y))
    (hvp : (Pb_x - Pa_x) /
          Real.sqrt ((Pb_x - Pa_x) * (Pb_x - Pa_x) + (Pb_y - Pa_y) * (Pb_y - Pa_y)) *
          (Va_x - Vb_x) +
        (Pb_y - Pa_y) /
          Real.sqrt ((Pb_x - Pa_x) * (Pb_x - Pa_x) + (Pb_y - Pa_y) * (Pb_y - Pa_y)) *
          (Va_y - Vb_y) ≤ 0)
    (heps : 0 < eps) :
    ImplicitEngine.inverse_ttc_energy ⟨Real.sqrt, ex, pw⟩ dt k p t0 eps
      Pa_x Pa_y Pb_x Pb_y Va_x Va_y Vb_x Vb_y R grad = (0, grad) := by
  have hx := sqrt_pos_of_apart _ _ R hR
  have hxm := xMinR_pos _ _ R hR
  rcases lt_or_eq_of_le hvp with hlt | heq
  · apply inverse_ttc_energy_of_diverging
    simp only [gt_iff_lt, hx, if_true]
    exact hlt
  · simp only [ImplicitEngine.inverse_ttc_energy, gt_iff_lt, hx, if_true, heq, lt_irrefl,
      if_false, zero_mul, mul_zero, sub_zero, zero_div, zero_sub]
    have hvt := Real.sqrt_nonneg ((Va_x - Vb_x) * (Va_x - Vb_x) + (Va_y - Vb_y) * (Va_y - Vb_y))
    rw [if_neg (not_lt.2 hvt)]
    have hn := Real.sqrt_nonneg (1 - eps * eps)
    have hs := Real.sqrt_pos.2 hxm
    have hle : -(Real.sqrt (1 - eps * eps) / eps *
        Real.sqrt ((Va_x - Vb_x) * (Va_x - Vb_x) + (Va_y - Vb_y) * (Va_y - Vb_y)) /
        Real.sqrt (Real.sqrt ((Pb_x - Pa_x) * (Pb_x - Pa_x) + (Pb_y - Pa_y) * (Pb_y - Pa_y)) *
          Real.sqrt ((Pb_x - Pa_x) * (Pb_x - Pa_x) + (Pb_y - Pa_y) * (Pb_y - Pa_y)) - R * R)) ≤ 0 :=
      neg_nonpos.2 (div_nonneg (mul_nonneg (div_nonneg hn heps.le) hvt) hs.le)
    rw [if_neg (not_lt.2 hle)]

/-- C22, instance: centres 5 apart, `R = 3`, `eps = 1/5` and the
purely tangential relative velocity `(4, -3)`, for which `vp = 0` exactly. -/
theorem inverse_ttc_energy_not_approaching_witness :
    ImplicitEngine.inverse_ttc_energy ⟨Real.sqrt, Real.exp, fun a b => a ^ b⟩
      (1 / 5) (3 / 2) 2 3 (1 / 5) 0 0 3 4 4 (-3) 0 0 3 (some (7, 9)) = (0, some (7, 9)) :=
  inverse_ttc_energy_not_approaching Real.exp (fun a b => a ^ b)
    (1 / 5) (3 / 2) 2 3 (1 / 5) 0 0 3 4 4 (-3) 0 0 3 (some (7, 9))
    (by norm_num) (le_of_eq (by ring)) (by norm_num)

/-- Square roots of the squares met in the scenarios. -/
theorem sqrt_sq_values :
    Real.sqrt 25 = 5 ∧ Real.sqrt 16 = 4 ∧ Real.sqrt (16 / 25) = 4 / 5 ∧ Real.sqrt 225 = 15 ∧
    Real.sqrt 0 = 0 := by
  refine ⟨?_, ?_, ?_, ?_, Real.sqrt_zero⟩
  · rw [show (25 : ℝ) = 5 * 5 by norm_num]; exact Real.sqrt_mul_self (by norm_num)
  · rw [show (16 : ℝ) = 4 * 4 by norm_num]; exact Real.sqrt_mul_self (by norm_num)
  · rw [show (16 / 25 : ℝ) = 4 / 5 * (4 / 5) by norm_num]; exact Real.sqrt_mul_self (by norm_num)
  · rw [show (225 : ℝ) = 15 * 15 by norm_num]; exact Real.sqrt_mul_self (by norm_num)

/-- C23: for centres further apart than `R` (`x^2 > R^2`) and `vp > 0`, with
`xMinR = x^2 - R^2` and `vt* = sqrt (1 - eps^2) R vp / sqrt xMinR`: in the
branch `vt < vt*` the discriminant `R^2 vp^2 - xMinR vt^2` is non-negative and
`inv_ttc = (x vp + sqrt (R^2 vp^2 - xMinR vt^2)) / xMinR`, in the branch
`vt ≥ vt*`, `inv_ttc = (x + eps R) vp / xMinR -
(sqrt (1 - eps^2) / eps) (vt - vt*) / sqrt xMinR`, and in both
`inverse_ttc_energy` returns `k inv_ttc^p exp (-1 / (inv_ttc t0))` when
`inv_ttc > 0` and 0 otherwise. -/
theorem inverse_ttc_energy_spec (dt k p t0 eps Pa_x Pa_y Pb_x Pb_y Va_x Va_y Vb_x Vb_y R : ℝ)
    (grad : Option (ℝ × ℝ)) (x vp vt xMinR vtstar : ℝ)
    (hx : x = Real.sqrt ((Pb_x - Pa_x) * (Pb_x - Pa_x) + (Pb_y - Pa_y) * (Pb_y - Pa_y)))
    (hvp : vp = (Pb_x - Pa_x) / x * (Va_x - Vb_x) + (Pb_y - Pa_y) / x * (Va_y - Vb_y))
    (hvt : vt = Real.sqrt
      ((Va_x - Vb_x - vp * ((Pb_x - Pa_x) / x)) * (Va_x - Vb_x - vp * ((Pb_x - Pa_x) / x)) +
       (Va_y - Vb_y - vp * ((Pb_y - Pa_y) / x)) * (Va_y - Vb_y - vp * ((Pb_y - Pa_y) / x))))
    (hxm : xMinR = x * x - R * R)
    (hvs : vtstar = Real.sqrt (1 - eps * eps) * R * vp / Real.sqrt xMinR)
    (hR : R * R < x * x) (hvp0 : 0 < vp) :
    (vt < vtstar →
      0 ≤ R * R * vp * vp - xMinR * vt * vt ∧
      (ImplicitEngine.inverse_ttc_energy ⟨Real.sqrt, Real.exp, fun a b => a ^ b⟩ dt k p t0 eps
        Pa_x Pa_y Pb_x Pb_y Va_x Va_y Vb_x Vb_y R grad).1 =
        if (x * vp + Real.sqrt (R * R * vp * vp - xMinR * vt * vt)) / xMinR > 0 then
          k * ((x * vp + Real.sqrt (R * R * vp * vp - xMinR * vt * vt)) / xMinR) ^ p *
            Real.exp (-1 / ((x * vp + Real.sqrt (R * R * vp * vp - xMinR * vt * vt)) / xMinR * t0))
        else 0) ∧
    (¬ vt < vtstar →
      (ImplicitEngine.inverse_ttc_energy ⟨Real.sqrt, Real.exp, fun a b => a ^ b⟩ dt k p t0 eps
        Pa_x Pa_y Pb_x Pb_y Va_x Va_y Vb_x Vb_y R grad).1 =
        if (x + eps * R) * vp / xMinR -
            Real.sqrt (1 - eps * eps) / eps * (vt - vtstar) / Real.sqrt xMinR > 0 then
          k * ((x + eps * R) * vp / xMinR -
            Real.sqrt (1 - eps * eps) / eps * (vt - vtstar) / Real.sqrt xMinR) ^ p *
            Real.exp (-1 / (((x + eps * R) * vp / xMinR -
              Real.sqrt (1 - eps * eps) / eps * (vt - vtstar) / Real.sqrt xMinR) * t0))
        else 0) := by
  have hx0 : 0 ≤ x := hx ▸ Real.sqrt_nonneg _
  have hxpos : 0 < x := by
    rcases eq_or_lt_of_le hx0 with h | h
    · rw [← h] at hR
      nlinarith [mul_self_nonneg R]
    · exact h
  have hxmpos : 0 < xMinR := by rw [hxm]; linarith
  have hnvp : ¬ vp < 0 := not_lt.2 hvp0.le
  have hvt0 : 0 ≤ vt := hvt ▸ Real.sqrt_nonneg _
  have hexp : ∀ a : ℝ, -(1 / a) / t0 = -1 / (a * t0) := by
    intro a
    rw [neg_div, div_div, neg_div]
  have hE : (ImplicitEngine.inverse_ttc_energy ⟨Real.sqrt, Real.exp, fun a b => a ^ b⟩ dt k p t0 eps
        Pa_x Pa_y Pb_x Pb_y Va_x Va_y Vb_x Vb_y R grad).1 =
      if vt < vtstar then
        if (x * vp + Real.sqrt (R * R * vp * vp - xMinR * vt * vt)) / xMinR > 0 then
          k * ((x * vp + Real.sqrt (R * R * vp * vp - xMinR * vt * vt)) / xMinR) ^ (p - 1) *
            Real.exp (-(1 / ((x * vp + Real.sqrt (R * R * vp * vp - xMinR * vt * vt)) / xMinR)) / t0)
            * ((x * vp + Real.sqrt (R * R * vp * vp - xMinR * vt * vt)) / xMinR)
        else 0
      else
        if (x + eps * R) * vp / xMinR -
            Real.sqrt (1 - eps * eps) / eps * (vt - vtstar) / Real.sqrt xMinR > 0 then
          k * Real.exp (-(1 / ((x + eps * R) * vp / xMinR -
              Real.sqrt (1 - eps * eps) / eps * (vt - vtstar) / Real.sqrt xMinR)) / t0) *
            ((x + eps * R) * vp / xMinR -
              Real.sqrt (1 - eps * eps) / eps * (vt - vtstar) / Real.sqrt xMinR) ^ p
        else 0 := by
    simp only [ImplicitEngine.inverse_ttc_energy]
    rw [← hx]
    simp only [gt_iff_lt, hxpos, if_true]
    rw [← hvp, if_neg hnvp, ← hvt, ← hxm, ← hvs]
    split_ifs <;> cases grad <;> rfl
  constructor
  · intro hlt
    have hd : 0 ≤ R * R * vp * vp - xMinR * vt * vt := by
      have hs : 0 < Real.sqrt xMinR := Real.sqrt_pos.2 hxmpos
      have hss : Real.sqrt xMinR * Real.sqrt xMinR = xMinR := Real.mul_self_sqrt hxmpos.le
      have hn0 : 0 ≤ Real.sqrt (1 - eps * eps) := Real.sqrt_nonneg _
      have hn1 : Real.sqrt (1 - eps * eps) ≤ 1 := by
        have h := Real.sqrt_le_sqrt (show 1 - eps * eps ≤ 1 by nlinarith [mul_self_nonneg eps])
        rwa [Real.sqrt_one] at h
      -- vt * sqrt xMinR < nominator * R * vp
      have h1 : vt * Real.sqrt xMinR < Real.sqrt (1 - eps * eps) * R * vp := by
        rw [hvs] at hlt
        exact (lt_div_iff₀ hs).1 hlt
      have h2 : 0 ≤ vt * Real.sqrt xMinR := mul_nonneg hvt0 hs.le
      have hRvp : 0 ≤ R * vp := by
        by_contra hc
        have hc' : R * vp < 0 := not_le.1 hc
        have : Real.sqrt (1 - eps * eps) * R * vp ≤ 0 := by
          rw [mul_assoc]
          exact mul_nonpos_of_nonneg_of_nonpos hn0 hc'.le
        linarith
      have h3 : Real.sqrt (1 - eps * eps) * R * vp ≤ R * vp := by
        rw [mul_assoc]
        exact mul_le_of_le_one_left hRvp hn1
      have h4 : vt * Real.sqrt xMinR ≤ R * vp := by linarith
      have h5 : (vt * Real.sqrt xMinR) * (vt * Real.sqrt xMinR) ≤ (R * vp) * (R * vp) :=
        mul_self_le_mul_self h2 h4
      have h6 : (vt * Real.sqrt xMinR) * (vt * Real.sqrt xMinR) = xMinR * vt * vt := by
        rw [show vt * Real.sqrt xMinR * (vt * Real.sqrt xMinR) =
          Real.sqrt xMinR * Real.sqrt xMinR * vt * vt by ring, hss]
      have h7 : R * R * vp * vp = (R * vp) * (R * vp) := by ring
      linarith
    refine ⟨hd, ?_⟩
    refine hE.trans ?_
    rw [if_pos hlt]
    by_cases hpos : (x * vp + Real.sqrt (R * R * vp * vp - xMinR * vt * vt)) / xMinR > 0
    · rw [if_pos hpos, if_pos hpos, Real.rpow_sub_one (ne_of_gt hpos), hexp]
      generalize (x * vp + Real.sqrt (R * R * vp * vp - xMinR * vt * vt)) / xMinR = a at hpos
      have ha : a ≠ 0 := ne_of_gt hpos
      rw [mul_assoc, mul_assoc, mul_comm (Real.exp _) a, ← mul_assoc (a ^ p / a),
        div_mul_cancel₀ _ ha, mul_assoc]
    · rw [if_neg hpos, if_neg hpos]
  · intro hge
    refine hE.trans ?_
    rw [if_neg hge]
    by_cases hpos : (x + eps * R) * vp / xMinR -
            Real.sqrt (1 - eps * eps) / eps * (vt - vtstar) / Real.sqrt xMinR > 0
    · rw [if_pos hpos, if_pos hpos, hexp]
      ring
    · rw [if_neg hpos, if_neg hpos]

/-- C23, instance: centres 5 apart, `R = 3`, `eps = 3/5`, closing head-on at
speed 5: `vt = 0 < vt* = 3`, the discriminant is 225 and `inv_ttc = 5/2`. -/
theorem inverse_ttc_energy_spec_witness :
    (ImplicitEngine.inverse_ttc_energy ⟨Real.sqrt, Real.exp, fun a b => a ^ b⟩
        (1 / 5) (3 / 2) 2 3 (3 / 5) 0 0 3 4 3 4 0 0 3 none).1 =
      3 / 2 * (5 / 2 : ℝ) ^ (2 : ℝ) * Real.exp (-1 / (5 / 2 * 3)) := by
  obtain ⟨h25, h16, h1625, h225, h0⟩ := sqrt_sq_values
  have hx : (5 : ℝ) = Real.sqrt ((3 - 0) * (3 - 0) + (4 - 0) * (4 - 0)) := by
    norm_num [h25]
  have hvp : (5 : ℝ) = (3 - 0) / 5 * (3 - 0) + (4 - 0) / 5 * (4 - 0) := by norm_num
  have hvt : (0 : ℝ) = Real.sqrt
      ((3 - 0 - 5 * ((3 - 0) / 5)) * (3 - 0 - 5 * ((3 - 0) / 5)) +
       (4 - 0 - 5 * ((4 - 0) / 5)) * (4 - 0 - 5 * ((4 - 0) / 5))) := by
    norm_num
  have hxm : (16 : ℝ) = 5 * 5 - 3 * 3 := by norm_num
  have hvs : (3 : ℝ) = Real.sqrt (1 - 3 / 5 * (3 / 5)) * 3 * 5 / Real.sqrt 16 := by
    norm_num [h16, h1625]
  have h := (inverse_ttc_energy_spec (1 / 5) (3 / 2) 2 3 (3 / 5) 0 0 3 4 3 4 0 0 3 none
    5 5 0 16 3 hx hvp hvt hxm hvs (by norm_num) (by norm_num)).1 (by norm_num)
  have hd : Real.sqrt (3 * 3 * 5 * 5 - 16 * 0 * 0) = 15 := by norm_num [h225]
  rw [hd] at h
  rw [h.2]
  norm_num

end ttc


/-! ## The parameter override `k = 0` -/

section noTtc

variable [LinearOrderedField K]

/-- If no neighbour pair tunnels, `value(v)` is the quadratic part plus the
energies of the neighbour pairs in the order of the lists. -/
theorem value_of_no_tunnel (fn : MathFns K) (e : ImplicitEngine K) (v : Nat → K)
    (hno : ∀ p ∈ e.neighbourPairs, e.tunnels fn v p.1 p.2 = false) :
    ImplicitEngine.value fn e v =
      e.quadratic v + (e.neighbourPairs.map
        (fun p => e.ttcEnergy fn v p.1 p.2 + e.distanceEnergy fn v p.1 p.2)).sum := by
  unfold ImplicitEngine.value
  simp only []
  rw [value_outer_loop fn e v (List.range e.activeAgents) (e.quadratic v)]
  · rfl
  · intro i hi other ho hgt
    have hmem : (i, (e.agents other).activeid.toNat) ∈ e.neighbourPairs := by
      rw [mem_neighbourPairs]
      exact ⟨List.mem_range.1 hi, by omega, other, ho, by omega⟩
    exact hno _ hmem

/-- With `k = 0`, `inverse_ttc_energy` returns 0 and leaves the buffer as it
was, for every input. -/
theorem inverse_ttc_energy_of_k_zero (fn : MathFns K)
    (dt p t0 eps Pa_x Pa_y Pb_x Pb_y Va_x Va_y Vb_x Vb_y R : K) (grad : Option (K × K)) :
    ImplicitEngine.inverse_ttc_energy fn dt 0 p t0 eps
      Pa_x Pa_y Pb_x Pb_y Va_x Va_y Vb_x Vb_y R grad = (0, grad) := by
  cases grad <;> simp only [ImplicitEngine.inverse_ttc_energy] <;> split_ifs <;>
    simp

/-- With `eta = 0` the energy `min_distance_energy` leaves is 0. -/
theorem min_distance_energy_of_eta_zero (fn : MathFns K)
    (dt Pa_x Pa_y Pb_x Pb_y Va_x Va_y Vb_x Vb_y R : K) (grad : Option (K × K)) :
    (ImplicitEngine.min_distance_energy fn dt 0
      Pa_x Pa_y Pb_x Pb_y Va_x Va_y Vb_x Vb_y R grad).2.1 = 0 := by
  cases grad <;> simp only [ImplicitEngine.min_distance_energy] <;> split_ifs <;>
    simp

/-- The quadratic part at `v` exceeds its value at the closed form by
`0.5 (dt + ksi) |v - closed form|^2`. -/
theorem quadratic_eq_closedForm_add (e : ImplicitEngine K) (v : Nat → K)
    (hpos : e.dt + e.ksi ≠ 0) :
    e.quadratic v = e.quadratic e.closedForm +
      1 / 2 * (e.dt + e.ksi) * Finset.sum (Finset.range e.noVars)
        (fun i => (v i - e.closedForm i) * (v i - e.closedForm i)) := by
  unfold ImplicitEngine.quadratic
  simp only [Finset.mul_sum]
  rw [← Finset.sum_add_distrib, ← Finset.sum_add_distrib, ← Finset.sum_add_distrib]
  apply Finset.sum_congr rfl
  intro i _
  unfold ImplicitEngine.closedForm
  field_simp
  ring

/-- The only neighbour pair of `headOnProblemNoTtc` is `(0, 1)`. -/
theorem headOnProblemNoTtc_pairs :
    (headOnProblemNoTtc : ImplicitEngine ℝ).neighbourPairs = [(0, 1)] := by
  simp [ImplicitEngine.neighbourPairs, headOnProblemNoTtc, headOnProblem, headOnAgent,
    List.range_succ, List.filter_cons]

/-- The pair of `headOnProblem` for velocities `-s` and `s` along the x axis,
`1/2 ≤ s ≤ 1`: no tunnelling, `tti = dt = 1/5`, the centres end `6 - 2 s / 5`
apart and the distance term is `eta / (5 - 2 s / 5)`. -/
theorem head_on_pair_distance (ex : ℝ → ℝ) (pw : ℝ → ℝ → ℝ) (s : ℝ) (h0 : 1 / 2 ≤ s)
    (h1 : s ≤ 1) :
    ImplicitEngine.min_distance_energy ⟨Real.sqrt, ex, pw⟩ (1 / 5) (1 / 100)
      3 0 (-3) 0 (-s) 0 s 0 (1 / 2 + 1 / 2) none = (false, 1 / 100 / (5 - 2 * s / 5), none) := by
  have htti : max (min (((-3 - 3) * (-s - s) + (0 - 0) * (0 - 0)) /
      ((-s - s) * (-s - s) + (0 - 0) * (0 - 0) + 1 / 10000)) (1 / 5)) 0 = (1 / 5 : ℝ) := by
    have hden : (0 : ℝ) < (-s - s) * (-s - s) + (0 - 0) * (0 - 0) + 1 / 10000 := by nlinarith
    have hle : (1 / 5 : ℝ) ≤ ((-3 - 3) * (-s - s) + (0 - 0) * (0 - 0)) /
        ((-s - s) * (-s - s) + (0 - 0) * (0 - 0) + 1 / 10000) := by
      rw [le_div_iff₀ hden]
      nlinarith [mul_le_mul_of_nonneg_left h1 (show (0 : ℝ) ≤ s by linarith)]
    rw [min_eq_right hle]
    norm_num
  have hd : ((-s - s) * (1 / 5) - (-3 - 3)) * ((-s - s) * (1 / 5) - (-3 - 3)) +
      ((0 - 0) * (1 / 5) - (0 - 0)) * ((0 - 0) * (1 / 5) - (0 - 0)) =
      (6 - 2 * s / 5) * (6 - 2 * s / 5) := by ring
  have hsq : Real.sqrt ((6 - 2 * s / 5) * (6 - 2 * s / 5)) = 6 - 2 * s / 5 :=
    Real.sqrt_mul_self (by linarith)
  have hnot : ¬ (6 - 2 * s / 5) * (6 - 2 * s / 5) ≤ (1 / 2 + 1 / 2) * (1 / 2 + 1 / 2) := by
    nlinarith
  have hmin : min ((1 / 100 : ℝ) / (6 - 2 * s / 5 - (1 / 2 + 1 / 2))) 9000000000 =
      1 / 100 / (5 - 2 * s / 5) := by
    have h5 : 6 - 2 * s / 5 - (1 / 2 + 1 / 2) = 5 - 2 * s / 5 := by ring
    rw [h5]
    apply min_eq_left
    rw [div_le_iff₀ (by linarith)]
    linarith
  simp only [ImplicitEngine.min_distance_energy]
  rw [htti, hd, if_neg hnot, hsq, hmin]

/-- The energy of `headOnProblemNoTtc` for two agents moving along the x axis
with velocities `-s` and `s`, `1/2 ≤ s ≤ 1`: the quadratic part plus the
distance term of the pair. -/
theorem headOnProblemNoTtc_value (s : ℝ) (h0 : 1 / 2 ≤ s) (h1 : s ≤ 1) :
    ImplicitEngine.value ⟨Real.sqrt, Real.exp, fun a b => a ^ b⟩ headOnProblemNoTtc
      (fun i => if i = 0 then -s else if i = 1 then s else 0) =
      1 / 5 * (s * s) + 2 * ((1 - s) * (1 - s)) + 1 / 100 / (5 - 2 * s / 5) := by
  have hpair := head_on_pair_distance Real.exp (fun a b => a ^ b) s h0 h1
  have hno : ∀ p ∈ (headOnProblemNoTtc : ImplicitEngine ℝ).neighbourPairs,
      (headOnProblemNoTtc : ImplicitEngine ℝ).tunnels ⟨Real.sqrt, Real.exp, fun a b => a ^ b⟩
        (fun i => if i = 0 then -s else if i = 1 then s else 0) p.1 p.2 = false := by
    intro p hp
    rw [headOnProblemNoTtc_pairs, List.mem_singleton] at hp
    subst hp
    exact congrArg Prod.fst hpair
  rw [value_of_no_tunnel _ _ _ hno, headOnProblemNoTtc_pairs]
  have hq : (headOnProblemNoTtc : ImplicitEngine ℝ).quadratic
      (fun i => if i = 0 then -s else if i = 1 then s else 0) =
      1 / 5 * (s * s) + 2 * ((1 - s) * (1 - s)) := by
    simp only [ImplicitEngine.quadratic, headOnProblemNoTtc, headOnProblem, ImplicitEngine.init]
    simp only [Finset.sum_range_succ, Finset.sum_range_zero]
    norm_num
    ring
  have ht : (headOnProblemNoTtc : ImplicitEngine ℝ).ttcEnergy
      ⟨Real.sqrt, Real.exp, fun a b => a ^ b⟩
      (fun i => if i = 0 then -s else if i = 1 then s else 0) 0 1 = 0 := by
    unfold ImplicitEngine.ttcEnergy
    rw [show (headOnProblemNoTtc : ImplicitEngine ℝ).k = 0 from rfl, inverse_ttc_energy_of_k_zero]
  have hde : (headOnProblemNoTtc : ImplicitEngine ℝ).distanceEnergy
      ⟨Real.sqrt, Real.exp, fun a b => a ^ b⟩
      (fun i => if i = 0 then -s else if i = 1 then s else 0) 0 1 =
      1 / 100 / (5 - 2 * s / 5) :=
    congrArg (fun r => r.2.1) hpair
  simp only [List.map_cons, List.map_nil, List.sum_cons, List.sum_nil, ht, hde, hq]
  ring

/-- The pair of `headOnProblem` does not tunnel for velocities `-s` and `s`
along the x axis, `1/2 ≤ s ≤ 1`, whatever `eta` is. -/
theorem head_on_pair_flag (fn : MathFns ℝ) (eta s : ℝ) (h0 : 1 / 2 ≤ s) (h1 : s ≤ 1) :
    (ImplicitEngine.min_distance_energy fn (1 / 5) eta
      3 0 (-3) 0 (-s) 0 s 0 (1 / 2 + 1 / 2) none).1 = false := by
  have htti : max (min (((-3 - 3) * (-s - s) + (0 - 0) * (0 - 0)) /
      ((-s - s) * (-s - s) + (0 - 0) * (0 - 0) + 1 / 10000)) (1 / 5)) 0 = (1 / 5 : ℝ) := by
    have hden : (0 : ℝ) < (-s - s) * (-s - s) + (0 - 0) * (0 - 0) + 1 / 10000 := by nlinarith
    have hle : (1 / 5 : ℝ) ≤ ((-3 - 3) * (-s - s) + (0 - 0) * (0 - 0)) /
        ((-s - s) * (-s - s) + (0 - 0) * (0 - 0) + 1 / 10000) := by
      rw [le_div_iff₀ hden]
      nlinarith [mul_le_mul_of_nonneg_left h1 (show (0 : ℝ) ≤ s by linarith)]
    rw [min_eq_right hle]
    norm_num
  rw [min_distance_energy_flag, htti]
  apply decide_eq_false
  nlinarith

/-- C24, counterexample: in the packed state of the head-on scenario with
`k = 0` (and the default `eta = 1/100`) the closed form is `(-10/11, 0)` for
agent 0 and `(10/11, 0)` for agent 1, where the energy is `10321/56100`; at the
slightly slower velocities `(-19999/22000, 0)` and `(19999/22000, 0)` the energy
is lower, because the distance term of the pair remains. -/
theorem closed_form_not_minimiser_with_k_zero :
    (headOnProblemNoTtc : ImplicitEngine ℝ).k = 0 ∧
    (∀ i, (headOnProblemNoTtc : ImplicitEngine ℝ).closedForm i =
      (fun i => if i = 0 then -(10 / 11 : ℝ) else if i = 1 then 10 / 11 else 0) i) ∧
    ImplicitEngine.value ⟨Real.sqrt, Real.exp, fun a b => a ^ b⟩ headOnProblemNoTtc
      (fun i => if i = 0 then -(10 / 11 : ℝ) else if i = 1 then 10 / 11 else 0) =
        10321 / 56100 ∧
    ImplicitEngine.value ⟨Real.sqrt, Real.exp, fun a b => a ^ b⟩ headOnProblemNoTtc
      (fun i => if i = 0 then -(19999 / 22000 : ℝ) else if i = 1 then 19999 / 22000 else 0) <
    ImplicitEngine.value ⟨Real.sqrt, Real.exp, fun a b => a ^ b⟩ headOnProblemNoTtc
      (fun i => if i = 0 then -(10 / 11 : ℝ) else if i = 1 then 10 / 11 else 0) := by
  refine ⟨rfl, ?_, ?_, ?_⟩
  · intro i
    simp only [ImplicitEngine.closedForm, headOnProblemNoTtc, headOnProblem, ImplicitEngine.init]
    split_ifs <;> norm_num
  · rw [headOnProblemNoTtc_value (10 / 11) (by norm_num) (by norm_num)]
    norm_num
  · rw [headOnProblemNoTtc_value (10 / 11) (by norm_num) (by norm_num),
      headOnProblemNoTtc_value (19999 / 22000) (by norm_num) (by norm_num)]
    norm_num

/-- C24, amended: with `k = 0`, `inverse_ttc_energy` returns 0 and leaves the
gradient buffer unchanged for every input; and in a packed state with `k = 0`
and also `eta = 0`, `dt + ksi > 0`, whatever the neighbour lists are, the closed
form `(dt vel + ksi v_goal) / (dt + ksi)` minimises `value` among the
candidates at which no neighbour pair tunnels (provided no pair tunnels at the
closed form), and a candidate with the same energy agrees with the closed form
on every variable. -/
theorem closed_form_minimises_without_pair_terms (fn : MathFns K)
    (e : ImplicitEngine K) (v : Nat → K) (hk : e.k = 0) (heta : e.eta = 0)
    (hpos : 0 < e.dt + e.ksi)
    (hc : ∀ p ∈ e.neighbourPairs, e.tunnels fn e.closedForm p.1 p.2 = false)
    (hv : ∀ p ∈ e.neighbourPairs, e.tunnels fn v p.1 p.2 = false) :
    (∀ (dt p t0 eps Pa_x Pa_y Pb_x Pb_y Va_x Va_y Vb_x Vb_y R : K) (grad : Option (K × K)),
      ImplicitEngine.inverse_ttc_energy fn dt 0 p t0 eps
        Pa_x Pa_y Pb_x Pb_y Va_x Va_y Vb_x Vb_y R grad = (0, grad)) ∧
    ImplicitEngine.value fn e e.closedForm ≤ ImplicitEngine.value fn e v ∧
    (ImplicitEngine.value fn e v = ImplicitEngine.value fn e e.closedForm →
      ∀ i, i < e.noVars → v i = e.closedForm i) := by
  have hval : ∀ w : Nat → K, (∀ p ∈ e.neighbourPairs, e.tunnels fn w p.1 p.2 = false) →
      ImplicitEngine.value fn e w = e.quadratic w := by
    intro w hw
    rw [value_of_no_tunnel fn e w hw]
    have hz : (e.neighbourPairs.map
        (fun p => e.ttcEnergy fn w p.1 p.2 + e.distanceEnergy fn w p.1 p.2)) =
        e.neighbourPairs.map (fun _ => (0 : K)) := by
      apply List.map_congr_left
      intro p _
      unfold ImplicitEngine.ttcEnergy ImplicitEngine.distanceEnergy
      rw [hk, heta, inverse_ttc_energy_of_k_zero, min_distance_energy_of_eta_zero]
      simp
    rw [hz]
    simp
  have hsum : 0 ≤ Finset.sum (Finset.range e.noVars)
      (fun i => (v i - e.closedForm i) * (v i - e.closedForm i)) :=
    Finset.sum_nonneg (fun i _ => mul_self_nonneg _)
  refine ⟨fun dt p t0 eps Pa_x Pa_y Pb_x Pb_y Va_x Va_y Vb_x Vb_y R grad =>
    inverse_ttc_energy_of_k_zero fn dt p t0 eps Pa_x Pa_y Pb_x Pb_y Va_x Va_y Vb_x Vb_y R grad,
    ?_, ?_⟩
  · rw [hval v hv, hval _ hc, quadratic_eq_closedForm_add e v (ne_of_gt hpos)]
    have : 0 ≤ 1 / 2 * (e.dt + e.ksi) * Finset.sum (Finset.range e.noVars)
        (fun i => (v i - e.closedForm i) * (v i - e.closedForm i)) :=
      mul_nonneg (by linarith) hsum
    linarith
  · intro heq i hi
    rw [hval v hv, hval _ hc, quadratic_eq_closedForm_add e v (ne_of_gt hpos)] at heq
    have hz : Finset.sum (Finset.range e.noVars)
        (fun i => (v i - e.closedForm i) * (v i - e.closedForm i)) = 0 := by
      have h2 : 1 / 2 * (e.dt + e.ksi) * Finset.sum (Finset.range e.noVars)
          (fun i => (v i - e.closedForm i) * (v i - e.closedForm i)) = 0 := by linarith
      rcases mul_eq_zero.1 h2 with h | h
      · exfalso
        have : 0 < 1 / 2 * (e.dt + e.ksi) := by linarith
        linarith
      · exact h
    have hi0 := (Finset.sum_eq_zero_iff_of_nonneg (fun i _ => mul_self_nonneg _)).1 hz i
      (Finset.mem_range.2 hi)
    have := mul_self_eq_zero.1 hi0
    linarith

/-- C24, amended, instance: the head-on state with `k = 0` and `eta = 0`; the
closed form `(-10/11, 0)`, `(10/11, 0)` has at most the energy of the goal
velocities `(-1, 0)`, `(1, 0)`. -/
theorem closed_form_minimises_without_pair_terms_witness :
    ImplicitEngine.value ⟨Real.sqrt, Real.exp, fun a b => a ^ b⟩
      (headOnProblemNoPairTerms : ImplicitEngine ℝ)
      (headOnProblemNoPairTerms : ImplicitEngine ℝ).closedForm ≤
    ImplicitEngine.value ⟨Real.sqrt, Real.exp, fun a b => a ^ b⟩
      (headOnProblemNoPairTerms : ImplicitEngine ℝ)
      (fun i => if i = 0 then -(1 : ℝ) else if i = 1 then 1 else 0) := by
  have hp : (headOnProblemNoPairTerms : ImplicitEngine ℝ).neighbourPairs = [(0, 1)] := by
    simp [ImplicitEngine.neighbourPairs, headOnProblemNoPairTerms, headOnProblem, headOnAgent,
      List.range_succ, List.filter_cons]
  have hcf : (headOnProblemNoPairTerms : ImplicitEngine ℝ).closedForm =
      (fun i => if i = 0 then -(10 / 11 : ℝ) else if i = 1 then 10 / 11 else 0) := by
    funext i
    simp only [ImplicitEngine.closedForm, headOnProblemNoPairTerms, headOnProblem,
      ImplicitEngine.init]
    split_ifs <;> norm_num
  have hc : ∀ p ∈ (headOnProblemNoPairTerms : ImplicitEngine ℝ).neighbourPairs,
      (headOnProblemNoPairTerms : ImplicitEngine ℝ).tunnels
        ⟨Real.sqrt, Real.exp, fun a b => a ^ b⟩
        (headOnProblemNoPairTerms : ImplicitEngine ℝ).closedForm p.1 p.2 = false := by
    intro p hp1
    rw [hp, List.mem_singleton] at hp1
    subst hp1
    rw [hcf]
    exact head_on_pair_flag _ 0 (10 / 11) (by norm_num) (by norm_num)
  have hv : ∀ p ∈ (headOnProblemNoPairTerms : ImplicitEngine ℝ).neighbourPairs,
      (headOnProblemNoPairTerms : ImplicitEngine ℝ).tunnels
        ⟨Real.sqrt, Real.exp, fun a b => a ^ b⟩
        (fun i => if i = 0 then -(1 : ℝ) else if i = 1 then 1 else 0) p.1 p.2 = false := by
    intro p hp1
    rw [hp, List.mem_singleton] at hp1
    subst hp1
    exact head_on_pair_flag _ 0 1 (by norm_num) (by norm_num)
  have hpos : (0 : ℝ) < (headOnProblemNoPairTerms : ImplicitEngine ℝ).dt +
      (headOnProblemNoPairTerms : ImplicitEngine ℝ).ksi := by
    simp only [headOnProblemNoPairTerms, headOnProblem, ImplicitEngine.init]
    norm_num
  exact (closed_form_minimises_without_pair_terms _ _ _ rfl rfl hpos hc hv).2.1

end noTtc


/-! ## The sentinel returned when a pair tunnels -/

/-- Every neighbour pair is a listed pair. -/
theorem neighbourPairs_subset_listedPairs (e : ImplicitEngine K) :
    ∀ p ∈ e.neighbourPairs, p ∈ e.listedPairs := by
  intro p hp
  simp only [ImplicitEngine.neighbourPairs, ImplicitEngine.listedPairs, List.mem_flatMap,
    List.mem_range, List.mem_map, List.mem_filter, decide_eq_true_eq] at hp ⊢
  obtain ⟨i, hi, other, ⟨ho, hgt⟩, rfl⟩ := hp
  exact ⟨i, hi, other, ⟨ho, by omega⟩, rfl⟩

section sentinel

variable [LinearOrderedField K]

/-- The exit flag after one entry of `_nn[i]` in `value(vNew)`. -/
theorem valuePair_flag (fn : MathFns K) (e : ImplicitEngine K) (vNew posNew : Nat → K)
    (i : Nat) (st : K × Bool) (other : Nat) :
    (ImplicitEngine.valuePair fn e vNew posNew i st other).2 =
      (st.2 || (decide ((e.agents other).activeid > (i : Int)) &&
        e.tunnels fn vNew i (e.agents other).activeid.toNat)) := by
  unfold ImplicitEngine.valuePair ImplicitEngine.tunnels
  by_cases hs : st.2 = true
  · simp [hs]
  · have hs' : st.2 = false := by simpa using hs
    by_cases h : (e.agents other).activeid > (i : Int)
    · have hy : ((e.agents other).activeid + (e.activeAgents : Int)).toNat =
          (e.agents other).activeid.toNat + e.activeAgents := by omega
      simp only [hs', Bool.false_eq_true, if_false, h, if_true, hy, decide_True, Bool.true_and,
        Bool.false_or]
      split_ifs with ht
      · exact ht.symm
      · simpa using ht
    · simp [hs', h]

/-- The exit flag after the inner loop of `value(vNew)`. -/
theorem value_inner_flag (fn : MathFns K) (e : ImplicitEngine K) (vNew posNew : Nat → K)
    (i : Nat) : ∀ (l : List Nat) (st : K × Bool),
    (l.foldl (ImplicitEngine.valuePair fn e vNew posNew i) st).2 =
      (st.2 || l.any (fun other => decide ((e.agents other).activeid > (i : Int)) &&
        e.tunnels fn vNew i (e.agents other).activeid.toNat))
  | [], st => by simp
  | other :: l, st => by
    rw [List.foldl_cons, value_inner_flag fn e vNew posNew i l, valuePair_flag, List.any_cons,
      Bool.or_assoc]

/-- The exit flag after the outer loop of `value(vNew)`. -/
theorem value_outer_flag (fn : MathFns K) (e : ImplicitEngine K) (vNew posNew : Nat → K) :
    ∀ (is : List Nat) (st : K × Bool),
    (is.foldl (fun (st : K × Bool) i =>
        if !st.2 then (e.nn i).foldl (ImplicitEngine.valuePair fn e vNew posNew i) st
        else st) st).2 =
      (st.2 || is.any (fun i => (e.nn i).any
        (fun other => decide ((e.agents other).activeid > (i : Int)) &&
          e.tunnels fn vNew i (e.agents other).activeid.toNat)))
  | [], st => by simp
  | i :: is, st => by
    rw [List.foldl_cons, value_outer_flag fn e vNew posNew is, List.any_cons]
    by_cases hs : st.2 = true
    · simp [hs]
    · have hs' : st.2 = false := by simpa using hs
      simp only [hs', Bool.not_false, if_true, Bool.false_or]
      rw [value_inner_flag, hs', Bool.false_or]

/-- Some neighbour pair tunnels exactly when the flag of the loops of
`value(vNew)` is raised. -/
theorem any_tunnels_iff (fn : MathFns K) (e : ImplicitEngine K) (vNew : Nat → K) :
    (List.range e.activeAgents).any (fun i => (e.nn i).any
        (fun other => decide ((e.agents other).activeid > (i : Int)) &&
          e.tunnels fn vNew i (e.agents other).activeid.toNat)) = true ↔
    ∃ p ∈ e.neighbourPairs, e.tunnels fn vNew p.1 p.2 = true := by
  simp only [List.any_eq_true, List.mem_range, Bool.and_eq_true, decide_eq_true_eq,
    ImplicitEngine.neighbourPairs, List.mem_flatMap, List.mem_map, List.mem_filter]
  constructor
  · rintro ⟨i, hi, other, ho, hgt, ht⟩
    exact ⟨(i, (e.agents other).activeid.toNat), ⟨i, hi, other, ⟨ho, hgt⟩, rfl⟩, ht⟩
  · rintro ⟨p, ⟨i, hi, other, ⟨ho, hgt⟩, rfl⟩, ht⟩
    exact ⟨i, hi, other, ho, hgt, ht⟩

/-- If some neighbour pair tunnels, `value(vNew)` returns `9e9`. -/
theorem value_of_tunnel (fn : MathFns K) (e : ImplicitEngine K) (v : Nat → K)
    (h : ∃ p ∈ e.neighbourPairs, e.tunnels fn v p.1 p.2 = true) :
    ImplicitEngine.value fn e v = 9000000000 := by
  unfold ImplicitEngine.value
  simp only []
  rw [value_outer_flag, Bool.false_or, (any_tunnels_iff fn e v).2 h]
  rfl

/-- The energy `inverse_ttc_energy` returns does not depend on the gradient
buffer. -/
theorem inverse_ttc_energy_fst (fn : MathFns K)
    (dt k p t0 eps Pa_x Pa_y Pb_x Pb_y Va_x Va_y Vb_x Vb_y R : K) (grad : Option (K × K)) :
    (ImplicitEngine.inverse_ttc_energy fn dt k p t0 eps
      Pa_x Pa_y Pb_x Pb_y Va_x Va_y Vb_x Vb_y R grad).1 =
    (ImplicitEngine.inverse_ttc_energy fn dt k p t0 eps
      Pa_x Pa_y Pb_x Pb_y Va_x Va_y Vb_x Vb_y R none).1 := by
  cases grad with
  | none => rfl
  | some g =>
    simp only [ImplicitEngine.inverse_ttc_energy]
    split_ifs <;> rfl

/-- The flag and the energy of `min_distance_energy` do not depend on the
gradient buffer. -/
theorem min_distance_energy_fst (fn : MathFns K) (dt eta : K)
    (Pa_x Pa_y Pb_x Pb_y Va_x Va_y Vb_x Vb_y R : K) (grad : Option (K × K)) :
    (ImplicitEngine.min_distance_energy fn dt eta
      Pa_x Pa_y Pb_x Pb_y Va_x Va_y Vb_x Vb_y R grad).1 =
    (ImplicitEngine.min_distance_energy fn dt eta
      Pa_x Pa_y Pb_x Pb_y Va_x Va_y Vb_x Vb_y R none).1 ∧
    (ImplicitEngine.min_distance_energy fn dt eta
      Pa_x Pa_y Pb_x Pb_y Va_x Va_y Vb_x Vb_y R grad).2.1 =
    (ImplicitEngine.min_distance_energy fn dt eta
      Pa_x Pa_y Pb_x Pb_y Va_x Va_y Vb_x Vb_y R none).2.1 := by
  cases grad with
  | none => exact ⟨rfl, rfl⟩
  | some g =>
    simp only [ImplicitEngine.min_distance_energy]
    split_ifs <;> exact ⟨rfl, rfl⟩

/-- One entry of `_nn[i]` in `value(vNew, grad)`, for a non-negative active id:
the flag is raised when the entry is not the agent itself and the pair
tunnels; otherwise the energy grows by the two terms of the pair when the
active id is above `i`. -/
theorem valueGradPair_fst (fn : MathFns K) (e : ImplicitEngine K) (vNew : Nat → K)
    (i : Nat) (f : K) (g : Nat → K) (other : Nat) (hid : 0 ≤ (e.agents other).activeid) :
    (ImplicitEngine.valueGradPair fn e vNew (fun i => e.pos i + vNew i * e.dt) i
      (f, false, g) other).2.1 =
      (decide ((e.agents other).activeid ≠ (i : Int)) &&
        e.tunnels fn vNew i (e.agents other).activeid.toNat) ∧
    ((ImplicitEngine.valueGradPair fn e vNew (fun i => e.pos i + vNew i * e.dt) i
      (f, false, g) other).2.1 = false →
      (ImplicitEngine.valueGradPair fn e vNew (fun i => e.pos i + vNew i * e.dt) i
        (f, false, g) other).1 =
        if (e.agents other).activeid > (i : Int) then
          f + (e.ttcEnergy fn vNew i (e.agents other).activeid.toNat +
            e.distanceEnergy fn vNew i (e.agents other).activeid.toNat)
        else f) := by
  have hy : ((e.agents other).activeid + (e.activeAgents : Int)).toNat =
      (e.agents other).activeid.toNat + e.activeAgents := by omega
  unfold ImplicitEngine.valueGradPair ImplicitEngine.tunnels ImplicitEngine.ttcEnergy
    ImplicitEngine.distanceEnergy
  by_cases h : (e.agents other).activeid = (i : Int)
  · have hle : ¬ (e.agents other).activeid > (i : Int) := by omega
    simp [h]
  · simp only [Bool.false_eq_true, if_false, ne_eq, h, not_false_eq_true, if_true, hy,
      decide_True, Bool.true_and]
    rw [(min_distance_energy_fst fn e.dt e.eta _ _ _ _ _ _ _ _ _ (some (0, 0))).1]
    by_cases ht : (ImplicitEngine.min_distance_energy fn e.dt e.eta (e.pos i)
        (e.pos (i + e.activeAgents)) (e.pos (e.agents other).activeid.toNat)
        (e.pos ((e.agents other).activeid.toNat + e.activeAgents)) (vNew i)
        (vNew (i + e.activeAgents)) (vNew (e.agents other).activeid.toNat)
        (vNew ((e.agents other).activeid.toNat + e.activeAgents))
        (e.radius i + e.radius (e.agents other).activeid.toNat) none).1 = true
    · rw [if_pos ht]
      exact ⟨ht.symm, fun hc => absurd hc (by simp)⟩
    · rw [if_neg ht]
      refine ⟨by simpa using ht, fun _ => ?_⟩
      by_cases hgt : (e.agents other).activeid > (i : Int)
      · rw [if_pos hgt, if_pos hgt, inverse_ttc_energy_fst,
          (min_distance_energy_fst fn e.dt e.eta _ _ _ _ _ _ _ _ _ (some (0, 0))).2, add_assoc]
      · rw [if_neg hgt, if_neg hgt]

/-- Once the flag is raised an entry leaves the state of `value(vNew, grad)`
unchanged, and so does the rest of a list. -/
theorem valueGrad_inner_of_exit (fn : MathFns K) (e : ImplicitEngine K) (vNew posNew : Nat → K)
    (i : Nat) : ∀ (l : List Nat) (st : K × Bool × (Nat → K)), st.2.1 = true →
    l.foldl (ImplicitEngine.valueGradPair fn e vNew posNew i) st = st
  | [], _, _ => rfl
  | other :: l, st, h => by
    have h1 : ImplicitEngine.valueGradPair fn e vNew posNew i st other = st := by
      unfold ImplicitEngine.valueGradPair
      rw [if_pos h]
    rw [List.foldl_cons, h1]
    exact valueGrad_inner_of_exit fn e vNew posNew i l st h

/-- The inner loop of `value(vNew, grad)` over entries with non-negative active
ids: the flag is raised exactly when some entry other than the agent itself
tunnels; otherwise the energy has grown by the terms of the entries with
active id above `i`. -/
theorem valueGrad_inner_loop (fn : MathFns K) (e : ImplicitEngine K) (vNew : Nat → K) (i : Nat) :
    ∀ (l : List Nat) (f : K) (g : Nat → K), (∀ other ∈ l, 0 ≤ (e.agents other).activeid) →
    (l.foldl (ImplicitEngine.valueGradPair fn e vNew (fun i => e.pos i + vNew i * e.dt) i)
      (f, false, g)).2.1 =
      l.any (fun other => decide ((e.agents other).activeid ≠ (i : Int)) &&
        e.tunnels fn vNew i (e.agents other).activeid.toNat) ∧
    ((l.foldl (ImplicitEngine.valueGradPair fn e vNew (fun i => e.pos i + vNew i * e.dt) i)
      (f, false, g)).2.1 = false →
      (l.foldl (ImplicitEngine.valueGradPair fn e vNew (fun i => e.pos i + vNew i * e.dt) i)
        (f, false, g)).1 =
      f + (((l.filter (fun other => decide ((e.agents other).activeid > (i : Int)))).map
        (fun other => (i, (e.agents other).activeid.toNat))).map
          (fun p => e.ttcEnergy fn vNew p.1 p.2 + e.distanceEnergy fn vNew p.1 p.2)).sum)
  | [], f, g, _ => by simp
  | other :: l, f, g, hid => by
    obtain ⟨hflag, hen⟩ := valueGradPair_fst fn e vNew i f g other (hid other (List.mem_cons_self _ _))
    rw [List.foldl_cons, List.any_cons]
    generalize hs : ImplicitEngine.valueGradPair fn e vNew (fun i => e.pos i + vNew i * e.dt) i
      (f, false, g) other = s1 at hflag hen
    by_cases hb : s1.2.1 = true
    · rw [valueGrad_inner_of_exit fn e vNew _ i l s1 hb, ← hflag, hb]
      exact ⟨by simp, fun hc => absurd hc (by simp)⟩
    · have hb' : s1.2.1 = false := by simpa using hb
      have hs1 : s1 = (s1.1, false, s1.2.2) := by
        rw [← hb']
      obtain ⟨ih1, ih2⟩ := valueGrad_inner_loop fn e vNew i l s1.1 s1.2.2
        (fun o ho => hid o (List.mem_cons_of_mem _ ho))
      rw [← hs1] at ih1 ih2
      rw [← hflag, hb', Bool.false_or]
      refine ⟨ih1, fun hc => ?_⟩
      rw [ih2 hc, hen hb']
      by_cases hgt : (e.agents other).activeid > (i : Int)
      · simp [List.filter_cons, hgt, add_assoc]
      · simp [List.filter_cons, hgt]

/-- The outer loop of `value(vNew, grad)` over agents whose lists hold
non-negative active ids. -/
theorem valueGrad_outer_loop (fn : MathFns K) (e : ImplicitEngine K) (vNew : Nat → K) :
    ∀ (is : List Nat) (f : K) (g : Nat → K),
    (∀ i ∈ is, ∀ other ∈ e.nn i, 0 ≤ (e.agents other).activeid) →
    (is.foldl (fun (st : K × Bool × (Nat → K)) i =>
        if !st.2.1 then (e.nn i).foldl
          (ImplicitEngine.valueGradPair fn e vNew (fun i => e.pos i + vNew i * e.dt) i) st
        else st) (f, false, g)).2.1 =
      is.any (fun i => (e.nn i).any
        (fun other => decide ((e.agents other).activeid ≠ (i : Int)) &&
          e.tunnels fn vNew i (e.agents other).activeid.toNat)) ∧
    ((is.foldl (fun (st : K × Bool × (Nat → K)) i =>
        if !st.2.1 then (e.nn i).foldl
          (ImplicitEngine.valueGradPair fn e vNew (fun i => e.pos i + vNew i * e.dt) i) st
        else st) (f, false, g)).2.1 = false →
      (is.foldl (fun (st : K × Bool × (Nat → K)) i =>
        if !st.2.1 then (e.nn i).foldl
          (ImplicitEngine.valueGradPair fn e vNew (fun i => e.pos i + vNew i * e.dt) i) st
        else st) (f, false, g)).1 =
      f + ((is.flatMap (fun i =>
        ((e.nn i).filter (fun other => decide ((e.agents other).activeid > (i : Int)))).map
          (fun other => (i, (e.agents other).activeid.toNat)))).map
          (fun p => e.ttcEnergy fn vNew p.1 p.2 + e.distanceEnergy fn vNew p.1 p.2)).sum)
  | [], f, g, _ => by simp
  | i :: is, f, g, hid => by
    obtain ⟨hflag, hen⟩ := valueGrad_inner_loop fn e vNew i (e.nn i) f g
      (hid i (List.mem_cons_self _ _))
    rw [List.foldl_cons, List.any_cons]
    simp only [Bool.not_false, if_true]
    generalize hs : (e.nn i).foldl
      (ImplicitEngine.valueGradPair fn e vNew (fun i => e.pos i + vNew i * e.dt) i)
      (f, false, g) = s1 at hflag hen
    by_cases hb : s1.2.1 = true
    · have hstay : ∀ (js : List Nat), js.foldl (fun (st : K × Bool × (Nat → K)) i =>
          if !st.2.1 then (e.nn i).foldl
            (ImplicitEngine.valueGradPair fn e vNew (fun i => e.pos i + vNew i * e.dt) i) st
          else st) s1 = s1 := by
        intro js
        induction js with
        | nil => rfl
        | cons j js ih => rw [List.foldl_cons]; simp only [hb, Bool.not_true]; exact ih
      rw [hstay, ← hflag, hb]
      exact ⟨by simp, fun hc => absurd hc (by simp)⟩
    · have hb' : s1.2.1 = false := by simpa using hb
      have hs1 : s1 = (s1.1, false, s1.2.2) := by
        rw [← hb']
      obtain ⟨ih1, ih2⟩ := valueGrad_outer_loop fn e vNew is s1.1 s1.2.2
        (fun j hj => hid j (List.mem_cons_of_mem _ hj))
      rw [← hs1] at ih1 ih2
      rw [← hflag, hb', Bool.false_or]
      refine ⟨ih1, fun hc => ?_⟩
      rw [ih2 hc, hen hb']
      simp [List.flatMap_cons, add_assoc]

/-- Some listed pair tunnels exactly when the flag of the loops of
`value(vNew, grad)` is raised. -/
theorem any_listed_tunnels_iff (fn : MathFns K) (e : ImplicitEngine K) (vNew : Nat → K) :
    (List.range e.activeAgents).any (fun i => (e.nn i).any
        (fun other => decide ((e.agents other).activeid ≠ (i : Int)) &&
          e.tunnels fn vNew i (e.agents other).activeid.toNat)) = true ↔
    ∃ p ∈ e.listedPairs, e.tunnels fn vNew p.1 p.2 = true := by
  simp only [List.any_eq_true, List.mem_range, Bool.and_eq_true, decide_eq_true_eq,
    ImplicitEngine.listedPairs, List.mem_flatMap, List.mem_map, List.mem_filter]
  constructor
  · rintro ⟨i, hi, other, ho, hne, ht⟩
    exact ⟨(i, (e.agents other).activeid.toNat), ⟨i, hi, other, ⟨ho, hne⟩, rfl⟩, ht⟩
  · rintro ⟨p, ⟨i, hi, other, ⟨ho, hne⟩, rfl⟩, ht⟩
    exact ⟨i, hi, other, ho, hne, ht⟩

/-- The energy `value(vNew, grad)` returns, for lists holding non-negative
active ids: `9e9` if some listed pair tunnels, and otherwise the quadratic part
plus the energies of the neighbour pairs. -/
theorem valueGrad_fst (fn : MathFns K) (e : ImplicitEngine K) (v : Nat → K)
    (hid : ∀ i, i < e.activeAgents → ∀ other ∈ e.nn i, 0 ≤ (e.agents other).activeid) :
    ((∃ p ∈ e.listedPairs, e.tunnels fn v p.1 p.2 = true) →
      (ImplicitEngine.valueGrad fn e v).1 = 9000000000) ∧
    ((∀ p ∈ e.listedPairs, e.tunnels fn v p.1 p.2 = false) →
      (ImplicitEngine.valueGrad fn e v).1 =
        e.quadratic v + (e.neighbourPairs.map
          (fun p => e.ttcEnergy fn v p.1 p.2 + e.distanceEnergy fn v p.1 p.2)).sum) := by
  obtain ⟨hflag, hen⟩ := valueGrad_outer_loop fn e v (List.range e.activeAgents)
    (e.quadratic v) (fun i => e.ksi * (v i - e.vGoal i) + (1 / e.dt) * (v i - e.vel i))
    (fun i hi => hid i (List.mem_range.1 hi))
  constructor
  · intro h
    have h1 := (any_listed_tunnels_iff fn e v).2 h
    rw [← hflag] at h1
    unfold ImplicitEngine.valueGrad
    simp only []
    unfold ImplicitEngine.quadratic at h1
    rw [if_pos h1]
  · intro h
    have h1 : ¬ (List.range e.activeAgents).any (fun i => (e.nn i).any
        (fun other => decide ((e.agents other).activeid ≠ (i : Int)) &&
          e.tunnels fn v i (e.agents other).activeid.toNat)) = true := by
      rw [any_listed_tunnels_iff]
      rintro ⟨p, hp, ht⟩
      rw [h p hp] at ht
      exact absurd ht (by simp)
    rw [← hflag] at h1
    have h2 := hen (by simpa using h1)
    unfold ImplicitEngine.valueGrad
    simp only []
    unfold ImplicitEngine.quadratic at h1 h2
    rw [if_neg h1, h2]
    rfl

/-- Swapping the two agents of a pair leaves the tunnelling flag unchanged. -/
theorem tunnels_symm (fn : MathFns K) (e : ImplicitEngine K) (v : Nat → K) (i j : Nat) :
    e.tunnels fn v i j = e.tunnels fn v j i := by
  unfold ImplicitEngine.tunnels
  rw [min_distance_energy_flag, min_distance_energy_flag]
  have hX : ∀ a b : K, a - b = -(b - a) := fun a b => by ring
  rw [hX (e.pos i) (e.pos j), hX (e.pos (i + e.activeAgents)) (e.pos (j + e.activeAgents)),
    hX (v j) (v i), hX (v (j + e.activeAgents)) (v (i + e.activeAgents)),
    add_comm (e.radius j) (e.radius i)]
  simp only [neg_mul_neg]
  generalize max (min (((e.pos j - e.pos i) * (v i - v j) +
    (e.pos (j + e.activeAgents) - e.pos (i + e.activeAgents)) *
      (v (i + e.activeAgents) - v (j + e.activeAgents))) /
    ((v i - v j) * (v i - v j) + (v (i + e.activeAgents) - v (j + e.activeAgents)) *
      (v (i + e.activeAgents) - v (j + e.activeAgents)) + 1 / 10000)) e.dt) 0 = tti
  have h1 : ∀ a b : K, (-a * tti - -b) * (-a * tti - -b) = (a * tti - b) * (a * tti - b) :=
    fun a b => by ring
  rw [h1, h1]

/-- C25, amended: in a state whose lists hold non-negative active ids (the
ranks a pack assigns), evaluated in index order: `value(v)` returns exactly
`9e9` if some pair `(i, j)` with `i < j` and `j` in `nn[i]` tunnels, and the
quadratic part plus the sum of the pair energies otherwise; `value(v, grad)`
returns exactly `9e9` if some pair `(i, j)` with `j ≠ i` and `j` in `nn[i]`
tunnels, in either order, and the same sum otherwise.  So both return `9e9`
when a pair with `i < j` tunnels, and when the lists are symmetric the two
conditions are the same. -/
theorem objective_sentinel (fn : MathFns K) (e : ImplicitEngine K) (v : Nat → K)
    (hid : ∀ i, i < e.activeAgents → ∀ other ∈ e.nn i, 0 ≤ (e.agents other).activeid) :
    ((∃ p ∈ e.neighbourPairs, e.tunnels fn v p.1 p.2 = true) →
      ImplicitEngine.value fn e v = 9000000000 ∧
      (ImplicitEngine.valueGrad fn e v).1 = 9000000000) ∧
    ((∀ p ∈ e.neighbourPairs, e.tunnels fn v p.1 p.2 = false) →
      ImplicitEngine.value fn e v =
        e.quadratic v + (e.neighbourPairs.map
          (fun p => e.ttcEnergy fn v p.1 p.2 + e.distanceEnergy fn v p.1 p.2)).sum) ∧
    ((∃ p ∈ e.listedPairs, e.tunnels fn v p.1 p.2 = true) →
      (ImplicitEngine.valueGrad fn e v).1 = 9000000000) ∧
    ((∀ p ∈ e.listedPairs, e.tunnels fn v p.1 p.2 = false) →
      (ImplicitEngine.valueGrad fn e v).1 =
        e.quadratic v + (e.neighbourPairs.map
          (fun p => e.ttcEnergy fn v p.1 p.2 + e.distanceEnergy fn v p.1 p.2)).sum) ∧
    ((∀ i j, (i, j) ∈ e.listedPairs → (j, i) ∈ e.listedPairs) →
      ((∃ p ∈ e.listedPairs, e.tunnels fn v p.1 p.2 = true) ↔
        (∃ p ∈ e.neighbourPairs, e.tunnels fn v p.1 p.2 = true))) := by
  obtain ⟨hg1, hg2⟩ := valueGrad_fst fn e v hid
  have hsub := neighbourPairs_subset_listedPairs e
  refine ⟨fun h => ⟨value_of_tunnel fn e v h, hg1 ?_⟩, value_of_no_tunnel fn e v, hg1, hg2,
    fun hsym => ⟨?_, ?_⟩⟩
  · obtain ⟨p, hp, ht⟩ := h
    exact ⟨p, hsub p hp, ht⟩
  · rintro ⟨⟨i, j⟩, hp, ht⟩
    have key : ∀ a b, (a, b) ∈ e.listedPairs → a < b → (a, b) ∈ e.neighbourPairs := by
      intro a b hab hlt
      simp only [ImplicitEngine.neighbourPairs, ImplicitEngine.listedPairs, List.mem_flatMap,
        List.mem_range, List.mem_map, List.mem_filter, decide_eq_true_eq, Prod.mk.injEq]
        at hab ⊢
      obtain ⟨i', hi', other, ⟨ho, _⟩, rfl, rfl⟩ := hab
      have h0 := hid i' hi' other ho
      exact ⟨i', hi', other, ⟨ho, by omega⟩, rfl, rfl⟩
    have hne : i ≠ j := by
      have hab := hp
      simp only [ImplicitEngine.listedPairs, List.mem_flatMap, List.mem_range, List.mem_map,
        List.mem_filter, decide_eq_true_eq, Prod.mk.injEq] at hab
      obtain ⟨i', hi', other, ⟨ho, hne⟩, rfl, rfl⟩ := hab
      have h0 := hid i' hi' other ho
      omega
    rcases Nat.lt_or_gt_of_ne hne with hlt | hgt
    · exact ⟨(i, j), key i j hp hlt, ht⟩
    · refine ⟨(j, i), key j i (hsym i j hp) hgt, ?_⟩
      rw [← ht]
      exact tunnels_symm fn e v j i
  · rintro ⟨p, hp, ht⟩
    exact ⟨p, hsub p hp, ht⟩

end sentinel


/-! ## Arithmetic of finite `double` values -/

section xdouble

variable [LinearOrderedField K]

@[simp] theorem XDouble.fin_add (a b : K) :
    (XDouble.fin a + XDouble.fin b : XDouble K) = XDouble.fin (a + b) := rfl

@[simp] theorem XDouble.fin_neg (a : K) : (-XDouble.fin a : XDouble K) = XDouble.fin (-a) := rfl

@[simp] theorem XDouble.fin_sub (a b : K) :
    (XDouble.fin a - XDouble.fin b : XDouble K) = XDouble.fin (a - b) := by
  show XDouble.fin (a + -b) = XDouble.fin (a - b)
  rw [sub_eq_add_neg]

@[simp] theorem XDouble.fin_mul (a b : K) :
    (XDouble.fin a * XDouble.fin b : XDouble K) = XDouble.fin (a * b) := rfl

theorem XDouble.fin_div (a b : K) (h : b ≠ 0) :
    (XDouble.fin a / XDouble.fin b : XDouble K) = XDouble.fin (a / b) := by
  show (if b = 0 then XDouble.signedInf a else XDouble.fin (a / b)) = _
  rw [if_neg h]

theorem XDouble.fin_div_zero (a : K) :
    (XDouble.fin a / XDouble.fin 0 : XDouble K) = XDouble.signedInf a := by
  show (if (0 : K) = 0 then XDouble.signedInf a else XDouble.fin (a / 0)) = _
  rw [if_pos rfl]

@[simp] theorem XDouble.lt_fin (a b : K) :
    (XDouble.fin a).lt (XDouble.fin b) = decide (a < b) := rfl

@[simp] theorem XDouble.le_fin (a b : K) :
    (XDouble.fin a).le (XDouble.fin b) = decide (a ≤ b) := rfl

@[simp] theorem XDouble.eq_fin (a b : K) :
    (XDouble.fin a).eq (XDouble.fin b) = decide (a = b) := rfl

@[simp] theorem XDouble.abs_fin (a : K) : (XDouble.fin a).abs = XDouble.fin |a| := rfl

theorem XDouble.max_fin (a b : K) :
    XDouble.max (XDouble.fin a) (XDouble.fin b) = XDouble.fin (Max.max a b) := by
  unfold XDouble.max
  rw [XDouble.lt_fin]
  by_cases h : a < b
  · rw [if_pos (decide_eq_true h), max_eq_right h.le]
  · rw [if_neg (by simpa using h), max_eq_left (not_lt.1 h)]

theorem XDouble.sqrt_fin (sqrt : K → K) (a : K) (h : 0 ≤ a) :
    (XDouble.fin a).sqrt sqrt = XDouble.fin (sqrt a) := by
  show (if a < 0 then XDouble.nan else XDouble.fin (sqrt a)) = _
  rw [if_neg (not_lt.2 h)]

/-- NaN absorbs every operation and fails every comparison. -/
theorem XDouble.nan_ops (x : XDouble K) :
    (XDouble.nan + x = XDouble.nan) ∧ (x + XDouble.nan = XDouble.nan) ∧
    (XDouble.nan - x = XDouble.nan) ∧ (x - XDouble.nan = XDouble.nan) ∧
    (XDouble.nan * x = XDouble.nan) ∧ (x * XDouble.nan = XDouble.nan) ∧
    (XDouble.nan / x = XDouble.nan) ∧ (x / XDouble.nan = XDouble.nan) ∧
    (-(XDouble.nan : XDouble K) = XDouble.nan) ∧
    (XDouble.nan : XDouble K).lt x = false ∧ x.lt XDouble.nan = false ∧
    (XDouble.nan : XDouble K).le x = false ∧ x.le XDouble.nan = false ∧
    (XDouble.nan : XDouble K).eq x = false ∧ x.eq XDouble.nan = false := by
  cases x <;> exact ⟨rfl, rfl, rfl, rfl, rfl, rfl, rfl, rfl, rfl, rfl, rfl, rfl, rfl, rfl, rfl⟩

@[simp] theorem XDouble.nan_add (x : XDouble K) : XDouble.nan + x = XDouble.nan :=
  (XDouble.nan_ops x).1

@[simp] theorem XDouble.add_nan (x : XDouble K) : x + XDouble.nan = XDouble.nan :=
  (XDouble.nan_ops x).2.1

@[simp] theorem XDouble.nan_sub (x : XDouble K) : XDouble.nan - x = XDouble.nan :=
  (XDouble.nan_ops x).2.2.1

@[simp] theorem XDouble.sub_nan (x : XDouble K) : x - XDouble.nan = XDouble.nan :=
  (XDouble.nan_ops x).2.2.2.1

@[simp] theorem XDouble.nan_mul (x : XDouble K) : XDouble.nan * x = XDouble.nan :=
  (XDouble.nan_ops x).2.2.2.2.1

@[simp] theorem XDouble.mul_nan (x : XDouble K) : x * XDouble.nan = XDouble.nan :=
  (XDouble.nan_ops x).2.2.2.2.2.1

@[simp] theorem XDouble.nan_div (x : XDouble K) : XDouble.nan / x = XDouble.nan :=
  (XDouble.nan_ops x).2.2.2.2.2.2.1

@[simp] theorem XDouble.div_nan (x : XDouble K) : x / XDouble.nan = XDouble.nan :=
  (XDouble.nan_ops x).2.2.2.2.2.2.2.1

@[simp] theorem XDouble.neg_nan : -(XDouble.nan : XDouble K) = XDouble.nan := rfl

@[simp] theorem XDouble.nan_lt (x : XDouble K) : (XDouble.nan : XDouble K).lt x = false :=
  (XDouble.nan_ops x).2.2.2.2.2.2.2.2.2.1

@[simp] theorem XDouble.lt_nan (x : XDouble K) : x.lt XDouble.nan = false :=
  (XDouble.nan_ops x).2.2.2.2.2.2.2.2.2.2.1

@[simp] theorem XDouble.nan_le (x : XDouble K) : (XDouble.nan : XDouble K).le x = false :=
  (XDouble.nan_ops x).2.2.2.2.2.2.2.2.2.2.2.1

@[simp] theorem XDouble.nan_eq (x : XDouble K) : (XDouble.nan : XDouble K).eq x = false :=
  (XDouble.nan_ops x).2.2.2.2.2.2.2.2.2.2.2.2.2.1

/-- The dot product of two finite vectors. -/
theorem XDouble.dot_fin (u v : Nat → K) : ∀ n,
    XDouble.dot n (fun i => XDouble.fin (u i)) (fun i => XDouble.fin (v i)) =
      XDouble.fin (Finset.sum (Finset.range n) (fun i => u i * v i)) := by
  intro n
  unfold XDouble.dot
  induction n with
  | zero => rfl
  | succ n ih =>
    rw [List.range_succ, List.foldl_append, ih, Finset.sum_range_succ]
    rfl

/-- The largest entry of a finite non-empty array: `maxCoeff` returns an
entry that is at least every entry. -/
theorem XDouble.maxCoeff_fin (u : Nat → K) : ∀ n,
    ∃ M, XDouble.maxCoeff (n + 1) (fun i => XDouble.fin (u i)) = XDouble.fin M ∧
      (∀ i, i < n + 1 → u i ≤ M) ∧ ∃ i, i < n + 1 ∧ M = u i := by
  intro n
  unfold XDouble.maxCoeff
  simp only []
  induction n with
  | zero => exact ⟨u 0, rfl, fun i hi => by rw [Nat.lt_one_iff.1 hi], 0, Nat.zero_lt_one, rfl⟩
  | succ n ih =>
    obtain ⟨M, hM, hle, i, hi, hMi⟩ := ih
    rw [List.range_succ, List.foldl_append, hM]
    refine ⟨Max.max M (u (n + 1)), ?_, ?_, ?_⟩
    · simp only [List.foldl_cons, List.foldl_nil]
      exact XDouble.max_fin _ _
    · intro j hj
      rcases Nat.lt_succ_iff_lt_or_eq.1 hj with h | h
      · exact le_trans (hle j h) (le_max_left _ _)
      · rw [h]; exact le_max_right _ _
    · rcases le_total M (u (n + 1)) with h | h
      · exact ⟨n + 1, Nat.lt_succ_self _, max_eq_right h⟩
      · exact ⟨i, Nat.lt_succ_of_lt hi, by rw [max_eq_left h, hMi]⟩

end xdouble

/-! ## One iteration of the line search -/

section lineSearchStep

variable [LinearOrderedField K]

/-- A trial step below `alpha_min` is returned at once. -/
theorem linesearchLoop_of_below (sqrt : K → K) (value : (Nat → XDouble K) → XDouble K)
    (x0 d : Nat → XDouble K) (phi0 phi_prime alpha_min : XDouble K) (fuel : Nat)
    (alpha alpha_prev phi_prev : XDouble K) (h : alpha.lt alpha_min = true) :
    ImplicitEngine.linesearchLoop sqrt value x0 d phi0 phi_prime alpha_min (fuel + 1)
      alpha alpha_prev phi_prev = some alpha := by
  unfold ImplicitEngine.linesearchLoop
  simp only [h, if_true]

/-- A trial step not below `alpha_min` is returned when the objective there is
strictly below `phi0 + 1e-4 alpha phi'`. -/
theorem linesearchLoop_of_decrease (sqrt : K → K) (value : (Nat → XDouble K) → XDouble K)
    (x0 d : Nat → XDouble K) (phi0 phi_prime alpha_min : XDouble K) (fuel : Nat)
    (alpha alpha_prev phi_prev : XDouble K) (h : alpha.lt alpha_min = false)
    (hd : (value (fun i => x0 i + alpha * d i)).lt
      (phi0 + XDouble.fin (1 / 10000) * alpha * phi_prime) = true) :
    ImplicitEngine.linesearchLoop sqrt value x0 d phi0 phi_prime alpha_min (fuel + 1)
      alpha alpha_prev phi_prev = some alpha := by
  unfold ImplicitEngine.linesearchLoop
  simp only [h, hd, if_true, Bool.false_eq_true, if_false]

/-- A trial step not below `alpha_min` at which the objective is not strictly
below `phi0 + 1e-4 alpha phi'` is rejected: the loop goes on with
`max (alpha_next, 0.1 alpha)`. -/
theorem linesearchLoop_of_rejected (sqrt : K → K) (value : (Nat → XDouble K) → XDouble K)
    (x0 d : Nat → XDouble K) (phi0 phi_prime alpha_min : XDouble K) (fuel : Nat)
    (alpha alpha_prev phi_prev : XDouble K) (h : alpha.lt alpha_min = false)
    (hd : (value (fun i => x0 i + alpha * d i)).lt
      (phi0 + XDouble.fin (1 / 10000) * alpha * phi_prime) = false) :
    ImplicitEngine.linesearchLoop sqrt value x0 d phi0 phi_prime alpha_min (fuel + 1)
      alpha alpha_prev phi_prev =
    ImplicitEngine.linesearchLoop sqrt value x0 d phi0 phi_prime alpha_min fuel
      (XDouble.max (ImplicitEngine.linesearchBacktrack sqrt phi0 phi_prime alpha alpha_prev
        (value (fun i => x0 i + alpha * d i)) phi_prev) (XDouble.fin (1 / 10) * alpha))
      alpha (value (fun i => x0 i + alpha * d i)) := by
  rw [ImplicitEngine.linesearchLoop]
  simp only [h, hd, Bool.false_eq_true, if_false]

/-- The quadratic fit on finite values, for a rejected step along a descent
direction: `alpha_next = -phi' alpha^2 / (2 (phi - phi0 - phi' alpha))` is
finite, positive and at most `alpha / (2 (1 - 1e-4))`. -/
theorem linesearchBacktrack_quadratic (sqrt : K → K) (p0 p' a ph : K) (pp : XDouble K)
    (hp : p' < 0) (ha : 0 < a) (hrej : ¬ ph < p0 + 1 / 10000 * a * p') :
    ImplicitEngine.linesearchBacktrack sqrt (XDouble.fin p0) (XDouble.fin p') (XDouble.fin a)
      (XDouble.fin 0) (XDouble.fin ph) pp =
      XDouble.fin (-(p' * a * a) / (2 * (ph - p0 - p' * a))) ∧
    0 < -(p' * a * a) / (2 * (ph - p0 - p' * a)) ∧
    -(p' * a * a) / (2 * (ph - p0 - p' * a)) ≤ a / (2 * (1 - 1 / 10000)) := by
  have hrej' : p0 + 1 / 10000 * a * p' ≤ ph := not_lt.1 hrej
  have hap : a * p' < 0 := mul_neg_of_pos_of_neg ha hp
  have hD : (1 - 1 / 10000) * (a * -p') ≤ ph - p0 - p' * a := by
    have : (1 - 1 / 10000) * (a * -p') = 1 / 10000 * a * p' - p' * a := by ring
    linarith
  have hDpos : 0 < ph - p0 - p' * a := by
    have : 0 < (1 - 1 / 10000) * (a * -p') :=
      mul_pos (by norm_num) (mul_pos ha (neg_pos.2 hp))
    linarith
  have h2D : (2 : K) * (ph - p0 - p' * a) ≠ 0 := ne_of_gt (by linarith)
  refine ⟨?_, ?_, ?_⟩
  · unfold ImplicitEngine.linesearchBacktrack
    simp only [XDouble.eq_fin, decide_True, if_true, XDouble.fin_mul, XDouble.fin_sub,
      XDouble.fin_neg]
    exact XDouble.fin_div _ _ h2D
  · apply div_pos
    · have : p' * a * a = (a * p') * a := by ring
      rw [this]
      exact neg_pos.2 (mul_neg_of_neg_of_pos hap ha)
    · linarith
  · rw [div_le_div_iff₀ (by linarith) (by norm_num)]
    have h1 : -(p' * a * a) * (2 * (1 - 1 / 10000)) = 2 * a * ((1 - 1 / 10000) * (a * -p')) := by
      ring
    rw [h1]
    have h2 : a * (2 * (ph - p0 - p' * a)) = 2 * a * (ph - p0 - p' * a) := by ring
    rw [h2]
    exact mul_le_mul_of_nonneg_left hD (by linarith)

/-- The cubic fit on finite values, for a rejected step along a descent
direction after an earlier, different trial step: `alpha_next` is finite and at
most `0.5 alpha`. -/
theorem linesearchBacktrack_cubic (sqrt : K → K) (hsqrt : ∀ x, 0 ≤ sqrt x)
    (p0 p' a ap ph pp : K) (hp : p' < 0) (ha : 0 < a) (hap : a < ap)
    (hrej : ¬ ph < p0 + 1 / 10000 * a * p') :
    ∃ t, ImplicitEngine.linesearchBacktrack sqrt (XDouble.fin p0) (XDouble.fin p') (XDouble.fin a)
      (XDouble.fin ap) (XDouble.fin ph) (XDouble.fin pp) = XDouble.fin t ∧ t ≤ a / 2 := by
  have hrej' : p0 + 1 / 10000 * a * p' ≤ ph := not_lt.1 hrej
  have hap0 : ap ≠ 0 := ne_of_gt (lt_trans ha hap)
  have haSq : a * a ≠ 0 := mul_ne_zero (ne_of_gt ha) (ne_of_gt ha)
  have ha2Sq : ap * ap ≠ 0 := mul_ne_zero hap0 hap0
  have hden : a - ap ≠ 0 := sub_ne_zero.2 (ne_of_lt hap)
  have hr1 : 0 < ph - p0 - a * p' := by
    have : 0 < (1 - 1 / 10000) * (a * -p') :=
      mul_pos (by norm_num) (mul_pos ha (neg_pos.2 hp))
    have h2 : (1 - 1 / 10000) * (a * -p') = 1 / 10000 * a * p' - a * p' := by ring
    linarith
  -- the cap at `0.5 alpha`
  have hcap : ∀ X : K, ∃ t,
      (if (XDouble.fin (1 / 2) * XDouble.fin a).lt (XDouble.fin X) then
        XDouble.fin (1 / 2) * XDouble.fin a else XDouble.fin X) = XDouble.fin t ∧ t ≤ a / 2 := by
    intro X
    simp only [XDouble.fin_mul, XDouble.lt_fin]
    by_cases h : 1 / 2 * a < X
    · exact ⟨1 / 2 * a, by rw [if_pos (decide_eq_true h)], by linarith⟩
    · exact ⟨X, by rw [if_neg (by simpa using h)], by linarith [not_lt.1 h]⟩
  unfold ImplicitEngine.linesearchBacktrack
  simp only [XDouble.eq_fin, hap0, decide_False, Bool.false_eq_true, if_false, XDouble.fin_sub,
    XDouble.fin_mul, XDouble.fin_neg, XDouble.fin_div _ _ haSq, XDouble.fin_div _ _ ha2Sq,
    XDouble.fin_div _ _ hden, XDouble.fin_add, XDouble.lt_fin, XDouble.le_fin]
  generalize hA : ((ph - p0 - a * p') / (a * a) - (pp - p0 - ap * p') / (ap * ap)) / (a - ap) = A
  generalize hB : (-ap * (ph - p0 - a * p') / (a * a) + a * (pp - p0 - ap * p') / (ap * ap)) /
    (a - ap) = B
  by_cases hA0 : A = 0
  · -- then `b = rhs1 / alpha^2 > 0`
    have hB' : B = (ph - p0 - a * p') / (a * a) := by
      have h1 : (ph - p0 - a * p') / (a * a) = (pp - p0 - ap * p') / (ap * ap) := by
        rw [hA0] at hA
        have := (div_eq_zero_iff.1 hA).resolve_right hden
        linarith
      rw [← hB, mul_div_assoc, mul_div_assoc, ← h1, div_eq_iff hden]
      ring
    have hBpos : 0 < B := by
      rw [hB']
      exact div_pos hr1 (mul_pos ha ha)
    have h2B : (2 : K) * B ≠ 0 := ne_of_gt (by linarith)
    simp only [hA0, decide_True, if_true, XDouble.fin_div _ _ h2B]
    exact hcap _
  · simp only [hA0, decide_False, Bool.false_eq_true, if_false]
    by_cases hdisc : B * B - 3 * A * p' < 0
    · simp only [hdisc, decide_True, if_true]
      exact hcap _
    · simp only [hdisc, decide_False, Bool.false_eq_true, if_false,
        XDouble.sqrt_fin sqrt _ (not_lt.1 hdisc), XDouble.fin_add]
      by_cases hB0 : B ≤ 0
      · have h3A : (3 : K) * A ≠ 0 := mul_ne_zero (by norm_num) hA0
        simp only [hB0, decide_True, if_true, XDouble.fin_div _ _ h3A]
        exact hcap _
      · have hBs : B + sqrt (B * B - 3 * A * p') ≠ 0 :=
          ne_of_gt (add_pos_of_pos_of_nonneg (not_le.1 hB0) (hsqrt _))
        simp only [hB0, decide_False, Bool.false_eq_true, if_false, XDouble.fin_div _ _ hBs]
        exact hcap _

/-- The step `max (alpha_next, 0.1 alpha)` after a rejected finite trial step
`alpha > 0` along a descent direction: it is finite and lies in
`[0.1 alpha, alpha / (2 (1 - 1e-4))]`, and in `[0.1 alpha, 0.5 alpha]` after the
first backtrack. -/
theorem linesearch_next_step (sqrt : K → K) (hsqrt : ∀ x, 0 ≤ sqrt x)
    (p0 p' a ap ph pp : K) (hp : p' < 0) (ha : 0 < a) (hprev : ap = 0 ∨ a < ap)
    (hrej : ¬ ph < p0 + 1 / 10000 * a * p') :
    ∃ a', XDouble.max (ImplicitEngine.linesearchBacktrack sqrt (XDouble.fin p0) (XDouble.fin p')
        (XDouble.fin a) (XDouble.fin ap) (XDouble.fin ph) (XDouble.fin pp))
        (XDouble.fin (1 / 10) * XDouble.fin a) = XDouble.fin a' ∧
      a / 10 ≤ a' ∧ a' ≤ a / (2 * (1 - 1 / 10000)) ∧ (ap ≠ 0 → a' ≤ a / 2) := by
  have h10 : a / 10 = 1 / 10 * a := by ring
  have hhalf : a / 2 ≤ a / (2 * (1 - 1 / 10000)) := by
    rw [div_le_div_iff₀ (by norm_num) (by norm_num)]
    nlinarith
  rcases hprev with h0 | hlt
  · subst h0
    obtain ⟨hq, hpos, hle⟩ := linesearchBacktrack_quadratic sqrt p0 p' a ph
      (XDouble.fin pp) hp ha hrej
    rw [hq, XDouble.fin_mul, XDouble.max_fin]
    refine ⟨_, rfl, ?_, ?_, fun h => absurd rfl h⟩
    · rw [h10]; exact le_max_right _ _
    · refine max_le hle ?_
      rw [← h10]
      exact le_trans (by linarith) hhalf
  · obtain ⟨t, ht, hle⟩ := linesearchBacktrack_cubic sqrt hsqrt p0 p' a ap ph pp hp ha hlt hrej
    rw [ht, XDouble.fin_mul, XDouble.max_fin]
    have hm : max t (1 / 10 * a) ≤ a / 2 := max_le hle (by linarith)
    refine ⟨_, rfl, ?_, le_trans hm hhalf, fun _ => hm⟩
    rw [h10]; exact le_max_right _ _

/-- A rejected finite trial step along a descent direction, with the objective
finite on the line `x0 + alpha d`: the loop goes on with a finite step in
`[0.1 alpha, alpha / (2 (1 - 1e-4))]`, and in `[0.1 alpha, 0.5 alpha]` after
the first backtrack. -/
theorem linesearchLoop_step (sqrt : K → K) (hsqrt : ∀ x, 0 ≤ sqrt x)
    (value : (Nat → XDouble K) → XDouble K) (x0 d : Nat → XDouble K) (phi : K → K)
    (hv : ∀ a, value (fun i => x0 i + XDouble.fin a * d i) = XDouble.fin (phi a))
    (p0 p' : K) (alpha_min : XDouble K) (fuel : Nat) (a ap pp : K)
    (hp : p' < 0) (ha : 0 < a) (hprev : ap = 0 ∨ a < ap)
    (hbelow : (XDouble.fin a).lt alpha_min = false)
    (hrej : ¬ phi a < p0 + 1 / 10000 * a * p') :
    ∃ a', ImplicitEngine.linesearchLoop sqrt value x0 d (XDouble.fin p0) (XDouble.fin p') alpha_min
        (fuel + 1) (XDouble.fin a) (XDouble.fin ap) (XDouble.fin pp) =
      ImplicitEngine.linesearchLoop sqrt value x0 d (XDouble.fin p0) (XDouble.fin p') alpha_min
        fuel (XDouble.fin a') (XDouble.fin a) (XDouble.fin (phi a)) ∧
      XDouble.max (ImplicitEngine.linesearchBacktrack sqrt (XDouble.fin p0) (XDouble.fin p')
        (XDouble.fin a) (XDouble.fin ap) (XDouble.fin (phi a)) (XDouble.fin pp))
        (XDouble.fin (1 / 10) * XDouble.fin a) = XDouble.fin a' ∧
      a / 10 ≤ a' ∧ a' ≤ a / (2 * (1 - 1 / 10000)) ∧ (ap ≠ 0 → a' ≤ a / 2) := by
  have hd : (value (fun i => x0 i + XDouble.fin a * d i)).lt
      (XDouble.fin p0 + XDouble.fin (1 / 10000) * XDouble.fin a * XDouble.fin p') = false := by
    rw [hv]
    simp only [XDouble.fin_mul, XDouble.fin_add, XDouble.lt_fin]
    exact decide_eq_false hrej
  obtain ⟨a', hmax, hb⟩ := linesearch_next_step sqrt hsqrt p0 p' a ap (phi a) pp hp ha hprev hrej
  refine ⟨a', ?_, hmax, hb⟩
  rw [linesearchLoop_of_rejected sqrt value x0 d _ _ alpha_min fuel _ _ _ hbelow hd, hv, hmax]

/-- Along a descent direction, with the objective finite on the line and a
positive finite `alpha_min`: if `alpha (1 / (2 (1 - 1e-4)))^n < alpha_min`, the
loop returns within `n + 1` iterations; the step it returns is positive, at
most `alpha`, and either below `alpha_min` or a point of sufficient decrease. -/
theorem linesearchLoop_returns (sqrt : K → K) (hsqrt : ∀ x, 0 ≤ sqrt x)
    (value : (Nat → XDouble K) → XDouble K) (x0 d : Nat → XDouble K) (phi : K → K)
    (hv : ∀ a, value (fun i => x0 i + XDouble.fin a * d i) = XDouble.fin (phi a))
    (p0 p' am : K) (hp : p' < 0) :
    ∀ (n : Nat) (a ap pp : K), 0 < a → (ap = 0 ∨ a < ap) →
      a * (1 / (2 * (1 - 1 / 10000))) ^ n < am → ∀ fuel, n < fuel →
      ∃ r, ImplicitEngine.linesearchLoop sqrt value x0 d (XDouble.fin p0) (XDouble.fin p')
          (XDouble.fin am) fuel (XDouble.fin a) (XDouble.fin ap) (XDouble.fin pp) =
          some (XDouble.fin r) ∧
        0 < r ∧ r ≤ a ∧ (r < am ∨ phi r < p0 + 1 / 10000 * r * p') := by
  intro n
  induction n with
  | zero =>
    intro a ap pp ha _ hlt fuel hf
    obtain ⟨f, rfl⟩ : ∃ f, fuel = f + 1 := ⟨fuel - 1, by omega⟩
    rw [pow_zero, mul_one] at hlt
    refine ⟨a, ?_, ha, le_refl _, Or.inl hlt⟩
    exact linesearchLoop_of_below sqrt value x0 d _ _ _ f _ _ _
      (by rw [XDouble.lt_fin]; exact decide_eq_true hlt)
  | succ n ih =>
    intro a ap pp ha hprev hlt fuel hf
    obtain ⟨f, rfl⟩ : ∃ f, fuel = f + 1 := ⟨fuel - 1, by omega⟩
    by_cases hb : a < am
    · refine ⟨a, ?_, ha, le_refl _, Or.inl hb⟩
      exact linesearchLoop_of_below sqrt value x0 d _ _ _ f _ _ _
        (by rw [XDouble.lt_fin]; exact decide_eq_true hb)
    · have hbelow : (XDouble.fin a).lt (XDouble.fin am) = false := by
        rw [XDouble.lt_fin]; exact decide_eq_false hb
      by_cases hacc : phi a < p0 + 1 / 10000 * a * p'
      · refine ⟨a, ?_, ha, le_refl _, Or.inr hacc⟩
        apply linesearchLoop_of_decrease sqrt value x0 d _ _ _ f _ _ _ hbelow
        rw [hv]
        simp only [XDouble.fin_mul, XDouble.fin_add, XDouble.lt_fin]
        exact decide_eq_true hacc
      · obtain ⟨a', hstep, _, hlo, hhi, _⟩ := linesearchLoop_step sqrt hsqrt value x0 d phi hv
          p0 p' (XDouble.fin am) f a ap pp hp ha hprev hbelow hacc
        have ha' : 0 < a' := lt_of_lt_of_le (by linarith) hlo
        have hrho : a / (2 * (1 - 1 / 10000)) = a * (1 / (2 * (1 - 1 / 10000))) := by ring
        have hlt' : a' < a := by
          have : a / (2 * (1 - 1 / 10000)) < a := by
            rw [div_lt_iff₀ (by norm_num)]
            nlinarith
          linarith
        have hpow : a' * (1 / (2 * (1 - 1 / 10000))) ^ n < am := by
          have h1 : a' * (1 / (2 * (1 - 1 / 10000))) ^ n ≤
              a * (1 / (2 * (1 - 1 / 10000))) * (1 / (2 * (1 - 1 / 10000))) ^ n := by
            apply mul_le_mul_of_nonneg_right (by rw [← hrho]; exact hhi)
            exact pow_nonneg (by norm_num) _
          have h2 : a * (1 / (2 * (1 - 1 / 10000))) * (1 / (2 * (1 - 1 / 10000))) ^ n =
              a * (1 / (2 * (1 - 1 / 10000))) ^ (n + 1) := by
            rw [pow_succ]; ring
          linarith
        obtain ⟨r, hr, hr0, hra, hres⟩ := ih a' a (phi a) ha' (Or.inr hlt') hpow f (by omega)
        exact ⟨r, by rw [hstep, hr], hr0, le_trans hra hlt'.le, hres⟩

/-- A fit computed from a NaN trial step is NaN. -/
theorem linesearchBacktrack_of_nan (sqrt : K → K) (phi0 phi_prime alpha_prev phi phi_prev : XDouble K) :
    ImplicitEngine.linesearchBacktrack sqrt phi0 phi_prime XDouble.nan alpha_prev phi phi_prev =
      XDouble.nan := by
  unfold ImplicitEngine.linesearchBacktrack
  by_cases h : alpha_prev.eq (XDouble.fin 0) = true
  · simp only [h, if_true, XDouble.mul_nan, XDouble.nan_mul, XDouble.neg_nan, XDouble.nan_div]
  · simp only [h, if_false, XDouble.mul_nan, XDouble.nan_mul, XDouble.neg_nan, XDouble.nan_div,
      XDouble.sub_nan, XDouble.nan_sub, XDouble.div_nan, XDouble.nan_add, XDouble.add_nan,
      XDouble.nan_eq, XDouble.nan_lt, XDouble.lt_nan, XDouble.nan_le, Bool.false_eq_true]

/-- Once the trial step is NaN the loop never returns, whatever the objective
and the other variables are: every comparison with NaN is false and every
fit computed from NaN is NaN. -/
theorem linesearchLoop_of_nan (sqrt : K → K) (value : (Nat → XDouble K) → XDouble K)
    (x0 d : Nat → XDouble K) (phi0 phi_prime alpha_min : XDouble K) :
    ∀ (fuel : Nat) (alpha_prev phi_prev : XDouble K),
    ImplicitEngine.linesearchLoop sqrt value x0 d phi0 phi_prime alpha_min fuel
      XDouble.nan alpha_prev phi_prev = none := by
  intro fuel
  induction fuel with
  | zero => intro _ _; rfl
  | succ f ih =>
    intro ap pp
    have h1 : (XDouble.nan : XDouble K).lt alpha_min = false := XDouble.nan_lt alpha_min
    have h2 : (value (fun i => x0 i + XDouble.nan * d i)).lt
        (phi0 + XDouble.fin (1 / 10000) * XDouble.nan * phi_prime) = false := by
      rw [XDouble.mul_nan, XDouble.nan_mul, XDouble.add_nan]
      exact XDouble.lt_nan _
    rw [linesearchLoop_of_rejected sqrt value x0 d _ _ alpha_min f _ _ _ h1 h2]
    have h3 : XDouble.max (ImplicitEngine.linesearchBacktrack sqrt phi0 phi_prime XDouble.nan ap
        (value (fun i => x0 i + XDouble.nan * d i)) pp)
        (XDouble.fin (1 / 10) * XDouble.nan) = XDouble.nan := by
      rw [linesearchBacktrack_of_nan]
      rfl
    rw [h3]
    exact ih _ _

end lineSearchStep

/-! ## The line search on finite inputs -/

section lineSearch

variable [LinearOrderedField K]

/-- On finite inputs with at least one variable, `linesearch` runs its loop
with `phi' = <d, grad>` and `alpha_min = 1e-3 / M`, where `M` is the largest
of the numbers `|d_i| / max (|x0_i|, 1)`; for `M = 0`, that is for `d = 0`,
`alpha_min` is `+inf`. -/
theorem linesearch_of_fin (sqrt : K → K) (value : (Nat → XDouble K) → XDouble K) (n fuel : Nat)
    (x dv g : Nat → K) (p0 a0 : K) :
    ∃ M, (∀ i, i < n + 1 → |dv i| / max |x i| 1 ≤ M) ∧
      (∃ i, i < n + 1 ∧ M = |dv i| / max |x i| 1) ∧
      ImplicitEngine.linesearch sqrt value (n + 1) fuel (fun i => XDouble.fin (x i))
        (fun i => XDouble.fin (dv i)) (XDouble.fin p0) (fun i => XDouble.fin (g i))
        (XDouble.fin a0) =
      ImplicitEngine.linesearchLoop sqrt value (fun i => XDouble.fin (x i))
        (fun i => XDouble.fin (dv i)) (XDouble.fin p0)
        (XDouble.fin (Finset.sum (Finset.range (n + 1)) (fun i => dv i * g i)))
        (if M = 0 then XDouble.posInf else XDouble.fin (1 / 1000 / M)) fuel
        (XDouble.fin a0) (XDouble.fin 0) (XDouble.fin p0) := by
  have hw : (fun i => (XDouble.fin (dv i)).abs / XDouble.max (XDouble.fin (x i)).abs (XDouble.fin 1))
      = fun i => XDouble.fin (|dv i| / max |x i| 1) := by
    funext i
    rw [XDouble.abs_fin, XDouble.abs_fin, XDouble.max_fin]
    exact XDouble.fin_div _ _ (ne_of_gt (lt_of_lt_of_le zero_lt_one (le_max_right _ _)))
  obtain ⟨M, hM, hle, hex⟩ := XDouble.maxCoeff_fin (fun i => |dv i| / max |x i| 1) n
  refine ⟨M, hle, hex, ?_⟩
  unfold ImplicitEngine.linesearch
  simp only []
  rw [XDouble.dot_fin, hw, hM]
  by_cases h0 : M = 0
  · rw [if_pos h0, h0, XDouble.fin_div_zero]
    have : XDouble.signedInf (1 / 1000 : K) = XDouble.posInf := by
      unfold XDouble.signedInf
      rw [if_pos (by norm_num)]
    rw [this]
  · rw [if_neg h0, XDouble.fin_div _ _ h0]

/-- The largest of finitely many numbers is unique. -/
theorem max_entry_unique (n : Nat) (w : Nat → K) (M M' : K)
    (h1 : ∀ i, i < n → w i ≤ M) (h2 : ∃ i, i < n ∧ M = w i)
    (h1' : ∀ i, i < n → w i ≤ M') (h2' : ∃ i, i < n ∧ M' = w i) : M = M' := by
  obtain ⟨i, hi, hMi⟩ := h2
  obtain ⟨j, hj, hMj⟩ := h2'
  exact le_antisymm (hMi ▸ h1' i hi) (hMj ▸ h1 j hj)

/-- On finite inputs with a non-zero direction, `linesearch` runs its loop with
`phi' = <d, grad>` and the finite `alpha_min = 1e-3 / M`. -/
theorem linesearch_of_direction (sqrt : K → K) (value : (Nat → XDouble K) → XDouble K)
    (n : Nat) (x dv g : Nat → K) (p0 M : K)
    (hM1 : ∀ i, i < n + 1 → |dv i| / max |x i| 1 ≤ M)
    (hM2 : ∃ i, i < n + 1 ∧ M = |dv i| / max |x i| 1) (hM : 0 < M)
    (fuel : Nat) (alpha_init : XDouble K) :
    ImplicitEngine.linesearch sqrt value (n + 1) fuel (fun i => XDouble.fin (x i))
      (fun i => XDouble.fin (dv i)) (XDouble.fin p0) (fun i => XDouble.fin (g i)) alpha_init =
    ImplicitEngine.linesearchLoop sqrt value (fun i => XDouble.fin (x i))
      (fun i => XDouble.fin (dv i)) (XDouble.fin p0)
      (XDouble.fin (Finset.sum (Finset.range (n + 1)) (fun i => dv i * g i)))
      (XDouble.fin (1 / 1000 / M)) fuel alpha_init (XDouble.fin 0) (XDouble.fin p0) := by
  have hw : (fun i => (XDouble.fin (dv i)).abs /
      XDouble.max (XDouble.fin (x i)).abs (XDouble.fin 1)) =
      fun i => XDouble.fin (|dv i| / max |x i| 1) := by
    funext i
    rw [XDouble.abs_fin, XDouble.abs_fin, XDouble.max_fin]
    exact XDouble.fin_div _ _ (ne_of_gt (lt_of_lt_of_le zero_lt_one (le_max_right _ _)))
  obtain ⟨M', hM', h1', h2'⟩ := XDouble.maxCoeff_fin (fun i => |dv i| / max |x i| 1) n
  have hMM : M = M' := max_entry_unique (n + 1) _ M M' hM1 hM2 h1' h2'
  unfold ImplicitEngine.linesearch
  simp only []
  rw [XDouble.dot_fin, hw, hM', ← hMM, XDouble.fin_div _ _ (ne_of_gt hM)]

/-- C28, amended: on finite inputs with a non-zero direction `d`, `linesearch`
runs its loop with `phi' = <d, grad>` and `alpha_min = 1e-3 / M`, `M` the
largest of the numbers `|d_i| / max (|x0_i|, 1)`; a trial step
`alpha ≥ alpha_min` at which the objective is strictly below
`phi0 + 1e-4 alpha phi'` is accepted, as the first trial step of `linesearch`
and as the trial step of any later iteration of its loop. -/
theorem linesearch_accepts_strict_decrease (sqrt : K → K)
    (value : (Nat → XDouble K) → XDouble K) (n fuel : Nat) (x dv g : Nat → K) (p0 a ph M : K)
    (hM1 : ∀ i, i < n + 1 → |dv i| / max |x i| 1 ≤ M)
    (hM2 : ∃ i, i < n + 1 ∧ M = |dv i| / max |x i| 1) (hM : 0 < M)
    (ha : 1 / 1000 / M ≤ a)
    (hph : value (fun i => XDouble.fin (x i) + XDouble.fin a * XDouble.fin (dv i)) =
      XDouble.fin ph)
    (hdec : ph < p0 + 1 / 10000 * a * Finset.sum (Finset.range (n + 1)) (fun i => dv i * g i)) :
    (∀ f alpha_init, ImplicitEngine.linesearch sqrt value (n + 1) f (fun i => XDouble.fin (x i))
        (fun i => XDouble.fin (dv i)) (XDouble.fin p0) (fun i => XDouble.fin (g i)) alpha_init =
      ImplicitEngine.linesearchLoop sqrt value (fun i => XDouble.fin (x i))
        (fun i => XDouble.fin (dv i)) (XDouble.fin p0)
        (XDouble.fin (Finset.sum (Finset.range (n + 1)) (fun i => dv i * g i)))
        (XDouble.fin (1 / 1000 / M)) f alpha_init (XDouble.fin 0) (XDouble.fin p0)) ∧
    ImplicitEngine.linesearch sqrt value (n + 1) (fuel + 1) (fun i => XDouble.fin (x i))
      (fun i => XDouble.fin (dv i)) (XDouble.fin p0) (fun i => XDouble.fin (g i))
      (XDouble.fin a) = some (XDouble.fin a) ∧
    ∀ alpha_prev phi_prev : XDouble K,
      ImplicitEngine.linesearchLoop sqrt value (fun i => XDouble.fin (x i))
        (fun i => XDouble.fin (dv i)) (XDouble.fin p0)
        (XDouble.fin (Finset.sum (Finset.range (n + 1)) (fun i => dv i * g i)))
        (XDouble.fin (1 / 1000 / M)) (fuel + 1) (XDouble.fin a) alpha_prev phi_prev =
        some (XDouble.fin a) := by
  have hbelow : (XDouble.fin a).lt (XDouble.fin (1 / 1000 / M)) = false := by
    rw [XDouble.lt_fin]
    exact decide_eq_false (not_lt.2 ha)
  have hd : (value (fun i => XDouble.fin (x i) + XDouble.fin a * XDouble.fin (dv i))).lt
      (XDouble.fin p0 + XDouble.fin (1 / 10000) * XDouble.fin a *
        XDouble.fin (Finset.sum (Finset.range (n + 1)) (fun i => dv i * g i))) = true := by
    rw [hph]
    simp only [XDouble.fin_mul, XDouble.fin_add, XDouble.lt_fin]
    exact decide_eq_true hdec
  have hloop : ∀ (ap pp : XDouble K), ImplicitEngine.linesearchLoop sqrt value
      (fun i => XDouble.fin (x i)) (fun i => XDouble.fin (dv i)) (XDouble.fin p0)
      (XDouble.fin (Finset.sum (Finset.range (n + 1)) (fun i => dv i * g i)))
      (XDouble.fin (1 / 1000 / M)) (fuel + 1) (XDouble.fin a) ap pp = some (XDouble.fin a) :=
    fun ap pp => linesearchLoop_of_decrease sqrt value _ _ _ _ _ fuel _ ap pp hbelow hd
  refine ⟨fun f a0 => linesearch_of_direction sqrt value n x dv g p0 M hM1 hM2 hM f a0, ?_, hloop⟩
  rw [linesearch_of_direction sqrt value n x dv g p0 M hM1 hM2 hM]
  exact hloop _ _

/-- C28, instance: one variable, `x0 = 0`, `d = 1`, `grad = -1`, `phi0 = 0` and an
objective that is `-1` everywhere: `alpha_min = 1e-3` and the step 1 is accepted. -/
theorem linesearch_accepts_strict_decrease_witness :
    ImplicitEngine.linesearch Real.sqrt (fun _ => XDouble.fin (-1)) 1 1 (fun _ => XDouble.fin 0)
      (fun _ => XDouble.fin 1) (XDouble.fin 0) (fun _ => XDouble.fin (-1))
      (XDouble.fin (1 : ℝ)) = some (XDouble.fin 1) :=
  (linesearch_accepts_strict_decrease Real.sqrt (fun _ => XDouble.fin (-1)) 0 0
    (fun _ => 0) (fun _ => 1) (fun _ => -1) 0 1 (-1) 1
    (fun i _ => by norm_num) ⟨0, Nat.zero_lt_one, by norm_num⟩ (by norm_num) (by norm_num)
    rfl (by norm_num)).2.1

/-- The run of the loop from the trial step 1 for `equalityObjective` with
`x0 = 0`, `d = 1`, `phi0 = 0`, `phi' = -1` and `alpha_min = 1e-3`: at the step 1
the objective equals `phi0 + 1e-4 alpha phi'`, the step is rejected, the
quadratic fit gives `5000/9999`, and that step is accepted. -/
theorem equalityObjective_run (fuel : Nat) :
    XDouble.max (ImplicitEngine.linesearchBacktrack Real.sqrt (XDouble.fin 0) (XDouble.fin (-1))
      (XDouble.fin 1) (XDouble.fin 0) (XDouble.fin (-1 / 10000)) (XDouble.fin 0))
      (XDouble.fin (1 / 10) * XDouble.fin 1) = XDouble.fin (5000 / 9999 : ℝ) ∧
    ImplicitEngine.linesearchLoop Real.sqrt equalityObjective (fun _ => XDouble.fin 0)
      (fun _ => XDouble.fin 1) (XDouble.fin 0) (XDouble.fin (-1)) (XDouble.fin (1 / 1000))
      (fuel + 2) (XDouble.fin 1) (XDouble.fin 0) (XDouble.fin 0) =
      some (XDouble.fin (5000 / 9999 : ℝ)) := by
  have hv : ∀ a : ℝ, equalityObjective (fun _ => XDouble.fin 0 + XDouble.fin a * XDouble.fin 1) =
      XDouble.fin (if a = 1 then -1 / 10000 else -1) := by
    intro a
    simp only [equalityObjective, XDouble.fin_mul, XDouble.fin_add, zero_add, mul_one]
    split_ifs <;> rfl
  have hq := linesearchBacktrack_quadratic Real.sqrt (0 : ℝ) (-1) 1 (-1 / 10000) (XDouble.fin 0)
    (by norm_num) (by norm_num) (by norm_num)
  have hmax : XDouble.max (ImplicitEngine.linesearchBacktrack Real.sqrt (XDouble.fin 0)
      (XDouble.fin (-1)) (XDouble.fin 1) (XDouble.fin 0) (XDouble.fin (-1 / 10000))
      (XDouble.fin 0)) (XDouble.fin (1 / 10) * XDouble.fin 1) = XDouble.fin (5000 / 9999 : ℝ) := by
    rw [hq.1, XDouble.fin_mul, XDouble.max_fin]
    norm_num
  refine ⟨hmax, ?_⟩
  have h1 : (XDouble.fin (1 : ℝ)).lt (XDouble.fin (1 / 1000)) = false := by
    rw [XDouble.lt_fin]; exact decide_eq_false (by norm_num)
  have h2 : (equalityObjective (fun _ => XDouble.fin 0 + XDouble.fin (1 : ℝ) * XDouble.fin 1)).lt
      (XDouble.fin 0 + XDouble.fin (1 / 10000) * XDouble.fin 1 * XDouble.fin (-1)) = false := by
    rw [hv]
    simp only [XDouble.fin_mul, XDouble.fin_add, XDouble.lt_fin, if_true]
    exact decide_eq_false (by norm_num)
  rw [linesearchLoop_of_rejected Real.sqrt equalityObjective _ _ _ _ _ (fuel + 1) _ _ _ h1 h2,
    hv, if_pos rfl, hmax]
  apply linesearchLoop_of_decrease
  · rw [XDouble.lt_fin]; exact decide_eq_false (by norm_num)
  · rw [hv]
    simp only [XDouble.fin_mul, XDouble.fin_add, XDouble.lt_fin]
    rw [if_neg (by norm_num)]
    exact decide_eq_true (by norm_num)

/-- C28, counterexample: one variable, `x0 = 0`, `d = 1`, `grad = -1`, `phi0 = 0`,
so that `phi' = -1` and `alpha_min = 1e-3`, and `equalityObjective`, which at
the first trial step 1 equals `phi0 + 1e-4 alpha phi' = -1e-4`.  The step 1 is
not accepted: `linesearch` backtracks and returns `5000/9999`. -/
theorem linesearch_rejects_equality :
    equalityObjective (fun _ => XDouble.fin 0 + XDouble.fin (1 : ℝ) * XDouble.fin 1) =
      XDouble.fin (-1 / 10000) ∧
    (-1 / 10000 : ℝ) ≤ 0 + 1 / 10000 * 1 * (-1) ∧ (1 / 1000 / 1 : ℝ) ≤ 1 ∧
    (∀ fuel, ImplicitEngine.linesearch Real.sqrt equalityObjective 1 (fuel + 2)
      (fun _ => XDouble.fin 0) (fun _ => XDouble.fin 1) (XDouble.fin 0)
      (fun _ => XDouble.fin (-1)) (XDouble.fin (1 : ℝ)) = some (XDouble.fin (5000 / 9999))) ∧
    (5000 / 9999 : ℝ) ≠ 1 := by
  refine ⟨?_, by norm_num, by norm_num, fun fuel => ?_, by norm_num⟩
  · simp [equalityObjective]
  · rw [linesearch_of_direction Real.sqrt equalityObjective 0 (fun _ => 0) (fun _ => 1)
      (fun _ => -1) 0 1 (fun i _ => by norm_num) ⟨0, Nat.zero_lt_one, by norm_num⟩ (by norm_num)]
    have hs : Finset.sum (Finset.range (0 + 1)) (fun _ => (1 : ℝ) * -1) = -1 := by norm_num
    have hm : (1 / 1000 / 1 : ℝ) = 1 / 1000 := by norm_num
    rw [hs, hm]
    exact (equalityObjective_run fuel).2

/-- C29, amended: for a rejected finite trial step `alpha > 0` along a descent
direction (`phi' < 0`), with the objective finite on the line `x0 + alpha d`:
the loop goes on with a next trial step that lies in
`[0.1 alpha, alpha / (2 (1 - 1e-4))]` on the first backtrack (quadratic fit,
`alpha_prev = 0`), where the upper end is above `0.5 alpha`, and in
`[0.1 alpha, 0.5 alpha]` on every later backtrack (cubic fit, after a larger
trial step `alpha_prev`); in both cases it is below `alpha`. -/
theorem backtrack_step_interval (sqrt : K → K) (hsqrt : ∀ x, 0 ≤ sqrt x)
    (value : (Nat → XDouble K) → XDouble K) (x0 d : Nat → XDouble K) (phi : K → K)
    (hv : ∀ a, value (fun i => x0 i + XDouble.fin a * d i) = XDouble.fin (phi a))
    (p0 p' : K) (alpha_min : XDouble K) (fuel : Nat) (a ap pp : K)
    (hp : p' < 0) (ha : 0 < a) (hprev : ap = 0 ∨ a < ap)
    (hbelow : (XDouble.fin a).lt alpha_min = false)
    (hrej : ¬ phi a < p0 + 1 / 10000 * a * p') :
    ∃ a', ImplicitEngine.linesearchLoop sqrt value x0 d (XDouble.fin p0) (XDouble.fin p') alpha_min
        (fuel + 1) (XDouble.fin a) (XDouble.fin ap) (XDouble.fin pp) =
      ImplicitEngine.linesearchLoop sqrt value x0 d (XDouble.fin p0) (XDouble.fin p') alpha_min
        fuel (XDouble.fin a') (XDouble.fin a) (XDouble.fin (phi a)) ∧
      XDouble.max (ImplicitEngine.linesearchBacktrack sqrt (XDouble.fin p0) (XDouble.fin p')
        (XDouble.fin a) (XDouble.fin ap) (XDouble.fin (phi a)) (XDouble.fin pp))
        (XDouble.fin (1 / 10) * XDouble.fin a) = XDouble.fin a' ∧
      1 / 10 * a ≤ a' ∧ a' ≤ a / (2 * (1 - 1 / 10000)) ∧ (ap ≠ 0 → a' ≤ 1 / 2 * a) ∧ a' < a ∧
      1 / 2 * a < a / (2 * (1 - 1 / 10000)) := by
  obtain ⟨a', hstep, hmax, hlo, hhi, hcub⟩ := linesearchLoop_step sqrt hsqrt value x0 d phi hv
    p0 p' alpha_min fuel a ap pp hp ha hprev hbelow hrej
  have hlt : a / (2 * (1 - 1 / 10000)) < a := by
    rw [div_lt_iff₀ (by norm_num)]
    nlinarith
  have hhalf : 1 / 2 * a < a / (2 * (1 - 1 / 10000)) := by
    rw [lt_div_iff₀ (by norm_num)]
    nlinarith
  refine ⟨a', hstep, hmax, by linarith, hhi, fun h => ?_, lt_of_le_of_lt hhi hlt, hhalf⟩
  have := hcub h
  linarith

/-- C29, instance: the first backtrack of the run for `equalityObjective` from
the trial step 1, with `phi0 = 0`, `phi' = -1` and `alpha_min = 1e-3`. -/
theorem backtrack_step_interval_witness :
    ∃ a' : ℝ, XDouble.max (ImplicitEngine.linesearchBacktrack Real.sqrt (XDouble.fin 0)
        (XDouble.fin (-1)) (XDouble.fin 1) (XDouble.fin 0)
        (XDouble.fin (if (1 : ℝ) = 1 then -1 / 10000 else -1)) (XDouble.fin 0))
        (XDouble.fin (1 / 10) * XDouble.fin 1) = XDouble.fin a' ∧
      1 / 10 * 1 ≤ a' ∧ a' ≤ 1 / (2 * (1 - 1 / 10000)) := by
  have hv : ∀ a : ℝ, equalityObjective (fun _ => XDouble.fin 0 + XDouble.fin a * XDouble.fin 1) =
      XDouble.fin (if a = 1 then -1 / 10000 else -1) := by
    intro a
    simp only [equalityObjective, XDouble.fin_mul, XDouble.fin_add, zero_add, mul_one]
    split_ifs <;> rfl
  obtain ⟨a', _, h2, h3, h4, _⟩ := backtrack_step_interval Real.sqrt Real.sqrt_nonneg
    equalityObjective (fun _ => XDouble.fin 0) (fun _ => XDouble.fin 1)
    (fun a => if a = 1 then -1 / 10000 else -1) hv 0 (-1) (XDouble.fin (1 / 1000)) 0 1 0 0
    (by norm_num) (by norm_num) (Or.inl rfl)
    (by rw [XDouble.lt_fin]; exact decide_eq_false (by norm_num)) (by norm_num)
  exact ⟨a', h2, h3, h4⟩

/-- C29, counterexample: `phi0 = 0`, `phi' = -1`, and the trial step 1, at which
the objective is `-1e-4 = phi0 + 1e-4 alpha phi'`, so the step is rejected; it
is the first backtrack (`alpha_prev = 0`), and the next trial step
`max (alpha_next, 0.1 alpha)` is `5000/9999`, above `0.5 alpha`. -/
theorem first_backtrack_exceeds_half :
    (-1 : ℝ) < 0 ∧ ¬ ((-1 / 10000 : ℝ) < 0 + 1 / 10000 * 1 * (-1)) ∧
    XDouble.max (ImplicitEngine.linesearchBacktrack Real.sqrt (XDouble.fin 0) (XDouble.fin (-1))
      (XDouble.fin 1) (XDouble.fin 0) (XDouble.fin (-1 / 10000)) (XDouble.fin 0))
      (XDouble.fin (1 / 10) * XDouble.fin 1) = XDouble.fin (5000 / 9999 : ℝ) ∧
    (1 / 2 * 1 : ℝ) < 5000 / 9999 :=
  ⟨by norm_num, by norm_num, (equalityObjective_run 0).1, by norm_num⟩

/-- C30, amended: on finite inputs with at least one variable, a direction `d`
with `phi' = <d, grad> < 0`, `alpha_init > 0` and an objective that is finite on
the line `x0 + alpha d` (for instance `9e9` at every trial point), `linesearch`
returns after finitely many objective evaluations: there is a number `N` of
iterations within which the loop returns, and the step returned is finite,
positive and at most `alpha_init`.  Each backtrack multiplies the step by at
most `1 / (2 (1 - 1e-4)) < 1`, and `alpha_min` is positive. -/
theorem linesearch_terminates [Archimedean K] (sqrt : K → K) (hsqrt : ∀ x, 0 ≤ sqrt x)
    (value : (Nat → XDouble K) → XDouble K) (n : Nat) (x dv g : Nat → K) (p0 a0 : K)
    (phi : K → K)
    (hv : ∀ a, value (fun i => XDouble.fin (x i) + XDouble.fin a * XDouble.fin (dv i)) =
      XDouble.fin (phi a))
    (hp : Finset.sum (Finset.range (n + 1)) (fun i => dv i * g i) < 0) (ha0 : 0 < a0) :
    ∃ N, ∀ fuel, N ≤ fuel →
      ∃ r, ImplicitEngine.linesearch sqrt value (n + 1) fuel (fun i => XDouble.fin (x i))
        (fun i => XDouble.fin (dv i)) (XDouble.fin p0) (fun i => XDouble.fin (g i))
        (XDouble.fin a0) = some (XDouble.fin r) ∧ 0 < r ∧ r ≤ a0 := by
  obtain ⟨M, hM1, hM2, _⟩ := linesearch_of_fin sqrt value n 0 x dv g p0 a0
  have hM0 : 0 ≤ M := by
    obtain ⟨i, _, hi⟩ := hM2
    rw [hi]
    exact div_nonneg (abs_nonneg _) (le_trans zero_le_one (le_max_right _ _))
  have hMpos : 0 < M := by
    rcases eq_or_lt_of_le hM0 with h | h
    · exfalso
      have hz : ∀ i, i < n + 1 → dv i = 0 := by
        intro i hi
        have h1 := hM1 i hi
        rw [← h] at h1
        have h2 : 0 ≤ |dv i| / max |x i| 1 :=
          div_nonneg (abs_nonneg _) (le_trans zero_le_one (le_max_right _ _))
        have h3 : |dv i| / max |x i| 1 = 0 := le_antisymm h1 h2
        have h4 : max |x i| 1 ≠ 0 := ne_of_gt (lt_of_lt_of_le zero_lt_one (le_max_right _ _))
        exact abs_eq_zero.1 ((div_eq_zero_iff.1 h3).resolve_right h4)
      have hs : Finset.sum (Finset.range (n + 1)) (fun i => dv i * g i) = 0 := by
        apply Finset.sum_eq_zero
        intro i hi
        rw [hz i (Finset.mem_range.1 hi), zero_mul]
      rw [hs] at hp
      exact lt_irrefl _ hp
    · exact h
  have ham : 0 < 1 / 1000 / M := div_pos (by norm_num) hMpos
  obtain ⟨N, hN⟩ := exists_pow_lt_of_lt_one (div_pos ham ha0)
    (show (1 / (2 * (1 - 1 / 10000)) : K) < 1 by
      rw [div_lt_one (by norm_num)]; norm_num)
  have hN' : a0 * (1 / (2 * (1 - 1 / 10000))) ^ N < 1 / 1000 / M := by
    rw [lt_div_iff₀ ha0] at hN
    linarith [mul_comm a0 ((1 / (2 * (1 - 1 / 10000)) : K) ^ N)]
  refine ⟨N + 1, fun fuel hf => ?_⟩
  rw [linesearch_of_direction sqrt value n x dv g p0 M hM1 hM2 hMpos]
  obtain ⟨r, hr, hr0, hra, _⟩ := linesearchLoop_returns sqrt hsqrt value _ _ phi hv p0 _
    (1 / 1000 / M) hp N a0 0 p0 ha0 (Or.inl rfl) hN' fuel (by omega)
  exact ⟨r, hr, hr0, hra⟩

/-- C30, instance: one variable, `x0 = 0`, `d = 1`, `grad = -1`, `phi0 = 9e9`,
`alpha_init = 1` and an objective that returns `9e9` at every point. -/
theorem linesearch_terminates_witness :
    ∃ N, ∀ fuel, N ≤ fuel →
      ∃ r : ℝ, ImplicitEngine.linesearch Real.sqrt (fun _ => XDouble.fin 9000000000) 1 fuel
        (fun _ => XDouble.fin 0) (fun _ => XDouble.fin 1) (XDouble.fin 9000000000)
        (fun _ => XDouble.fin (-1)) (XDouble.fin 1) = some (XDouble.fin r) ∧ 0 < r ∧ r ≤ 1 :=
  linesearch_terminates Real.sqrt Real.sqrt_nonneg (fun _ => XDouble.fin 9000000000) 0
    (fun _ => 0) (fun _ => 1) (fun _ => -1) 9000000000 1 (fun _ => 9000000000)
    (fun _ => rfl) (by norm_num) (by norm_num)

/-- C30, counterexample: one variable, `x0 = 0`, the non-zero direction `d = 1`,
`grad = 0`, so that `phi' = 0`, `alpha_init = 1`, `phi0 = 9e9` and an objective
that returns `9e9` at every point.  The first trial step is rejected
(`9e9 < 9e9` is false), the quadratic fit is `-0 / (2 * 0)`, which is NaN,
`std::max` of NaN and `0.1 alpha` is NaN, and from then on every test of the
loop is false: `linesearch` does not return, whatever the number of iterations
allowed. -/
theorem linesearch_hangs_on_flat_objective :
    Finset.sum (Finset.range 1) (fun _ => (1 : ℝ) * 0) ≤ 0 ∧ (1 : ℝ) ≠ 0 ∧ (0 : ℝ) < 1 ∧
    XDouble.max (ImplicitEngine.linesearchBacktrack Real.sqrt (XDouble.fin 9000000000)
      (XDouble.fin 0) (XDouble.fin 1) (XDouble.fin 0) (XDouble.fin 9000000000)
      (XDouble.fin 9000000000)) (XDouble.fin (1 / 10) * XDouble.fin (1 : ℝ)) = XDouble.nan ∧
    ∀ fuel, ImplicitEngine.linesearch Real.sqrt (fun _ => XDouble.fin 9000000000) 1 fuel
      (fun _ => XDouble.fin 0) (fun _ => XDouble.fin 1) (XDouble.fin 9000000000)
      (fun _ => XDouble.fin 0) (XDouble.fin (1 : ℝ)) = none := by
  have hmax : XDouble.max (ImplicitEngine.linesearchBacktrack Real.sqrt (XDouble.fin 9000000000)
      (XDouble.fin 0) (XDouble.fin 1) (XDouble.fin 0) (XDouble.fin 9000000000)
      (XDouble.fin 9000000000)) (XDouble.fin (1 / 10) * XDouble.fin (1 : ℝ)) = XDouble.nan := by
    have hb : ImplicitEngine.linesearchBacktrack Real.sqrt (XDouble.fin 9000000000)
        (XDouble.fin 0) (XDouble.fin 1) (XDouble.fin 0) (XDouble.fin 9000000000)
        (XDouble.fin (9000000000 : ℝ)) = XDouble.nan := by
      unfold ImplicitEngine.linesearchBacktrack
      simp only [XDouble.eq_fin, decide_True, if_true, XDouble.fin_mul, XDouble.fin_sub,
        XDouble.fin_neg]
      have h0 : (2 : ℝ) * (9000000000 - 9000000000 - 0 * 1) = 0 := by norm_num
      have h1 : (-(0 * 1 * 1) : ℝ) = 0 := by norm_num
      rw [h0, h1, XDouble.fin_div_zero]
      unfold XDouble.signedInf
      rw [if_neg (lt_irrefl _), if_neg (lt_irrefl _)]
    rw [hb]
    rfl
  refine ⟨by norm_num, by norm_num, by norm_num, hmax, fun fuel => ?_⟩
  rw [linesearch_of_direction Real.sqrt _ 0 (fun _ => 0) (fun _ => 1)
      (fun _ => 0) 9000000000 1 (fun i _ => by norm_num) ⟨0, Nat.zero_lt_one, by norm_num⟩
      (by norm_num)]
  have hs : Finset.sum (Finset.range (0 + 1)) (fun _ => (1 : ℝ) * 0) = 0 := by norm_num
  rw [hs]
  cases fuel with
  | zero => rfl
  | succ f =>
    have h1 : (XDouble.fin (1 : ℝ)).lt (XDouble.fin (1 / 1000 / 1)) = false := by
      rw [XDouble.lt_fin]; exact decide_eq_false (by norm_num)
    have h2 : ((fun _ => XDouble.fin 9000000000 : (Nat → XDouble ℝ) → XDouble ℝ)
        (fun _ => XDouble.fin 0 + XDouble.fin (1 : ℝ) * XDouble.fin 1)).lt
        (XDouble.fin 9000000000 + XDouble.fin (1 / 10000) * XDouble.fin 1 * XDouble.fin 0) =
        false := by
      simp only [XDouble.fin_mul, XDouble.fin_add, XDouble.lt_fin]
      exact decide_eq_false (by norm_num)
    rw [linesearchLoop_of_rejected Real.sqrt _ _ _ _ _ _ f _ _ _ h1 h2, hmax]
    exact linesearchLoop_of_nan _ _ _ _ _ _ _ _ _ _

end lineSearch


/-! ## The iteration budget of the optimiser -/

section optimiser

variable [LinearOrderedField K]

/-- One execution of the body of the loop of `minimize` leaves `maxiter - k` as
it was, whether or not the restart fires: the restart subtracts `k` from
`maxiter` and sets `k` to 0. -/
theorem minimizeStep_budget (sqrt : K → K) (value : (Nat → XDouble K) → XDouble K)
    (valueGrad : (Nat → XDouble K) → XDouble K × (Nat → XDouble K))
    (noVars : Nat) (window : Int) (eps_x : XDouble K) (lsFuel : Nat) (st st1 : MinimizeState K)
    (b : Bool)
    (h : ImplicitEngine.minimizeStep sqrt value valueGrad noVars window eps_x lsFuel st =
      some (st1, b)) :
    st1.maxiter - st1.k = st.maxiter - st.k := by
  unfold ImplicitEngine.minimizeStep at h
  simp only [] at h
  split at h
  · exact absurd h (by simp)
  · split_ifs at h with h1 h2 h2
    all_goals
      simp only [Option.some.injEq, Prod.mk.injEq] at h
      obtain ⟨rfl, _⟩ := h
      simp

/-- The loop of `minimize` ends within `maxiter - k` executions of its body,
having called `linesearch` at most that many times. -/
theorem minimizeLoop_budget (sqrt : K → K) (value : (Nat → XDouble K) → XDouble K)
    (valueGrad : (Nat → XDouble K) → XDouble K × (Nat → XDouble K))
    (noVars : Nat) (window : Int) (eps_x : XDouble K) (lsFuel : Nat) :
    ∀ (fuel : Nat) (st : MinimizeState K) (n : Nat), (st.maxiter - st.k).toNat ≤ fuel →
      ∃ r m, ImplicitEngine.minimizeLoop sqrt value valueGrad noVars window eps_x lsFuel fuel st n =
        some (r, m) ∧ m ≤ n + (st.maxiter - st.k).toNat := by
  intro fuel
  induction fuel with
  | zero =>
    intro st n hf
    have hk : ¬ st.k < st.maxiter := by omega
    exact ⟨some st, n, by unfold ImplicitEngine.minimizeLoop; rw [if_neg hk], Nat.le_add_right _ _⟩
  | succ fuel ih =>
    intro st n hf
    by_cases hk : st.k < st.maxiter
    · unfold ImplicitEngine.minimizeLoop
      rw [if_pos hk]
      cases hs : ImplicitEngine.minimizeStep sqrt value valueGrad noVars window eps_x lsFuel st with
      | none => exact ⟨none, n + 1, rfl, by omega⟩
      | some p =>
        obtain ⟨st1, b⟩ := p
        have hb := minimizeStep_budget sqrt value valueGrad noVars window eps_x lsFuel st st1 b hs
        cases b with
        | true => exact ⟨some st1, n + 1, rfl, by omega⟩
        | false =>
          have hm : (({ st1 with k := st1.k + 1 } : MinimizeState K).maxiter -
              ({ st1 with k := st1.k + 1 } : MinimizeState K).k).toNat + 1 =
              (st.maxiter - st.k).toNat := by
            show (st1.maxiter - (st1.k + 1)).toNat + 1 = (st.maxiter - st.k).toNat
            omega
          obtain ⟨r, m, hr, hm2⟩ := ih { st1 with k := st1.k + 1 } (n + 1) (by omega)
          exact ⟨r, m, hr, by omega⟩
    · exact ⟨some st, n, by unfold ImplicitEngine.minimizeLoop; rw [if_neg hk],
        Nat.le_add_right _ _⟩

/-- The norm `lpNorm<Infinity>` of a finite non-empty vector is the largest
absolute value of its entries. -/
theorem lpNormInf_fin (g : Nat → K) (n : Nat) :
    ∃ G, XDouble.lpNormInf (n + 1) (fun i => XDouble.fin (g i)) = XDouble.fin G ∧
      (∀ i, i < n + 1 → |g i| ≤ G) ∧ ∃ i, i < n + 1 ∧ G = |g i| :=
  XDouble.maxCoeff_fin (fun i => |g i|) n

/-- The initial step `min (1, 1 / |grad|_inf)` for a finite gradient is finite
and in `(0, 1]`; it is 1 for the zero gradient, where `1 / 0` is `+inf`. -/
theorem restart_alpha_init (G : K) (hG : 0 ≤ G) :
    ∃ a0, XDouble.min (XDouble.fin 1) (XDouble.fin 1 / XDouble.fin G) = XDouble.fin a0 ∧
      0 < a0 ∧ a0 ≤ 1 := by
  rcases eq_or_lt_of_le hG with h | h
  · rw [← h, XDouble.fin_div_zero]
    refine ⟨1, ?_, zero_lt_one, le_refl _⟩
    unfold XDouble.signedInf
    rw [if_pos zero_lt_one]
    rfl
  · rw [XDouble.fin_div _ _ (ne_of_gt h)]
    unfold XDouble.min
    rw [XDouble.lt_fin]
    by_cases h1 : 1 / G < 1
    · exact ⟨1 / G, by rw [if_pos (decide_eq_true h1)], div_pos zero_lt_one h, h1.le⟩
    · exact ⟨1, by rw [if_neg (by simpa using h1)], zero_lt_one, le_refl _⟩

/-- For the zero direction `alpha_min` is `+inf` and `linesearch` returns
`alpha_init` at once. -/
theorem linesearch_of_zero_direction (sqrt : K → K) (value : (Nat → XDouble K) → XDouble K)
    (n fuel : Nat) (x dv g : Nat → K) (p0 a0 : K) (hd : ∀ i, i < n + 1 → dv i = 0) :
    ImplicitEngine.linesearch sqrt value (n + 1) (fuel + 1) (fun i => XDouble.fin (x i))
      (fun i => XDouble.fin (dv i)) (XDouble.fin p0) (fun i => XDouble.fin (g i))
      (XDouble.fin a0) = some (XDouble.fin a0) := by
  obtain ⟨M, _, ⟨i, hi, hMi⟩, hls⟩ := linesearch_of_fin sqrt value n (fuel + 1) x dv g p0 a0
  have hM : M = 0 := by rw [hMi, hd i hi, abs_zero, zero_div]
  rw [hls, if_pos hM]
  exact linesearchLoop_of_below sqrt value _ _ _ _ _ fuel _ _ _ rfl

/-- In a state with finite `x0`, gradient and `f` in which the restart fires
(`<q, grad> < 1e-4`), with an objective that is finite on the line through `x0`
along `-grad`, the line search of the iteration returns: the body of the loop
is completed, given enough iterations of the line search. -/
theorem minimizeStep_of_restart_returns [Archimedean K] (sqrt : K → K)
    (hsqrt : ∀ x, 0 ≤ sqrt x) (value : (Nat → XDouble K) → XDouble K)
    (valueGrad : (Nat → XDouble K) → XDouble K × (Nat → XDouble K))
    (n : Nat) (window : Int) (eps_x : XDouble K) (st : MinimizeState K)
    (x g : Nat → K) (p0 : K) (phi : K → K)
    (hx : st.x0 = fun i => XDouble.fin (x i)) (hg : st.grad = fun i => XDouble.fin (g i))
    (hf : st.f = XDouble.fin p0)
    (hv : ∀ a, value (fun i => XDouble.fin (x i) + XDouble.fin a * XDouble.fin (-g i)) =
      XDouble.fin (phi a))
    (hres : (XDouble.dot (n + 1) (ImplicitEngine.minimizeDirection (n + 1) window st).1
      st.grad).lt (XDouble.fin (1 / 10000)) = true) :
    ∃ N, ∀ lsFuel, N ≤ lsFuel →
      ∃ r, ImplicitEngine.minimizeStep sqrt value valueGrad (n + 1) window eps_x lsFuel st =
        some r := by
  obtain ⟨G, hG, hGle, i0, hi0, hGi⟩ := lpNormInf_fin g n
  have hG0 : 0 ≤ G := hGi ▸ abs_nonneg _
  obtain ⟨a0, ha0, ha0pos, _⟩ := restart_alpha_init G hG0
  have hls : ∃ N, ∀ lsFuel, N ≤ lsFuel → ∃ r,
      ImplicitEngine.linesearch sqrt value (n + 1) lsFuel (fun i => XDouble.fin (x i))
        (fun i => XDouble.fin (-g i)) (XDouble.fin p0) (fun i => XDouble.fin (g i))
        (XDouble.fin a0) = some (XDouble.fin r) := by
    by_cases hz : ∀ i, i < n + 1 → g i = 0
    · refine ⟨1, fun lsFuel hl => ⟨a0, ?_⟩⟩
      obtain ⟨f, rfl⟩ : ∃ f, lsFuel = f + 1 := ⟨lsFuel - 1, by omega⟩
      exact linesearch_of_zero_direction sqrt value n f x (fun i => -g i) g p0 a0
        (fun i hi => by simp only [hz i hi, neg_zero])
    · have hp : Finset.sum (Finset.range (n + 1)) (fun i => -g i * g i) < 0 := by
        push_neg at hz
        obtain ⟨i, hi, hgi⟩ := hz
        have hnn : ∀ j ∈ Finset.range (n + 1), 0 ≤ g j * g j := fun j _ => mul_self_nonneg _
        have hpos : 0 < Finset.sum (Finset.range (n + 1)) (fun j => g j * g j) :=
          Finset.sum_pos' hnn ⟨i, Finset.mem_range.2 hi, mul_self_pos.2 hgi⟩
        have heq : Finset.sum (Finset.range (n + 1)) (fun i => -g i * g i) =
            -Finset.sum (Finset.range (n + 1)) (fun j => g j * g j) := by
          rw [← Finset.sum_neg_distrib]
          exact Finset.sum_congr rfl (fun j _ => by ring)
        rw [heq]
        linarith
      obtain ⟨N, hN⟩ := linesearch_terminates sqrt hsqrt value n x (fun i => -g i) g p0 a0 phi
        hv hp ha0pos
      exact ⟨N, fun lsFuel hl => by
        obtain ⟨r, hr, _⟩ := hN lsFuel hl
        exact ⟨r, hr⟩⟩
  obtain ⟨N, hN⟩ := hls
  refine ⟨N, fun lsFuel hl => ?_⟩
  obtain ⟨r, hr⟩ := hN lsFuel hl
  unfold ImplicitEngine.minimizeStep
  simp only [hres, if_true]
  rw [hx, hg, hf, hG, ha0]
  have hneg : (fun i => -XDouble.fin (g i)) = fun i => XDouble.fin (-g i) := rfl
  simp only [hneg, hr]
  split_ifs <;> exact ⟨_, rfl⟩

/-- C26: for every starting point, every behaviour of the two overloads of
`value` and every setting of the members, the loop of `minimize` ends within
`newton_iter` executions of its body and calls `linesearch` at most
`newton_iter` times, whether or not the restart fires (it subtracts `k` from
`maxiter` and sets `k` to 0, so `maxiter - k` drops by one per iteration in
either case).  And an iteration in which the restart fires
(`<q, grad> < 1e-4`, in particular `<q, grad> < 0`) is completed when `x0`,
the gradient and `f` are finite and the objective is finite on the line
through `x0` along `-grad`: its line search returns. -/
theorem minimize_iteration_budget [Archimedean K] (sqrt : K → K) (hsqrt : ∀ x, 0 ≤ sqrt x)
    (value : (Nat → XDouble K) → XDouble K)
    (valueGrad : (Nat → XDouble K) → XDouble K × (Nat → XDouble K))
    (noVars : Nat) (window newtonIter : Int) (eps_x : XDouble K) (fuel lsFuel : Nat)
    (x0 : Nat → XDouble K) (hfuel : newtonIter.toNat ≤ fuel) :
    (∃ r m, ImplicitEngine.minimize sqrt value valueGrad noVars window newtonIter eps_x fuel lsFuel
        x0 = some (r, m) ∧ m ≤ newtonIter.toNat) ∧
    (∀ (n : Nat) (st : MinimizeState K) (x g : Nat → K) (p0 : K) (phi : K → K),
      st.x0 = (fun i => XDouble.fin (x i)) → st.grad = (fun i => XDouble.fin (g i)) →
      st.f = XDouble.fin p0 →
      (∀ a, value (fun i => XDouble.fin (x i) + XDouble.fin a * XDouble.fin (-g i)) =
        XDouble.fin (phi a)) →
      (XDouble.dot (n + 1) (ImplicitEngine.minimizeDirection (n + 1) window st).1
        st.grad).lt (XDouble.fin (1 / 10000)) = true →
      ∃ N, ∀ ls, N ≤ ls →
        ∃ r, ImplicitEngine.minimizeStep sqrt value valueGrad (n + 1) window eps_x ls st =
          some r) := by
  constructor
  · obtain ⟨r, m, hr, hm⟩ := minimizeLoop_budget sqrt value valueGrad noVars window eps_x lsFuel
      fuel (ImplicitEngine.minimizeInit valueGrad noVars newtonIter x0) 0
      (by
        show (newtonIter - 0).toNat ≤ fuel
        rw [sub_zero]
        exact hfuel)
    refine ⟨r.map (fun st => st.x0), m, ?_, ?_⟩
    · unfold ImplicitEngine.minimize
      rw [hr]
      rfl
    · have h0 : ((ImplicitEngine.minimizeInit valueGrad noVars newtonIter x0).maxiter -
          (ImplicitEngine.minimizeInit valueGrad noVars newtonIter x0).k).toNat =
          newtonIter.toNat := by
        show (newtonIter - 0).toNat = newtonIter.toNat
        rw [sub_zero]
      omega
  · intro n st x g p0 phi hx hg hf hv hres
    exact minimizeStep_of_restart_returns sqrt hsqrt value valueGrad n window eps_x st x g p0 phi
      hx hg hf hv hres

/-- C26, instance: two variables, window 5, `newton_iter = 100`, the objective
constantly 0 with gradient 0. -/
theorem minimize_iteration_budget_witness :
    ∃ r m, ImplicitEngine.minimize Real.sqrt (fun _ => XDouble.fin 0)
        (fun _ => (XDouble.fin 0, fun _ => XDouble.fin 0)) 2 5 100 (XDouble.fin (1 / 100000))
        100 10 (fun _ => XDouble.fin (0 : ℝ)) = some (r, m) ∧ m ≤ (100 : Int).toNat :=
  (minimize_iteration_budget Real.sqrt Real.sqrt_nonneg (fun _ => XDouble.fin 0)
    (fun _ => (XDouble.fin 0, fun _ => XDouble.fin 0)) 2 5 100 (XDouble.fin (1 / 100000))
    100 10 (fun _ => XDouble.fin (0 : ℝ)) (by decide)).1

end optimiser


/-! ## The history of the optimiser -/

section history

variable [LinearOrderedField K]

/-- One more iteration of the first loop of the two-loop recursion. -/
theorem minimizeBackward_succ (noVars : Nat) (window : Int) (s y : Nat → Nat → XDouble K)
    (m : Nat) (st : Int × (Nat → XDouble K) × (Nat → XDouble K) × (Nat → XDouble K)) :
    ImplicitEngine.minimizeBackward noVars window s y (m + 1) st =
      (let b := ImplicitEngine.minimizeBackward noVars window s y m st
       let j := if b.1 - 1 = -1 then window - 1 else b.1 - 1
       let rho := Function.update b.2.1 j.toNat
         (XDouble.fin 1 / XDouble.dot noVars (s j.toNat) (y j.toNat))
       let alpha := Function.update b.2.2.1 j.toNat
         (rho j.toNat * XDouble.dot noVars (s j.toNat) b.2.2.2)
       (j, rho, alpha, fun i => b.2.2.2 i - alpha j.toNat * y j.toNat i)) := by
  unfold ImplicitEngine.minimizeBackward
  rw [List.range_succ, List.foldl_append]
  rfl

/-- One more iteration of the second loop of the two-loop recursion. -/
theorem minimizeForward_succ (noVars : Nat) (window : Int) (s y : Nat → Nat → XDouble K)
    (rho alpha : Nat → XDouble K) (m : Nat) (st : Int × (Nat → XDouble K)) :
    ImplicitEngine.minimizeForward noVars window s y rho alpha (m + 1) st =
      (let b := ImplicitEngine.minimizeForward noVars window s y rho alpha m st
       let beta := rho b.1.toNat * XDouble.dot noVars b.2 (y b.1.toNat)
       (if b.1 + 1 = window then 0 else b.1 + 1,
        fun i => b.2 i + (alpha b.1.toNat - beta) * s b.1.toNat i)) := by
  unfold ImplicitEngine.minimizeForward
  rw [List.range_succ, List.foldl_append]
  rfl

/-- The ring of columns: stepping back from the column written `m` iterations
ago gives the one written `m + 1` iterations ago, stepping forward the one
written `m - 1` iterations ago, and the columns written `1 .. window`
iterations ago are distinct and lie in `[0, window)`. -/
theorem ringColumn_facts (window e : Int) (he0 : 0 ≤ e) (he : e < window) :
    ringColumn window e 0 = e ∧
    (∀ m : Int, 0 ≤ m → m + 1 ≤ window →
      (if ringColumn window e m - 1 = -1 then window - 1 else ringColumn window e m - 1) =
        ringColumn window e (m + 1)) ∧
    (∀ m : Int, 1 ≤ m → m ≤ window →
      (if ringColumn window e m + 1 = window then 0 else ringColumn window e m + 1) =
        ringColumn window e (m - 1)) ∧
    (∀ m : Int, 0 ≤ m → m ≤ window → 0 ≤ ringColumn window e m ∧ ringColumn window e m < window ∨
      m = 0 ∨ m = window) ∧
    (∀ m : Int, 1 ≤ m → m ≤ window → 0 ≤ ringColumn window e m ∧ ringColumn window e m < window) ∧
    (∀ i m : Int, 1 ≤ i → i ≤ window → 1 ≤ m → m ≤ window →
      ringColumn window e i = ringColumn window e m → i = m) := by
  unfold ringColumn
  refine ⟨?_, ?_, ?_, ?_, ?_, ?_⟩
  · rw [if_pos he0, sub_zero]
  · intro m hm0 hm
    split_ifs <;> omega
  · intro m hm1 hm
    split_ifs <;> omega
  · intro m hm0 hm
    split_ifs <;> omega
  · intro m hm1 hm
    split_ifs <;> omega
  · intro i m hi1 hi hm1 hm
    split_ifs <;> omega

/-- The first loop of the two-loop recursion reads only the columns written
in the last `m` iterations: two runs of `m ≤ window` iterations from column
`e`, on histories that agree on those columns, end in the same column with the
same `q`, and with `rho` and `alpha` that agree on those columns. -/
theorem minimizeBackward_congr (noVars : Nat) (window e : Int) (he0 : 0 ≤ e) (he : e < window)
    (s y s2 y2 : Nat → Nat → XDouble K) (rho alpha rho2 alpha2 q0 : Nat → XDouble K) :
    ∀ m : Nat, (m : Int) ≤ window →
    (∀ i : Nat, 1 ≤ i → i ≤ m →
      s (ringColumn window e i).toNat = s2 (ringColumn window e i).toNat ∧
      y (ringColumn window e i).toNat = y2 (ringColumn window e i).toNat) →
    (ImplicitEngine.minimizeBackward noVars window s y m (e, rho, alpha, q0)).1 =
      ringColumn window e m ∧
    (ImplicitEngine.minimizeBackward noVars window s2 y2 m (e, rho2, alpha2, q0)).1 =
      ringColumn window e m ∧
    (ImplicitEngine.minimizeBackward noVars window s y m (e, rho, alpha, q0)).2.2.2 =
      (ImplicitEngine.minimizeBackward noVars window s2 y2 m (e, rho2, alpha2, q0)).2.2.2 ∧
    ∀ i : Nat, 1 ≤ i → i ≤ m →
      (ImplicitEngine.minimizeBackward noVars window s y m (e, rho, alpha, q0)).2.1
          (ringColumn window e i).toNat =
        (ImplicitEngine.minimizeBackward noVars window s2 y2 m (e, rho2, alpha2, q0)).2.1
          (ringColumn window e i).toNat ∧
      (ImplicitEngine.minimizeBackward noVars window s y m (e, rho, alpha, q0)).2.2.1
          (ringColumn window e i).toNat =
        (ImplicitEngine.minimizeBackward noVars window s2 y2 m (e, rho2, alpha2, q0)).2.2.1
          (ringColumn window e i).toNat := by
  obtain ⟨h0, hback, -, -, hrange, hinj⟩ := ringColumn_facts window e he0 he
  intro m
  induction m with
  | zero =>
    intro _ _
    refine ⟨?_, ?_, rfl, fun i h1 h2 => absurd h1 (by omega)⟩
    · show e = ringColumn window e ((0 : Nat) : Int)
      rw [Nat.cast_zero, h0]
    · show e = ringColumn window e ((0 : Nat) : Int)
      rw [Nat.cast_zero, h0]
  | succ m ih =>
    intro hm hcol
    obtain ⟨hj, hj2, hq, hra⟩ := ih (by push_cast at hm ⊢; omega)
      (fun i h1 h2 => hcol i h1 (Nat.le_succ_of_le h2))
    rw [minimizeBackward_succ, minimizeBackward_succ]
    simp only []
    rw [hj, hj2, hq]
    have hnext : (if ringColumn window e m - 1 = -1 then window - 1
        else ringColumn window e m - 1) = ringColumn window e ((m + 1 : Nat) : Int) := by
      rw [hback m (by omega) (by push_cast at hm; omega)]
      push_cast
      rfl
    rw [hnext]
    obtain ⟨hs, hy⟩ := hcol (m + 1) (by omega) (le_refl _)
    rw [hs, hy]
    refine ⟨rfl, rfl, ?_, ?_⟩
    · simp only [Function.update_same]
    · intro i h1 h2
      rcases Nat.lt_succ_iff_lt_or_eq.1 (Nat.lt_succ_of_le h2) with hlt | heq
      · have hne : (ringColumn window e i).toNat ≠
            (ringColumn window e ((m + 1 : Nat) : Int)).toNat := by
          have hr1 := hrange i (by omega) (by push_cast at hm; omega)
          have hr2 := hrange ((m + 1 : Nat) : Int) (by push_cast; omega) hm
          intro hc
          have : ringColumn window e i = ringColumn window e ((m + 1 : Nat) : Int) := by
            omega
          have := hinj i ((m + 1 : Nat) : Int) (by omega) (by push_cast at hm; omega)
            (by push_cast; omega) hm this
          push_cast at this
          omega
        simp only [Function.update_noteq hne]
        exact hra i h1 (Nat.lt_succ_iff.1 hlt)
      · subst heq
        simp only [Function.update_same]
        exact ⟨trivial, trivial⟩

/-- The second loop of the two-loop recursion reads only the columns written
in the last `m` iterations: two runs of `t ≤ m` iterations from the column
written `m` iterations ago and the same `q`, on histories and vectors `rho`,
`alpha` that agree on those columns, give the same `q`. -/
theorem minimizeForward_congr (noVars : Nat) (window e : Int) (he0 : 0 ≤ e) (he : e < window)
    (s y s2 y2 : Nat → Nat → XDouble K) (rho alpha rho2 alpha2 q0 : Nat → XDouble K) (m : Nat)
    (hm : (m : Int) ≤ window)
    (hcol : ∀ i : Nat, 1 ≤ i → i ≤ m →
      s (ringColumn window e i).toNat = s2 (ringColumn window e i).toNat ∧
      y (ringColumn window e i).toNat = y2 (ringColumn window e i).toNat ∧
      rho (ringColumn window e i).toNat = rho2 (ringColumn window e i).toNat ∧
      alpha (ringColumn window e i).toNat = alpha2 (ringColumn window e i).toNat) :
    ∀ t : Nat, t ≤ m →
    (ImplicitEngine.minimizeForward noVars window s y rho alpha t
      (ringColumn window e m, q0)).1 = ringColumn window e ((m - t : Nat) : Int) ∧
    (ImplicitEngine.minimizeForward noVars window s2 y2 rho2 alpha2 t
      (ringColumn window e m, q0)).1 = ringColumn window e ((m - t : Nat) : Int) ∧
    (ImplicitEngine.minimizeForward noVars window s y rho alpha t
      (ringColumn window e m, q0)).2 =
    (ImplicitEngine.minimizeForward noVars window s2 y2 rho2 alpha2 t
      (ringColumn window e m, q0)).2 := by
  obtain ⟨-, -, hfwd, -, -, -⟩ := ringColumn_facts window e he0 he
  intro t
  induction t with
  | zero => intro _; exact ⟨rfl, rfl, rfl⟩
  | succ t ih =>
    intro ht
    obtain ⟨hj, hj2, hq⟩ := ih (by omega)
    rw [minimizeForward_succ, minimizeForward_succ]
    simp only []
    rw [hj, hj2, hq]
    obtain ⟨hs, hy, hr, ha⟩ := hcol (m - t) (by omega) (by omega)
    rw [hs, hy, hr, ha]
    have hnext : (if ringColumn window e ((m - t : Nat) : Int) + 1 = window then 0
        else ringColumn window e ((m - t : Nat) : Int) + 1) =
        ringColumn window e ((m - (t + 1) : Nat) : Int) := by
      rw [hfwd ((m - t : Nat) : Int) (by omega) (by omega)]
      congr 1
      omega
    rw [hnext]
    exact ⟨rfl, rfl, rfl⟩

/-- The direction `q` of the two-loop recursion depends on the history only
through the columns written in the last `min (window, k)` iterations, and not
on the vectors `rho` and `alpha` it starts with. -/
theorem minimizeDirection_congr (noVars : Nat) (window : Int) (st st2 : MinimizeState K)
    (he0 : 0 ≤ st.endCol) (he : st.endCol < window) (hk0 : 0 ≤ st.k)
    (hend : st2.endCol = st.endCol) (hk : st2.k = st.k) (hgrad : st2.grad = st.grad)
    (hgamma : st2.gamma_k = st.gamma_k)
    (hcol : ∀ i : Nat, 1 ≤ i → (i : Int) ≤ window → (i : Int) ≤ st.k →
      st.s (ringColumn window st.endCol i).toNat = st2.s (ringColumn window st.endCol i).toNat ∧
      st.y (ringColumn window st.endCol i).toNat = st2.y (ringColumn window st.endCol i).toNat) :
    (ImplicitEngine.minimizeDirection noVars window st).1 =
      (ImplicitEngine.minimizeDirection noVars window st2).1 := by
  unfold ImplicitEngine.minimizeDirection
  simp only []
  rw [hend, hk, hgrad, hgamma]
  have hwin : 0 ≤ window := by omega
  have hm : (((min window st.k).toNat : Nat) : Int) ≤ window := by
    rw [Int.toNat_of_nonneg (le_min hwin hk0)]
    exact min_le_left _ _
  have hmk : (((min window st.k).toNat : Nat) : Int) ≤ st.k := by
    rw [Int.toNat_of_nonneg (le_min hwin hk0)]
    exact min_le_right _ _
  have hcol' : ∀ i : Nat, 1 ≤ i → i ≤ (min window st.k).toNat →
      st.s (ringColumn window st.endCol i).toNat = st2.s (ringColumn window st.endCol i).toNat ∧
      st.y (ringColumn window st.endCol i).toNat = st2.y (ringColumn window st.endCol i).toNat :=
    fun i h1 h2 => hcol i h1 (by omega) (by omega)
  obtain ⟨hj, hj2, hq, hra⟩ := minimizeBackward_congr noVars window st.endCol he0 he
    st.s st.y st2.s st2.y st.rho st.alpha st2.rho st2.alpha st.grad (min window st.k).toNat hm hcol'
  rw [hj, hj2, hq]
  exact (minimizeForward_congr noVars window st.endCol he0 he st.s st.y st2.s st2.y _ _ _ _ _
    (min window st.k).toNat hm
    (fun i h1 h2 => ⟨(hcol' i h1 h2).1, (hcol' i h1 h2).2, (hra i h1 h2).1, (hra i h1 h2).2⟩)
    (min window st.k).toNat (le_refl _)).2.2

/-- The direction `q` of the two-loop recursion is a function of the pairs
produced since the last restart: two states with the same list of pairs, the
same `endCol`, gradient and `gamma_k` give the same direction, whatever else
their history matrices hold. -/
theorem minimizeDirection_of_history (noVars : Nat) (window : Int) (st st2 : MinimizeState K)
    (H : List ((Nat → XDouble K) × (Nat → XDouble K)))
    (h1 : st.HistoryIs window H) (h2 : st2.HistoryIs window H)
    (hend : st2.endCol = st.endCol) (hgrad : st2.grad = st.grad)
    (hgamma : st2.gamma_k = st.gamma_k) :
    (ImplicitEngine.minimizeDirection noVars window st).1 =
      (ImplicitEngine.minimizeDirection noVars window st2).1 := by
  obtain ⟨hk1, he0, he, hc1⟩ := h1
  obtain ⟨hk2, -, -, hc2⟩ := h2
  refine minimizeDirection_congr noVars window st st2 he0 he (by omega) hend (by omega) hgrad
    hgamma ?_
  intro i hi1 hiw hik
  have hlt : i - 1 < H.length := by omega
  obtain ⟨p, hp⟩ : ∃ p, H.get? (i - 1) = some p := ⟨_, List.get?_eq_get hlt⟩
  have hcast : (((i - 1 : Nat) : Int) + 1) = (i : Int) := by omega
  have a1 := hc1 (i - 1) p hp (by omega)
  have a2 := hc2 (i - 1) p hp (by omega)
  rw [hcast] at a1 a2
  rw [hend] at a2
  exact ⟨a1.1.trans a2.1.symm, a1.2.trans a2.2.symm⟩

/-- A conditional that yields `true` in one branch and `false` in the other
has taken the second branch when the result carries `false`. -/
theorem continued_of_ite {α : Type} (c : Prop) [Decidable c] (a b r : α)
    (h : (if c then some (a, true) else some (b, false)) = some (r, false)) : ¬ c ∧ b = r := by
  by_cases hc : c
  · rw [if_pos hc] at h
    exact absurd h (by simp)
  · rw [if_neg hc] at h
    simp only [Option.some.injEq, Prod.mk.injEq, and_true] at h
    exact ⟨hc, h⟩

/-- An iteration of the loop of `minimize` that does not leave by `break`: the
line search has returned a step `rate`, along `-grad` from the initial step
`min (1, 1 / |grad|_inf)` if the restart fired and along `-q` from
`alpha_init` otherwise, and the state left is the one the statements after the
test `break` assign. -/
theorem minimizeStep_continued (sqrt : K → K) (value : (Nat → XDouble K) → XDouble K)
    (valueGrad : (Nat → XDouble K) → XDouble K × (Nat → XDouble K))
    (noVars : Nat) (window : Int) (eps_x : XDouble K) (lsFuel : Nat) (st st1 : MinimizeState K)
    (hstep : ImplicitEngine.minimizeStep sqrt value valueGrad noVars window eps_x lsFuel st =
      some (st1, false)) :
    ∃ rate q, q = (if (XDouble.dot noVars (ImplicitEngine.minimizeDirection noVars window st).1
          st.grad).lt (XDouble.fin (1 / 10000)) = true then st.grad
        else (ImplicitEngine.minimizeDirection noVars window st).1) ∧
      ImplicitEngine.linesearch sqrt value noVars lsFuel st.x0 (fun i => -q i) st.f st.grad
        (if (XDouble.dot noVars (ImplicitEngine.minimizeDirection noVars window st).1
          st.grad).lt (XDouble.fin (1 / 10000)) = true then
          XDouble.min (XDouble.fin 1) (XDouble.fin 1 / XDouble.lpNormInf noVars st.grad)
        else st.alpha_init) = some rate ∧
      st1.x0 = (fun i => st.x0 i - rate * q i) ∧
      st1.s = Function.update st.s st.endCol.toNat (fun i => st1.x0 i - st.x0 i) ∧
      st1.y = Function.update st.y st.endCol.toNat (fun i => st1.grad i - st.grad i) ∧
      st1.endCol = (if st.endCol + 1 = window then 0 else st.endCol + 1) ∧
      st1.maxiter = (if (XDouble.dot noVars (ImplicitEngine.minimizeDirection noVars window st).1
          st.grad).lt (XDouble.fin (1 / 10000)) = true then st.maxiter - st.k else st.maxiter) ∧
      st1.k = (if (XDouble.dot noVars (ImplicitEngine.minimizeDirection noVars window st).1
          st.grad).lt (XDouble.fin (1 / 10000)) = true then 0 else st.k) ∧
      (st1.f, st1.grad) = valueGrad st1.x0 ∧ st1.alpha_init = XDouble.fin 1 := by
  unfold ImplicitEngine.minimizeStep at hstep
  simp only [] at hstep
  generalize hls : ImplicitEngine.linesearch sqrt value noVars lsFuel _ _ _ _ _ = r at hstep
  cases r with
  | none => exact absurd hstep (by simp)
  | some rate =>
    simp only [] at hstep
    obtain ⟨-, hst⟩ := continued_of_ite _ _ _ _ hstep
    subst hst
    exact ⟨rate, _, rfl, hls, rfl, rfl, rfl, rfl, rfl, rfl, rfl, rfl⟩

/-- An iteration of the loop of `minimize` that does not leave by `break`, from
a state whose history is `H`: at the head of the next iteration the history
is the pair `(x0 - x_old, grad - grad_old)` of this iteration, followed by `H`
if the restart did not fire and by nothing if it did. -/
theorem minimizeStep_history (sqrt : K → K) (value : (Nat → XDouble K) → XDouble K)
    (valueGrad : (Nat → XDouble K) → XDouble K × (Nat → XDouble K))
    (noVars : Nat) (window : Int) (eps_x : XDouble K) (lsFuel : Nat) (st st1 : MinimizeState K)
    (H : List ((Nat → XDouble K) × (Nat → XDouble K)))
    (he0 : 0 ≤ st.endCol) (he : st.endCol < window)
    (hH : (XDouble.dot noVars (ImplicitEngine.minimizeDirection noVars window st).1
      st.grad).lt (XDouble.fin (1 / 10000)) = false → st.HistoryIs window H)
    (hstep : ImplicitEngine.minimizeStep sqrt value valueGrad noVars window eps_x lsFuel st =
      some (st1, false)) :
    MinimizeState.HistoryIs window { st1 with k := st1.k + 1 }
      ((fun i => st1.x0 i - st.x0 i, fun i => st1.grad i - st.grad i) ::
        (if (XDouble.dot noVars (ImplicitEngine.minimizeDirection noVars window st).1
          st.grad).lt (XDouble.fin (1 / 10000)) = true then [] else H)) := by
  obtain ⟨rate, q, -, -, -, hs, hy, hend, -, hk, -, -⟩ := minimizeStep_continued sqrt value
    valueGrad noVars window eps_x lsFuel st st1 hstep
  -- the column written is the one the next state sees one iteration back
  have hnew : ringColumn window (if st.endCol + 1 = window then 0 else st.endCol + 1)
      (((0 : Nat) : Int) + 1) = st.endCol := by
    unfold ringColumn
    split_ifs <;> omega
  have hold : ∀ j : Nat, ((j : Int) + 1) < window →
      ringColumn window (if st.endCol + 1 = window then 0 else st.endCol + 1)
        (((j + 1 : Nat) : Int) + 1) = ringColumn window st.endCol ((j : Int) + 1) ∧
      ringColumn window st.endCol ((j : Int) + 1) ≠ st.endCol ∧
      0 ≤ ringColumn window st.endCol ((j : Int) + 1) := by
    intro j hj
    unfold ringColumn
    push_cast
    split_ifs <;> omega
  refine ⟨?_, ?_, ?_, ?_⟩
  · show st1.k + 1 = _
    rw [hk]
    by_cases hr : (XDouble.dot noVars (ImplicitEngine.minimizeDirection noVars window st).1
        st.grad).lt (XDouble.fin (1 / 10000)) = true
    · rw [if_pos hr, if_pos hr]
      simp
    · rw [if_neg hr, if_neg hr]
      have := (hH (by simpa using hr)).1
      simp only [List.length_cons]
      push_cast
      omega
  · show 0 ≤ st1.endCol
    rw [hend]
    split_ifs <;> omega
  · show st1.endCol < window
    rw [hend]
    split_ifs <;> omega
  · intro i p hp hi
    show st1.s (ringColumn window st1.endCol ((i : Int) + 1)).toNat = p.1 ∧
      st1.y (ringColumn window st1.endCol ((i : Int) + 1)).toNat = p.2
    rw [hs, hy, hend]
    cases i with
    | zero =>
      rw [hnew, Function.update_same, Function.update_same]
      simp only [List.get?_cons_zero, Option.some.injEq] at hp
      subst hp
      exact ⟨rfl, rfl⟩
    | succ j =>
      simp only [List.get?_cons_succ] at hp
      by_cases hr : (XDouble.dot noVars (ImplicitEngine.minimizeDirection noVars window st).1
          st.grad).lt (XDouble.fin (1 / 10000)) = true
      · rw [if_pos hr] at hp
        exact absurd hp (by simp)
      · rw [if_neg hr] at hp
        obtain ⟨h1, h2, h3⟩ := hold j (by push_cast at hi; omega)
        have hne : (ringColumn window st.endCol ((j : Int) + 1)).toNat ≠ st.endCol.toNat := by
          omega
        rw [h1, Function.update_noteq hne, Function.update_noteq hne]
        exact (hH (by simpa using hr)).2.2.2 j p hp (by push_cast at hi; omega)

/-- C27: in an iteration of the loop of `minimize` in which the two-loop
direction `q` has `<q, grad> < 1e-4` and which does not leave by `break`
(`endCol` being a column of the history, `0 ≤ endCol < window`): the line
search is called with the direction `-grad` (`q` is replaced by `grad`, and
`x0` becomes `x0 - rate grad`) and the initial step `min (1, 1 / |grad|_inf)`;
`k` is set to 0 and `maxiter` reduced by `k`; and at the head of the next
iteration the history consists of the single pair `(x0 - x_old, grad -
grad_old)` this iteration produced, so the next two-loop direction is the
same in every state with that pair, whatever the history matrices held
before.  In general the two-loop direction is a function of the pairs produced
since the last restart, and each later iteration adds its pair to them. -/
theorem restart_resets_history (sqrt : K → K) (value : (Nat → XDouble K) → XDouble K)
    (valueGrad : (Nat → XDouble K) → XDouble K × (Nat → XDouble K))
    (noVars : Nat) (window : Int) (eps_x : XDouble K) (lsFuel : Nat) (st st1 : MinimizeState K)
    (he0 : 0 ≤ st.endCol) (he : st.endCol < window)
    (hres : (XDouble.dot noVars (ImplicitEngine.minimizeDirection noVars window st).1
      st.grad).lt (XDouble.fin (1 / 10000)) = true)
    (hstep : ImplicitEngine.minimizeStep sqrt value valueGrad noVars window eps_x lsFuel st =
      some (st1, false)) :
    (∃ rate, ImplicitEngine.linesearch sqrt value noVars lsFuel st.x0 (fun i => -st.grad i) st.f
        st.grad (XDouble.min (XDouble.fin 1) (XDouble.fin 1 / XDouble.lpNormInf noVars st.grad)) =
        some rate ∧
      st1.x0 = (fun i => st.x0 i - rate * st.grad i)) ∧
    st1.k = 0 ∧ st1.maxiter = st.maxiter - st.k ∧
    MinimizeState.HistoryIs window { st1 with k := st1.k + 1 }
      [(fun i => st1.x0 i - st.x0 i, fun i => st1.grad i - st.grad i)] ∧
    (∀ st2 : MinimizeState K,
      st2.HistoryIs window [(fun i => st1.x0 i - st.x0 i, fun i => st1.grad i - st.grad i)] →
      st2.endCol = st1.endCol → st2.grad = st1.grad → st2.gamma_k = st1.gamma_k →
      (ImplicitEngine.minimizeDirection noVars window { st1 with k := st1.k + 1 }).1 =
        (ImplicitEngine.minimizeDirection noVars window st2).1) ∧
    (∀ (stA stB : MinimizeState K) (H : List ((Nat → XDouble K) × (Nat → XDouble K))),
      stA.HistoryIs window H → stB.HistoryIs window H →
      stB.endCol = stA.endCol → stB.grad = stA.grad → stB.gamma_k = stA.gamma_k →
      (ImplicitEngine.minimizeDirection noVars window stA).1 =
        (ImplicitEngine.minimizeDirection noVars window stB).1) ∧
    (∀ (stA stA1 : MinimizeState K) (H : List ((Nat → XDouble K) × (Nat → XDouble K))),
      stA.HistoryIs window H →
      ImplicitEngine.minimizeStep sqrt value valueGrad noVars window eps_x lsFuel stA =
        some (stA1, false) →
      MinimizeState.HistoryIs window { stA1 with k := stA1.k + 1 }
        ((fun i => stA1.x0 i - stA.x0 i, fun i => stA1.grad i - stA.grad i) ::
          (if (XDouble.dot noVars (ImplicitEngine.minimizeDirection noVars window stA).1
            stA.grad).lt (XDouble.fin (1 / 10000)) = true then [] else H))) := by
  obtain ⟨rate, q, hq, hls, hx, -, -, -, hmax, hk, -, -⟩ := minimizeStep_continued sqrt value
    valueGrad noVars window eps_x lsFuel st st1 hstep
  rw [if_pos hres] at hq hls hmax hk
  subst hq
  have hhist := minimizeStep_history sqrt value valueGrad noVars window eps_x lsFuel st st1 []
    he0 he (fun hc => absurd hres (by rw [hc]; simp)) hstep
  rw [if_pos hres] at hhist
  refine ⟨⟨rate, hls, hx⟩, hk, hmax, hhist, ?_, ?_, ?_⟩
  · intro st2 h2 hend hgrad hgamma
    exact minimizeDirection_of_history noVars window _ st2 _ hhist h2 hend hgrad hgamma
  · intro stA stB H hA hB hend hgrad hgamma
    exact minimizeDirection_of_history noVars window stA stB H hA hB hend hgrad hgamma
  · intro stA stA1 H hA hstepA
    exact minimizeStep_history sqrt value valueGrad noVars window eps_x lsFuel stA stA1 H
      hA.2.1 hA.2.2.1 (fun _ => hA) hstepA

/-- The first iteration of `minimize` for one variable, window 5, `x0 = 0`, an
objective that is `-1` at every point and a gradient overload that returns
`f = 0` and the gradient `1/1000`: `<q, grad> = 1e-6 < 1e-4`, so the restart
fires; the line search accepts the step 1, and the step `-1/1000` is not below
`eps_x = 1e-5`. -/
theorem restart_scenario :
    (XDouble.dot 1 (ImplicitEngine.minimizeDirection 1 5
      (ImplicitEngine.minimizeInit (fun _ => (XDouble.fin 0, fun _ => XDouble.fin (1 / 1000 : ℝ)))
        1 100 (fun _ => XDouble.fin 0))).1
      (ImplicitEngine.minimizeInit (fun _ => (XDouble.fin 0, fun _ => XDouble.fin (1 / 1000 : ℝ)))
        1 100 (fun _ => XDouble.fin 0)).grad).lt (XDouble.fin (1 / 10000)) = true ∧
    ∃ st1, ImplicitEngine.minimizeStep Real.sqrt (fun _ => XDouble.fin (-1))
      (fun _ => (XDouble.fin 0, fun _ => XDouble.fin (1 / 1000 : ℝ))) 1 5
      (XDouble.fin (1 / 100000)) 1
      (ImplicitEngine.minimizeInit (fun _ => (XDouble.fin 0, fun _ => XDouble.fin (1 / 1000 : ℝ)))
        1 100 (fun _ => XDouble.fin 0)) = some (st1, false) := by
  have hdir : (XDouble.dot 1 (ImplicitEngine.minimizeDirection 1 5
      (ImplicitEngine.minimizeInit (fun _ => (XDouble.fin 0, fun _ => XDouble.fin (1 / 1000 : ℝ)))
        1 100 (fun _ => XDouble.fin 0))).1
      (ImplicitEngine.minimizeInit (fun _ => (XDouble.fin 0, fun _ => XDouble.fin (1 / 1000 : ℝ)))
        1 100 (fun _ => XDouble.fin 0)).grad) = XDouble.fin (0 + 1 * (1 / 1000) * (1 / 1000)) :=
    rfl
  have hres : (XDouble.fin (0 + 1 * (1 / 1000) * (1 / 1000) : ℝ)).lt (XDouble.fin (1 / 10000)) =
      true := by
    rw [XDouble.lt_fin]
    exact decide_eq_true (by norm_num)
  have hr : (XDouble.dot 1 (ImplicitEngine.minimizeDirection 1 5
      (ImplicitEngine.minimizeInit (fun _ => (XDouble.fin 0, fun _ => XDouble.fin (1 / 1000 : ℝ)))
        1 100 (fun _ => XDouble.fin 0))).1
      (ImplicitEngine.minimizeInit (fun _ => (XDouble.fin 0, fun _ => XDouble.fin (1 / 1000 : ℝ)))
        1 100 (fun _ => XDouble.fin 0)).grad).lt (XDouble.fin (1 / 10000)) = true := by
    rw [hdir]; exact hres
  refine ⟨hr, ?_⟩
  have hnorm : XDouble.lpNormInf 1 (fun _ => XDouble.fin (1 / 1000 : ℝ)) =
      XDouble.fin |1 / 1000| := rfl
  have hai : XDouble.min (XDouble.fin 1) (XDouble.fin 1 / XDouble.fin (|1 / 1000| : ℝ)) =
      XDouble.fin 1 := by
    rw [XDouble.fin_div _ _ (by norm_num)]
    unfold XDouble.min
    rw [XDouble.lt_fin, if_neg]
    simp only [decide_eq_true_eq, not_lt]
    rw [abs_of_pos (by norm_num)]
    norm_num
  have hls : ImplicitEngine.linesearch Real.sqrt (fun _ => XDouble.fin (-1)) 1 1
      (fun _ => XDouble.fin (0 : ℝ)) (fun _ => XDouble.fin (-(1 / 1000)))
      (XDouble.fin 0) (fun _ => XDouble.fin (1 / 1000)) (XDouble.fin 1) =
      some (XDouble.fin 1) := by
    rw [linesearch_of_direction Real.sqrt _ 0 (fun _ => 0) (fun _ => -(1 / 1000))
      (fun _ => 1 / 1000) 0 (1 / 1000) (fun i _ => by norm_num [abs_of_pos])
      ⟨0, Nat.zero_lt_one, by norm_num [abs_of_pos]⟩ (by norm_num)]
    apply linesearchLoop_of_decrease
    · rw [XDouble.lt_fin]; exact decide_eq_false (by norm_num)
    · simp only [XDouble.fin_mul, XDouble.fin_add, XDouble.lt_fin]
      exact decide_eq_true (by norm_num)
  unfold ImplicitEngine.minimizeStep
  simp only [hr, if_true]
  have e1 : (ImplicitEngine.minimizeInit
      (fun _ => (XDouble.fin 0, fun _ => XDouble.fin (1 / 1000 : ℝ))) 1 100
      (fun _ => XDouble.fin 0)).x0 = fun _ => XDouble.fin 0 := rfl
  have e2 : (ImplicitEngine.minimizeInit
      (fun _ => (XDouble.fin 0, fun _ => XDouble.fin (1 / 1000 : ℝ))) 1 100
      (fun _ => XDouble.fin 0)).grad = fun _ => XDouble.fin (1 / 1000) := rfl
  have e3 : (ImplicitEngine.minimizeInit
      (fun _ => (XDouble.fin 0, fun _ => XDouble.fin (1 / 1000 : ℝ))) 1 100
      (fun _ => XDouble.fin 0)).f = XDouble.fin 0 := rfl
  rw [e1, e2, e3, hnorm, hai]
  have hneg : (fun _ : Nat => -XDouble.fin (1 / 1000 : ℝ)) = fun _ => XDouble.fin (-(1 / 1000)) :=
    rfl
  simp only [hneg, hls]
  have hb : (XDouble.lpNormInf 1 (fun _ => XDouble.fin (0 : ℝ) -
      XDouble.fin 1 * XDouble.fin (1 / 1000) - XDouble.fin 0)).lt (XDouble.fin (1 / 100000)) =
      false := by
    show (XDouble.fin (|0 - 1 * (1 / 1000) - 0| : ℝ)).lt (XDouble.fin (1 / 100000)) = false
    rw [XDouble.lt_fin]
    apply decide_eq_false
    rw [abs_of_neg (by norm_num)]
    norm_num
  rw [if_neg (by rw [hb]; simp)]
  exact ⟨_, rfl⟩

/-- C27, instance: the first iteration of the scenario `restart_scenario`, in
which the restart fires and the loop goes on. -/
theorem restart_resets_history_witness :
    ∃ st1, ImplicitEngine.minimizeStep Real.sqrt (fun _ => XDouble.fin (-1))
        (fun _ => (XDouble.fin 0, fun _ => XDouble.fin (1 / 1000 : ℝ))) 1 5
        (XDouble.fin (1 / 100000)) 1
        (ImplicitEngine.minimizeInit (fun _ => (XDouble.fin 0, fun _ => XDouble.fin (1 / 1000 : ℝ)))
          1 100 (fun _ => XDouble.fin 0)) = some (st1, false) ∧
      st1.k = 0 ∧
      st1.maxiter = (ImplicitEngine.minimizeInit
          (fun _ => (XDouble.fin 0, fun _ => XDouble.fin (1 / 1000 : ℝ))) 1 100
          (fun _ => XDouble.fin 0)).maxiter -
        (ImplicitEngine.minimizeInit
          (fun _ => (XDouble.fin 0, fun _ => XDouble.fin (1 / 1000 : ℝ))) 1 100
          (fun _ => XDouble.fin 0)).k ∧
      MinimizeState.HistoryIs 5 { st1 with k := st1.k + 1 }
        [(fun i => st1.x0 i - (ImplicitEngine.minimizeInit
            (fun _ => (XDouble.fin 0, fun _ => XDouble.fin (1 / 1000 : ℝ))) 1 100
            (fun _ => XDouble.fin 0)).x0 i,
          fun i => st1.grad i - (ImplicitEngine.minimizeInit
            (fun _ => (XDouble.fin 0, fun _ => XDouble.fin (1 / 1000 : ℝ))) 1 100
            (fun _ => XDouble.fin 0)).grad i)] := by
  obtain ⟨hr, st1, hstep⟩ := restart_scenario
  have h := restart_resets_history Real.sqrt (fun _ => XDouble.fin (-1))
    (fun _ => (XDouble.fin 0, fun _ => XDouble.fin (1 / 1000 : ℝ))) 1 5
    (XDouble.fin (1 / 100000)) 1 _ st1 (le_refl (0 : Int)) (by decide : (0 : Int) < 5) hr hstep
  exact ⟨st1, hstep, h.2.1, h.2.2.1, h.2.2.2.1⟩

end history


/-! ## The packed vectors -/

section packedVectors

variable [LinearOrderedField K] [FloorRing K]

/-- The first loop of `updateSimulation` over the agents below `n`, none of
which is within its goal radius: the index is not touched and the agents from
`n` on are not touched. -/
theorem doStep_loop_index (fn : MathFns K) (e : ImplicitEngine K) : ∀ n,
    (∀ j, j < n → ¬ ((e.agents j).goal.sub (e.agents j).position).squaredNorm <
      (e.agents j).goalRadiusSq) →
    ((List.range n).foldl (ImplicitEngine.doStepAgent fn) e).spatialDatabase =
      e.spatialDatabase ∧
    ∀ j, n ≤ j → ((List.range n).foldl (ImplicitEngine.doStepAgent fn) e).agents j = e.agents j
  | 0, _ => ⟨rfl, fun _ _ => rfl⟩
  | n + 1, h => by
    obtain ⟨hdb, hag⟩ := doStep_loop_index fn e n (fun j hj => h j (Nat.lt_succ_of_lt hj))
    rw [List.range_succ, List.foldl_append, List.foldl_cons, List.foldl_nil]
    generalize (List.range n).foldl (ImplicitEngine.doStepAgent fn) e = e1 at hdb hag
    obtain ⟨hdb2, hag2, _, _, _⟩ := doStepAgent_fields fn e1 n
    have han : e1.agents n = e.agents n := hag n (le_refl n)
    refine ⟨?_, ?_⟩
    · rw [hdb2, doStep_fst_of_not_reached _ _ _ _ (by rw [han]; exact h n (Nat.lt_succ_self n)), hdb]
    · intro j hj
      rw [hag2, Function.update_noteq (by omega), hag j (by omega)]

/-- The first loop of `updateSimulation` when no agent is within its goal
radius: the index is the one before the loop. -/
theorem doStepAll_index (fn : MathFns K) (e : ImplicitEngine K)
    (h : ∀ j, j < e.noAgents → ¬ ((e.agents j).goal.sub (e.agents j).position).squaredNorm <
      (e.agents j).goalRadiusSq) :
    (e.doStepAll fn).spatialDatabase = e.spatialDatabase :=
  (doStep_loop_index fn { e with reachedGoals := true, activeAgents := 0 } e.noAgents h).1

/-- The body of the loop of `initializeProblem` returns for an enabled agent
only if the neighbour query of the agent returns. -/
theorem packAgent_query_some (fuel : Nat) (e : ImplicitEngine K) (c i : Nat)
    (r : ImplicitEngine K × Nat) (h : ImplicitEngine.packAgent fuel (e, c) i = some r)
    (hen : (e.agents i).enabled = true) :
    ∃ nnc, ImplicitAgent.findNeighbors fuel e.spatialDatabase (e.agents i) e.neighborDist [] =
      some nnc := by
  have hsame : ∀ a' : ImplicitAgent K, a'.proximityToken = (e.agents i).proximityToken →
      a'.position = (e.agents i).position →
      ImplicitAgent.findNeighbors fuel e.spatialDatabase a' e.neighborDist [] =
        ImplicitAgent.findNeighbors fuel e.spatialDatabase (e.agents i) e.neighborDist [] := by
    intro a' h1 h2
    unfold ImplicitAgent.findNeighbors
    rw [h1, h2]
  cases hq : ImplicitAgent.findNeighbors fuel e.spatialDatabase (e.agents i) e.neighborDist [] with
  | some nnc => exact ⟨nnc, rfl⟩
  | none =>
    exfalso
    unfold ImplicitEngine.packAgent at h
    dsimp only at h
    rw [if_pos hen, hsame { e.agents i with activeid := (c : Int) } rfl rfl, hq] at h
    exact Option.noConfusion h

/-- The loop of `initializeProblem` over the agents below `n`, when it returns:
the counter is the rank of `n`, the agents from `n` on and `activeAgents` are
not touched, and the four vectors hold, at the rank of each enabled agent below
`n`, the position, velocity, preferred velocity and radius of that agent. -/
theorem pack_loop_vectors (fuel : Nat) (e : ImplicitEngine K) : ∀ n e' c,
    (List.range n).foldlM (ImplicitEngine.packAgent fuel) (e, 0) = some (e', c) →
    e.rank n ≤ e.activeAgents →
    c = e.rank n ∧ e'.activeAgents = e.activeAgents ∧
    (∀ j, n ≤ j → e'.agents j = e.agents j) ∧
    ∀ j, j < n → (e.agents j).enabled = true →
      e'.pos (e.rank j) = (e.agents j).position.x ∧
      e'.pos (e.rank j + e.activeAgents) = (e.agents j).position.y ∧
      e'.vel (e.rank j) = (e.agents j).velocity.x ∧
      e'.vel (e.rank j + e.activeAgents) = (e.agents j).velocity.y ∧
      e'.vGoal (e.rank j) = (e.agents j).vPref.x ∧
      e'.vGoal (e.rank j + e.activeAgents) = (e.agents j).vPref.y ∧
      e'.radius (e.rank j) = (e.agents j).radius
  | 0, e', c, h, _ => by
    simp only [List.range_zero, List.foldlM_nil] at h
    have h' := Option.some.inj h
    have h1 : e = e' := congrArg Prod.fst h'
    have h2 : 0 = c := congrArg Prod.snd h'
    subst h1
    subst h2
    exact ⟨rfl, rfl, fun _ _ => rfl, fun j hj => absurd hj (Nat.not_lt_zero j)⟩
  | n + 1, e2, c2, h, hr => by
    rw [List.range_succ, List.foldlM_append] at h
    simp only [List.foldlM_cons, List.foldlM_nil, Option.bind_eq_bind] at h
    cases hfold : (List.range n).foldlM (ImplicitEngine.packAgent fuel) (e, 0) with
    | none =>
      rw [hfold] at h
      exact Option.noConfusion h
    | some r =>
      obtain ⟨e1, c1⟩ := r
      rw [hfold] at h
      simp only [Option.some_bind, Option.bind_some] at h
      have hpure : ∀ o : Option (ImplicitEngine K × Nat), (o.bind fun init => pure init) = o := by
        intro o
        cases o <;> rfl
      rw [hpure] at h
      have hrn : e.rank n ≤ e.activeAgents := le_trans (rank_mono e (Nat.le_succ n)) hr
      obtain ⟨hc, hA, hag, hvec⟩ := pack_loop_vectors fuel e n e1 c1 hfold hrn
      have han : e1.agents n = e.agents n := hag n (le_refl n)
      by_cases hen : (e.agents n).enabled = true
      · have hr1 : e.rank (n + 1) = e.rank n + 1 := by rw [rank_succ, if_pos hen]
        have hlt : e.rank n < e.activeAgents := by omega
        obtain ⟨nnc, hq⟩ := packAgent_query_some fuel e1 c1 n _ h (by rw [han]; exact hen)
        rw [packAgent_of_enabled fuel e1 c1 n nnc (by rw [han]; exact hen) hq] at h
        have h' := Option.some.inj h
        have h1 := congrArg Prod.fst h'
        have h2 : c1 + 1 = c2 := congrArg Prod.snd h'
        simp only [] at h1
        subst h1
        refine ⟨by rw [← h2, hc, hr1], hA, ?_, ?_⟩
        · intro j hj
          show Function.update e1.agents n _ j = _
          rw [Function.update_noteq (by omega), hag j (by omega)]
        · intro j hj hje
          by_cases hjn : j = n
          · subst hjn
            rw [← hc, ← hA, ← han]
            have hne : c1 ≠ c1 + e1.activeAgents := by omega
            refine ⟨?_, ?_, ?_, ?_, ?_, ?_, ?_⟩
            · show Function.update (Function.update e1.pos c1 _) (c1 + e1.activeAgents) _ c1 = _
              rw [Function.update_noteq hne, Function.update_same]
            · show Function.update (Function.update e1.pos c1 _) (c1 + e1.activeAgents) _
                (c1 + e1.activeAgents) = _
              rw [Function.update_same]
            · show Function.update (Function.update e1.vel c1 _) (c1 + e1.activeAgents) _ c1 = _
              rw [Function.update_noteq hne, Function.update_same]
            · show Function.update (Function.update e1.vel c1 _) (c1 + e1.activeAgents) _
                (c1 + e1.activeAgents) = _
              rw [Function.update_same]
            · show Function.update (Function.update e1.vGoal c1 _) (c1 + e1.activeAgents) _ c1 = _
              rw [Function.update_noteq hne, Function.update_same]
            · show Function.update (Function.update e1.vGoal c1 _) (c1 + e1.activeAgents) _
                (c1 + e1.activeAgents) = _
              rw [Function.update_same]
            · show Function.update e1.radius c1 _ c1 = _
              rw [Function.update_same]
          · have hjlt : j < n := by omega
            have hrj : e.rank j < e.rank n := rank_lt e hjlt hje
            obtain ⟨v1, v2, v3, v4, v5, v6, v7⟩ := hvec j hjlt hje
            have n1 : e.rank j ≠ c1 := by omega
            have n2 : e.rank j ≠ c1 + e1.activeAgents := by omega
            have n3 : e.rank j + e.activeAgents ≠ c1 := by omega
            have n4 : e.rank j + e.activeAgents ≠ c1 + e1.activeAgents := by omega
            refine ⟨?_, ?_, ?_, ?_, ?_, ?_, ?_⟩
            · show Function.update (Function.update e1.pos c1 _) (c1 + e1.activeAgents) _ _ = _
              rw [Function.update_noteq n2, Function.update_noteq n1, v1]
            · show Function.update (Function.update e1.pos c1 _) (c1 + e1.activeAgents) _ _ = _
              rw [Function.update_noteq n4, Function.update_noteq n3, v2]
            · show Function.update (Function.update e1.vel c1 _) (c1 + e1.activeAgents) _ _ = _
              rw [Function.update_noteq n2, Function.update_noteq n1, v3]
            · show Function.update (Function.update e1.vel c1 _) (c1 + e1.activeAgents) _ _ = _
              rw [Function.update_noteq n4, Function.update_noteq n3, v4]
            · show Function.update (Function.update e1.vGoal c1 _) (c1 + e1.activeAgents) _ _ = _
              rw [Function.update_noteq n2, Function.update_noteq n1, v5]
            · show Function.update (Function.update e1.vGoal c1 _) (c1 + e1.activeAgents) _ _ = _
              rw [Function.update_noteq n4, Function.update_noteq n3, v6]
            · show Function.update e1.radius c1 _ _ = _
              rw [Function.update_noteq n1, v7]
      · have hen' : (e.agents n).enabled = false := by
          cases hb : (e.agents n).enabled with
          | true => exact absurd hb hen
          | false => rfl
        have hr1 : e.rank (n + 1) = e.rank n := by rw [rank_succ, if_neg hen]; rfl
        rw [packAgent_of_disabled fuel e1 c1 n (by rw [han]; exact hen')] at h
        have h' := Option.some.inj h
        have h1 : e1 = e2 := congrArg Prod.fst h'
        have h2 : c1 = c2 := congrArg Prod.snd h'
        subst h1
        subst h2
        refine ⟨by rw [hc, hr1], hA, fun j hj => hag j (by omega), ?_⟩
        intro j hj hje
        have hjn : j ≠ n := fun hh => hen (by rw [← hh]; exact hje)
        exact hvec j (by omega) hje

/-- Source function `initializeProblem`, when it returns on a state whose
`activeAgents` counts the enabled agents: for each enabled agent, the entries
of `_pos`, `_vel`, `_vGoal` and `_radius` at its rank (and, for the `y`
coordinates, at its rank plus `activeAgents`) are the position, velocity,
preferred velocity and radius of the agent. -/
theorem initializeProblem_vectors (fuel : Nat) (e e2 : ImplicitEngine K)
    (h : e.initializeProblem fuel = some e2) (hA : e.rank e.noAgents ≤ e.activeAgents) :
    e2.activeAgents = e.activeAgents ∧
    ∀ j, j < e.noAgents → (e.agents j).enabled = true →
      e2.pos (e.rank j) = (e.agents j).position.x ∧
      e2.pos (e.rank j + e.activeAgents) = (e.agents j).position.y ∧
      e2.vel (e.rank j) = (e.agents j).velocity.x ∧
      e2.vel (e.rank j + e.activeAgents) = (e.agents j).velocity.y ∧
      e2.vGoal (e.rank j) = (e.agents j).vPref.x ∧
      e2.vGoal (e.rank j + e.activeAgents) = (e.agents j).vPref.y ∧
      e2.radius (e.rank j) = (e.agents j).radius := by
  unfold ImplicitEngine.initializeProblem at h
  simp only [Option.map_eq_some'] at h
  obtain ⟨⟨e', c⟩, hfold, he⟩ := h
  simp only [] at he
  subst he
  obtain ⟨_, h2, _, h4⟩ := pack_loop_vectors fuel
    { e with noVars := e.activeAgents + e.activeAgents, vNew := fun _ => 0 } e.noAgents e' c
    hfold hA
  exact ⟨h2, h4⟩

end packedVectors


/-! ## A pair listed in one direction only -/

section borderScenario

/-- A list without repetition whose only possible entry is `a`, and which has
it, is `[a]`. -/
theorem eq_singleton_of_nodup {α : Type} {l : List α} {a : α} (hnd : l.Nodup)
    (h : ∀ p, p ∈ l ↔ p = a) : l = [a] := by
  have hp : l.Perm [a] :=
    (List.perm_ext_iff_of_nodup hnd (List.nodup_singleton a)).2
      (fun p => by rw [h p, List.mem_singleton])
  exact List.perm_singleton.1 hp

/-- The number of bins per axis that `init` passes to the index for 2 cells. -/
theorem border_divisions : truncToInt (((⌊1 / 2 + ((2 : Int) : ℝ)⌋ : Int) : ℝ)) = 2 := by
  have h : (⌊1 / 2 + ((2 : Int) : ℝ)⌋ : Int) = 2 := by
    rw [Int.floor_eq_iff]
    norm_num
  rw [h]
  exact truncToInt_eq (Or.inl (by norm_num))

/-- The engine of the border scenario is the engine after its calls. -/
theorem border_engine :
    engineAfter ⟨Real.sqrt, Real.exp, fun a b => a ^ b⟩ (fun _ _ => 0) 3
        (rawEngine : ImplicitEngine ℝ) 100 100 2 2 borderOps =
      some (borderEngine ⟨Real.sqrt, Real.exp, fun a b => a ^ b⟩) := rfl

/-- The index of the border scenario, call by call. -/
theorem borderIndex_eq :
    (borderIndex : LQMem ℝ) =
      lqUpdateForNewLocation (allocateToken (lqUpdateForNewLocation (allocateToken
        (LQMem.fresh (lqCreateDatabase2D (0 - 100 * (1 / 2)) (0 - 100 * (1 / 2)) 100 100
          (truncToInt (((⌊1 / 2 + ((2 : Int) : ℝ)⌋ : Int) : ℝ)))
          (truncToInt (((⌊1 / 2 + ((2 : Int) : ℝ)⌋ : Int) : ℝ))))
          (fun _ => ⟨none, none, none, 0, 0, 0⟩)) 0) 0 (-45) 0) 1) 1 (-101 / 2) 0 := by
  unfold borderIndex indexAfter runOps borderIndexOps
  simp only [List.foldl, IndexOp.apply]
  generalize hM : LQMem.fresh (lqCreateDatabase2D (0 - 100 * (1 / 2) : ℝ) _ _ _ _ _) _ = M0
  have hn : M0.nproxy = 0 := by rw [← hM]; rfl
  have c0 : 0 < (allocateToken M0 0).nproxy := by
    show 0 < M0.nproxy + 1
    omega
  rw [if_pos c0]
  have c1 : 1 < (allocateToken (updateForNewPosition (allocateToken M0 0) 0 (-45) 0) 1).nproxy := by
    show 1 < (lqUpdateForNewLocation (allocateToken M0 0) 0 (-45) 0).nproxy + 1
    rw [update_nproxy]
    show 1 < M0.nproxy + 1 + 1
    omega
  rw [if_pos c1]
  rfl

/-- The index of the engine of the border scenario is `borderIndex`. -/
theorem border_engine_index :
    (borderEngine ⟨Real.sqrt, Real.exp, fun a b => a ^ b⟩ : ImplicitEngine ℝ).spatialDatabase =
      borderIndex := by
  have h1 : ((ImplicitEngine.init (rawEngine : ImplicitEngine ℝ) 100 100 2 2).addAgent
      ⟨Real.sqrt, Real.exp, fun a b => a ^ b⟩ borderInsideParameters).spatialDatabase =
      lqUpdateForNewLocation (allocateToken
        (LQMem.fresh (lqCreateDatabase2D (0 - 100 * (1 / 2)) (0 - 100 * (1 / 2)) 100 100
          (truncToInt (((⌊1 / 2 + ((2 : Int) : ℝ)⌋ : Int) : ℝ)))
          (truncToInt (((⌊1 / 2 + ((2 : Int) : ℝ)⌋ : Int) : ℝ))))
          (fun _ => ⟨none, none, none, 0, 0, 0⟩)) 0) 0 (-45) 0 := rfl
  have h2 : (borderEngine ⟨Real.sqrt, Real.exp, fun a b => a ^ b⟩ :
      ImplicitEngine ℝ).spatialDatabase =
      lqUpdateForNewLocation (allocateToken
        ((ImplicitEngine.init (rawEngine : ImplicitEngine ℝ) 100 100 2 2).addAgent
          ⟨Real.sqrt, Real.exp, fun a b => a ^ b⟩ borderInsideParameters).spatialDatabase 1)
        ((ImplicitEngine.init (rawEngine : ImplicitEngine ℝ) 100 100 2 2).addAgent
          ⟨Real.sqrt, Real.exp, fun a b => a ^ b⟩ borderInsideParameters).spatialDatabase.nproxy
        (-101 / 2) 0 := rfl
  have hn : ((ImplicitEngine.init (rawEngine : ImplicitEngine ℝ) 100 100 2 2).addAgent
      ⟨Real.sqrt, Real.exp, fun a b => a ^ b⟩ borderInsideParameters).spatialDatabase.nproxy =
      1 := by
    rw [h1, update_nproxy]
    rfl
  rw [h2, hn, h1, borderIndex_eq]

/-- The geometry of `borderIndex`: origin `(-50, -50)`, size `100 × 100`,
`2 × 2` bins. -/
theorem borderIndex_geometry :
    (borderIndex : LQMem ℝ).lq.geometry = (lqCreateDatabase2D (-50 : ℝ) (-50) 100 100 2 2).geometry := by
  unfold borderIndex
  rw [indexAfter_geometry, border_divisions]
  simp only [lqInternalDB2D.geometry, lqCreateDatabase2D, lqInitDatabase2D, Prod.mk.injEq]
  norm_num

/-- The bins visited by the query of radius 10 centred at `(-45, 0)`: the disc
crosses the left border, the cast rounds `-1/10` up to 0, and the overflow
bin is not visited. -/
theorem visited_border_inside :
    localityBinsVisited (borderIndex : LQMem ℝ).lq (-45) 0 10 = [BinRef.bins 0, BinRef.bins 1] := by
  rw [localityBinsVisited_of_geometry (lqCreateDatabase2D (-50 : ℝ) (-50) 100 100 2 2) _
    borderIndex_geometry]
  have hc : completelyOutside (lqCreateDatabase2D (-50 : ℝ) (-50) 100 100 2 2) (-45) 0 10 =
      false := by
    simp [completelyOutside, lqCreateDatabase2D, lqInitDatabase2D]; norm_num
  have hb : localityBinCoords (lqCreateDatabase2D (-50 : ℝ) (-50) 100 100 2 2) (-45) 0 10 =
      (0, 0, 0, 1) := by
    simp only [localityBinCoords, lqCreateDatabase2D, lqInitDatabase2D]
    rw [truncToInt_eq (q := (-45 - 10 - -50) / 100 * ((2 : ℤ) : ℝ)) (n := 0)
        (Or.inr (by norm_num)),
      truncToInt_eq (q := (0 - 10 - -50) / 100 * ((2 : ℤ) : ℝ)) (n := 0) (Or.inl (by norm_num)),
      truncToInt_eq (q := (-45 + 10 - -50) / 100 * ((2 : ℤ) : ℝ)) (n := 0) (Or.inl (by norm_num)),
      truncToInt_eq (q := (0 + 10 - -50) / 100 * ((2 : ℤ) : ℝ)) (n := 1) (Or.inl (by norm_num))]
  unfold localityBinsVisited
  rw [hc, hb]
  decide

/-- The bins visited by the query of radius 10 centred at `(-101/2, 0)`. -/
theorem visited_border_outside :
    localityBinsVisited (borderIndex : LQMem ℝ).lq (-101 / 2) 0 10 =
      [BinRef.bins 0, BinRef.bins 1] := by
  rw [localityBinsVisited_of_geometry (lqCreateDatabase2D (-50 : ℝ) (-50) 100 100 2 2) _
    borderIndex_geometry]
  have hc : completelyOutside (lqCreateDatabase2D (-50 : ℝ) (-50) 100 100 2 2) (-101 / 2) 0 10 =
      false := by
    simp [completelyOutside, lqCreateDatabase2D, lqInitDatabase2D]; norm_num
  have hb : localityBinCoords (lqCreateDatabase2D (-50 : ℝ) (-50) 100 100 2 2) (-101 / 2) 0 10 =
      (0, 0, 0, 1) := by
    simp only [localityBinCoords, lqCreateDatabase2D, lqInitDatabase2D]
    rw [truncToInt_eq (q := (-101 / 2 - 10 - -50) / 100 * ((2 : ℤ) : ℝ)) (n := 0)
        (Or.inr (by norm_num)),
      truncToInt_eq (q := (0 - 10 - -50) / 100 * ((2 : ℤ) : ℝ)) (n := 0) (Or.inl (by norm_num)),
      truncToInt_eq (q := (-101 / 2 + 10 - -50) / 100 * ((2 : ℤ) : ℝ)) (n := 0)
        (Or.inl (by norm_num)),
      truncToInt_eq (q := (0 + 10 - -50) / 100 * ((2 : ℤ) : ℝ)) (n := 1) (Or.inl (by norm_num))]
  unfold localityBinsVisited
  rw [hc, hb]
  decide

/-- The two proxies of `borderIndex`: their client objects, their stored
locations and their bins. -/
theorem borderIndex_proxies :
    (borderIndex : LQMem ℝ).nproxy = 2 ∧
    ((borderIndex : LQMem ℝ).proxy 0).object = 0 ∧
    ((borderIndex : LQMem ℝ).proxy 1).object = 1 ∧
    ((borderIndex : LQMem ℝ).proxy 0).x = -45 ∧ ((borderIndex : LQMem ℝ).proxy 0).y = 0 ∧
    ((borderIndex : LQMem ℝ).proxy 1).x = -101 / 2 ∧ ((borderIndex : LQMem ℝ).proxy 1).y = 0 ∧
    lqBinForLocation2D (borderIndex : LQMem ℝ).lq (-45) 0 = BinRef.bins 1 ∧
    lqBinForLocation2D (borderIndex : LQMem ℝ).lq (-101 / 2) 0 = BinRef.other := by
  have hn : (borderIndex : LQMem ℝ).nproxy = 2 := by
    unfold borderIndex
    rw [indexAfter_nproxy]
    rfl
  have ho : ∀ p, p < 2 → (allocatedItems (borderIndexOps : List (IndexOp ℝ)))[p]? =
      some (((borderIndex : LQMem ℝ).proxy p).object) := by
    intro p hp
    exact indexAfter_object _ _ _ _ _ _ _ _ p (by rw [← hn] at hp; exact hp)
  have ho0 := ho 0 (by norm_num)
  have ho1 := ho 1 (by norm_num)
  simp only [borderIndexOps, allocatedItems, List.getElem?_cons_zero, List.getElem?_cons_succ,
    Option.some.injEq] at ho0 ho1
  refine ⟨hn, ho0.symm, ho1.symm, ?_, ?_, ?_, ?_, ?_, ?_⟩
  · rw [borderIndex_eq, (update_xy _ 1 0 _ _).1, if_neg (by norm_num), allocateToken]
    simp only []
    rw [Function.update_noteq, (update_xy _ 0 0 _ _).1, if_pos rfl]
    rw [update_nproxy]
    exact Nat.zero_ne_one
  · rw [borderIndex_eq, (update_xy _ 1 0 _ _).2, if_neg (by norm_num), allocateToken]
    simp only []
    rw [Function.update_noteq, (update_xy _ 0 0 _ _).2, if_pos rfl]
    rw [update_nproxy]
    exact Nat.zero_ne_one
  · rw [borderIndex_eq, (update_xy _ 1 1 _ _).1, if_pos rfl]
  · rw [borderIndex_eq, (update_xy _ 1 1 _ _).2, if_pos rfl]
  · rw [binForLocation_of_geometry (lqCreateDatabase2D (-50 : ℝ) (-50) 100 100 2 2) _
      borderIndex_geometry]
    unfold lqBinForLocation2D
    simp only [lqCreateDatabase2D, lqInitDatabase2D]
    rw [if_neg (by norm_num), if_neg (by norm_num), if_neg (by norm_num), if_neg (by norm_num),
      truncToInt_eq (q := (-45 - -50) / 100 * ((2 : ℤ) : ℝ)) (n := 0) (Or.inl (by norm_num)),
      truncToInt_eq (q := (0 - -50) / 100 * ((2 : ℤ) : ℝ)) (n := 1) (Or.inl (by norm_num))]
    rfl
  · rw [binForLocation_of_geometry (lqCreateDatabase2D (-50 : ℝ) (-50) 100 100 2 2) _
      borderIndex_geometry]
    exact (binForLocation_eq_other_iff _ _ _).2
      (Or.inl (by simp only [lqCreateDatabase2D, lqInitDatabase2D]; norm_num))

/-- The neighbour queries of the border scenario: the query of the agent
inside reports that agent only, and the query of the agent outside reports the
agent inside only. -/
theorem border_queries (fuel : Nat) (hf : 2 < fuel) :
    findNeighbors fuel (borderIndex : LQMem ℝ) (-45) 0 10 [] = some [0] ∧
    findNeighbors fuel (borderIndex : LQMem ℝ) (-101 / 2) 0 10 [] = some [0] := by
  obtain ⟨hn, ho0, ho1, hx0, hy0, hx1, hy1, hb0, hb1⟩ := borderIndex_proxies
  have hlive : updatedNotRemoved (borderIndexOps : List (IndexOp ℝ)) 0 = true := by
    simp [updatedNotRemoved, borderIndexOps, linkedStep]
  have key : ∀ x y : ℝ,
      localityBinsVisited (borderIndex : LQMem ℝ).lq x y 10 = [BinRef.bins 0, BinRef.bins 1] →
      withinRadius (borderIndex : LQMem ℝ) x y 10 0 = true →
      findNeighbors fuel (borderIndex : LQMem ℝ) x y 10 [] = some [0] := by
    intro x y hvis hwith
    obtain ⟨ps, hnd, halloc, hiff, hres⟩ := findNeighbors_found (0 - 100 * (1 / 2) : ℝ)
      (0 - 100 * (1 / 2)) 100 100
      (truncToInt (((⌊1 / 2 + ((2 : Int) : ℝ)⌋ : Int) : ℝ)))
      (truncToInt (((⌊1 / 2 + ((2 : Int) : ℝ)⌋ : Int) : ℝ)))
      (fun _ => ⟨none, none, none, 0, 0, 0⟩) borderIndexOps x y 10
    change ∀ p, p ∈ ps → p < (borderIndex : LQMem ℝ).nproxy at halloc
    change ∀ p, p ∈ ps ↔ (updatedNotRemoved borderIndexOps p = true ∧
      withinRadius (borderIndex : LQMem ℝ) x y 10 p = true ∧
      lqBinForLocation2D (borderIndex : LQMem ℝ).lq ((borderIndex : LQMem ℝ).proxy p).x
        ((borderIndex : LQMem ℝ).proxy p).y ∈
        localityBinsVisited (borderIndex : LQMem ℝ).lq x y 10) at hiff
    change ∀ fuel, (borderIndex : LQMem ℝ).nproxy < fuel → ∀ results,
      findNeighbors fuel (borderIndex : LQMem ℝ) x y 10 results =
        some (results ++ ps.map (fun p => ((borderIndex : LQMem ℝ).proxy p).object)) at hres
    have hps : ps = [0] := by
      apply eq_singleton_of_nodup hnd
      intro p
      constructor
      · intro hp
        have h1 := halloc p hp
        rw [hn] at h1
        have h2 := ((hiff p).1 hp).2.2
        rcases Nat.lt_or_ge p 1 with hlt | hge
        · omega
        · have hp1 : p = 1 := by omega
          subst hp1
          rw [hx1, hy1, hb1, hvis] at h2
          simp at h2
      · intro hp
        subst hp
        rw [hiff 0]
        refine ⟨hlive, hwith, ?_⟩
        rw [hx0, hy0, hb0, hvis]
        simp
    rw [hres fuel (by rw [hn]; exact hf), hps]
    simp only [List.map, List.nil_append, ho0]
  refine ⟨key _ _ visited_border_inside ?_, key _ _ visited_border_outside ?_⟩
  · unfold withinRadius
    rw [hx0, hy0]
    norm_num
  · unfold withinRadius
    rw [hx0, hy0]
    norm_num

/-- The packed state of the border scenario: both agents are active, each of
the two neighbour lists holds the agent inside only, and the vectors hold the
positions, velocities, preferred velocities and radii of the two agents. -/
theorem border_packed :
    ∃ e2, ((borderEngine ⟨Real.sqrt, Real.exp, fun a b => a ^ b⟩ : ImplicitEngine ℝ).doStepAll
        ⟨Real.sqrt, Real.exp, fun a b => a ^ b⟩).initializeProblem 3 = some e2 ∧
      e2.activeAgents = 2 ∧ e2.noVars = 4 ∧ e2.dt = 1 / 5 ∧ e2.ksi = 2 ∧
      e2.nn 0 = [0] ∧ e2.nn 1 = [0] ∧
      (e2.agents 0).activeid = 0 ∧ (e2.agents 1).activeid = 1 ∧
      (e2.pos 0 = -45 ∧ e2.pos 1 = -101 / 2 ∧ e2.pos 2 = 0 ∧ e2.pos 3 = 0) ∧
      (e2.vel 0 = 0 ∧ e2.vel 1 = 0 ∧ e2.vel 2 = 0 ∧ e2.vel 3 = 0) ∧
      (e2.vGoal 0 = 1 ∧ e2.vGoal 1 = 1 ∧ e2.vGoal 2 = 0 ∧ e2.vGoal 3 = 0) ∧
      (e2.radius 0 = 1 / 2 ∧ e2.radius 1 = 1 / 2) := by
  have hf : addAgentCalls (borderOps : List (EngineOp ℝ)) < 3 := by
    simp [addAgentCalls, borderOps]
  obtain ⟨e, L, he, hok, _, _⟩ := engineAfter_ok ⟨Real.sqrt, Real.exp, fun a b => a ^ b⟩
    (fun _ _ => 0) 3 (rawEngine : ImplicitEngine ℝ) 100 100 2 2 borderOps hf
  rw [border_engine] at he
  have he' := (Option.some.inj he).symm
  subst he'
  generalize hE : (borderEngine ⟨Real.sqrt, Real.exp, fun a b => a ^ b⟩ : ImplicitEngine ℝ) = E
    at hok
  have hno : E.noAgents = 2 := by rw [← hE]; rfl
  have hdt : E.dt = 1 / 5 := by rw [← hE]; rfl
  have hksi : E.ksi = 2 := by rw [← hE]; rfl
  have hnd : E.neighborDist = 10 := by rw [← hE]; rfl
  have hdb : E.spatialDatabase = borderIndex := by rw [← hE]; exact border_engine_index
  have a0 : (E.agents 0).position = ⟨-45, 0⟩ ∧ (E.agents 0).goal = ⟨45, 0⟩ ∧
      (E.agents 0).goalRadiusSq = 1 * 1 ∧ (E.agents 0).velocity = ⟨0, 0⟩ ∧
      (E.agents 0).radius = 1 / 2 ∧ (E.agents 0).prefSpeed = 1 ∧
      (E.agents 0).enabled = true := by
    rw [← hE]
    exact ⟨rfl, rfl, rfl, rfl, rfl, rfl, rfl⟩
  have a1 : (E.agents 1).position = ⟨-101 / 2, 0⟩ ∧ (E.agents 1).goal = ⟨99 / 2, 0⟩ ∧
      (E.agents 1).goalRadiusSq = 1 * 1 ∧ (E.agents 1).velocity = ⟨0, 0⟩ ∧
      (E.agents 1).radius = 1 / 2 ∧ (E.agents 1).prefSpeed = 1 ∧
      (E.agents 1).enabled = true := by
    rw [← hE]
    exact ⟨rfl, rfl, rfl, rfl, rfl, rfl, rfl⟩
  -- neither agent is within its goal radius, and both cruise
  have r0 : ¬ ((E.agents 0).goal.sub (E.agents 0).position).squaredNorm <
      (E.agents 0).goalRadiusSq := by
    rw [a0.1, a0.2.1, a0.2.2.1]
    simp only [Vector2D.sub, Vector2D.squaredNorm]
    norm_num
  have r1 : ¬ ((E.agents 1).goal.sub (E.agents 1).position).squaredNorm <
      (E.agents 1).goalRadiusSq := by
    rw [a1.1, a1.2.1, a1.2.2.1]
    simp only [Vector2D.sub, Vector2D.squaredNorm]
    norm_num
  have c0 : ¬ (E.agents 0).prefSpeed * E.dt * (E.agents 0).prefSpeed * E.dt >
      ((E.agents 0).goal.sub (E.agents 0).position).squaredNorm := by
    rw [a0.1, a0.2.1, a0.2.2.2.2.2.1, hdt]
    simp only [Vector2D.sub, Vector2D.squaredNorm]
    norm_num
  have c1 : ¬ (E.agents 1).prefSpeed * E.dt * (E.agents 1).prefSpeed * E.dt >
      ((E.agents 1).goal.sub (E.agents 1).position).squaredNorm := by
    rw [a1.1, a1.2.1, a1.2.2.2.2.2.1, hdt]
    simp only [Vector2D.sub, Vector2D.squaredNorm]
    norm_num
  have hall : ∀ j, j < E.noAgents →
      ¬ ((E.agents j).goal.sub (E.agents j).position).squaredNorm < (E.agents j).goalRadiusSq := by
    intro j hj
    rw [hno] at hj
    rcases Nat.lt_or_ge j 1 with h | h
    · have : j = 0 := by omega
      subst this
      exact r0
    · have : j = 1 := by omega
      subst this
      exact r1
  -- the state after the first loop
  obtain ⟨⟨L1, h1⟩, hag1, hact1, _, hfr1⟩ :=
    doStepAll_spec ⟨Real.sqrt, Real.exp, fun a b => a ^ b⟩ hok
  have hdb1 := doStepAll_index ⟨Real.sqrt, Real.exp, fun a b => a ^ b⟩ E hall
  generalize E.doStepAll ⟨Real.sqrt, Real.exp, fun a b => a ^ b⟩ = e1 at h1 hag1 hact1 hfr1 hdb1
  have hno1 : e1.noAgents = 2 := by
    have hc := congrArg ImplicitEngine.noAgents hfr1
    exact hc.trans hno
  have hdt1 : e1.dt = 1 / 5 := by
    have hc := congrArg ImplicitEngine.dt hfr1
    exact hc.trans hdt
  have hksi1 : e1.ksi = 2 := by
    have hc := congrArg ImplicitEngine.ksi hfr1
    exact hc.trans hksi
  have hnd1 : e1.neighborDist = 10 := by
    have hc := congrArg ImplicitEngine.neighborDist hfr1
    exact hc.trans hnd
  have s0 : e1.agents 0 = { E.agents 0 with vPref := (((E.agents 0).goal.sub
      (E.agents 0).position).mulScalar ((E.agents 0).prefSpeed /
        Real.sqrt (((E.agents 0).goal.sub (E.agents 0).position).squaredNorm))) } := by
    rw [hag1 0, if_pos (by rw [hno]; norm_num), doStep_of_cruise _ _ _ _ r0 c0]
  have s1 : e1.agents 1 = { E.agents 1 with vPref := (((E.agents 1).goal.sub
      (E.agents 1).position).mulScalar ((E.agents 1).prefSpeed /
        Real.sqrt (((E.agents 1).goal.sub (E.agents 1).position).squaredNorm))) } := by
    rw [hag1 1, if_pos (by rw [hno]; norm_num), doStep_of_cruise _ _ _ _ r1 c1]
  have en0 : (e1.agents 0).enabled = true := by rw [s0]; exact a0.2.2.2.2.2.2
  have en1 : (e1.agents 1).enabled = true := by rw [s1]; exact a1.2.2.2.2.2.2
  have rk0 : e1.rank 0 = 0 := rfl
  have rk1 : e1.rank 1 = 1 := by
    rw [show (1 : Nat) = 0 + 1 from rfl, rank_succ, en0, rk0]
    rfl
  have rk2 : e1.rank 2 = 2 := by
    rw [show (2 : Nat) = 1 + 1 from rfl, rank_succ, en1, rk1]
    rfl
  have hA1 : e1.activeAgents = 2 := by
    rw [hact1, ← rk2]
    unfold ImplicitEngine.rank
    rw [hno]
    apply List.countP_congr
    intro j hj
    rw [hag1 j, if_pos (by rw [hno]; exact List.mem_range.1 hj)]
  -- the pack
  obtain ⟨e2, hinit, _, hag2, hnn, hnv, _, hfr2⟩ := initializeProblem_spec 3 h1
    (by rw [h1.count, hno1]; norm_num)
  obtain ⟨hA2, hvec⟩ := initializeProblem_vectors 3 e1 e2 hinit (by rw [hno1, rk2, hA1])
  rw [hA1] at hA2
  have v0 := hvec 0 (by rw [hno1]; norm_num) en0
  have v1 := hvec 1 (by rw [hno1]; norm_num) en1
  rw [rk0, hA1] at v0
  rw [rk1, hA1] at v1
  have hdt2 : e2.dt = 1 / 5 := by
    have hc := congrArg ImplicitEngine.dt hfr2
    exact hc.trans hdt1
  have hksi2 : e2.ksi = 2 := by
    have hc := congrArg ImplicitEngine.ksi hfr2
    exact hc.trans hksi1
  -- the neighbour lists
  obtain ⟨q0, q1⟩ := border_queries 3 (by norm_num)
  have hnn0 : e2.nn 0 = [0] := by
    have h := hnn 0 (by rw [hno1]; norm_num) en0
    obtain ⟨t, ht, _, _⟩ := h1.token 0 (by rw [hno1]; norm_num) en0
    unfold ImplicitAgent.findNeighbors at h
    rw [ht] at h
    simp only [] at h
    rw [hdb1, hdb, hnd1, s0] at h
    simp only [] at h
    rw [a0.1] at h
    simp only [] at h
    rw [q0, rk0] at h
    exact (Option.some.inj h).symm
  have hnn1 : e2.nn 1 = [0] := by
    have h := hnn 1 (by rw [hno1]; norm_num) en1
    obtain ⟨t, ht, _, _⟩ := h1.token 1 (by rw [hno1]; norm_num) en1
    unfold ImplicitAgent.findNeighbors at h
    rw [ht] at h
    simp only [] at h
    rw [hdb1, hdb, hnd1, s1] at h
    simp only [] at h
    rw [a1.1] at h
    simp only [] at h
    rw [q1, rk1] at h
    exact (Option.some.inj h).symm
  have id0 : (e2.agents 0).activeid = 0 := by
    rw [hag2 0, if_pos ⟨by rw [hno1]; norm_num, en0⟩, rk0]
    rfl
  have id1 : (e2.agents 1).activeid = 1 := by
    rw [hag2 1, if_pos ⟨by rw [hno1]; norm_num, en1⟩, rk1]
    rfl
  -- the preferred velocities
  have hs0 : Real.sqrt ((45 - -45) * (45 - -45) + (0 - 0) * (0 - 0)) = 90 := by
    rw [show ((45 : ℝ) - -45) * (45 - -45) + (0 - 0) * (0 - 0) = 90 * 90 by norm_num]
    exact Real.sqrt_mul_self (by norm_num)
  have hs1 : Real.sqrt ((99 / 2 - -101 / 2) * (99 / 2 - -101 / 2) + (0 - 0) * (0 - 0)) =
      100 := by
    rw [show ((99 : ℝ) / 2 - -101 / 2) * (99 / 2 - -101 / 2) + (0 - 0) * (0 - 0) = 100 * 100
      by norm_num]
    exact Real.sqrt_mul_self (by norm_num)
  have p0 : (e1.agents 0).vPref = ⟨1, 0⟩ := by
    rw [s0]
    simp only []
    rw [a0.1, a0.2.1, a0.2.2.2.2.2.1]
    simp only [Vector2D.sub, Vector2D.squaredNorm, Vector2D.mulScalar]
    rw [hs0]
    norm_num
  have p1 : (e1.agents 1).vPref = ⟨1, 0⟩ := by
    rw [s1]
    simp only []
    rw [a1.1, a1.2.1, a1.2.2.2.2.2.1]
    simp only [Vector2D.sub, Vector2D.squaredNorm, Vector2D.mulScalar]
    rw [hs1]
    norm_num
  have f0 : (e1.agents 0).position = ⟨-45, 0⟩ ∧ (e1.agents 0).velocity = ⟨0, 0⟩ ∧
      (e1.agents 0).radius = 1 / 2 := by
    rw [s0]
    exact ⟨a0.1, a0.2.2.2.1, a0.2.2.2.2.1⟩
  have f1 : (e1.agents 1).position = ⟨-101 / 2, 0⟩ ∧ (e1.agents 1).velocity = ⟨0, 0⟩ ∧
      (e1.agents 1).radius = 1 / 2 := by
    rw [s1]
    exact ⟨a1.1, a1.2.2.2.1, a1.2.2.2.2.1⟩
  rw [p0, f0.1, f0.2.1, f0.2.2] at v0
  rw [p1, f1.1, f1.2.1, f1.2.2] at v1
  obtain ⟨x0, y0, vx0, vy0, gx0, gy0, rr0⟩ := v0
  obtain ⟨x1, y1, vx1, vy1, gx1, gy1, rr1⟩ := v1
  exact ⟨e2, hinit, hA2, by rw [hnv, hA1], hdt2, hksi2, hnn0, hnn1, id0, id1,
    ⟨x0, x1, y0, y1⟩, ⟨vx0, vx1, vy0, vy1⟩, ⟨gx0, gx1, gy0, gy1⟩, ⟨rr0, rr1⟩⟩

/-- C25, counterexample: the region is `[-50, 50)²` in `2 × 2` bins, the
neighbour radius is the default 10; agent 0 starts at `(-45, 0)`, inside the
region, and agent 1 at `(-101/2, 0)`, outside it, both of radius `1/2`;
`dt = 1/5`.  After the first loop of `updateSimulation` and `initializeProblem`
both agents are active with the active ids 0 and 1, and each of the two
neighbour lists holds agent 0 only: the query of agent 0 does not visit the
overflow bin, where agent 1 is.  So no pair `(i, j)` with `i < j` and `j` in
`nn[i]` exists, while `nn[1]` holds the active id 0.  For the candidate
velocities `chargeVelocity`, agent 1 ends within `1/2` of agent 0, so the pair
`(1, 0)` tunnels: `value(v)` returns the finite quadratic term `1279/2`, and
`value(v, grad)` returns `9e9`. -/
theorem sentinel_on_one_sided_pair :
    ∃ e e2, engineAfter ⟨Real.sqrt, Real.exp, fun a b => a ^ b⟩ (fun _ _ => 0) 3
        (rawEngine : ImplicitEngine ℝ) 100 100 2 2 borderOps = some e ∧
      (e.doStepAll ⟨Real.sqrt, Real.exp, fun a b => a ^ b⟩).initializeProblem 3 = some e2 ∧
      e2.activeAgents = 2 ∧ e2.nn 0 = [0] ∧ e2.nn 1 = [0] ∧
      (e2.agents 0).activeid = 0 ∧
      e2.neighbourPairs = [] ∧ e2.listedPairs = [(1, 0)] ∧
      e2.tunnels ⟨Real.sqrt, Real.exp, fun a b => a ^ b⟩ chargeVelocity 1 0 = true ∧
      ImplicitEngine.value ⟨Real.sqrt, Real.exp, fun a b => a ^ b⟩ e2 chargeVelocity = 1279 / 2 ∧
      (ImplicitEngine.valueGrad ⟨Real.sqrt, Real.exp, fun a b => a ^ b⟩ e2 chargeVelocity).1 =
        9000000000 := by
  obtain ⟨e2, hinit, hA, hnv, hdt, hksi, hnn0, hnn1, id0, id1, ⟨x0, x1, y0, y1⟩,
    ⟨vx0, vx1, vy0, vy1⟩, ⟨gx0, gx1, gy0, gy1⟩, ⟨rr0, rr1⟩⟩ := border_packed
  have hnp : e2.neighbourPairs = [] := by
    simp [ImplicitEngine.neighbourPairs, hA, List.range_succ, hnn0, hnn1, id0]
  have hlp : e2.listedPairs = [(1, 0)] := by
    simp [ImplicitEngine.listedPairs, hA, List.range_succ, hnn0, hnn1, id0]
  have ht : e2.tunnels ⟨Real.sqrt, Real.exp, fun a b => a ^ b⟩ chargeVelocity 1 0 = true := by
    unfold ImplicitEngine.tunnels
    rw [min_distance_energy_flag, hA, hdt]
    rw [show (1 : Nat) + 2 = 3 from rfl, show (0 : Nat) + 2 = 2 from rfl, x0, x1, y0, y1, rr0, rr1]
    simp only [chargeVelocity]
    rw [decide_eq_true_iff]
    norm_num
  have hid : ∀ i, i < e2.activeAgents → ∀ other ∈ e2.nn i, 0 ≤ (e2.agents other).activeid := by
    intro i hi other ho
    rw [hA] at hi
    have hother : other = 0 := by
      rcases Nat.lt_or_ge i 1 with h | h
      · have : i = 0 := by omega
        subst this
        rw [hnn0, List.mem_singleton] at ho
        exact ho
      · have : i = 1 := by omega
        subst this
        rw [hnn1, List.mem_singleton] at ho
        exact ho
    rw [hother, id0]
  refine ⟨_, e2, border_engine, hinit, hA, hnn0, hnn1, id0, hnp, hlp, ht, ?_, ?_⟩
  · rw [value_of_no_tunnel _ _ _ (by rw [hnp]; intro p hp; exact absurd hp (List.not_mem_nil p)),
      hnp]
    unfold ImplicitEngine.quadratic
    rw [hnv, hdt, hksi]
    simp only [Finset.sum_range_succ, Finset.sum_range_zero, List.map_nil, List.sum_nil]
    rw [vx0, vx1, vy0, vy1, gx0, gx1, gy0, gy1]
    simp only [chargeVelocity]
    norm_num
  · exact (valueGrad_fst _ e2 chargeVelocity hid).1
      ⟨(1, 0), by rw [hlp]; exact List.mem_singleton_self _, ht⟩

/-- The neighbour pairs of `headOnProblem`. -/
theorem headOnProblem_pairs :
    (headOnProblem : ImplicitEngine ℝ).neighbourPairs = [(0, 1)] := by
  simp [ImplicitEngine.neighbourPairs, headOnProblem, headOnAgent, List.range_succ,
    List.filter_cons]

/-- C25, instance of the amended statement: in `headOnProblem`, agent 0 is
given the velocity `(-27, 0)` and agent 1 stands; the pair `(0, 1)` tunnels and
both overloads return `9e9`. -/
theorem objective_sentinel_witness :
    (∀ i, i < (headOnProblem : ImplicitEngine ℝ).activeAgents →
      ∀ other ∈ (headOnProblem : ImplicitEngine ℝ).nn i,
        0 ≤ ((headOnProblem : ImplicitEngine ℝ).agents other).activeid) ∧
    ImplicitEngine.value ⟨Real.sqrt, Real.exp, fun a b => a ^ b⟩ headOnProblem
      (fun i => if i = 0 then -27 else 0) = 9000000000 ∧
    (ImplicitEngine.valueGrad ⟨Real.sqrt, Real.exp, fun a b => a ^ b⟩ headOnProblem
      (fun i => if i = 0 then -27 else 0)).1 = 9000000000 := by
  have hid : ∀ i, i < (headOnProblem : ImplicitEngine ℝ).activeAgents →
      ∀ other ∈ (headOnProblem : ImplicitEngine ℝ).nn i,
        0 ≤ ((headOnProblem : ImplicitEngine ℝ).agents other).activeid := by
    intro i hi other ho
    have hi2 : i < 2 := hi
    have ho2 : other ∈ (if i < 2 then [0, 1] else ([] : List Nat)) := ho
    rw [if_pos hi2] at ho2
    simp only [List.mem_cons, List.mem_singleton, List.not_mem_nil, or_false] at ho2
    rcases ho2 with h | h
    · rw [h]
      simp [headOnProblem, headOnAgent]
    · rw [h]
      simp [headOnProblem, headOnAgent]
  have ht : ∃ p ∈ (headOnProblem : ImplicitEngine ℝ).neighbourPairs,
      (headOnProblem : ImplicitEngine ℝ).tunnels ⟨Real.sqrt, Real.exp, fun a b => a ^ b⟩
        (fun i => if i = 0 then -27 else 0) p.1 p.2 = true := by
    refine ⟨(0, 1), by rw [headOnProblem_pairs]; exact List.mem_singleton_self _, ?_⟩
    unfold ImplicitEngine.tunnels
    rw [min_distance_energy_flag, decide_eq_true_iff]
    simp [headOnProblem]
    norm_num
  exact ⟨hid, (objective_sentinel ⟨Real.sqrt, Real.exp, fun a b => a ^ b⟩ headOnProblem
    (fun i => if i = 0 then -27 else 0) hid).1 ht⟩

end borderScenario


/-! ## The two overloads of `value` compared -/

/-- A listed pair, for lists holding non-negative active ids. -/
theorem mem_listedPairs (e : ImplicitEngine K)
    (hid : ∀ i, i < e.activeAgents → ∀ other ∈ e.nn i, 0 ≤ (e.agents other).activeid)
    (i j : Nat) :
    (i, j) ∈ e.listedPairs ↔
      i < e.activeAgents ∧ i ≠ j ∧ ∃ other ∈ e.nn i, (e.agents other).activeid = (j : Int) := by
  unfold ImplicitEngine.listedPairs
  simp only [List.mem_flatMap, List.mem_range, List.mem_map, List.mem_filter, decide_eq_true_eq,
    Prod.mk.injEq]
  constructor
  · rintro ⟨i', hi', other, ⟨ho, hne⟩, rfl, rfl⟩
    have h0 := hid i' hi' other ho
    refine ⟨hi', by omega, other, ho, by omega⟩
  · rintro ⟨hi, hij, other, ho, hj⟩
    exact ⟨i, hi, other, ⟨ho, by omega⟩, rfl, by omega⟩

section overloads

variable [LinearOrderedField K]

/-- The two overloads of `value` return the same energy, unless the gradient
overload returns `9e9` for a tunnelling pair that is listed downwards only. -/
theorem overloads_cases (fn : MathFns K) (e : ImplicitEngine K) (v : Nat → K)
    (hid : ∀ i, i < e.activeAgents → ∀ other ∈ e.nn i, 0 ≤ (e.agents other).activeid) :
    ImplicitEngine.value fn e v = (ImplicitEngine.valueGrad fn e v).1 ∨
    ((ImplicitEngine.valueGrad fn e v).1 = 9000000000 ∧
      ImplicitEngine.value fn e v = e.quadratic v + (e.neighbourPairs.map
        (fun p => e.ttcEnergy fn v p.1 p.2 + e.distanceEnergy fn v p.1 p.2)).sum ∧
      ∃ i j, j < i ∧ i < e.activeAgents ∧
        (∃ other ∈ e.nn i, (e.agents other).activeid = (j : Int)) ∧
        e.tunnels fn v i j = true ∧
        ¬ ∃ other ∈ e.nn j, (e.agents other).activeid = (i : Int)) := by
  obtain ⟨hg1, hg2⟩ := valueGrad_fst fn e v hid
  by_cases hN : ∃ p ∈ e.neighbourPairs, e.tunnels fn v p.1 p.2 = true
  · left
    rw [value_of_tunnel fn e v hN]
    obtain ⟨p, hp, ht⟩ := hN
    exact (hg1 ⟨p, neighbourPairs_subset_listedPairs e p hp, ht⟩).symm
  · have hno : ∀ p ∈ e.neighbourPairs, e.tunnels fn v p.1 p.2 = false := by
      intro p hp
      cases ht : e.tunnels fn v p.1 p.2 with
      | false => rfl
      | true => exact absurd ⟨p, hp, ht⟩ hN
    have hv := value_of_no_tunnel fn e v hno
    by_cases hL : ∃ p ∈ e.listedPairs, e.tunnels fn v p.1 p.2 = true
    · right
      refine ⟨hg1 hL, hv, ?_⟩
      obtain ⟨⟨i, j⟩, hp, ht⟩ := hL
      have ht' : e.tunnels fn v i j = true := ht
      obtain ⟨hi, hij, hex⟩ := (mem_listedPairs e hid i j).1 hp
      have hji : j < i := by
        rcases Nat.lt_or_gt_of_ne hij with hlt | hgt
        · exact absurd ⟨(i, j), (mem_neighbourPairs e i j).2 ⟨hi, hlt, hex⟩, ht⟩ hN
        · exact hgt
      refine ⟨i, j, hji, hi, hex, ht', ?_⟩
      intro hrev
      apply hN
      refine ⟨(j, i), (mem_neighbourPairs e j i).2 ⟨lt_trans hji hi, hji, hrev⟩, ?_⟩
      show e.tunnels fn v j i = true
      rw [← tunnels_symm fn e v i j]
      exact ht'
    · left
      have hnoL : ∀ p ∈ e.listedPairs, e.tunnels fn v p.1 p.2 = false := by
        intro p hp
        cases ht : e.tunnels fn v p.1 p.2 with
        | false => rfl
        | true => exact absurd ⟨p, hp, ht⟩ hL
      rw [hv, hg2 hnoL]

/-- C40: in a state whose lists hold non-negative active ids (the ranks a pack
assigns), for every `v`, the loops run in index order: when the neighbour
lists are symmetric (an entry with active id `j` in `nn[i]` entails an
entry with active id `i` in `nn[j]`), `value(v)` and `value(v, grad)` return
the same energy; and in any state, if they differ, then `value(v, grad)`
returns `9e9`, `value(v)` returns the finite sum of the energy formula, and
some pair `(i, j)` with `j < i` tunnels that is listed in `nn[i]` and not in
`nn[j]`. -/
theorem value_overloads_agree (fn : MathFns K) (e : ImplicitEngine K) (v : Nat → K)
    (hid : ∀ i, i < e.activeAgents → ∀ other ∈ e.nn i, 0 ≤ (e.agents other).activeid) :
    ((∀ i j, i < e.activeAgents → j < e.activeAgents →
        (∃ other ∈ e.nn i, (e.agents other).activeid = (j : Int)) →
        ∃ other ∈ e.nn j, (e.agents other).activeid = (i : Int)) →
      ImplicitEngine.value fn e v = (ImplicitEngine.valueGrad fn e v).1) ∧
    (ImplicitEngine.value fn e v ≠ (ImplicitEngine.valueGrad fn e v).1 →
      (ImplicitEngine.valueGrad fn e v).1 = 9000000000 ∧
      ImplicitEngine.value fn e v = e.quadratic v + (e.neighbourPairs.map
        (fun p => e.ttcEnergy fn v p.1 p.2 + e.distanceEnergy fn v p.1 p.2)).sum ∧
      ∃ i j, j < i ∧ i < e.activeAgents ∧
        (∃ other ∈ e.nn i, (e.agents other).activeid = (j : Int)) ∧
        e.tunnels fn v i j = true ∧
        ¬ ∃ other ∈ e.nn j, (e.agents other).activeid = (i : Int)) := by
  rcases overloads_cases fn e v hid with h | h
  · exact ⟨fun _ => h, fun hne => absurd h hne⟩
  · refine ⟨fun hsym => ?_, fun _ => h⟩
    obtain ⟨_, _, i, j, hji, hi, hex, _, hnot⟩ := h
    exact absurd (hsym i j hi (lt_trans hji hi) hex) hnot

/-- The lists of `headOnProblem` hold the active ids 0 and 1, each in both lists. -/
theorem headOnProblem_lists :
    (∀ i, i < (headOnProblem : ImplicitEngine ℝ).activeAgents →
      ∀ other ∈ (headOnProblem : ImplicitEngine ℝ).nn i,
        0 ≤ ((headOnProblem : ImplicitEngine ℝ).agents other).activeid) ∧
    (∀ i j, i < (headOnProblem : ImplicitEngine ℝ).activeAgents →
      j < (headOnProblem : ImplicitEngine ℝ).activeAgents →
      (∃ other ∈ (headOnProblem : ImplicitEngine ℝ).nn i,
        ((headOnProblem : ImplicitEngine ℝ).agents other).activeid = (j : Int)) →
      ∃ other ∈ (headOnProblem : ImplicitEngine ℝ).nn j,
        ((headOnProblem : ImplicitEngine ℝ).agents other).activeid = (i : Int)) := by
  have hnn : ∀ i, i < 2 → (headOnProblem : ImplicitEngine ℝ).nn i = [0, 1] := by
    intro i hi
    show (if i < 2 then [0, 1] else ([] : List Nat)) = [0, 1]
    rw [if_pos hi]
  have h0 : ((headOnProblem : ImplicitEngine ℝ).agents 0).activeid = 0 := by
    simp [headOnProblem, headOnAgent]
  have h1 : ((headOnProblem : ImplicitEngine ℝ).agents 1).activeid = 1 := by
    simp [headOnProblem, headOnAgent]
  constructor
  · intro i hi other ho
    rw [hnn i hi] at ho
    simp only [List.mem_cons, List.mem_singleton, List.not_mem_nil, or_false] at ho
    rcases ho with h | h
    · rw [h, h0]
    · rw [h, h1]
      norm_num
  · intro i j hi hj _
    rw [hnn j hj]
    have hi2 : i < 2 := hi
    rcases Nat.lt_or_ge i 1 with h | h
    · have : i = 0 := by omega
      subst this
      exact ⟨0, by simp, by rw [h0]; rfl⟩
    · have : i = 1 := by omega
      subst this
      exact ⟨1, by simp, by rw [h1]; rfl⟩

/-- C40, instance: in `headOnProblem`, whose lists are symmetric, the two
overloads return the same energy for the velocities `(-1, 0)` and `(1, 0)`. -/
theorem value_overloads_agree_witness :
    (∀ i, i < (headOnProblem : ImplicitEngine ℝ).activeAgents →
      ∀ other ∈ (headOnProblem : ImplicitEngine ℝ).nn i,
        0 ≤ ((headOnProblem : ImplicitEngine ℝ).agents other).activeid) ∧
    ImplicitEngine.value ⟨Real.sqrt, Real.exp, fun a b => a ^ b⟩ headOnProblem
      (fun i => if i = 0 then -1 else if i = 1 then 1 else 0) =
    (ImplicitEngine.valueGrad ⟨Real.sqrt, Real.exp, fun a b => a ^ b⟩ headOnProblem
      (fun i => if i = 0 then -1 else if i = 1 then 1 else 0)).1 :=
  ⟨headOnProblem_lists.1,
    (value_overloads_agree ⟨Real.sqrt, Real.exp, fun a b => a ^ b⟩ headOnProblem
      (fun i => if i = 0 then -1 else if i = 1 then 1 else 0) headOnProblem_lists.1).1
      headOnProblem_lists.2⟩

end overloads


/-! ## One call of `updateSimulation`, agent by agent -/

section simulationStep

variable [LinearOrderedField K] [FloorRing K]

/-- Source function `updateSimulation` on an engine satisfying the invariant, with fuel
above the number of agents.  It returns.  When the first loop leaves no agent
enabled, the result is the engine after the first loop.  Otherwise `iteration`
grows by one and `globalTime` by `dt`; an agent disabled after the first loop
is as the first loop left it, and an agent enabled after the first loop is what
`update` makes of it once `initializeProblem` has set its active id to its
rank and `finalizeProblem` has set its velocity to the entries of the solver's
result at its rank and at its rank plus `activeAgents`. -/
theorem updateSimulation_step (fn : MathFns K) (solver : ImplicitEngine K → Nat → K)
    (fuel : Nat) {L : BinRef → List Nat} {e : ImplicitEngine K} (h : EngineOK L e)
    (hf : e.noAgents < fuel) :
    ∃ e' L', e.updateSimulation fn solver fuel = some e' ∧ EngineOK L' e' ∧
      e'.noAgents = e.noAgents ∧ e'.dt = e.dt ∧ e'.maxSteps = e.maxSteps ∧
      e'.reachedGoals = (e.doStepAll fn).reachedGoals ∧
      ((e.doStepAll fn).reachedGoals = true → e' = e.doStepAll fn) ∧
      ((e.doStepAll fn).reachedGoals = false →
        e'.iteration = e.iteration + 1 ∧ e'.globalTime = e.globalTime + e.dt ∧
        ∃ e2, (e.doStepAll fn).initializeProblem fuel = some e2 ∧
          ∀ j, j < e.noAgents →
            (((e.doStepAll fn).agents j).enabled = false →
              e'.agents j = (e.doStepAll fn).agents j) ∧
            (((e.doStepAll fn).agents j).enabled = true →
              ∃ m m', ImplicitAgent.update fn.sqrt m
                { (e.doStepAll fn).agents j with
                  activeid := ((e.doStepAll fn).rank j : Int)
                  velocity := ⟨solver e2 ((e.doStepAll fn).rank j),
                    solver e2 ((e.doStepAll fn).rank j + (e.doStepAll fn).activeAgents)⟩ }
                e.dt = some (m', e'.agents j))) := by
  obtain ⟨⟨L1, h1⟩, hag1, _, _, hfr1⟩ := doStepAll_spec fn h
  have hno1 : (e.doStepAll fn).noAgents = e.noAgents := by
    have hc := congrArg ImplicitEngine.noAgents hfr1
    exact hc
  have hdt1 : (e.doStepAll fn).dt = e.dt := by
    have hc := congrArg ImplicitEngine.dt hfr1
    exact hc
  have hms1 : (e.doStepAll fn).maxSteps = e.maxSteps := by
    have hc := congrArg ImplicitEngine.maxSteps hfr1
    exact hc
  have hit1 : (e.doStepAll fn).iteration = e.iteration := by
    have hc := congrArg ImplicitEngine.iteration hfr1
    exact hc
  have hgt1 : (e.doStepAll fn).globalTime = e.globalTime := by
    have hc := congrArg ImplicitEngine.globalTime hfr1
    exact hc
  cases hr : (e.doStepAll fn).reachedGoals with
  | true =>
    exact ⟨_, L1, updateSimulation_of_converged fn solver fuel e hr, h1, hno1, hdt1, hms1, hr,
      fun _ => rfl, fun hh => Bool.noConfusion hh⟩
  | false =>
    have hf1 : (e.doStepAll fn).spatialDatabase.nproxy < fuel := by
      rw [h1.count, hno1]; exact hf
    obtain ⟨e2, hinit, h2, hag2, _, _, _, hfr2⟩ := initializeProblem_spec fuel h1 hf1
    have hno2 : e2.noAgents = e.noAgents := by
      have hc := congrArg ImplicitEngine.noAgents hfr2
      rw [← hno1]; exact hc
    have hA2 : e2.activeAgents = (e.doStepAll fn).activeAgents := by
      have hc := congrArg ImplicitEngine.activeAgents hfr2
      exact hc
    have h3 : EngineOK L1 ({ e2 with vNew := solver e2 } : ImplicitEngine K) :=
      h2.congr rfl rfl (fun _ _ => ⟨rfl, rfl⟩)
    obtain ⟨hag4, hfr4⟩ := finalizeProblem_spec ({ e2 with vNew := solver e2 } : ImplicitEngine K)
    have hno4 : ({ e2 with vNew := solver e2 } : ImplicitEngine K).finalizeProblem.noAgents =
        e.noAgents := by
      have hc := congrArg ImplicitEngine.noAgents hfr4
      rw [← hno2]; exact hc
    have h4 : EngineOK L1 ({ e2 with vNew := solver e2 } : ImplicitEngine K).finalizeProblem := by
      refine h3.congr ?_ ?_ ?_
      · have hc := congrArg ImplicitEngine.spatialDatabase hfr4
        exact hc
      · have hc := congrArg ImplicitEngine.noAgents hfr4
        exact hc
      · intro i _
        rw [hag4 i]
        split_ifs <;> exact ⟨rfl, rfl⟩
    obtain ⟨e5, L5, hupd, h5, hen5, hdis5, _, hfr5⟩ := updateAll_spec fn h4
    have hdt5 : e5.dt = e.dt := by
      have a := congrArg ImplicitEngine.dt hfr5
      have b := congrArg ImplicitEngine.dt hfr4
      have c := congrArg ImplicitEngine.dt hfr2
      exact a.trans (b.trans (c.trans hdt1))
    have hms5 : e5.maxSteps = e.maxSteps := by
      have a := congrArg ImplicitEngine.maxSteps hfr5
      have b := congrArg ImplicitEngine.maxSteps hfr4
      have c := congrArg ImplicitEngine.maxSteps hfr2
      exact a.trans (b.trans (c.trans hms1))
    have hit5 : e5.iteration = e.iteration := by
      have a := congrArg ImplicitEngine.iteration hfr5
      have b := congrArg ImplicitEngine.iteration hfr4
      have c := congrArg ImplicitEngine.iteration hfr2
      exact a.trans (b.trans (c.trans hit1))
    have hgt5 : e5.globalTime = e.globalTime := by
      have a := congrArg ImplicitEngine.globalTime hfr5
      have b := congrArg ImplicitEngine.globalTime hfr4
      have c := congrArg ImplicitEngine.globalTime hfr2
      exact a.trans (b.trans (c.trans hgt1))
    have hrg5 : e5.reachedGoals = false := by
      have a := congrArg ImplicitEngine.reachedGoals hfr5
      have b := congrArg ImplicitEngine.reachedGoals hfr4
      have c := congrArg ImplicitEngine.reachedGoals hfr2
      exact a.trans (b.trans (c.trans hr))
    have hno5 : e5.noAgents = e.noAgents := by
      have hc := congrArg ImplicitEngine.noAgents hfr5
      rw [← hno4]; exact hc
    have hdt4 : ({ e2 with vNew := solver e2 } : ImplicitEngine K).finalizeProblem.dt = e.dt := by
      have b := congrArg ImplicitEngine.dt hfr4
      have c := congrArg ImplicitEngine.dt hfr2
      exact b.trans (c.trans hdt1)
    refine ⟨_, L5, updateSimulation_of_active fn solver fuel e hr e2 e5 hinit hupd,
      h5.congr rfl rfl (fun _ _ => ⟨rfl, rfl⟩), hno5, hdt5, hms5, hrg5,
      fun hh => Bool.noConfusion hh, fun _ => ⟨?_, ?_, e2, hinit, ?_⟩⟩
    · show e5.iteration + 1 = e.iteration + 1
      rw [hit5]
    · show e5.globalTime + e5.dt = e.globalTime + e.dt
      rw [hgt5, hdt5]
    intro j hj
    constructor
    · intro hje
      have e2j : e2.agents j = (e.doStepAll fn).agents j := by
        rw [hag2 j, if_neg (fun hh => by rw [hje] at hh; exact Bool.noConfusion hh.2)]
      have e4j : ({ e2 with vNew := solver e2 } : ImplicitEngine K).finalizeProblem.agents j =
          e2.agents j := by
        rw [hag4 j, if_neg (fun hh => by
          have h' : (e2.agents j).enabled = true := hh.2
          rw [e2j, hje] at h'
          exact Bool.noConfusion h')]
      have e5j : e5.agents j =
          ({ e2 with vNew := solver e2 } : ImplicitEngine K).finalizeProblem.agents j := by
        apply hdis5 j
        intro hh
        have h' := hh.2
        rw [e4j, e2j, hje] at h'
        exact Bool.noConfusion h'
      show e5.agents j = _
      rw [e5j, e4j, e2j]
    · intro hje
      have e2j : e2.agents j = { (e.doStepAll fn).agents j with
          activeid := ((e.doStepAll fn).rank j : Int) } := by
        rw [hag2 j, if_pos ⟨by rw [hno1]; exact hj, hje⟩]
      have e2en : (e2.agents j).enabled = true := by rw [e2j]; exact hje
      have e4j : ({ e2 with vNew := solver e2 } : ImplicitEngine K).finalizeProblem.agents j =
          { (e.doStepAll fn).agents j with
            activeid := ((e.doStepAll fn).rank j : Int)
            velocity := ⟨solver e2 ((e.doStepAll fn).rank j),
              solver e2 ((e.doStepAll fn).rank j + (e.doStepAll fn).activeAgents)⟩ } := by
        rw [hag4 j, if_pos ⟨by rw [hno2]; exact hj, e2en⟩]
        show ({ e2.agents j with velocity :=
          ⟨solver e2 (e2.agents j).activeid.toNat,
            solver e2 ((e2.agents j).activeid + (e2.activeAgents : Int)).toNat⟩ } :
            ImplicitAgent K) = _
        rw [e2j, hA2]
        show ({ (e.doStepAll fn).agents j with
          activeid := ((e.doStepAll fn).rank j : Int)
          velocity := ⟨solver e2 ((e.doStepAll fn).rank j : Int).toNat,
            solver e2 (((e.doStepAll fn).rank j : Int) +
              ((e.doStepAll fn).activeAgents : Int)).toNat⟩ } : ImplicitAgent K) = _
        rw [Int.toNat_natCast, ← Int.natCast_add, Int.toNat_natCast]
      have e4en : (({ e2 with vNew := solver e2 } : ImplicitEngine K).finalizeProblem.agents
          j).enabled = true := by rw [e4j]; exact hje
      obtain ⟨m, m', hu⟩ := hen5 j (by rw [hno4]; exact hj) e4en
      rw [e4j, hdt4] at hu
      exact ⟨m, m', hu⟩

/-- What `update` leaves of an agent, when it returns. -/
theorem update_result (sqrt : K → K) (m : LQMem K) (a : ImplicitAgent K) (dt : K)
    (r : LQMem K × ImplicitAgent K) (hu : ImplicitAgent.update sqrt m a dt = some r) :
    r.2.enabled = a.enabled ∧ r.2.goal = a.goal ∧ r.2.goalRadiusSq = a.goalRadiusSq ∧
    r.2.prefSpeed = a.prefSpeed ∧ r.2.radius = a.radius ∧ r.2.velocity = a.velocity ∧
    r.2.position = a.position.add (a.velocity.mulScalar dt) ∧
    r.2.path = a.path ++ [r.2.position] ∧
    r.2.orientations = a.orientations ++ [r.2.orientation] := by
  unfold ImplicitAgent.update at hu
  cases ht : a.proximityToken with
  | none =>
    rw [ht] at hu
    exact Option.noConfusion hu
  | some t =>
    rw [ht] at hu
    have hu' := Option.some.inj hu
    rw [← hu']
    exact ⟨rfl, rfl, rfl, rfl, rfl, rfl, rfl, rfl, rfl⟩

/-- The rank of the number of agents after the first loop of `updateSimulation`
is `activeAgents`. -/
theorem doStepAll_rank (fn : MathFns K) {L : BinRef → List Nat} {e : ImplicitEngine K}
    (h : EngineOK L e) :
    (e.doStepAll fn).rank (e.doStepAll fn).noAgents = (e.doStepAll fn).activeAgents := by
  obtain ⟨_, hag1, hact1, _, hfr1⟩ := doStepAll_spec fn h
  have hno1 : (e.doStepAll fn).noAgents = e.noAgents := by
    have hc := congrArg ImplicitEngine.noAgents hfr1
    exact hc
  rw [hact1, hno1]
  unfold ImplicitEngine.rank
  apply List.countP_congr
  intro j hj
  rw [hag1 j, if_pos (List.mem_range.1 hj)]

/-- One call of `updateSimulation`, seen from agent `j`: it is enabled afterwards
exactly when its own `doStep` leaves it enabled; its goal, goal radius,
preferred speed and radius do not change; if it is disabled afterwards, its
position, velocity, path and orientations are those before the call; if it is
enabled afterwards, the call was not a converged one, its velocity is the pair
of entries of the solver's result at its rank and at its rank plus
`activeAgents` (where `_vGoal` holds its preferred velocity), its position has
moved by `velocity * dt`, and its path and orientations have one more entry,
the new position and orientation.  The call is a converged one exactly when
every agent is disabled afterwards; then `iteration` and `globalTime` are
unchanged, otherwise they grow by 1 and by `dt`. -/
theorem updateSimulation_agents (fn : MathFns K) (solver : ImplicitEngine K → Nat → K)
    (fuel : Nat) {L : BinRef → List Nat} {e : ImplicitEngine K} (h : EngineOK L e)
    (hf : e.noAgents < fuel) :
    ∃ e' L', e.updateSimulation fn solver fuel = some e' ∧ EngineOK L' e' ∧
      e'.noAgents = e.noAgents ∧ e'.dt = e.dt ∧ e'.maxSteps = e.maxSteps ∧
      (e'.reachedGoals = true ↔ ∀ j, j < e.noAgents → (e'.agents j).enabled = false) ∧
      (e'.reachedGoals = true → e'.iteration = e.iteration ∧ e'.globalTime = e.globalTime) ∧
      (e'.reachedGoals = false →
        e'.iteration = e.iteration + 1 ∧ e'.globalTime = e.globalTime + e.dt) ∧
      ∀ j, j < e.noAgents →
        (e'.agents j).enabled =
          (ImplicitAgent.doStep fn.sqrt e.spatialDatabase (e.agents j) e.dt).2.enabled ∧
        (e'.agents j).goal = (e.agents j).goal ∧
        (e'.agents j).goalRadiusSq = (e.agents j).goalRadiusSq ∧
        (e'.agents j).prefSpeed = (e.agents j).prefSpeed ∧
        (e'.agents j).radius = (e.agents j).radius ∧
        ((e'.agents j).enabled = false →
          (e'.agents j).position = (e.agents j).position ∧
          (e'.agents j).velocity = (e.agents j).velocity ∧
          (e'.agents j).path = (e.agents j).path ∧
          (e'.agents j).orientations = (e.agents j).orientations) ∧
        ((e'.agents j).enabled = true →
          e'.reachedGoals = false ∧
          (∃ e2, (e.doStepAll fn).initializeProblem fuel = some e2 ∧
            (e'.agents j).velocity = ⟨solver e2 ((e.doStepAll fn).rank j),
              solver e2 ((e.doStepAll fn).rank j + (e.doStepAll fn).activeAgents)⟩ ∧
            e2.vGoal ((e.doStepAll fn).rank j) =
              (ImplicitAgent.doStep fn.sqrt e.spatialDatabase (e.agents j) e.dt).2.vPref.x ∧
            e2.vGoal ((e.doStepAll fn).rank j + (e.doStepAll fn).activeAgents) =
              (ImplicitAgent.doStep fn.sqrt e.spatialDatabase (e.agents j) e.dt).2.vPref.y) ∧
          (e'.agents j).position =
            (e.agents j).position.add ((e'.agents j).velocity.mulScalar e.dt) ∧
          (e'.agents j).path = (e.agents j).path ++ [(e'.agents j).position] ∧
          (e'.agents j).orientations =
            (e.agents j).orientations ++ [(e'.agents j).orientation]) := by
  obtain ⟨⟨L1, h1⟩, hag1, _, hrg1, hfr1⟩ := doStepAll_spec fn h
  have hno1 : (e.doStepAll fn).noAgents = e.noAgents := by
    have hc := congrArg ImplicitEngine.noAgents hfr1
    exact hc
  have hit1 : (e.doStepAll fn).iteration = e.iteration := by
    have hc := congrArg ImplicitEngine.iteration hfr1
    exact hc
  have hgt1 : (e.doStepAll fn).globalTime = e.globalTime := by
    have hc := congrArg ImplicitEngine.globalTime hfr1
    exact hc
  obtain ⟨e', L', hup, hok, hno, hdt, hms, hrg, hconv, hact⟩ :=
    updateSimulation_step fn solver fuel h hf
  have hfrm := fun j => doStep_frame fn.sqrt e.spatialDatabase (e.agents j) e.dt
  -- the agents after the call
  have key : ∀ j, j < e.noAgents →
      (((e.doStepAll fn).agents j).enabled = false → e'.agents j = (e.doStepAll fn).agents j) ∧
      (((e.doStepAll fn).agents j).enabled = true →
        (e.doStepAll fn).reachedGoals = false ∧
        ∃ e2 m m', (e.doStepAll fn).initializeProblem fuel = some e2 ∧
          ImplicitAgent.update fn.sqrt m
            { (e.doStepAll fn).agents j with
              activeid := ((e.doStepAll fn).rank j : Int)
              velocity := ⟨solver e2 ((e.doStepAll fn).rank j),
                solver e2 ((e.doStepAll fn).rank j + (e.doStepAll fn).activeAgents)⟩ }
            e.dt = some (m', e'.agents j)) := by
    intro j hj
    have hrf : ((e.doStepAll fn).agents j).enabled = true →
        (e.doStepAll fn).reachedGoals = false := by
      intro hje
      cases hr : (e.doStepAll fn).reachedGoals with
      | false => rfl
      | true =>
        exfalso
        rw [hrg1, List.all_eq_true] at hr
        have := hr j (List.mem_range.2 hj)
        rw [hag1 j, if_pos hj] at hje
        rw [hje] at this
        exact Bool.noConfusion this
    cases hr : (e.doStepAll fn).reachedGoals with
    | true =>
      refine ⟨fun _ => by rw [hconv hr], fun hje => ?_⟩
      rw [hrf hje] at hr
      exact Bool.noConfusion hr
    | false =>
      obtain ⟨_, _, e2, hinit, hj2⟩ := hact hr
      refine ⟨(hj2 j hj).1, fun hje => ⟨rfl, ?_⟩⟩
      obtain ⟨m, m', hu⟩ := (hj2 j hj).2 hje
      exact ⟨e2, m, m', hinit, hu⟩
  have hen : ∀ j, j < e.noAgents →
      (e'.agents j).enabled = ((e.doStepAll fn).agents j).enabled := by
    intro j hj
    cases hje : ((e.doStepAll fn).agents j).enabled with
    | false => rw [(key j hj).1 hje]; exact hje
    | true =>
      obtain ⟨_, e2, m, m', _, hu⟩ := (key j hj).2 hje
      rw [(update_result _ _ _ _ _ hu).1]
      exact hje
  refine ⟨e', L', hup, hok, hno, hdt, hms, ?_, ?_, ?_, ?_⟩
  · rw [hrg, hrg1, List.all_eq_true]
    constructor
    · intro hall j hj
      have := hall j (List.mem_range.2 hj)
      rw [hen j hj, hag1 j, if_pos hj]
      cases hb : (ImplicitAgent.doStep fn.sqrt e.spatialDatabase (e.agents j) e.dt).2.enabled with
      | false => rfl
      | true => rw [hb] at this; exact Bool.noConfusion this
    · intro hall j hj
      have := hall j (List.mem_range.1 hj)
      rw [hen j (List.mem_range.1 hj), hag1 j, if_pos (List.mem_range.1 hj)] at this
      rw [this]
      rfl
  · intro hr
    rw [hrg] at hr
    rw [hconv hr]
    exact ⟨hit1, hgt1⟩
  · intro hr
    rw [hrg] at hr
    exact ⟨(hact hr).1, (hact hr).2.1⟩
  · intro j hj
    have h1j : (e.doStepAll fn).agents j =
        (ImplicitAgent.doStep fn.sqrt e.spatialDatabase (e.agents j) e.dt).2 := by
      rw [hag1 j, if_pos hj]
    have henj := hen j hj
    rw [h1j] at henj
    have fixed : (e'.agents j).goal = (e.agents j).goal ∧
        (e'.agents j).goalRadiusSq = (e.agents j).goalRadiusSq ∧
        (e'.agents j).prefSpeed = (e.agents j).prefSpeed ∧
        (e'.agents j).radius = (e.agents j).radius := by
      cases hje : ((e.doStepAll fn).agents j).enabled with
      | false =>
        rw [(key j hj).1 hje, h1j]
        exact ⟨(hfrm j).2.2.2.2.2.1, (hfrm j).2.2.2.2.2.2.1, (hfrm j).2.2.2.2.2.2.2.2.1,
          (hfrm j).2.2.2.2.2.2.2.1⟩
      | true =>
        obtain ⟨_, e2, m, m', _, hu⟩ := (key j hj).2 hje
        obtain ⟨_, r1, r2, r3, r4, _⟩ := update_result _ _ _ _ _ hu
        simp only [] at r1 r2 r3 r4
        rw [r1, r2, r3, r4, h1j]
        exact ⟨(hfrm j).2.2.2.2.2.1, (hfrm j).2.2.2.2.2.2.1, (hfrm j).2.2.2.2.2.2.2.2.1,
          (hfrm j).2.2.2.2.2.2.2.1⟩
    refine ⟨henj, fixed.1, fixed.2.1, fixed.2.2.1, fixed.2.2.2, ?_, ?_⟩
    · intro hje
      rw [henj, ← h1j] at hje
      rw [(key j hj).1 hje, h1j]
      exact ⟨(hfrm j).1, (hfrm j).2.1, (hfrm j).2.2.1, (hfrm j).2.2.2.1⟩
    · intro hje
      rw [henj, ← h1j] at hje
      obtain ⟨hrf, e2, m, m', hinit, hu⟩ := (key j hj).2 hje
      obtain ⟨_, _, _, _, _, r5, r6, r7, r8⟩ := update_result _ _ _ _ _ hu
      simp only [] at r5 r6 r7 r8
      obtain ⟨_, hvec⟩ := initializeProblem_vectors fuel (e.doStepAll fn) e2 hinit
        (le_of_eq (doStepAll_rank fn h))
      have hv := hvec j (by rw [hno1]; exact hj) hje
      refine ⟨by rw [hrg]; exact hrf, ⟨e2, hinit, r5, ?_, ?_⟩, ?_, ?_, ?_⟩
      · rw [hv.2.2.2.2.1, h1j]
      · rw [hv.2.2.2.2.2.1, h1j]
      · rw [r6, r5, h1j, (hfrm j).1]
      · rw [r7, h1j, (hfrm j).2.2.1]
      · rw [r8, h1j, (hfrm j).2.2.2.1]

end simulationStep


/-! ## Convergence and the step counter -/

section convergence

variable [LinearOrderedField K] [FloorRing K]

/-- C37: on every engine reached from `init` (fuel above the number of agents
added), `updateSimulation` returns.  If every agent is disabled after the
`doStep` pass, the run is marked converged (`endSimulation` returns true) and
`iteration`, `globalTime` and the position, velocity, path and orientations of
every agent are left unchanged; otherwise `iteration` grows by exactly 1 and
`globalTime` by exactly `dt`.  After the call, `endSimulation` returns true
exactly when every agent is disabled or `iteration ≥ maxSteps`. -/
theorem updateSimulation_marks_convergence (fn : MathFns K)
    (solver : ImplicitEngine K → Nat → K) (fuel : Nat) (raw : ImplicitEngine K)
    (xRange yRange : K) (xCells yCells : Int) (ops : List (EngineOp K))
    (hf : addAgentCalls ops < fuel) :
    ∃ e e', engineAfter fn solver fuel raw xRange yRange xCells yCells ops = some e ∧
      e.updateSimulation fn solver fuel = some e' ∧
      e'.noAgents = e.noAgents ∧ e'.maxSteps = e.maxSteps ∧
      ((∀ j, j < e.noAgents →
          (ImplicitAgent.doStep fn.sqrt e.spatialDatabase (e.agents j) e.dt).2.enabled = false) →
        e'.reachedGoals = true ∧ e'.endSimulation = true ∧
        e'.iteration = e.iteration ∧ e'.globalTime = e.globalTime ∧
        ∀ j, j < e.noAgents →
          (e'.agents j).enabled = false ∧
          (e'.agents j).position = (e.agents j).position ∧
          (e'.agents j).velocity = (e.agents j).velocity ∧
          (e'.agents j).path = (e.agents j).path ∧
          (e'.agents j).orientations = (e.agents j).orientations) ∧
      (¬ (∀ j, j < e.noAgents →
          (ImplicitAgent.doStep fn.sqrt e.spatialDatabase (e.agents j) e.dt).2.enabled = false) →
        e'.reachedGoals = false ∧
        e'.iteration = e.iteration + 1 ∧ e'.globalTime = e.globalTime + e.dt) ∧
      (e'.endSimulation = true ↔
        (∀ j, j < e'.noAgents → (e'.agents j).enabled = false) ∨ e'.iteration ≥ e'.maxSteps) := by
  obtain ⟨e, L, he, hok, hno, _⟩ := engineAfter_ok fn solver fuel raw xRange yRange xCells yCells
    ops hf
  obtain ⟨e', L', hup, _, hno', _, hms, hrg, hconv, hact, hag⟩ :=
    updateSimulation_agents fn solver fuel hok (by rw [hno]; exact hf)
  have hall : (∀ j, j < e.noAgents →
      (ImplicitAgent.doStep fn.sqrt e.spatialDatabase (e.agents j) e.dt).2.enabled = false) ↔
      e'.reachedGoals = true := by
    rw [hrg]
    constructor
    · intro hd j hj
      rw [(hag j hj).1]
      exact hd j hj
    · intro hd j hj
      rw [← (hag j hj).1]
      exact hd j hj
  refine ⟨e, e', he, hup, hno', hms, ?_, ?_, ?_⟩
  · intro hd
    have hr := hall.1 hd
    refine ⟨hr, ?_, (hconv hr).1, (hconv hr).2, ?_⟩
    · unfold ImplicitEngine.endSimulation
      rw [hr]
      rfl
    · intro j hj
      have hje : (e'.agents j).enabled = false := by
        rw [(hag j hj).1]
        exact hd j hj
      exact ⟨hje, (hag j hj).2.2.2.2.2.1 hje⟩
  · intro hd
    have hr : e'.reachedGoals = false := by
      cases hb : e'.reachedGoals with
      | false => rfl
      | true => exact absurd (hall.2 hb) hd
    exact ⟨hr, hact hr⟩
  · unfold ImplicitEngine.endSimulation
    rw [Bool.or_eq_true, decide_eq_true_eq, hrg, hno']

/-- C37, instance: the engine of the border scenario. -/
theorem updateSimulation_marks_convergence_witness :
    addAgentCalls (borderOps : List (EngineOp ℝ)) < 3 ∧
    ∃ e e', engineAfter ⟨Real.sqrt, Real.exp, fun a b => a ^ b⟩ (fun _ _ => 0) 3
        (rawEngine : ImplicitEngine ℝ) 100 100 2 2 borderOps = some e ∧
      e.updateSimulation ⟨Real.sqrt, Real.exp, fun a b => a ^ b⟩ (fun _ _ => 0) 3 = some e' ∧
      (e'.endSimulation = true ↔
        (∀ j, j < e'.noAgents → (e'.agents j).enabled = false) ∨
          e'.iteration ≥ e'.maxSteps) := by
  have hf : addAgentCalls (borderOps : List (EngineOp ℝ)) < 3 := by
    simp [addAgentCalls, borderOps]
  obtain ⟨e, e', h1, h2, _, _, _, _, h3⟩ := updateSimulation_marks_convergence
    ⟨Real.sqrt, Real.exp, fun a b => a ^ b⟩ (fun _ _ => 0) 3 (rawEngine : ImplicitEngine ℝ)
    100 100 2 2 borderOps hf
  exact ⟨hf, e, e', h1, h2, h3⟩

end convergence
/-! ## Induction over the calls that reach an engine -/

section reachInduction

variable [LinearOrderedField K] [FloorRing K]

/-- A property that holds of a state satisfying the invariant and is kept by
each call of `ops` made on such a state holds after `ops`. -/
theorem calls_induction (fn : MathFns K) (solver : ImplicitEngine K → Nat → K) (fuel : Nat)
    (P : ImplicitEngine K → Prop) (ops : List (EngineOp K))
    (hstep : ∀ (L : BinRef → List Nat) (e e' : ImplicitEngine K) (op : EngineOp K), op ∈ ops →
      EngineOK L e → e.noAgents < fuel → P e →
      EngineOp.apply fn solver fuel e op = some e' → P e') :
    ∀ (ops' : List (EngineOp K)) {L : BinRef → List Nat} {e0 : ImplicitEngine K},
    (∀ op, op ∈ ops' → op ∈ ops) → EngineOK L e0 →
    (∀ j, j < e0.noAgents → 0 ≤ (e0.agents j).activeid) →
    e0.noAgents + addAgentCalls ops' < fuel → P e0 →
    ∀ e, ops'.foldlM (EngineOp.apply fn solver fuel) e0 = some e → P e
  | [], _, e0, _, _, _, _, hP, e, he => by
    have : e0 = e := Option.some.inj he
    rw [← this]
    exact hP
  | op :: ops', L, e0, hsub, hok, hid, hf, hP, e, he => by
    have hcalls : addAgentCalls (op :: ops') = addAgentCalls [op] + addAgentCalls ops' := by
      cases op <;> simp [addAgentCalls]
      omega
    rw [hcalls] at hf
    obtain ⟨e1, L1, h1, hok1, hno1, _, hid1⟩ := hok.after_call fn solver fuel op (by omega) hid
    rw [List.foldlM_cons, h1] at he
    exact calls_induction fn solver fuel P ops hstep ops'
      (fun o ho => hsub o (List.mem_cons_of_mem _ ho)) hok1 hid1 (by rw [hno1]; omega)
      (hstep L e0 e1 op (hsub op (List.mem_cons_self _ _)) hok (by omega) hP h1) e he

/-- A property that holds after `init` and is kept by each call of `ops` made
on a state satisfying the invariant holds of the engine reached by `ops`. -/
theorem engineAfter_induction (fn : MathFns K) (solver : ImplicitEngine K → Nat → K)
    (fuel : Nat) (raw : ImplicitEngine K) (xRange yRange : K) (xCells yCells : Int)
    (P : ImplicitEngine K → Prop) (ops : List (EngineOp K)) (hf : addAgentCalls ops < fuel)
    (h0 : P (ImplicitEngine.init raw xRange yRange xCells yCells))
    (hstep : ∀ (L : BinRef → List Nat) (e e' : ImplicitEngine K) (op : EngineOp K), op ∈ ops →
      EngineOK L e → e.noAgents < fuel → P e →
      EngineOp.apply fn solver fuel e op = some e' → P e')
    (e : ImplicitEngine K)
    (he : engineAfter fn solver fuel raw xRange yRange xCells yCells ops = some e) : P e := by
  have hn0 : (ImplicitEngine.init raw xRange yRange xCells yCells).noAgents = 0 := rfl
  exact calls_induction fn solver fuel P ops hstep ops (fun _ ho => ho)
    (EngineOK.init raw xRange yRange xCells yCells)
    (fun j hj => absurd hj (by rw [hn0]; exact Nat.not_lt_zero j))
    (by rw [hn0, Nat.zero_add]; exact hf) h0 e he

/-- The agent that `addAgent` builds. -/
theorem addAgent_agents (fn : MathFns K) (e : ImplicitEngine K) (c : AgentInitialParameters K) :
    (∀ j, j ≠ e.noAgents → (e.addAgent fn c).agents j = e.agents j) ∧
    ((e.addAgent fn c).agents e.noAgents).id = (e.noAgents : Int) ∧
    ((e.addAgent fn c).agents e.noAgents).position = c.position ∧
    ((e.addAgent fn c).agents e.noAgents).path = [c.position] ∧
    ((e.addAgent fn c).agents e.noAgents).orientations =
      [((e.addAgent fn c).agents e.noAgents).orientation] ∧
    (e.addAgent fn c).noAgents = e.noAgents + 1 ∧
    (e.addAgent fn c).iteration = e.iteration ∧ (e.addAgent fn c).maxSteps = e.maxSteps := by
  refine ⟨fun j hj => Function.update_noteq hj _ _, ?_, ?_, ?_, ?_, rfl, rfl, rfl⟩
  · show ((Function.update e.agents e.noAgents _) e.noAgents).id = _
    rw [Function.update_same]
    rfl
  · show ((Function.update e.agents e.noAgents _) e.noAgents).position = _
    rw [Function.update_same]
    rfl
  · show ((Function.update e.agents e.noAgents _) e.noAgents).path = _
    rw [Function.update_same]
    rfl
  · show ((Function.update e.agents e.noAgents _) e.noAgents).orientations =
      [((Function.update e.agents e.noAgents _) e.noAgents).orientation]
    rw [Function.update_same]
    rfl

/-- One call of `updateSimulation` keeps the member `_id` of every agent. -/
theorem updateSimulation_ids (fn : MathFns K) (solver : ImplicitEngine K → Nat → K)
    (fuel : Nat) {L : BinRef → List Nat} {e e' : ImplicitEngine K} (h : EngineOK L e)
    (hf : e.noAgents < fuel) (hup : e.updateSimulation fn solver fuel = some e') :
    ∀ j, j < e.noAgents → (e'.agents j).id = (e.agents j).id := by
  obtain ⟨_, hag1, _, _, _⟩ := doStepAll_spec fn h
  obtain ⟨e'', L', hup', _, _, _, _, _, hconv, hact⟩ := updateSimulation_step fn solver fuel h hf
  rw [hup] at hup'
  have hee : e' = e'' := Option.some.inj hup'
  subst hee
  intro j hj
  have h1j : ((e.doStepAll fn).agents j).id = (e.agents j).id := by
    rw [hag1 j, if_pos hj]
    exact (doStep_frame fn.sqrt e.spatialDatabase (e.agents j) e.dt).2.2.2.2.2.2.2.2.2.1
  cases hr : (e.doStepAll fn).reachedGoals with
  | true => rw [hconv hr, h1j]
  | false =>
    obtain ⟨_, _, e2, _, hj2⟩ := hact hr
    cases hje : ((e.doStepAll fn).agents j).enabled with
    | false => rw [(hj2 j hj).1 hje, h1j]
    | true =>
      obtain ⟨m, m', hu⟩ := (hj2 j hj).2 hje
      unfold ImplicitAgent.update at hu
      simp only [] at hu
      cases ht : ((e.doStepAll fn).agents j).proximityToken with
      | none =>
        rw [ht] at hu
        exact Option.noConfusion hu
      | some t =>
        rw [ht] at hu
        have hu' := congrArg Prod.snd (Option.some.inj hu)
        simp only [] at hu'
        rw [← hu']
        exact h1j

/-- In every engine reached from `init`, the member `_id` of an agent is its
address in `_agents`. -/
theorem engineAfter_ids (fn : MathFns K) (solver : ImplicitEngine K → Nat → K) (fuel : Nat)
    (raw : ImplicitEngine K) (xRange yRange : K) (xCells yCells : Int)
    (ops : List (EngineOp K)) (hf : addAgentCalls ops < fuel) (e : ImplicitEngine K)
    (he : engineAfter fn solver fuel raw xRange yRange xCells yCells ops = some e) :
    ∀ j, j < e.noAgents → (e.agents j).id = (j : Int) := by
  refine engineAfter_induction fn solver fuel raw xRange yRange xCells yCells
    (fun e => ∀ j, j < e.noAgents → (e.agents j).id = (j : Int)) ops hf ?_ ?_ e he
  · intro j hj
    exact absurd hj (Nat.not_lt_zero j)
  · intro L e e' op _ hok hfe hP happ
    cases op with
    | setTimeStep dt =>
      have := Option.some.inj happ
      rw [← this]
      exact hP
    | setMaxSteps steps =>
      have := Option.some.inj happ
      rw [← this]
      exact hP
    | readParameters found =>
      have := Option.some.inj happ
      rw [← this]
      exact hP
    | addAgent c =>
      have := Option.some.inj happ
      rw [← this]
      obtain ⟨hold, hid, _, _, _, hno, _, _⟩ := addAgent_agents fn e c
      intro j hj
      rw [hno] at hj
      by_cases hjn : j = e.noAgents
      · rw [hjn]
        exact hid
      · rw [hold j hjn]
        exact hP j (by omega)
    | updateSimulation =>
      have happ' : e.updateSimulation fn solver fuel = some e' := happ
      obtain ⟨e'', _, hup, _, hno, _⟩ := updateSimulation_spec fn solver fuel hok hfe
      rw [happ'] at hup
      have hee : e' = e'' := Option.some.inj hup
      intro j hj
      rw [hee, hno] at hj
      rw [updateSimulation_ids fn solver fuel hok hfe happ' j hj]
      exact hP j hj

end reachInduction


/-! ## Packing and unpacking the velocities -/

section packUnpack

variable [LinearOrderedField K] [FloorRing K]

/-- C36: on any engine reached from `init` (fuel above the number of agents
added), after the first loop of `updateSimulation` and `initializeProblem`:
`activeAgents` is the number `N` of enabled agents; the enabled agents have
the active ids `0 .. N-1`, each its rank among the enabled agents (a
bijection, increasing with the member `_id`); for the agent with active id
`a`, `pos[a]`, `pos[a+N]` are its position, `vel[a]`, `vel[a+N]` its velocity,
`vGoal[a]`, `vGoal[a+N]` its preferred velocity and `radius[a]` its radius;
`vNew` is the zero vector of length `2N`.  And whatever vector `w` is then left
in `vNew`, after `finalizeProblem` the velocity of the enabled agent with
active id `a` is `(w[a], w[a+N])` and the velocity of a disabled agent is
unchanged. -/
theorem pack_and_unpack (fn : MathFns K) (solver : ImplicitEngine K → Nat → K)
    (fuel : Nat) (raw : ImplicitEngine K) (xRange yRange : K) (xCells yCells : Int)
    (ops : List (EngineOp K)) (hf : addAgentCalls ops < fuel) :
    ∃ e e2, engineAfter fn solver fuel raw xRange yRange xCells yCells ops = some e ∧
      (e.doStepAll fn).initializeProblem fuel = some e2 ∧
      e2.activeAgents = e2.rank e2.noAgents ∧
      e2.noVars = e2.activeAgents + e2.activeAgents ∧ e2.vNew = (fun _ => 0) ∧
      (∀ i, i < e2.noAgents → (e2.agents i).enabled = true →
        (e2.agents i).activeid = (e2.rank i : Int) ∧ e2.rank i < e2.activeAgents ∧
        e2.pos (e2.rank i) = (e2.agents i).position.x ∧
        e2.pos (e2.rank i + e2.activeAgents) = (e2.agents i).position.y ∧
        e2.vel (e2.rank i) = (e2.agents i).velocity.x ∧
        e2.vel (e2.rank i + e2.activeAgents) = (e2.agents i).velocity.y ∧
        e2.vGoal (e2.rank i) = (e2.agents i).vPref.x ∧
        e2.vGoal (e2.rank i + e2.activeAgents) = (e2.agents i).vPref.y ∧
        e2.radius (e2.rank i) = (e2.agents i).radius) ∧
      (∀ a, a < e2.activeAgents →
        ∃ i, i < e2.noAgents ∧ (e2.agents i).enabled = true ∧
          (e2.agents i).activeid = (a : Int) ∧
          ∀ i', i' < e2.noAgents → (e2.agents i').enabled = true →
            (e2.agents i').activeid = (a : Int) → i' = i) ∧
      (∀ i i', i < e2.noAgents → i' < e2.noAgents → (e2.agents i).enabled = true →
        (e2.agents i').enabled = true → (e2.agents i).id < (e2.agents i').id →
        (e2.agents i).activeid < (e2.agents i').activeid) ∧
      (∀ (w : Nat → K) (i : Nat), i < e2.noAgents →
        ((e2.agents i).enabled = true →
          ((({ e2 with vNew := w } : ImplicitEngine K).finalizeProblem).agents i).velocity =
            ⟨w (e2.rank i), w (e2.rank i + e2.activeAgents)⟩) ∧
        ((e2.agents i).enabled = false →
          ((({ e2 with vNew := w } : ImplicitEngine K).finalizeProblem).agents i).velocity =
            (e2.agents i).velocity)) := by
  obtain ⟨e, L, he, hok, hno, _⟩ := engineAfter_ok fn solver fuel raw xRange yRange xCells yCells
    ops hf
  have hids := engineAfter_ids fn solver fuel raw xRange yRange xCells yCells ops hf e he
  obtain ⟨⟨L1, h1⟩, hag1, _, _, hfr1⟩ := doStepAll_spec fn hok
  have hno1 : (e.doStepAll fn).noAgents = e.noAgents := by
    have hc := congrArg ImplicitEngine.noAgents hfr1
    exact hc
  obtain ⟨e2, hinit, hno2, hA, hen, hact, _⟩ := pack_after_doStep fn fuel hok
    (by rw [hno]; exact hf)
  obtain ⟨e2', hinit', _, hag2, _, hnv, hvn, hfr2⟩ := initializeProblem_spec fuel h1
    (by rw [h1.count, hno1, hno]; exact hf)
  rw [hinit] at hinit'
  have hee : e2' = e2 := (Option.some.inj hinit').symm
  subst hee
  have hA2 : e2'.activeAgents = (e.doStepAll fn).activeAgents := by
    have hc := congrArg ImplicitEngine.activeAgents hfr2
    exact hc
  have hrank : ∀ n, e2'.rank n = (e.doStepAll fn).rank n :=
    fun n => rank_congr _ _ n (fun j _ => hen j)
  obtain ⟨_, hvec⟩ := initializeProblem_vectors fuel (e.doStepAll fn) e2' hinit
    (le_of_eq (doStepAll_rank fn hok))
  have hsame : ∀ i, (e2'.agents i).position = ((e.doStepAll fn).agents i).position ∧
      (e2'.agents i).velocity = ((e.doStepAll fn).agents i).velocity ∧
      (e2'.agents i).vPref = ((e.doStepAll fn).agents i).vPref ∧
      (e2'.agents i).radius = ((e.doStepAll fn).agents i).radius ∧
      (e2'.agents i).id = ((e.doStepAll fn).agents i).id := by
    intro i
    rw [hag2 i]
    split_ifs <;> exact ⟨rfl, rfl, rfl, rfl, rfl⟩
  have hid2 : ∀ i, i < e2'.noAgents → (e2'.agents i).id = (i : Int) := by
    intro i hi
    rw [hno2] at hi
    rw [(hsame i).2.2.2.2, hag1 i, if_pos hi,
      (doStep_frame fn.sqrt e.spatialDatabase (e.agents i) e.dt).2.2.2.2.2.2.2.2.2.1]
    exact hids i hi
  refine ⟨e, e2', he, hinit, hA, ?_, hvn, ?_, ?_, ?_, ?_⟩
  · rw [hnv, hA2]
  · intro i hi hie
    have hie1 : ((e.doStepAll fn).agents i).enabled = true := by rw [← hen i]; exact hie
    have hv := hvec i (by rw [hno1, ← hno2]; exact hi) hie1
    rw [← hrank i, ← hA2] at hv
    obtain ⟨s1, s2, s3, s4, _⟩ := hsame i
    rw [s1, s2, s3, s4]
    exact ⟨hact i hi hie, by rw [hA]; exact rank_lt e2' hi hie, hv⟩
  · intro a ha
    rw [hA] at ha
    obtain ⟨i, hi, hie, hr⟩ := rank_surj e2' _ a ha
    refine ⟨i, hi, hie, by rw [hact i hi hie, hr], ?_⟩
    intro i' hi' hie' hid'
    rw [hact i' hi' hie'] at hid'
    have hr' : e2'.rank i' = e2'.rank i := by rw [hr]; exact_mod_cast hid'
    exact rank_inj e2' hie' hie hr'
  · intro i i' hi hi' hie hie' hlt
    rw [hid2 i hi, hid2 i' hi'] at hlt
    rw [hact i hi hie, hact i' hi' hie']
    have hlt' : i < i' := by exact_mod_cast hlt
    exact_mod_cast rank_lt e2' hlt' hie
  · intro w i hi
    obtain ⟨hag4, _⟩ := finalizeProblem_spec ({ e2' with vNew := w } : ImplicitEngine K)
    constructor
    · intro hie
      rw [hag4 i, if_pos ⟨hi, hie⟩]
      show (⟨w (e2'.agents i).activeid.toNat,
        w ((e2'.agents i).activeid + (e2'.activeAgents : Int)).toNat⟩ : Vector2D K) = _
      rw [hact i hi hie, Int.toNat_natCast, ← Int.natCast_add, Int.toNat_natCast]
    · intro hie
      rw [hag4 i, if_neg (fun hh => by
        have h' : (e2'.agents i).enabled = true := hh.2
        rw [hie] at h'
        exact Bool.noConfusion h')]

/-- C36, instance: the engine of the border scenario. -/
theorem pack_and_unpack_witness :
    addAgentCalls (borderOps : List (EngineOp ℝ)) < 3 ∧
    ∃ e e2, engineAfter ⟨Real.sqrt, Real.exp, fun a b => a ^ b⟩ (fun _ _ => 0) 3
        (rawEngine : ImplicitEngine ℝ) 100 100 2 2 borderOps = some e ∧
      (e.doStepAll ⟨Real.sqrt, Real.exp, fun a b => a ^ b⟩).initializeProblem 3 = some e2 ∧
      e2.activeAgents = e2.rank e2.noAgents ∧
      e2.noVars = e2.activeAgents + e2.activeAgents ∧ e2.vNew = (fun _ => 0) := by
  have hf : addAgentCalls (borderOps : List (EngineOp ℝ)) < 3 := by
    simp [addAgentCalls, borderOps]
  obtain ⟨e, e2, h1, h2, h3, h4, h5, _⟩ := pack_and_unpack
    ⟨Real.sqrt, Real.exp, fun a b => a ^ b⟩ (fun _ _ => 0) 3 (rawEngine : ImplicitEngine ℝ)
    100 100 2 2 borderOps hf
  exact ⟨hf, e, e2, h1, h2, h3, h4, h5⟩

end packUnpack
/-! ## The loop of `main` and the logs of the agents -/

section mainRun

variable [LinearOrderedField K] [FloorRing K]

/-- The logs of the agents, as an invariant of the loop of `main`: the two logs
of an agent have the same length, start with `p0 j` and `o0 j`, and have at
most `iteration + 1` entries. -/
theorem logs_after_call (fn : MathFns K) (solver : ImplicitEngine K → Nat → K)
    (fuel : Nat) (p0 o0 : Nat → Vector2D K) {L : BinRef → List Nat} {e : ImplicitEngine K}
    (h : EngineOK L e) (hf : e.noAgents < fuel)
    (hA : ∀ j, j < e.noAgents →
      (e.agents j).path.length = (e.agents j).orientations.length ∧
      (e.agents j).path.head? = some (p0 j) ∧
      (e.agents j).orientations.head? = some (o0 j) ∧
      ((e.agents j).path.length : Int) ≤ e.iteration + 1) :
    ∃ e' L', e.updateSimulation fn solver fuel = some e' ∧ EngineOK L' e' ∧
      e'.noAgents = e.noAgents ∧ e'.maxSteps = e.maxSteps ∧
      e.iteration ≤ e'.iteration ∧ e'.iteration ≤ e.iteration + 1 ∧
      (e'.reachedGoals = false → e'.iteration = e.iteration + 1) ∧
      ∀ j, j < e'.noAgents →
        (e'.agents j).path.length = (e'.agents j).orientations.length ∧
        (e'.agents j).path.head? = some (p0 j) ∧
        (e'.agents j).orientations.head? = some (o0 j) ∧
        ((e'.agents j).path.length : Int) ≤ e'.iteration + 1 := by
  obtain ⟨e', L', hup, hok, hno, _, hms, _, hconv, hact, hag⟩ :=
    updateSimulation_agents fn solver fuel h hf
  have hit : e.iteration ≤ e'.iteration ∧ e'.iteration ≤ e.iteration + 1 := by
    cases hr : e'.reachedGoals with
    | true => rw [(hconv hr).1]; omega
    | false => rw [(hact hr).1]; omega
  refine ⟨e', L', hup, hok, hno, hms, hit.1, hit.2, fun hr => (hact hr).1, ?_⟩
  intro j hj
  rw [hno] at hj
  obtain ⟨a1, a2, a3, a4⟩ := hA j hj
  obtain ⟨_, _, _, _, _, hdis, hen⟩ := hag j hj
  cases hje : (e'.agents j).enabled with
  | false =>
    obtain ⟨_, _, hp, ho⟩ := hdis hje
    rw [hp, ho]
    exact ⟨a1, a2, a3, by omega⟩
  | true =>
    obtain ⟨hr, _, _, hp, ho⟩ := hen hje
    rw [hp, ho, List.length_append, List.length_append, List.length_singleton,
      List.length_singleton, (hact hr).1]
    have hne : (e.agents j).path ≠ [] := by
      intro hnil
      rw [hnil] at a2
      exact Option.noConfusion a2
    have hne' : (e.agents j).orientations ≠ [] := by
      intro hnil
      rw [hnil] at a3
      exact Option.noConfusion a3
    refine ⟨by rw [a1], ?_, ?_, by push_cast; omega⟩
    · rw [List.head?_append_of_ne_nil _ hne]
      exact a2
    · rw [List.head?_append_of_ne_nil _ hne']
      exact a3

/-- The loop of `main` ends within `max (maxSteps - iteration, 1)` calls of
`updateSimulation`; the counter ends at most at `max (maxSteps, iteration + 1)`
and the invariant of the logs holds at the end. -/
theorem mainLoop_spec (fn : MathFns K) (solver : ImplicitEngine K → Nat → K)
    (fuel : Nat) (p0 o0 : Nat → Vector2D K) : ∀ (b : Nat) {L : BinRef → List Nat}
    {e : ImplicitEngine K}, EngineOK L e → e.noAgents < fuel →
    (∀ j, j < e.noAgents →
      (e.agents j).path.length = (e.agents j).orientations.length ∧
      (e.agents j).path.head? = some (p0 j) ∧
      (e.agents j).orientations.head? = some (o0 j) ∧
      ((e.agents j).path.length : Int) ≤ e.iteration + 1) →
    (e.maxSteps - e.iteration).toNat ≤ b →
    ∃ e', (∀ n, max b 1 ≤ n → ImplicitEngine.mainLoop fn solver fuel n e = some e') ∧
      e'.endSimulation = true ∧
      e'.noAgents = e.noAgents ∧ e'.maxSteps = e.maxSteps ∧
      e'.iteration ≤ max e.maxSteps (e.iteration + 1) ∧
      ∀ j, j < e'.noAgents →
        (e'.agents j).path.length = (e'.agents j).orientations.length ∧
        (e'.agents j).path.head? = some (p0 j) ∧
        (e'.agents j).orientations.head? = some (o0 j) ∧
        ((e'.agents j).path.length : Int) ≤ e'.iteration + 1 := by
  intro b
  induction b with
  | zero =>
    intro L e h hf hA hb
    obtain ⟨e1, L1, hup, hok1, hno1, hms1, hit1, hit2, hinc, hA1⟩ :=
      logs_after_call fn solver fuel p0 o0 h hf hA
    have hend : e1.endSimulation = true := by
      unfold ImplicitEngine.endSimulation
      cases hr : e1.reachedGoals with
      | true => rfl
      | false =>
        rw [Bool.false_or, decide_eq_true_eq, hinc hr, hms1]
        omega
    refine ⟨e1, ?_, hend, hno1, hms1, ?_, hA1⟩
    · intro n hn
      obtain ⟨m, rfl⟩ : ∃ m, n = m + 1 := ⟨n - 1, by omega⟩
      show (e.updateSimulation fn solver fuel).bind _ = some e1
      rw [hup, Option.some_bind, if_pos hend]
    · exact le_trans hit2 (le_max_right _ _)
  | succ b ih =>
    intro L e h hf hA hb
    obtain ⟨e1, L1, hup, hok1, hno1, hms1, hit1, hit2, hinc, hA1⟩ :=
      logs_after_call fn solver fuel p0 o0 h hf hA
    by_cases hend : e1.endSimulation = true
    · refine ⟨e1, ?_, hend, hno1, hms1, le_trans hit2 (le_max_right _ _), hA1⟩
      intro n hn
      obtain ⟨m, rfl⟩ : ∃ m, n = m + 1 := ⟨n - 1, by omega⟩
      show (e.updateSimulation fn solver fuel).bind _ = some e1
      rw [hup, Option.some_bind, if_pos hend]
    · have hr : e1.reachedGoals = false := by
        cases hb' : e1.reachedGoals with
        | false => rfl
        | true =>
          exfalso
          apply hend
          unfold ImplicitEngine.endSimulation
          rw [hb']
          rfl
      have hlt : e1.iteration < e1.maxSteps := by
        by_contra hge
        apply hend
        unfold ImplicitEngine.endSimulation
        rw [hr, Bool.false_or, decide_eq_true_eq]
        omega
      have hi1 := hinc hr
      have hb1 : (e1.maxSteps - e1.iteration).toNat ≤ b := by
        rw [hms1, hi1]
        omega
      have hbpos : 1 ≤ b := by
        rw [hms1, hi1] at hlt
        omega
      obtain ⟨e', hloop, hend', hno', hms', hit', hA'⟩ := ih hok1 (by rw [hno1]; exact hf) hA1 hb1
      refine ⟨e', ?_, hend', by rw [hno', hno1], by rw [hms', hms1], ?_, hA'⟩
      · intro n hn
        obtain ⟨m, rfl⟩ : ∃ m, n = m + 1 := ⟨n - 1, by omega⟩
        show (e.updateSimulation fn solver fuel).bind _ = some e'
        rw [hup, Option.some_bind, if_neg hend]
        apply hloop
        rw [max_eq_left hbpos]
        have : max (b + 1) 1 = b + 1 := max_eq_left (by omega)
        rw [this] at hn
        omega
      · rw [hms1, hi1] at hit'
        rw [hms1, hi1] at hlt
        refine le_trans hit' ?_
        rw [max_eq_left (by omega)]
        exact le_max_left _ _

/-- After calls none of which is `updateSimulation`, the counter is 0 and the
logs of every agent hold the initial position and orientation only. -/
theorem setup_logs (fn : MathFns K) (solver : ImplicitEngine K → Nat → K) (fuel : Nat)
    (raw : ImplicitEngine K) (xRange yRange : K) (xCells yCells : Int)
    (ops : List (EngineOp K)) (hsetup : ops.all (fun op => !op.isUpdate) = true)
    (hf : addAgentCalls ops < fuel) (e : ImplicitEngine K)
    (he : engineAfter fn solver fuel raw xRange yRange xCells yCells ops = some e) :
    e.iteration = 0 ∧ ∀ j, j < e.noAgents →
      (e.agents j).path = [(e.agents j).position] ∧
      (e.agents j).orientations = [(e.agents j).orientation] := by
  refine engineAfter_induction fn solver fuel raw xRange yRange xCells yCells
    (fun e => e.iteration = 0 ∧ ∀ j, j < e.noAgents →
      (e.agents j).path = [(e.agents j).position] ∧
      (e.agents j).orientations = [(e.agents j).orientation]) ops hf ?_ ?_ e he
  · exact ⟨rfl, fun j hj => absurd hj (Nat.not_lt_zero j)⟩
  · intro L e e' op hop hok hfe hP happ
    have hnot : op.isUpdate = false := by
      have := (List.all_eq_true.1 hsetup) op hop
      cases hb : op.isUpdate with
      | false => rfl
      | true => rw [hb] at this; exact Bool.noConfusion this
    cases op with
    | setTimeStep dt =>
      have := Option.some.inj happ
      rw [← this]
      exact hP
    | setMaxSteps steps =>
      have := Option.some.inj happ
      rw [← this]
      exact hP
    | readParameters found =>
      have := Option.some.inj happ
      rw [← this]
      exact hP
    | addAgent c =>
      have := Option.some.inj happ
      rw [← this]
      obtain ⟨hold, _, hpos, hpath, hor, hno, hit, _⟩ := addAgent_agents fn e c
      refine ⟨by rw [hit]; exact hP.1, ?_⟩
      intro j hj
      rw [hno] at hj
      by_cases hjn : j = e.noAgents
      · rw [hjn, hpath, hpos]
        exact ⟨rfl, hor⟩
      · rw [hold j hjn]
        exact hP.2 j (by omega)
    | updateSimulation => exact Bool.noConfusion hnot

/-- C33, amended: for every run driven as in `main` (the calls before the loop,
none of them `updateSimulation`, then `updateSimulation` repeated until
`endSimulation`), the loop ends within `max (maxSteps, 1)` calls, whatever
`maxSteps` is; at the end the logs `path` and `orientations` of every agent
have the same length, start with the initial position and orientation, and
have at most `iteration + 1 ≤ max (maxSteps, 1) + 1` entries, which is
`maxSteps + 1` when `maxSteps ≥ 1`.  And in every call of `updateSimulation` on
an engine reached from `init`, the two logs of an agent gain exactly one entry,
the new position and orientation, if the agent is enabled after `doStep`, and
none otherwise. -/
theorem main_run_logs (fn : MathFns K) (solver : ImplicitEngine K → Nat → K) (fuel : Nat)
    (raw : ImplicitEngine K) (xRange yRange : K) (xCells yCells : Int)
    (ops : List (EngineOp K)) (hsetup : ops.all (fun op => !op.isUpdate) = true)
    (hf : addAgentCalls ops < fuel) :
    (∃ e0 e, engineAfter fn solver fuel raw xRange yRange xCells yCells ops = some e0 ∧
      (∀ n, max e0.maxSteps.toNat 1 ≤ n →
        ImplicitEngine.mainLoop fn solver fuel n e0 = some e) ∧
      e.endSimulation = true ∧ e.noAgents = e0.noAgents ∧
      e.iteration ≤ max e0.maxSteps 1 ∧
      ∀ j, j < e0.noAgents →
        (e.agents j).path.length = (e.agents j).orientations.length ∧
        (e.agents j).path.head? = some (e0.agents j).position ∧
        (e.agents j).orientations.head? = some (e0.agents j).orientation ∧
        ((e.agents j).path.length : Int) ≤ e.iteration + 1 ∧
        ((e.agents j).path.length : Int) ≤ max e0.maxSteps 1 + 1 ∧
        (1 ≤ e0.maxSteps → ((e.agents j).path.length : Int) ≤ e0.maxSteps + 1)) ∧
    (∀ ops2 : List (EngineOp K), addAgentCalls ops2 < fuel →
      ∃ e e', engineAfter fn solver fuel raw xRange yRange xCells yCells ops2 = some e ∧
        e.updateSimulation fn solver fuel = some e' ∧
        ∀ j, j < e.noAgents →
          ((ImplicitAgent.doStep fn.sqrt e.spatialDatabase (e.agents j) e.dt).2.enabled = true →
            (e'.agents j).path = (e.agents j).path ++ [(e'.agents j).position] ∧
            (e'.agents j).orientations =
              (e.agents j).orientations ++ [(e'.agents j).orientation]) ∧
          ((ImplicitAgent.doStep fn.sqrt e.spatialDatabase (e.agents j) e.dt).2.enabled = false →
            (e'.agents j).path = (e.agents j).path ∧
            (e'.agents j).orientations = (e.agents j).orientations)) := by
  constructor
  · obtain ⟨e0, L, he, hok, hno, _⟩ := engineAfter_ok fn solver fuel raw xRange yRange xCells
      yCells ops hf
    obtain ⟨hit0, hlogs⟩ := setup_logs fn solver fuel raw xRange yRange xCells yCells ops hsetup
      hf e0 he
    have hA : ∀ j, j < e0.noAgents →
        (e0.agents j).path.length = (e0.agents j).orientations.length ∧
        (e0.agents j).path.head? = some ((fun j => (e0.agents j).position) j) ∧
        (e0.agents j).orientations.head? = some ((fun j => (e0.agents j).orientation) j) ∧
        ((e0.agents j).path.length : Int) ≤ e0.iteration + 1 := by
      intro j hj
      rw [(hlogs j hj).1, (hlogs j hj).2, hit0]
      exact ⟨rfl, rfl, rfl, by simp⟩
    obtain ⟨e, hloop, hend, hno', _, hit, hA'⟩ := mainLoop_spec fn solver fuel
      (fun j => (e0.agents j).position) (fun j => (e0.agents j).orientation)
      (e0.maxSteps - e0.iteration).toNat hok (by rw [hno]; exact hf) hA (le_refl _)
    rw [hit0] at hit hloop
    simp only [sub_zero, zero_add] at hit hloop
    refine ⟨e0, e, he, hloop, hend, hno', hit, ?_⟩
    intro j hj
    obtain ⟨b1, b2, b3, b4⟩ := hA' j (by rw [hno']; exact hj)
    refine ⟨b1, b2, b3, b4, by omega, ?_⟩
    intro h1
    rw [max_eq_left h1] at hit
    omega
  · intro ops2 hf2
    obtain ⟨e, L, he, hok, hno, _⟩ := engineAfter_ok fn solver fuel raw xRange yRange xCells
      yCells ops2 hf2
    obtain ⟨e', _, hup, _, _, _, _, _, _, _, hag⟩ :=
      updateSimulation_agents fn solver fuel hok (by rw [hno]; exact hf2)
    refine ⟨e, e', he, hup, ?_⟩
    intro j hj
    obtain ⟨hen, _, _, _, _, hdis, hact⟩ := hag j hj
    constructor
    · intro hje
      rw [← hen] at hje
      exact (hact hje).2.2.2
    · intro hje
      rw [← hen] at hje
      exact (hdis hje).2.2

/-- C33, instance of the amended statement: one agent of scenario 1 and 5
frames. -/
theorem main_run_logs_witness :
    (singleAgentSetup 5 : List (EngineOp ℝ)).all (fun op => !op.isUpdate) = true ∧
    addAgentCalls (singleAgentSetup 5 : List (EngineOp ℝ)) < 2 ∧
    ∃ e0 e, engineAfter ⟨Real.sqrt, Real.exp, fun a b => a ^ b⟩ (fun _ _ => 0) 2
        (rawEngine : ImplicitEngine ℝ) 10 10 10 10 (singleAgentSetup 5) = some e0 ∧
      (∀ n, max e0.maxSteps.toNat 1 ≤ n →
        ImplicitEngine.mainLoop ⟨Real.sqrt, Real.exp, fun a b => a ^ b⟩ (fun _ _ => 0) 2 n e0 =
          some e) ∧
      ∀ j, j < e0.noAgents →
        (e.agents j).path.length = (e.agents j).orientations.length ∧
        ((e.agents j).path.length : Int) ≤ max e0.maxSteps 1 + 1 := by
  have hs : (singleAgentSetup 5 : List (EngineOp ℝ)).all (fun op => !op.isUpdate) = true := rfl
  have hf : addAgentCalls (singleAgentSetup 5 : List (EngineOp ℝ)) < 2 := by
    simp [addAgentCalls, singleAgentSetup]
  obtain ⟨⟨e0, e, h1, h2, _, _, _, h3⟩, _⟩ := main_run_logs
    ⟨Real.sqrt, Real.exp, fun a b => a ^ b⟩ (fun _ _ => 0) 2 (rawEngine : ImplicitEngine ℝ)
    10 10 10 10 (singleAgentSetup 5) hs hf
  exact ⟨hs, hf, e0, e, h1, h2, fun j hj => ⟨(h3 j hj).1, (h3 j hj).2.2.2.2.1⟩⟩

/-- The run of `main` for one agent of scenario 1 (start `(-4, 0)`, goal
`(4, 0)`, goal radius 1), `dt = 1/5` and `maxSteps = 0`, for every solver: the
loop ends after one call with `iteration = 1`, and the path of the agent has 2
entries. -/
theorem zero_frames_run :
    ∀ solver : ImplicitEngine ℝ → Nat → ℝ, ∃ e0 e, engineAfter ⟨Real.sqrt, Real.exp, fun a b => a ^ b⟩ solver 2
        (rawEngine : ImplicitEngine ℝ) 10 10 10 10 (singleAgentSetup 0) = some e0 ∧
      e0.maxSteps = 0 ∧
      (∀ n, 1 ≤ n → ImplicitEngine.mainLoop ⟨Real.sqrt, Real.exp, fun a b => a ^ b⟩ solver 2 n
        e0 = some e) ∧
      e.iteration = 1 ∧ (e.agents 0).path.length = 2 ∧
      (e.agents 0).orientations.length = 2 ∧
      ¬ ((e.agents 0).path.length : Int) ≤ e0.maxSteps + 1 := by
  intro solver
  have hs : (singleAgentSetup 0 : List (EngineOp ℝ)).all (fun op => !op.isUpdate) = true := rfl
  have hf : addAgentCalls (singleAgentSetup 0 : List (EngineOp ℝ)) < 2 := by
    simp [addAgentCalls, singleAgentSetup]
  obtain ⟨e0, L, he, hok, hno, _⟩ := engineAfter_ok ⟨Real.sqrt, Real.exp, fun a b => a ^ b⟩
    solver 2 (rawEngine : ImplicitEngine ℝ) 10 10 10 10 (singleAgentSetup 0) hf
  have hno0 : e0.noAgents = 1 := by rw [hno]; simp [addAgentCalls, singleAgentSetup]
  obtain ⟨hit0, hlogs⟩ := setup_logs ⟨Real.sqrt, Real.exp, fun a b => a ^ b⟩ solver 2
    (rawEngine : ImplicitEngine ℝ) 10 10 10 10 (singleAgentSetup 0) hs hf e0 he
  have he' : e0 = { (ImplicitEngine.init (rawEngine : ImplicitEngine ℝ) 10 10 10 10).addAgent
      ⟨Real.sqrt, Real.exp, fun a b => a ^ b⟩ straightLineParameters with
      dt := 1 / 5, maxSteps := 0 } := by
    have : engineAfter ⟨Real.sqrt, Real.exp, fun a b => a ^ b⟩ solver 2
        (rawEngine : ImplicitEngine ℝ) 10 10 10 10 (singleAgentSetup 0) =
        some { (ImplicitEngine.init (rawEngine : ImplicitEngine ℝ) 10 10 10 10).addAgent
          ⟨Real.sqrt, Real.exp, fun a b => a ^ b⟩ straightLineParameters with
          dt := 1 / 5, maxSteps := 0 } := rfl
    rw [this] at he
    exact (Option.some.inj he).symm
  have hms : e0.maxSteps = 0 := by rw [he']
  have a0 : (e0.agents 0).goal = ⟨4, 0⟩ ∧ (e0.agents 0).position = ⟨-4, 0⟩ ∧
      (e0.agents 0).goalRadiusSq = 1 * 1 ∧ (e0.agents 0).enabled = true := by
    rw [he']
    exact ⟨rfl, rfl, rfl, rfl⟩
  have r0 : ¬ ((e0.agents 0).goal.sub (e0.agents 0).position).squaredNorm <
      (e0.agents 0).goalRadiusSq := by
    rw [a0.1, a0.2.1, a0.2.2.1]
    simp only [Vector2D.sub, Vector2D.squaredNorm]
    norm_num
  obtain ⟨e, _, hup, _, _, _, hms', _, _, hact, hag⟩ :=
    updateSimulation_agents ⟨Real.sqrt, Real.exp, fun a b => a ^ b⟩ solver 2 hok
      (by rw [hno0]; norm_num)
  obtain ⟨hen, _, _, _, _, _, hact0⟩ := hag 0 (by rw [hno0]; norm_num)
  have hen0 : (e.agents 0).enabled = true := by
    rw [hen, ((doStep_enabled_token _ _ _ _).2 r0).1]
    exact a0.2.2.2
  obtain ⟨hr, _, _, hp, ho⟩ := hact0 hen0
  have hit : e.iteration = 1 := by rw [(hact hr).1, hit0]; rfl
  have hend : e.endSimulation = true := by
    unfold ImplicitEngine.endSimulation
    rw [hr, Bool.false_or, decide_eq_true_eq, hit, hms', hms]
    norm_num
  have hlen : (e.agents 0).path.length = 2 := by
    rw [hp, (hlogs 0 (by rw [hno0]; norm_num)).1]
    rfl
  have hlen' : (e.agents 0).orientations.length = 2 := by
    rw [ho, (hlogs 0 (by rw [hno0]; norm_num)).2]
    rfl
  refine ⟨e0, e, he, hms, ?_, hit, hlen, hlen', ?_⟩
  · intro n hn
    obtain ⟨m, rfl⟩ : ∃ m, n = m + 1 := ⟨n - 1, by omega⟩
    show (e0.updateSimulation ⟨Real.sqrt, Real.exp, fun a b => a ^ b⟩ solver 2).bind _ = some e
    rw [hup, Option.some_bind, if_pos hend]
  · rw [hlen, hms]
    norm_num


/-- C33, counterexample: one agent of scenario 1 (start `(-4, 0)`, goal
`(4, 0)`, goal radius 1), `dt = 1/5` and `maxSteps = 0`, with the solver that
returns the zero velocity.  The loop of `main` is a `do ... while`, so
`updateSimulation` runs once before `endSimulation` is asked: it ends after
one call with `iteration = 1`, and the path of the agent has 2 entries, more
than `maxSteps + 1 = 1`. -/
theorem zero_frames_run_logs_two_entries :
    ∃ e0 e, engineAfter ⟨Real.sqrt, Real.exp, fun a b => a ^ b⟩ (fun _ _ => 0) 2
        (rawEngine : ImplicitEngine ℝ) 10 10 10 10 (singleAgentSetup 0) = some e0 ∧
      e0.maxSteps = 0 ∧
      (∀ n, 1 ≤ n → ImplicitEngine.mainLoop ⟨Real.sqrt, Real.exp, fun a b => a ^ b⟩
        (fun _ _ => 0) 2 n e0 = some e) ∧
      e.iteration = 1 ∧ (e.agents 0).path.length = 2 ∧
      (e.agents 0).orientations.length = 2 ∧
      ¬ ((e.agents 0).path.length : Int) ≤ e0.maxSteps + 1 :=
  zero_frames_run (fun _ _ => 0)

end mainRun


/-- A squared norm is not negative. -/
theorem squaredNorm_nonneg [LinearOrderedField K] (a : Vector2D K) : 0 ≤ a.squaredNorm :=
  add_nonneg (mul_self_nonneg _) (mul_self_nonneg _)

/-- Calls of `updateSimulation` add no agent. -/
theorem addAgentCalls_updates (n : Nat) :
    addAgentCalls (List.replicate n (EngineOp.updateSimulation : EngineOp K)) = 0 := by
  induction n with
  | zero => rfl
  | succ n ih => rw [List.replicate_succ]; exact ih

section absorption

variable [LinearOrderedField K] [FloorRing K]

/-- The calls `ops` followed by the calls `ops2`. -/
theorem engineAfter_append (fn : MathFns K) (solver : ImplicitEngine K → Nat → K) (fuel : Nat)
    (raw : ImplicitEngine K) (xRange yRange : K) (xCells yCells : Int)
    (ops ops2 : List (EngineOp K)) :
    engineAfter fn solver fuel raw xRange yRange xCells yCells (ops ++ ops2) =
      (engineAfter fn solver fuel raw xRange yRange xCells yCells ops).bind
        (fun e => ops2.foldlM (EngineOp.apply fn solver fuel) e) := by
  unfold engineAfter
  rw [List.foldlM_append]
  rfl


/-- One call of `updateSimulation` as a sequence of calls. -/
theorem foldlM_update (fn : MathFns K) (solver : ImplicitEngine K → Nat → K) (fuel : Nat)
    (e : ImplicitEngine K) :
    [EngineOp.updateSimulation].foldlM (EngineOp.apply fn solver fuel) e =
      e.updateSimulation fn solver fuel := by
  rw [List.foldlM_cons]
  show (e.updateSimulation fn solver fuel).bind (fun x => some x) = _
  cases e.updateSimulation fn solver fuel <;> rfl

/-- In one call of `updateSimulation`, for every solver: the agent is enabled
afterwards exactly when it was enabled and its squared distance to the goal is
not below `goalRadiusSq`. -/
theorem enabled_after_call (fn : MathFns K) (solver : ImplicitEngine K → Nat → K) (fuel : Nat)
    {L : BinRef → List Nat} {e : ImplicitEngine K} (hok : EngineOK L e)
    (hf : e.noAgents < fuel) (j : Nat) (hj : j < e.noAgents) :
    ∃ e' L', e.updateSimulation fn solver fuel = some e' ∧ EngineOK L' e' ∧
      e'.noAgents = e.noAgents ∧ e'.dt = e.dt ∧
      (e'.agents j).goal = (e.agents j).goal ∧
      (e'.agents j).goalRadiusSq = (e.agents j).goalRadiusSq ∧
      (e'.agents j).prefSpeed = (e.agents j).prefSpeed ∧
      ((e'.agents j).enabled = true ↔
        (e.agents j).enabled = true ∧ ¬ e.distSqToGoal j < (e.agents j).goalRadiusSq) := by
  obtain ⟨e', L', hup, hok', hno, hdt', _, _, _, _, hag⟩ :=
    updateSimulation_agents fn solver fuel hok hf
  obtain ⟨hen, hg, hR, hsp', _, _, _⟩ := hag j hj
  refine ⟨e', L', hup, hok', hno, hdt', hg, hR, hsp', ?_⟩
  rw [hen]
  by_cases hr : e.distSqToGoal j < (e.agents j).goalRadiusSq
  · rw [((doStep_enabled_token fn.sqrt e.spatialDatabase (e.agents j) e.dt).1 hr).1]
    exact ⟨fun h => Bool.noConfusion h, fun h => absurd hr h.2⟩
  · rw [((doStep_enabled_token fn.sqrt e.spatialDatabase (e.agents j) e.dt).2 hr).1]
    exact ⟨fun h => ⟨h, hr⟩, fun h => h.1⟩

end absorption

section absorptionReal

/-- One call of `updateSimulation` that leaves an agent enabled and sets its
velocity to its preferred velocity: the agent was enabled, was not within the
goal radius, and is now either on its goal or nearer to it by
`prefSpeed * dt`. -/
theorem preferred_velocity_call (fn : MathFns ℝ) (hfn : fn.sqrt = Real.sqrt)
    (solver : ImplicitEngine ℝ → Nat → ℝ) (fuel : Nat)
    {L : BinRef → List Nat} {e : ImplicitEngine ℝ} (hok : EngineOK L e)
    (hf : e.noAgents < fuel) (hdt : 0 < e.dt) (j : Nat) (hj : j < e.noAgents)
    (hsp : 0 < (e.agents j).prefSpeed) :
    ∃ e' L', e.updateSimulation fn solver fuel = some e' ∧ EngineOK L' e' ∧
      e'.noAgents = e.noAgents ∧ e'.dt = e.dt ∧
      (e'.agents j).goal = (e.agents j).goal ∧
      (e'.agents j).goalRadiusSq = (e.agents j).goalRadiusSq ∧
      (e'.agents j).prefSpeed = (e.agents j).prefSpeed ∧
      ((e'.agents j).enabled = true →
        (e'.agents j).velocity =
          (ImplicitAgent.doStep fn.sqrt e.spatialDatabase (e.agents j) e.dt).2.vPref →
        (e.agents j).enabled = true ∧ ¬ e.distSqToGoal j < (e.agents j).goalRadiusSq ∧
        (Real.sqrt (e'.distSqToGoal j) = 0 ∨
          ((e.agents j).prefSpeed * e.dt ≤ Real.sqrt (e.distSqToGoal j) ∧
            Real.sqrt (e'.distSqToGoal j) =
              Real.sqrt (e.distSqToGoal j) - (e.agents j).prefSpeed * e.dt))) := by
  obtain ⟨e', L', hup, hok', hno, hdt', _, _, _, _, hag⟩ :=
    updateSimulation_agents fn solver fuel hok hf
  obtain ⟨hen, hg, hR, hsp', _, _, hact⟩ := hag j hj
  refine ⟨e', L', hup, hok', hno, hdt', hg, hR, hsp', ?_⟩
  intro he1 hv
  have hd : (ImplicitAgent.doStep fn.sqrt e.spatialDatabase (e.agents j) e.dt).2.enabled = true := by
    rw [← hen]; exact he1
  have hnr : ¬ e.distSqToGoal j < (e.agents j).goalRadiusSq := by
    intro hr
    rw [((doStep_enabled_token fn.sqrt e.spatialDatabase (e.agents j) e.dt).1 hr).1] at hd
    exact Bool.noConfusion hd
  have hen0 : (e.agents j).enabled = true := by
    rw [((doStep_enabled_token fn.sqrt e.spatialDatabase (e.agents j) e.dt).2 hnr).1] at hd
    exact hd
  refine ⟨hen0, hnr, ?_⟩
  obtain ⟨_, _, hp, _, _⟩ := hact he1
  have hq : 0 ≤ e.distSqToGoal j := squaredNorm_nonneg _
  have hdist : e'.distSqToGoal j =
      ((e.agents j).goal.sub ((e.agents j).position.add
        ((e'.agents j).velocity.mulScalar e.dt))).squaredNorm := by
    unfold ImplicitEngine.distSqToGoal
    rw [hg, hp]
  by_cases h2 : (e.agents j).prefSpeed * e.dt * (e.agents j).prefSpeed * e.dt >
      ((e.agents j).goal.sub (e.agents j).position).squaredNorm
  · left
    rw [doStep_of_overshoot fn.sqrt e.spatialDatabase (e.agents j) e.dt hnr h2] at hv
    rw [hdist, hv]
    simp only [Vector2D.sub, Vector2D.add, Vector2D.mulScalar, Vector2D.divScalar,
      Vector2D.squaredNorm]
    rw [div_mul_cancel₀ _ (ne_of_gt hdt), div_mul_cancel₀ _ (ne_of_gt hdt)]
    have z1 : (e.agents j).goal.x -
        ((e.agents j).position.x + ((e.agents j).goal.x - (e.agents j).position.x)) = 0 := by ring
    have z2 : (e.agents j).goal.y -
        ((e.agents j).position.y + ((e.agents j).goal.y - (e.agents j).position.y)) = 0 := by ring
    rw [z1, z2]
    simp
  · right
    have hc : 0 < (e.agents j).prefSpeed * e.dt := mul_pos hsp hdt
    have hle : ((e.agents j).prefSpeed * e.dt) ^ 2 ≤ e.distSqToGoal j := by
      have := not_lt.1 h2
      calc ((e.agents j).prefSpeed * e.dt) ^ 2
          = (e.agents j).prefSpeed * e.dt * (e.agents j).prefSpeed * e.dt := by ring
        _ ≤ _ := this
    have hcd : (e.agents j).prefSpeed * e.dt ≤ Real.sqrt (e.distSqToGoal j) :=
      (Real.le_sqrt' hc).2 hle
    have hpos : 0 < Real.sqrt (e.distSqToGoal j) := lt_of_lt_of_le hc hcd
    have hmul : Real.sqrt (e.distSqToGoal j) * Real.sqrt (e.distSqToGoal j) =
        e.distSqToGoal j := Real.mul_self_sqrt hq
    refine ⟨hcd, ?_⟩
    rw [doStep_of_cruise fn.sqrt e.spatialDatabase (e.agents j) e.dt hnr h2, hfn,
      show ((e.agents j).goal.sub (e.agents j).position).squaredNorm = e.distSqToGoal j from rfl]
      at hv
    have hnew : e'.distSqToGoal j =
        (Real.sqrt (e.distSqToGoal j) - (e.agents j).prefSpeed * e.dt) ^ 2 := by
      rw [hdist, hv]
      have hq2 : e.distSqToGoal j =
          ((e.agents j).goal.x - (e.agents j).position.x) *
            ((e.agents j).goal.x - (e.agents j).position.x) +
          ((e.agents j).goal.y - (e.agents j).position.y) *
            ((e.agents j).goal.y - (e.agents j).position.y) := rfl
      simp only [Vector2D.sub, Vector2D.add, Vector2D.mulScalar, Vector2D.squaredNorm]
      generalize Real.sqrt (e.distSqToGoal j) = r at hpos hmul ⊢
      rw [hq2] at hmul
      have hr : r ≠ 0 := ne_of_gt hpos
      have key : ((e.agents j).goal.x - ((e.agents j).position.x +
            ((e.agents j).goal.x - (e.agents j).position.x) * ((e.agents j).prefSpeed / r) *
              e.dt)) *
          ((e.agents j).goal.x - ((e.agents j).position.x +
            ((e.agents j).goal.x - (e.agents j).position.x) * ((e.agents j).prefSpeed / r) *
              e.dt)) +
          ((e.agents j).goal.y - ((e.agents j).position.y +
            ((e.agents j).goal.y - (e.agents j).position.y) * ((e.agents j).prefSpeed / r) *
              e.dt)) *
          ((e.agents j).goal.y - ((e.agents j).position.y +
            ((e.agents j).goal.y - (e.agents j).position.y) * ((e.agents j).prefSpeed / r) *
              e.dt)) =
          (((e.agents j).goal.x - (e.agents j).position.x) *
            ((e.agents j).goal.x - (e.agents j).position.x) +
          ((e.agents j).goal.y - (e.agents j).position.y) *
            ((e.agents j).goal.y - (e.agents j).position.y)) *
            (1 - (e.agents j).prefSpeed * e.dt / r) ^ 2 := by
        field_simp
        ring
      rw [key, ← hmul]
      field_simp
      ring
    rw [hnew]
    exact Real.sqrt_sq (sub_nonneg.2 hcd)

/-- The velocity a call of `updateSimulation` sets for an agent that stays
enabled, when the solver returns the preferred velocities. -/
theorem preferred_solver_velocity [LinearOrderedField K] [FloorRing K] (fn : MathFns K)
    (solver : ImplicitEngine K → Nat → K) (hs : ∀ e2 i, solver e2 i = e2.vGoal i) (fuel : Nat)
    {L : BinRef → List Nat} {e e' : ImplicitEngine K} (hok : EngineOK L e)
    (hf : e.noAgents < fuel) (j : Nat) (hj : j < e.noAgents)
    (hup : e.updateSimulation fn solver fuel = some e')
    (hen : (e'.agents j).enabled = true) :
    (e'.agents j).velocity =
      (ImplicitAgent.doStep fn.sqrt e.spatialDatabase (e.agents j) e.dt).2.vPref := by
  obtain ⟨e1, _, hup1, _, _, _, _, _, _, _, hag⟩ := updateSimulation_agents fn solver fuel hok hf
  rw [hup] at hup1
  have h1 : e' = e1 := Option.some.inj hup1
  rw [← h1] at hag
  obtain ⟨_, _, _, _, _, _, hact⟩ := hag j hj
  obtain ⟨_, ⟨e2, _, hv, hvx, hvy⟩, _, _, _⟩ := hact hen
  rw [hs, hs, hvx, hvy] at hv
  rw [hv]

/-- The calls `ops` followed by `k + 1` calls of `updateSimulation`. -/
theorem engineAfter_updates_succ [LinearOrderedField K] [FloorRing K] (fn : MathFns K)
    (solver : ImplicitEngine K → Nat → K) (fuel : Nat)
    (raw : ImplicitEngine K) (xRange yRange : K) (xCells yCells : Int)
    (ops : List (EngineOp K)) (k : Nat) :
    engineAfter fn solver fuel raw xRange yRange xCells yCells
        (ops ++ List.replicate (k + 1) EngineOp.updateSimulation) =
      (engineAfter fn solver fuel raw xRange yRange xCells yCells
        (ops ++ List.replicate k EngineOp.updateSimulation)).bind
        (fun e => e.updateSimulation fn solver fuel) := by
  rw [List.replicate_succ', ← List.append_assoc, engineAfter_append]
  congr 1
  funext e
  exact foldlM_update fn solver fuel e

/-- The engine after the calls `ops` and `k` calls of `updateSimulation`: it
is reached, and agent `j` has kept `goalRadiusSq`, `prefSpeed` and `dt`. -/
theorem engineAfter_updates [LinearOrderedField K] [FloorRing K] (fn : MathFns K)
    (solver : ImplicitEngine K → Nat → K) (fuel : Nat)
    (raw : ImplicitEngine K) (xRange yRange : K) (xCells yCells : Int)
    (ops : List (EngineOp K)) (hf : addAgentCalls ops < fuel) (e : ImplicitEngine K)
    (he : engineAfter fn solver fuel raw xRange yRange xCells yCells ops = some e)
    (j : Nat) (hj : j < e.noAgents) :
    ∀ k : Nat, ∃ ek Lk, engineAfter fn solver fuel raw xRange yRange xCells yCells
        (ops ++ List.replicate k EngineOp.updateSimulation) = some ek ∧
      EngineOK Lk ek ∧ ek.noAgents = e.noAgents ∧ ek.dt = e.dt ∧
      (ek.agents j).goalRadiusSq = (e.agents j).goalRadiusSq ∧
      (ek.agents j).prefSpeed = (e.agents j).prefSpeed
  | 0 => by
    obtain ⟨e0, L, he0, hok, _, _⟩ := engineAfter_ok fn solver fuel raw xRange yRange xCells
      yCells ops hf
    rw [he] at he0
    rw [← Option.some.inj he0] at hok
    refine ⟨e, L, ?_, hok, rfl, rfl, rfl, rfl⟩
    rw [List.replicate_zero, List.append_nil]
    exact he
  | k + 1 => by
    obtain ⟨ek, Lk, hrun, hok, hno, hdt, hR, hsp⟩ :=
      engineAfter_updates fn solver fuel raw xRange yRange xCells yCells ops hf e he j hj k
    have hfe : e.noAgents < fuel := by
      obtain ⟨e0, _, he0, _, hn, _⟩ := engineAfter_ok fn solver fuel raw xRange yRange xCells
        yCells ops hf
      rw [he] at he0
      rw [← Option.some.inj he0] at hn
      rw [hn]
      exact hf
    obtain ⟨e', L', hup, hok', hno', hdt', _, hR', hsp', _⟩ :=
      enabled_after_call fn solver fuel hok (by rw [hno]; exact hfe) j (by rw [hno]; exact hj)
    refine ⟨e', L', ?_, hok', hno'.trans hno, hdt'.trans hdt, hR'.trans hR, hsp'.trans hsp⟩
    rw [engineAfter_updates_succ, hrun]
    exact hup

/-- After `k` of `n` calls of `updateSimulation` each of which brings an agent
that stays enabled nearer to its goal by `delta`, or onto it: an agent that is
still enabled is within `max (D - k delta, 0)` of its goal, where `D` is its
distance to the goal before the calls, and `goalRadiusSq` is at most
`max (D - (k - 1) delta, 0)²` if `k ≥ 1`. -/
theorem progress_invariant (fn : MathFns ℝ) (solver : ImplicitEngine ℝ → Nat → ℝ) (fuel : Nat)
    (raw : ImplicitEngine ℝ) (xRange yRange : ℝ) (xCells yCells : Int)
    (ops : List (EngineOp ℝ)) (hf : addAgentCalls ops < fuel) (e : ImplicitEngine ℝ)
    (he : engineAfter fn solver fuel raw xRange yRange xCells yCells ops = some e)
    (j : Nat) (hj : j < e.noAgents) (delta : ℝ) (hdelta : 0 < delta) (n : Nat)
    (hprog : ∀ k, k < n → ∀ ek ek1,
      engineAfter fn solver fuel raw xRange yRange xCells yCells
        (ops ++ List.replicate k EngineOp.updateSimulation) = some ek →
      engineAfter fn solver fuel raw xRange yRange xCells yCells
        (ops ++ List.replicate (k + 1) EngineOp.updateSimulation) = some ek1 →
      (ek1.agents j).enabled = true →
      Real.sqrt (ek1.distSqToGoal j) ≤ max (Real.sqrt (ek.distSqToGoal j) - delta) 0) :
    ∀ k, k ≤ n → ∀ ek, engineAfter fn solver fuel raw xRange yRange xCells yCells
        (ops ++ List.replicate k EngineOp.updateSimulation) = some ek →
      (ek.agents j).enabled = true →
      Real.sqrt (ek.distSqToGoal j) ≤ max (Real.sqrt (e.distSqToGoal j) - k * delta) 0 ∧
      (1 ≤ k → (e.agents j).goalRadiusSq ≤
        (max (Real.sqrt (e.distSqToGoal j) - ((k : ℝ) - 1) * delta) 0) ^ 2)
  | 0, _, ek, hrun, _ => by
    rw [List.replicate_zero, List.append_nil, he] at hrun
    rw [← Option.some.inj hrun]
    refine ⟨?_, fun h => absurd h (by decide)⟩
    simp
  | k + 1, hk, ek1, hrun1, hen1 => by
    obtain ⟨ek, Lk, hrun, hok, hno, _, hR, _⟩ :=
      engineAfter_updates fn solver fuel raw xRange yRange xCells yCells ops hf e he j hj k
    have hfe : e.noAgents < fuel := by
      obtain ⟨e0, _, he0, _, hn, _⟩ := engineAfter_ok fn solver fuel raw xRange yRange xCells
        yCells ops hf
      rw [he] at he0
      rw [← Option.some.inj he0] at hn
      rw [hn]
      exact hf
    obtain ⟨e', _, hup, _, _, _, _, _, _, hiff⟩ :=
      enabled_after_call fn solver fuel hok (by rw [hno]; exact hfe) j (by rw [hno]; exact hj)
    have hrun1' := hrun1
    rw [engineAfter_updates_succ, hrun, Option.some_bind, hup] at hrun1'
    have h1 : e' = ek1 := Option.some.inj hrun1'
    rw [h1] at hiff
    obtain ⟨henk, hnr⟩ := hiff.1 hen1
    rw [hR] at hnr
    obtain ⟨hle, _⟩ := progress_invariant fn solver fuel raw xRange yRange xCells yCells ops hf e
      he j hj delta hdelta n hprog k (Nat.le_of_succ_le hk) ek hrun henk
    have hstep := hprog k hk ek ek1 hrun hrun1 hen1
    have hqk : 0 ≤ ek.distSqToGoal j := squaredNorm_nonneg _
    have hd0 : 0 ≤ Real.sqrt (ek.distSqToGoal j) := Real.sqrt_nonneg _
    constructor
    · refine le_trans hstep (max_le ?_ (le_max_right _ _))
      rcases le_total 0 (Real.sqrt (e.distSqToGoal j) - k * delta) with h | h
      · rw [max_eq_left h] at hle
        refine le_trans ?_ (le_max_left _ _)
        push_cast
        linarith
      · rw [max_eq_right h] at hle
        refine le_trans ?_ (le_max_right _ _)
        linarith
    · intro _
      have hsq : ek.distSqToGoal j ≤
          (max (Real.sqrt (e.distSqToGoal j) - k * delta) 0) ^ 2 := by
        calc ek.distSqToGoal j = Real.sqrt (ek.distSqToGoal j) ^ 2 := (Real.sq_sqrt hqk).symm
          _ ≤ _ := pow_le_pow_left₀ hd0 hle 2
      have hcast : ((k + 1 : Nat) : ℝ) - 1 = (k : ℝ) := by push_cast; ring
      rw [hcast]
      exact le_trans (not_lt.1 hnr) hsq

/-- One more call of `updateSimulation` after the calls `ops`, for every
solver: the agent is enabled afterwards exactly when it was enabled and its
squared distance to the goal is not below `goalRadiusSq`. -/
theorem call_after_ops [LinearOrderedField K] [FloorRing K] (fn : MathFns K)
    (solver : ImplicitEngine K → Nat → K) (fuel : Nat)
    (raw : ImplicitEngine K) (xRange yRange : K) (xCells yCells : Int)
    (ops : List (EngineOp K)) (hf : addAgentCalls ops < fuel) (e : ImplicitEngine K)
    (he : engineAfter fn solver fuel raw xRange yRange xCells yCells ops = some e)
    (j : Nat) (hj : j < e.noAgents) :
    ∃ e', engineAfter fn solver fuel raw xRange yRange xCells yCells
        (ops ++ [EngineOp.updateSimulation]) = some e' ∧
      ((e'.agents j).enabled = true ↔
        (e.agents j).enabled = true ∧ ¬ e.distSqToGoal j < (e.agents j).goalRadiusSq) := by
  obtain ⟨e0, L, he0, hok, hn, _⟩ := engineAfter_ok fn solver fuel raw xRange yRange xCells
    yCells ops hf
  rw [he] at he0
  rw [← Option.some.inj he0] at hok hn
  obtain ⟨e', _, hup, _, _, _, _, _, _, hiff⟩ :=
    enabled_after_call fn solver fuel hok (by rw [hn]; exact hf) j hj
  refine ⟨e', ?_, hiff⟩
  rw [engineAfter_append, he, Option.some_bind, foldlM_update]
  exact hup

/-- The velocity each call of a run sets for an agent that stays enabled, when
the solver returns the preferred velocities. -/
theorem preferred_solver_run [LinearOrderedField K] [FloorRing K] (fn : MathFns K)
    (solver : ImplicitEngine K → Nat → K) (hs : ∀ e2 i, solver e2 i = e2.vGoal i) (fuel : Nat)
    (raw : ImplicitEngine K) (xRange yRange : K) (xCells yCells : Int)
    (ops : List (EngineOp K)) (hf : addAgentCalls ops < fuel) (e : ImplicitEngine K)
    (he : engineAfter fn solver fuel raw xRange yRange xCells yCells ops = some e)
    (j : Nat) (hj : j < e.noAgents) (k : Nat) (ek ek1 : ImplicitEngine K)
    (hrun : engineAfter fn solver fuel raw xRange yRange xCells yCells
      (ops ++ List.replicate k EngineOp.updateSimulation) = some ek)
    (hrun1 : engineAfter fn solver fuel raw xRange yRange xCells yCells
      (ops ++ List.replicate (k + 1) EngineOp.updateSimulation) = some ek1)
    (hen : (ek1.agents j).enabled = true) :
    (ek1.agents j).velocity =
      (ImplicitAgent.doStep fn.sqrt ek.spatialDatabase (ek.agents j) ek.dt).2.vPref := by
  obtain ⟨ek', Lk, hrun', hok, hno, _⟩ := engineAfter_updates fn solver fuel raw xRange yRange
    xCells yCells ops hf e he j hj k
  rw [hrun] at hrun'
  rw [← Option.some.inj hrun'] at hok hno
  have hfe : e.noAgents < fuel := by
    obtain ⟨e0, _, he0, _, hn, _⟩ := engineAfter_ok fn solver fuel raw xRange yRange xCells
      yCells ops hf
    rw [he] at he0
    rw [← Option.some.inj he0] at hn
    rw [hn]
    exact hf
  rw [engineAfter_updates_succ, hrun, Option.some_bind] at hrun1
  exact preferred_solver_velocity fn solver hs fuel hok (by rw [hno]; exact hfe) j
    (by rw [hno]; exact hj) hrun1 hen

/-- C32, amended: in every engine reached from `init`, for every solver, one
call of `updateSimulation` leaves an agent enabled exactly when it was enabled
and its squared distance to the goal was not below `goalRadiusSq`.  When
`goalRadiusSq > 0` and each of `n` calls brings the agent, if it stays
enabled, to a distance from its goal of at most `max (d - delta, 0)`, `d` being
the distance before the call and `delta > 0`, the agent is disabled after the
`n` calls if `n ≥ ceil (D / delta) + 1`, and also if `n ≥ 1` and
`max (D - (n - 1) delta, 0)² < goalRadiusSq`, where `D = |goal - position|`
before the calls.  A call that leaves the agent enabled and sets its velocity
to its preferred velocity makes this progress with `delta = prefSpeed * dt`
(for `dt > 0` and `prefSpeed > 0`). -/
theorem goal_absorption (solver : ImplicitEngine ℝ → Nat → ℝ) (fuel : Nat)
    (raw : ImplicitEngine ℝ) (xRange yRange : ℝ) (xCells yCells : Int)
    (ops : List (EngineOp ℝ)) (hf : addAgentCalls ops < fuel) (e : ImplicitEngine ℝ)
    (he : engineAfter ⟨Real.sqrt, Real.exp, fun a b => a ^ b⟩ solver fuel raw xRange yRange
      xCells yCells ops = some e) (j : Nat) (hj : j < e.noAgents) :
    (∃ e', engineAfter ⟨Real.sqrt, Real.exp, fun a b => a ^ b⟩ solver fuel raw xRange yRange
        xCells yCells (ops ++ [EngineOp.updateSimulation]) = some e' ∧
      ((e'.agents j).enabled = true ↔
        (e.agents j).enabled = true ∧ ¬ e.distSqToGoal j < (e.agents j).goalRadiusSq)) ∧
    (∀ (delta : ℝ) (n : Nat), 0 < delta → 0 < (e.agents j).goalRadiusSq →
      (∀ k, k < n → ∀ ek ek1,
        engineAfter ⟨Real.sqrt, Real.exp, fun a b => a ^ b⟩ solver fuel raw xRange yRange
          xCells yCells (ops ++ List.replicate k EngineOp.updateSimulation) = some ek →
        engineAfter ⟨Real.sqrt, Real.exp, fun a b => a ^ b⟩ solver fuel raw xRange yRange
          xCells yCells (ops ++ List.replicate (k + 1) EngineOp.updateSimulation) = some ek1 →
        (ek1.agents j).enabled = true →
        Real.sqrt (ek1.distSqToGoal j) ≤ max (Real.sqrt (ek.distSqToGoal j) - delta) 0) →
      (⌈Real.sqrt (e.distSqToGoal j) / delta⌉₊ + 1 ≤ n ∨
        (1 ≤ n ∧ (max (Real.sqrt (e.distSqToGoal j) - ((n : ℝ) - 1) * delta) 0) ^ 2 <
          (e.agents j).goalRadiusSq)) →
      ∃ e', engineAfter ⟨Real.sqrt, Real.exp, fun a b => a ^ b⟩ solver fuel raw xRange yRange
          xCells yCells (ops ++ List.replicate n EngineOp.updateSimulation) = some e' ∧
        (e'.agents j).enabled = false) ∧
    (0 < e.dt → 0 < (e.agents j).prefSpeed →
      ∀ k ek ek1,
        engineAfter ⟨Real.sqrt, Real.exp, fun a b => a ^ b⟩ solver fuel raw xRange yRange
          xCells yCells (ops ++ List.replicate k EngineOp.updateSimulation) = some ek →
        engineAfter ⟨Real.sqrt, Real.exp, fun a b => a ^ b⟩ solver fuel raw xRange yRange
          xCells yCells (ops ++ List.replicate (k + 1) EngineOp.updateSimulation) = some ek1 →
        (ek1.agents j).enabled = true →
        (ek1.agents j).velocity =
          (ImplicitAgent.doStep Real.sqrt ek.spatialDatabase (ek.agents j) ek.dt).2.vPref →
        Real.sqrt (ek1.distSqToGoal j) ≤
          max (Real.sqrt (ek.distSqToGoal j) - (e.agents j).prefSpeed * e.dt) 0) := by
  have hfe : e.noAgents < fuel := by
    obtain ⟨e0, _, he0, _, hn, _⟩ := engineAfter_ok ⟨Real.sqrt, Real.exp, fun a b => a ^ b⟩
      solver fuel raw xRange yRange xCells yCells ops hf
    rw [he] at he0
    rw [← Option.some.inj he0] at hn
    rw [hn]
    exact hf
  refine ⟨?_, ?_, ?_⟩
  · exact call_after_ops ⟨Real.sqrt, Real.exp, fun a b => a ^ b⟩ solver fuel raw xRange yRange
      xCells yCells ops hf e he j hj
  · intro delta n hdelta hR hprog hn
    obtain ⟨en, _, hrun, _⟩ := engineAfter_updates ⟨Real.sqrt, Real.exp, fun a b => a ^ b⟩
      solver fuel raw xRange yRange xCells yCells ops hf e he j hj n
    refine ⟨en, hrun, ?_⟩
    cases hen : (en.agents j).enabled with
    | false => rfl
    | true =>
      exfalso
      obtain ⟨_, hbound⟩ := progress_invariant ⟨Real.sqrt, Real.exp, fun a b => a ^ b⟩ solver
        fuel raw xRange yRange xCells yCells ops hf e he j hj delta hdelta n hprog n (le_refl n)
        en hrun hen
      rcases hn with hn | ⟨hn1, hlt⟩
      · have hn1 : 1 ≤ n := by omega
        have hb := hbound hn1
        have h1 : Real.sqrt (e.distSqToGoal j) / delta ≤
            (⌈Real.sqrt (e.distSqToGoal j) / delta⌉₊ : ℝ) := Nat.le_ceil _
        have h2 : ((⌈Real.sqrt (e.distSqToGoal j) / delta⌉₊ + 1 : Nat) : ℝ) ≤ (n : ℝ) :=
          Nat.cast_le.2 hn
        push_cast at h2
        have h3 : Real.sqrt (e.distSqToGoal j) ≤
            (⌈Real.sqrt (e.distSqToGoal j) / delta⌉₊ : ℝ) * delta := (div_le_iff₀ hdelta).1 h1
        have h4 : (⌈Real.sqrt (e.distSqToGoal j) / delta⌉₊ : ℝ) * delta ≤
            ((n : ℝ) - 1) * delta := mul_le_mul_of_nonneg_right (by linarith) hdelta.le
        rw [max_eq_right (by linarith)] at hb
        norm_num at hb
        linarith
      · exact absurd (hbound hn1) (not_le.2 hlt)
  · intro hdt hsp k ek ek1 hrun hrun1 hen hvel
    obtain ⟨ek', Lk, hrun', hok, hno, hdtk, _, hspk⟩ := engineAfter_updates
      ⟨Real.sqrt, Real.exp, fun a b => a ^ b⟩ solver fuel raw xRange yRange xCells yCells ops hf
      e he j hj k
    rw [hrun] at hrun'
    have hk : ek = ek' := Option.some.inj hrun'
    rw [← hk] at hok hno hdtk hspk
    obtain ⟨e', _, hup, _, _, _, _, _, _, hcall⟩ := preferred_velocity_call
      ⟨Real.sqrt, Real.exp, fun a b => a ^ b⟩ rfl solver fuel hok (by rw [hno]; exact hfe)
      (by rw [hdtk]; exact hdt) j (by rw [hno]; exact hj) (by rw [hspk]; exact hsp)
    rw [engineAfter_updates_succ, hrun, Option.some_bind, hup] at hrun1
    have h1 : e' = ek1 := Option.some.inj hrun1
    rw [h1] at hcall
    obtain ⟨_, _, hcase⟩ := hcall hen hvel
    rw [hspk, hdtk] at hcase
    rcases hcase with h0 | ⟨_, hmove⟩
    · rw [h0]
      exact le_max_right _ _
    · rw [hmove]
      exact le_max_left _ _

/-- C32, instance of the amended statement: the agent of scenario 1
(distance 8 to the goal, preferred speed 1, goal radius 1) with `dt = 1/5` and
the solver that returns the preferred velocities, for which every call makes
the progress `prefSpeed * dt`. -/
theorem goal_absorption_witness :
    addAgentCalls (singleAgentSetup 50 : List (EngineOp ℝ)) < 2 ∧
    ∃ e, engineAfter ⟨Real.sqrt, Real.exp, fun a b => a ^ b⟩ (fun e2 => e2.vGoal) 2
        (rawEngine : ImplicitEngine ℝ) 10 10 10 10 (singleAgentSetup 50) = some e ∧
      0 < e.noAgents ∧ 0 < e.dt ∧ 0 < (e.agents 0).prefSpeed ∧
      0 < (e.agents 0).goalRadiusSq ∧
      (∃ e', engineAfter ⟨Real.sqrt, Real.exp, fun a b => a ^ b⟩ (fun e2 => e2.vGoal) 2
          (rawEngine : ImplicitEngine ℝ) 10 10 10 10
          (singleAgentSetup 50 ++ [EngineOp.updateSimulation]) = some e' ∧
        ((e'.agents 0).enabled = true ↔
          (e.agents 0).enabled = true ∧ ¬ e.distSqToGoal 0 < (e.agents 0).goalRadiusSq)) ∧
      ∀ n : Nat,
        ⌈Real.sqrt (e.distSqToGoal 0) / ((e.agents 0).prefSpeed * e.dt)⌉₊ + 1 ≤ n →
        ∃ e', engineAfter ⟨Real.sqrt, Real.exp, fun a b => a ^ b⟩ (fun e2 => e2.vGoal) 2
            (rawEngine : ImplicitEngine ℝ) 10 10 10 10
            (singleAgentSetup 50 ++ List.replicate n EngineOp.updateSimulation) = some e' ∧
          (e'.agents 0).enabled = false := by
  have hf : addAgentCalls (singleAgentSetup 50 : List (EngineOp ℝ)) < 2 := by
    simp [addAgentCalls, singleAgentSetup]
  have he : engineAfter ⟨Real.sqrt, Real.exp, fun a b => a ^ b⟩ (fun e2 => e2.vGoal) 2
      (rawEngine : ImplicitEngine ℝ) 10 10 10 10 (singleAgentSetup 50) =
      some { (ImplicitEngine.init (rawEngine : ImplicitEngine ℝ) 10 10 10 10).addAgent
        ⟨Real.sqrt, Real.exp, fun a b => a ^ b⟩ straightLineParameters with
        dt := 1 / 5, maxSteps := 50 } := rfl
  have hdt : (0 : ℝ) < 1 / 5 := by norm_num
  have hsp : (0 : ℝ) < 1 := by norm_num
  have hR : (0 : ℝ) < 1 * 1 := by norm_num
  refine ⟨hf, _, he, Nat.zero_lt_one, hdt, hsp, hR,
    (goal_absorption (fun e2 => e2.vGoal) 2 (rawEngine : ImplicitEngine ℝ) 10 10 10 10
      (singleAgentSetup 50) hf _ he 0 Nat.zero_lt_one).1, ?_⟩
  intro n hn
  exact (goal_absorption (fun e2 => e2.vGoal) 2 (rawEngine : ImplicitEngine ℝ) 10 10 10 10
    (singleAgentSetup 50) hf _ he 0 Nat.zero_lt_one).2.1 _ n (mul_pos hsp hdt) hR
    (fun k _ ek ek1 h1 h2 h3 =>
      (goal_absorption (fun e2 => e2.vGoal) 2 (rawEngine : ImplicitEngine ℝ) 10 10 10 10
        (singleAgentSetup 50) hf _ he 0 Nat.zero_lt_one).2.2 hdt hsp k ek ek1 h1 h2 h3
        (preferred_solver_run ⟨Real.sqrt, Real.exp, fun a b => a ^ b⟩ (fun e2 => e2.vGoal)
          (fun _ _ => rfl) 2 (rawEngine : ImplicitEngine ℝ) 10 10 10 10 (singleAgentSetup 50) hf
          _ he 0 Nat.zero_lt_one k ek ek1 h1 h2 h3))
    (Or.inl hn)

/-- The claimed bound in the two scenarios of the counterexample of C32:
distance 8 with `prefSpeed * dt = 1/5` gives 40 calls, distance 1 with
`prefSpeed * dt = 1` gives 1 call. -/
theorem claimed_bounds :
    ⌈Real.sqrt (((4 : ℝ) - -4) * (4 - -4) + (0 - 0) * (0 - 0)) / (1 * (1 / 5))⌉₊ = 40 ∧
    ⌈Real.sqrt (((1 : ℝ) - 0) * (1 - 0) + (0 - 0) * (0 - 0)) / (1 * 1)⌉₊ = 1 := by
  constructor
  · have h : Real.sqrt (((4 : ℝ) - -4) * (4 - -4) + (0 - 0) * (0 - 0)) = 8 := by
      rw [show ((4 : ℝ) - -4) * (4 - -4) + (0 - 0) * (0 - 0) = 8 * 8 by norm_num]
      exact Real.sqrt_mul_self (by norm_num)
    rw [h, show (8 : ℝ) / (1 * (1 / 5)) = ((40 : Nat) : ℝ) by norm_num, Nat.ceil_natCast]
  · have h : Real.sqrt (((1 : ℝ) - 0) * (1 - 0) + (0 - 0) * (0 - 0)) = 1 := by
      rw [show ((1 : ℝ) - 0) * (1 - 0) + (0 - 0) * (0 - 0) = 1 * 1 by norm_num]
      exact Real.sqrt_mul_self (by norm_num)
    rw [h, show (1 : ℝ) / (1 * 1) = ((1 : Nat) : ℝ) by norm_num, Nat.ceil_natCast]

/-- One agent with start `(0, 0)`, goal `(1, 0)`, preferred speed 1 and goal
radius `1/2`, with `dt = 1`: for every solver the agent is still enabled after
one call of `updateSimulation`, because `doStep` tests the distance before the
agent moves. -/
theorem one_step_stays_enabled :
    ∀ solver : ImplicitEngine ℝ → Nat → ℝ,
      ∃ e0 e1, engineAfter ⟨Real.sqrt, Real.exp, fun a b => a ^ b⟩ solver 2
          (rawEngine : ImplicitEngine ℝ) 10 10 10 10
          [EngineOp.addAgent oneStepParameters, EngineOp.setTimeStep 1] = some e0 ∧
        e0.dt = 1 ∧ (e0.agents 0).prefSpeed = 1 ∧ (e0.agents 0).goalRadiusSq = 1 / 2 * (1 / 2) ∧
        e0.distSqToGoal 0 = (1 - 0) * (1 - 0) + (0 - 0) * (0 - 0) ∧
        engineAfter ⟨Real.sqrt, Real.exp, fun a b => a ^ b⟩ solver 2
          (rawEngine : ImplicitEngine ℝ) 10 10 10 10
          ([EngineOp.addAgent oneStepParameters, EngineOp.setTimeStep 1] ++
            List.replicate 1 EngineOp.updateSimulation) = some e1 ∧
        (e1.agents 0).enabled = true := by
  intro solver
  have hf : addAgentCalls ([EngineOp.addAgent oneStepParameters, EngineOp.setTimeStep 1] :
      List (EngineOp ℝ)) < 2 := by
    simp [addAgentCalls]
  have he : engineAfter ⟨Real.sqrt, Real.exp, fun a b => a ^ b⟩ solver 2
      (rawEngine : ImplicitEngine ℝ) 10 10 10 10
      [EngineOp.addAgent oneStepParameters, EngineOp.setTimeStep 1] =
      some { (ImplicitEngine.init (rawEngine : ImplicitEngine ℝ) 10 10 10 10).addAgent
        ⟨Real.sqrt, Real.exp, fun a b => a ^ b⟩ oneStepParameters with dt := 1 } := rfl
  obtain ⟨e1, hrun, hiff⟩ := call_after_ops ⟨Real.sqrt, Real.exp, fun a b => a ^ b⟩ solver 2
    (rawEngine : ImplicitEngine ℝ) 10 10 10 10 _ hf _ he 0 Nat.zero_lt_one
  refine ⟨_, e1, he, rfl, rfl, rfl, rfl, hrun, hiff.2 ⟨rfl, ?_⟩⟩
  show ¬ ((1 - 0) * (1 - 0) + (0 - 0) * (0 - 0) : ℝ) < 1 / 2 * (1 / 2)
  norm_num

/-- One agent with preferred speed 1, start `(-4, 0)`, goal `(4, 0)` and goal
radius 0, `dt = 1/5`: for every solver and every number `n` of calls of
`updateSimulation` the agent is still enabled afterwards. -/
theorem zero_goal_radius_stays_enabled :
    ∀ (solver : ImplicitEngine ℝ → Nat → ℝ) (n : Nat),
      ∃ e, engineAfter ⟨Real.sqrt, Real.exp, fun a b => a ^ b⟩ solver 2
          (rawEngine : ImplicitEngine ℝ) 10 10 10 10
          ([EngineOp.addAgent zeroRadiusParameters, EngineOp.setTimeStep (1 / 5)] ++
            List.replicate n EngineOp.updateSimulation) = some e ∧
        e.noAgents = 1 ∧ (e.agents 0).prefSpeed = 1 ∧ (e.agents 0).goalRadiusSq = 0 ∧
        (e.agents 0).enabled = true := by
  intro solver n
  have hcalls : addAgentCalls ([EngineOp.addAgent zeroRadiusParameters,
      EngineOp.setTimeStep (1 / 5)] ++
      List.replicate n (EngineOp.updateSimulation : EngineOp ℝ)) = 1 := by
    rw [addAgentCalls_append, addAgentCalls_updates]
    rfl
  have hf : addAgentCalls ([EngineOp.addAgent zeroRadiusParameters,
      EngineOp.setTimeStep (1 / 5)] ++
      List.replicate n (EngineOp.updateSimulation : EngineOp ℝ)) < 2 := by
    rw [hcalls]; exact Nat.lt_succ_self 1
  obtain ⟨e, L, he, hok, hno, _⟩ := engineAfter_ok ⟨Real.sqrt, Real.exp, fun a b => a ^ b⟩
    solver 2 (rawEngine : ImplicitEngine ℝ) 10 10 10 10 _ hf
  rw [hcalls] at hno
  have hP := engineAfter_induction ⟨Real.sqrt, Real.exp, fun a b => a ^ b⟩ solver 2
    (rawEngine : ImplicitEngine ℝ) 10 10 10 10
    (fun e => ∀ j, j < e.noAgents → (e.agents j).prefSpeed = 1 ∧
      (e.agents j).goalRadiusSq = 0 ∧ (e.agents j).enabled = true) _ hf
    (fun j hj => absurd hj (Nat.not_lt_zero j))
    (by
      intro L e e' op hop hok hfe hP happ
      simp only [List.mem_append, List.mem_cons, List.mem_singleton, List.not_mem_nil,
        or_false, List.mem_replicate] at hop
      rcases hop with (hop | hop) | ⟨_, hop⟩
      · subst hop
        have := Option.some.inj happ
        rw [← this]
        obtain ⟨hold, _, _, _, _, hno, _, _⟩ := addAgent_agents
          ⟨Real.sqrt, Real.exp, fun a b => a ^ b⟩ e zeroRadiusParameters
        intro j hj
        rw [hno] at hj
        by_cases hjn : j = e.noAgents
        · rw [hjn]
          refine ⟨?_, ?_, ?_⟩
          · show ((Function.update e.agents e.noAgents _) e.noAgents).prefSpeed = _
            rw [Function.update_same]
            rfl
          · show ((Function.update e.agents e.noAgents _) e.noAgents).goalRadiusSq = _
            rw [Function.update_same]
            show (0 : ℝ) * 0 = 0
            exact zero_mul 0
          · show ((Function.update e.agents e.noAgents _) e.noAgents).enabled = _
            rw [Function.update_same]
            rfl
        · rw [hold j hjn]
          exact hP j (by omega)
      · subst hop
        have := Option.some.inj happ
        rw [← this]
        exact hP
      · subst hop
        intro j hj
        have hup : e.updateSimulation ⟨Real.sqrt, Real.exp, fun a b => a ^ b⟩ solver 2 =
            some e' := happ
        obtain ⟨e0, _, hup0, _, hno0, _⟩ := updateSimulation_agents
          ⟨Real.sqrt, Real.exp, fun a b => a ^ b⟩ solver 2 hok hfe
        rw [hup] at hup0
        rw [← Option.some.inj hup0] at hno0
        rw [hno0] at hj
        obtain ⟨e1, _, hup1, _, _, _, _, hR, hsp, hiff⟩ := enabled_after_call
          ⟨Real.sqrt, Real.exp, fun a b => a ^ b⟩ solver 2 hok hfe j hj
        rw [hup] at hup1
        have h1 : e' = e1 := Option.some.inj hup1
        rw [← h1] at hR hsp hiff
        obtain ⟨p1, p2, p3⟩ := hP j hj
        refine ⟨hsp.trans p1, hR.trans p2, hiff.2 ⟨p3, ?_⟩⟩
        rw [p2]
        exact not_lt.2 (squaredNorm_nonneg _)) e he
  obtain ⟨q1, q2, q3⟩ := hP 0 (by rw [hno]; exact Nat.zero_lt_one)
  exact ⟨e, he, hno, q1, q2, q3⟩

/-- C32, counterexample, with the solver that returns the preferred
velocities.  First scenario: one agent with preferred speed 1, start
`(-4, 0)`, goal `(4, 0)` and goal radius 0, `dt = 1/5`, so that
`ceil (|goal - start| / (prefSpeed * dt)) = 40`; after 40 calls of
`updateSimulation` the agent is still enabled, because `doStep` disables on
`distSqToGoal < goalRadiusSq` and no squared distance is below 0.  Second
scenario: start `(0, 0)`, goal `(1, 0)`, preferred speed 1, goal radius `1/2`,
`dt = 1`, so that the bound is 1 call; after 1 call the agent is still
enabled, because `doStep` tests the distance before the agent moves. -/
theorem absorption_bound_fails :
    (∃ e0 e, engineAfter ⟨Real.sqrt, Real.exp, fun a b => a ^ b⟩ (fun e2 => e2.vGoal) 2
        (rawEngine : ImplicitEngine ℝ) 10 10 10 10
        [EngineOp.addAgent zeroRadiusParameters, EngineOp.setTimeStep (1 / 5)] = some e0 ∧
      0 < (e0.agents 0).prefSpeed ∧ (e0.agents 0).goalRadiusSq = 0 ∧
      ⌈Real.sqrt (e0.distSqToGoal 0) / ((e0.agents 0).prefSpeed * e0.dt)⌉₊ = 40 ∧
      engineAfter ⟨Real.sqrt, Real.exp, fun a b => a ^ b⟩ (fun e2 => e2.vGoal) 2
        (rawEngine : ImplicitEngine ℝ) 10 10 10 10
        ([EngineOp.addAgent zeroRadiusParameters, EngineOp.setTimeStep (1 / 5)] ++
          List.replicate 40 EngineOp.updateSimulation) = some e ∧
      (e.agents 0).enabled = true) ∧
    (∃ e0 e1, engineAfter ⟨Real.sqrt, Real.exp, fun a b => a ^ b⟩ (fun e2 => e2.vGoal) 2
        (rawEngine : ImplicitEngine ℝ) 10 10 10 10
        [EngineOp.addAgent oneStepParameters, EngineOp.setTimeStep 1] = some e0 ∧
      0 < (e0.agents 0).prefSpeed ∧ 0 < (e0.agents 0).goalRadiusSq ∧
      ⌈Real.sqrt (e0.distSqToGoal 0) / ((e0.agents 0).prefSpeed * e0.dt)⌉₊ = 1 ∧
      engineAfter ⟨Real.sqrt, Real.exp, fun a b => a ^ b⟩ (fun e2 => e2.vGoal) 2
        (rawEngine : ImplicitEngine ℝ) 10 10 10 10
        ([EngineOp.addAgent oneStepParameters, EngineOp.setTimeStep 1] ++
          List.replicate 1 EngineOp.updateSimulation) = some e1 ∧
      (e1.agents 0).enabled = true) := by
  constructor
  · obtain ⟨e, hrun, _, _, _, hen⟩ := zero_goal_radius_stays_enabled (fun e2 => e2.vGoal) 40
    have he : engineAfter ⟨Real.sqrt, Real.exp, fun a b => a ^ b⟩ (fun e2 => e2.vGoal) 2
        (rawEngine : ImplicitEngine ℝ) 10 10 10 10
        [EngineOp.addAgent zeroRadiusParameters, EngineOp.setTimeStep (1 / 5)] =
        some { (ImplicitEngine.init (rawEngine : ImplicitEngine ℝ) 10 10 10 10).addAgent
          ⟨Real.sqrt, Real.exp, fun a b => a ^ b⟩ zeroRadiusParameters with dt := 1 / 5 } := rfl
    refine ⟨_, e, he, ?_, ?_, claimed_bounds.1, hrun, hen⟩
    · show (0 : ℝ) < 1
      exact zero_lt_one
    · show (0 : ℝ) * 0 = 0
      exact zero_mul 0
  · obtain ⟨e0, e1, he, hdt, hsp, hR, hd, hrun, hen⟩ :=
      one_step_stays_enabled (fun e2 => e2.vGoal)
    refine ⟨e0, e1, he, ?_, ?_, ?_, hrun, hen⟩
    · rw [hsp]
      exact zero_lt_one
    · rw [hR]
      norm_num
    · rw [hd, hsp, hdt]
      exact claimed_bounds.2

end absorptionReal


/-! ## The parameter file reader -/

/-- The loop of `findKey` over entries none of which has the key. -/
theorem findKeyLoop_absent (key : List Char) :
    ∀ (args : List Parameter) (i : Nat), (∀ a ∈ args, a.key ≠ key) →
      Parser.findKeyLoop key args i = -1
  | [], _, _ => rfl
  | a :: rest, i, h => by
    unfold Parser.findKeyLoop
    rw [if_neg (h a (List.mem_cons_self _ _))]
    exact findKeyLoop_absent key rest (i + 1) (fun b hb => h b (List.mem_cons_of_mem _ hb))

/-- The loop of `findKey` stops at the first entry with the key. -/
theorem findKeyLoop_first (key : List Char) (a : Parameter) (post : List Parameter)
    (ha : a.key = key) :
    ∀ (pre : List Parameter) (i : Nat), (∀ b ∈ pre, b.key ≠ key) →
      Parser.findKeyLoop key (pre ++ a :: post) i = ((i + pre.length : Nat) : Int)
  | [], i, _ => by
    show Parser.findKeyLoop key (a :: post) i = _
    unfold Parser.findKeyLoop
    rw [if_pos ha]
    rfl
  | b :: pre, i, h => by
    show Parser.findKeyLoop key (b :: (pre ++ a :: post)) i = _
    unfold Parser.findKeyLoop
    rw [if_neg (h b (List.mem_cons_self _ _)),
      findKeyLoop_first key a post ha pre (i + 1) (fun c hc => h c (List.mem_cons_of_mem _ hc))]
    simp only [List.length_cons]
    congr 1
    omega

/-- The entry the lookups read: the first one with the key. -/
theorem findKey_first (pre post : List Parameter) (a : Parameter)
    (h : ∀ b ∈ pre, b.key ≠ a.key) :
    ¬ Parser.findKey ⟨pre ++ a :: post⟩ a.key < 0 ∧
    (pre ++ a :: post).getD (Parser.findKey ⟨pre ++ a :: post⟩ a.key).toNat ⟨[], []⟩ = a := by
  have hk : Parser.findKey ⟨pre ++ a :: post⟩ a.key = ((0 + pre.length : Nat) : Int) :=
    findKeyLoop_first a.key a post rfl pre 0 h
  rw [hk, Nat.zero_add]
  refine ⟨by omega, ?_⟩
  rw [Int.toNat_ofNat, List.getD_eq_getElem?_getD, List.getElem?_append_right (le_refl _),
    Nat.sub_self]
  simp

/-- An entry with the key exists: the entries split at the first such one. -/
theorem split_at_first_key (key : List Char) :
    ∀ (args : List Parameter), (∃ a ∈ args, a.key = key) →
      ∃ pre a post, args = pre ++ a :: post ∧ a.key = key ∧ ∀ b ∈ pre, b.key ≠ key
  | [], h => by
    obtain ⟨a, ha, _⟩ := h
    exact absurd ha (List.not_mem_nil a)
  | c :: rest, h => by
    by_cases hc : c.key = key
    · exact ⟨[], c, rest, rfl, hc, fun b hb => absurd hb (List.not_mem_nil b)⟩
    · have h2 : ∃ a ∈ rest, a.key = key := by
        obtain ⟨a, ha, hak⟩ := h
        rcases List.mem_cons.1 ha with h1 | h1
        · rw [h1] at hak
          exact absurd hak hc
        · exact ⟨a, h1, hak⟩
      obtain ⟨pre, a, post, h3, h4, h5⟩ := split_at_first_key key rest h2
      refine ⟨c :: pre, a, post, by rw [h3]; rfl, h4, ?_⟩
      intro b hb
      rcases List.mem_cons.1 hb with h1 | h1
      · rw [h1]; exact hc
      · exact h5 b h1

/-- The three lookups on a list whose first entry with the key is `a`. -/
theorem getters_first (atoi : List Char → Int) (atof : List Char → K)
    (pre post : List Parameter) (a : Parameter) (h : ∀ b ∈ pre, b.key ≠ a.key)
    (s : List Char) (n : Int) (x : K) :
    Parser.getStringValue ⟨pre ++ a :: post⟩ a.key s = (true, a.value) ∧
    Parser.getIntValue atoi ⟨pre ++ a :: post⟩ a.key n = (true, atoi a.value) ∧
    Parser.getDoubleValue atof ⟨pre ++ a :: post⟩ a.key x = (true, atof a.value) := by
  obtain ⟨h1, h2⟩ := findKey_first pre post a h
  refine ⟨?_, ?_, ?_⟩
  · unfold Parser.getStringValue
    simp only []
    rw [if_neg h1, h2]
  · unfold Parser.getIntValue
    simp only []
    rw [if_neg h1, h2]
  · unfold Parser.getDoubleValue
    simp only []
    rw [if_neg h1, h2]

/-- The three lookups of a key no entry has. -/
theorem getters_absent (atoi : List Char → Int) (atof : List Char → K)
    (p : Parser) (key : List Char) (h : ∀ a ∈ p.args, a.key ≠ key)
    (s : List Char) (n : Int) (x : K) :
    p.getStringValue key s = (false, s) ∧
    p.getIntValue atoi key n = (false, n) ∧
    p.getDoubleValue atof key x = (false, x) := by
  have hk : p.findKey key < 0 := by
    unfold Parser.findKey
    rw [findKeyLoop_absent key p.args 0 h]
    decide
  refine ⟨?_, ?_, ?_⟩
  · unfold Parser.getStringValue
    simp only []
    rw [if_pos hk]
  · unfold Parser.getIntValue
    simp only []
    rw [if_pos hk]
  · unfold Parser.getDoubleValue
    simp only []
    rw [if_pos hk]

/-- The first character that is not a delimiter, after delimiters only. -/
theorem find_first_not_of_append (c : Char) (r : List Char) (hc : Parser.isDelim c = false) :
    ∀ ws : List Char, (∀ d ∈ ws, Parser.isDelim d = true) →
      Parser.find_first_not_of (ws ++ c :: r) = some ws.length
  | [], _ => by
    show Parser.find_first_not_of (c :: r) = _
    unfold Parser.find_first_not_of
    rw [hc]
    rfl
  | d :: ws, h => by
    show Parser.find_first_not_of (d :: (ws ++ c :: r)) = _
    unfold Parser.find_first_not_of
    rw [h d (List.mem_cons_self _ _), if_pos rfl,
      find_first_not_of_append c r hc ws (fun x hx => h x (List.mem_cons_of_mem _ hx))]
    rfl

/-- No character that is not a delimiter in a string of delimiters. -/
theorem find_last_not_of_delims :
    ∀ ws : List Char, (∀ d ∈ ws, Parser.isDelim d = true) → Parser.find_last_not_of ws = none
  | [], _ => rfl
  | d :: ws, h => by
    unfold Parser.find_last_not_of
    rw [find_last_not_of_delims ws (fun x hx => h x (List.mem_cons_of_mem _ hx))]
    simp only []
    rw [h d (List.mem_cons_self _ _), if_pos rfl]

/-- The last character that is not a delimiter, before delimiters only. -/
theorem find_last_not_of_append (c : Char) (ws : List Char) (hc : Parser.isDelim c = false)
    (hws : ∀ d ∈ ws, Parser.isDelim d = true) :
    ∀ b : List Char, Parser.find_last_not_of (b ++ c :: ws) = some b.length
  | [] => by
    show Parser.find_last_not_of (c :: ws) = _
    unfold Parser.find_last_not_of
    rw [find_last_not_of_delims ws hws]
    simp only []
    rw [hc]
    rfl
  | d :: b => by
    show Parser.find_last_not_of (d :: (b ++ c :: ws)) = _
    unfold Parser.find_last_not_of
    rw [find_last_not_of_append c ws hc hws b]
    rfl

/-- What `trimspaces` leaves of a string with delimiters around a text that
starts and ends with other characters. -/
theorem trimspaces_spec (ws1 ws2 body : List Char)
    (h1 : ∀ d ∈ ws1, Parser.isDelim d = true) (h2 : ∀ d ∈ ws2, Parser.isDelim d = true)
    (hne : body ≠ [])
    (hhead : ∀ c, body.head? = some c → Parser.isDelim c = false)
    (hlast : ∀ c, body.getLast? = some c → Parser.isDelim c = false) :
    Parser.trimspaces (ws1 ++ body ++ ws2) = body := by
  obtain ⟨c0, r0, hb0⟩ : ∃ c0 r0, body = c0 :: r0 := by
    cases body with
    | nil => exact absurd rfl hne
    | cons c0 r0 => exact ⟨c0, r0, rfl⟩
  have hc0 : Parser.isDelim c0 = false := hhead c0 (by rw [hb0]; rfl)
  obtain ⟨b, c, hb⟩ : ∃ b c, body = b ++ [c] :=
    ⟨body.dropLast, body.getLast hne, (List.dropLast_append_getLast hne).symm⟩
  have hc : Parser.isDelim c = false := hlast c (by rw [hb]; simp)
  have hfirst : Parser.find_first_not_of (ws1 ++ body ++ ws2) = some ws1.length := by
    rw [List.append_assoc, hb0, List.cons_append]
    exact find_first_not_of_append c0 _ hc0 ws1 h1
  have hdrop : ((ws1 ++ body ++ ws2).drop ws1.length).take ((ws1 ++ body ++ ws2).length -
      ws1.length) = body ++ ws2 := by
    rw [List.append_assoc, List.drop_left, List.length_append, Nat.add_sub_cancel_left,
      List.take_length]
  have hlast2 : Parser.find_last_not_of (body ++ ws2) = some b.length := by
    rw [hb, List.append_assoc]
    exact find_last_not_of_append c ws2 hc h2 b
  unfold Parser.trimspaces
  rw [hfirst]
  simp only []
  rw [hdrop, hlast2]
  simp only []
  have hlen : b.length + 1 = body.length := by rw [hb]; simp
  rw [hlen, List.take_left]

/-- The call `find('=')` on a key without `=` followed by `=`. -/
theorem find_equals (v : List Char) :
    ∀ k : List Char, '=' ∉ k → Parser.find '=' (k ++ '=' :: v) = some k.length
  | [], _ => by
    show Parser.find '=' ('=' :: v) = _
    unfold Parser.find
    rw [if_pos rfl]
    rfl
  | d :: k, h => by
    show Parser.find '=' (d :: (k ++ '=' :: v)) = _
    unfold Parser.find
    have hd : d ≠ '=' := fun hd => h (by rw [hd]; exact List.mem_cons_self _ _)
    rw [if_neg hd, find_equals v k (fun hk => h (List.mem_cons_of_mem _ hk))]
    rfl

/-- The call `find(c)` on a string without `c`. -/
theorem find_absent (c : Char) : ∀ s : List Char, c ∉ s → Parser.find c s = none
  | [], _ => rfl
  | d :: s, h => by
    unfold Parser.find
    have hd : d ≠ c := fun hd => h (by rw [hd]; exact List.mem_cons_self _ _)
    rw [if_neg hd, find_absent c s (fun hk => h (List.mem_cons_of_mem _ hk))]
    rfl

/-- The characters `trimspaces` leaves are characters of its argument. -/
theorem mem_of_mem_trimspaces (s : List Char) (c : Char) (h : c ∈ Parser.trimspaces s) :
    c ∈ s := by
  unfold Parser.trimspaces at h
  cases hf : Parser.find_first_not_of s with
  | none =>
    rw [hf] at h
    exact absurd h (List.not_mem_nil c)
  | some pos =>
    rw [hf] at h
    simp only [] at h
    exact List.mem_of_mem_drop (List.mem_of_mem_take (List.mem_of_mem_take h))

/-- The loop body on a line `ws1 key = value ws2`. -/
theorem registerLine_pair (p : Parser) (ws1 ws2 k v : List Char)
    (h1 : ∀ d ∈ ws1, Parser.isDelim d = true) (h2 : ∀ d ∈ ws2, Parser.isDelim d = true)
    (hk : '=' ∉ k) (hhead : ∀ c, k.head? = some c → Parser.isDelim c = false)
    (hlast : ∀ c, v.getLast? = some c → Parser.isDelim c = false) :
    p.registerLine (ws1 ++ (k ++ '=' :: v) ++ ws2) = ⟨p.args ++ [⟨k, v⟩]⟩ := by
  have heq : Parser.isDelim '=' = false := by decide
  have hne : k ++ '=' :: v ≠ [] := by
    cases k <;> exact fun h => List.noConfusion h
  have htrim : Parser.trimspaces (ws1 ++ (k ++ '=' :: v) ++ ws2) = k ++ '=' :: v := by
    apply trimspaces_spec ws1 ws2 _ h1 h2 hne
    · intro c hc
      cases k with
      | nil =>
        have : c = '=' := (Option.some.inj hc).symm
        rw [this]; exact heq
      | cons d k => exact hhead c hc
    · intro c hc
      cases v with
      | nil =>
        rw [List.getLast?_append_cons, List.getLast?_singleton] at hc
        have : c = '=' := (Option.some.inj hc).symm
        rw [this]; exact heq
      | cons d v =>
        apply hlast c
        rw [← hc]
        rw [show k ++ '=' :: d :: v = (k ++ ['=']) ++ d :: v by simp]
        rw [List.getLast?_append_cons]
  unfold Parser.registerLine
  simp only []
  rw [htrim, if_pos hne, find_equals v k hk]
  simp only []
  rw [List.take_left, show k.length + 1 = (k ++ ['=']).length by simp,
    show k ++ '=' :: v = (k ++ ['=']) ++ v by simp, List.drop_left]

/-- The loop body on a line without `=`. -/
theorem registerLine_no_equals (p : Parser) (line : List Char) (h : '=' ∉ line) :
    p.registerLine line = p := by
  unfold Parser.registerLine
  simp only []
  by_cases hne : Parser.trimspaces line ≠ []
  · rw [if_pos hne, find_absent '=' _ (fun hc => h (mem_of_mem_trimspaces line _ hc))]
  · rw [if_neg hne]

/-- One step of the loop of `registerParameters` over the characters. -/
theorem readLines_cons (c : Char) (cs line : List Char) :
    Parser.readLines (c :: cs) line =
      if c = Char.ofNat 10 then line.reverse :: Parser.readLines cs []
      else Parser.readLines cs (c :: line) := rfl

/-- The loop of `registerParameters` reading one line that ends in a line feed. -/
theorem readLines_line (more : List Char) :
    ∀ (l acc : List Char), Char.ofNat 10 ∉ l →
      Parser.readLines (l ++ Char.ofNat 10 :: more) acc =
        (acc.reverse ++ l) :: Parser.readLines more []
  | [], acc, _ => by
    show Parser.readLines (Char.ofNat 10 :: more) acc = _
    rw [readLines_cons, if_pos rfl, List.append_nil]
  | c :: l, acc, h => by
    show Parser.readLines (c :: (l ++ Char.ofNat 10 :: more)) acc = _
    have hc : c ≠ Char.ofNat 10 := fun hc => h (by rw [hc]; exact List.mem_cons_self _ _)
    rw [readLines_cons, if_neg hc, readLines_line more l (c :: acc) (fun hk => h (List.mem_cons_of_mem _ hk))]
    simp

/-- The loop of `registerParameters` on the text after the last line feed. -/
theorem readLines_rest : ∀ (rest acc : List Char), Char.ofNat 10 ∉ rest →
    Parser.readLines rest acc = []
  | [], _, _ => rfl
  | c :: rest, acc, h => by
    have hc : c ≠ Char.ofNat 10 := fun hc => h (by rw [hc]; exact List.mem_cons_self _ _)
    rw [readLines_cons, if_neg hc]
    exact readLines_rest rest (c :: acc) (fun hk => h (List.mem_cons_of_mem _ hk))

/-- The lines of a file: each line that ends in a line feed, and not what
follows the last line feed. -/
theorem readLines_spec (rest : List Char) (hrest : Char.ofNat 10 ∉ rest) :
    ∀ (lines : List (List Char)), (∀ l ∈ lines, Char.ofNat 10 ∉ l) →
      Parser.readLines (lines.flatMap (fun l => l ++ [Char.ofNat 10]) ++ rest) [] = lines
  | [], _ => readLines_rest rest [] hrest
  | l :: lines, h => by
    rw [List.flatMap_cons, List.append_assoc, List.append_assoc, List.singleton_append,
      readLines_line _ l [] (h l (List.mem_cons_self _ _)),
      readLines_spec rest hrest lines (fun x hx => h x (List.mem_cons_of_mem _ hx))]
    rfl

/-- The lookups of `readParameters` on a parser, and on what they find in it. -/
theorem readParametersFrom_eq (atoi : List Char → Int) (atof : List Char → K)
    (e : ImplicitEngine K) (parser : Parser) :
    e.readParametersFrom atoi atof parser = e.readParameters (parser.parsed atoi atof) := by
  have hd : ∀ (key : List Char) (x : K),
      (parser.getDoubleValue atof key x).2 =
        (if parser.findKey key < 0 then none
          else some (atof (parser.args.getD (parser.findKey key).toNat ⟨[], []⟩).value)).getD x := by
    intro key x
    unfold Parser.getDoubleValue
    simp only []
    by_cases h : parser.findKey key < 0
    · rw [if_pos h, if_pos h]; rfl
    · rw [if_neg h, if_neg h]; rfl
  have hi : ∀ (key : List Char) (n : Int),
      (parser.getIntValue atoi key n).2 =
        (if parser.findKey key < 0 then none
          else some (atoi (parser.args.getD (parser.findKey key).toNat ⟨[], []⟩).value)).getD n := by
    intro key n
    unfold Parser.getIntValue
    simp only []
    by_cases h : parser.findKey key < 0
    · rw [if_pos h, if_pos h]; rfl
    · rw [if_neg h, if_neg h]; rfl
  unfold ImplicitEngine.readParametersFrom ImplicitEngine.readParameters Parser.parsed
  simp only [hd, hi]

/-- C34, amended: a lookup returns the value of the FIRST entry with the key,
whatever follows it in the list (`getIntValue` and `getDoubleValue` pass it
through `atoi` and `atof`).  `registerParameters` trims each line as a whole:
for a line made of delimiters, a text `key=value` and delimiters, where `key`
has no `=`, does not start with a delimiter and `value` does not end with one,
the entry added is exactly `(key, value)`, so blanks between the key and `=`
stay in the key and blanks after `=` stay in the value; a line without `=`
adds nothing; and the lines read are those that end in a line feed, the text
after the last line feed is not read. -/
theorem first_entry_wins (atoi : List Char → Int) (atof : List Char → K) :
    (∀ (pre post : List Parameter) (a : Parameter) (s : List Char) (n : Int) (x : K),
      (∀ b ∈ pre, b.key ≠ a.key) →
      Parser.getStringValue ⟨pre ++ a :: post⟩ a.key s = (true, a.value) ∧
      Parser.getIntValue atoi ⟨pre ++ a :: post⟩ a.key n = (true, atoi a.value) ∧
      Parser.getDoubleValue atof ⟨pre ++ a :: post⟩ a.key x = (true, atof a.value)) ∧
    (∀ (p : Parser) (ws1 ws2 k v : List Char),
      (∀ d ∈ ws1, Parser.isDelim d = true) → (∀ d ∈ ws2, Parser.isDelim d = true) →
      '=' ∉ k → (∀ c, k.head? = some c → Parser.isDelim c = false) →
      (∀ c, v.getLast? = some c → Parser.isDelim c = false) →
      p.registerLine (ws1 ++ (k ++ '=' :: v) ++ ws2) = ⟨p.args ++ [⟨k, v⟩]⟩) ∧
    (∀ (p : Parser) (line : List Char), '=' ∉ line → p.registerLine line = p) ∧
    (∀ (p : Parser) (lines : List (List Char)) (rest : List Char),
      (∀ l ∈ lines, Char.ofNat 10 ∉ l) → Char.ofNat 10 ∉ rest →
      p.registerParameters (some (lines.flatMap (fun l => l ++ [Char.ofNat 10]) ++ rest)) =
        (true, lines.foldl Parser.registerLine p)) := by
  refine ⟨?_, ?_, ?_, ?_⟩
  · intro pre post a s n x h
    exact getters_first atoi atof pre post a h s n x
  · intro p ws1 ws2 k v h1 h2 hk hh hl
    exact registerLine_pair p ws1 ws2 k v h1 h2 hk hh hl
  · intro p line h
    exact registerLine_no_equals p line h
  · intro p lines rest hl hr
    show (true, (Parser.readLines _ []).foldl Parser.registerLine p) = _
    rw [readLines_spec rest hr lines hl]

/-- C34, instance of the amended statement: the entries `k=1`, `k=2`; the line
`<blank><tab>k =1<carriage return>`; the line `abc`; and a file of the two
lines `k=1`, `k =2` followed by `p=3` without a line feed. -/
theorem first_entry_wins_witness :
    (Parser.getStringValue ⟨[⟨"k".toList, "1".toList⟩, ⟨"k".toList, "2".toList⟩]⟩ "k".toList [] =
      (true, "1".toList)) ∧
    (Parser.registerLine ⟨[]⟩ (" \tk =1\r").toList = ⟨[⟨"k ".toList, "1".toList⟩]⟩) ∧
    (Parser.registerLine ⟨[]⟩ "abc".toList = ⟨[]⟩) ∧
    (Parser.registerParameters ⟨[]⟩ (some "k=1\nk =2\np=3".toList) =
      (true, ["k=1".toList, "k =2".toList].foldl Parser.registerLine ⟨[]⟩)) :=
  ⟨((first_entry_wins (fun _ => 0) (fun _ => (0 : ℚ))).1 [] [⟨"k".toList, "2".toList⟩]
      ⟨"k".toList, "1".toList⟩ [] 0 0 (by decide)).1,
    (first_entry_wins (fun _ => 0) (fun _ => (0 : ℚ))).2.1 ⟨[]⟩ " \t".toList "\r".toList
      "k ".toList "1".toList (by decide) (by decide) (by decide) (by decide) (by decide),
    (first_entry_wins (fun _ => 0) (fun _ => (0 : ℚ))).2.2.1 ⟨[]⟩ "abc".toList (by decide),
    (first_entry_wins (fun _ => 0) (fun _ => (0 : ℚ))).2.2.2 ⟨[]⟩ ["k=1".toList, "k =2".toList]
      "p=3".toList (by decide) (by decide)⟩

/-- C34, counterexample: the file of the two lines `k=1` and `k=2` registers
both entries, and the lookups of `k` read the first one: `getStringValue` gives
`1`, not the last value `2`, `getIntValue` gives `atoi` of `1` and
`getDoubleValue` gives `atof` of `1`.  And the file of the one line
`<blank>k<blank>=<blank>2<blank>` registers the key `k<blank>` with the value
`<blank>2`, not the key `k` with the value `2`: a lookup of `k` then returns
false. -/
theorem duplicate_key_reads_first :
    Parser.registerParameters ⟨[]⟩ (some "k=1\nk=2\n".toList) =
      (true, ⟨[⟨"k".toList, "1".toList⟩, ⟨"k".toList, "2".toList⟩]⟩) ∧
    Parser.getStringValue ⟨[⟨"k".toList, "1".toList⟩, ⟨"k".toList, "2".toList⟩]⟩ "k".toList [] =
      (true, "1".toList) ∧
    "1".toList ≠ "2".toList ∧
    (∀ atoi : List Char → Int,
      Parser.getIntValue atoi ⟨[⟨"k".toList, "1".toList⟩, ⟨"k".toList, "2".toList⟩]⟩ "k".toList 0 =
        (true, atoi "1".toList)) ∧
    (∀ atof : List Char → ℚ,
      Parser.getDoubleValue atof ⟨[⟨"k".toList, "1".toList⟩, ⟨"k".toList, "2".toList⟩]⟩
        "k".toList 0 = (true, atof "1".toList)) ∧
    Parser.registerParameters ⟨[]⟩ (some " k = 2 \n".toList) =
      (true, ⟨[⟨"k ".toList, " 2".toList⟩]⟩) ∧
    (⟨[⟨"k ".toList, " 2".toList⟩]⟩ : Parser) ≠ ⟨[⟨"k".toList, "2".toList⟩]⟩ ∧
    Parser.getStringValue ⟨[⟨"k ".toList, " 2".toList⟩]⟩ "k".toList [] = (false, []) := by
  refine ⟨by decide, by decide, by decide, fun atoi => rfl, fun atof => rfl, by decide,
    by decide, by decide⟩

section parameters

variable [LinearOrderedField K] [FloorRing K]

/-- C35, amended: `getIntValue` and `getDoubleValue` reject no value.  For a key
that an entry of the list has, they return true and overwrite the output with
`atoi` / `atof` of the value of the first such entry, whatever that text is;
for a key no entry has they return false and leave the output unchanged.  So
`readParameters` on an empty parser changes nothing, and after `init` keeps
the defaults `k = 1.5`, `p = 2`, `t0 = 3`, `ksi = 2`, `eps = 0.2`,
`eta = 0.01`, `neighborDist = 10`, `newtonIter = 100`, `window = 5`,
`eps_x = 1e-5`; a file that cannot be opened leaves the parser as it is. -/
theorem lookups_reject_nothing (atoi : List Char → Int) (atof : List Char → K) :
    (∀ (p : Parser) (key : List Char) (n : Int) (x : K), (∃ a ∈ p.args, a.key = key) →
      ∃ a ∈ p.args, a.key = key ∧
        p.getIntValue atoi key n = (true, atoi a.value) ∧
        p.getDoubleValue atof key x = (true, atof a.value)) ∧
    (∀ (p : Parser) (key : List Char) (n : Int) (x : K), (∀ a ∈ p.args, a.key ≠ key) →
      p.getIntValue atoi key n = (false, n) ∧ p.getDoubleValue atof key x = (false, x)) ∧
    (∀ e : ImplicitEngine K, e.readParametersFrom atoi atof ⟨[]⟩ = e) ∧
    (∀ (e : ImplicitEngine K) (parser : Parser),
      e.readParametersFrom atoi atof parser = e.readParameters (parser.parsed atoi atof)) ∧
    (∀ (raw : ImplicitEngine K) (xRange yRange : K) (xCells yCells : Int),
      ((ImplicitEngine.init raw xRange yRange xCells yCells).readParametersFrom atoi atof ⟨[]⟩).k
        = 3 / 2 ∧
      ((ImplicitEngine.init raw xRange yRange xCells yCells).readParametersFrom atoi atof ⟨[]⟩).p
        = 2 ∧
      ((ImplicitEngine.init raw xRange yRange xCells yCells).readParametersFrom atoi atof ⟨[]⟩).t0
        = 3 ∧
      ((ImplicitEngine.init raw xRange yRange xCells yCells).readParametersFrom atoi atof ⟨[]⟩).ksi
        = 2 ∧
      ((ImplicitEngine.init raw xRange yRange xCells yCells).readParametersFrom atoi atof ⟨[]⟩).eps
        = 1 / 5 ∧
      ((ImplicitEngine.init raw xRange yRange xCells yCells).readParametersFrom atoi atof ⟨[]⟩).eta
        = 1 / 100 ∧
      ((ImplicitEngine.init raw xRange yRange xCells yCells).readParametersFrom atoi atof
        ⟨[]⟩).neighborDist = 10 ∧
      ((ImplicitEngine.init raw xRange yRange xCells yCells).readParametersFrom atoi atof
        ⟨[]⟩).newtonIter = 100 ∧
      ((ImplicitEngine.init raw xRange yRange xCells yCells).readParametersFrom atoi atof
        ⟨[]⟩).window = 5 ∧
      ((ImplicitEngine.init raw xRange yRange xCells yCells).readParametersFrom atoi atof
        ⟨[]⟩).eps_x = 1 / 100000) ∧
    (∀ p : Parser, p.registerParameters none = (false, p)) := by
  have hempty : ∀ e : ImplicitEngine K, e.readParametersFrom atoi atof ⟨[]⟩ = e := fun e => rfl
  refine ⟨?_, ?_, hempty, readParametersFrom_eq atoi atof, ?_, fun p => rfl⟩
  · intro p key n x h
    obtain ⟨pre, a, post, h1, h2, h3⟩ := split_at_first_key key p.args h
    have hp : p = ⟨pre ++ a :: post⟩ := by
      cases p
      simp only [Parser.mk.injEq]
      exact h1
    refine ⟨a, by rw [h1]; exact List.mem_append_right _ (List.mem_cons_self _ _), h2, ?_⟩
    rw [hp, ← h2]
    have := getters_first atoi atof pre post a (by rw [h2]; exact h3) [] n x
    exact ⟨this.2.1, this.2.2⟩
  · intro p key n x h
    have := getters_absent atoi atof p key h [] n x
    exact ⟨this.2.1, this.2.2⟩
  · intro raw xRange yRange xCells yCells
    rw [hempty]
    exact ⟨rfl, rfl, rfl, rfl, rfl, rfl, rfl, rfl, rfl, rfl⟩

end parameters

/-- C35, instance of the amended statement: the entries `newtonIter=abc` and
`k=1.5`, looked up for `newtonIter`, `k` and the absent key `p`. -/
theorem lookups_reject_nothing_witness :
    (∃ a ∈ [(⟨"newtonIter".toList, "abc".toList⟩ : Parameter), ⟨"k".toList, "1.5".toList⟩],
      a.key = "newtonIter".toList ∧
      Parser.getIntValue (fun _ => 0)
        ⟨[⟨"newtonIter".toList, "abc".toList⟩, ⟨"k".toList, "1.5".toList⟩]⟩
        "newtonIter".toList 100 = (true, (fun _ => 0) a.value) ∧
      Parser.getDoubleValue (fun _ => (0 : ℚ))
        ⟨[⟨"newtonIter".toList, "abc".toList⟩, ⟨"k".toList, "1.5".toList⟩]⟩
        "newtonIter".toList 7 = (true, (fun _ => (0 : ℚ)) a.value)) ∧
    (Parser.getIntValue (fun _ => 0)
        ⟨[⟨"newtonIter".toList, "abc".toList⟩, ⟨"k".toList, "1.5".toList⟩]⟩ "p".toList 100 =
        (false, 100) ∧
      Parser.getDoubleValue (fun _ => (0 : ℚ))
        ⟨[⟨"newtonIter".toList, "abc".toList⟩, ⟨"k".toList, "1.5".toList⟩]⟩ "p".toList 7 =
        (false, 7)) :=
  ⟨(lookups_reject_nothing (fun _ => 0) (fun _ => (0 : ℚ))).1
      ⟨[⟨"newtonIter".toList, "abc".toList⟩, ⟨"k".toList, "1.5".toList⟩]⟩ "newtonIter".toList
      100 7 ⟨⟨"newtonIter".toList, "abc".toList⟩, by decide, by decide⟩,
    (lookups_reject_nothing (fun _ => 0) (fun _ => (0 : ℚ))).2.1
      ⟨[⟨"newtonIter".toList, "abc".toList⟩, ⟨"k".toList, "1.5".toList⟩]⟩ "p".toList
      100 7 (by decide)⟩

/-- C35, counterexample: a parser with the entries `newtonIter=abc` and `k=abc`,
values that are no numbers.  For every `atoi` and `atof`, `getIntValue` of
`newtonIter` and `getDoubleValue` of `k` return true, not false; with the
result 0 that `atoi` and `atof` of the C library have for such a text, the
outputs 100 and 1.5 are overwritten with 0, and `readParameters` on that
parser after `init` replaces the defaults 100 of `newtonIter` and 1.5 of `k`
by 0. -/
theorem unparsable_value_is_taken :
    (∀ atoi : List Char → Int,
      (Parser.getIntValue atoi
        ⟨[⟨"newtonIter".toList, "abc".toList⟩, ⟨"k".toList, "abc".toList⟩]⟩
        "newtonIter".toList 100).1 = true) ∧
    (∀ atof : List Char → ℚ,
      (Parser.getDoubleValue atof
        ⟨[⟨"newtonIter".toList, "abc".toList⟩, ⟨"k".toList, "abc".toList⟩]⟩
        "k".toList (3 / 2)).1 = true) ∧
    Parser.getIntValue (fun _ => 0)
      ⟨[⟨"newtonIter".toList, "abc".toList⟩, ⟨"k".toList, "abc".toList⟩]⟩
      "newtonIter".toList 100 = (true, 0) ∧
    Parser.getDoubleValue (fun _ => (0 : ℚ))
      ⟨[⟨"newtonIter".toList, "abc".toList⟩, ⟨"k".toList, "abc".toList⟩]⟩
      "k".toList (3 / 2) = (true, 0) ∧
    (100 : Int) ≠ 0 ∧ (3 / 2 : ℚ) ≠ 0 ∧
    ((ImplicitEngine.init (rawEngine : ImplicitEngine ℚ) 10 10 10 10).readParametersFrom
      (fun _ => 0) (fun _ => 0)
      ⟨[⟨"newtonIter".toList, "abc".toList⟩, ⟨"k".toList, "abc".toList⟩]⟩).newtonIter = 0 ∧
    ((ImplicitEngine.init (rawEngine : ImplicitEngine ℚ) 10 10 10 10).readParametersFrom
      (fun _ => 0) (fun _ => 0)
      ⟨[⟨"newtonIter".toList, "abc".toList⟩, ⟨"k".toList, "abc".toList⟩]⟩).k = 0 := by
  refine ⟨fun _ => rfl, fun _ => rfl, rfl, rfl, by decide, by norm_num, rfl, rfl⟩


/-! ## The step the line search returns -/

section lineSearchResult

variable [LinearOrderedField K]

/-- The infinity with the sign of `-a`. -/
theorem XDouble.signedInf_neg (a : K) :
    (XDouble.signedInf (-a) : XDouble K) = -XDouble.signedInf a := by
  unfold XDouble.signedInf
  rcases lt_trichotomy a 0 with h | h | h
  · rw [if_pos (neg_pos.2 h), if_neg (not_lt.2 h.le), if_pos h]
    rfl
  · rw [h, neg_zero, if_neg (lt_irrefl _), if_neg (lt_irrefl _)]
    rfl
  · rw [if_neg (by rw [not_lt, neg_nonpos]; exact h.le), if_pos (neg_neg_of_pos h), if_pos h]
    rfl

/-- Unary minus distributes over the sum of `double`. -/
theorem XDouble.neg_add_eq (x y : XDouble K) : -(x + y) = -x + -y := by
  cases x <;> cases y <;>
    first
    | rfl
    | (show XDouble.fin (-(_ + _)) = XDouble.fin (-_ + -_); rw [neg_add])

/-- Unary minus moves out of the left factor of a product of `double`. -/
theorem XDouble.neg_mul_eq (x y : XDouble K) : -x * y = -(x * y) := by
  cases x with
  | fin a =>
    cases y with
    | fin b =>
      show XDouble.fin (-a * b) = XDouble.fin (-(a * b))
      rw [neg_mul]
    | posInf => exact XDouble.signedInf_neg a
    | negInf => exact XDouble.signedInf_neg (-a)
    | nan => rfl
  | posInf =>
    cases y with
    | fin b => exact XDouble.signedInf_neg b
    | posInf => rfl
    | negInf => rfl
    | nan => rfl
  | negInf =>
    cases y with
    | fin b =>
      show XDouble.signedInf b = -XDouble.signedInf (-b)
      rw [XDouble.signedInf_neg]
      cases XDouble.signedInf b <;> first | rfl | (show XDouble.fin _ = XDouble.fin (- -_); rw [neg_neg])
    | posInf => rfl
    | negInf => rfl
    | nan => rfl
  | nan => rw [XDouble.neg_nan, XDouble.nan_mul, XDouble.neg_nan]

/-- Unary minus moves out of the right factor of a product of `double`. -/
theorem XDouble.mul_neg_eq (x y : XDouble K) : x * -y = -(x * y) := by
  cases x with
  | fin a =>
    cases y with
    | fin b =>
      show XDouble.fin (a * -b) = XDouble.fin (-(a * b))
      rw [mul_neg]
    | posInf => exact XDouble.signedInf_neg a
    | negInf =>
      show XDouble.signedInf a = -XDouble.signedInf (-a)
      rw [XDouble.signedInf_neg]
      cases XDouble.signedInf a <;> first | rfl | (show XDouble.fin _ = XDouble.fin (- -_); rw [neg_neg])
    | nan => rfl
  | posInf =>
    cases y with
    | fin b => exact XDouble.signedInf_neg b
    | posInf => rfl
    | negInf => rfl
    | nan => rfl
  | negInf =>
    cases y with
    | fin b => exact XDouble.signedInf_neg (-b)
    | posInf => rfl
    | negInf => rfl
    | nan => rfl
  | nan => rw [XDouble.nan_mul, XDouble.nan_mul, XDouble.neg_nan]

/-- The point `x0 - rate q` that `minimize` moves to is the point
`x0 + rate (-q)` at which `linesearch` evaluates the objective. -/
theorem XDouble.sub_mul_eq (x r q : XDouble K) : x - r * q = x + r * -q := by
  rw [XDouble.mul_neg_eq]
  rfl

/-- The dot product with the opposite vector. -/
theorem XDouble.dot_neg (n : Nat) (q g : Nat → XDouble K) :
    XDouble.dot n (fun i => -q i) g = -XDouble.dot n q g := by
  unfold XDouble.dot
  induction n with
  | zero =>
    show XDouble.fin 0 = XDouble.fin (-0)
    rw [neg_zero]
  | succ n ih =>
    rw [List.range_succ, List.foldl_append, List.foldl_append, ih]
    simp only [List.foldl_cons, List.foldl_nil]
    rw [XDouble.neg_add_eq, XDouble.neg_mul_eq]

/-- A `double` that is not below zero: a finite number that is not negative,
`+inf` or NaN. -/
theorem XDouble.not_neg_cases (x : XDouble K) (h : x.lt (XDouble.fin 0) = false) :
    (∃ a, 0 ≤ a ∧ x = XDouble.fin a) ∨ x = XDouble.posInf ∨ x = XDouble.nan := by
  cases x with
  | fin a =>
    rw [XDouble.lt_fin] at h
    exact Or.inl ⟨a, not_lt.1 (of_decide_eq_false h), rfl⟩
  | posInf => exact Or.inr (Or.inl rfl)
  | negInf => exact Bool.noConfusion h
  | nan => exact Or.inr (Or.inr rfl)

/-- A `double` that zero is not below: a finite number that is not positive,
`-inf` or NaN. -/
theorem XDouble.not_pos_cases (x : XDouble K) (h : (XDouble.fin 0).lt x = false) :
    (∃ a, a ≤ 0 ∧ x = XDouble.fin a) ∨ x = XDouble.negInf ∨ x = XDouble.nan := by
  cases x with
  | fin a =>
    rw [XDouble.lt_fin] at h
    exact Or.inl ⟨a, not_lt.1 (of_decide_eq_false h), rfl⟩
  | posInf => exact Bool.noConfusion h
  | negInf => exact Or.inr (Or.inl rfl)
  | nan => exact Or.inr (Or.inr rfl)

/-- The term `1e-4 alpha phi'` of the sufficient-decrease test, for a step
that is not negative and a slope that is not positive: a finite number that
is not positive, `-inf` or NaN. -/
theorem decrease_term_cases (alpha phi_prime : XDouble K)
    (ha : alpha.lt (XDouble.fin 0) = false) (hp : (XDouble.fin 0).lt phi_prime = false) :
    (∃ t, t ≤ 0 ∧ XDouble.fin (1 / 10000) * alpha * phi_prime = XDouble.fin t) ∨
    XDouble.fin (1 / 10000) * alpha * phi_prime = XDouble.negInf ∨
    XDouble.fin (1 / 10000) * alpha * phi_prime = XDouble.nan := by
  have hc : (0 : K) < 1 / 10000 := by norm_num
  rcases XDouble.not_neg_cases alpha ha with ⟨a, ha0, rfl⟩ | rfl | rfl
  · rcases XDouble.not_pos_cases phi_prime hp with ⟨p, hp0, rfl⟩ | rfl | rfl
    · left
      refine ⟨1 / 10000 * a * p, ?_, rfl⟩
      exact mul_nonpos_of_nonneg_of_nonpos (mul_nonneg hc.le ha0) hp0
    · right
      show XDouble.signedInf (-(1 / 10000 * a)) = XDouble.negInf ∨
        XDouble.signedInf (-(1 / 10000 * a)) = XDouble.nan
      unfold XDouble.signedInf
      rcases lt_or_eq_of_le ha0 with h | h
      · left
        rw [if_neg (by rw [not_lt, neg_nonpos]; exact (mul_nonneg hc.le ha0)),
          if_pos (neg_neg_of_pos (mul_pos hc h))]
      · right
        rw [← h, mul_zero, neg_zero, if_neg (lt_irrefl _), if_neg (lt_irrefl _)]
    · right; right
      exact XDouble.mul_nan _
  · have h1 : (XDouble.fin (1 / 10000) * XDouble.posInf : XDouble K) = XDouble.posInf := by
      show XDouble.signedInf (1 / 10000 : K) = XDouble.posInf
      unfold XDouble.signedInf
      rw [if_pos hc]
    rw [h1]
    rcases XDouble.not_pos_cases phi_prime hp with ⟨p, hp0, rfl⟩ | rfl | rfl
    · right
      show XDouble.signedInf p = XDouble.negInf ∨ XDouble.signedInf p = XDouble.nan
      unfold XDouble.signedInf
      rcases lt_or_eq_of_le hp0 with h | h
      · left
        rw [if_neg (not_lt.2 hp0), if_pos h]
      · right
        rw [h, if_neg (lt_irrefl _), if_neg (lt_irrefl _)]
    · right; left; rfl
    · right; right; rfl
  · right; right
    rw [XDouble.mul_nan, XDouble.nan_mul]

/-- A step that passes the sufficient-decrease test, when it is not negative
and the slope is not positive: the objective there is below `phi0`. -/
theorem decrease_of_accepted (phi phi0 alpha phi_prime : XDouble K)
    (ha : alpha.lt (XDouble.fin 0) = false) (hp : (XDouble.fin 0).lt phi_prime = false)
    (h : phi.lt (phi0 + XDouble.fin (1 / 10000) * alpha * phi_prime) = true) :
    phi.lt phi0 = true := by
  rcases decrease_term_cases alpha phi_prime ha hp with ⟨t, ht, e⟩ | e | e
  · rw [e] at h
    cases phi0 with
    | fin p0 =>
      cases phi with
      | fin x =>
        rw [XDouble.fin_add, XDouble.lt_fin] at h
        rw [XDouble.lt_fin]
        exact decide_eq_true (by have := of_decide_eq_true h; linarith)
      | posInf => exact absurd h (by simp [XDouble.lt])
      | negInf => rfl
      | nan => exact absurd h (by simp)
    | posInf =>
      cases phi with
      | fin x => rfl
      | posInf => exact absurd h (by simp [XDouble.lt])
      | negInf => rfl
      | nan => exact absurd h (by simp)
    | negInf =>
      have h2 : (XDouble.negInf + XDouble.fin t : XDouble K) = XDouble.negInf := rfl
      rw [h2] at h
      cases phi <;> exact absurd h (by simp [XDouble.lt])
    | nan =>
      rw [XDouble.nan_add] at h
      exact absurd h (by simp)
  · rw [e] at h
    cases phi0 <;> cases phi <;> exact Bool.noConfusion h
  · rw [e, XDouble.add_nan] at h
    exact absurd h (by simp)

/-- The next trial step `max (alpha_next, 0.1 alpha)` is not negative when
`alpha` is not negative and not NaN. -/
theorem next_step_not_neg (alpha_next alpha : XDouble K)
    (ha : alpha.lt (XDouble.fin 0) = false) (hn : alpha ≠ XDouble.nan) :
    (XDouble.max alpha_next (XDouble.fin (1 / 10) * alpha)).lt (XDouble.fin 0) = false := by
  have hc : (0 : K) < 1 / 10 := by norm_num
  rcases XDouble.not_neg_cases alpha ha with ⟨a, ha0, rfl⟩ | rfl | rfl
  · unfold XDouble.max
    rw [XDouble.fin_mul]
    by_cases h : alpha_next.lt (XDouble.fin (1 / 10 * a)) = true
    · rw [if_pos h, XDouble.lt_fin]
      exact decide_eq_false (not_lt.2 (mul_nonneg hc.le ha0))
    · rw [if_neg h]
      cases alpha_next with
      | fin b =>
        rw [XDouble.lt_fin] at h
        rw [XDouble.lt_fin]
        have hb : ¬ b < 1 / 10 * a := fun hb => h (decide_eq_true hb)
        exact decide_eq_false (not_lt.2 (le_trans (mul_nonneg hc.le ha0) (not_lt.1 hb)))
      | posInf => rfl
      | negInf => exact absurd rfl h
      | nan => rfl
  · have h1 : (XDouble.fin (1 / 10) * XDouble.posInf : XDouble K) = XDouble.posInf := by
      show XDouble.signedInf (1 / 10 : K) = XDouble.posInf
      unfold XDouble.signedInf
      rw [if_pos hc]
    rw [h1]
    unfold XDouble.max
    cases alpha_next with
    | fin b => rfl
    | posInf => rfl
    | negInf => rfl
    | nan => rfl
  · exact absurd rfl hn

/-- The step the loop of `linesearch` returns, from a trial step that is not
negative and with a slope that is not positive: it is below `alpha_min`, or the
objective at `x0 + alpha d` is below `phi0`. -/
theorem linesearchLoop_result (sqrt : K → K) (value : (Nat → XDouble K) → XDouble K)
    (x0 d : Nat → XDouble K) (phi0 phi_prime alpha_min : XDouble K)
    (hp : (XDouble.fin 0).lt phi_prime = false) :
    ∀ (fuel : Nat) (alpha alpha_prev phi_prev r : XDouble K),
      alpha.lt (XDouble.fin 0) = false →
      ImplicitEngine.linesearchLoop sqrt value x0 d phi0 phi_prime alpha_min fuel
        alpha alpha_prev phi_prev = some r →
      r.lt alpha_min = true ∨ (value (fun i => x0 i + r * d i)).lt phi0 = true := by
  intro fuel
  induction fuel with
  | zero =>
    intro alpha ap pp r _ h
    exact absurd h (by simp [ImplicitEngine.linesearchLoop])
  | succ f ih =>
    intro alpha ap pp r ha h
    by_cases hn : alpha = XDouble.nan
    · rw [hn, linesearchLoop_of_nan] at h
      exact absurd h (by simp)
    by_cases h1 : alpha.lt alpha_min = true
    · rw [linesearchLoop_of_below sqrt value x0 d phi0 phi_prime alpha_min f alpha ap pp h1] at h
      rw [← Option.some.inj h]
      exact Or.inl h1
    · have h1f : alpha.lt alpha_min = false := by
        cases hb : alpha.lt alpha_min with
        | false => rfl
        | true => exact absurd hb h1
      by_cases h2 : (value (fun i => x0 i + alpha * d i)).lt
          (phi0 + XDouble.fin (1 / 10000) * alpha * phi_prime) = true
      · rw [linesearchLoop_of_decrease sqrt value x0 d phi0 phi_prime alpha_min f alpha ap pp
          h1f h2] at h
        rw [← Option.some.inj h]
        exact Or.inr (decrease_of_accepted _ _ _ _ ha hp h2)
      · have h2f : (value (fun i => x0 i + alpha * d i)).lt
            (phi0 + XDouble.fin (1 / 10000) * alpha * phi_prime) = false := by
          cases hb : (value (fun i => x0 i + alpha * d i)).lt
              (phi0 + XDouble.fin (1 / 10000) * alpha * phi_prime) with
          | false => rfl
          | true => exact absurd hb h2
        rw [linesearchLoop_of_rejected sqrt value x0 d phi0 phi_prime alpha_min f alpha ap pp
          h1f h2f] at h
        exact ih _ _ _ r (next_step_not_neg _ alpha ha hn) h

/-- A product `x * x` of `double` is not negative. -/
theorem XDouble.mul_self_not_neg (x : XDouble K) : (x * x).lt (XDouble.fin 0) = false := by
  cases x with
  | fin a =>
    rw [XDouble.fin_mul, XDouble.lt_fin]
    exact decide_eq_false (not_lt.2 (mul_self_nonneg a))
  | posInf => rfl
  | negInf => rfl
  | nan => rfl

/-- A sum of two `double` values that are not negative is not negative. -/
theorem XDouble.add_not_neg (x y : XDouble K) (hx : x.lt (XDouble.fin 0) = false)
    (hy : y.lt (XDouble.fin 0) = false) : (x + y).lt (XDouble.fin 0) = false := by
  rcases XDouble.not_neg_cases x hx with ⟨a, ha, rfl⟩ | rfl | rfl
  · rcases XDouble.not_neg_cases y hy with ⟨b, hb, rfl⟩ | rfl | rfl
    · rw [XDouble.fin_add, XDouble.lt_fin]
      exact decide_eq_false (not_lt.2 (add_nonneg ha hb))
    · rfl
    · rfl
  · rcases XDouble.not_neg_cases y hy with ⟨b, hb, rfl⟩ | rfl | rfl <;> rfl
  · rw [XDouble.nan_add]
    rfl

/-- The dot product of a vector with itself is not negative. -/
theorem XDouble.dot_self_not_neg (g : Nat → XDouble K) :
    ∀ n, (XDouble.dot n g g).lt (XDouble.fin 0) = false := by
  intro n
  unfold XDouble.dot
  induction n with
  | zero =>
    show (XDouble.fin (0 : K)).lt (XDouble.fin 0) = false
    rw [XDouble.lt_fin]
    exact decide_eq_false (lt_irrefl _)
  | succ n ih =>
    rw [List.range_succ, List.foldl_append]
    simp only [List.foldl_cons, List.foldl_nil]
    exact XDouble.add_not_neg _ _ ih (XDouble.mul_self_not_neg _)

/-- Zero is not below the opposite of a `double` that is not negative. -/
theorem XDouble.neg_not_pos (x : XDouble K) (h : x.lt (XDouble.fin 0) = false) :
    (XDouble.fin 0).lt (-x) = false := by
  rcases XDouble.not_neg_cases x h with ⟨a, ha, rfl⟩ | rfl | rfl
  · rw [XDouble.fin_neg, XDouble.lt_fin]
    exact decide_eq_false (not_lt.2 (neg_nonpos.2 ha))
  · rfl
  · rfl

/-- Zero is not below the opposite of a `double` that is not below `1e-4`. -/
theorem XDouble.neg_not_pos_of_not_small (x : XDouble K)
    (h : x.lt (XDouble.fin (1 / 10000)) = false) : (XDouble.fin 0).lt (-x) = false := by
  cases x with
  | fin a =>
    rw [XDouble.lt_fin] at h
    rw [XDouble.fin_neg, XDouble.lt_fin]
    have := not_lt.1 (of_decide_eq_false h)
    exact decide_eq_false (not_lt.2 (by
      have hc : (0 : K) < 1 / 10000 := by norm_num
      linarith))
  | posInf => rfl
  | negInf => exact Bool.noConfusion h
  | nan => rfl

/-- The largest entry `maxCoeff` returns has every property that all entries
and NaN have. -/
theorem XDouble.maxCoeff_of_all (P : XDouble K → Prop) (u : Nat → XDouble K)
    (hnan : P XDouble.nan) (hu : ∀ i, P (u i)) : ∀ n, P (XDouble.maxCoeff n u) := by
  intro n
  cases n with
  | zero => exact hnan
  | succ n =>
    unfold XDouble.maxCoeff
    simp only []
    induction n with
    | zero => exact hu 0
    | succ n ih =>
      rw [List.range_succ, List.foldl_append]
      simp only [List.foldl_cons, List.foldl_nil]
      unfold XDouble.max
      split_ifs
      · exact hu _
      · exact ih

/-- An absolute value is not negative. -/
theorem XDouble.abs_not_neg (x : XDouble K) : x.abs.lt (XDouble.fin 0) = false := by
  cases x with
  | fin a =>
    rw [XDouble.abs_fin, XDouble.lt_fin]
    exact decide_eq_false (not_lt.2 (abs_nonneg a))
  | posInf => rfl
  | negInf => rfl
  | nan => rfl

/-- The initial step `min (1, 1 / |grad|_inf)` is not negative. -/
theorem restart_step_not_neg (n : Nat) (g : Nat → XDouble K) :
    (XDouble.min (XDouble.fin 1) (XDouble.fin 1 / XDouble.lpNormInf n g)).lt
      (XDouble.fin 0) = false := by
  have hL : (XDouble.lpNormInf n g).lt (XDouble.fin 0) = false :=
    XDouble.maxCoeff_of_all (fun x => x.lt (XDouble.fin 0) = false) _ rfl
      (fun i => XDouble.abs_not_neg (g i)) n
  have hdiv : (XDouble.fin 1 / XDouble.lpNormInf n g).lt (XDouble.fin 0) = false := by
    rcases XDouble.not_neg_cases _ hL with ⟨a, ha, e⟩ | e | e
    · rw [e]
      by_cases h0 : a = 0
      · rw [h0, XDouble.fin_div_zero]
        unfold XDouble.signedInf
        rw [if_pos zero_lt_one]
        rfl
      · rw [XDouble.fin_div _ _ h0, XDouble.lt_fin]
        exact decide_eq_false (not_lt.2 (div_nonneg zero_le_one ha))
    · rw [e]
      show (XDouble.fin (0 : K)).lt (XDouble.fin 0) = false
      rw [XDouble.lt_fin]
      exact decide_eq_false (lt_irrefl _)
    · rw [e, XDouble.div_nan]
      rfl
  unfold XDouble.min
  split_ifs
  · exact hdiv
  · rw [XDouble.lt_fin]
    exact decide_eq_false (not_lt.2 zero_le_one)

/-- The step `linesearch` returns, for a direction whose slope `<d, grad>` is
not positive and an initial step that is not negative: it is below
`alpha_min`, or the objective at `x0 + alpha d` is below `phi0`. -/
theorem linesearch_result (sqrt : K → K) (value : (Nat → XDouble K) → XDouble K)
    (noVars fuel : Nat) (x0 d : Nat → XDouble K) (phi0 : XDouble K) (grad : Nat → XDouble K)
    (alpha_init r : XDouble K)
    (hp : (XDouble.fin 0).lt (XDouble.dot noVars d grad) = false)
    (ha : alpha_init.lt (XDouble.fin 0) = false)
    (h : ImplicitEngine.linesearch sqrt value noVars fuel x0 d phi0 grad alpha_init = some r) :
    r.lt (XDouble.fin (1 / 1000) / XDouble.maxCoeff noVars
      (fun i => (d i).abs / XDouble.max (x0 i).abs (XDouble.fin 1))) = true ∨
    (value (fun i => x0 i + r * d i)).lt phi0 = true :=
  linesearchLoop_result sqrt value x0 d phi0 _ _ hp fuel alpha_init _ _ r ha h

/-- A conditional with the flag `true` in one branch and `false` in the
other yields the state of one of the branches. -/
theorem state_of_ite {α : Type} (c : Prop) [Decidable c] (a b r : α) (f : Bool)
    (h : (if c then some (a, true) else some (b, false)) = some (r, f)) : r = a ∨ r = b := by
  by_cases hc : c
  · rw [if_pos hc] at h
    exact Or.inl (congrArg Prod.fst (Option.some.inj h)).symm
  · rw [if_neg hc] at h
    exact Or.inr (congrArg Prod.fst (Option.some.inj h)).symm

/-- C31: every call of `linesearch` that `minimize` makes, from the state in
which it enters its loop or from the state an earlier iteration left without
`break`: with `q` the direction of the iteration (the two-loop direction, or
`grad` when the restart fires) and `f` the value passed as `phi0` (the value
`value(x0, grad)` returned at the current point), a step `rate` that the call
returns is below `alpha_min`, or the objective `value` at the new point
`x0 - rate q = x0 + rate (-q)` is below `f`.  The iteration moves to that
point. -/
theorem linesearch_from_minimize (sqrt : K → K) (value : (Nat → XDouble K) → XDouble K)
    (valueGrad : (Nat → XDouble K) → XDouble K × (Nat → XDouble K))
    (noVars : Nat) (window newtonIter : Int) (eps_x : XDouble K) (lsFuel : Nat)
    (x0 : Nat → XDouble K) (st : MinimizeState K)
    (hst : st = ImplicitEngine.minimizeInit valueGrad noVars newtonIter x0 ∨
      ∃ st0 st1, ImplicitEngine.minimizeStep sqrt value valueGrad noVars window eps_x lsFuel st0 =
        some (st1, false) ∧ st = { st1 with k := st1.k + 1 })
    (q : Nat → XDouble K)
    (hq : q = (if (XDouble.dot noVars (ImplicitEngine.minimizeDirection noVars window st).1
          st.grad).lt (XDouble.fin (1 / 10000)) = true then st.grad
        else (ImplicitEngine.minimizeDirection noVars window st).1))
    (rate : XDouble K)
    (hrate : ImplicitEngine.linesearch sqrt value noVars lsFuel st.x0 (fun i => -q i) st.f st.grad
        (if (XDouble.dot noVars (ImplicitEngine.minimizeDirection noVars window st).1
          st.grad).lt (XDouble.fin (1 / 10000)) = true then
          XDouble.min (XDouble.fin 1) (XDouble.fin 1 / XDouble.lpNormInf noVars st.grad)
        else st.alpha_init) = some rate) :
    st.f = (valueGrad st.x0).1 ∧
    (rate.lt (XDouble.fin (1 / 1000) / XDouble.maxCoeff noVars
        (fun i => (-q i).abs / XDouble.max (st.x0 i).abs (XDouble.fin 1))) = true ∨
      (value (fun i => st.x0 i - rate * q i)).lt st.f = true) ∧
    (∀ st1 b, ImplicitEngine.minimizeStep sqrt value valueGrad noVars window eps_x lsFuel st =
        some (st1, b) → st1.x0 = fun i => st.x0 i - rate * q i) := by
  have hf : st.f = (valueGrad st.x0).1 ∧ st.alpha_init.lt (XDouble.fin 0) = false := by
    rcases hst with h | ⟨st0, st1, hstep, h⟩
    · rw [h]
      exact ⟨rfl, restart_step_not_neg noVars _⟩
    · obtain ⟨_, _, _, _, _, _, _, _, _, _, hfg, hai⟩ := minimizeStep_continued sqrt value
        valueGrad noVars window eps_x lsFuel st0 st1 hstep
      rw [h]
      refine ⟨?_, ?_⟩
      · show st1.f = (valueGrad st1.x0).1
        rw [← hfg]
      · show st1.alpha_init.lt (XDouble.fin 0) = false
        rw [hai, XDouble.lt_fin]
        exact decide_eq_false (not_lt.2 zero_le_one)
  have hslope : (XDouble.fin 0).lt (XDouble.dot noVars (fun i => -q i) st.grad) = false := by
    rw [XDouble.dot_neg]
    by_cases hres : (XDouble.dot noVars (ImplicitEngine.minimizeDirection noVars window st).1
        st.grad).lt (XDouble.fin (1 / 10000)) = true
    · rw [if_pos hres] at hq
      rw [hq]
      exact XDouble.neg_not_pos _ (XDouble.dot_self_not_neg st.grad noVars)
    · rw [if_neg hres] at hq
      rw [hq]
      apply XDouble.neg_not_pos_of_not_small
      cases hb : (XDouble.dot noVars (ImplicitEngine.minimizeDirection noVars window st).1
          st.grad).lt (XDouble.fin (1 / 10000)) with
      | false => rfl
      | true => exact absurd hb hres
  have hinit : (if (XDouble.dot noVars (ImplicitEngine.minimizeDirection noVars window st).1
        st.grad).lt (XDouble.fin (1 / 10000)) = true then
        XDouble.min (XDouble.fin 1) (XDouble.fin 1 / XDouble.lpNormInf noVars st.grad)
      else st.alpha_init).lt (XDouble.fin 0) = false := by
    split_ifs
    · exact restart_step_not_neg noVars _
    · exact hf.2
  refine ⟨hf.1, ?_, ?_⟩
  · have hpt : (fun i => st.x0 i - rate * q i) = fun i => st.x0 i + rate * -q i := by
      funext i
      exact XDouble.sub_mul_eq _ _ _
    rw [hpt]
    exact linesearch_result sqrt value noVars lsFuel st.x0 (fun i => -q i) st.f st.grad _ rate
      hslope hinit hrate
  · intro st1 b hstep
    unfold ImplicitEngine.minimizeStep at hstep
    simp only [] at hstep
    rw [← hq, hrate] at hstep
    simp only [] at hstep
    rcases state_of_ite _ _ _ _ _ hstep with h | h
    · rw [h]
    · rw [h]

/-- C31, instance: the first iteration of `minimize` for one variable,
`x0 = 0`, an objective that is `-1` at every point and a gradient overload that
returns `f = 0` and the gradient `1/1000`. -/
theorem linesearch_from_minimize_witness :
    ∃ rate q,
      q = (if (XDouble.dot 1 (ImplicitEngine.minimizeDirection 1 5
          (ImplicitEngine.minimizeInit
            (fun _ => (XDouble.fin 0, fun _ => XDouble.fin (1 / 1000 : ℝ))) 1 100
            (fun _ => XDouble.fin 0))).1
          (ImplicitEngine.minimizeInit
            (fun _ => (XDouble.fin 0, fun _ => XDouble.fin (1 / 1000 : ℝ))) 1 100
            (fun _ => XDouble.fin 0)).grad).lt (XDouble.fin (1 / 10000)) = true then
          (ImplicitEngine.minimizeInit
            (fun _ => (XDouble.fin 0, fun _ => XDouble.fin (1 / 1000 : ℝ))) 1 100
            (fun _ => XDouble.fin 0)).grad
        else (ImplicitEngine.minimizeDirection 1 5
          (ImplicitEngine.minimizeInit
            (fun _ => (XDouble.fin 0, fun _ => XDouble.fin (1 / 1000 : ℝ))) 1 100
            (fun _ => XDouble.fin 0))).1) ∧
      (rate.lt (XDouble.fin (1 / 1000) / XDouble.maxCoeff 1
          (fun i => (-q i).abs / XDouble.max ((ImplicitEngine.minimizeInit
            (fun _ => (XDouble.fin 0, fun _ => XDouble.fin (1 / 1000 : ℝ))) 1 100
            (fun _ => XDouble.fin 0)).x0 i).abs (XDouble.fin 1))) = true ∨
        ((fun _ => XDouble.fin (-1)) (fun i => (ImplicitEngine.minimizeInit
            (fun _ => (XDouble.fin 0, fun _ => XDouble.fin (1 / 1000 : ℝ))) 1 100
            (fun _ => XDouble.fin 0)).x0 i - rate * q i) : XDouble ℝ).lt
          (ImplicitEngine.minimizeInit
            (fun _ => (XDouble.fin 0, fun _ => XDouble.fin (1 / 1000 : ℝ))) 1 100
            (fun _ => XDouble.fin 0)).f = true) := by
  obtain ⟨_, st1, hstep⟩ := restart_scenario
  obtain ⟨rate, q, hq, hls, _⟩ := minimizeStep_continued Real.sqrt (fun _ => XDouble.fin (-1))
    (fun _ => (XDouble.fin 0, fun _ => XDouble.fin (1 / 1000 : ℝ))) 1 5
    (XDouble.fin (1 / 100000)) 1 _ st1 hstep
  exact ⟨rate, q, hq, (linesearch_from_minimize Real.sqrt (fun _ => XDouble.fin (-1))
    (fun _ => (XDouble.fin 0, fun _ => XDouble.fin (1 / 1000 : ℝ))) 1 5 100
    (XDouble.fin (1 / 100000)) 1 (fun _ => XDouble.fin 0) _ (Or.inl rfl) q hq rate hls).2.1⟩

end lineSearchResult


/-! ## The two-loop recursion and the inverse Hessian -/

section twoLoop

variable [LinearOrderedField K]

/-- A loop that runs `m + 1` times a body that does not read its counter runs
the body once and then `m` times. -/
theorem foldl_range_first {α : Type} (g : α → α) : ∀ (m : Nat) (a : α),
    (List.range (m + 1)).foldl (fun st _ => g st) a =
      (List.range m).foldl (fun st _ => g st) (g a)
  | 0, _ => rfl
  | m + 1, a => by
    have h1 : (List.range (m + 2)).foldl (fun st _ => g st) a =
        g ((List.range (m + 1)).foldl (fun st _ => g st) a) := by
      rw [List.range_succ, List.foldl_append]
      rfl
    have h2 : (List.range (m + 1)).foldl (fun st _ => g st) (g a) =
        g ((List.range m).foldl (fun st _ => g st) (g a)) := by
      rw [List.range_succ, List.foldl_append]
      rfl
    rw [h1, h2, foldl_range_first g m a]

/-- The first iteration of the first loop of the two-loop recursion. -/
theorem minimizeBackward_first (noVars : Nat) (window : Int) (s y : Nat → Nat → XDouble K)
    (m : Nat) (e : Int) (rho alpha q : Nat → XDouble K) :
    ImplicitEngine.minimizeBackward noVars window s y (m + 1) (e, rho, alpha, q) =
      ImplicitEngine.minimizeBackward noVars window s y m
        ((if e - 1 = -1 then window - 1 else e - 1),
          Function.update rho (if e - 1 = -1 then window - 1 else e - 1).toNat
            (XDouble.fin 1 / XDouble.dot noVars (s (if e - 1 = -1 then window - 1 else e - 1).toNat)
              (y (if e - 1 = -1 then window - 1 else e - 1).toNat)),
          Function.update alpha (if e - 1 = -1 then window - 1 else e - 1).toNat
            (XDouble.fin 1 / XDouble.dot noVars (s (if e - 1 = -1 then window - 1 else e - 1).toNat)
              (y (if e - 1 = -1 then window - 1 else e - 1).toNat) *
              XDouble.dot noVars (s (if e - 1 = -1 then window - 1 else e - 1).toNat) q),
          fun i => q i -
            XDouble.fin 1 / XDouble.dot noVars (s (if e - 1 = -1 then window - 1 else e - 1).toNat)
              (y (if e - 1 = -1 then window - 1 else e - 1).toNat) *
              XDouble.dot noVars (s (if e - 1 = -1 then window - 1 else e - 1).toNat) q *
              y (if e - 1 = -1 then window - 1 else e - 1).toNat i) := by
  unfold ImplicitEngine.minimizeBackward
  rw [foldl_range_first]
  simp only [Function.update_same]

/-- The column written `m + 1` iterations ago, seen from the column written
last. -/
theorem ringColumn_shift (window e : Int) (he0 : 0 ≤ e) (_he : e < window) (m : Int)
    (hm0 : 0 ≤ m) (hm : m + 1 ≤ window) :
    ringColumn window (ringColumn window e 1) m = ringColumn window e (m + 1) := by
  unfold ringColumn
  split_ifs <;> omega

/-- The two loops of the two-loop recursion in `minimize`, run on a history
whose columns hold the pairs of the list `L`, newest first, in the ring order:
the first loop ends in the column of the oldest pair and leaves `rho` and
`alpha` as they were outside the columns of `L`; the second loop ends in the
column it started from, with the vector `twoLoopRecursion` gives. -/
theorem two_loops (noVars : Nat) (window : Int) (s y : Nat → Nat → XDouble K)
    (gamma : XDouble K) :
    ∀ (L : List ((Nat → XDouble K) × (Nat → XDouble K))) (e : Int)
      (rho alpha q : Nat → XDouble K),
      0 ≤ e → e < window → (L.length : Int) ≤ window →
      (∀ (i : Nat) (p : (Nat → XDouble K) × (Nat → XDouble K)), L.get? i = some p →
        s (ringColumn window e (i + 1)).toNat = p.1 ∧
        y (ringColumn window e (i + 1)).toNat = p.2) →
      (ImplicitEngine.minimizeBackward noVars window s y L.length (e, rho, alpha, q)).1 =
        ringColumn window e L.length ∧
      (∀ c : Nat, (∀ i : Nat, 1 ≤ i → i ≤ L.length → c ≠ (ringColumn window e i).toNat) →
        (ImplicitEngine.minimizeBackward noVars window s y L.length (e, rho, alpha, q)).2.1 c =
          rho c ∧
        (ImplicitEngine.minimizeBackward noVars window s y L.length (e, rho, alpha, q)).2.2.1 c =
          alpha c) ∧
      ImplicitEngine.minimizeForward noVars window s y
        (ImplicitEngine.minimizeBackward noVars window s y L.length (e, rho, alpha, q)).2.1
        (ImplicitEngine.minimizeBackward noVars window s y L.length (e, rho, alpha, q)).2.2.1
        L.length
        ((ImplicitEngine.minimizeBackward noVars window s y L.length (e, rho, alpha, q)).1,
          fun i => gamma *
            (ImplicitEngine.minimizeBackward noVars window s y L.length
              (e, rho, alpha, q)).2.2.2 i) =
        (e, twoLoopRecursion noVars gamma L q)
  | [], e, rho, alpha, q, he0, _, _, _ => by
    refine ⟨?_, fun c _ => ⟨rfl, rfl⟩, rfl⟩
    show e = ringColumn window e ((0 : Nat) : Int)
    rw [Nat.cast_zero, (ringColumn_facts window e he0 (by omega)).1]
  | p :: L, e, rho, alpha, q, he0, he, hlen, hcol => by
    obtain ⟨h0, hback, hfwd, -, hrange, hinj⟩ := ringColumn_facts window e he0 he
    have hlen1 : (L.length : Int) + 1 ≤ window := by
      rw [List.length_cons] at hlen
      push_cast at hlen
      exact hlen
    have he1 : (if e - 1 = -1 then window - 1 else e - 1) = ringColumn window e 1 := by
      have := hback 0 (le_refl _) (by omega)
      rw [h0, zero_add] at this
      exact this
    obtain ⟨hp1, hp2⟩ := hcol 0 p rfl
    rw [Nat.cast_zero, zero_add] at hp1 hp2
    obtain ⟨hr0, hr1⟩ := hrange 1 (le_refl _) (by omega)
    -- the inner problem: the pairs of `L` seen from the column of `p`
    have hcol' : ∀ (i : Nat) (p' : (Nat → XDouble K) × (Nat → XDouble K)), L.get? i = some p' →
        s (ringColumn window (ringColumn window e 1) (i + 1)).toNat = p'.1 ∧
        y (ringColumn window (ringColumn window e 1) (i + 1)).toNat = p'.2 := by
      intro i p' hi
      have hil : i < L.length := by
        rcases Nat.lt_or_ge i L.length with h | h
        · exact h
        · rw [List.get?_eq_none.2 h] at hi
          exact absurd hi (by simp)
      rw [ringColumn_shift window e he0 he (i + 1) (by omega) (by omega)]
      have := hcol (i + 1) p' (by rw [List.get?_cons_succ]; exact hi)
      push_cast at this
      exact this
    obtain ⟨ih1, ih2, ih3⟩ := two_loops noVars window s y gamma L (ringColumn window e 1)
      (Function.update rho (ringColumn window e 1).toNat
        (XDouble.fin 1 / XDouble.dot noVars p.1 p.2))
      (Function.update alpha (ringColumn window e 1).toNat
        (XDouble.fin 1 / XDouble.dot noVars p.1 p.2 * XDouble.dot noVars p.1 q))
      (fun i => q i - XDouble.fin 1 / XDouble.dot noVars p.1 p.2 * XDouble.dot noVars p.1 q *
        p.2 i) hr0 hr1 (by omega) hcol'
    have hfirst := minimizeBackward_first noVars window s y L.length e rho alpha q
    rw [he1, hp1, hp2] at hfirst
    rw [List.length_cons, hfirst]
    -- the column of `p` is none of the columns of `L`
    have hne : ∀ i : Nat, 1 ≤ i → i ≤ L.length →
        (ringColumn window e 1).toNat ≠ (ringColumn window (ringColumn window e 1) i).toNat := by
      intro i hi1 hi2 hc
      rw [ringColumn_shift window e he0 he i (by omega) (by omega)] at hc
      obtain ⟨ha, hb⟩ := hrange (i + 1) (by omega) (by omega)
      have : ringColumn window e 1 = ringColumn window e (i + 1) := by omega
      have := hinj 1 (i + 1) (le_refl _) (by omega) (by omega) (by omega) this
      omega
    refine ⟨?_, ?_, ?_⟩
    · rw [ih1, ringColumn_shift window e he0 he L.length (by omega) hlen1]
      push_cast
      rfl
    · intro c hc
      have hc' : ∀ i : Nat, 1 ≤ i → i ≤ L.length →
          c ≠ (ringColumn window (ringColumn window e 1) i).toNat := by
        intro i hi1 hi2
        rw [ringColumn_shift window e he0 he i (by omega) (by omega)]
        have := hc (i + 1) (by omega) (by omega)
        push_cast at this
        exact this
      have hc1 : c ≠ (ringColumn window e 1).toNat := by
        have := hc 1 (le_refl _) (by omega)
        rw [Nat.cast_one] at this
        exact this
      obtain ⟨a1, a2⟩ := ih2 c hc'
      rw [a1, a2, Function.update_noteq hc1, Function.update_noteq hc1]
      exact ⟨rfl, rfl⟩
    · rw [minimizeForward_succ]
      simp only []
      rw [ih3]
      simp only []
      obtain ⟨a1, a2⟩ := ih2 (ringColumn window e 1).toNat hne
      rw [a1, a2, Function.update_same, Function.update_same, hp1, hp2]
      have hnext : (if ringColumn window e 1 + 1 = window then 0 else ringColumn window e 1 + 1) =
          e := by
        have := hfwd 1 (le_refl _) (by omega)
        rw [sub_self, h0] at this
        exact this
      rw [hnext]
      rfl

/-- The product of `1.0` and a `double`. -/
theorem XDouble.one_mul_eq (x : XDouble K) : XDouble.fin 1 * x = x := by
  cases x with
  | fin a =>
    rw [XDouble.fin_mul, one_mul]
  | posInf =>
    show XDouble.signedInf (1 : K) = XDouble.posInf
    unfold XDouble.signedInf
    rw [if_pos zero_lt_one]
  | negInf =>
    show XDouble.signedInf (-(1 : K)) = XDouble.negInf
    unfold XDouble.signedInf
    rw [if_neg (by rw [not_lt, neg_nonpos]; exact zero_le_one),
      if_pos (neg_neg_of_pos zero_lt_one)]
  | nan => rfl

/-- The dot product reads the entries below `n` only. -/
theorem XDouble.dot_congr (u u2 v v2 : Nat → XDouble K) :
    ∀ n, (∀ i, i < n → u i = u2 i ∧ v i = v2 i) → XDouble.dot n u v = XDouble.dot n u2 v2
  | 0, _ => rfl
  | n + 1, h => by
    have ih := XDouble.dot_congr u u2 v v2 n (fun i hi => h i (Nat.lt_succ_of_lt hi))
    unfold XDouble.dot at ih ⊢
    rw [List.range_succ, List.foldl_append, List.foldl_append, ih]
    simp only [List.foldl_cons, List.foldl_nil]
    rw [(h n (Nat.lt_succ_self n)).1, (h n (Nat.lt_succ_self n)).2]

/-- The dot product of two vectors whose entries below `n` are finite. -/
theorem XDouble.dot_of_fin (n : Nat) (u v : Nat → XDouble K) (a b : Fin n → K)
    (hu : ∀ i (hi : i < n), u i = XDouble.fin (a ⟨i, hi⟩))
    (hv : ∀ i (hi : i < n), v i = XDouble.fin (b ⟨i, hi⟩)) :
    XDouble.dot n u v = XDouble.fin (Matrix.dotProduct a b) := by
  rw [XDouble.dot_congr u (fun i => XDouble.fin (if h : i < n then a ⟨i, h⟩ else 0)) v
    (fun i => XDouble.fin (if h : i < n then b ⟨i, h⟩ else 0)) n
    (fun i hi => by rw [hu i hi, hv i hi]; simp only [dif_pos hi, and_self]),
    XDouble.dot_fin, Finset.sum_range]
  unfold Matrix.dotProduct
  congr 1
  exact Finset.sum_congr rfl (fun i _ => by simp only [dif_pos i.isLt, Fin.eta])

/-- The product of the matrix `w vᵀ` and a vector. -/
theorem vecMulVec_mulVec_eq {n : Nat} (w v x : Fin n → K) :
    (Matrix.vecMulVec w v).mulVec x = Matrix.dotProduct v x • w := by
  ext i
  simp only [Matrix.mulVec, Matrix.vecMulVec_apply, Matrix.dotProduct, Pi.smul_apply, smul_eq_mul,
    Finset.sum_mul, Matrix.of_apply]
  exact Finset.sum_congr rfl (fun j _ => by ring)

/-- The product of the updated inverse Hessian and a vector, in the terms of
the two loops: with `alpha = rho <s, q>`, `r = H (q - alpha y)` and
`beta = rho <r, y>` it is `r + (alpha - beta) s`. -/
theorem lbfgs_update_mulVec {n : Nat} (Hm : Matrix (Fin n) (Fin n) K)
    (s y q : Fin n → K) (rho : K) :
    ((1 - rho • Matrix.vecMulVec s y) * Hm * (1 - rho • Matrix.vecMulVec y s) +
      rho • Matrix.vecMulVec s s).mulVec q =
    Hm.mulVec (q - (rho * Matrix.dotProduct s q) • y) +
      (rho * Matrix.dotProduct s q -
        rho * Matrix.dotProduct (Hm.mulVec (q - (rho * Matrix.dotProduct s q) • y)) y) • s := by
  have hB : (1 - rho • Matrix.vecMulVec y s).mulVec q = q - (rho * Matrix.dotProduct s q) • y := by
    rw [Matrix.sub_mulVec, Matrix.one_mulVec, Matrix.smul_mulVec_assoc, vecMulVec_mulVec_eq,
      smul_smul]
  rw [Matrix.add_mulVec, ← Matrix.mulVec_mulVec, ← Matrix.mulVec_mulVec, hB, Matrix.sub_mulVec,
    Matrix.one_mulVec, Matrix.smul_mulVec_assoc, Matrix.smul_mulVec_assoc, vecMulVec_mulVec_eq,
    vecMulVec_mulVec_eq, smul_smul, smul_smul,
    Matrix.dotProduct_comm y (Hm.mulVec (q - (rho * Matrix.dotProduct s q) • y)), sub_smul]
  abel

/-- The secant equation of the updated inverse Hessian: it maps `y` to `s`. -/
theorem lbfgs_update_secant {n : Nat} (Hm : Matrix (Fin n) (Fin n) K) (s y : Fin n → K)
    (h : Matrix.dotProduct s y ≠ 0) :
    ((1 - (1 / Matrix.dotProduct s y) • Matrix.vecMulVec s y) * Hm *
        (1 - (1 / Matrix.dotProduct s y) • Matrix.vecMulVec y s) +
      (1 / Matrix.dotProduct s y) • Matrix.vecMulVec s s).mulVec y = s := by
  rw [lbfgs_update_mulVec, one_div_mul_cancel h, one_smul, sub_self, Matrix.mulVec_zero,
    Matrix.zero_dotProduct, mul_zero, sub_zero, one_smul, zero_add]

/-- The two-loop recursion on pairs and an input vector whose entries below
`noVars` are finite, each pair with `<s, y> ≠ 0`, and a finite `gamma`: the
result is the product of the L-BFGS inverse Hessian of the pairs and the
input. -/
theorem twoLoopRecursion_fin (n : Nat) (gamma : K)
    (Lx : List ((Nat → XDouble K) × (Nat → XDouble K)))
    (P : List ((Fin n → K) × (Fin n → K)))
    (hF : List.Forall₂ (fun (px : (Nat → XDouble K) × (Nat → XDouble K))
        (p : (Fin n → K) × (Fin n → K)) => ∀ i (hi : i < n),
          px.1 i = XDouble.fin (p.1 ⟨i, hi⟩) ∧ px.2 i = XDouble.fin (p.2 ⟨i, hi⟩)) Lx P) :
    (∀ p ∈ P, Matrix.dotProduct p.1 p.2 ≠ 0) →
    ∀ (qx : Nat → XDouble K) (q : Fin n → K),
      (∀ i (hi : i < n), qx i = XDouble.fin (q ⟨i, hi⟩)) →
      ∀ i (hi : i < n), twoLoopRecursion n (XDouble.fin gamma) Lx qx i =
        XDouble.fin ((lbfgsInverseHessian n gamma P).mulVec q ⟨i, hi⟩) := by
  induction hF with
  | nil =>
    intro _ qx q hq i hi
    show XDouble.fin gamma * qx i = _
    rw [hq i hi, XDouble.fin_mul]
    show _ = XDouble.fin (((gamma • (1 : Matrix (Fin n) (Fin n) K)).mulVec q) ⟨i, hi⟩)
    rw [Matrix.smul_mulVec_assoc, Matrix.one_mulVec, Pi.smul_apply, smul_eq_mul]
  | @cons px p Lx P hR _ ih =>
    intro hsy qx q hq i hi
    have hd : Matrix.dotProduct p.1 p.2 ≠ 0 := hsy p (List.mem_cons_self _ _)
    have hdot1 : XDouble.dot n px.1 px.2 = XDouble.fin (Matrix.dotProduct p.1 p.2) :=
      XDouble.dot_of_fin n _ _ _ _ (fun j hj => (hR j hj).1) (fun j hj => (hR j hj).2)
    have hdot2 : XDouble.dot n px.1 qx = XDouble.fin (Matrix.dotProduct p.1 q) :=
      XDouble.dot_of_fin n _ _ _ _ (fun j hj => (hR j hj).1) hq
    have hq1 : ∀ j (hj : j < n),
        (fun j => qx j - XDouble.fin 1 / XDouble.dot n px.1 px.2 * XDouble.dot n px.1 qx *
          px.2 j) j =
        XDouble.fin ((q - (1 / Matrix.dotProduct p.1 p.2 * Matrix.dotProduct p.1 q) • p.2)
          ⟨j, hj⟩) := by
      intro j hj
      show qx j - XDouble.fin 1 / XDouble.dot n px.1 px.2 * XDouble.dot n px.1 qx * px.2 j = _
      rw [hdot1, hdot2, hq j hj, (hR j hj).2, XDouble.fin_div _ _ hd, XDouble.fin_mul,
        XDouble.fin_mul, XDouble.fin_sub]
      rfl
    have hr := ih (fun p' hp' => hsy p' (List.mem_cons_of_mem _ hp')) _ _ hq1
    have hdot3 : XDouble.dot n (twoLoopRecursion n (XDouble.fin gamma) Lx
        (fun j => qx j - XDouble.fin 1 / XDouble.dot n px.1 px.2 * XDouble.dot n px.1 qx *
          px.2 j)) px.2 =
        XDouble.fin (Matrix.dotProduct ((lbfgsInverseHessian n gamma P).mulVec
          (q - (1 / Matrix.dotProduct p.1 p.2 * Matrix.dotProduct p.1 q) • p.2)) p.2) :=
      XDouble.dot_of_fin n _ _ _ _ hr (fun j hj => (hR j hj).2)
    show twoLoopRecursion n (XDouble.fin gamma) Lx
        (fun j => qx j - XDouble.fin 1 / XDouble.dot n px.1 px.2 * XDouble.dot n px.1 qx *
          px.2 j) i +
      (XDouble.fin 1 / XDouble.dot n px.1 px.2 * XDouble.dot n px.1 qx -
        XDouble.fin 1 / XDouble.dot n px.1 px.2 *
          XDouble.dot n (twoLoopRecursion n (XDouble.fin gamma) Lx
            (fun j => qx j - XDouble.fin 1 / XDouble.dot n px.1 px.2 * XDouble.dot n px.1 qx *
              px.2 j)) px.2) * px.1 i = _
    rw [hdot3, hr i hi, hdot1, hdot2, (hR i hi).1, XDouble.fin_div _ _ hd, XDouble.fin_mul,
      XDouble.fin_mul, XDouble.fin_sub, XDouble.fin_mul, XDouble.fin_add]
    show _ = XDouble.fin ((((1 - (1 / Matrix.dotProduct p.1 p.2) • Matrix.vecMulVec p.1 p.2) *
        lbfgsInverseHessian n gamma P *
        (1 - (1 / Matrix.dotProduct p.1 p.2) • Matrix.vecMulVec p.2 p.1) +
      (1 / Matrix.dotProduct p.1 p.2) • Matrix.vecMulVec p.1 p.1).mulVec q) ⟨i, hi⟩)
    rw [lbfgs_update_mulVec]
    rfl

/-- The direction of the two-loop recursion in `minimize`, in a state whose
history is `H`: the recursion of the specification on the `window` newest
pairs, with `gamma_k` and the gradient as input. -/
theorem minimizeDirection_eq_twoLoop (noVars : Nat) (window : Int) (st : MinimizeState K)
    (H : List ((Nat → XDouble K) × (Nat → XDouble K))) (hH : st.HistoryIs window H) :
    (ImplicitEngine.minimizeDirection noVars window st).1 =
      twoLoopRecursion noVars st.gamma_k (H.take window.toNat) st.grad := by
  obtain ⟨hk, he0, he, hc⟩ := hH
  have hiter : (min window st.k).toNat = (H.take window.toNat).length := by
    rw [List.length_take, hk]
    omega
  have hlen : ((H.take window.toNat).length : Int) ≤ window := by
    rw [List.length_take]
    omega
  have hcol : ∀ (i : Nat) (p : (Nat → XDouble K) × (Nat → XDouble K)),
      (H.take window.toNat).get? i = some p →
      st.s (ringColumn window st.endCol (i + 1)).toNat = p.1 ∧
      st.y (ringColumn window st.endCol (i + 1)).toNat = p.2 := by
    intro i p hp
    have hi : i < window.toNat := by
      rcases Nat.lt_or_ge i window.toNat with h | h
      · exact h
      · rw [List.get?_eq_none.2 (le_trans (List.length_take_le _ _) h)] at hp
        exact absurd hp (by simp)
    rw [List.get?_eq_getElem?, List.getElem?_take_of_lt hi, ← List.get?_eq_getElem?] at hp
    exact hc i p hp (by omega)
  unfold ImplicitEngine.minimizeDirection
  simp only []
  rw [hiter, (two_loops noVars window st.s st.y st.gamma_k (H.take window.toNat) st.endCol
    st.rho st.alpha st.grad he0 he hlen hcol).2.2]

/-- The direction of the two-loop recursion in `minimize` in a state whose
`min (window, k)` newest pairs and gradient are finite, with `<s, y> ≠ 0` for
each pair and a finite `gamma_k`: the product of the L-BFGS inverse Hessian of
these pairs and the gradient. -/
theorem minimizeDirection_fin (noVars : Nat) (window : Int) (st : MinimizeState K)
    (H : List ((Nat → XDouble K) × (Nat → XDouble K))) (hH : st.HistoryIs window H)
    (P : List ((Fin noVars → K) × (Fin noVars → K)))
    (hP : List.Forall₂ (fun (px : (Nat → XDouble K) × (Nat → XDouble K))
        (p : (Fin noVars → K) × (Fin noVars → K)) => ∀ i (hi : i < noVars),
          px.1 i = XDouble.fin (p.1 ⟨i, hi⟩) ∧ px.2 i = XDouble.fin (p.2 ⟨i, hi⟩))
      (H.take window.toNat) P)
    (hsy : ∀ p ∈ P, Matrix.dotProduct p.1 p.2 ≠ 0)
    (g : Fin noVars → K) (hg : ∀ i (hi : i < noVars), st.grad i = XDouble.fin (g ⟨i, hi⟩))
    (gamma : K) (hgamma : st.gamma_k = XDouble.fin gamma) :
    ∀ i (hi : i < noVars), (ImplicitEngine.minimizeDirection noVars window st).1 i =
      XDouble.fin ((lbfgsInverseHessian noVars gamma P).mulVec g ⟨i, hi⟩) := by
  intro i hi
  rw [minimizeDirection_eq_twoLoop noVars window st H hH, hgamma]
  exact twoLoopRecursion_fin noVars gamma _ P hP hsy st.grad g hg i hi

/-- The value of `gamma_k` an iteration of `minimize` leaves when it does not
leave by `break`: `<s, y> / <y, y>` of the pair it has stored. -/
theorem minimizeStep_gamma (sqrt : K → K) (value : (Nat → XDouble K) → XDouble K)
    (valueGrad : (Nat → XDouble K) → XDouble K × (Nat → XDouble K))
    (noVars : Nat) (window : Int) (eps_x : XDouble K) (lsFuel : Nat) (st st1 : MinimizeState K)
    (hstep : ImplicitEngine.minimizeStep sqrt value valueGrad noVars window eps_x lsFuel st =
      some (st1, false)) :
    st1.gamma_k =
      XDouble.dot noVars (fun i => st1.x0 i - st.x0 i) (fun i => st1.grad i - st.grad i) /
      XDouble.dot noVars (fun i => st1.grad i - st.grad i) (fun i => st1.grad i - st.grad i) := by
  unfold ImplicitEngine.minimizeStep at hstep
  simp only [] at hstep
  generalize ImplicitEngine.linesearch sqrt value noVars lsFuel _ _ _ _ _ = r at hstep
  cases r with
  | none => exact absurd hstep (by simp)
  | some rate =>
    simp only [] at hstep
    obtain ⟨-, hst⟩ := continued_of_ite _ _ _ _ hstep
    subst hst
    rfl

/-- The direction of the first iteration of `minimize` is the gradient. -/
theorem minimizeDirection_first (valueGrad : (Nat → XDouble K) → XDouble K × (Nat → XDouble K))
    (noVars : Nat) (window newtonIter : Int) (x0 : Nat → XDouble K) :
    (ImplicitEngine.minimizeDirection noVars window
      (ImplicitEngine.minimizeInit valueGrad noVars newtonIter x0)).1 =
      (ImplicitEngine.minimizeInit valueGrad noVars newtonIter x0).grad := by
  have hiter : (min window (ImplicitEngine.minimizeInit valueGrad noVars newtonIter x0).k).toNat
      = 0 := by
    show (min window 0).toNat = 0
    omega
  unfold ImplicitEngine.minimizeDirection
  simp only []
  rw [hiter]
  funext i
  exact XDouble.one_mul_eq _

/-- C38: in a state of `minimize` at the head of an iteration whose history is
`H` (the pairs `(s, y)` stored since the last restart, newest first, held in
the ring of columns), the vector `q` of the two-loop recursion is what the
two loops of the specification give on the `min (window, k)` newest pairs,
with the gradient as input and the scaling `gamma_k`; when these pairs and
the gradient are finite, `<s, y> ≠ 0` for each pair and `gamma_k` is finite,
`q = H grad` with `H` the L-BFGS inverse Hessian built from these pairs and
`gamma_k`.  The `gamma_k` an iteration leaves is `<s, y> / <y, y>` of the
pair it stores, that pair becomes the newest one of the history (the others
are kept when the restart did not fire), and in the first iteration
`q = grad`. -/
theorem two_loop_is_inverse_hessian (noVars : Nat) (window : Int) (st : MinimizeState K)
    (H : List ((Nat → XDouble K) × (Nat → XDouble K))) (hH : st.HistoryIs window H)
    (P : List ((Fin noVars → K) × (Fin noVars → K)))
    (hP : List.Forall₂ (fun (px : (Nat → XDouble K) × (Nat → XDouble K))
        (p : (Fin noVars → K) × (Fin noVars → K)) => ∀ i (hi : i < noVars),
          px.1 i = XDouble.fin (p.1 ⟨i, hi⟩) ∧ px.2 i = XDouble.fin (p.2 ⟨i, hi⟩))
      (H.take window.toNat) P)
    (hsy : ∀ p ∈ P, Matrix.dotProduct p.1 p.2 ≠ 0)
    (g : Fin noVars → K) (hg : ∀ i (hi : i < noVars), st.grad i = XDouble.fin (g ⟨i, hi⟩))
    (gamma : K) (hgamma : st.gamma_k = XDouble.fin gamma) :
    (ImplicitEngine.minimizeDirection noVars window st).1 =
      twoLoopRecursion noVars st.gamma_k (H.take window.toNat) st.grad ∧
    ((H.take window.toNat).length : Int) = min window st.k ∧
    (P.length : Int) = min window st.k ∧
    (∀ i (hi : i < noVars), (ImplicitEngine.minimizeDirection noVars window st).1 i =
      XDouble.fin ((lbfgsInverseHessian noVars gamma P).mulVec g ⟨i, hi⟩)) ∧
    (∀ (sqrt : K → K) (value : (Nat → XDouble K) → XDouble K)
      (valueGrad : (Nat → XDouble K) → XDouble K × (Nat → XDouble K)) (eps_x : XDouble K)
      (lsFuel : Nat) (st1 : MinimizeState K),
      ImplicitEngine.minimizeStep sqrt value valueGrad noVars window eps_x lsFuel st =
        some (st1, false) →
      st1.gamma_k =
        XDouble.dot noVars (fun i => st1.x0 i - st.x0 i) (fun i => st1.grad i - st.grad i) /
        XDouble.dot noVars (fun i => st1.grad i - st.grad i)
          (fun i => st1.grad i - st.grad i) ∧
      MinimizeState.HistoryIs window { st1 with k := st1.k + 1 }
        ((fun i => st1.x0 i - st.x0 i, fun i => st1.grad i - st.grad i) ::
          (if (XDouble.dot noVars (ImplicitEngine.minimizeDirection noVars window st).1
            st.grad).lt (XDouble.fin (1 / 10000)) = true then [] else H))) ∧
    (∀ (valueGrad : (Nat → XDouble K) → XDouble K × (Nat → XDouble K)) (newtonIter : Int)
      (x0 : Nat → XDouble K),
      (ImplicitEngine.minimizeDirection noVars window
        (ImplicitEngine.minimizeInit valueGrad noVars newtonIter x0)).1 =
        (ImplicitEngine.minimizeInit valueGrad noVars newtonIter x0).grad) := by
  have hlen : ((H.take window.toNat).length : Int) = min window st.k := by
    obtain ⟨hk, he0, he, _⟩ := hH
    rw [List.length_take, hk]
    omega
  refine ⟨minimizeDirection_eq_twoLoop noVars window st H hH, hlen, ?_,
    minimizeDirection_fin noVars window st H hH P hP hsy g hg gamma hgamma, ?_,
    fun valueGrad newtonIter x0 => minimizeDirection_first valueGrad noVars window newtonIter x0⟩
  · rw [← hlen, hP.length_eq]
  · intro sqrt value valueGrad eps_x lsFuel st1 hstep
    exact ⟨minimizeStep_gamma sqrt value valueGrad noVars window eps_x lsFuel st st1 hstep,
      minimizeStep_history sqrt value valueGrad noVars window eps_x lsFuel st st1 H hH.2.1
        hH.2.2.1 (fun _ => hH) hstep⟩

/-- The history of the state `onePairState`: the one pair `(2, 1)`. -/
theorem onePairState_history (grad gamma : XDouble K) :
    (onePairState grad gamma).HistoryIs 5 [(fun _ => XDouble.fin 2, fun _ => XDouble.fin 1)] := by
  refine ⟨rfl, show (0 : Int) ≤ 1 by decide, show (1 : Int) < 5 by decide, ?_⟩
  intro i p hp _
  cases i with
  | zero =>
    have : (fun _ => XDouble.fin 2, fun _ => XDouble.fin 1) = p := Option.some.inj hp
    rw [← this]
    exact ⟨rfl, rfl⟩
  | succ i => exact absurd hp (by simp)

/-- C38, instance: one variable, window 5, the one stored pair `s = 2`,
`y = 1`, the gradient 3 and `gamma_k = 2`. -/
theorem two_loop_is_inverse_hessian_witness :
    (onePairState (XDouble.fin (3 : ℚ)) (XDouble.fin 2)).HistoryIs 5
      [(fun _ => XDouble.fin 2, fun _ => XDouble.fin 1)] ∧
    (∀ p ∈ [((fun _ => 2 : Fin 1 → ℚ), (fun _ => 1 : Fin 1 → ℚ))],
      Matrix.dotProduct p.1 p.2 ≠ 0) ∧
    ∀ i (hi : i < 1),
      (ImplicitEngine.minimizeDirection 1 5
        (onePairState (XDouble.fin (3 : ℚ)) (XDouble.fin 2))).1 i =
      XDouble.fin ((lbfgsInverseHessian 1 (2 : ℚ) [(fun _ => 2, fun _ => 1)]).mulVec
        (fun _ => 3) ⟨i, hi⟩) := by
  have hsy : ∀ p ∈ [((fun _ => 2 : Fin 1 → ℚ), (fun _ => 1 : Fin 1 → ℚ))],
      Matrix.dotProduct p.1 p.2 ≠ 0 := by
    intro p hp
    rw [List.mem_singleton] at hp
    rw [hp]
    simp [Matrix.dotProduct]
  exact ⟨onePairState_history _ _, hsy,
    (two_loop_is_inverse_hessian 1 5 (onePairState (XDouble.fin (3 : ℚ)) (XDouble.fin 2))
      [(fun _ => XDouble.fin 2, fun _ => XDouble.fin 1)] (onePairState_history _ _)
      [(fun _ => 2, fun _ => 1)]
      (List.Forall₂.cons (fun _ _ => ⟨rfl, rfl⟩) List.Forall₂.nil) hsy (fun _ => 3)
      (fun _ _ => rfl) 2 rfl).2.2.2.1⟩

/-- C39, the secant equation: in a state of `minimize` whose history has the
newest pair `(s, y)`, with the `min (window, k)` newest pairs finite and
`<s_j, y_j> ≠ 0` for each of them, and with `gamma_k = <s, y> / <y, y>` of the
newest pair, the two-loop recursion applied to the input vector `y` (the
gradient of the state is `y`) yields exactly `s`. -/
theorem two_loop_secant (noVars : Nat) (window : Int) (st : MinimizeState K)
    (px : (Nat → XDouble K) × (Nat → XDouble K))
    (Hx : List ((Nat → XDouble K) × (Nat → XDouble K)))
    (hH : st.HistoryIs window (px :: Hx))
    (p : (Fin noVars → K) × (Fin noVars → K)) (P : List ((Fin noVars → K) × (Fin noVars → K)))
    (hP : List.Forall₂ (fun (px : (Nat → XDouble K) × (Nat → XDouble K))
        (p : (Fin noVars → K) × (Fin noVars → K)) => ∀ i (hi : i < noVars),
          px.1 i = XDouble.fin (p.1 ⟨i, hi⟩) ∧ px.2 i = XDouble.fin (p.2 ⟨i, hi⟩))
      ((px :: Hx).take window.toNat) (p :: P))
    (hsy : ∀ p' ∈ p :: P, Matrix.dotProduct p'.1 p'.2 ≠ 0)
    (hg : ∀ i, i < noVars → st.grad i = px.2 i)
    (hgamma : st.gamma_k = XDouble.dot noVars px.1 px.2 / XDouble.dot noVars px.2 px.2) :
    ∀ i, i < noVars → (ImplicitEngine.minimizeDirection noVars window st).1 i = px.1 i := by
  intro i hi
  have hw : window.toNat = (window.toNat - 1) + 1 := by
    obtain ⟨_, he0, he, _⟩ := hH
    omega
  have hR : ∀ j (hj : j < noVars),
      px.1 j = XDouble.fin (p.1 ⟨j, hj⟩) ∧ px.2 j = XDouble.fin (p.2 ⟨j, hj⟩) := by
    have hP2 := hP
    rw [hw, List.take_succ_cons] at hP2
    exact (List.forall₂_cons.1 hP2).1
  have hd : Matrix.dotProduct p.1 p.2 ≠ 0 := hsy p (List.mem_cons_self _ _)
  have hyy : Matrix.dotProduct p.2 p.2 ≠ 0 := by
    intro h0
    apply hd
    rw [Matrix.dotProduct_self_eq_zero.1 h0, Matrix.dotProduct_zero]
  have hgam : st.gamma_k =
      XDouble.fin (Matrix.dotProduct p.1 p.2 / Matrix.dotProduct p.2 p.2) := by
    rw [hgamma, XDouble.dot_of_fin noVars px.1 px.2 p.1 p.2 (fun j hj => (hR j hj).1)
      (fun j hj => (hR j hj).2),
      XDouble.dot_of_fin noVars px.2 px.2 p.2 p.2 (fun j hj => (hR j hj).2)
      (fun j hj => (hR j hj).2), XDouble.fin_div _ _ hyy]
  rw [minimizeDirection_fin noVars window st (px :: Hx) hH (p :: P) hP hsy p.2
    (fun j hj => by rw [hg j hj]; exact (hR j hj).2) _ hgam i hi, (hR i hi).1]
  show XDouble.fin ((((1 - (1 / Matrix.dotProduct p.1 p.2) • Matrix.vecMulVec p.1 p.2) *
        lbfgsInverseHessian noVars _ P *
        (1 - (1 / Matrix.dotProduct p.1 p.2) • Matrix.vecMulVec p.2 p.1) +
      (1 / Matrix.dotProduct p.1 p.2) • Matrix.vecMulVec p.1 p.1).mulVec p.2) ⟨i, hi⟩) = _
  rw [lbfgs_update_secant _ _ _ hd]

/-- C39, instance: one variable, window 5, the one stored pair `s = 2`,
`y = 1`, `gamma_k = <s, y> / <y, y>` and the input `y`: the two-loop recursion
yields `s = 2`. -/
theorem two_loop_secant_witness :
    (∀ p' ∈ [((fun _ => 2 : Fin 1 → ℚ), (fun _ => 1 : Fin 1 → ℚ))],
      Matrix.dotProduct p'.1 p'.2 ≠ 0) ∧
    ∀ i, i < 1 →
      (ImplicitEngine.minimizeDirection 1 5
        (onePairState (XDouble.fin (1 : ℚ))
          (XDouble.dot 1 (fun _ => XDouble.fin 2) (fun _ => XDouble.fin 1) /
            XDouble.dot 1 (fun _ => XDouble.fin 1) (fun _ => XDouble.fin 1)))).1 i =
      XDouble.fin 2 := by
  have hsy : ∀ p' ∈ [((fun _ => 2 : Fin 1 → ℚ), (fun _ => 1 : Fin 1 → ℚ))],
      Matrix.dotProduct p'.1 p'.2 ≠ 0 := by
    intro p hp
    rw [List.mem_singleton] at hp
    rw [hp]
    simp [Matrix.dotProduct]
  exact ⟨hsy, two_loop_secant 1 5
    (onePairState (XDouble.fin (1 : ℚ))
      (XDouble.dot 1 (fun _ => XDouble.fin 2) (fun _ => XDouble.fin 1) /
        XDouble.dot 1 (fun _ => XDouble.fin 1) (fun _ => XDouble.fin 1)))
    (fun _ => XDouble.fin 2, fun _ => XDouble.fin 1) [] (onePairState_history _ _)
    (fun _ => 2, fun _ => 1) []
    (List.Forall₂.cons (fun _ _ => ⟨rfl, rfl⟩) List.Forall₂.nil) hsy (fun _ _ => rfl) rfl⟩

end twoLoop

end ImplicitCrowds
